import Mathlib

/-!
# Verification of the cilk5 kernels (fft.c, lu.c, strassen.c, nqueens.c)

Shallow embedding of the C sources.  Conventions used throughout:

* C arrays are total functions `Nat → α`; a pointer is a buffer together with an
  offset, and pointer arithmetic is arithmetic on the offset.
* Sizes and indices (`int` / `unsigned` values that the sources keep non-negative)
  are natural numbers; index arithmetic is not wrapped.
* Where the width of a machine integer matters (the `int` sum of nqueens.c, the `unsigned`
  allocation size of strassen.c) the arithmetic is taken modulo `2^32`.
* `REAL` is an arbitrary commutative ring or field `R` (exact arithmetic).
* `cilk_spawn` / `cilk_scope` / `cilk_for` are read as their serial elision; for lu.c the
  groups of calls between two sync points are kept besides, in `Lu.Call.scopes`.
* Memory obtained from `malloc` is a block of the requested size at the address returned
  (the call is taken to succeed); a routine whose stores leave that block has undefined
  behaviour and returns `none` there.
* A routine whose C recursion or loop does not terminate on some input returns
  `none` there.
-/

/-! ## Loops -/

namespace Loop

/-- A counted loop `for (i = a; i < b; ++i) s = body(i, s)`. -/
def forUp.go {σ : Type} (body : Nat → σ → σ) : Nat → Nat → σ → σ
  | 0, _, s => s
  | c + 1, i, s => forUp.go body c (i + 1) (body i s)

/-- A counted loop `for (i = a; i < b; ++i) s = body(i, s)`: it runs `b - a` times. -/
def forUp {σ : Type} (a b : Nat) (body : Nat → σ → σ) (s : σ) : σ :=
  forUp.go body (b - a) a s

/-- A strided loop `for (i = a; i < b; i += step) s = body(i, s)`. -/
def forUpBy.go {σ : Type} (step : Nat) (body : Nat → σ → σ) : Nat → Nat → σ → σ
  | 0, _, s => s
  | c + 1, i, s => forUpBy.go step body c (i + step) (body i s)

/-- A strided loop `for (i = a; i < b; i += step) s = body(i, s)` with `step ≥ 1`: it runs
`⌈(b - a) / step⌉` times. -/
def forUpBy {σ : Type} (a b step : Nat) (body : Nat → σ → σ) (s : σ) : σ :=
  forUpBy.go step body ((b - a + (step - 1)) / step) a s

/-- A counted loop `for (i = a; i < b; ++i) s = body(i, s)` whose body may fail with a fault
of type `ε`. -/
def forUpM.go {ε σ : Type} (body : Nat → σ → Except ε σ) : Nat → Nat → σ → Except ε σ
  | 0, _, s => Except.ok s
  | c + 1, i, s =>
    match body i s with
    | Except.error e => Except.error e
    | Except.ok s => forUpM.go body c (i + 1) s

/-- A counted loop `for (i = a; i < b; ++i) s = body(i, s)` whose body may fail: it runs
`b - a` times, up to the first fault. -/
def forUpM {ε σ : Type} (a b : Nat) (body : Nat → σ → Except ε σ) (s : σ) : Except ε σ :=
  forUpM.go body (b - a) a s

/-- A loop `for (k = k0; k < n; k += m) s = body(k, s)` whose body may fail.  `fuel` bounds
the number of iterations: with `m ≥ 1` the loop runs at most `n` times; with `m = 0` and
`k < n` the C loop never ends, and the result is `none` once the fuel is used up. -/
def forStep {σ : Type} (n m : Nat) (body : Nat → σ → Option σ) : Nat → Nat → σ → Option σ
  | 0, k, s => if k < n then none else some s
  | fuel + 1, k, s =>
    if k < n then
      match body k s with
      | none => none
      | some s => forStep n m body fuel (k + m) s
    else some s

/-- The outcome `x` of a run that may fail: a result satisfies `P`, a fault satisfies `E`. -/
def Sat {ε σ : Type} (E : ε → Prop) (P : σ → Prop) : Except ε σ → Prop
  | Except.ok s => P s
  | Except.error e => E e

/-- Two runs that may fail end alike: with the same fault, or with results related by `Q`. -/
def Rel2 {ε σ : Type} (Q : σ → σ → Prop) : Except ε σ → Except ε σ → Prop
  | Except.ok s, Except.ok t => Q s t
  | Except.error e, Except.error e1 => e = e1
  | Except.ok _, Except.error _ => False
  | Except.error _, Except.ok _ => False

end Loop

/-! ## fft.c : definitions -/

namespace Fft

open Loop

/-- The `COMPLEX` struct of fft.c: a pair of `REAL`s. -/
structure COMPLEX (R : Type) where
  re : R
  im : R
deriving DecidableEq, Repr

/-- The search loop of `factor`: `for (r = r0; r < n; r += 2) if (n % r == 0) return r;`
followed by `return n`. -/
def factor_loop (n r : Nat) : Nat :=
  if r < n then
    if n % r = 0 then r else factor_loop n (r + 2)
  else n
termination_by n - r

/-- The function `factor` of fft.c. -/
def factor (n : Nat) : Nat :=
  if n < 2 then 1
  else if n = 64 ∨ n = 128 ∨ n = 256 ∨ n = 1024 ∨ n = 2048 ∨ n = 4096 then 8
  else if n &&& 15 = 0 then 16
  else if n &&& 7 = 0 then 8
  else if n &&& 3 = 0 then 4
  else if n &&& 1 = 0 then 2
  else factor_loop n 3

/-- Termination lemma for the factoring loop: on `n ≥ 2` the search loop started at an
`r ≥ 2` returns a divisor of `n` that is at least 2. -/
theorem factor_loop_spec (n r : Nat) (hr : 2 ≤ r) (hn : r ≤ n) :
    factor_loop n r ∣ n ∧ 2 ≤ factor_loop n r := by
  obtain ⟨d, hd⟩ : ∃ d, d = n - r := ⟨_, rfl⟩
  induction d using Nat.strong_induction_on generalizing r with
  | _ d ih =>
    rw [factor_loop]
    split_ifs with h1 h2
    · exact ⟨Nat.dvd_of_mod_eq_zero h2, hr⟩
    · by_cases h3 : r + 2 ≤ n
      · exact ih (n - (r + 2)) (by omega) (r + 2) (by omega) h3 rfl
      · rw [factor_loop]
        rw [if_neg (by omega)]
        exact ⟨dvd_rfl, by omega⟩
    · exact ⟨dvd_rfl, by omega⟩

theorem and_15 (n : Nat) : n &&& 15 = n % 16 := Nat.and_pow_two_sub_one_eq_mod n 4

theorem and_7 (n : Nat) : n &&& 7 = n % 8 := Nat.and_pow_two_sub_one_eq_mod n 3

theorem and_3 (n : Nat) : n &&& 3 = n % 4 := Nat.and_pow_two_sub_one_eq_mod n 2

theorem and_1 (n : Nat) : n &&& 1 = n % 2 := Nat.and_pow_two_sub_one_eq_mod n 1

/-- Termination lemma for the factoring loop: `factor n` is a divisor of `n`, at least 2,
for every `n ≥ 2`. -/
theorem factor_spec (n : Nat) (hn : 2 ≤ n) : factor n ∣ n ∧ 2 ≤ factor n := by
  unfold factor
  simp only [and_15, and_7, and_3, and_1]
  split_ifs with h1 h2 h3 h4 h5 h6
  · omega
  · rcases h2 with h | h | h | h | h | h <;> subst h <;> exact ⟨by decide, by decide⟩
  · exact ⟨Nat.dvd_of_mod_eq_zero h3, by decide⟩
  · exact ⟨Nat.dvd_of_mod_eq_zero h4, by decide⟩
  · exact ⟨Nat.dvd_of_mod_eq_zero h5, by decide⟩
  · exact ⟨Nat.dvd_of_mod_eq_zero h6, by decide⟩
  · exact factor_loop_spec n 3 (by decide) (by omega)

/-- The factoring loop of `cilk_fft`:
`do { r = factor(l); *p++ = r; l /= r; } while (l > 1);`
started with `l`; the result is the sequence of values stored through `p`. -/
def factor_list (l : Nat) : List Nat :=
  let r := factor l
  if l / r > 1 then r :: factor_list (l / r) else [r]
termination_by l
decreasing_by
  rename_i h
  have h2 : 2 ≤ l := by
    by_contra hc
    have h1 : factor l = 1 := by unfold factor; rw [if_pos (by omega)]
    have h3 : l / factor l > 1 := h
    rw [h1, Nat.div_one] at h3
    omega
  exact Nat.div_lt_self (by omega) (factor_spec l h2).2

/-- A C array of `COMPLEX`: a total function from indices to values. -/
abbrev Buf (R : Type) := Nat → COMPLEX R

variable {R : Type}

/-- The assignment `c_re(b[k]) = v`. -/
def setRe (b : Buf R) (k : Nat) (v : R) : Buf R :=
  fun j => if j = k then ⟨v, (b j).im⟩ else b j

/-- The assignment `c_im(b[k]) = v`. -/
def setIm (b : Buf R) (k : Nat) (v : R) : Buf R :=
  fun j => if j = k then ⟨(b j).re, v⟩ else b j

/-- The struct assignment `b[k] = v`. -/
def store (b : Buf R) (k : Nat) (v : COMPLEX R) : Buf R :=
  fun j => if j = k then v else b j

/-- The decimal constants that occur in the machine-generated kernels, one field per
literal: `c0_707106781187` stands for the literal `0.707106781187`, and so on. -/
structure Consts (R : Type) where
  c0_195090322016 : R
  c0_382683432365 : R
  c0_55557023302 : R
  c0_707106781187 : R
  c0_831469612303 : R
  c0_923879532511 : R
  c0_980785280403 : R

/-- The function `compute_w_coefficients` of fft.c.  The library functions `cos` and
`sin` and the literal `3.1415926535897932384626434` are the parameters `cosf`, `sinf`
and `pi`. -/
def compute_w_coefficients [Mul R] [Div R] [Neg R] [NatCast R] (cosf sinf : R → R) (pi : R)
    (n a b : Nat) (W : Buf R) : Buf R :=
  if b - a < 128 then
    let twoPiOverN : R := ((2 : Nat) : R) * pi / (n : R)
    forUp a (b + 1) (fun k W =>
      let c := cosf (twoPiOverN * (k : R))
      let W := setRe W (n - k) c
      let W := setRe W k c
      let s := sinf (twoPiOverN * (k : R))
      let W := setIm W k (-s)
      let W := setIm W (n - k) s
      W) W
  else
    let ab := (a + b) / 2
    let W := compute_w_coefficients cosf sinf pi n a ab W
    compute_w_coefficients cosf sinf pi n (ab + 1) b W
termination_by b - a
decreasing_by all_goals omega

/-- The first inner loop of `unshuffle`: `for (j = 0; j < r4; j += 4) { ... }`, with the
loop-carried `j`, `ip`, `jp` and the buffer `out` as the state. -/
def unshuffle_loop4 (inp : Buf R) (m r4 : Nat) (j ip jp : Nat) (out : Buf R) :
    Nat × Nat × Nat × Buf R :=
  if j < r4 then
    let out := store out (jp + 0) (inp (ip + 0))
    let out := store out (jp + m) (inp (ip + 1))
    let out := store out (jp + 2 * m) (inp (ip + 2))
    let out := store out (jp + 3 * m) (inp (ip + 3))
    unshuffle_loop4 inp m r4 (j + 4) (ip + 4) (jp + 4 * m) out
  else (j, ip, jp, out)
termination_by r4 - j

/-- The second inner loop of `unshuffle`: `for (; j < r; ++j) { *jp = *ip; ip++; jp += m; }`,
with state `(ip, jp, out)`. -/
def unshuffle_loop1 (inp : Buf R) (m : Nat) (j r : Nat) (ip jp : Nat) (out : Buf R) :
    Nat × Nat × Buf R :=
  forUp j r (fun _ st =>
    let ip := st.1
    let jp := st.2.1
    let out := st.2.2
    let out := store out jp (inp ip)
    (ip + 1, jp + m, out)) (ip, jp, out)

/-- The function `unshuffle` of fft.c; `in` is `inp + io`, `out` is `out + oo`.
`r & (~0x3)` clears the two low bits of `r`. -/
def unshuffle (a b : Nat) (inp : Buf R) (io : Nat) (out : Buf R) (oo : Nat) (r m : Nat) :
    Buf R :=
  let r4 := r - (r &&& 3)
  if b - a < 16 then
    let ip := io + a * r
    (forUp a b (fun i st =>
      let ip := st.1
      let out := st.2
      let jp := oo + i
      let st4 := unshuffle_loop4 inp m r4 0 ip jp out
      let st1 := unshuffle_loop1 inp m st4.1 r st4.2.1 st4.2.2.1 st4.2.2.2
      (st1.1, st1.2.2)) (ip, out)).2
  else
    let ab := (a + b) / 2
    let out := unshuffle a ab inp io out oo r m
    unshuffle ab b inp io out oo r m
termination_by b - a
decreasing_by all_goals omega

/-- The function `fft_twiddle_gen1` of fft.c; `in` is `inp + io`, `out` is `out + oo`. -/
def fft_twiddle_gen1 [Zero R] [Add R] [Sub R] [Mul R] (inp : Buf R) (io : Nat) (out : Buf R)
    (oo : Nat) (W : Buf R) (r m nW nWdnti nWdntm : Nat) : Buf R :=
  (forUp 0 r (fun k st =>
    let kp := st.1
    let out := st.2
    let l1 := nWdnti + nWdntm * k
    let acc := forUp 0 r (fun _ acc =>
      let jp := acc.1
      let l0 := acc.2.1
      let r0 := acc.2.2.1
      let i0 := acc.2.2.2
      let rw := (W l0).re
      let iw := (W l0).im
      let rt := (inp jp).re
      let it := (inp jp).im
      let r0 := r0 + (rt * rw - it * iw)
      let i0 := i0 + (rt * iw + it * rw)
      let l0 := l0 + l1
      let l0 := if l0 > nW then l0 - nW else l0
      (jp + m, l0, r0, i0)) (io, 0, (0 : R), (0 : R))
    let r0 := acc.2.2.1
    let i0 := acc.2.2.2
    let out := setRe out kp r0
    let out := setIm out kp i0
    (kp + m, out)) (oo, out)).2

/-- The function `fft_twiddle_gen` of fft.c.  For `i1 ≤ i` the C recursion never reaches
its base case `i == i1 - 1`; the result is `none` there. -/
def fft_twiddle_gen [Zero R] [Add R] [Sub R] [Mul R] (i i1 : Nat) (inp : Buf R) (io : Nat)
    (out : Buf R) (oo : Nat) (W : Buf R) (nW nWdn r m : Nat) : Option (Buf R) :=
  if i + 1 = i1 then
    some (fft_twiddle_gen1 inp (io + i) out (oo + i) W r m nW (nWdn * i) (nWdn * m))
  else if i + 1 < i1 then
    let i2 := (i + i1) / 2
    match fft_twiddle_gen i i2 inp io out oo W nW nWdn r m with
    | none => none
    | some out => fft_twiddle_gen i2 i1 inp io out oo W nW nWdn r m
  else none
termination_by i1 - i
decreasing_by all_goals omega

/-- The kernel `fft_base_2` of fft.c (lines 210-222), statement by statement;
`in` is `inp + io`, `out` is `out + oo`. -/
def fft_base_2 [Add R] [Sub R] (inp : Buf R) (io : Nat) (out : Buf R) (oo : Nat) : Buf R :=
  let r1_0 := (inp (io + 0)).re
  let i1_0 := (inp (io + 0)).im
  let r1_1 := (inp (io + 1)).re
  let i1_1 := (inp (io + 1)).im
  let out := setRe out (oo + 0) (r1_0 + r1_1)
  let out := setIm out (oo + 0) (i1_0 + i1_1)
  let out := setRe out (oo + 1) (r1_0 - r1_1)
  let out := setIm out (oo + 1) (i1_0 - i1_1)
  out

/-- The body of the `for` loop of `fft_twiddle_2` (fft.c lines 233-253) for the
loop-carried `i`, `l1` and `kp` (an offset into `out`); `in` is `inp + io`. -/
def fft_twiddle_2_body [Add R] [Sub R] [Mul R] (W : Buf R) (m : Nat)
    (inp : Buf R) (io : Nat) (i l1 kp : Nat) (out : Buf R) : Buf R :=
  let jp := io + i
  let r1_0 := (inp (jp + 0 * m)).re
  let i1_0 := (inp (jp + 0 * m)).im
  let wr := (W (1 * l1)).re
  let wi := (W (1 * l1)).im
  let tmpr := (inp (jp + 1 * m)).re
  let tmpi := (inp (jp + 1 * m)).im
  let r1_1 := (wr * tmpr) - (wi * tmpi)
  let i1_1 := (wi * tmpr) + (wr * tmpi)
  let out := setRe out (kp + 0 * m) (r1_0 + r1_1)
  let out := setIm out (kp + 0 * m) (i1_0 + i1_1)
  let out := setRe out (kp + 1 * m) (r1_0 - r1_1)
  let out := setIm out (kp + 1 * m) (i1_0 - i1_1)
  out

/-- The function `fft_twiddle_2` of fft.c; `in` is `inp + io`, `out` is `out + oo`. -/
def fft_twiddle_2 [Add R] [Sub R] [Mul R] (a b : Nat) (inp : Buf R)
    (io : Nat) (out : Buf R) (oo : Nat) (W : Buf R) (nW nWdn m : Nat) : Buf R :=
  if b - a < 128 then
    (forUp a b (fun i st =>
      let l1 := st.1
      let kp := st.2.1
      let out := st.2.2
      let out := fft_twiddle_2_body W m inp io i l1 kp out
      (l1 + nWdn, kp + 1, out)) (nWdn * a, oo + a, out)).2.2
  else
    let ab := (a + b) / 2
    let out := fft_twiddle_2 a ab inp io out oo W nW nWdn m
    fft_twiddle_2 ab b inp io out oo W nW nWdn m
termination_by b - a
decreasing_by all_goals omega

/-- The body of the `for` loop of `fft_unshuffle_2` (fft.c lines 276-281) at index `i`;
the state is the read pointer `ip` (an offset into `inp`) and the buffer `out`. -/
def fft_unshuffle_2_body (m : Nat) (inp : Buf R) (oo : Nat) (i : Nat)
    (st : Nat × Buf R) : Nat × Buf R :=
  let ip := st.1
  let out := st.2
  let jp := oo + i
  let out := store out (jp + 0) (inp (ip + 0))
  let out := store out (jp + m) (inp (ip + 1))
  let ip := ip + 2
  (ip, out)

/-- The function `fft_unshuffle_2` of fft.c; `in` is `inp + io`, `out` is `out + oo`. -/
def fft_unshuffle_2 (a b : Nat) (inp : Buf R) (io : Nat) (out : Buf R) (oo : Nat)
    (m : Nat) : Buf R :=
  if b - a < 128 then
    let ip := io + a * 2
    (forUp a b (fft_unshuffle_2_body m inp oo) (ip, out)).2
  else
    let ab := (a + b) / 2
    let out := fft_unshuffle_2 a ab inp io out oo m
    fft_unshuffle_2 ab b inp io out oo m
termination_by b - a
decreasing_by all_goals omega

/-- The kernel `fft_base_4` of fft.c (lines 296-334), statement by statement;
`in` is `inp + io`, `out` is `out + oo`. -/
def fft_base_4 [Add R] [Sub R] (inp : Buf R) (io : Nat) (out : Buf R) (oo : Nat) : Buf R :=
  let r2_0 := (inp (io + 0)).re
  let i2_0 := (inp (io + 0)).im
  let r2_2 := (inp (io + 2)).re
  let i2_2 := (inp (io + 2)).im
  let r1_0 := r2_0 + r2_2
  let i1_0 := i2_0 + i2_2
  let r1_2 := r2_0 - r2_2
  let i1_2 := i2_0 - i2_2
  let r2_1 := (inp (io + 1)).re
  let i2_1 := (inp (io + 1)).im
  let r2_3 := (inp (io + 3)).re
  let i2_3 := (inp (io + 3)).im
  let r1_1 := r2_1 + r2_3
  let i1_1 := i2_1 + i2_3
  let r1_3 := r2_1 - r2_3
  let i1_3 := i2_1 - i2_3
  let out := setRe out (oo + 0) (r1_0 + r1_1)
  let out := setIm out (oo + 0) (i1_0 + i1_1)
  let out := setRe out (oo + 2) (r1_0 - r1_1)
  let out := setIm out (oo + 2) (i1_0 - i1_1)
  let out := setRe out (oo + 1) (r1_2 + i1_3)
  let out := setIm out (oo + 1) (i1_2 - r1_3)
  let out := setRe out (oo + 3) (r1_2 - i1_3)
  let out := setIm out (oo + 3) (i1_2 + r1_3)
  out

/-- The body of the `for` loop of `fft_twiddle_4` (fft.c lines 345-398) for the
loop-carried `i`, `l1` and `kp` (an offset into `out`); `in` is `inp + io`. -/
def fft_twiddle_4_body [Add R] [Sub R] [Mul R] (W : Buf R) (m : Nat)
    (inp : Buf R) (io : Nat) (i l1 kp : Nat) (out : Buf R) : Buf R :=
  let jp := io + i
  let r2_0 := (inp (jp + 0 * m)).re
  let i2_0 := (inp (jp + 0 * m)).im
  let wr := (W (2 * l1)).re
  let wi := (W (2 * l1)).im
  let tmpr := (inp (jp + 2 * m)).re
  let tmpi := (inp (jp + 2 * m)).im
  let r2_2 := (wr * tmpr) - (wi * tmpi)
  let i2_2 := (wi * tmpr) + (wr * tmpi)
  let r1_0 := r2_0 + r2_2
  let i1_0 := i2_0 + i2_2
  let r1_2 := r2_0 - r2_2
  let i1_2 := i2_0 - i2_2
  let wr := (W (1 * l1)).re
  let wi := (W (1 * l1)).im
  let tmpr := (inp (jp + 1 * m)).re
  let tmpi := (inp (jp + 1 * m)).im
  let r2_1 := (wr * tmpr) - (wi * tmpi)
  let i2_1 := (wi * tmpr) + (wr * tmpi)
  let wr := (W (3 * l1)).re
  let wi := (W (3 * l1)).im
  let tmpr := (inp (jp + 3 * m)).re
  let tmpi := (inp (jp + 3 * m)).im
  let r2_3 := (wr * tmpr) - (wi * tmpi)
  let i2_3 := (wi * tmpr) + (wr * tmpi)
  let r1_1 := r2_1 + r2_3
  let i1_1 := i2_1 + i2_3
  let r1_3 := r2_1 - r2_3
  let i1_3 := i2_1 - i2_3
  let out := setRe out (kp + 0 * m) (r1_0 + r1_1)
  let out := setIm out (kp + 0 * m) (i1_0 + i1_1)
  let out := setRe out (kp + 2 * m) (r1_0 - r1_1)
  let out := setIm out (kp + 2 * m) (i1_0 - i1_1)
  let out := setRe out (kp + 1 * m) (r1_2 + i1_3)
  let out := setIm out (kp + 1 * m) (i1_2 - r1_3)
  let out := setRe out (kp + 3 * m) (r1_2 - i1_3)
  let out := setIm out (kp + 3 * m) (i1_2 + r1_3)
  out

/-- The function `fft_twiddle_4` of fft.c; `in` is `inp + io`, `out` is `out + oo`. -/
def fft_twiddle_4 [Add R] [Sub R] [Mul R] (a b : Nat) (inp : Buf R)
    (io : Nat) (out : Buf R) (oo : Nat) (W : Buf R) (nW nWdn m : Nat) : Buf R :=
  if b - a < 128 then
    (forUp a b (fun i st =>
      let l1 := st.1
      let kp := st.2.1
      let out := st.2.2
      let out := fft_twiddle_4_body W m inp io i l1 kp out
      (l1 + nWdn, kp + 1, out)) (nWdn * a, oo + a, out)).2.2
  else
    let ab := (a + b) / 2
    let out := fft_twiddle_4 a ab inp io out oo W nW nWdn m
    fft_twiddle_4 ab b inp io out oo W nW nWdn m
termination_by b - a
decreasing_by all_goals omega

/-- The body of the `for` loop of `fft_unshuffle_4` (fft.c lines 421-430) at index `i`;
the state is the read pointer `ip` (an offset into `inp`) and the buffer `out`. -/
def fft_unshuffle_4_body (m : Nat) (inp : Buf R) (oo : Nat) (i : Nat)
    (st : Nat × Buf R) : Nat × Buf R :=
  let ip := st.1
  let out := st.2
  let jp := oo + i
  let out := store out (jp + 0) (inp (ip + 0))
  let out := store out (jp + m) (inp (ip + 1))
  let ip := ip + 2
  let jp := jp + 2 * m
  let out := store out (jp + 0) (inp (ip + 0))
  let out := store out (jp + m) (inp (ip + 1))
  let ip := ip + 2
  (ip, out)

/-- The function `fft_unshuffle_4` of fft.c; `in` is `inp + io`, `out` is `out + oo`. -/
def fft_unshuffle_4 (a b : Nat) (inp : Buf R) (io : Nat) (out : Buf R) (oo : Nat)
    (m : Nat) : Buf R :=
  if b - a < 128 then
    let ip := io + a * 4
    (forUp a b (fft_unshuffle_4_body m inp oo) (ip, out)).2
  else
    let ab := (a + b) / 2
    let out := fft_unshuffle_4 a ab inp io out oo m
    fft_unshuffle_4 ab b inp io out oo m
termination_by b - a
decreasing_by all_goals omega

/-- The kernel `fft_base_8` of fft.c (lines 445-554), statement by statement;
`in` is `inp + io`, `out` is `out + oo`. -/
def fft_base_8 [Add R] [Sub R] [Mul R] (K : Consts R) (inp : Buf R) (io : Nat) (out : Buf R) (oo : Nat) : Buf R :=
  let r3_0 := (inp (io + 0)).re
  let i3_0 := (inp (io + 0)).im
  let r3_4 := (inp (io + 4)).re
  let i3_4 := (inp (io + 4)).im
  let r2_0 := r3_0 + r3_4
  let i2_0 := i3_0 + i3_4
  let r2_4 := r3_0 - r3_4
  let i2_4 := i3_0 - i3_4
  let r3_2 := (inp (io + 2)).re
  let i3_2 := (inp (io + 2)).im
  let r3_6 := (inp (io + 6)).re
  let i3_6 := (inp (io + 6)).im
  let r2_2 := r3_2 + r3_6
  let i2_2 := i3_2 + i3_6
  let r2_6 := r3_2 - r3_6
  let i2_6 := i3_2 - i3_6
  let r1_0 := r2_0 + r2_2
  let i1_0 := i2_0 + i2_2
  let r1_4 := r2_0 - r2_2
  let i1_4 := i2_0 - i2_2
  let r1_2 := r2_4 + i2_6
  let i1_2 := i2_4 - r2_6
  let r1_6 := r2_4 - i2_6
  let i1_6 := i2_4 + r2_6
  let r3_1 := (inp (io + 1)).re
  let i3_1 := (inp (io + 1)).im
  let r3_5 := (inp (io + 5)).re
  let i3_5 := (inp (io + 5)).im
  let r2_1 := r3_1 + r3_5
  let i2_1 := i3_1 + i3_5
  let r2_5 := r3_1 - r3_5
  let i2_5 := i3_1 - i3_5
  let r3_3 := (inp (io + 3)).re
  let i3_3 := (inp (io + 3)).im
  let r3_7 := (inp (io + 7)).re
  let i3_7 := (inp (io + 7)).im
  let r2_3 := r3_3 + r3_7
  let i2_3 := i3_3 + i3_7
  let r2_7 := r3_3 - r3_7
  let i2_7 := i3_3 - i3_7
  let r1_1 := r2_1 + r2_3
  let i1_1 := i2_1 + i2_3
  let r1_5 := r2_1 - r2_3
  let i1_5 := i2_1 - i2_3
  let r1_3 := r2_5 + i2_7
  let i1_3 := i2_5 - r2_7
  let r1_7 := r2_5 - i2_7
  let i1_7 := i2_5 + r2_7
  let out := setRe out (oo + 0) (r1_0 + r1_1)
  let out := setIm out (oo + 0) (i1_0 + i1_1)
  let out := setRe out (oo + 4) (r1_0 - r1_1)
  let out := setIm out (oo + 4) (i1_0 - i1_1)
  let tmpr := K.c0_707106781187 * (r1_3 + i1_3)
  let tmpi := K.c0_707106781187 * (i1_3 - r1_3)
  let out := setRe out (oo + 1) (r1_2 + tmpr)
  let out := setIm out (oo + 1) (i1_2 + tmpi)
  let out := setRe out (oo + 5) (r1_2 - tmpr)
  let out := setIm out (oo + 5) (i1_2 - tmpi)
  let out := setRe out (oo + 2) (r1_4 + i1_5)
  let out := setIm out (oo + 2) (i1_4 - r1_5)
  let out := setRe out (oo + 6) (r1_4 - i1_5)
  let out := setIm out (oo + 6) (i1_4 + r1_5)
  let tmpr := K.c0_707106781187 * (i1_7 - r1_7)
  let tmpi := K.c0_707106781187 * (r1_7 + i1_7)
  let out := setRe out (oo + 3) (r1_6 + tmpr)
  let out := setIm out (oo + 3) (i1_6 - tmpi)
  let out := setRe out (oo + 7) (r1_6 - tmpr)
  let out := setIm out (oo + 7) (i1_6 + tmpi)
  out

/-- The body of the `for` loop of `fft_twiddle_8` (fft.c lines 564-701) for the
loop-carried `i`, `l1` and `kp` (an offset into `out`); `in` is `inp + io`. -/
def fft_twiddle_8_body [Add R] [Sub R] [Mul R] (K : Consts R) (W : Buf R) (m : Nat)
    (inp : Buf R) (io : Nat) (i l1 kp : Nat) (out : Buf R) : Buf R :=
  let jp := io + i
  let r3_0 := (inp (jp + 0 * m)).re
  let i3_0 := (inp (jp + 0 * m)).im
  let wr := (W (4 * l1)).re
  let wi := (W (4 * l1)).im
  let tmpr := (inp (jp + 4 * m)).re
  let tmpi := (inp (jp + 4 * m)).im
  let r3_4 := (wr * tmpr) - (wi * tmpi)
  let i3_4 := (wi * tmpr) + (wr * tmpi)
  let r2_0 := r3_0 + r3_4
  let i2_0 := i3_0 + i3_4
  let r2_4 := r3_0 - r3_4
  let i2_4 := i3_0 - i3_4
  let wr := (W (2 * l1)).re
  let wi := (W (2 * l1)).im
  let tmpr := (inp (jp + 2 * m)).re
  let tmpi := (inp (jp + 2 * m)).im
  let r3_2 := (wr * tmpr) - (wi * tmpi)
  let i3_2 := (wi * tmpr) + (wr * tmpi)
  let wr := (W (6 * l1)).re
  let wi := (W (6 * l1)).im
  let tmpr := (inp (jp + 6 * m)).re
  let tmpi := (inp (jp + 6 * m)).im
  let r3_6 := (wr * tmpr) - (wi * tmpi)
  let i3_6 := (wi * tmpr) + (wr * tmpi)
  let r2_2 := r3_2 + r3_6
  let i2_2 := i3_2 + i3_6
  let r2_6 := r3_2 - r3_6
  let i2_6 := i3_2 - i3_6
  let r1_0 := r2_0 + r2_2
  let i1_0 := i2_0 + i2_2
  let r1_4 := r2_0 - r2_2
  let i1_4 := i2_0 - i2_2
  let r1_2 := r2_4 + i2_6
  let i1_2 := i2_4 - r2_6
  let r1_6 := r2_4 - i2_6
  let i1_6 := i2_4 + r2_6
  let wr := (W (1 * l1)).re
  let wi := (W (1 * l1)).im
  let tmpr := (inp (jp + 1 * m)).re
  let tmpi := (inp (jp + 1 * m)).im
  let r3_1 := (wr * tmpr) - (wi * tmpi)
  let i3_1 := (wi * tmpr) + (wr * tmpi)
  let wr := (W (5 * l1)).re
  let wi := (W (5 * l1)).im
  let tmpr := (inp (jp + 5 * m)).re
  let tmpi := (inp (jp + 5 * m)).im
  let r3_5 := (wr * tmpr) - (wi * tmpi)
  let i3_5 := (wi * tmpr) + (wr * tmpi)
  let r2_1 := r3_1 + r3_5
  let i2_1 := i3_1 + i3_5
  let r2_5 := r3_1 - r3_5
  let i2_5 := i3_1 - i3_5
  let wr := (W (3 * l1)).re
  let wi := (W (3 * l1)).im
  let tmpr := (inp (jp + 3 * m)).re
  let tmpi := (inp (jp + 3 * m)).im
  let r3_3 := (wr * tmpr) - (wi * tmpi)
  let i3_3 := (wi * tmpr) + (wr * tmpi)
  let wr := (W (7 * l1)).re
  let wi := (W (7 * l1)).im
  let tmpr := (inp (jp + 7 * m)).re
  let tmpi := (inp (jp + 7 * m)).im
  let r3_7 := (wr * tmpr) - (wi * tmpi)
  let i3_7 := (wi * tmpr) + (wr * tmpi)
  let r2_3 := r3_3 + r3_7
  let i2_3 := i3_3 + i3_7
  let r2_7 := r3_3 - r3_7
  let i2_7 := i3_3 - i3_7
  let r1_1 := r2_1 + r2_3
  let i1_1 := i2_1 + i2_3
  let r1_5 := r2_1 - r2_3
  let i1_5 := i2_1 - i2_3
  let r1_3 := r2_5 + i2_7
  let i1_3 := i2_5 - r2_7
  let r1_7 := r2_5 - i2_7
  let i1_7 := i2_5 + r2_7
  let out := setRe out (kp + 0 * m) (r1_0 + r1_1)
  let out := setIm out (kp + 0 * m) (i1_0 + i1_1)
  let out := setRe out (kp + 4 * m) (r1_0 - r1_1)
  let out := setIm out (kp + 4 * m) (i1_0 - i1_1)
  let tmpr := K.c0_707106781187 * (r1_3 + i1_3)
  let tmpi := K.c0_707106781187 * (i1_3 - r1_3)
  let out := setRe out (kp + 1 * m) (r1_2 + tmpr)
  let out := setIm out (kp + 1 * m) (i1_2 + tmpi)
  let out := setRe out (kp + 5 * m) (r1_2 - tmpr)
  let out := setIm out (kp + 5 * m) (i1_2 - tmpi)
  let out := setRe out (kp + 2 * m) (r1_4 + i1_5)
  let out := setIm out (kp + 2 * m) (i1_4 - r1_5)
  let out := setRe out (kp + 6 * m) (r1_4 - i1_5)
  let out := setIm out (kp + 6 * m) (i1_4 + r1_5)
  let tmpr := K.c0_707106781187 * (i1_7 - r1_7)
  let tmpi := K.c0_707106781187 * (r1_7 + i1_7)
  let out := setRe out (kp + 3 * m) (r1_6 + tmpr)
  let out := setIm out (kp + 3 * m) (i1_6 - tmpi)
  let out := setRe out (kp + 7 * m) (r1_6 - tmpr)
  let out := setIm out (kp + 7 * m) (i1_6 + tmpi)
  out

/-- The function `fft_twiddle_8` of fft.c; `in` is `inp + io`, `out` is `out + oo`. -/
def fft_twiddle_8 [Add R] [Sub R] [Mul R] (K : Consts R) (a b : Nat) (inp : Buf R)
    (io : Nat) (out : Buf R) (oo : Nat) (W : Buf R) (nW nWdn m : Nat) : Buf R :=
  if b - a < 128 then
    (forUp a b (fun i st =>
      let l1 := st.1
      let kp := st.2.1
      let out := st.2.2
      let out := fft_twiddle_8_body K W m inp io i l1 kp out
      (l1 + nWdn, kp + 1, out)) (nWdn * a, oo + a, out)).2.2
  else
    let ab := (a + b) / 2
    let out := fft_twiddle_8 K a ab inp io out oo W nW nWdn m
    fft_twiddle_8 K ab b inp io out oo W nW nWdn m
termination_by b - a
decreasing_by all_goals omega

/-- The body of the `for` loop of `fft_unshuffle_8` (fft.c lines 722-739) at index `i`;
the state is the read pointer `ip` (an offset into `inp`) and the buffer `out`. -/
def fft_unshuffle_8_body (m : Nat) (inp : Buf R) (oo : Nat) (i : Nat)
    (st : Nat × Buf R) : Nat × Buf R :=
  let ip := st.1
  let out := st.2
  let jp := oo + i
  let out := store out (jp + 0) (inp (ip + 0))
  let out := store out (jp + m) (inp (ip + 1))
  let ip := ip + 2
  let jp := jp + 2 * m
  let out := store out (jp + 0) (inp (ip + 0))
  let out := store out (jp + m) (inp (ip + 1))
  let ip := ip + 2
  let jp := jp + 2 * m
  let out := store out (jp + 0) (inp (ip + 0))
  let out := store out (jp + m) (inp (ip + 1))
  let ip := ip + 2
  let jp := jp + 2 * m
  let out := store out (jp + 0) (inp (ip + 0))
  let out := store out (jp + m) (inp (ip + 1))
  let ip := ip + 2
  (ip, out)

/-- The function `fft_unshuffle_8` of fft.c; `in` is `inp + io`, `out` is `out + oo`. -/
def fft_unshuffle_8 (a b : Nat) (inp : Buf R) (io : Nat) (out : Buf R) (oo : Nat)
    (m : Nat) : Buf R :=
  if b - a < 128 then
    let ip := io + a * 8
    (forUp a b (fft_unshuffle_8_body m inp oo) (ip, out)).2
  else
    let ab := (a + b) / 2
    let out := fft_unshuffle_8 a ab inp io out oo m
    fft_unshuffle_8 ab b inp io out oo m
termination_by b - a
decreasing_by all_goals omega

/-- The kernel `fft_base_16` of fft.c (lines 754-1032), statement by statement;
`in` is `inp + io`, `out` is `out + oo`. -/
def fft_base_16 [Add R] [Sub R] [Mul R] (K : Consts R) (inp : Buf R) (io : Nat) (out : Buf R) (oo : Nat) : Buf R :=
  let r4_0 := (inp (io + 0)).re
  let i4_0 := (inp (io + 0)).im
  let r4_8 := (inp (io + 8)).re
  let i4_8 := (inp (io + 8)).im
  let r3_0 := r4_0 + r4_8
  let i3_0 := i4_0 + i4_8
  let r3_8 := r4_0 - r4_8
  let i3_8 := i4_0 - i4_8
  let r4_4 := (inp (io + 4)).re
  let i4_4 := (inp (io + 4)).im
  let r4_12 := (inp (io + 12)).re
  let i4_12 := (inp (io + 12)).im
  let r3_4 := r4_4 + r4_12
  let i3_4 := i4_4 + i4_12
  let r3_12 := r4_4 - r4_12
  let i3_12 := i4_4 - i4_12
  let r2_0 := r3_0 + r3_4
  let i2_0 := i3_0 + i3_4
  let r2_8 := r3_0 - r3_4
  let i2_8 := i3_0 - i3_4
  let r2_4 := r3_8 + i3_12
  let i2_4 := i3_8 - r3_12
  let r2_12 := r3_8 - i3_12
  let i2_12 := i3_8 + r3_12
  let r4_2 := (inp (io + 2)).re
  let i4_2 := (inp (io + 2)).im
  let r4_10 := (inp (io + 10)).re
  let i4_10 := (inp (io + 10)).im
  let r3_2 := r4_2 + r4_10
  let i3_2 := i4_2 + i4_10
  let r3_10 := r4_2 - r4_10
  let i3_10 := i4_2 - i4_10
  let r4_6 := (inp (io + 6)).re
  let i4_6 := (inp (io + 6)).im
  let r4_14 := (inp (io + 14)).re
  let i4_14 := (inp (io + 14)).im
  let r3_6 := r4_6 + r4_14
  let i3_6 := i4_6 + i4_14
  let r3_14 := r4_6 - r4_14
  let i3_14 := i4_6 - i4_14
  let r2_2 := r3_2 + r3_6
  let i2_2 := i3_2 + i3_6
  let r2_10 := r3_2 - r3_6
  let i2_10 := i3_2 - i3_6
  let r2_6 := r3_10 + i3_14
  let i2_6 := i3_10 - r3_14
  let r2_14 := r3_10 - i3_14
  let i2_14 := i3_10 + r3_14
  let r1_0 := r2_0 + r2_2
  let i1_0 := i2_0 + i2_2
  let r1_8 := r2_0 - r2_2
  let i1_8 := i2_0 - i2_2
  let tmpr := K.c0_707106781187 * (r2_6 + i2_6)
  let tmpi := K.c0_707106781187 * (i2_6 - r2_6)
  let r1_2 := r2_4 + tmpr
  let i1_2 := i2_4 + tmpi
  let r1_10 := r2_4 - tmpr
  let i1_10 := i2_4 - tmpi
  let r1_4 := r2_8 + i2_10
  let i1_4 := i2_8 - r2_10
  let r1_12 := r2_8 - i2_10
  let i1_12 := i2_8 + r2_10
  let tmpr := K.c0_707106781187 * (i2_14 - r2_14)
  let tmpi := K.c0_707106781187 * (r2_14 + i2_14)
  let r1_6 := r2_12 + tmpr
  let i1_6 := i2_12 - tmpi
  let r1_14 := r2_12 - tmpr
  let i1_14 := i2_12 + tmpi
  let r4_1 := (inp (io + 1)).re
  let i4_1 := (inp (io + 1)).im
  let r4_9 := (inp (io + 9)).re
  let i4_9 := (inp (io + 9)).im
  let r3_1 := r4_1 + r4_9
  let i3_1 := i4_1 + i4_9
  let r3_9 := r4_1 - r4_9
  let i3_9 := i4_1 - i4_9
  let r4_5 := (inp (io + 5)).re
  let i4_5 := (inp (io + 5)).im
  let r4_13 := (inp (io + 13)).re
  let i4_13 := (inp (io + 13)).im
  let r3_5 := r4_5 + r4_13
  let i3_5 := i4_5 + i4_13
  let r3_13 := r4_5 - r4_13
  let i3_13 := i4_5 - i4_13
  let r2_1 := r3_1 + r3_5
  let i2_1 := i3_1 + i3_5
  let r2_9 := r3_1 - r3_5
  let i2_9 := i3_1 - i3_5
  let r2_5 := r3_9 + i3_13
  let i2_5 := i3_9 - r3_13
  let r2_13 := r3_9 - i3_13
  let i2_13 := i3_9 + r3_13
  let r4_3 := (inp (io + 3)).re
  let i4_3 := (inp (io + 3)).im
  let r4_11 := (inp (io + 11)).re
  let i4_11 := (inp (io + 11)).im
  let r3_3 := r4_3 + r4_11
  let i3_3 := i4_3 + i4_11
  let r3_11 := r4_3 - r4_11
  let i3_11 := i4_3 - i4_11
  let r4_7 := (inp (io + 7)).re
  let i4_7 := (inp (io + 7)).im
  let r4_15 := (inp (io + 15)).re
  let i4_15 := (inp (io + 15)).im
  let r3_7 := r4_7 + r4_15
  let i3_7 := i4_7 + i4_15
  let r3_15 := r4_7 - r4_15
  let i3_15 := i4_7 - i4_15
  let r2_3 := r3_3 + r3_7
  let i2_3 := i3_3 + i3_7
  let r2_11 := r3_3 - r3_7
  let i2_11 := i3_3 - i3_7
  let r2_7 := r3_11 + i3_15
  let i2_7 := i3_11 - r3_15
  let r2_15 := r3_11 - i3_15
  let i2_15 := i3_11 + r3_15
  let r1_1 := r2_1 + r2_3
  let i1_1 := i2_1 + i2_3
  let r1_9 := r2_1 - r2_3
  let i1_9 := i2_1 - i2_3
  let tmpr := K.c0_707106781187 * (r2_7 + i2_7)
  let tmpi := K.c0_707106781187 * (i2_7 - r2_7)
  let r1_3 := r2_5 + tmpr
  let i1_3 := i2_5 + tmpi
  let r1_11 := r2_5 - tmpr
  let i1_11 := i2_5 - tmpi
  let r1_5 := r2_9 + i2_11
  let i1_5 := i2_9 - r2_11
  let r1_13 := r2_9 - i2_11
  let i1_13 := i2_9 + r2_11
  let tmpr := K.c0_707106781187 * (i2_15 - r2_15)
  let tmpi := K.c0_707106781187 * (r2_15 + i2_15)
  let r1_7 := r2_13 + tmpr
  let i1_7 := i2_13 - tmpi
  let r1_15 := r2_13 - tmpr
  let i1_15 := i2_13 + tmpi
  let out := setRe out (oo + 0) (r1_0 + r1_1)
  let out := setIm out (oo + 0) (i1_0 + i1_1)
  let out := setRe out (oo + 8) (r1_0 - r1_1)
  let out := setIm out (oo + 8) (i1_0 - i1_1)
  let tmpr := (K.c0_923879532511 * r1_3) + (K.c0_382683432365 * i1_3)
  let tmpi := (K.c0_923879532511 * i1_3) - (K.c0_382683432365 * r1_3)
  let out := setRe out (oo + 1) (r1_2 + tmpr)
  let out := setIm out (oo + 1) (i1_2 + tmpi)
  let out := setRe out (oo + 9) (r1_2 - tmpr)
  let out := setIm out (oo + 9) (i1_2 - tmpi)
  let tmpr := K.c0_707106781187 * (r1_5 + i1_5)
  let tmpi := K.c0_707106781187 * (i1_5 - r1_5)
  let out := setRe out (oo + 2) (r1_4 + tmpr)
  let out := setIm out (oo + 2) (i1_4 + tmpi)
  let out := setRe out (oo + 10) (r1_4 - tmpr)
  let out := setIm out (oo + 10) (i1_4 - tmpi)
  let tmpr := (K.c0_382683432365 * r1_7) + (K.c0_923879532511 * i1_7)
  let tmpi := (K.c0_382683432365 * i1_7) - (K.c0_923879532511 * r1_7)
  let out := setRe out (oo + 3) (r1_6 + tmpr)
  let out := setIm out (oo + 3) (i1_6 + tmpi)
  let out := setRe out (oo + 11) (r1_6 - tmpr)
  let out := setIm out (oo + 11) (i1_6 - tmpi)
  let out := setRe out (oo + 4) (r1_8 + i1_9)
  let out := setIm out (oo + 4) (i1_8 - r1_9)
  let out := setRe out (oo + 12) (r1_8 - i1_9)
  let out := setIm out (oo + 12) (i1_8 + r1_9)
  let tmpr := (K.c0_923879532511 * i1_11) - (K.c0_382683432365 * r1_11)
  let tmpi := (K.c0_923879532511 * r1_11) + (K.c0_382683432365 * i1_11)
  let out := setRe out (oo + 5) (r1_10 + tmpr)
  let out := setIm out (oo + 5) (i1_10 - tmpi)
  let out := setRe out (oo + 13) (r1_10 - tmpr)
  let out := setIm out (oo + 13) (i1_10 + tmpi)
  let tmpr := K.c0_707106781187 * (i1_13 - r1_13)
  let tmpi := K.c0_707106781187 * (r1_13 + i1_13)
  let out := setRe out (oo + 6) (r1_12 + tmpr)
  let out := setIm out (oo + 6) (i1_12 - tmpi)
  let out := setRe out (oo + 14) (r1_12 - tmpr)
  let out := setIm out (oo + 14) (i1_12 + tmpi)
  let tmpr := (K.c0_382683432365 * i1_15) - (K.c0_923879532511 * r1_15)
  let tmpi := (K.c0_382683432365 * r1_15) + (K.c0_923879532511 * i1_15)
  let out := setRe out (oo + 7) (r1_14 + tmpr)
  let out := setIm out (oo + 7) (i1_14 - tmpi)
  let out := setRe out (oo + 15) (r1_14 - tmpr)
  let out := setIm out (oo + 15) (i1_14 + tmpi)
  out

set_option maxRecDepth 100000 in
/-- The body of the `for` loop of `fft_twiddle_16` (fft.c lines 1042-1379) for the
loop-carried `i`, `l1` and `kp` (an offset into `out`); `in` is `inp + io`. -/
def fft_twiddle_16_body [Add R] [Sub R] [Mul R] (K : Consts R) (W : Buf R) (m : Nat)
    (inp : Buf R) (io : Nat) (i l1 kp : Nat) (out : Buf R) : Buf R :=
  let jp := io + i
  let r4_0 := (inp (jp + 0 * m)).re
  let i4_0 := (inp (jp + 0 * m)).im
  let wr := (W (8 * l1)).re
  let wi := (W (8 * l1)).im
  let tmpr := (inp (jp + 8 * m)).re
  let tmpi := (inp (jp + 8 * m)).im
  let r4_8 := (wr * tmpr) - (wi * tmpi)
  let i4_8 := (wi * tmpr) + (wr * tmpi)
  let r3_0 := r4_0 + r4_8
  let i3_0 := i4_0 + i4_8
  let r3_8 := r4_0 - r4_8
  let i3_8 := i4_0 - i4_8
  let wr := (W (4 * l1)).re
  let wi := (W (4 * l1)).im
  let tmpr := (inp (jp + 4 * m)).re
  let tmpi := (inp (jp + 4 * m)).im
  let r4_4 := (wr * tmpr) - (wi * tmpi)
  let i4_4 := (wi * tmpr) + (wr * tmpi)
  let wr := (W (12 * l1)).re
  let wi := (W (12 * l1)).im
  let tmpr := (inp (jp + 12 * m)).re
  let tmpi := (inp (jp + 12 * m)).im
  let r4_12 := (wr * tmpr) - (wi * tmpi)
  let i4_12 := (wi * tmpr) + (wr * tmpi)
  let r3_4 := r4_4 + r4_12
  let i3_4 := i4_4 + i4_12
  let r3_12 := r4_4 - r4_12
  let i3_12 := i4_4 - i4_12
  let r2_0 := r3_0 + r3_4
  let i2_0 := i3_0 + i3_4
  let r2_8 := r3_0 - r3_4
  let i2_8 := i3_0 - i3_4
  let r2_4 := r3_8 + i3_12
  let i2_4 := i3_8 - r3_12
  let r2_12 := r3_8 - i3_12
  let i2_12 := i3_8 + r3_12
  let wr := (W (2 * l1)).re
  let wi := (W (2 * l1)).im
  let tmpr := (inp (jp + 2 * m)).re
  let tmpi := (inp (jp + 2 * m)).im
  let r4_2 := (wr * tmpr) - (wi * tmpi)
  let i4_2 := (wi * tmpr) + (wr * tmpi)
  let wr := (W (10 * l1)).re
  let wi := (W (10 * l1)).im
  let tmpr := (inp (jp + 10 * m)).re
  let tmpi := (inp (jp + 10 * m)).im
  let r4_10 := (wr * tmpr) - (wi * tmpi)
  let i4_10 := (wi * tmpr) + (wr * tmpi)
  let r3_2 := r4_2 + r4_10
  let i3_2 := i4_2 + i4_10
  let r3_10 := r4_2 - r4_10
  let i3_10 := i4_2 - i4_10
  let wr := (W (6 * l1)).re
  let wi := (W (6 * l1)).im
  let tmpr := (inp (jp + 6 * m)).re
  let tmpi := (inp (jp + 6 * m)).im
  let r4_6 := (wr * tmpr) - (wi * tmpi)
  let i4_6 := (wi * tmpr) + (wr * tmpi)
  let wr := (W (14 * l1)).re
  let wi := (W (14 * l1)).im
  let tmpr := (inp (jp + 14 * m)).re
  let tmpi := (inp (jp + 14 * m)).im
  let r4_14 := (wr * tmpr) - (wi * tmpi)
  let i4_14 := (wi * tmpr) + (wr * tmpi)
  let r3_6 := r4_6 + r4_14
  let i3_6 := i4_6 + i4_14
  let r3_14 := r4_6 - r4_14
  let i3_14 := i4_6 - i4_14
  let r2_2 := r3_2 + r3_6
  let i2_2 := i3_2 + i3_6
  let r2_10 := r3_2 - r3_6
  let i2_10 := i3_2 - i3_6
  let r2_6 := r3_10 + i3_14
  let i2_6 := i3_10 - r3_14
  let r2_14 := r3_10 - i3_14
  let i2_14 := i3_10 + r3_14
  let r1_0 := r2_0 + r2_2
  let i1_0 := i2_0 + i2_2
  let r1_8 := r2_0 - r2_2
  let i1_8 := i2_0 - i2_2
  let tmpr := K.c0_707106781187 * (r2_6 + i2_6)
  let tmpi := K.c0_707106781187 * (i2_6 - r2_6)
  let r1_2 := r2_4 + tmpr
  let i1_2 := i2_4 + tmpi
  let r1_10 := r2_4 - tmpr
  let i1_10 := i2_4 - tmpi
  let r1_4 := r2_8 + i2_10
  let i1_4 := i2_8 - r2_10
  let r1_12 := r2_8 - i2_10
  let i1_12 := i2_8 + r2_10
  let tmpr := K.c0_707106781187 * (i2_14 - r2_14)
  let tmpi := K.c0_707106781187 * (r2_14 + i2_14)
  let r1_6 := r2_12 + tmpr
  let i1_6 := i2_12 - tmpi
  let r1_14 := r2_12 - tmpr
  let i1_14 := i2_12 + tmpi
  let wr := (W (1 * l1)).re
  let wi := (W (1 * l1)).im
  let tmpr := (inp (jp + 1 * m)).re
  let tmpi := (inp (jp + 1 * m)).im
  let r4_1 := (wr * tmpr) - (wi * tmpi)
  let i4_1 := (wi * tmpr) + (wr * tmpi)
  let wr := (W (9 * l1)).re
  let wi := (W (9 * l1)).im
  let tmpr := (inp (jp + 9 * m)).re
  let tmpi := (inp (jp + 9 * m)).im
  let r4_9 := (wr * tmpr) - (wi * tmpi)
  let i4_9 := (wi * tmpr) + (wr * tmpi)
  let r3_1 := r4_1 + r4_9
  let i3_1 := i4_1 + i4_9
  let r3_9 := r4_1 - r4_9
  let i3_9 := i4_1 - i4_9
  let wr := (W (5 * l1)).re
  let wi := (W (5 * l1)).im
  let tmpr := (inp (jp + 5 * m)).re
  let tmpi := (inp (jp + 5 * m)).im
  let r4_5 := (wr * tmpr) - (wi * tmpi)
  let i4_5 := (wi * tmpr) + (wr * tmpi)
  let wr := (W (13 * l1)).re
  let wi := (W (13 * l1)).im
  let tmpr := (inp (jp + 13 * m)).re
  let tmpi := (inp (jp + 13 * m)).im
  let r4_13 := (wr * tmpr) - (wi * tmpi)
  let i4_13 := (wi * tmpr) + (wr * tmpi)
  let r3_5 := r4_5 + r4_13
  let i3_5 := i4_5 + i4_13
  let r3_13 := r4_5 - r4_13
  let i3_13 := i4_5 - i4_13
  let r2_1 := r3_1 + r3_5
  let i2_1 := i3_1 + i3_5
  let r2_9 := r3_1 - r3_5
  let i2_9 := i3_1 - i3_5
  let r2_5 := r3_9 + i3_13
  let i2_5 := i3_9 - r3_13
  let r2_13 := r3_9 - i3_13
  let i2_13 := i3_9 + r3_13
  let wr := (W (3 * l1)).re
  let wi := (W (3 * l1)).im
  let tmpr := (inp (jp + 3 * m)).re
  let tmpi := (inp (jp + 3 * m)).im
  let r4_3 := (wr * tmpr) - (wi * tmpi)
  let i4_3 := (wi * tmpr) + (wr * tmpi)
  let wr := (W (11 * l1)).re
  let wi := (W (11 * l1)).im
  let tmpr := (inp (jp + 11 * m)).re
  let tmpi := (inp (jp + 11 * m)).im
  let r4_11 := (wr * tmpr) - (wi * tmpi)
  let i4_11 := (wi * tmpr) + (wr * tmpi)
  let r3_3 := r4_3 + r4_11
  let i3_3 := i4_3 + i4_11
  let r3_11 := r4_3 - r4_11
  let i3_11 := i4_3 - i4_11
  let wr := (W (7 * l1)).re
  let wi := (W (7 * l1)).im
  let tmpr := (inp (jp + 7 * m)).re
  let tmpi := (inp (jp + 7 * m)).im
  let r4_7 := (wr * tmpr) - (wi * tmpi)
  let i4_7 := (wi * tmpr) + (wr * tmpi)
  let wr := (W (15 * l1)).re
  let wi := (W (15 * l1)).im
  let tmpr := (inp (jp + 15 * m)).re
  let tmpi := (inp (jp + 15 * m)).im
  let r4_15 := (wr * tmpr) - (wi * tmpi)
  let i4_15 := (wi * tmpr) + (wr * tmpi)
  let r3_7 := r4_7 + r4_15
  let i3_7 := i4_7 + i4_15
  let r3_15 := r4_7 - r4_15
  let i3_15 := i4_7 - i4_15
  let r2_3 := r3_3 + r3_7
  let i2_3 := i3_3 + i3_7
  let r2_11 := r3_3 - r3_7
  let i2_11 := i3_3 - i3_7
  let r2_7 := r3_11 + i3_15
  let i2_7 := i3_11 - r3_15
  let r2_15 := r3_11 - i3_15
  let i2_15 := i3_11 + r3_15
  let r1_1 := r2_1 + r2_3
  let i1_1 := i2_1 + i2_3
  let r1_9 := r2_1 - r2_3
  let i1_9 := i2_1 - i2_3
  let tmpr := K.c0_707106781187 * (r2_7 + i2_7)
  let tmpi := K.c0_707106781187 * (i2_7 - r2_7)
  let r1_3 := r2_5 + tmpr
  let i1_3 := i2_5 + tmpi
  let r1_11 := r2_5 - tmpr
  let i1_11 := i2_5 - tmpi
  let r1_5 := r2_9 + i2_11
  let i1_5 := i2_9 - r2_11
  let r1_13 := r2_9 - i2_11
  let i1_13 := i2_9 + r2_11
  let tmpr := K.c0_707106781187 * (i2_15 - r2_15)
  let tmpi := K.c0_707106781187 * (r2_15 + i2_15)
  let r1_7 := r2_13 + tmpr
  let i1_7 := i2_13 - tmpi
  let r1_15 := r2_13 - tmpr
  let i1_15 := i2_13 + tmpi
  let out := setRe out (kp + 0 * m) (r1_0 + r1_1)
  let out := setIm out (kp + 0 * m) (i1_0 + i1_1)
  let out := setRe out (kp + 8 * m) (r1_0 - r1_1)
  let out := setIm out (kp + 8 * m) (i1_0 - i1_1)
  let tmpr := (K.c0_923879532511 * r1_3) + (K.c0_382683432365 * i1_3)
  let tmpi := (K.c0_923879532511 * i1_3) - (K.c0_382683432365 * r1_3)
  let out := setRe out (kp + 1 * m) (r1_2 + tmpr)
  let out := setIm out (kp + 1 * m) (i1_2 + tmpi)
  let out := setRe out (kp + 9 * m) (r1_2 - tmpr)
  let out := setIm out (kp + 9 * m) (i1_2 - tmpi)
  let tmpr := K.c0_707106781187 * (r1_5 + i1_5)
  let tmpi := K.c0_707106781187 * (i1_5 - r1_5)
  let out := setRe out (kp + 2 * m) (r1_4 + tmpr)
  let out := setIm out (kp + 2 * m) (i1_4 + tmpi)
  let out := setRe out (kp + 10 * m) (r1_4 - tmpr)
  let out := setIm out (kp + 10 * m) (i1_4 - tmpi)
  let tmpr := (K.c0_382683432365 * r1_7) + (K.c0_923879532511 * i1_7)
  let tmpi := (K.c0_382683432365 * i1_7) - (K.c0_923879532511 * r1_7)
  let out := setRe out (kp + 3 * m) (r1_6 + tmpr)
  let out := setIm out (kp + 3 * m) (i1_6 + tmpi)
  let out := setRe out (kp + 11 * m) (r1_6 - tmpr)
  let out := setIm out (kp + 11 * m) (i1_6 - tmpi)
  let out := setRe out (kp + 4 * m) (r1_8 + i1_9)
  let out := setIm out (kp + 4 * m) (i1_8 - r1_9)
  let out := setRe out (kp + 12 * m) (r1_8 - i1_9)
  let out := setIm out (kp + 12 * m) (i1_8 + r1_9)
  let tmpr := (K.c0_923879532511 * i1_11) - (K.c0_382683432365 * r1_11)
  let tmpi := (K.c0_923879532511 * r1_11) + (K.c0_382683432365 * i1_11)
  let out := setRe out (kp + 5 * m) (r1_10 + tmpr)
  let out := setIm out (kp + 5 * m) (i1_10 - tmpi)
  let out := setRe out (kp + 13 * m) (r1_10 - tmpr)
  let out := setIm out (kp + 13 * m) (i1_10 + tmpi)
  let tmpr := K.c0_707106781187 * (i1_13 - r1_13)
  let tmpi := K.c0_707106781187 * (r1_13 + i1_13)
  let out := setRe out (kp + 6 * m) (r1_12 + tmpr)
  let out := setIm out (kp + 6 * m) (i1_12 - tmpi)
  let out := setRe out (kp + 14 * m) (r1_12 - tmpr)
  let out := setIm out (kp + 14 * m) (i1_12 + tmpi)
  let tmpr := (K.c0_382683432365 * i1_15) - (K.c0_923879532511 * r1_15)
  let tmpi := (K.c0_382683432365 * r1_15) + (K.c0_923879532511 * i1_15)
  let out := setRe out (kp + 7 * m) (r1_14 + tmpr)
  let out := setIm out (kp + 7 * m) (i1_14 - tmpi)
  let out := setRe out (kp + 15 * m) (r1_14 - tmpr)
  let out := setIm out (kp + 15 * m) (i1_14 + tmpi)
  out

/-- The function `fft_twiddle_16` of fft.c; `in` is `inp + io`, `out` is `out + oo`. -/
def fft_twiddle_16 [Add R] [Sub R] [Mul R] (K : Consts R) (a b : Nat) (inp : Buf R)
    (io : Nat) (out : Buf R) (oo : Nat) (W : Buf R) (nW nWdn m : Nat) : Buf R :=
  if b - a < 128 then
    (forUp a b (fun i st =>
      let l1 := st.1
      let kp := st.2.1
      let out := st.2.2
      let out := fft_twiddle_16_body K W m inp io i l1 kp out
      (l1 + nWdn, kp + 1, out)) (nWdn * a, oo + a, out)).2.2
  else
    let ab := (a + b) / 2
    let out := fft_twiddle_16 K a ab inp io out oo W nW nWdn m
    fft_twiddle_16 K ab b inp io out oo W nW nWdn m
termination_by b - a
decreasing_by all_goals omega

/-- The body of the `for` loop of `fft_unshuffle_16` (fft.c lines 1399-1432) at index `i`;
the state is the read pointer `ip` (an offset into `inp`) and the buffer `out`. -/
def fft_unshuffle_16_body (m : Nat) (inp : Buf R) (oo : Nat) (i : Nat)
    (st : Nat × Buf R) : Nat × Buf R :=
  let ip := st.1
  let out := st.2
  let jp := oo + i
  let out := store out (jp + 0) (inp (ip + 0))
  let out := store out (jp + m) (inp (ip + 1))
  let ip := ip + 2
  let jp := jp + 2 * m
  let out := store out (jp + 0) (inp (ip + 0))
  let out := store out (jp + m) (inp (ip + 1))
  let ip := ip + 2
  let jp := jp + 2 * m
  let out := store out (jp + 0) (inp (ip + 0))
  let out := store out (jp + m) (inp (ip + 1))
  let ip := ip + 2
  let jp := jp + 2 * m
  let out := store out (jp + 0) (inp (ip + 0))
  let out := store out (jp + m) (inp (ip + 1))
  let ip := ip + 2
  let jp := jp + 2 * m
  let out := store out (jp + 0) (inp (ip + 0))
  let out := store out (jp + m) (inp (ip + 1))
  let ip := ip + 2
  let jp := jp + 2 * m
  let out := store out (jp + 0) (inp (ip + 0))
  let out := store out (jp + m) (inp (ip + 1))
  let ip := ip + 2
  let jp := jp + 2 * m
  let out := store out (jp + 0) (inp (ip + 0))
  let out := store out (jp + m) (inp (ip + 1))
  let ip := ip + 2
  let jp := jp + 2 * m
  let out := store out (jp + 0) (inp (ip + 0))
  let out := store out (jp + m) (inp (ip + 1))
  let ip := ip + 2
  (ip, out)

/-- The function `fft_unshuffle_16` of fft.c; `in` is `inp + io`, `out` is `out + oo`. -/
def fft_unshuffle_16 (a b : Nat) (inp : Buf R) (io : Nat) (out : Buf R) (oo : Nat)
    (m : Nat) : Buf R :=
  if b - a < 128 then
    let ip := io + a * 16
    (forUp a b (fft_unshuffle_16_body m inp oo) (ip, out)).2
  else
    let ab := (a + b) / 2
    let out := fft_unshuffle_16 a ab inp io out oo m
    fft_unshuffle_16 ab b inp io out oo m
termination_by b - a
decreasing_by all_goals omega

set_option maxRecDepth 100000 in
/-- The kernel `fft_base_32` of fft.c (lines 1447-2124), statement by statement;
`in` is `inp + io`, `out` is `out + oo`. -/
def fft_base_32 [Add R] [Sub R] [Mul R] (K : Consts R) (inp : Buf R) (io : Nat) (out : Buf R) (oo : Nat) : Buf R :=
  let r5_0 := (inp (io + 0)).re
  let i5_0 := (inp (io + 0)).im
  let r5_16 := (inp (io + 16)).re
  let i5_16 := (inp (io + 16)).im
  let r4_0 := r5_0 + r5_16
  let i4_0 := i5_0 + i5_16
  let r4_16 := r5_0 - r5_16
  let i4_16 := i5_0 - i5_16
  let r5_8 := (inp (io + 8)).re
  let i5_8 := (inp (io + 8)).im
  let r5_24 := (inp (io + 24)).re
  let i5_24 := (inp (io + 24)).im
  let r4_8 := r5_8 + r5_24
  let i4_8 := i5_8 + i5_24
  let r4_24 := r5_8 - r5_24
  let i4_24 := i5_8 - i5_24
  let r3_0 := r4_0 + r4_8
  let i3_0 := i4_0 + i4_8
  let r3_16 := r4_0 - r4_8
  let i3_16 := i4_0 - i4_8
  let r3_8 := r4_16 + i4_24
  let i3_8 := i4_16 - r4_24
  let r3_24 := r4_16 - i4_24
  let i3_24 := i4_16 + r4_24
  let r5_4 := (inp (io + 4)).re
  let i5_4 := (inp (io + 4)).im
  let r5_20 := (inp (io + 20)).re
  let i5_20 := (inp (io + 20)).im
  let r4_4 := r5_4 + r5_20
  let i4_4 := i5_4 + i5_20
  let r4_20 := r5_4 - r5_20
  let i4_20 := i5_4 - i5_20
  let r5_12 := (inp (io + 12)).re
  let i5_12 := (inp (io + 12)).im
  let r5_28 := (inp (io + 28)).re
  let i5_28 := (inp (io + 28)).im
  let r4_12 := r5_12 + r5_28
  let i4_12 := i5_12 + i5_28
  let r4_28 := r5_12 - r5_28
  let i4_28 := i5_12 - i5_28
  let r3_4 := r4_4 + r4_12
  let i3_4 := i4_4 + i4_12
  let r3_20 := r4_4 - r4_12
  let i3_20 := i4_4 - i4_12
  let r3_12 := r4_20 + i4_28
  let i3_12 := i4_20 - r4_28
  let r3_28 := r4_20 - i4_28
  let i3_28 := i4_20 + r4_28
  let r2_0 := r3_0 + r3_4
  let i2_0 := i3_0 + i3_4
  let r2_16 := r3_0 - r3_4
  let i2_16 := i3_0 - i3_4
  let tmpr := K.c0_707106781187 * (r3_12 + i3_12)
  let tmpi := K.c0_707106781187 * (i3_12 - r3_12)
  let r2_4 := r3_8 + tmpr
  let i2_4 := i3_8 + tmpi
  let r2_20 := r3_8 - tmpr
  let i2_20 := i3_8 - tmpi
  let r2_8 := r3_16 + i3_20
  let i2_8 := i3_16 - r3_20
  let r2_24 := r3_16 - i3_20
  let i2_24 := i3_16 + r3_20
  let tmpr := K.c0_707106781187 * (i3_28 - r3_28)
  let tmpi := K.c0_707106781187 * (r3_28 + i3_28)
  let r2_12 := r3_24 + tmpr
  let i2_12 := i3_24 - tmpi
  let r2_28 := r3_24 - tmpr
  let i2_28 := i3_24 + tmpi
  let r5_2 := (inp (io + 2)).re
  let i5_2 := (inp (io + 2)).im
  let r5_18 := (inp (io + 18)).re
  let i5_18 := (inp (io + 18)).im
  let r4_2 := r5_2 + r5_18
  let i4_2 := i5_2 + i5_18
  let r4_18 := r5_2 - r5_18
  let i4_18 := i5_2 - i5_18
  let r5_10 := (inp (io + 10)).re
  let i5_10 := (inp (io + 10)).im
  let r5_26 := (inp (io + 26)).re
  let i5_26 := (inp (io + 26)).im
  let r4_10 := r5_10 + r5_26
  let i4_10 := i5_10 + i5_26
  let r4_26 := r5_10 - r5_26
  let i4_26 := i5_10 - i5_26
  let r3_2 := r4_2 + r4_10
  let i3_2 := i4_2 + i4_10
  let r3_18 := r4_2 - r4_10
  let i3_18 := i4_2 - i4_10
  let r3_10 := r4_18 + i4_26
  let i3_10 := i4_18 - r4_26
  let r3_26 := r4_18 - i4_26
  let i3_26 := i4_18 + r4_26
  let r5_6 := (inp (io + 6)).re
  let i5_6 := (inp (io + 6)).im
  let r5_22 := (inp (io + 22)).re
  let i5_22 := (inp (io + 22)).im
  let r4_6 := r5_6 + r5_22
  let i4_6 := i5_6 + i5_22
  let r4_22 := r5_6 - r5_22
  let i4_22 := i5_6 - i5_22
  let r5_14 := (inp (io + 14)).re
  let i5_14 := (inp (io + 14)).im
  let r5_30 := (inp (io + 30)).re
  let i5_30 := (inp (io + 30)).im
  let r4_14 := r5_14 + r5_30
  let i4_14 := i5_14 + i5_30
  let r4_30 := r5_14 - r5_30
  let i4_30 := i5_14 - i5_30
  let r3_6 := r4_6 + r4_14
  let i3_6 := i4_6 + i4_14
  let r3_22 := r4_6 - r4_14
  let i3_22 := i4_6 - i4_14
  let r3_14 := r4_22 + i4_30
  let i3_14 := i4_22 - r4_30
  let r3_30 := r4_22 - i4_30
  let i3_30 := i4_22 + r4_30
  let r2_2 := r3_2 + r3_6
  let i2_2 := i3_2 + i3_6
  let r2_18 := r3_2 - r3_6
  let i2_18 := i3_2 - i3_6
  let tmpr := K.c0_707106781187 * (r3_14 + i3_14)
  let tmpi := K.c0_707106781187 * (i3_14 - r3_14)
  let r2_6 := r3_10 + tmpr
  let i2_6 := i3_10 + tmpi
  let r2_22 := r3_10 - tmpr
  let i2_22 := i3_10 - tmpi
  let r2_10 := r3_18 + i3_22
  let i2_10 := i3_18 - r3_22
  let r2_26 := r3_18 - i3_22
  let i2_26 := i3_18 + r3_22
  let tmpr := K.c0_707106781187 * (i3_30 - r3_30)
  let tmpi := K.c0_707106781187 * (r3_30 + i3_30)
  let r2_14 := r3_26 + tmpr
  let i2_14 := i3_26 - tmpi
  let r2_30 := r3_26 - tmpr
  let i2_30 := i3_26 + tmpi
  let r1_0 := r2_0 + r2_2
  let i1_0 := i2_0 + i2_2
  let r1_16 := r2_0 - r2_2
  let i1_16 := i2_0 - i2_2
  let tmpr := (K.c0_923879532511 * r2_6) + (K.c0_382683432365 * i2_6)
  let tmpi := (K.c0_923879532511 * i2_6) - (K.c0_382683432365 * r2_6)
  let r1_2 := r2_4 + tmpr
  let i1_2 := i2_4 + tmpi
  let r1_18 := r2_4 - tmpr
  let i1_18 := i2_4 - tmpi
  let tmpr := K.c0_707106781187 * (r2_10 + i2_10)
  let tmpi := K.c0_707106781187 * (i2_10 - r2_10)
  let r1_4 := r2_8 + tmpr
  let i1_4 := i2_8 + tmpi
  let r1_20 := r2_8 - tmpr
  let i1_20 := i2_8 - tmpi
  let tmpr := (K.c0_382683432365 * r2_14) + (K.c0_923879532511 * i2_14)
  let tmpi := (K.c0_382683432365 * i2_14) - (K.c0_923879532511 * r2_14)
  let r1_6 := r2_12 + tmpr
  let i1_6 := i2_12 + tmpi
  let r1_22 := r2_12 - tmpr
  let i1_22 := i2_12 - tmpi
  let r1_8 := r2_16 + i2_18
  let i1_8 := i2_16 - r2_18
  let r1_24 := r2_16 - i2_18
  let i1_24 := i2_16 + r2_18
  let tmpr := (K.c0_923879532511 * i2_22) - (K.c0_382683432365 * r2_22)
  let tmpi := (K.c0_923879532511 * r2_22) + (K.c0_382683432365 * i2_22)
  let r1_10 := r2_20 + tmpr
  let i1_10 := i2_20 - tmpi
  let r1_26 := r2_20 - tmpr
  let i1_26 := i2_20 + tmpi
  let tmpr := K.c0_707106781187 * (i2_26 - r2_26)
  let tmpi := K.c0_707106781187 * (r2_26 + i2_26)
  let r1_12 := r2_24 + tmpr
  let i1_12 := i2_24 - tmpi
  let r1_28 := r2_24 - tmpr
  let i1_28 := i2_24 + tmpi
  let tmpr := (K.c0_382683432365 * i2_30) - (K.c0_923879532511 * r2_30)
  let tmpi := (K.c0_382683432365 * r2_30) + (K.c0_923879532511 * i2_30)
  let r1_14 := r2_28 + tmpr
  let i1_14 := i2_28 - tmpi
  let r1_30 := r2_28 - tmpr
  let i1_30 := i2_28 + tmpi
  let r5_1 := (inp (io + 1)).re
  let i5_1 := (inp (io + 1)).im
  let r5_17 := (inp (io + 17)).re
  let i5_17 := (inp (io + 17)).im
  let r4_1 := r5_1 + r5_17
  let i4_1 := i5_1 + i5_17
  let r4_17 := r5_1 - r5_17
  let i4_17 := i5_1 - i5_17
  let r5_9 := (inp (io + 9)).re
  let i5_9 := (inp (io + 9)).im
  let r5_25 := (inp (io + 25)).re
  let i5_25 := (inp (io + 25)).im
  let r4_9 := r5_9 + r5_25
  let i4_9 := i5_9 + i5_25
  let r4_25 := r5_9 - r5_25
  let i4_25 := i5_9 - i5_25
  let r3_1 := r4_1 + r4_9
  let i3_1 := i4_1 + i4_9
  let r3_17 := r4_1 - r4_9
  let i3_17 := i4_1 - i4_9
  let r3_9 := r4_17 + i4_25
  let i3_9 := i4_17 - r4_25
  let r3_25 := r4_17 - i4_25
  let i3_25 := i4_17 + r4_25
  let r5_5 := (inp (io + 5)).re
  let i5_5 := (inp (io + 5)).im
  let r5_21 := (inp (io + 21)).re
  let i5_21 := (inp (io + 21)).im
  let r4_5 := r5_5 + r5_21
  let i4_5 := i5_5 + i5_21
  let r4_21 := r5_5 - r5_21
  let i4_21 := i5_5 - i5_21
  let r5_13 := (inp (io + 13)).re
  let i5_13 := (inp (io + 13)).im
  let r5_29 := (inp (io + 29)).re
  let i5_29 := (inp (io + 29)).im
  let r4_13 := r5_13 + r5_29
  let i4_13 := i5_13 + i5_29
  let r4_29 := r5_13 - r5_29
  let i4_29 := i5_13 - i5_29
  let r3_5 := r4_5 + r4_13
  let i3_5 := i4_5 + i4_13
  let r3_21 := r4_5 - r4_13
  let i3_21 := i4_5 - i4_13
  let r3_13 := r4_21 + i4_29
  let i3_13 := i4_21 - r4_29
  let r3_29 := r4_21 - i4_29
  let i3_29 := i4_21 + r4_29
  let r2_1 := r3_1 + r3_5
  let i2_1 := i3_1 + i3_5
  let r2_17 := r3_1 - r3_5
  let i2_17 := i3_1 - i3_5
  let tmpr := K.c0_707106781187 * (r3_13 + i3_13)
  let tmpi := K.c0_707106781187 * (i3_13 - r3_13)
  let r2_5 := r3_9 + tmpr
  let i2_5 := i3_9 + tmpi
  let r2_21 := r3_9 - tmpr
  let i2_21 := i3_9 - tmpi
  let r2_9 := r3_17 + i3_21
  let i2_9 := i3_17 - r3_21
  let r2_25 := r3_17 - i3_21
  let i2_25 := i3_17 + r3_21
  let tmpr := K.c0_707106781187 * (i3_29 - r3_29)
  let tmpi := K.c0_707106781187 * (r3_29 + i3_29)
  let r2_13 := r3_25 + tmpr
  let i2_13 := i3_25 - tmpi
  let r2_29 := r3_25 - tmpr
  let i2_29 := i3_25 + tmpi
  let r5_3 := (inp (io + 3)).re
  let i5_3 := (inp (io + 3)).im
  let r5_19 := (inp (io + 19)).re
  let i5_19 := (inp (io + 19)).im
  let r4_3 := r5_3 + r5_19
  let i4_3 := i5_3 + i5_19
  let r4_19 := r5_3 - r5_19
  let i4_19 := i5_3 - i5_19
  let r5_11 := (inp (io + 11)).re
  let i5_11 := (inp (io + 11)).im
  let r5_27 := (inp (io + 27)).re
  let i5_27 := (inp (io + 27)).im
  let r4_11 := r5_11 + r5_27
  let i4_11 := i5_11 + i5_27
  let r4_27 := r5_11 - r5_27
  let i4_27 := i5_11 - i5_27
  let r3_3 := r4_3 + r4_11
  let i3_3 := i4_3 + i4_11
  let r3_19 := r4_3 - r4_11
  let i3_19 := i4_3 - i4_11
  let r3_11 := r4_19 + i4_27
  let i3_11 := i4_19 - r4_27
  let r3_27 := r4_19 - i4_27
  let i3_27 := i4_19 + r4_27
  let r5_7 := (inp (io + 7)).re
  let i5_7 := (inp (io + 7)).im
  let r5_23 := (inp (io + 23)).re
  let i5_23 := (inp (io + 23)).im
  let r4_7 := r5_7 + r5_23
  let i4_7 := i5_7 + i5_23
  let r4_23 := r5_7 - r5_23
  let i4_23 := i5_7 - i5_23
  let r5_15 := (inp (io + 15)).re
  let i5_15 := (inp (io + 15)).im
  let r5_31 := (inp (io + 31)).re
  let i5_31 := (inp (io + 31)).im
  let r4_15 := r5_15 + r5_31
  let i4_15 := i5_15 + i5_31
  let r4_31 := r5_15 - r5_31
  let i4_31 := i5_15 - i5_31
  let r3_7 := r4_7 + r4_15
  let i3_7 := i4_7 + i4_15
  let r3_23 := r4_7 - r4_15
  let i3_23 := i4_7 - i4_15
  let r3_15 := r4_23 + i4_31
  let i3_15 := i4_23 - r4_31
  let r3_31 := r4_23 - i4_31
  let i3_31 := i4_23 + r4_31
  let r2_3 := r3_3 + r3_7
  let i2_3 := i3_3 + i3_7
  let r2_19 := r3_3 - r3_7
  let i2_19 := i3_3 - i3_7
  let tmpr := K.c0_707106781187 * (r3_15 + i3_15)
  let tmpi := K.c0_707106781187 * (i3_15 - r3_15)
  let r2_7 := r3_11 + tmpr
  let i2_7 := i3_11 + tmpi
  let r2_23 := r3_11 - tmpr
  let i2_23 := i3_11 - tmpi
  let r2_11 := r3_19 + i3_23
  let i2_11 := i3_19 - r3_23
  let r2_27 := r3_19 - i3_23
  let i2_27 := i3_19 + r3_23
  let tmpr := K.c0_707106781187 * (i3_31 - r3_31)
  let tmpi := K.c0_707106781187 * (r3_31 + i3_31)
  let r2_15 := r3_27 + tmpr
  let i2_15 := i3_27 - tmpi
  let r2_31 := r3_27 - tmpr
  let i2_31 := i3_27 + tmpi
  let r1_1 := r2_1 + r2_3
  let i1_1 := i2_1 + i2_3
  let r1_17 := r2_1 - r2_3
  let i1_17 := i2_1 - i2_3
  let tmpr := (K.c0_923879532511 * r2_7) + (K.c0_382683432365 * i2_7)
  let tmpi := (K.c0_923879532511 * i2_7) - (K.c0_382683432365 * r2_7)
  let r1_3 := r2_5 + tmpr
  let i1_3 := i2_5 + tmpi
  let r1_19 := r2_5 - tmpr
  let i1_19 := i2_5 - tmpi
  let tmpr := K.c0_707106781187 * (r2_11 + i2_11)
  let tmpi := K.c0_707106781187 * (i2_11 - r2_11)
  let r1_5 := r2_9 + tmpr
  let i1_5 := i2_9 + tmpi
  let r1_21 := r2_9 - tmpr
  let i1_21 := i2_9 - tmpi
  let tmpr := (K.c0_382683432365 * r2_15) + (K.c0_923879532511 * i2_15)
  let tmpi := (K.c0_382683432365 * i2_15) - (K.c0_923879532511 * r2_15)
  let r1_7 := r2_13 + tmpr
  let i1_7 := i2_13 + tmpi
  let r1_23 := r2_13 - tmpr
  let i1_23 := i2_13 - tmpi
  let r1_9 := r2_17 + i2_19
  let i1_9 := i2_17 - r2_19
  let r1_25 := r2_17 - i2_19
  let i1_25 := i2_17 + r2_19
  let tmpr := (K.c0_923879532511 * i2_23) - (K.c0_382683432365 * r2_23)
  let tmpi := (K.c0_923879532511 * r2_23) + (K.c0_382683432365 * i2_23)
  let r1_11 := r2_21 + tmpr
  let i1_11 := i2_21 - tmpi
  let r1_27 := r2_21 - tmpr
  let i1_27 := i2_21 + tmpi
  let tmpr := K.c0_707106781187 * (i2_27 - r2_27)
  let tmpi := K.c0_707106781187 * (r2_27 + i2_27)
  let r1_13 := r2_25 + tmpr
  let i1_13 := i2_25 - tmpi
  let r1_29 := r2_25 - tmpr
  let i1_29 := i2_25 + tmpi
  let tmpr := (K.c0_382683432365 * i2_31) - (K.c0_923879532511 * r2_31)
  let tmpi := (K.c0_382683432365 * r2_31) + (K.c0_923879532511 * i2_31)
  let r1_15 := r2_29 + tmpr
  let i1_15 := i2_29 - tmpi
  let r1_31 := r2_29 - tmpr
  let i1_31 := i2_29 + tmpi
  let out := setRe out (oo + 0) (r1_0 + r1_1)
  let out := setIm out (oo + 0) (i1_0 + i1_1)
  let out := setRe out (oo + 16) (r1_0 - r1_1)
  let out := setIm out (oo + 16) (i1_0 - i1_1)
  let tmpr := (K.c0_980785280403 * r1_3) + (K.c0_195090322016 * i1_3)
  let tmpi := (K.c0_980785280403 * i1_3) - (K.c0_195090322016 * r1_3)
  let out := setRe out (oo + 1) (r1_2 + tmpr)
  let out := setIm out (oo + 1) (i1_2 + tmpi)
  let out := setRe out (oo + 17) (r1_2 - tmpr)
  let out := setIm out (oo + 17) (i1_2 - tmpi)
  let tmpr := (K.c0_923879532511 * r1_5) + (K.c0_382683432365 * i1_5)
  let tmpi := (K.c0_923879532511 * i1_5) - (K.c0_382683432365 * r1_5)
  let out := setRe out (oo + 2) (r1_4 + tmpr)
  let out := setIm out (oo + 2) (i1_4 + tmpi)
  let out := setRe out (oo + 18) (r1_4 - tmpr)
  let out := setIm out (oo + 18) (i1_4 - tmpi)
  let tmpr := (K.c0_831469612303 * r1_7) + (K.c0_55557023302 * i1_7)
  let tmpi := (K.c0_831469612303 * i1_7) - (K.c0_55557023302 * r1_7)
  let out := setRe out (oo + 3) (r1_6 + tmpr)
  let out := setIm out (oo + 3) (i1_6 + tmpi)
  let out := setRe out (oo + 19) (r1_6 - tmpr)
  let out := setIm out (oo + 19) (i1_6 - tmpi)
  let tmpr := K.c0_707106781187 * (r1_9 + i1_9)
  let tmpi := K.c0_707106781187 * (i1_9 - r1_9)
  let out := setRe out (oo + 4) (r1_8 + tmpr)
  let out := setIm out (oo + 4) (i1_8 + tmpi)
  let out := setRe out (oo + 20) (r1_8 - tmpr)
  let out := setIm out (oo + 20) (i1_8 - tmpi)
  let tmpr := (K.c0_55557023302 * r1_11) + (K.c0_831469612303 * i1_11)
  let tmpi := (K.c0_55557023302 * i1_11) - (K.c0_831469612303 * r1_11)
  let out := setRe out (oo + 5) (r1_10 + tmpr)
  let out := setIm out (oo + 5) (i1_10 + tmpi)
  let out := setRe out (oo + 21) (r1_10 - tmpr)
  let out := setIm out (oo + 21) (i1_10 - tmpi)
  let tmpr := (K.c0_382683432365 * r1_13) + (K.c0_923879532511 * i1_13)
  let tmpi := (K.c0_382683432365 * i1_13) - (K.c0_923879532511 * r1_13)
  let out := setRe out (oo + 6) (r1_12 + tmpr)
  let out := setIm out (oo + 6) (i1_12 + tmpi)
  let out := setRe out (oo + 22) (r1_12 - tmpr)
  let out := setIm out (oo + 22) (i1_12 - tmpi)
  let tmpr := (K.c0_195090322016 * r1_15) + (K.c0_980785280403 * i1_15)
  let tmpi := (K.c0_195090322016 * i1_15) - (K.c0_980785280403 * r1_15)
  let out := setRe out (oo + 7) (r1_14 + tmpr)
  let out := setIm out (oo + 7) (i1_14 + tmpi)
  let out := setRe out (oo + 23) (r1_14 - tmpr)
  let out := setIm out (oo + 23) (i1_14 - tmpi)
  let out := setRe out (oo + 8) (r1_16 + i1_17)
  let out := setIm out (oo + 8) (i1_16 - r1_17)
  let out := setRe out (oo + 24) (r1_16 - i1_17)
  let out := setIm out (oo + 24) (i1_16 + r1_17)
  let tmpr := (K.c0_980785280403 * i1_19) - (K.c0_195090322016 * r1_19)
  let tmpi := (K.c0_980785280403 * r1_19) + (K.c0_195090322016 * i1_19)
  let out := setRe out (oo + 9) (r1_18 + tmpr)
  let out := setIm out (oo + 9) (i1_18 - tmpi)
  let out := setRe out (oo + 25) (r1_18 - tmpr)
  let out := setIm out (oo + 25) (i1_18 + tmpi)
  let tmpr := (K.c0_923879532511 * i1_21) - (K.c0_382683432365 * r1_21)
  let tmpi := (K.c0_923879532511 * r1_21) + (K.c0_382683432365 * i1_21)
  let out := setRe out (oo + 10) (r1_20 + tmpr)
  let out := setIm out (oo + 10) (i1_20 - tmpi)
  let out := setRe out (oo + 26) (r1_20 - tmpr)
  let out := setIm out (oo + 26) (i1_20 + tmpi)
  let tmpr := (K.c0_831469612303 * i1_23) - (K.c0_55557023302 * r1_23)
  let tmpi := (K.c0_831469612303 * r1_23) + (K.c0_55557023302 * i1_23)
  let out := setRe out (oo + 11) (r1_22 + tmpr)
  let out := setIm out (oo + 11) (i1_22 - tmpi)
  let out := setRe out (oo + 27) (r1_22 - tmpr)
  let out := setIm out (oo + 27) (i1_22 + tmpi)
  let tmpr := K.c0_707106781187 * (i1_25 - r1_25)
  let tmpi := K.c0_707106781187 * (r1_25 + i1_25)
  let out := setRe out (oo + 12) (r1_24 + tmpr)
  let out := setIm out (oo + 12) (i1_24 - tmpi)
  let out := setRe out (oo + 28) (r1_24 - tmpr)
  let out := setIm out (oo + 28) (i1_24 + tmpi)
  let tmpr := (K.c0_55557023302 * i1_27) - (K.c0_831469612303 * r1_27)
  let tmpi := (K.c0_55557023302 * r1_27) + (K.c0_831469612303 * i1_27)
  let out := setRe out (oo + 13) (r1_26 + tmpr)
  let out := setIm out (oo + 13) (i1_26 - tmpi)
  let out := setRe out (oo + 29) (r1_26 - tmpr)
  let out := setIm out (oo + 29) (i1_26 + tmpi)
  let tmpr := (K.c0_382683432365 * i1_29) - (K.c0_923879532511 * r1_29)
  let tmpi := (K.c0_382683432365 * r1_29) + (K.c0_923879532511 * i1_29)
  let out := setRe out (oo + 14) (r1_28 + tmpr)
  let out := setIm out (oo + 14) (i1_28 - tmpi)
  let out := setRe out (oo + 30) (r1_28 - tmpr)
  let out := setIm out (oo + 30) (i1_28 + tmpi)
  let tmpr := (K.c0_195090322016 * i1_31) - (K.c0_980785280403 * r1_31)
  let tmpi := (K.c0_195090322016 * r1_31) + (K.c0_980785280403 * i1_31)
  let out := setRe out (oo + 15) (r1_30 + tmpr)
  let out := setIm out (oo + 15) (i1_30 - tmpi)
  let out := setRe out (oo + 31) (r1_30 - tmpr)
  let out := setIm out (oo + 31) (i1_30 + tmpi)
  out

set_option maxRecDepth 100000 in
/-- The body of the `for` loop of `fft_twiddle_32` (fft.c lines 2135-2937) for the
loop-carried `i`, `l1` and `kp` (an offset into `out`); `in` is `inp + io`. -/
def fft_twiddle_32_body [Add R] [Sub R] [Mul R] (K : Consts R) (W : Buf R) (m : Nat)
    (inp : Buf R) (io : Nat) (i l1 kp : Nat) (out : Buf R) : Buf R :=
  let jp := io + i
  let r5_0 := (inp (jp + 0 * m)).re
  let i5_0 := (inp (jp + 0 * m)).im
  let wr := (W (16 * l1)).re
  let wi := (W (16 * l1)).im
  let tmpr := (inp (jp + 16 * m)).re
  let tmpi := (inp (jp + 16 * m)).im
  let r5_16 := (wr * tmpr) - (wi * tmpi)
  let i5_16 := (wi * tmpr) + (wr * tmpi)
  let r4_0 := r5_0 + r5_16
  let i4_0 := i5_0 + i5_16
  let r4_16 := r5_0 - r5_16
  let i4_16 := i5_0 - i5_16
  let wr := (W (8 * l1)).re
  let wi := (W (8 * l1)).im
  let tmpr := (inp (jp + 8 * m)).re
  let tmpi := (inp (jp + 8 * m)).im
  let r5_8 := (wr * tmpr) - (wi * tmpi)
  let i5_8 := (wi * tmpr) + (wr * tmpi)
  let wr := (W (24 * l1)).re
  let wi := (W (24 * l1)).im
  let tmpr := (inp (jp + 24 * m)).re
  let tmpi := (inp (jp + 24 * m)).im
  let r5_24 := (wr * tmpr) - (wi * tmpi)
  let i5_24 := (wi * tmpr) + (wr * tmpi)
  let r4_8 := r5_8 + r5_24
  let i4_8 := i5_8 + i5_24
  let r4_24 := r5_8 - r5_24
  let i4_24 := i5_8 - i5_24
  let r3_0 := r4_0 + r4_8
  let i3_0 := i4_0 + i4_8
  let r3_16 := r4_0 - r4_8
  let i3_16 := i4_0 - i4_8
  let r3_8 := r4_16 + i4_24
  let i3_8 := i4_16 - r4_24
  let r3_24 := r4_16 - i4_24
  let i3_24 := i4_16 + r4_24
  let wr := (W (4 * l1)).re
  let wi := (W (4 * l1)).im
  let tmpr := (inp (jp + 4 * m)).re
  let tmpi := (inp (jp + 4 * m)).im
  let r5_4 := (wr * tmpr) - (wi * tmpi)
  let i5_4 := (wi * tmpr) + (wr * tmpi)
  let wr := (W (20 * l1)).re
  let wi := (W (20 * l1)).im
  let tmpr := (inp (jp + 20 * m)).re
  let tmpi := (inp (jp + 20 * m)).im
  let r5_20 := (wr * tmpr) - (wi * tmpi)
  let i5_20 := (wi * tmpr) + (wr * tmpi)
  let r4_4 := r5_4 + r5_20
  let i4_4 := i5_4 + i5_20
  let r4_20 := r5_4 - r5_20
  let i4_20 := i5_4 - i5_20
  let wr := (W (12 * l1)).re
  let wi := (W (12 * l1)).im
  let tmpr := (inp (jp + 12 * m)).re
  let tmpi := (inp (jp + 12 * m)).im
  let r5_12 := (wr * tmpr) - (wi * tmpi)
  let i5_12 := (wi * tmpr) + (wr * tmpi)
  let wr := (W (28 * l1)).re
  let wi := (W (28 * l1)).im
  let tmpr := (inp (jp + 28 * m)).re
  let tmpi := (inp (jp + 28 * m)).im
  let r5_28 := (wr * tmpr) - (wi * tmpi)
  let i5_28 := (wi * tmpr) + (wr * tmpi)
  let r4_12 := r5_12 + r5_28
  let i4_12 := i5_12 + i5_28
  let r4_28 := r5_12 - r5_28
  let i4_28 := i5_12 - i5_28
  let r3_4 := r4_4 + r4_12
  let i3_4 := i4_4 + i4_12
  let r3_20 := r4_4 - r4_12
  let i3_20 := i4_4 - i4_12
  let r3_12 := r4_20 + i4_28
  let i3_12 := i4_20 - r4_28
  let r3_28 := r4_20 - i4_28
  let i3_28 := i4_20 + r4_28
  let r2_0 := r3_0 + r3_4
  let i2_0 := i3_0 + i3_4
  let r2_16 := r3_0 - r3_4
  let i2_16 := i3_0 - i3_4
  let tmpr := K.c0_707106781187 * (r3_12 + i3_12)
  let tmpi := K.c0_707106781187 * (i3_12 - r3_12)
  let r2_4 := r3_8 + tmpr
  let i2_4 := i3_8 + tmpi
  let r2_20 := r3_8 - tmpr
  let i2_20 := i3_8 - tmpi
  let r2_8 := r3_16 + i3_20
  let i2_8 := i3_16 - r3_20
  let r2_24 := r3_16 - i3_20
  let i2_24 := i3_16 + r3_20
  let tmpr := K.c0_707106781187 * (i3_28 - r3_28)
  let tmpi := K.c0_707106781187 * (r3_28 + i3_28)
  let r2_12 := r3_24 + tmpr
  let i2_12 := i3_24 - tmpi
  let r2_28 := r3_24 - tmpr
  let i2_28 := i3_24 + tmpi
  let wr := (W (2 * l1)).re
  let wi := (W (2 * l1)).im
  let tmpr := (inp (jp + 2 * m)).re
  let tmpi := (inp (jp + 2 * m)).im
  let r5_2 := (wr * tmpr) - (wi * tmpi)
  let i5_2 := (wi * tmpr) + (wr * tmpi)
  let wr := (W (18 * l1)).re
  let wi := (W (18 * l1)).im
  let tmpr := (inp (jp + 18 * m)).re
  let tmpi := (inp (jp + 18 * m)).im
  let r5_18 := (wr * tmpr) - (wi * tmpi)
  let i5_18 := (wi * tmpr) + (wr * tmpi)
  let r4_2 := r5_2 + r5_18
  let i4_2 := i5_2 + i5_18
  let r4_18 := r5_2 - r5_18
  let i4_18 := i5_2 - i5_18
  let wr := (W (10 * l1)).re
  let wi := (W (10 * l1)).im
  let tmpr := (inp (jp + 10 * m)).re
  let tmpi := (inp (jp + 10 * m)).im
  let r5_10 := (wr * tmpr) - (wi * tmpi)
  let i5_10 := (wi * tmpr) + (wr * tmpi)
  let wr := (W (26 * l1)).re
  let wi := (W (26 * l1)).im
  let tmpr := (inp (jp + 26 * m)).re
  let tmpi := (inp (jp + 26 * m)).im
  let r5_26 := (wr * tmpr) - (wi * tmpi)
  let i5_26 := (wi * tmpr) + (wr * tmpi)
  let r4_10 := r5_10 + r5_26
  let i4_10 := i5_10 + i5_26
  let r4_26 := r5_10 - r5_26
  let i4_26 := i5_10 - i5_26
  let r3_2 := r4_2 + r4_10
  let i3_2 := i4_2 + i4_10
  let r3_18 := r4_2 - r4_10
  let i3_18 := i4_2 - i4_10
  let r3_10 := r4_18 + i4_26
  let i3_10 := i4_18 - r4_26
  let r3_26 := r4_18 - i4_26
  let i3_26 := i4_18 + r4_26
  let wr := (W (6 * l1)).re
  let wi := (W (6 * l1)).im
  let tmpr := (inp (jp + 6 * m)).re
  let tmpi := (inp (jp + 6 * m)).im
  let r5_6 := (wr * tmpr) - (wi * tmpi)
  let i5_6 := (wi * tmpr) + (wr * tmpi)
  let wr := (W (22 * l1)).re
  let wi := (W (22 * l1)).im
  let tmpr := (inp (jp + 22 * m)).re
  let tmpi := (inp (jp + 22 * m)).im
  let r5_22 := (wr * tmpr) - (wi * tmpi)
  let i5_22 := (wi * tmpr) + (wr * tmpi)
  let r4_6 := r5_6 + r5_22
  let i4_6 := i5_6 + i5_22
  let r4_22 := r5_6 - r5_22
  let i4_22 := i5_6 - i5_22
  let wr := (W (14 * l1)).re
  let wi := (W (14 * l1)).im
  let tmpr := (inp (jp + 14 * m)).re
  let tmpi := (inp (jp + 14 * m)).im
  let r5_14 := (wr * tmpr) - (wi * tmpi)
  let i5_14 := (wi * tmpr) + (wr * tmpi)
  let wr := (W (30 * l1)).re
  let wi := (W (30 * l1)).im
  let tmpr := (inp (jp + 30 * m)).re
  let tmpi := (inp (jp + 30 * m)).im
  let r5_30 := (wr * tmpr) - (wi * tmpi)
  let i5_30 := (wi * tmpr) + (wr * tmpi)
  let r4_14 := r5_14 + r5_30
  let i4_14 := i5_14 + i5_30
  let r4_30 := r5_14 - r5_30
  let i4_30 := i5_14 - i5_30
  let r3_6 := r4_6 + r4_14
  let i3_6 := i4_6 + i4_14
  let r3_22 := r4_6 - r4_14
  let i3_22 := i4_6 - i4_14
  let r3_14 := r4_22 + i4_30
  let i3_14 := i4_22 - r4_30
  let r3_30 := r4_22 - i4_30
  let i3_30 := i4_22 + r4_30
  let r2_2 := r3_2 + r3_6
  let i2_2 := i3_2 + i3_6
  let r2_18 := r3_2 - r3_6
  let i2_18 := i3_2 - i3_6
  let tmpr := K.c0_707106781187 * (r3_14 + i3_14)
  let tmpi := K.c0_707106781187 * (i3_14 - r3_14)
  let r2_6 := r3_10 + tmpr
  let i2_6 := i3_10 + tmpi
  let r2_22 := r3_10 - tmpr
  let i2_22 := i3_10 - tmpi
  let r2_10 := r3_18 + i3_22
  let i2_10 := i3_18 - r3_22
  let r2_26 := r3_18 - i3_22
  let i2_26 := i3_18 + r3_22
  let tmpr := K.c0_707106781187 * (i3_30 - r3_30)
  let tmpi := K.c0_707106781187 * (r3_30 + i3_30)
  let r2_14 := r3_26 + tmpr
  let i2_14 := i3_26 - tmpi
  let r2_30 := r3_26 - tmpr
  let i2_30 := i3_26 + tmpi
  let r1_0 := r2_0 + r2_2
  let i1_0 := i2_0 + i2_2
  let r1_16 := r2_0 - r2_2
  let i1_16 := i2_0 - i2_2
  let tmpr := (K.c0_923879532511 * r2_6) + (K.c0_382683432365 * i2_6)
  let tmpi := (K.c0_923879532511 * i2_6) - (K.c0_382683432365 * r2_6)
  let r1_2 := r2_4 + tmpr
  let i1_2 := i2_4 + tmpi
  let r1_18 := r2_4 - tmpr
  let i1_18 := i2_4 - tmpi
  let tmpr := K.c0_707106781187 * (r2_10 + i2_10)
  let tmpi := K.c0_707106781187 * (i2_10 - r2_10)
  let r1_4 := r2_8 + tmpr
  let i1_4 := i2_8 + tmpi
  let r1_20 := r2_8 - tmpr
  let i1_20 := i2_8 - tmpi
  let tmpr := (K.c0_382683432365 * r2_14) + (K.c0_923879532511 * i2_14)
  let tmpi := (K.c0_382683432365 * i2_14) - (K.c0_923879532511 * r2_14)
  let r1_6 := r2_12 + tmpr
  let i1_6 := i2_12 + tmpi
  let r1_22 := r2_12 - tmpr
  let i1_22 := i2_12 - tmpi
  let r1_8 := r2_16 + i2_18
  let i1_8 := i2_16 - r2_18
  let r1_24 := r2_16 - i2_18
  let i1_24 := i2_16 + r2_18
  let tmpr := (K.c0_923879532511 * i2_22) - (K.c0_382683432365 * r2_22)
  let tmpi := (K.c0_923879532511 * r2_22) + (K.c0_382683432365 * i2_22)
  let r1_10 := r2_20 + tmpr
  let i1_10 := i2_20 - tmpi
  let r1_26 := r2_20 - tmpr
  let i1_26 := i2_20 + tmpi
  let tmpr := K.c0_707106781187 * (i2_26 - r2_26)
  let tmpi := K.c0_707106781187 * (r2_26 + i2_26)
  let r1_12 := r2_24 + tmpr
  let i1_12 := i2_24 - tmpi
  let r1_28 := r2_24 - tmpr
  let i1_28 := i2_24 + tmpi
  let tmpr := (K.c0_382683432365 * i2_30) - (K.c0_923879532511 * r2_30)
  let tmpi := (K.c0_382683432365 * r2_30) + (K.c0_923879532511 * i2_30)
  let r1_14 := r2_28 + tmpr
  let i1_14 := i2_28 - tmpi
  let r1_30 := r2_28 - tmpr
  let i1_30 := i2_28 + tmpi
  let wr := (W (1 * l1)).re
  let wi := (W (1 * l1)).im
  let tmpr := (inp (jp + 1 * m)).re
  let tmpi := (inp (jp + 1 * m)).im
  let r5_1 := (wr * tmpr) - (wi * tmpi)
  let i5_1 := (wi * tmpr) + (wr * tmpi)
  let wr := (W (17 * l1)).re
  let wi := (W (17 * l1)).im
  let tmpr := (inp (jp + 17 * m)).re
  let tmpi := (inp (jp + 17 * m)).im
  let r5_17 := (wr * tmpr) - (wi * tmpi)
  let i5_17 := (wi * tmpr) + (wr * tmpi)
  let r4_1 := r5_1 + r5_17
  let i4_1 := i5_1 + i5_17
  let r4_17 := r5_1 - r5_17
  let i4_17 := i5_1 - i5_17
  let wr := (W (9 * l1)).re
  let wi := (W (9 * l1)).im
  let tmpr := (inp (jp + 9 * m)).re
  let tmpi := (inp (jp + 9 * m)).im
  let r5_9 := (wr * tmpr) - (wi * tmpi)
  let i5_9 := (wi * tmpr) + (wr * tmpi)
  let wr := (W (25 * l1)).re
  let wi := (W (25 * l1)).im
  let tmpr := (inp (jp + 25 * m)).re
  let tmpi := (inp (jp + 25 * m)).im
  let r5_25 := (wr * tmpr) - (wi * tmpi)
  let i5_25 := (wi * tmpr) + (wr * tmpi)
  let r4_9 := r5_9 + r5_25
  let i4_9 := i5_9 + i5_25
  let r4_25 := r5_9 - r5_25
  let i4_25 := i5_9 - i5_25
  let r3_1 := r4_1 + r4_9
  let i3_1 := i4_1 + i4_9
  let r3_17 := r4_1 - r4_9
  let i3_17 := i4_1 - i4_9
  let r3_9 := r4_17 + i4_25
  let i3_9 := i4_17 - r4_25
  let r3_25 := r4_17 - i4_25
  let i3_25 := i4_17 + r4_25
  let wr := (W (5 * l1)).re
  let wi := (W (5 * l1)).im
  let tmpr := (inp (jp + 5 * m)).re
  let tmpi := (inp (jp + 5 * m)).im
  let r5_5 := (wr * tmpr) - (wi * tmpi)
  let i5_5 := (wi * tmpr) + (wr * tmpi)
  let wr := (W (21 * l1)).re
  let wi := (W (21 * l1)).im
  let tmpr := (inp (jp + 21 * m)).re
  let tmpi := (inp (jp + 21 * m)).im
  let r5_21 := (wr * tmpr) - (wi * tmpi)
  let i5_21 := (wi * tmpr) + (wr * tmpi)
  let r4_5 := r5_5 + r5_21
  let i4_5 := i5_5 + i5_21
  let r4_21 := r5_5 - r5_21
  let i4_21 := i5_5 - i5_21
  let wr := (W (13 * l1)).re
  let wi := (W (13 * l1)).im
  let tmpr := (inp (jp + 13 * m)).re
  let tmpi := (inp (jp + 13 * m)).im
  let r5_13 := (wr * tmpr) - (wi * tmpi)
  let i5_13 := (wi * tmpr) + (wr * tmpi)
  let wr := (W (29 * l1)).re
  let wi := (W (29 * l1)).im
  let tmpr := (inp (jp + 29 * m)).re
  let tmpi := (inp (jp + 29 * m)).im
  let r5_29 := (wr * tmpr) - (wi * tmpi)
  let i5_29 := (wi * tmpr) + (wr * tmpi)
  let r4_13 := r5_13 + r5_29
  let i4_13 := i5_13 + i5_29
  let r4_29 := r5_13 - r5_29
  let i4_29 := i5_13 - i5_29
  let r3_5 := r4_5 + r4_13
  let i3_5 := i4_5 + i4_13
  let r3_21 := r4_5 - r4_13
  let i3_21 := i4_5 - i4_13
  let r3_13 := r4_21 + i4_29
  let i3_13 := i4_21 - r4_29
  let r3_29 := r4_21 - i4_29
  let i3_29 := i4_21 + r4_29
  let r2_1 := r3_1 + r3_5
  let i2_1 := i3_1 + i3_5
  let r2_17 := r3_1 - r3_5
  let i2_17 := i3_1 - i3_5
  let tmpr := K.c0_707106781187 * (r3_13 + i3_13)
  let tmpi := K.c0_707106781187 * (i3_13 - r3_13)
  let r2_5 := r3_9 + tmpr
  let i2_5 := i3_9 + tmpi
  let r2_21 := r3_9 - tmpr
  let i2_21 := i3_9 - tmpi
  let r2_9 := r3_17 + i3_21
  let i2_9 := i3_17 - r3_21
  let r2_25 := r3_17 - i3_21
  let i2_25 := i3_17 + r3_21
  let tmpr := K.c0_707106781187 * (i3_29 - r3_29)
  let tmpi := K.c0_707106781187 * (r3_29 + i3_29)
  let r2_13 := r3_25 + tmpr
  let i2_13 := i3_25 - tmpi
  let r2_29 := r3_25 - tmpr
  let i2_29 := i3_25 + tmpi
  let wr := (W (3 * l1)).re
  let wi := (W (3 * l1)).im
  let tmpr := (inp (jp + 3 * m)).re
  let tmpi := (inp (jp + 3 * m)).im
  let r5_3 := (wr * tmpr) - (wi * tmpi)
  let i5_3 := (wi * tmpr) + (wr * tmpi)
  let wr := (W (19 * l1)).re
  let wi := (W (19 * l1)).im
  let tmpr := (inp (jp + 19 * m)).re
  let tmpi := (inp (jp + 19 * m)).im
  let r5_19 := (wr * tmpr) - (wi * tmpi)
  let i5_19 := (wi * tmpr) + (wr * tmpi)
  let r4_3 := r5_3 + r5_19
  let i4_3 := i5_3 + i5_19
  let r4_19 := r5_3 - r5_19
  let i4_19 := i5_3 - i5_19
  let wr := (W (11 * l1)).re
  let wi := (W (11 * l1)).im
  let tmpr := (inp (jp + 11 * m)).re
  let tmpi := (inp (jp + 11 * m)).im
  let r5_11 := (wr * tmpr) - (wi * tmpi)
  let i5_11 := (wi * tmpr) + (wr * tmpi)
  let wr := (W (27 * l1)).re
  let wi := (W (27 * l1)).im
  let tmpr := (inp (jp + 27 * m)).re
  let tmpi := (inp (jp + 27 * m)).im
  let r5_27 := (wr * tmpr) - (wi * tmpi)
  let i5_27 := (wi * tmpr) + (wr * tmpi)
  let r4_11 := r5_11 + r5_27
  let i4_11 := i5_11 + i5_27
  let r4_27 := r5_11 - r5_27
  let i4_27 := i5_11 - i5_27
  let r3_3 := r4_3 + r4_11
  let i3_3 := i4_3 + i4_11
  let r3_19 := r4_3 - r4_11
  let i3_19 := i4_3 - i4_11
  let r3_11 := r4_19 + i4_27
  let i3_11 := i4_19 - r4_27
  let r3_27 := r4_19 - i4_27
  let i3_27 := i4_19 + r4_27
  let wr := (W (7 * l1)).re
  let wi := (W (7 * l1)).im
  let tmpr := (inp (jp + 7 * m)).re
  let tmpi := (inp (jp + 7 * m)).im
  let r5_7 := (wr * tmpr) - (wi * tmpi)
  let i5_7 := (wi * tmpr) + (wr * tmpi)
  let wr := (W (23 * l1)).re
  let wi := (W (23 * l1)).im
  let tmpr := (inp (jp + 23 * m)).re
  let tmpi := (inp (jp + 23 * m)).im
  let r5_23 := (wr * tmpr) - (wi * tmpi)
  let i5_23 := (wi * tmpr) + (wr * tmpi)
  let r4_7 := r5_7 + r5_23
  let i4_7 := i5_7 + i5_23
  let r4_23 := r5_7 - r5_23
  let i4_23 := i5_7 - i5_23
  let wr := (W (15 * l1)).re
  let wi := (W (15 * l1)).im
  let tmpr := (inp (jp + 15 * m)).re
  let tmpi := (inp (jp + 15 * m)).im
  let r5_15 := (wr * tmpr) - (wi * tmpi)
  let i5_15 := (wi * tmpr) + (wr * tmpi)
  let wr := (W (31 * l1)).re
  let wi := (W (31 * l1)).im
  let tmpr := (inp (jp + 31 * m)).re
  let tmpi := (inp (jp + 31 * m)).im
  let r5_31 := (wr * tmpr) - (wi * tmpi)
  let i5_31 := (wi * tmpr) + (wr * tmpi)
  let r4_15 := r5_15 + r5_31
  let i4_15 := i5_15 + i5_31
  let r4_31 := r5_15 - r5_31
  let i4_31 := i5_15 - i5_31
  let r3_7 := r4_7 + r4_15
  let i3_7 := i4_7 + i4_15
  let r3_23 := r4_7 - r4_15
  let i3_23 := i4_7 - i4_15
  let r3_15 := r4_23 + i4_31
  let i3_15 := i4_23 - r4_31
  let r3_31 := r4_23 - i4_31
  let i3_31 := i4_23 + r4_31
  let r2_3 := r3_3 + r3_7
  let i2_3 := i3_3 + i3_7
  let r2_19 := r3_3 - r3_7
  let i2_19 := i3_3 - i3_7
  let tmpr := K.c0_707106781187 * (r3_15 + i3_15)
  let tmpi := K.c0_707106781187 * (i3_15 - r3_15)
  let r2_7 := r3_11 + tmpr
  let i2_7 := i3_11 + tmpi
  let r2_23 := r3_11 - tmpr
  let i2_23 := i3_11 - tmpi
  let r2_11 := r3_19 + i3_23
  let i2_11 := i3_19 - r3_23
  let r2_27 := r3_19 - i3_23
  let i2_27 := i3_19 + r3_23
  let tmpr := K.c0_707106781187 * (i3_31 - r3_31)
  let tmpi := K.c0_707106781187 * (r3_31 + i3_31)
  let r2_15 := r3_27 + tmpr
  let i2_15 := i3_27 - tmpi
  let r2_31 := r3_27 - tmpr
  let i2_31 := i3_27 + tmpi
  let r1_1 := r2_1 + r2_3
  let i1_1 := i2_1 + i2_3
  let r1_17 := r2_1 - r2_3
  let i1_17 := i2_1 - i2_3
  let tmpr := (K.c0_923879532511 * r2_7) + (K.c0_382683432365 * i2_7)
  let tmpi := (K.c0_923879532511 * i2_7) - (K.c0_382683432365 * r2_7)
  let r1_3 := r2_5 + tmpr
  let i1_3 := i2_5 + tmpi
  let r1_19 := r2_5 - tmpr
  let i1_19 := i2_5 - tmpi
  let tmpr := K.c0_707106781187 * (r2_11 + i2_11)
  let tmpi := K.c0_707106781187 * (i2_11 - r2_11)
  let r1_5 := r2_9 + tmpr
  let i1_5 := i2_9 + tmpi
  let r1_21 := r2_9 - tmpr
  let i1_21 := i2_9 - tmpi
  let tmpr := (K.c0_382683432365 * r2_15) + (K.c0_923879532511 * i2_15)
  let tmpi := (K.c0_382683432365 * i2_15) - (K.c0_923879532511 * r2_15)
  let r1_7 := r2_13 + tmpr
  let i1_7 := i2_13 + tmpi
  let r1_23 := r2_13 - tmpr
  let i1_23 := i2_13 - tmpi
  let r1_9 := r2_17 + i2_19
  let i1_9 := i2_17 - r2_19
  let r1_25 := r2_17 - i2_19
  let i1_25 := i2_17 + r2_19
  let tmpr := (K.c0_923879532511 * i2_23) - (K.c0_382683432365 * r2_23)
  let tmpi := (K.c0_923879532511 * r2_23) + (K.c0_382683432365 * i2_23)
  let r1_11 := r2_21 + tmpr
  let i1_11 := i2_21 - tmpi
  let r1_27 := r2_21 - tmpr
  let i1_27 := i2_21 + tmpi
  let tmpr := K.c0_707106781187 * (i2_27 - r2_27)
  let tmpi := K.c0_707106781187 * (r2_27 + i2_27)
  let r1_13 := r2_25 + tmpr
  let i1_13 := i2_25 - tmpi
  let r1_29 := r2_25 - tmpr
  let i1_29 := i2_25 + tmpi
  let tmpr := (K.c0_382683432365 * i2_31) - (K.c0_923879532511 * r2_31)
  let tmpi := (K.c0_382683432365 * r2_31) + (K.c0_923879532511 * i2_31)
  let r1_15 := r2_29 + tmpr
  let i1_15 := i2_29 - tmpi
  let r1_31 := r2_29 - tmpr
  let i1_31 := i2_29 + tmpi
  let out := setRe out (kp + 0 * m) (r1_0 + r1_1)
  let out := setIm out (kp + 0 * m) (i1_0 + i1_1)
  let out := setRe out (kp + 16 * m) (r1_0 - r1_1)
  let out := setIm out (kp + 16 * m) (i1_0 - i1_1)
  let tmpr := (K.c0_980785280403 * r1_3) + (K.c0_195090322016 * i1_3)
  let tmpi := (K.c0_980785280403 * i1_3) - (K.c0_195090322016 * r1_3)
  let out := setRe out (kp + 1 * m) (r1_2 + tmpr)
  let out := setIm out (kp + 1 * m) (i1_2 + tmpi)
  let out := setRe out (kp + 17 * m) (r1_2 - tmpr)
  let out := setIm out (kp + 17 * m) (i1_2 - tmpi)
  let tmpr := (K.c0_923879532511 * r1_5) + (K.c0_382683432365 * i1_5)
  let tmpi := (K.c0_923879532511 * i1_5) - (K.c0_382683432365 * r1_5)
  let out := setRe out (kp + 2 * m) (r1_4 + tmpr)
  let out := setIm out (kp + 2 * m) (i1_4 + tmpi)
  let out := setRe out (kp + 18 * m) (r1_4 - tmpr)
  let out := setIm out (kp + 18 * m) (i1_4 - tmpi)
  let tmpr := (K.c0_831469612303 * r1_7) + (K.c0_55557023302 * i1_7)
  let tmpi := (K.c0_831469612303 * i1_7) - (K.c0_55557023302 * r1_7)
  let out := setRe out (kp + 3 * m) (r1_6 + tmpr)
  let out := setIm out (kp + 3 * m) (i1_6 + tmpi)
  let out := setRe out (kp + 19 * m) (r1_6 - tmpr)
  let out := setIm out (kp + 19 * m) (i1_6 - tmpi)
  let tmpr := K.c0_707106781187 * (r1_9 + i1_9)
  let tmpi := K.c0_707106781187 * (i1_9 - r1_9)
  let out := setRe out (kp + 4 * m) (r1_8 + tmpr)
  let out := setIm out (kp + 4 * m) (i1_8 + tmpi)
  let out := setRe out (kp + 20 * m) (r1_8 - tmpr)
  let out := setIm out (kp + 20 * m) (i1_8 - tmpi)
  let tmpr := (K.c0_55557023302 * r1_11) + (K.c0_831469612303 * i1_11)
  let tmpi := (K.c0_55557023302 * i1_11) - (K.c0_831469612303 * r1_11)
  let out := setRe out (kp + 5 * m) (r1_10 + tmpr)
  let out := setIm out (kp + 5 * m) (i1_10 + tmpi)
  let out := setRe out (kp + 21 * m) (r1_10 - tmpr)
  let out := setIm out (kp + 21 * m) (i1_10 - tmpi)
  let tmpr := (K.c0_382683432365 * r1_13) + (K.c0_923879532511 * i1_13)
  let tmpi := (K.c0_382683432365 * i1_13) - (K.c0_923879532511 * r1_13)
  let out := setRe out (kp + 6 * m) (r1_12 + tmpr)
  let out := setIm out (kp + 6 * m) (i1_12 + tmpi)
  let out := setRe out (kp + 22 * m) (r1_12 - tmpr)
  let out := setIm out (kp + 22 * m) (i1_12 - tmpi)
  let tmpr := (K.c0_195090322016 * r1_15) + (K.c0_980785280403 * i1_15)
  let tmpi := (K.c0_195090322016 * i1_15) - (K.c0_980785280403 * r1_15)
  let out := setRe out (kp + 7 * m) (r1_14 + tmpr)
  let out := setIm out (kp + 7 * m) (i1_14 + tmpi)
  let out := setRe out (kp + 23 * m) (r1_14 - tmpr)
  let out := setIm out (kp + 23 * m) (i1_14 - tmpi)
  let out := setRe out (kp + 8 * m) (r1_16 + i1_17)
  let out := setIm out (kp + 8 * m) (i1_16 - r1_17)
  let out := setRe out (kp + 24 * m) (r1_16 - i1_17)
  let out := setIm out (kp + 24 * m) (i1_16 + r1_17)
  let tmpr := (K.c0_980785280403 * i1_19) - (K.c0_195090322016 * r1_19)
  let tmpi := (K.c0_980785280403 * r1_19) + (K.c0_195090322016 * i1_19)
  let out := setRe out (kp + 9 * m) (r1_18 + tmpr)
  let out := setIm out (kp + 9 * m) (i1_18 - tmpi)
  let out := setRe out (kp + 25 * m) (r1_18 - tmpr)
  let out := setIm out (kp + 25 * m) (i1_18 + tmpi)
  let tmpr := (K.c0_923879532511 * i1_21) - (K.c0_382683432365 * r1_21)
  let tmpi := (K.c0_923879532511 * r1_21) + (K.c0_382683432365 * i1_21)
  let out := setRe out (kp + 10 * m) (r1_20 + tmpr)
  let out := setIm out (kp + 10 * m) (i1_20 - tmpi)
  let out := setRe out (kp + 26 * m) (r1_20 - tmpr)
  let out := setIm out (kp + 26 * m) (i1_20 + tmpi)
  let tmpr := (K.c0_831469612303 * i1_23) - (K.c0_55557023302 * r1_23)
  let tmpi := (K.c0_831469612303 * r1_23) + (K.c0_55557023302 * i1_23)
  let out := setRe out (kp + 11 * m) (r1_22 + tmpr)
  let out := setIm out (kp + 11 * m) (i1_22 - tmpi)
  let out := setRe out (kp + 27 * m) (r1_22 - tmpr)
  let out := setIm out (kp + 27 * m) (i1_22 + tmpi)
  let tmpr := K.c0_707106781187 * (i1_25 - r1_25)
  let tmpi := K.c0_707106781187 * (r1_25 + i1_25)
  let out := setRe out (kp + 12 * m) (r1_24 + tmpr)
  let out := setIm out (kp + 12 * m) (i1_24 - tmpi)
  let out := setRe out (kp + 28 * m) (r1_24 - tmpr)
  let out := setIm out (kp + 28 * m) (i1_24 + tmpi)
  let tmpr := (K.c0_55557023302 * i1_27) - (K.c0_831469612303 * r1_27)
  let tmpi := (K.c0_55557023302 * r1_27) + (K.c0_831469612303 * i1_27)
  let out := setRe out (kp + 13 * m) (r1_26 + tmpr)
  let out := setIm out (kp + 13 * m) (i1_26 - tmpi)
  let out := setRe out (kp + 29 * m) (r1_26 - tmpr)
  let out := setIm out (kp + 29 * m) (i1_26 + tmpi)
  let tmpr := (K.c0_382683432365 * i1_29) - (K.c0_923879532511 * r1_29)
  let tmpi := (K.c0_382683432365 * r1_29) + (K.c0_923879532511 * i1_29)
  let out := setRe out (kp + 14 * m) (r1_28 + tmpr)
  let out := setIm out (kp + 14 * m) (i1_28 - tmpi)
  let out := setRe out (kp + 30 * m) (r1_28 - tmpr)
  let out := setIm out (kp + 30 * m) (i1_28 + tmpi)
  let tmpr := (K.c0_195090322016 * i1_31) - (K.c0_980785280403 * r1_31)
  let tmpi := (K.c0_195090322016 * r1_31) + (K.c0_980785280403 * i1_31)
  let out := setRe out (kp + 15 * m) (r1_30 + tmpr)
  let out := setIm out (kp + 15 * m) (i1_30 - tmpi)
  let out := setRe out (kp + 31 * m) (r1_30 - tmpr)
  let out := setIm out (kp + 31 * m) (i1_30 + tmpi)
  out

/-- The function `fft_twiddle_32` of fft.c; `in` is `inp + io`, `out` is `out + oo`. -/
def fft_twiddle_32 [Add R] [Sub R] [Mul R] (K : Consts R) (a b : Nat) (inp : Buf R)
    (io : Nat) (out : Buf R) (oo : Nat) (W : Buf R) (nW nWdn m : Nat) : Buf R :=
  if b - a < 128 then
    (forUp a b (fun i st =>
      let l1 := st.1
      let kp := st.2.1
      let out := st.2.2
      let out := fft_twiddle_32_body K W m inp io i l1 kp out
      (l1 + nWdn, kp + 1, out)) (nWdn * a, oo + a, out)).2.2
  else
    let ab := (a + b) / 2
    let out := fft_twiddle_32 K a ab inp io out oo W nW nWdn m
    fft_twiddle_32 K ab b inp io out oo W nW nWdn m
termination_by b - a
decreasing_by all_goals omega

/-- The body of the `for` loop of `fft_unshuffle_32` (fft.c lines 2957-3022) at index `i`;
the state is the read pointer `ip` (an offset into `inp`) and the buffer `out`. -/
def fft_unshuffle_32_body (m : Nat) (inp : Buf R) (oo : Nat) (i : Nat)
    (st : Nat × Buf R) : Nat × Buf R :=
  let ip := st.1
  let out := st.2
  let jp := oo + i
  let out := store out (jp + 0) (inp (ip + 0))
  let out := store out (jp + m) (inp (ip + 1))
  let ip := ip + 2
  let jp := jp + 2 * m
  let out := store out (jp + 0) (inp (ip + 0))
  let out := store out (jp + m) (inp (ip + 1))
  let ip := ip + 2
  let jp := jp + 2 * m
  let out := store out (jp + 0) (inp (ip + 0))
  let out := store out (jp + m) (inp (ip + 1))
  let ip := ip + 2
  let jp := jp + 2 * m
  let out := store out (jp + 0) (inp (ip + 0))
  let out := store out (jp + m) (inp (ip + 1))
  let ip := ip + 2
  let jp := jp + 2 * m
  let out := store out (jp + 0) (inp (ip + 0))
  let out := store out (jp + m) (inp (ip + 1))
  let ip := ip + 2
  let jp := jp + 2 * m
  let out := store out (jp + 0) (inp (ip + 0))
  let out := store out (jp + m) (inp (ip + 1))
  let ip := ip + 2
  let jp := jp + 2 * m
  let out := store out (jp + 0) (inp (ip + 0))
  let out := store out (jp + m) (inp (ip + 1))
  let ip := ip + 2
  let jp := jp + 2 * m
  let out := store out (jp + 0) (inp (ip + 0))
  let out := store out (jp + m) (inp (ip + 1))
  let ip := ip + 2
  let jp := jp + 2 * m
  let out := store out (jp + 0) (inp (ip + 0))
  let out := store out (jp + m) (inp (ip + 1))
  let ip := ip + 2
  let jp := jp + 2 * m
  let out := store out (jp + 0) (inp (ip + 0))
  let out := store out (jp + m) (inp (ip + 1))
  let ip := ip + 2
  let jp := jp + 2 * m
  let out := store out (jp + 0) (inp (ip + 0))
  let out := store out (jp + m) (inp (ip + 1))
  let ip := ip + 2
  let jp := jp + 2 * m
  let out := store out (jp + 0) (inp (ip + 0))
  let out := store out (jp + m) (inp (ip + 1))
  let ip := ip + 2
  let jp := jp + 2 * m
  let out := store out (jp + 0) (inp (ip + 0))
  let out := store out (jp + m) (inp (ip + 1))
  let ip := ip + 2
  let jp := jp + 2 * m
  let out := store out (jp + 0) (inp (ip + 0))
  let out := store out (jp + m) (inp (ip + 1))
  let ip := ip + 2
  let jp := jp + 2 * m
  let out := store out (jp + 0) (inp (ip + 0))
  let out := store out (jp + m) (inp (ip + 1))
  let ip := ip + 2
  let jp := jp + 2 * m
  let out := store out (jp + 0) (inp (ip + 0))
  let out := store out (jp + m) (inp (ip + 1))
  let ip := ip + 2
  (ip, out)

/-- The function `fft_unshuffle_32` of fft.c; `in` is `inp + io`, `out` is `out + oo`. -/
def fft_unshuffle_32 (a b : Nat) (inp : Buf R) (io : Nat) (out : Buf R) (oo : Nat)
    (m : Nat) : Buf R :=
  if b - a < 128 then
    let ip := io + a * 32
    (forUp a b (fft_unshuffle_32_body m inp oo) (ip, out)).2
  else
    let ab := (a + b) / 2
    let out := fft_unshuffle_32 a ab inp io out oo m
    fft_unshuffle_32 ab b inp io out oo m
termination_by b - a
decreasing_by all_goals omega


/-- The function `fft_aux` of fft.c; `in` is `inp + io`, `out` is `out + oo`, `factors` is the
list read through the pointer `factors`.  The result is the pair of buffers `(inp, out)` after
the call.  The result is `none` where the C code divides by zero (`n / r` with `r = 0`,
`nW / n` with `n = 0`), reads `*factors` past the end of the list, or does not terminate. -/
def fft_aux [Zero R] [Add R] [Sub R] [Mul R] (K : Consts R) (W : Buf R) (nW : Nat) :
    List Nat → Nat → Buf R → Nat → Buf R → Nat → Option (Buf R × Buf R)
  | factors, n, inp, io, out, oo =>
    if n = 32 then some (inp, fft_base_32 K inp io out oo)
    else if n = 16 then some (inp, fft_base_16 K inp io out oo)
    else if n = 8 then some (inp, fft_base_8 K inp io out oo)
    else if n = 4 then some (inp, fft_base_4 inp io out oo)
    else if n = 2 then some (inp, fft_base_2 inp io out oo)
    else
      match factors with
      | [] => none
      | r :: rest =>
        if r = 0 ∨ n = 0 then none
        else
          let m := n / r
          let split : Option (Buf R × Buf R) :=
            if r < n then
              let out :=
                if r = 32 then fft_unshuffle_32 0 m inp io out oo m
                else if r = 16 then fft_unshuffle_16 0 m inp io out oo m
                else if r = 8 then fft_unshuffle_8 0 m inp io out oo m
                else if r = 4 then fft_unshuffle_4 0 m inp io out oo m
                else if r = 2 then fft_unshuffle_2 0 m inp io out oo m
                else unshuffle 0 m inp io out oo r m
              forStep n m (fun k st =>
                match fft_aux K W nW rest m st.2 (oo + k) st.1 (io + k) with
                | none => none
                | some res => some (res.2, res.1)) n 0 (inp, out)
            else some (inp, out)
          match split with
          | none => none
          | some (inp, out) =>
            if r = 2 then some (inp, fft_twiddle_2 0 m inp io out oo W nW (nW / n) m)
            else if r = 4 then some (inp, fft_twiddle_4 0 m inp io out oo W nW (nW / n) m)
            else if r = 8 then some (inp, fft_twiddle_8 K 0 m inp io out oo W nW (nW / n) m)
            else if r = 16 then some (inp, fft_twiddle_16 K 0 m inp io out oo W nW (nW / n) m)
            else if r = 32 then some (inp, fft_twiddle_32 K 0 m inp io out oo W nW (nW / n) m)
            else
              match fft_twiddle_gen 0 m inp io out oo W nW (nW / n) r m with
              | none => none
              | some out => some (inp, out)

/-- The function `cilk_fft` of fft.c.  `W0` is the content of the freshly allocated table
`W` (`n + 1` entries); the result is the pair of buffers `(in, out)` after the call. -/
def cilk_fft [Zero R] [Add R] [Sub R] [Mul R] [Div R] [Neg R] [NatCast R] (K : Consts R)
    (cosf sinf : R → R) (pi : R) (W0 : Buf R) (n : Nat) (inp out : Buf R) :
    Option (Buf R × Buf R) :=
  let W := compute_w_coefficients cosf sinf pi n 0 (n / 2) W0
  let factors := factor_list n
  fft_aux K W n factors n inp 0 out 0

/-- The loop body of `compute_w_coefficients`. -/
def w_body [Mul R] [Div R] [Neg R] [NatCast R] (cosf sinf : R → R) (pi : R) (n : Nat)
    (k : Nat) (W : Buf R) : Buf R :=
  let twoPiOverN : R := ((2 : Nat) : R) * pi / (n : R)
  let c := cosf (twoPiOverN * (k : R))
  let W := setRe W (n - k) c
  let W := setRe W k c
  let s := sinf (twoPiOverN * (k : R))
  let W := setIm W k (-s)
  let W := setIm W (n - k) s
  W


/-- The exact table entry `(cos(2 pi k / n), -sin(2 pi k / n))`. -/
def w_exact [Field R] (cosf sinf : R → R) (pi : R) (n k : Nat) : COMPLEX R :=
  ⟨cosf (2 * pi * k / n), -sinf (2 * pi * k / n)⟩


/-- The complex number whose parts are those of a `COMPLEX`. -/
def toC (z : COMPLEX ℝ) : ℂ := ⟨z.re, z.im⟩

/-- The discrete Fourier transform of the `n` samples `x 0, ..., x (n - 1)` with respect to
the root `w`: the sum of `x k * w ^ (k * j)` over `k < n`. -/
def dft {F : Type} [CommSemiring F] (w : F) (n : Nat) (x : Nat → F) (j : Nat) : F :=
  ∑ k in Finset.range n, x k * w ^ (k * j)

/-- The decimal constants of the kernels read as the exact parts of the powers of a complex
number `z` (the 32nd root of unity `exp(-2 pi I / 32)`): `z = (0.980785280403, -0.195090322016)`,
`z^2 = (0.923879532511, -0.382683432365)`, and so on up to `z^8 = (0, -1)`. -/
def ZTab (K : Consts ℝ) (z : ℂ) : Prop :=
  z ^ 1 = ⟨K.c0_980785280403, -K.c0_195090322016⟩ ∧
  z ^ 2 = ⟨K.c0_923879532511, -K.c0_382683432365⟩ ∧
  z ^ 3 = ⟨K.c0_831469612303, -K.c0_55557023302⟩ ∧
  z ^ 4 = ⟨K.c0_707106781187, -K.c0_707106781187⟩ ∧
  z ^ 5 = ⟨K.c0_55557023302, -K.c0_831469612303⟩ ∧
  z ^ 6 = ⟨K.c0_382683432365, -K.c0_923879532511⟩ ∧
  z ^ 7 = ⟨K.c0_195090322016, -K.c0_980785280403⟩ ∧
  z ^ 8 = ⟨0, -1⟩

/-- What a twiddle stage of radix `r` on `m` rows leaves in `res`: cell `i + k * m` holds the
sum over `c < r` of `in[i + c * m] * ω ^ (nWdn * (c * (i + k * m)))`, and the cells outside
`[oo, oo + r * m)` are those of `out`. -/
def TwSpec (ω : ℂ) (nWdn r m : Nat) (inp : Buf ℝ) (io : Nat) (out : Buf ℝ) (oo : Nat)
    (res : Buf ℝ) : Prop :=
  (∀ i k, i < m → k < r → toC (res (oo + i + k * m)) =
    ∑ c in Finset.range r, toC (inp (io + i + c * m)) * ω ^ (nWdn * (c * (i + k * m)))) ∧
  (∀ p, p < oo ∨ oo + r * m ≤ p → res p = out p)

/-- The inner loop of `fft_twiddle_gen1` (`for (j = 0, jp = in, l0 = 0; j < r; ...)`), with the
final values of `jp`, `l0`, `r0`, `i0` as the result. -/
def gen1_acc (W : Buf ℝ) (nW : Nat) (inp : Buf ℝ) (io m l1 r : Nat) : Nat × Nat × ℝ × ℝ :=
  forUp 0 r (fun _ (acc : Nat × Nat × ℝ × ℝ) =>
      let jp := acc.1
      let l0 := acc.2.1
      let r0 := acc.2.2.1
      let i0 := acc.2.2.2
      let rw := (W l0).re
      let iw := (W l0).im
      let rt := (inp jp).re
      let it := (inp jp).im
      let r0 := r0 + (rt * rw - it * iw)
      let i0 := i0 + (rt * iw + it * rw)
      let l0 := l0 + l1
      let l0 := if l0 > nW then l0 - nW else l0
      (jp + m, l0, r0, i0)) (io, 0, (0 : ℝ), (0 : ℝ))

/-- What an unshuffle of radix `r` on `m` rows leaves in `res`: cell `t + c * m` of `out`
holds `in[t * r + c]`, and the cells outside `[oo, oo + r * m)` are those of `out`. -/
def UnshSpec (r m : Nat) (inp : Buf R) (io : Nat) (out : Buf R) (oo : Nat) (res : Buf R) : Prop :=
  (∀ t c, t < m → c < r → res (oo + t + c * m) = inp (io + t * r + c)) ∧
  (∀ p, p < oo ∨ oo + r * m ≤ p → res p = out p)

/-- The buffer `res` is `out` with the `n` cells `jp + c * m` overwritten by `in[ip + c]`. -/
def Copied (inp out res : Buf R) (ip jp m n : Nat) : Prop :=
  (∀ c, c < n → res (jp + c * m) = inp (ip + c)) ∧
  (∀ p, (∀ c, c < n → p ≠ jp + c * m) → res p = out p)

/-- The root `ω` of the twiddle table of size `nW` and the 32nd root `z` of the kernels are
powers of one root of unity: `ω ^ d = z ^ e` whenever `d / nW = e / 32`. -/
def Root (ω : ℂ) (nW : Nat) (z : ℂ) : Prop :=
  ∀ d e : Nat, d * 32 = nW * e → ω ^ d = z ^ e

/-- The seven decimal constants of the kernels hold the exact trigonometric values they
stand for. -/
def ExactConsts (K : Consts ℝ) : Prop :=
  K.c0_980785280403 = Real.cos (Real.pi / 16) ∧ K.c0_195090322016 = Real.sin (Real.pi / 16) ∧
  K.c0_923879532511 = Real.cos (Real.pi / 8) ∧ K.c0_382683432365 = Real.sin (Real.pi / 8) ∧
  K.c0_831469612303 = Real.cos (3 * Real.pi / 16) ∧
  K.c0_55557023302 = Real.sin (3 * Real.pi / 16) ∧
  K.c0_707106781187 = Real.cos (Real.pi / 4)

/-- The sum of two complex values, in components. -/
def cadd [Add R] (a b : COMPLEX R) : COMPLEX R := ⟨a.re + b.re, a.im + b.im⟩

/-- The product of two complex values, in components. -/
def cmul [Add R] [Sub R] [Mul R] (a b : COMPLEX R) : COMPLEX R :=
  ⟨a.re * b.re - a.im * b.im, a.re * b.im + a.im * b.re⟩

/-- The power `w ^ n` of a complex value. -/
def cpow [Zero R] [One R] [Add R] [Sub R] [Mul R] (w : COMPLEX R) : Nat → COMPLEX R
  | 0 => ⟨1, 0⟩
  | n + 1 => cmul (cpow w n) w

/-- The sum `f 0 + f 1 + ... + f (n - 1)` of complex values. -/
def csum [Zero R] [Add R] (f : Nat → COMPLEX R) : Nat → COMPLEX R
  | 0 => ⟨0, 0⟩
  | n + 1 => cadd (csum f n) (f n)

/-- The function `fft_aux` with the radix-32 code removed: where `fft_aux` runs
`fft_unshuffle_32` and `fft_twiddle_32` (a factor `r = 32`), the result here is `none`.
Everything else, the base kernel `fft_base_32` included, is as in `fft_aux`. -/
def fft_aux_no32 [Zero R] [Add R] [Sub R] [Mul R] (K : Consts R) (W : Buf R) (nW : Nat) :
    List Nat → Nat → Buf R → Nat → Buf R → Nat → Option (Buf R × Buf R)
  | factors, n, inp, io, out, oo =>
    if n = 32 then some (inp, fft_base_32 K inp io out oo)
    else if n = 16 then some (inp, fft_base_16 K inp io out oo)
    else if n = 8 then some (inp, fft_base_8 K inp io out oo)
    else if n = 4 then some (inp, fft_base_4 inp io out oo)
    else if n = 2 then some (inp, fft_base_2 inp io out oo)
    else
      match factors with
      | [] => none
      | r :: rest =>
        if r = 0 ∨ n = 0 then none
        else if r = 32 then none
        else
          let m := n / r
          let split : Option (Buf R × Buf R) :=
            if r < n then
              let out :=
                if r = 16 then fft_unshuffle_16 0 m inp io out oo m
                else if r = 8 then fft_unshuffle_8 0 m inp io out oo m
                else if r = 4 then fft_unshuffle_4 0 m inp io out oo m
                else if r = 2 then fft_unshuffle_2 0 m inp io out oo m
                else unshuffle 0 m inp io out oo r m
              forStep n m (fun k st =>
                match fft_aux_no32 K W nW rest m st.2 (oo + k) st.1 (io + k) with
                | none => none
                | some res => some (res.2, res.1)) n 0 (inp, out)
            else some (inp, out)
          match split with
          | none => none
          | some (inp, out) =>
            if r = 2 then some (inp, fft_twiddle_2 0 m inp io out oo W nW (nW / n) m)
            else if r = 4 then some (inp, fft_twiddle_4 0 m inp io out oo W nW (nW / n) m)
            else if r = 8 then some (inp, fft_twiddle_8 K 0 m inp io out oo W nW (nW / n) m)
            else if r = 16 then some (inp, fft_twiddle_16 K 0 m inp io out oo W nW (nW / n) m)
            else
              match fft_twiddle_gen 0 m inp io out oo W nW (nW / n) r m with
              | none => none
              | some out => some (inp, out)

end Fft

/-! ## lu.c : definitions -/

namespace Lu

open Loop

/-- The macro `BLOCK_SIZE` of lu.c. -/
def BLOCK_SIZE : Nat := 16

/-- The type `Block` of lu.c, `double[BLOCK_SIZE][BLOCK_SIZE]`: `B i j` is `BLOCK(B, i, j)`. -/
abbrev Block (R : Type) := Nat → Nat → R

/-- The memory a `Matrix` (`Block *`) points into: an array of blocks.  A `Matrix` value is
an index into it; `MATRIX(M, I, J)` is the block at index `M + (I * nBlocks + J)`. -/
abbrev Mem (R : Type) := Nat → Block R

variable {R : Type}

/-- The assignment `BLOCK(mem[B], i, j) = v`. -/
def write (mem : Mem R) (B i j : Nat) (v : R) : Mem R :=
  fun B1 i1 j1 => if B1 = B ∧ i1 = i ∧ j1 = j then v else mem B1 i1 j1

/-- The function `elem_daxmy` of lu.c, `for (n--; n >= 0; n--) y[n] -= a * x[n];`, where `x`
points at `BLOCK(mem[X], xi, xj)` and `y` at `BLOCK(mem[Y], yi, yj)`. -/
def elem_daxmy [Sub R] [Mul R] (a : R) (X xi xj : Nat) (Y yi yj : Nat) : Nat → Mem R → Mem R
  | 0, mem => mem
  | n + 1, mem =>
    elem_daxmy a X xi xj Y yi yj n
      (write mem Y yi (yj + n) (mem Y yi (yj + n) - a * mem X xi (xj + n)))

/-- The two ways in which a run of the decomposition gives no result here: a division whose
divisor is zero (in C the quotient is then an infinity or a NaN) and a recursion that never
reaches its base case. -/
inductive Fault where
  | divisionByZero
  | nonTermination
deriving DecidableEq, Repr

/-- The function `block_lu` of lu.c on the block `mem[B]`.  A zero divisor is the fault
`divisionByZero`. -/
def block_lu [Sub R] [Mul R] [Div R] [Zero R] [DecidableEq R] (B : Nat) (mem : Mem R) :
    Except Fault (Mem R) :=
  forUpM 0 BLOCK_SIZE (fun k mem =>
    forUpM (k + 1) BLOCK_SIZE (fun i mem =>
      if mem B k k = 0 then Except.error Fault.divisionByZero
      else
        let mem := write mem B i k (mem B i k / mem B k k)
        Except.ok (elem_daxmy (mem B i k) B k (k + 1) B i (k + 1) (BLOCK_SIZE - k - 1) mem)) mem) mem

/-- The function `block_lower_solve` of lu.c on the blocks `mem[B]` and `mem[L]`. -/
def block_lower_solve [Sub R] [Mul R] (B L : Nat) (mem : Mem R) : Mem R :=
  forUp 1 BLOCK_SIZE (fun i mem =>
    forUp 0 i (fun k mem =>
      elem_daxmy (mem L i k) B k 0 B i 0 BLOCK_SIZE mem) mem) mem

/-- The function `block_upper_solve` of lu.c on the blocks `mem[B]` and `mem[U]`.  A zero
divisor is the fault `divisionByZero`. -/
def block_upper_solve [Sub R] [Mul R] [Div R] [Zero R] [DecidableEq R] (B U : Nat)
    (mem : Mem R) : Except Fault (Mem R) :=
  forUpM 0 BLOCK_SIZE (fun i mem =>
    forUpM 0 BLOCK_SIZE (fun k mem =>
      if mem U k k = 0 then Except.error Fault.divisionByZero
      else
        let mem := write mem B i k (mem B i k / mem U k k)
        Except.ok (elem_daxmy (mem B i k) U k (k + 1) B i (k + 1) (BLOCK_SIZE - k - 1) mem)) mem) mem

/-- The function `block_schur` of lu.c on the blocks `mem[B]`, `mem[A]` and `mem[C]`. -/
def block_schur [Sub R] [Mul R] (B A C : Nat) (mem : Mem R) : Mem R :=
  forUp 0 BLOCK_SIZE (fun i mem =>
    forUp 0 BLOCK_SIZE (fun k mem =>
      elem_daxmy (mem A i k) C k 0 B i 0 BLOCK_SIZE mem) mem) mem

/-- The function `schur` of lu.c; `nBlocks` is the global of that name.  For `nb = 0` the C
recursion does not terminate: the fault `nonTermination`. -/
def schur [Sub R] [Mul R] (nBlocks : Nat) (M V W : Nat) (nb : Nat) (mem : Mem R) :
    Except Fault (Mem R) :=
  if nb = 1 then Except.ok (block_schur M V W mem)
  else if nb = 0 then Except.error Fault.nonTermination
  else
    let hnb := nb / 2
    let M00 := M + (0 * nBlocks + 0)
    let M01 := M + (0 * nBlocks + hnb)
    let M10 := M + (hnb * nBlocks + 0)
    let M11 := M + (hnb * nBlocks + hnb)
    let V00 := V + (0 * nBlocks + 0)
    let V01 := V + (0 * nBlocks + hnb)
    let V10 := V + (hnb * nBlocks + 0)
    let V11 := V + (hnb * nBlocks + hnb)
    let W00 := W + (0 * nBlocks + 0)
    let W01 := W + (0 * nBlocks + hnb)
    let W10 := W + (hnb * nBlocks + 0)
    let W11 := W + (hnb * nBlocks + hnb)
    (schur nBlocks M00 V00 W00 hnb mem).bind fun mem =>
    (schur nBlocks M01 V00 W01 hnb mem).bind fun mem =>
    (schur nBlocks M10 V10 W00 hnb mem).bind fun mem =>
    (schur nBlocks M11 V10 W01 hnb mem).bind fun mem =>
    (schur nBlocks M00 V01 W10 hnb mem).bind fun mem =>
    (schur nBlocks M01 V01 W11 hnb mem).bind fun mem =>
    (schur nBlocks M10 V11 W10 hnb mem).bind fun mem =>
    schur nBlocks M11 V11 W11 hnb mem
termination_by nb
decreasing_by all_goals omega

mutual

/-- The function `aux_lower_solve` of lu.c. -/
def aux_lower_solve [Sub R] [Mul R] (nBlocks : Nat) (Ma Mb L : Nat) (nb : Nat) (mem : Mem R) :
    Except Fault (Mem R) :=
  let L00 := L + (0 * nBlocks + 0)
  let L10 := L + (nb * nBlocks + 0)
  let L11 := L + (nb * nBlocks + nb)
  (lower_solve nBlocks Ma L00 nb mem).bind fun mem =>
  (schur nBlocks Mb L10 Ma nb mem).bind fun mem =>
  lower_solve nBlocks Mb L11 nb mem
termination_by 2 * nb + 1
decreasing_by all_goals omega

/-- The function `lower_solve` of lu.c.  For `nb = 0` the C recursion does not terminate:
the fault `nonTermination`. -/
def lower_solve [Sub R] [Mul R] (nBlocks : Nat) (M L : Nat) (nb : Nat) (mem : Mem R) :
    Except Fault (Mem R) :=
  if nb = 1 then Except.ok (block_lower_solve M L mem)
  else if nb = 0 then Except.error Fault.nonTermination
  else
    let hnb := nb / 2
    let M00 := M + (0 * nBlocks + 0)
    let M01 := M + (0 * nBlocks + hnb)
    let M10 := M + (hnb * nBlocks + 0)
    let M11 := M + (hnb * nBlocks + hnb)
    (aux_lower_solve nBlocks M00 M10 L hnb mem).bind fun mem =>
    aux_lower_solve nBlocks M01 M11 L hnb mem
termination_by 2 * nb
decreasing_by all_goals omega

end

mutual

/-- The function `aux_upper_solve` of lu.c. -/
def aux_upper_solve [Sub R] [Mul R] [Div R] [Zero R] [DecidableEq R] (nBlocks : Nat)
    (Ma Mb U : Nat) (nb : Nat) (mem : Mem R) : Except Fault (Mem R) :=
  let U00 := U + (0 * nBlocks + 0)
  let U01 := U + (0 * nBlocks + nb)
  let U11 := U + (nb * nBlocks + nb)
  (upper_solve nBlocks Ma U00 nb mem).bind fun mem =>
  (schur nBlocks Mb Ma U01 nb mem).bind fun mem =>
  upper_solve nBlocks Mb U11 nb mem
termination_by 2 * nb + 1
decreasing_by all_goals omega

/-- The function `upper_solve` of lu.c.  A zero divisor is the fault `divisionByZero`;
for `nb = 0` the C recursion does not terminate: the fault `nonTermination`. -/
def upper_solve [Sub R] [Mul R] [Div R] [Zero R] [DecidableEq R] (nBlocks : Nat) (M U : Nat)
    (nb : Nat) (mem : Mem R) : Except Fault (Mem R) :=
  if nb = 1 then block_upper_solve M U mem
  else if nb = 0 then Except.error Fault.nonTermination
  else
    let hnb := nb / 2
    let M00 := M + (0 * nBlocks + 0)
    let M01 := M + (0 * nBlocks + hnb)
    let M10 := M + (hnb * nBlocks + 0)
    let M11 := M + (hnb * nBlocks + hnb)
    (aux_upper_solve nBlocks M00 M01 U hnb mem).bind fun mem =>
    aux_upper_solve nBlocks M10 M11 U hnb mem
termination_by 2 * nb
decreasing_by all_goals omega

end

/-- The function `lu` of lu.c; `nBlocks` is the global of that name.  A zero divisor is
the fault `divisionByZero`; for `nb = 0` the C recursion does not terminate: the fault
`nonTermination`. -/
def lu [Sub R] [Mul R] [Div R] [Zero R] [DecidableEq R] (nBlocks : Nat) (M : Nat) (nb : Nat)
    (mem : Mem R) : Except Fault (Mem R) :=
  if nb = 1 then block_lu M mem
  else if nb = 0 then Except.error Fault.nonTermination
  else
    let hnb := nb / 2
    let M00 := M + (0 * nBlocks + 0)
    let M01 := M + (0 * nBlocks + hnb)
    let M10 := M + (hnb * nBlocks + 0)
    let M11 := M + (hnb * nBlocks + hnb)
    (lu nBlocks M00 hnb mem).bind fun mem =>
    (lower_solve nBlocks M01 M00 hnb mem).bind fun mem =>
    (upper_solve nBlocks M10 M00 hnb mem).bind fun mem =>
    (schur nBlocks M11 M10 M01 hnb mem).bind fun mem =>
    lu nBlocks M11 hnb mem
termination_by nb
decreasing_by all_goals omega

/-- The function `usage` of lu.c: it prints the help text and returns 1. -/
def usage : Int := 1

/-- The loop `while (!((unsigned)v & (unsigned)1)) v >>= 1;` of `invalid_input`, returning the
final `v`.  On `v = 0` the C loop does not terminate; the result is `none` there. -/
def invalid_input_loop (v : Int) : Option Int :=
  if v % 2 = 0 then
    if v = 0 then none else invalid_input_loop (v >>> (1 : Nat))
  else some v
termination_by v.natAbs
decreasing_by
  rename_i h0 h
  have h2 : v >>> (1 : Nat) = v / 2 := by
    rw [Int.shiftRight_eq_div_pow]
    norm_num
  rw [h2]
  omega

/-- The function `invalid_input` of lu.c. -/
def invalid_input (n : Int) : Option Int :=
  let v := n
  if n < BLOCK_SIZE then some usage
  else
    match invalid_input_loop v with
    | none => none
    | some v => if v ≠ 1 then some usage else some 0

/-- Entry `(i, j)` of the matrix at `M`, as `test_result` and `print_matrix` read it:
`BLOCK(MATRIX(M, i / BLOCK_SIZE, j / BLOCK_SIZE), i % BLOCK_SIZE, j % BLOCK_SIZE)`. -/
def cell (nBlocks : Nat) (mem : Mem R) (M : Nat) (i j : Nat) : R :=
  mem (M + ((i / BLOCK_SIZE) * nBlocks + j / BLOCK_SIZE)) (i % BLOCK_SIZE) (j % BLOCK_SIZE)

/-- The matrix `G1` agrees with `G` outside the rectangle of `nr x nc` entries at `(r, c)`,
on the columns below `W`. -/
def Frame (W : Nat) (G G1 : Nat → Nat → R) (r c nr nc : Nat) : Prop :=
  ∀ i j, j < W → ¬ (r ≤ i ∧ i < r + nr ∧ c ≤ j ∧ j < c + nc) → G1 i j = G i j

/-- Two rectangles of entries do not meet. -/
def Apart (r c nr nc r1 c1 nr1 nc1 : Nat) : Prop :=
  r + nr ≤ r1 ∨ r1 + nr1 ≤ r ∨ c + nc ≤ c1 ∨ c1 + nc1 ≤ c

/-- The step `M' = M - V * W` on rectangles: `M` is `nr x nc` at `(rm, cm)`, `V` is
`nr x nk` at `(rv, cv)`, `W` is `nk x nc` at `(rw, cw)`. -/
def SchurRel [CommRing R] (Wd : Nat) (G G1 : Nat → Nat → R)
    (rm cm rv cv rw cw nr nc nk : Nat) : Prop :=
  (∀ i j, i < nr → j < nc → G1 (rm + i) (cm + j) =
    G (rm + i) (cm + j) - ∑ k in Finset.range nk, G (rv + i) (cv + k) * G (rw + k) (cw + j)) ∧
  Frame Wd G G1 rm cm nr nc

/-- The step `M' = L'⁻¹ * M` on rectangles, stated as `L' * M' = M`: `L'` is the strict lower
triangle of the `nr x nr` matrix at `(rl, cl)` with a unit diagonal. -/
def LowerRel [CommRing R] (Wd : Nat) (G G1 : Nat → Nat → R)
    (rm cm rl cl nr nc : Nat) : Prop :=
  (∀ i j, i < nr → j < nc → G (rm + i) (cm + j) =
    G1 (rm + i) (cm + j) +
      ∑ k in Finset.range i, G (rl + i) (cl + k) * G1 (rm + k) (cm + j)) ∧
  Frame Wd G G1 rm cm nr nc

/-- The step `M' = M * U'⁻¹` on rectangles, stated as `M' * U' = M`: `U'` is the upper
triangle of the `nc x nc` matrix at `(ru, cu)`. -/
def UpperRel [CommRing R] (Wd : Nat) (G G1 : Nat → Nat → R)
    (rm cm ru cu nr nc : Nat) : Prop :=
  (∀ i j, i < nr → j < nc → G (rm + i) (cm + j) =
    ∑ k in Finset.range (j + 1), G1 (rm + i) (cm + k) * G (ru + k) (cu + j)) ∧
  Frame Wd G G1 rm cm nr nc

/-- The factorisation `M = L' * U'` of the `n x n` matrix at `(r, c)`, with `L'` the strict
lower triangle of `G1` with a unit diagonal and `U'` its upper triangle, in the form in
which `test_result` sums it. -/
def LURel [CommRing R] (Wd : Nat) (G G1 : Nat → Nat → R) (r c n : Nat) : Prop :=
  (∀ i j, i < n → j < n → G (r + i) (c + j) =
    ∑ k in Finset.range (min i (j + 1)), G1 (r + i) (c + k) * G1 (r + k) (c + j) +
      (if i ≤ j then G1 (r + i) (c + j) else 0)) ∧
  Frame Wd G G1 r c n n

/-- The contract of `schur` on `h x h` blocks inside the matrix at `T`: for operands at block
coordinates `(Im, Jm)`, `(Iv, Jv)`, `(Iw, Jw)` that fit in the `nB` block columns, with `M`
apart from `V` and `W`, the call performs the step `M' = M - V * W`, and its only faults are
those in `E`. -/
def SchurOk [CommRing R] (E : Fault → Prop) (nB T h : Nat) : Prop :=
  ∀ (Im Jm Iv Jv Iw Jw : Nat) (mem : Mem R), Jm + h ≤ nB → Jv + h ≤ nB → Jw + h ≤ nB →
    Apart (16 * Im) (16 * Jm) (16 * h) (16 * h) (16 * Iv) (16 * Jv) (16 * h) (16 * h) →
    Apart (16 * Im) (16 * Jm) (16 * h) (16 * h) (16 * Iw) (16 * Jw) (16 * h) (16 * h) →
    Sat E (fun mem1 : Mem R => SchurRel (16 * nB) (cell nB mem T) (cell nB mem1 T)
        (16 * Im) (16 * Jm) (16 * Iv) (16 * Jv) (16 * Iw) (16 * Jw) (16 * h) (16 * h) (16 * h))
      (schur nB (T + (Im * nB + Jm)) (T + (Iv * nB + Jv)) (T + (Iw * nB + Jw)) h mem)

/-- The contract of `lower_solve` on `h x h` blocks inside the matrix at `T`. -/
def LowerOk [CommRing R] (E : Fault → Prop) (nB T h : Nat) : Prop :=
  ∀ (Im Jm Il Jl : Nat) (mem : Mem R), Jm + h ≤ nB → Jl + h ≤ nB →
    Apart (16 * Im) (16 * Jm) (16 * h) (16 * h) (16 * Il) (16 * Jl) (16 * h) (16 * h) →
    Sat E (fun mem1 : Mem R => LowerRel (16 * nB) (cell nB mem T) (cell nB mem1 T)
        (16 * Im) (16 * Jm) (16 * Il) (16 * Jl) (16 * h) (16 * h))
      (lower_solve nB (T + (Im * nB + Jm)) (T + (Il * nB + Jl)) h mem)

/-- The contract of `upper_solve` on `h x h` blocks inside the matrix at `T`. -/
def UpperOk [Field R] [DecidableEq R] (E : Fault → Prop) (nB T h : Nat) : Prop :=
  ∀ (Im Jm Iu Ju : Nat) (mem : Mem R), Jm + h ≤ nB → Ju + h ≤ nB →
    Apart (16 * Im) (16 * Jm) (16 * h) (16 * h) (16 * Iu) (16 * Ju) (16 * h) (16 * h) →
    Sat E (fun mem1 : Mem R => UpperRel (16 * nB) (cell nB mem T) (cell nB mem1 T)
        (16 * Im) (16 * Jm) (16 * Iu) (16 * Ju) (16 * h) (16 * h))
      (upper_solve nB (T + (Im * nB + Jm)) (T + (Iu * nB + Ju)) h mem)

/-- The contract of `lu` on `h x h` blocks inside the matrix at `T`. -/
def LUOk [Field R] [DecidableEq R] (E : Fault → Prop) (nB T h : Nat) : Prop :=
  ∀ (Im Jm : Nat) (mem : Mem R), Jm + h ≤ nB →
    Sat E (fun mem1 : Mem R => LURel (16 * nB) (cell nB mem T) (cell nB mem1 T)
        (16 * Im) (16 * Jm) (16 * h))
      (lu nB (T + (Im * nB + Jm)) h mem)

/-- The loop `for (k = 0; k < i && k <= j; k++) v += LU[i][k] * LU[k][j]` of `test_result`,
on the loop variables `(k, v)`; `fuel` bounds the number of iterations, and `i` is enough. -/
def test_result_loop [Add R] [Mul R] (nBlocks : Nat) (mem : Mem R) (LU : Nat) (i j : Nat) :
    Nat → Nat → R → Nat × R
  | 0, k, v => (k, v)
  | fuel + 1, k, v =>
    if k < i ∧ k ≤ j then
      test_result_loop nBlocks mem LU i j fuel (k + 1)
        (v + cell nBlocks mem LU i k * cell nBlocks mem LU k j)
    else (k, v)

/-- The value `v` that `test_result` compares with entry `(i, j)` of the original matrix. -/
def test_result_v [Zero R] [Add R] [Mul R] (nBlocks : Nat) (mem : Mem R) (LU : Nat)
    (i j : Nat) : R :=
  let kv := test_result_loop nBlocks mem LU i j i 0 0
  let k := kv.1
  let v := kv.2
  if k = i ∧ k ≤ j then v + cell nBlocks mem LU k j else v

/-- The factor `L` read off the compact result: its entries strictly below the diagonal, a
unit diagonal, zero above. -/
def unit_lower [Zero R] [One R] (G : Nat → Nat → R) (i k : Nat) : R :=
  if k < i then G i k else if k = i then 1 else 0

/-- The factor `U` read off the compact result: its entries on and above the diagonal, zero
below. -/
def upper_part [Zero R] (G : Nat → Nat → R) (k j : Nat) : R :=
  if k ≤ j then G k j else 0

/-- The leading principal minor of order `n` of the matrix `f`. -/
def minor [CommRing R] (f : Nat → Nat → R) (n : Nat) : R :=
  Matrix.det (Matrix.of fun (i j : Fin n) => f i j)

/-- All leading principal minors of `f` up to the order `n` are non-zero. -/
def Regular [CommRing R] (f : Nat → Nat → R) (n : Nat) : Prop :=
  ∀ k, k ≤ n → minor f k ≠ 0

/-- The `n x n` matrix `f` is strictly diagonally dominant by rows:
`|f i i| > sum over j ≠ i of |f i j|` for every row `i`. -/
def DiagDominant [LinearOrderedField R] (f : Nat → Nat → R) (n : Nat) : Prop :=
  ∀ i, i < n → ∑ j in (Finset.range n).erase i, |f i j| < |f i i|

/-- The contract of `upper_solve` without faults: when no diagonal entry of `U` is zero, the
call performs the step `M' * U' = M` and meets no zero divisor. -/
def UpperSafe [Field R] [DecidableEq R] (nB T h : Nat) : Prop :=
  ∀ (Im Jm Iu Ju : Nat) (mem : Mem R), Jm + h ≤ nB → Ju + h ≤ nB →
    Apart (16 * Im) (16 * Jm) (16 * h) (16 * h) (16 * Iu) (16 * Ju) (16 * h) (16 * h) →
    (∀ k, k < 16 * h → cell nB mem T (16 * Iu + k) (16 * Ju + k) ≠ 0) →
    Sat (fun _ => False)
      (fun mem1 : Mem R => UpperRel (16 * nB) (cell nB mem T) (cell nB mem1 T)
        (16 * Im) (16 * Jm) (16 * Iu) (16 * Ju) (16 * h) (16 * h))
      (upper_solve nB (T + (Im * nB + Jm)) (T + (Iu * nB + Ju)) h mem)

/-- The contract of `lu` without faults: when all leading principal minors of the matrix are
non-zero, the call factors it and meets no zero divisor. -/
def LUSafe [Field R] [DecidableEq R] (nB T h : Nat) : Prop :=
  ∀ (Im Jm : Nat) (mem : Mem R), Jm + h ≤ nB →
    Regular (fun i j => cell nB mem T (16 * Im + i) (16 * Jm + j)) (16 * h) →
    Sat (fun _ => False)
      (fun mem1 : Mem R => LURel (16 * nB) (cell nB mem T) (cell nB mem1 T)
        (16 * Im) (16 * Jm) (16 * h))
      (lu nB (T + (Im * nB + Jm)) h mem)

/-- The first `n` rounds (`k = 0 .. n - 1`) of the outer loop of `block_lu` on the block
`mem[B]`; `block_lu` itself is the case `n = BLOCK_SIZE`. -/
def block_lu_rounds [Sub R] [Mul R] [Div R] [Zero R] [DecidableEq R] (B : Nat) (n : Nat)
    (mem : Mem R) : Except Fault (Mem R) :=
  forUpM 0 n (fun k mem =>
    forUpM (k + 1) BLOCK_SIZE (fun i mem =>
      if mem B k k = 0 then Except.error Fault.divisionByZero
      else
        let mem := write mem B i k (mem B i k / mem B k k)
        Except.ok (elem_daxmy (mem B i k) B k (k + 1) B i (k + 1) (BLOCK_SIZE - k - 1) mem)) mem) mem

/-- The memories `mem` and `mem1` hold the same values in the cells `S` (block, row and column
inside the block). -/
def AgreeOn (S : Nat → Nat → Nat → Prop) (mem mem1 : Mem R) : Prop :=
  ∀ B i j, S B i j → mem B i j = mem1 B i j

/-- All cells of the `nb x nb` blocks of the matrix at `M` are in `S`. -/
def InBlocks (S : Nat → Nat → Nat → Prop) (nBlocks M nb : Nat) : Prop :=
  ∀ I J i j, I < nb → J < nb → i < 16 → j < 16 → S (M + (I * nBlocks + J)) i j

/-- The cells strictly below the diagonal of the matrix of `nb x nb` blocks at `L` are in
`S`. -/
def InLower (S : Nat → Nat → Nat → Prop) (nBlocks L nb : Nat) : Prop :=
  ∀ I J i j, I < nb → J < nb → i < 16 → j < 16 → 16 * J + j < 16 * I + i →
    S (L + (I * nBlocks + J)) i j

/-- The cells on and above the diagonal of the matrix of `nb x nb` blocks at `U` are in
`S`. -/
def InUpper (S : Nat → Nat → Nat → Prop) (nBlocks U nb : Nat) : Prop :=
  ∀ I J i j, I < nb → J < nb → i < 16 → j < 16 → 16 * I + i ≤ 16 * J + j →
    S (U + (I * nBlocks + J)) i j

/-- The cells of the matrix of `nb x nb` blocks at `M`. -/
def MatCells (nBlocks M nb : Nat) (B i j : Nat) : Prop :=
  ∃ I J, I < nb ∧ J < nb ∧ B = M + (I * nBlocks + J) ∧ i < 16 ∧ j < 16

/-- The cells strictly below the diagonal of the matrix of `nb x nb` blocks at `L`. -/
def LowerCells (nBlocks L nb : Nat) (B i j : Nat) : Prop :=
  ∃ I J, I < nb ∧ J < nb ∧ B = L + (I * nBlocks + J) ∧ i < 16 ∧ j < 16 ∧
    16 * J + j < 16 * I + i

/-- The cells on and above the diagonal of the matrix of `nb x nb` blocks at `U`. -/
def UpperCells (nBlocks U nb : Nat) (B i j : Nat) : Prop :=
  ∃ I J, I < nb ∧ J < nb ∧ B = U + (I * nBlocks + J) ∧ i < 16 ∧ j < 16 ∧
    16 * I + i ≤ 16 * J + j

/-- The blocks of the matrix of `nb x nb` blocks at `M`. -/
def MatBlocks (nBlocks M nb : Nat) (b : Nat) : Prop :=
  ∃ I J, I < nb ∧ J < nb ∧ b = M + (I * nBlocks + J)

/-- A call of one of the recursive routines of lu.c, with its arguments. -/
inductive Call where
  | schur (M V W nb : Nat)
  | aux_lower_solve (Ma Mb L nb : Nat)
  | lower_solve (M L nb : Nat)
  | aux_upper_solve (Ma Mb U nb : Nat)
  | upper_solve (M U nb : Nat)
  | lu (M nb : Nat)

/-- The run of a call. -/
def Call.run [Sub R] [Mul R] [Div R] [Zero R] [DecidableEq R] (nBlocks : Nat) :
    Call → Mem R → Except Fault (Mem R)
  | Call.schur M V W nb => Lu.schur nBlocks M V W nb
  | Call.aux_lower_solve Ma Mb L nb => Lu.aux_lower_solve nBlocks Ma Mb L nb
  | Call.lower_solve M L nb => Lu.lower_solve nBlocks M L nb
  | Call.aux_upper_solve Ma Mb U nb => Lu.aux_upper_solve nBlocks Ma Mb U nb
  | Call.upper_solve M U nb => Lu.upper_solve nBlocks M U nb
  | Call.lu M nb => Lu.lu nBlocks M nb

/-- The calls `cs` run one after the other. -/
def runAll [Sub R] [Mul R] [Div R] [Zero R] [DecidableEq R] (nBlocks : Nat) :
    List Call → Mem R → Except Fault (Mem R)
  | [], mem => Except.ok mem
  | c :: cs, mem => (c.run nBlocks mem).bind (runAll nBlocks cs)

/-- The body of the recursive case of each routine of lu.c, as the sequence of its groups of
calls: a group holds the calls made between two consecutive sync points (inside one
`cilk_scope`, the spawned calls and the call that follows them), which may run concurrently;
a call outside a `cilk_scope` is a group of its own. -/
def Call.scopes (nBlocks : Nat) : Call → List (List Call)
  | Call.schur M V W nb =>
    let hnb := nb / 2
    let M00 := M + (0 * nBlocks + 0)
    let M01 := M + (0 * nBlocks + hnb)
    let M10 := M + (hnb * nBlocks + 0)
    let M11 := M + (hnb * nBlocks + hnb)
    let V00 := V + (0 * nBlocks + 0)
    let V01 := V + (0 * nBlocks + hnb)
    let V10 := V + (hnb * nBlocks + 0)
    let V11 := V + (hnb * nBlocks + hnb)
    let W00 := W + (0 * nBlocks + 0)
    let W01 := W + (0 * nBlocks + hnb)
    let W10 := W + (hnb * nBlocks + 0)
    let W11 := W + (hnb * nBlocks + hnb)
    [[Call.schur M00 V00 W00 hnb, Call.schur M01 V00 W01 hnb, Call.schur M10 V10 W00 hnb,
        Call.schur M11 V10 W01 hnb],
      [Call.schur M00 V01 W10 hnb, Call.schur M01 V01 W11 hnb, Call.schur M10 V11 W10 hnb,
        Call.schur M11 V11 W11 hnb]]
  | Call.aux_lower_solve Ma Mb L nb =>
    let L00 := L + (0 * nBlocks + 0)
    let L10 := L + (nb * nBlocks + 0)
    let L11 := L + (nb * nBlocks + nb)
    [[Call.lower_solve Ma L00 nb], [Call.schur Mb L10 Ma nb], [Call.lower_solve Mb L11 nb]]
  | Call.lower_solve M L nb =>
    let hnb := nb / 2
    let M00 := M + (0 * nBlocks + 0)
    let M01 := M + (0 * nBlocks + hnb)
    let M10 := M + (hnb * nBlocks + 0)
    let M11 := M + (hnb * nBlocks + hnb)
    [[Call.aux_lower_solve M00 M10 L hnb, Call.aux_lower_solve M01 M11 L hnb]]
  | Call.aux_upper_solve Ma Mb U nb =>
    let U00 := U + (0 * nBlocks + 0)
    let U01 := U + (0 * nBlocks + nb)
    let U11 := U + (nb * nBlocks + nb)
    [[Call.upper_solve Ma U00 nb], [Call.schur Mb Ma U01 nb], [Call.upper_solve Mb U11 nb]]
  | Call.upper_solve M U nb =>
    let hnb := nb / 2
    let M00 := M + (0 * nBlocks + 0)
    let M01 := M + (0 * nBlocks + hnb)
    let M10 := M + (hnb * nBlocks + 0)
    let M11 := M + (hnb * nBlocks + hnb)
    [[Call.aux_upper_solve M00 M01 U hnb, Call.aux_upper_solve M10 M11 U hnb]]
  | Call.lu M nb =>
    let hnb := nb / 2
    let M00 := M + (0 * nBlocks + 0)
    let M01 := M + (0 * nBlocks + hnb)
    let M10 := M + (hnb * nBlocks + 0)
    let M11 := M + (hnb * nBlocks + hnb)
    [[Call.lu M00 hnb], [Call.lower_solve M01 M00 hnb, Call.upper_solve M10 M00 hnb],
      [Call.schur M11 M10 M01 hnb], [Call.lu M11 hnb]]

/-- Whether the call takes the recursive case of its routine (`nb` is neither 1 nor 0). -/
def Call.recursive : Call → Prop
  | Call.schur _ _ _ nb => nb ≠ 1 ∧ nb ≠ 0
  | Call.aux_lower_solve _ _ _ _ => True
  | Call.lower_solve _ _ nb => nb ≠ 1 ∧ nb ≠ 0
  | Call.aux_upper_solve _ _ _ _ => True
  | Call.upper_solve _ _ nb => nb ≠ 1 ∧ nb ≠ 0
  | Call.lu _ nb => nb ≠ 1 ∧ nb ≠ 0

/-- The blocks that a call may write: those of the matrix (or matrices) it updates. -/
def Call.writes (nBlocks : Nat) : Call → Nat → Prop
  | Call.schur M _ _ nb => MatBlocks nBlocks M nb
  | Call.aux_lower_solve Ma Mb _ nb => fun b => MatBlocks nBlocks Ma nb b ∨ MatBlocks nBlocks Mb nb b
  | Call.lower_solve M _ nb => MatBlocks nBlocks M nb
  | Call.aux_upper_solve Ma Mb _ nb => fun b => MatBlocks nBlocks Ma nb b ∨ MatBlocks nBlocks Mb nb b
  | Call.upper_solve M _ nb => MatBlocks nBlocks M nb
  | Call.lu M nb => MatBlocks nBlocks M nb

/-- The blocks that a call may read: those of all its operands (the factor passed to
`aux_lower_solve` and `aux_upper_solve` is `2 nb x 2 nb` blocks large). -/
def Call.reads (nBlocks : Nat) : Call → Nat → Prop
  | Call.schur M V W nb => fun b =>
    MatBlocks nBlocks M nb b ∨ MatBlocks nBlocks V nb b ∨ MatBlocks nBlocks W nb b
  | Call.aux_lower_solve Ma Mb L nb => fun b =>
    MatBlocks nBlocks Ma nb b ∨ MatBlocks nBlocks Mb nb b ∨ MatBlocks nBlocks L (nb + nb) b
  | Call.lower_solve M L nb => fun b => MatBlocks nBlocks M nb b ∨ MatBlocks nBlocks L nb b
  | Call.aux_upper_solve Ma Mb U nb => fun b =>
    MatBlocks nBlocks Ma nb b ∨ MatBlocks nBlocks Mb nb b ∨ MatBlocks nBlocks U (nb + nb) b
  | Call.upper_solve M U nb => fun b => MatBlocks nBlocks M nb b ∨ MatBlocks nBlocks U nb b
  | Call.lu M nb => MatBlocks nBlocks M nb

/-- The operand matrices of the call occupy disjoint block sets: the matrix that is updated
shares no block with a matrix that is only read, and its `nb` block columns fit in the
`nBlocks` block columns of the storage. -/
def Call.separate (nBlocks : Nat) : Call → Prop
  | Call.schur M V W nb => nb ≤ nBlocks ∧
    ∀ b, MatBlocks nBlocks M nb b → ¬ MatBlocks nBlocks V nb b ∧ ¬ MatBlocks nBlocks W nb b
  | Call.aux_lower_solve _ _ _ _ => True
  | Call.lower_solve M L nb => nb ≤ nBlocks ∧
    ∀ b, MatBlocks nBlocks M nb b → ¬ MatBlocks nBlocks L nb b
  | Call.aux_upper_solve _ _ _ _ => True
  | Call.upper_solve M U nb => nb ≤ nBlocks ∧
    ∀ b, MatBlocks nBlocks M nb b → ¬ MatBlocks nBlocks U nb b
  | Call.lu _ nb => nb ≤ nBlocks

/-- Two calls do not interfere: they write disjoint sets of blocks, and neither writes a
block that the other reads. -/
def Call.independent (nBlocks : Nat) (c1 c2 : Call) : Prop :=
  ∀ b, (c1.writes nBlocks b → ¬ c2.writes nBlocks b ∧ ¬ c2.reads nBlocks b) ∧
    (c2.writes nBlocks b → ¬ c1.reads nBlocks b)

end Lu

/-! ## strassen.c : definitions -/

namespace Strassen

open Loop

/-- A C array of `REAL`: a total function from indices to values.  A `REAL *` is such a
buffer together with an index into it. -/
abbrev Buf (R : Type) := Nat → R

variable {R : Type}

/-- The assignment `b[k] = v`. -/
def write (b : Buf R) (k : Nat) (v : R) : Buf R :=
  fun j => if j = k then v else b j

/-- The pointer `(REAL *)(((PTR)p) + bytes)`, for a byte count that is a multiple of
`sizeof(REAL) = 8`. -/
def addBytes (p bytes : Nat) : Nat := p + bytes / 8

/-- The pointer `(REAL *)(((PTR)p) - bytes)`, for a byte count that is a multiple of
`sizeof(REAL) = 8`. -/
def subBytes (p bytes : Nat) : Nat := p - bytes / 8

/-- The macro `ELEM(A, an, i, j)` of strassen.c, for the array at `A + Ap`. -/
def ELEM (A : Buf R) (Ap an i j : Nat) : R := A (Ap + (i * an + j))

/-- The eight accumulators `Sum0` .. `Sum7` of the naive multiplication kernels. -/
structure Sums (R : Type) where
  Sum0 : R
  Sum1 : R
  Sum2 : R
  Sum3 : R
  Sum4 : R
  Sum5 : R
  Sum6 : R
  Sum7 : R

/-- The loop-carried variables of the `Products` loop of the naive kernels. -/
structure ProdState (R : Type) where
  ARowStart : Nat
  BColumnStart : Nat
  sums : Sums R

/-- The loop-carried variables of the `Vertical` and `Horizontal` loops of the naive kernels:
the buffer of `C` and the pointers `C` and `ARowStart`. -/
structure NaiveState (R : Type) where
  Cbuf : Buf R
  C : Nat
  ARowStart : Nat

/-- The body of the `Products` loop of `FastNaiveMatrixMultiply`. -/
def naive_products [Add R] [Mul R] (A B : Buf R) (RowWidthBInBytes : Nat) (p : ProdState R) :
    ProdState R :=
  let ARowValue := A p.ARowStart
  let ARowStart := p.ARowStart + 1
  let BColumnStart := addBytes p.BColumnStart RowWidthBInBytes
  let Sum0 := p.sums.Sum0 + ARowValue * B BColumnStart
  let Sum1 := p.sums.Sum1 + ARowValue * B (BColumnStart + 1)
  let Sum2 := p.sums.Sum2 + ARowValue * B (BColumnStart + 2)
  let Sum3 := p.sums.Sum3 + ARowValue * B (BColumnStart + 3)
  let Sum4 := p.sums.Sum4 + ARowValue * B (BColumnStart + 4)
  let Sum5 := p.sums.Sum5 + ARowValue * B (BColumnStart + 5)
  let Sum6 := p.sums.Sum6 + ARowValue * B (BColumnStart + 6)
  let Sum7 := p.sums.Sum7 + ARowValue * B (BColumnStart + 7)
  ⟨ARowStart, BColumnStart, ⟨Sum0, Sum1, Sum2, Sum3, Sum4, Sum5, Sum6, Sum7⟩⟩

/-- The body of the `Horizontal` loop of `FastNaiveMatrixMultiply`. -/
def naive_horizontal [Add R] [Mul R] (A B : Buf R) (Bp MatrixSize RowWidthBInBytes
    MatrixWidthInBytes : Nat) (Horizontal : Nat) (st : NaiveState R) : NaiveState R :=
  let BColumnStart := Bp + Horizontal
  let FirstARowValue := A st.ARowStart
  let ARowStart := st.ARowStart + 1
  let Sum0 := FirstARowValue * B BColumnStart
  let Sum1 := FirstARowValue * B (BColumnStart + 1)
  let Sum2 := FirstARowValue * B (BColumnStart + 2)
  let Sum3 := FirstARowValue * B (BColumnStart + 3)
  let Sum4 := FirstARowValue * B (BColumnStart + 4)
  let Sum5 := FirstARowValue * B (BColumnStart + 5)
  let Sum6 := FirstARowValue * B (BColumnStart + 6)
  let Sum7 := FirstARowValue * B (BColumnStart + 7)
  let p := forUp 1 MatrixSize (fun _ (p : ProdState R) => naive_products A B RowWidthBInBytes p)
    ⟨ARowStart, BColumnStart, ⟨Sum0, Sum1, Sum2, Sum3, Sum4, Sum5, Sum6, Sum7⟩⟩
  let ARowStart := subBytes p.ARowStart MatrixWidthInBytes
  let Cbuf := write st.Cbuf st.C p.sums.Sum0
  let Cbuf := write Cbuf (st.C + 1) p.sums.Sum1
  let Cbuf := write Cbuf (st.C + 2) p.sums.Sum2
  let Cbuf := write Cbuf (st.C + 3) p.sums.Sum3
  let Cbuf := write Cbuf (st.C + 4) p.sums.Sum4
  let Cbuf := write Cbuf (st.C + 5) p.sums.Sum5
  let Cbuf := write Cbuf (st.C + 6) p.sums.Sum6
  let Cbuf := write Cbuf (st.C + 7) p.sums.Sum7
  let C := st.C + 8
  ⟨Cbuf, C, ARowStart⟩

/-- The function `FastNaiveMatrixMultiply` of strassen.c; the pointers `C`, `A`, `B` are
`(Cbuf, C)`, `(A, Ap)`, `(B, Bp)`, and the result is the buffer of `C`. -/
def FastNaiveMatrixMultiply [Add R] [Mul R] (Cbuf : Buf R) (C : Nat) (A : Buf R) (Ap : Nat)
    (B : Buf R) (Bp : Nat) (MatrixSize RowWidthC RowWidthA RowWidthB : Nat) : Buf R :=
  let RowWidthBInBytes := RowWidthB <<< 3
  let RowWidthAInBytes := RowWidthA <<< 3
  let MatrixWidthInBytes := MatrixSize <<< 3
  let RowIncrementC := (RowWidthC - MatrixSize) <<< 3
  let ARowStart := Ap
  (forUp 0 MatrixSize (fun _ (st : NaiveState R) =>
    let st := forUpBy 0 MatrixSize 8
      (naive_horizontal A B Bp MatrixSize RowWidthBInBytes MatrixWidthInBytes) st
    let ARowStart := addBytes st.ARowStart RowWidthAInBytes
    let C := addBytes st.C RowIncrementC
    (⟨st.Cbuf, C, ARowStart⟩ : NaiveState R)) ⟨Cbuf, C, ARowStart⟩).Cbuf

/-- The body of the `Products` loop of `FastAdditiveNaiveMatrixMultiply`. -/
def additive_products [Add R] [Mul R] (A B : Buf R) (RowWidthBInBytes : Nat)
    (p : ProdState R) : ProdState R :=
  let ARowValue := A p.ARowStart
  let ARowStart := p.ARowStart + 1
  let Sum0 := p.sums.Sum0 + ARowValue * B p.BColumnStart
  let Sum1 := p.sums.Sum1 + ARowValue * B (p.BColumnStart + 1)
  let Sum2 := p.sums.Sum2 + ARowValue * B (p.BColumnStart + 2)
  let Sum3 := p.sums.Sum3 + ARowValue * B (p.BColumnStart + 3)
  let Sum4 := p.sums.Sum4 + ARowValue * B (p.BColumnStart + 4)
  let Sum5 := p.sums.Sum5 + ARowValue * B (p.BColumnStart + 5)
  let Sum6 := p.sums.Sum6 + ARowValue * B (p.BColumnStart + 6)
  let Sum7 := p.sums.Sum7 + ARowValue * B (p.BColumnStart + 7)
  let BColumnStart := addBytes p.BColumnStart RowWidthBInBytes
  ⟨ARowStart, BColumnStart, ⟨Sum0, Sum1, Sum2, Sum3, Sum4, Sum5, Sum6, Sum7⟩⟩

/-- The body of the `Horizontal` loop of `FastAdditiveNaiveMatrixMultiply`. -/
def additive_horizontal [Add R] [Mul R] (A B : Buf R) (Bp MatrixSize RowWidthBInBytes
    MatrixWidthInBytes : Nat) (Horizontal : Nat) (st : NaiveState R) : NaiveState R :=
  let BColumnStart := Bp + Horizontal
  let Sum0 := st.Cbuf st.C
  let Sum1 := st.Cbuf (st.C + 1)
  let Sum2 := st.Cbuf (st.C + 2)
  let Sum3 := st.Cbuf (st.C + 3)
  let Sum4 := st.Cbuf (st.C + 4)
  let Sum5 := st.Cbuf (st.C + 5)
  let Sum6 := st.Cbuf (st.C + 6)
  let Sum7 := st.Cbuf (st.C + 7)
  let p := forUp 0 MatrixSize
    (fun _ (p : ProdState R) => additive_products A B RowWidthBInBytes p)
    ⟨st.ARowStart, BColumnStart, ⟨Sum0, Sum1, Sum2, Sum3, Sum4, Sum5, Sum6, Sum7⟩⟩
  let ARowStart := subBytes p.ARowStart MatrixWidthInBytes
  let Cbuf := write st.Cbuf st.C p.sums.Sum0
  let Cbuf := write Cbuf (st.C + 1) p.sums.Sum1
  let Cbuf := write Cbuf (st.C + 2) p.sums.Sum2
  let Cbuf := write Cbuf (st.C + 3) p.sums.Sum3
  let Cbuf := write Cbuf (st.C + 4) p.sums.Sum4
  let Cbuf := write Cbuf (st.C + 5) p.sums.Sum5
  let Cbuf := write Cbuf (st.C + 6) p.sums.Sum6
  let Cbuf := write Cbuf (st.C + 7) p.sums.Sum7
  let C := st.C + 8
  ⟨Cbuf, C, ARowStart⟩

/-- The function `FastAdditiveNaiveMatrixMultiply` of strassen.c; the pointers `C`, `A`, `B`
are `(Cbuf, C)`, `(A, Ap)`, `(B, Bp)`, and the result is the buffer of `C`. -/
def FastAdditiveNaiveMatrixMultiply [Add R] [Mul R] (Cbuf : Buf R) (C : Nat) (A : Buf R)
    (Ap : Nat) (B : Buf R) (Bp : Nat) (MatrixSize RowWidthC RowWidthA RowWidthB : Nat) :
    Buf R :=
  let RowWidthBInBytes := RowWidthB <<< 3
  let RowWidthAInBytes := RowWidthA <<< 3
  let MatrixWidthInBytes := MatrixSize <<< 3
  let RowIncrementC := (RowWidthC - MatrixSize) <<< 3
  let ARowStart := Ap
  (forUp 0 MatrixSize (fun _ (st : NaiveState R) =>
    let st := forUpBy 0 MatrixSize 8
      (additive_horizontal A B Bp MatrixSize RowWidthBInBytes MatrixWidthInBytes) st
    let ARowStart := addBytes st.ARowStart RowWidthAInBytes
    let C := addBytes st.C RowIncrementC
    (⟨st.Cbuf, C, ARowStart⟩ : NaiveState R)) ⟨Cbuf, C, ARowStart⟩).Cbuf

/-- The macro `SizeAtWhichDivideAndConquerIsMoreEfficient` of strassen.c. -/
def SizeAtWhichDivideAndConquerIsMoreEfficient : Nat := 64

/-- The macro `SizeAtWhichNaiveAlgorithmIsMoreEfficient` of strassen.c. -/
def SizeAtWhichNaiveAlgorithmIsMoreEfficient : Nat := 16

/-- The function `MultiplyByDivideAndConquer` of strassen.c; the pointers `C`, `A`, `B` are
`(Cbuf, C)`, `(A, Ap)`, `(B, Bp)`, `AdditiveMode` is the truth value of the C `int`, and the
result is the buffer of `C`. -/
def MultiplyByDivideAndConquer [Add R] [Mul R] (Cbuf : Buf R) (C : Nat) (A : Buf R) (Ap : Nat)
    (B : Buf R) (Bp : Nat) (MatrixSize RowWidthC RowWidthA RowWidthB : Nat)
    (AdditiveMode : Bool) : Buf R :=
  let A00 := Ap
  let B00 := Bp
  let C00 := C
  let QuadrantSize := MatrixSize >>> 1
  let A01 := A00 + QuadrantSize
  let A10 := A00 + RowWidthA * QuadrantSize
  let A11 := A10 + QuadrantSize
  let B01 := B00 + QuadrantSize
  let B10 := B00 + RowWidthB * QuadrantSize
  let B11 := B10 + QuadrantSize
  let C01 := C00 + QuadrantSize
  let C10 := C00 + RowWidthC * QuadrantSize
  let C11 := C10 + QuadrantSize
  if QuadrantSize > SizeAtWhichNaiveAlgorithmIsMoreEfficient then
    let Cbuf := MultiplyByDivideAndConquer Cbuf C00 A A00 B B00 QuadrantSize RowWidthC
      RowWidthA RowWidthB AdditiveMode
    let Cbuf := MultiplyByDivideAndConquer Cbuf C01 A A00 B B01 QuadrantSize RowWidthC
      RowWidthA RowWidthB AdditiveMode
    let Cbuf := MultiplyByDivideAndConquer Cbuf C11 A A10 B B01 QuadrantSize RowWidthC
      RowWidthA RowWidthB AdditiveMode
    let Cbuf := MultiplyByDivideAndConquer Cbuf C10 A A10 B B00 QuadrantSize RowWidthC
      RowWidthA RowWidthB AdditiveMode
    let Cbuf := MultiplyByDivideAndConquer Cbuf C00 A A01 B B10 QuadrantSize RowWidthC
      RowWidthA RowWidthB true
    let Cbuf := MultiplyByDivideAndConquer Cbuf C01 A A01 B B11 QuadrantSize RowWidthC
      RowWidthA RowWidthB true
    let Cbuf := MultiplyByDivideAndConquer Cbuf C11 A A11 B B11 QuadrantSize RowWidthC
      RowWidthA RowWidthB true
    MultiplyByDivideAndConquer Cbuf C10 A A11 B B10 QuadrantSize RowWidthC
      RowWidthA RowWidthB true
  else
    let Cbuf :=
      if AdditiveMode then
        let Cbuf := FastAdditiveNaiveMatrixMultiply Cbuf C00 A A00 B B00 QuadrantSize
          RowWidthC RowWidthA RowWidthB
        let Cbuf := FastAdditiveNaiveMatrixMultiply Cbuf C01 A A00 B B01 QuadrantSize
          RowWidthC RowWidthA RowWidthB
        let Cbuf := FastAdditiveNaiveMatrixMultiply Cbuf C11 A A10 B B01 QuadrantSize
          RowWidthC RowWidthA RowWidthB
        FastAdditiveNaiveMatrixMultiply Cbuf C10 A A10 B B00 QuadrantSize
          RowWidthC RowWidthA RowWidthB
      else
        let Cbuf := FastNaiveMatrixMultiply Cbuf C00 A A00 B B00 QuadrantSize
          RowWidthC RowWidthA RowWidthB
        let Cbuf := FastNaiveMatrixMultiply Cbuf C01 A A00 B B01 QuadrantSize
          RowWidthC RowWidthA RowWidthB
        let Cbuf := FastNaiveMatrixMultiply Cbuf C11 A A10 B B01 QuadrantSize
          RowWidthC RowWidthA RowWidthB
        FastNaiveMatrixMultiply Cbuf C10 A A10 B B00 QuadrantSize
          RowWidthC RowWidthA RowWidthB
    let Cbuf := FastAdditiveNaiveMatrixMultiply Cbuf C00 A A01 B B10 QuadrantSize
      RowWidthC RowWidthA RowWidthB
    let Cbuf := FastAdditiveNaiveMatrixMultiply Cbuf C01 A A01 B B11 QuadrantSize
      RowWidthC RowWidthA RowWidthB
    let Cbuf := FastAdditiveNaiveMatrixMultiply Cbuf C11 A A11 B B11 QuadrantSize
      RowWidthC RowWidthA RowWidthB
    FastAdditiveNaiveMatrixMultiply Cbuf C10 A A11 B B10 QuadrantSize
      RowWidthC RowWidthA RowWidthB
termination_by MatrixSize
decreasing_by
  all_goals
    rename_i h
    simp only [SizeAtWhichNaiveAlgorithmIsMoreEfficient, Nat.shiftRight_eq_div_pow] at h ⊢
    omega

/-- The scratch matrices `S1` .. `S8` of `OptimizedStrassenMultiply`, with the loop-carried
byte offsets of its first pass. -/
structure SPass (R : Type) where
  TempMatrixOffset : Nat
  MatrixOffsetA : Nat
  MatrixOffsetB : Nat
  S1 : Buf R
  S2 : Buf R
  S3 : Buf R
  S4 : Buf R
  S5 : Buf R
  S6 : Buf R
  S7 : Buf R
  S8 : Buf R

/-- The loop-carried variables of the second (combination) pass of
`OptimizedStrassenMultiply`: the buffer of `C` and the seven walking pointers. -/
structure CPass (R : Type) where
  Cbuf : Buf R
  M5 : Nat
  M2 : Nat
  T1sMULT : Nat
  C11 : Nat
  C12 : Nat
  C21 : Nat
  C22 : Nat

/-- The body of the `Column` loop of the first pass of `OptimizedStrassenMultiply`, which
forms one entry of each of `S1` .. `S8`. -/
def strassen_S_body [Add R] [Sub R] (A B : Buf R) (A11 A12 A21 A22 B11 B12 B21 B22 : Nat)
    (sp : SPass R) : SPass R :=
  let t := addBytes 0 sp.TempMatrixOffset
  let s1 := A (addBytes A21 sp.MatrixOffsetA) + A (addBytes A22 sp.MatrixOffsetA)
  let S1 := write sp.S1 t s1
  let s2 := s1 - A (addBytes A11 sp.MatrixOffsetA)
  let S2 := write sp.S2 t s2
  let S4 := write sp.S4 t (A (addBytes A12 sp.MatrixOffsetA) - s2)
  let s5 := B (addBytes B12 sp.MatrixOffsetB) - B (addBytes B11 sp.MatrixOffsetB)
  let S5 := write sp.S5 t s5
  let s6 := B (addBytes B22 sp.MatrixOffsetB) - s5
  let S6 := write sp.S6 t s6
  let S8 := write sp.S8 t (s6 - B (addBytes B21 sp.MatrixOffsetB))
  let S3 := write sp.S3 t
    (A (addBytes A11 sp.MatrixOffsetA) - A (addBytes A21 sp.MatrixOffsetA))
  let S7 := write sp.S7 t
    (B (addBytes B22 sp.MatrixOffsetB) - B (addBytes B12 sp.MatrixOffsetB))
  ⟨sp.TempMatrixOffset + 8, sp.MatrixOffsetA + 8, sp.MatrixOffsetB + 8,
    S1, S2, S3, S4, S5, S6, S7, S8⟩

/-- The body of the `Column` loop of the second (combination) pass of
`OptimizedStrassenMultiply`, which handles four entries of each quadrant of `C`. -/
def strassen_C_body [Add R] [Neg R] (M2 M5 T1sMULT : Buf R) (cp : CPass R) : CPass R :=
  let LocalM5_0 := M5 cp.M5
  let LocalM5_1 := M5 (cp.M5 + 1)
  let LocalM5_2 := M5 (cp.M5 + 2)
  let LocalM5_3 := M5 (cp.M5 + 3)
  let LocalM2_0 := M2 cp.M2
  let LocalM2_1 := M2 (cp.M2 + 1)
  let LocalM2_2 := M2 (cp.M2 + 2)
  let LocalM2_3 := M2 (cp.M2 + 3)
  let T1_0 := T1sMULT cp.T1sMULT + LocalM2_0
  let T1_1 := T1sMULT (cp.T1sMULT + 1) + LocalM2_1
  let T1_2 := T1sMULT (cp.T1sMULT + 2) + LocalM2_2
  let T1_3 := T1sMULT (cp.T1sMULT + 3) + LocalM2_3
  let T2_0 := cp.Cbuf cp.C22 + T1_0
  let T2_1 := cp.Cbuf (cp.C22 + 1) + T1_1
  let T2_2 := cp.Cbuf (cp.C22 + 2) + T1_2
  let T2_3 := cp.Cbuf (cp.C22 + 3) + T1_3
  let Cbuf := cp.Cbuf
  let Cbuf := write Cbuf cp.C11 (Cbuf cp.C11 + LocalM2_0)
  let Cbuf := write Cbuf (cp.C11 + 1) (Cbuf (cp.C11 + 1) + LocalM2_1)
  let Cbuf := write Cbuf (cp.C11 + 2) (Cbuf (cp.C11 + 2) + LocalM2_2)
  let Cbuf := write Cbuf (cp.C11 + 3) (Cbuf (cp.C11 + 3) + LocalM2_3)
  let Cbuf := write Cbuf cp.C12 (Cbuf cp.C12 + (LocalM5_0 + T1_0))
  let Cbuf := write Cbuf (cp.C12 + 1) (Cbuf (cp.C12 + 1) + (LocalM5_1 + T1_1))
  let Cbuf := write Cbuf (cp.C12 + 2) (Cbuf (cp.C12 + 2) + (LocalM5_2 + T1_2))
  let Cbuf := write Cbuf (cp.C12 + 3) (Cbuf (cp.C12 + 3) + (LocalM5_3 + T1_3))
  let Cbuf := write Cbuf cp.C22 (LocalM5_0 + T2_0)
  let Cbuf := write Cbuf (cp.C22 + 1) (LocalM5_1 + T2_1)
  let Cbuf := write Cbuf (cp.C22 + 2) (LocalM5_2 + T2_2)
  let Cbuf := write Cbuf (cp.C22 + 3) (LocalM5_3 + T2_3)
  let Cbuf := write Cbuf cp.C21 (-(Cbuf cp.C21) + T2_0)
  let Cbuf := write Cbuf (cp.C21 + 1) (-(Cbuf (cp.C21 + 1)) + T2_1)
  let Cbuf := write Cbuf (cp.C21 + 2) (-(Cbuf (cp.C21 + 2)) + T2_2)
  let Cbuf := write Cbuf (cp.C21 + 3) (-(Cbuf (cp.C21 + 3)) + T2_3)
  ⟨Cbuf, cp.M5 + 4, cp.M2 + 4, cp.T1sMULT + 4, cp.C11 + 4, cp.C12 + 4, cp.C21 + 4,
    cp.C22 + 4⟩

/-- The first pass of `OptimizedStrassenMultiply` (the two nested loops that fill `S1` ..
`S8`), started on freshly allocated scratch matrices holding `junk`. -/
def strassen_S_pass [Add R] [Sub R] (junk A B : Buf R) (A11 A12 A21 A22 B11 B12 B21 B22 : Nat)
    (QuadrantSize RowIncrementA RowIncrementB : Nat) : SPass R :=
  forUp 0 QuadrantSize (fun _ (sp : SPass R) =>
    let sp := forUp 0 QuadrantSize (fun _ (sp : SPass R) =>
      strassen_S_body A B A11 A12 A21 A22 B11 B12 B21 B22 sp) sp
    ({ sp with MatrixOffsetA := sp.MatrixOffsetA + RowIncrementA,
               MatrixOffsetB := sp.MatrixOffsetB + RowIncrementB } : SPass R))
    ⟨0, 0, 0, junk, junk, junk, junk, junk, junk, junk, junk⟩

/-- The second (combination) pass of `OptimizedStrassenMultiply`: the two nested loops over
the quadrant, the inner one four columns at a time. -/
def strassen_C_pass [Add R] [Neg R] (M2 M5 T1sMULT : Buf R) (Cbuf : Buf R)
    (C11 C12 C21 C22 : Nat) (QuadrantSize RowIncrementC : Nat) : Buf R :=
  (forUp 0 QuadrantSize (fun _ (cp : CPass R) =>
    let cp := forUpBy 0 QuadrantSize 4 (fun _ (cp : CPass R) =>
      strassen_C_body M2 M5 T1sMULT cp) cp
    ({ cp with C11 := addBytes cp.C11 RowIncrementC, C12 := addBytes cp.C12 RowIncrementC,
               C21 := addBytes cp.C21 RowIncrementC,
               C22 := addBytes cp.C22 RowIncrementC } : CPass R))
    ⟨Cbuf, 0, 0, 0, C11, C12, C21, C22⟩).Cbuf

/-- The macro `NumberOfVariables` of `OptimizedStrassenMultiply`. -/
def NumberOfVariables : Nat := 11

/-- The `unsigned` variable `QuadrantSizeInBytes` of `OptimizedStrassenMultiply`,
`sizeof(REAL) * QuadrantSize * QuadrantSize + 32` with `QuadrantSize = MatrixSize >> 1`: the
sum is formed in `size_t` and stored in 32 bits. -/
def QuadrantSizeInBytes (MatrixSize : Nat) : Nat :=
  let QuadrantSize := MatrixSize >>> 1
  (8 * QuadrantSize * QuadrantSize + 32) % 2 ^ 32

/-- The argument of `malloc` in `OptimizedStrassenMultiply`,
`QuadrantSizeInBytes * NumberOfVariables`, a product of an `unsigned` and an `int`: 32-bit
unsigned arithmetic. -/
def heap_size (MatrixSize : Nat) : Nat :=
  (QuadrantSizeInBytes MatrixSize * NumberOfVariables) % 2 ^ 32

/-- The byte just past the last scratch matrix, `T1sMULT`, when `malloc` returned the address
`p`: `Heap` is `p` rounded up to a multiple of 32, `T1sMULT` starts after ten steps
`Heap += QuadrantSizeInBytes` and holds `QuadrantSize * QuadrantSize` values of 8 bytes. -/
def heap_used_end (p MatrixSize : Nat) : Nat :=
  let QuadrantSize := MatrixSize >>> 1
  let Heap := if p &&& 31 ≠ 0 then p + 32 - (p &&& 31) else p
  Heap + 10 * QuadrantSizeInBytes MatrixSize + 8 * QuadrantSize * QuadrantSize

/-- The function `OptimizedStrassenMultiply` of strassen.c; the pointers `C`, `A`, `B` are
`(Cbuf, C)`, `(A, Ap)`, `(B, Bp)`, and the result is the buffer of `C`.

The scratch heap is the block that `malloc` returns: `malloc s` is the address returned for a
request of `s` bytes (the call is taken to succeed), and the request is
`heap_size MatrixSize`, the 32-bit product of the source.  The eleven scratch matrices `S1` ..
`S8`, `M2`, `M5`, `T1sMULT` start `QuadrantSizeInBytes` apart from the aligned start of the
block, and the last of them ends at `heap_used_end`.  When that address lies past the end of
the block, the stores of the first pass run outside the allocated object: the behaviour is
undefined and the result is `none`.  Otherwise the eleven matrices are disjoint parts of the
block (`heap_layout`); they are kept as eleven buffers, each addressed from index 0 and
holding `junk` when allocated.  A recursive call that is undefined makes the whole call
undefined. -/
def OptimizedStrassenMultiply [Add R] [Sub R] [Neg R] [Mul R] (malloc : Nat → Nat)
    (junk : Buf R) (Cbuf : Buf R) (C : Nat) (A : Buf R) (Ap : Nat) (B : Buf R) (Bp : Nat)
    (MatrixSize RowWidthC RowWidthA RowWidthB : Nat) : Option (Buf R) :=
  let QuadrantSize := MatrixSize >>> 1
  let RowIncrementA := (RowWidthA - QuadrantSize) <<< 3
  let RowIncrementB := (RowWidthB - QuadrantSize) <<< 3
  let RowIncrementC := (RowWidthC - QuadrantSize) <<< 3
  if MatrixSize ≤ SizeAtWhichDivideAndConquerIsMoreEfficient then
    some (MultiplyByDivideAndConquer Cbuf C A Ap B Bp MatrixSize RowWidthC RowWidthA RowWidthB
      false)
  else
    let A11 := Ap
    let B11 := Bp
    let C11 := C
    let A12 := A11 + QuadrantSize
    let B12 := B11 + QuadrantSize
    let C12 := C11 + QuadrantSize
    let A21 := Ap + RowWidthA * QuadrantSize
    let B21 := Bp + RowWidthB * QuadrantSize
    let C21 := C + RowWidthC * QuadrantSize
    let A22 := A21 + QuadrantSize
    let B22 := B21 + QuadrantSize
    let C22 := C21 + QuadrantSize
    let StartHeap := malloc (heap_size MatrixSize)
    if StartHeap + heap_size MatrixSize < heap_used_end StartHeap MatrixSize then none
    else
      let sp := strassen_S_pass junk A B A11 A12 A21 A22 B11 B12 B21 B22 QuadrantSize
        RowIncrementA RowIncrementB
      (OptimizedStrassenMultiply malloc junk junk 0 A A11 B B11 QuadrantSize QuadrantSize
        RowWidthA RowWidthB).bind fun M2 =>
      (OptimizedStrassenMultiply malloc junk junk 0 sp.S1 0 sp.S5 0 QuadrantSize QuadrantSize
        QuadrantSize QuadrantSize).bind fun M5 =>
      (OptimizedStrassenMultiply malloc junk junk 0 sp.S2 0 sp.S6 0 QuadrantSize QuadrantSize
        QuadrantSize QuadrantSize).bind fun T1sMULT =>
      (OptimizedStrassenMultiply malloc junk Cbuf C22 sp.S3 0 sp.S7 0 QuadrantSize RowWidthC
        QuadrantSize QuadrantSize).bind fun Cbuf =>
      (OptimizedStrassenMultiply malloc junk Cbuf C11 A A12 B B21 QuadrantSize RowWidthC
        RowWidthA RowWidthB).bind fun Cbuf =>
      (OptimizedStrassenMultiply malloc junk Cbuf C12 sp.S4 0 B B22 QuadrantSize RowWidthC
        QuadrantSize RowWidthB).bind fun Cbuf =>
      (OptimizedStrassenMultiply malloc junk Cbuf C21 A A22 sp.S8 0 QuadrantSize RowWidthC
        RowWidthA QuadrantSize).bind fun Cbuf =>
      some (strassen_C_pass M2 M5 T1sMULT Cbuf C11 C12 C21 C22 QuadrantSize RowIncrementC)
termination_by MatrixSize
decreasing_by
  all_goals
    simp only [SizeAtWhichDivideAndConquerIsMoreEfficient, Nat.shiftRight_eq_div_pow] at *
    omega

/-! ### Specification side : matrices, products, loop invariants -/

/-- The accumulator `Sum_t`. -/
def Sums.get (s : Sums R) (t : Nat) : R :=
  if t = 0 then s.Sum0 else if t = 1 then s.Sum1 else if t = 2 then s.Sum2
  else if t = 3 then s.Sum3 else if t = 4 then s.Sum4 else if t = 5 then s.Sum5
  else if t = 6 then s.Sum6 else s.Sum7

/-- The dot product of the `n` entries from `A[a]` on with the `n` entries `B[b]`,
`B[b + rw]`, `B[b + 2 rw]`, ... -/
def dot [AddCommMonoid R] [Mul R] (n : Nat) (A : Buf R) (a : Nat) (B : Buf R) (b rw : Nat) : R :=
  ∑ k in Finset.range n, A (a + k) * B (b + k * rw)

/-- The matrix seen through the pointer `(X, p)` with row width `rw`: entry `(i, j)` is
`X[p + i * rw + j]`. -/
def view (X : Buf R) (p rw : Nat) : Nat → Nat → R := fun i j => X (p + i * rw + j)

/-- The product of two `n x n` matrices, `(a * b) i j = sum over k < n of a i k * b k j`. -/
def mmul [AddCommMonoid R] [Mul R] (n : Nat) (a b : Nat → Nat → R) : Nat → Nat → R :=
  fun i j => ∑ k in Finset.range n, a i k * b k j

/-- The effect of a multiplication routine on the buffer of `C`: the `n x n` view at `C`
with row width `rw` holds `P` (added to the old content when `add` holds, stored otherwise)
and nothing else is written. -/
def MulSpec [AddCommMonoid R] (add : Bool) (res old : Buf R) (C rw n : Nat)
    (P : Nat → Nat → R) : Prop :=
  (∀ i j, i < n → j < n →
    res (C + i * rw + j) = (if add then old (C + i * rw + j) else 0) + P i j) ∧
  (∀ idx, (∀ i j, i < n → j < n → idx ≠ C + i * rw + j) → res idx = old idx)

/-- The scratch matrix `S_k` of a first-pass state, `k = 1..8`. -/
def SPass.get (sp : SPass R) (k : Nat) : Buf R :=
  if k = 1 then sp.S1 else if k = 2 then sp.S2 else if k = 3 then sp.S3
  else if k = 4 then sp.S4 else if k = 5 then sp.S5 else if k = 6 then sp.S6
  else if k = 7 then sp.S7 else sp.S8

/-- The entry that the first pass of `OptimizedStrassenMultiply` stores into `S_k` when the
element offsets into `A` and `B` are `u` and `v`. -/
def sval [Add R] [Sub R] (A B : Buf R) (A11 A12 A21 A22 B11 B12 B21 B22 : Nat) (k u v : Nat) :
    R :=
  if k = 1 then A (A21 + u) + A (A22 + u)
  else if k = 2 then A (A21 + u) + A (A22 + u) - A (A11 + u)
  else if k = 3 then A (A11 + u) - A (A21 + u)
  else if k = 4 then A (A12 + u) - (A (A21 + u) + A (A22 + u) - A (A11 + u))
  else if k = 5 then B (B12 + v) - B (B11 + v)
  else if k = 6 then B (B22 + v) - (B (B12 + v) - B (B11 + v))
  else if k = 7 then B (B22 + v) - B (B12 + v)
  else B (B22 + v) - (B (B12 + v) - B (B11 + v)) - B (B21 + v)

/-- The value that the combination pass stores at `idx`, when `idx` lies `e` entries into a
run of entries of the quadrants starting at `p11`, `p12`, `p21`, `p22` and of the scratch
matrices starting at `m2`, `m5`, `t1`; `X` is the buffer before the pass. -/
def cval [Add R] [Neg R] (M2 M5 T1 X : Buf R) (m2 m5 t1 p11 p12 p21 p22 len idx : Nat) : R :=
  if p11 ≤ idx ∧ idx < p11 + len then X idx + M2 (m2 + (idx - p11))
  else if p12 ≤ idx ∧ idx < p12 + len then
    X idx + (M5 (m5 + (idx - p12)) + (T1 (t1 + (idx - p12)) + M2 (m2 + (idx - p12))))
  else if p21 ≤ idx ∧ idx < p21 + len then
    -(X idx) + (X (p22 + (idx - p21)) + (T1 (t1 + (idx - p21)) + M2 (m2 + (idx - p21))))
  else if p22 ≤ idx ∧ idx < p22 + len then
    M5 (m5 + (idx - p22)) + (X idx + (T1 (t1 + (idx - p22)) + M2 (m2 + (idx - p22))))
  else X idx

/-- The four entries `(i, j)` of the quadrants of `C` after the combination pass, in terms of
the buffer `X` before the pass and the scratch products. -/
def CQuad [Add R] [Neg R] (res X M2 M5 T1 : Buf R) (C rwC Q i j : Nat) : Prop :=
  res (C + i * rwC + j) = X (C + i * rwC + j) + M2 (i * Q + j) ∧
  res (C + Q + i * rwC + j) =
    X (C + Q + i * rwC + j) + (M5 (i * Q + j) + (T1 (i * Q + j) + M2 (i * Q + j))) ∧
  res (C + rwC * Q + i * rwC + j) =
    -(X (C + rwC * Q + i * rwC + j)) +
      (X (C + rwC * Q + Q + i * rwC + j) + (T1 (i * Q + j) + M2 (i * Q + j))) ∧
  res (C + rwC * Q + Q + i * rwC + j) =
    M5 (i * Q + j) + (X (C + rwC * Q + Q + i * rwC + j) + (T1 (i * Q + j) + M2 (i * Q + j)))

/-- `idx` is none of the four entries `(i, j)` of the quadrants of `C`. -/
def NotQuad (C rwC Q i j idx : Nat) : Prop :=
  idx ≠ C + i * rwC + j ∧ idx ≠ C + Q + i * rwC + j ∧ idx ≠ C + rwC * Q + i * rwC + j ∧
    idx ≠ C + rwC * Q + Q + i * rwC + j

/-- The state of the combination pass after `r` rows. -/
def CInv [Add R] [Neg R] (M2 M5 T1 X : Buf R) (C rwC Q r : Nat) (s : CPass R) : Prop :=
  s.M5 = r * Q ∧ s.M2 = r * Q ∧ s.T1sMULT = r * Q ∧
  s.C11 = C + r * rwC ∧ s.C12 = C + Q + r * rwC ∧
  s.C21 = C + rwC * Q + r * rwC ∧ s.C22 = C + rwC * Q + Q + r * rwC ∧
  (∀ i j, i < r → j < Q → CQuad s.Cbuf X M2 M5 T1 C rwC Q i j) ∧
  (∀ idx, (∀ i j, i < r → j < Q → NotQuad C rwC Q i j idx) → s.Cbuf idx = X idx)

/-- The size test of `main` in strassen.c, `(n & (n - 1)) != 0 || (n % 16) != 0`: when it
holds `main` prints the message and returns 1.  The `int` is read as an integer (two's
complement `&`, no wrap in `n - 1`). -/
def main_size_check (n : Int) : Bool :=
  decide (Int.land n (n - 1) ≠ 0 ∨ Int.tmod n 16 ≠ 0)

/-- The function `mat_vec_mul` of strassen.c: `A` is `(A, Ap)`, `V` is `(V, Vp)`, `P` is
`(P, Pp)`; `A` and `V` are only read and the result is the buffer of `P`.  `m`, `n` and `rw`
are the non-negative `int` arguments, `m >> 1` is `m / 2`. -/
def mat_vec_mul [Zero R] [Add R] [Mul R] (m n rw : Nat) (A : Buf R) (Ap : Nat) (V : Buf R)
    (Vp : Nat) (P : Buf R) (Pp : Nat) (add : Int) : Buf R :=
  if m + n ≤ 64 then
    if add ≠ 0 then
      forUp 0 m (fun i (P : Buf R) =>
        let c := forUp 0 n (fun j (c : R) => c + ELEM A Ap rw i j * V (Vp + j)) (0 : R)
        write P (Pp + i) (P (Pp + i) + c)) P
    else
      forUp 0 m (fun i (P : Buf R) =>
        let c := forUp 0 n (fun j (c : R) => c + ELEM A Ap rw i j * V (Vp + j)) (0 : R)
        write P (Pp + i) c) P
  else if m ≥ n then
    let m1 := m >>> 1
    let P := mat_vec_mul m1 n rw A Ap V Vp P Pp add
    mat_vec_mul (m - m1) n rw A (Ap + (m1 * rw + 0)) V Vp P (Pp + m1) add
  else
    let n1 := n >>> 1
    let P := mat_vec_mul m n1 rw A Ap V Vp P Pp add
    mat_vec_mul m (n - n1) rw A (Ap + (0 * rw + n1)) V (Vp + n1) P Pp 1
termination_by m + n
decreasing_by
  all_goals
    simp only [Nat.shiftRight_eq_div_pow] at *
    omega

end Strassen

/-! ## nqueens.c : definitions -/

namespace Nqueens

open Loop

/-- The function `ok` of nqueens.c.  The array `a` holds `char` values, read as integers (the
comparisons of the C code are made in `int`); the `return 0` inside the loops is the exit
`Except.error 0` of the loop. -/
def ok (n : Nat) (a : Nat → Int) : Int :=
  match forUpM 0 n (fun i (_ : Unit) =>
      let p := a i
      forUpM (i + 1) n (fun j (_ : Unit) =>
        let q := a j
        if q = p ∨ q = p - ((j : Int) - (i : Int)) ∨ q = p + ((j : Int) - (i : Int)) then
          Except.error (0 : Int)
        else Except.ok ()) ()) () with
  | Except.error r => r
  | Except.ok _ => 1

/-- The conversion of an `int` to `char` (signed, 8 bits) made by the store `b[j] = i`. -/
def char_of_int (i : Int) : Int := (i + 128) % 256 - 128

/-- The conversion of an integer to `int` (32 bits, two's complement). -/
def int32 (x : Int) : Int := (x + 2147483648) % 4294967296 - 2147483648

/-- The function `nqueens` of nqueens.c, with the recursion depth bounded by `fuel`: the
result is `none` when the fuel is used up before the recursion ends.  `count` is the
zero-initialised array of the partial results, `b` the copy of `a[0 .. j-1]` extended by
`b[j] = i` (cells outside the `j + 1` allocated ones read as 0).  `solNum` is an `int` of 32
bits: the sum `solNum += count[i]` is taken modulo 2^32 in two's complement (in C an overflow
of `int` is undefined; this is what the usual targets compute). -/
def nqueens_fuel : Nat → Nat → Nat → (Nat → Int) → Option Int
  | 0, _, _, _ => none
  | fuel + 1, n, j, a =>
    if n = j then some 1
    else
      match forUpM 0 n (fun i (count : Nat → Int) =>
          let b : Nat → Int := fun k =>
            if k < j then a k else if k = j then char_of_int (i : Int) else 0
          if ok (j + 1) b ≠ 0 then
            match nqueens_fuel fuel n (j + 1) b with
            | none => Except.error ()
            | some c => Except.ok (fun k => if k = i then c else count k)
          else Except.ok count) (fun _ => 0) with
      | Except.error _ => none
      | Except.ok count => some (forUp 0 n (fun i (solNum : Int) => int32 (solNum + count i)) 0)

/-- The function `nqueens` of nqueens.c: from column `j ≤ n` the recursion is `n - j` deep. -/
def nqueens (n j : Nat) (a : Nat → Int) : Option Int := nqueens_fuel (n - j + 1) n j a

/-! ### Specification side : counting the placements row by row -/

/-- Whether a queen in column `q` is attacked by none of the queens in `ps`, the first of
which stands `d` rows away, the next `d + 1` rows, and so on. -/
def safe (q : Nat) : Nat → List Nat → Bool
  | _, [] => true
  | d, p :: ps => !(q == p || q + d == p || q == p + d) && safe q (d + 1) ps

/-- The sum of `f 0, ..., f (m - 1)`. -/
def sumCols (f : Nat → Nat) : Nat → Nat
  | 0 => 0
  | m + 1 => sumCols f m + f m

/-- The number of ways to fill `r` further rows of an `n`-column board without conflict, the
queens of the rows filled so far standing in the columns `qs` (last row first). -/
def count (n : Nat) : Nat → List Nat → Nat
  | 0, _ => 1
  | r + 1, qs => sumCols (fun i => if safe i 1 qs then count n r (i :: qs) else 0) n

/-- The array `a` holds in `a[0 .. j-1]`, `j` the length of `qs`, the columns `qs` read from
the last one to the first. -/
def placed (qs : List Nat) (a : Nat → Int) : Prop :=
  ∀ k, k < qs.length → a k = ((qs.getD (qs.length - 1 - k) 0 : Nat) : Int)

/-- The array that holds the queen of row `k` in column `q k`, as `ok` reads it. -/
def board (n : Nat) (q : Fin n → Fin n) : Nat → Int :=
  fun k => if h : k < n then (((q ⟨k, h⟩ : Fin n) : Nat) : Int) else 0

/-- The arrays `q` in `{0, ..., n-1}^n` with `ok(n, q) = 1`. -/
def solutions (n : Nat) : Finset (Fin n → Fin n) :=
  Finset.univ.filter (fun q => ok n (board n q) = 1)

/-- The array that holds the columns `qs` (last row first) in its first rows and the columns
`t` in the next `r` rows. -/
def extend (n r : Nat) (qs : List Nat) (t : Fin r → Fin n) : Nat → Int :=
  fun k => if k < qs.length then ((qs.getD (qs.length - 1 - k) 0 : Nat) : Int)
    else if h : k - qs.length < r then (((t ⟨k - qs.length, h⟩ : Fin n) : Nat) : Int) else 0

/-- The ways to fill `r` further rows after the rows `qs` without conflict. -/
def completions (n r : Nat) (qs : List Nat) : Finset (Fin r → Fin n) :=
  Finset.univ.filter (fun t => ok (qs.length + r) (extend n r qs t) = 1)

/-- A board of side 40 built from five boards of side 8: the queen of row `5 a + i` stands in
column `5 (σ i a) + (2 i mod 5)`. -/
def compose5 (σ : Fin 5 → Fin 8 → Fin 8) : Fin 40 → Fin 40 :=
  fun x => ⟨((σ ⟨(x : Nat) % 5, Nat.mod_lt _ (by decide)⟩
      ⟨(x : Nat) / 5, Nat.div_lt_of_lt_mul x.isLt⟩ : Fin 8) : Nat) * 5 + (2 * ((x : Nat) % 5)) % 5,
    by
      have := (σ ⟨(x : Nat) % 5, Nat.mod_lt _ (by decide)⟩
        ⟨(x : Nat) / 5, Nat.div_lt_of_lt_mul x.isLt⟩).isLt
      omega⟩

end Nqueens

/-! ## Loops : theorems -/

namespace Loop

theorem forUp_go_succ {σ : Type} (body : Nat → σ → σ) (c i : Nat) (s : σ) :
    forUp.go body (c + 1) i s = body (i + c) (forUp.go body c i s) := by
  induction c generalizing i s with
  | zero => simp [forUp.go]
  | succ c ih =>
    rw [forUp.go, ih (i + 1) (body i s)]
    simp only [forUp.go]
    congr 1
    omega

theorem forUp_empty {σ : Type} (a b : Nat) (body : Nat → σ → σ) (s : σ) (h : b ≤ a) :
    forUp a b body s = s := by
  unfold forUp
  rw [Nat.sub_eq_zero_of_le h]
  rfl

theorem forUp_succ {σ : Type} (a b : Nat) (body : Nat → σ → σ) (s : σ) (h : a ≤ b) :
    forUp a (b + 1) body s = body b (forUp a b body s) := by
  unfold forUp
  rw [show b + 1 - a = (b - a) + 1 by omega, forUp_go_succ]
  congr 1
  omega

/-- Invariant rule for counted loops. -/
theorem forUp_induction {σ : Type} (P : Nat → σ → Prop) (a b : Nat) (body : Nat → σ → σ)
    (s : σ) (hab : a ≤ b) (h0 : P a s)
    (hstep : ∀ i s, a ≤ i → i < b → P i s → P (i + 1) (body i s)) :
    P b (forUp a b body s) := by
  induction b with
  | zero =>
    have : a = 0 := by omega
    subst this
    rw [forUp_empty _ _ _ _ (le_refl _)]
    exact h0
  | succ b ih =>
    by_cases h : a = b + 1
    · subst h
      rw [forUp_empty _ _ _ _ (le_refl _)]
      exact h0
    · rw [forUp_succ _ _ _ _ (by omega)]
      exact hstep b _ (by omega) (by omega)
        (ih (by omega) (fun i s h1 h2 hp => hstep i s h1 (by omega) hp))

theorem forUp_split {σ : Type} (a c b : Nat) (body : Nat → σ → σ) (s : σ) (h1 : a ≤ c)
    (h2 : c ≤ b) : forUp a b body s = forUp c b body (forUp a c body s) := by
  induction b with
  | zero =>
    have : c = 0 := by omega
    subst this
    have : a = 0 := by omega
    subst this
    simp [forUp_empty]
  | succ b ih =>
    by_cases h : c = b + 1
    · subst h
      rw [forUp_empty (b + 1) (b + 1) _ _ (le_refl _)]
    · rw [forUp_succ _ _ _ _ (by omega), forUp_succ _ _ _ _ (by omega), ih (by omega)]

theorem forUpBy_go_succ {σ : Type} (step : Nat) (body : Nat → σ → σ) (c i : Nat) (s : σ) :
    forUpBy.go step body (c + 1) i s = body (i + c * step) (forUpBy.go step body c i s) := by
  induction c generalizing i s with
  | zero => simp [forUpBy.go]
  | succ c ih =>
    rw [forUpBy.go, ih (i + step) (body i s)]
    simp only [forUpBy.go]
    congr 1
    ring

/-- Invariant rule for strided loops whose range is a multiple of the step: `P c s` holds
after `c` passes. -/
theorem forUpBy_induction {σ : Type} (P : Nat → σ → Prop) (a step q : Nat) (hstep : 1 ≤ step)
    (body : Nat → σ → σ) (s : σ) (h0 : P 0 s)
    (hs : ∀ c s, c < q → P c s → P (c + 1) (body (a + c * step) s)) :
    P q (forUpBy a (a + q * step) step body s) := by
  unfold forUpBy
  have hq : (a + q * step - a + (step - 1)) / step = q := by
    rw [Nat.add_sub_cancel_left]
    rw [Nat.add_comm, Nat.add_mul_div_right _ _ (by omega)]
    rw [Nat.div_eq_of_lt (by omega)]
    simp
  rw [hq]
  clear hq
  induction q with
  | zero => exact h0
  | succ q ih =>
    rw [forUpBy_go_succ]
    exact hs q _ (by omega) (ih (fun c s hc hp => hs c s (by omega) hp))

theorem Sat_ok {ε σ : Type} (E : ε → Prop) (P : σ → Prop) (s : σ) :
    Sat E P (Except.ok s) = P s := rfl

theorem Sat_error {ε σ : Type} (E : ε → Prop) (P : σ → Prop) (e : ε) :
    Sat E P (Except.error e : Except ε σ) = E e := rfl

theorem Sat_bind {ε σ τ : Type} (E : ε → Prop) (P : σ → Prop) (Q : τ → Prop)
    (x : Except ε σ) (f : σ → Except ε τ) (hx : Sat E P x)
    (hf : ∀ s, P s → Sat E Q (f s)) : Sat E Q (x.bind f) := by
  cases x with
  | error e => exact hx
  | ok s => exact hf s hx

theorem Sat_mono {ε σ : Type} (E : ε → Prop) (P Q : σ → Prop) (x : Except ε σ)
    (hx : Sat E P x) (h : ∀ s, P s → Q s) : Sat E Q x := by
  cases x with
  | error e => exact hx
  | ok s => exact h s hx

theorem forUpM_go_induction {ε σ : Type} (E : ε → Prop) (P : Nat → σ → Prop)
    (body : Nat → σ → Except ε σ) (c : Nat) :
    ∀ (a : Nat) (s : σ), P a s →
      (∀ i s, a ≤ i → i < a + c → P i s → Sat E (P (i + 1)) (body i s)) →
      Sat E (P (a + c)) (forUpM.go body c a s) := by
  induction c with
  | zero =>
    intro a s h0 _
    exact h0
  | succ c ih =>
    intro a s h0 hstep
    have h1 := hstep a s (le_refl _) (by omega) h0
    rw [forUpM.go]
    cases hb : body a s with
    | error e =>
      rw [hb] at h1
      exact h1
    | ok s1 =>
      rw [hb] at h1
      have := ih (a + 1) s1 h1 (fun i s h2 h3 hp => hstep i s (by omega) (by omega) hp)
      rw [show a + 1 + c = a + (c + 1) by omega] at this
      exact this

/-- The invariant rule for a counted loop whose body may fail. -/
theorem forUpM_induction {ε σ : Type} (E : ε → Prop) (P : Nat → σ → Prop) (a b : Nat)
    (body : Nat → σ → Except ε σ) (s : σ) (hab : a ≤ b) (h0 : P a s)
    (hstep : ∀ i s, a ≤ i → i < b → P i s → Sat E (P (i + 1)) (body i s)) :
    Sat E (P b) (forUpM a b body s) := by
  have := forUpM_go_induction E P body (b - a) a s h0
    (fun i s h1 h2 hp => hstep i s h1 (by omega) hp)
  rw [show a + (b - a) = b by omega] at this
  exact this

theorem forUpM_go_unit_ok {ε : Type} (body : Nat → Unit → Except ε Unit) (c i : Nat) :
    forUpM.go body c i () = Except.ok () ↔ ∀ k, k < c → body (i + k) () = Except.ok () := by
  induction c generalizing i with
  | zero => simp [forUpM.go]
  | succ c ih =>
    rw [forUpM.go]
    constructor
    · intro h k hk
      cases hb : body i () with
      | error e => rw [hb] at h; cases h
      | ok u =>
        rw [hb] at h
        rcases Nat.eq_zero_or_pos k with rfl | hk0
        · exact hb
        · have := (ih (i + 1)).1 h (k - 1) (by omega)
          rwa [show i + 1 + (k - 1) = i + k by omega] at this
    · intro h
      have h0 := h 0 (by omega)
      rw [Nat.add_zero] at h0
      rw [h0]
      refine (ih (i + 1)).2 (fun k hk => ?_)
      have := h (k + 1) (by omega)
      rwa [show i + (k + 1) = i + 1 + k by omega] at this

theorem forUpM_go_unit_error {ε : Type} (body : Nat → Unit → Except ε Unit) (c i : Nat)
    (e : ε) (h : forUpM.go body c i () = Except.error e) :
    ∃ k, k < c ∧ body (i + k) () = Except.error e := by
  induction c generalizing i with
  | zero => simp [forUpM.go] at h
  | succ c ih =>
    rw [forUpM.go] at h
    cases hb : body i () with
    | error e1 =>
      rw [hb] at h
      exact ⟨0, by omega, by rw [Nat.add_zero, hb]; exact h⟩
    | ok u =>
      rw [hb] at h
      obtain ⟨k, hk, hk2⟩ := ih (i + 1) h
      exact ⟨k + 1, by omega, by rwa [show i + (k + 1) = i + 1 + k by omega]⟩

theorem forUpM_unit_ok {ε : Type} (body : Nat → Unit → Except ε Unit) (a b : Nat) :
    forUpM a b body () = Except.ok () ↔ ∀ k, a ≤ k → k < b → body k () = Except.ok () := by
  unfold forUpM
  rw [forUpM_go_unit_ok]
  constructor
  · intro h k hak hkb
    have := h (k - a) (by omega)
    rwa [show a + (k - a) = k by omega] at this
  · intro h k hk
    exact h (a + k) (by omega) (by omega)

theorem forUpM_unit_error {ε : Type} (body : Nat → Unit → Except ε Unit) (a b : Nat) (e : ε)
    (h : forUpM a b body () = Except.error e) :
    ∃ k, a ≤ k ∧ k < b ∧ body k () = Except.error e := by
  obtain ⟨k, hk, hk2⟩ := forUpM_go_unit_error body (b - a) a e h
  exact ⟨a + k, by omega, by omega, hk2⟩

theorem forUp_rel {σ : Type} (Q : σ → σ → Prop) (a b : Nat) (f g : Nat → σ → σ)
    (h : ∀ i s t, a ≤ i → i < b → Q s t → Q (f i s) (g i t)) (s t : σ) (hst : Q s t) :
    Q (forUp a b f s) (forUp a b g t) := by
  induction b with
  | zero =>
    rw [forUp_empty _ _ _ _ (Nat.zero_le a), forUp_empty _ _ _ _ (Nat.zero_le a)]
    exact hst
  | succ b ih =>
    by_cases hab : a ≤ b
    · rw [forUp_succ _ _ _ _ hab, forUp_succ _ _ _ _ hab]
      exact h b _ _ hab (by omega) (ih (fun i s t h1 h2 => h i s t h1 (by omega)))
    · rw [forUp_empty _ _ _ _ (by omega), forUp_empty _ _ _ _ (by omega)]
      exact hst

theorem Rel2_bind {ε σ : Type} (Q : σ → σ → Prop) (x y : Except ε σ)
    (f g : σ → Except ε σ) (hxy : Rel2 Q x y) (hfg : ∀ s t, Q s t → Rel2 Q (f s) (g t)) :
    Rel2 Q (x.bind f) (y.bind g) := by
  cases x with
  | error e =>
    cases y with
    | error e1 => exact hxy
    | ok t => exact absurd hxy id
  | ok s =>
    cases y with
    | error e1 => exact absurd hxy id
    | ok t => exact hfg s t hxy

end Loop

/-! ## fft.c : theorems -/

namespace Fft

open Loop

variable {R : Type}

/-- C4: for every `n ≥ 1` the factoring loop of `cilk_fft` terminates (`factor_list` is a
total function) and the product of the recorded factors equals `n`. -/
theorem factor_list_prod (n : Nat) (hn : 1 ≤ n) : (factor_list n).prod = n := by
  induction n using Nat.strong_induction_on with
  | _ n ih =>
    rw [factor_list]
    by_cases h2 : 2 ≤ n
    · have hf := factor_spec n h2
      split_ifs with h
      · rw [List.prod_cons, ih (n / factor n) (Nat.div_lt_self (by omega) hf.2) (by omega)]
        exact Nat.mul_div_cancel' hf.1
      · rw [List.prod_singleton]
        have h3 : n / factor n ≤ 1 := by omega
        have h4 : 0 < n / factor n := Nat.div_pos (Nat.le_of_dvd (by omega) hf.1) (by omega)
        have h5 : n / factor n = 1 := by omega
        have := Nat.mul_div_cancel' hf.1
        rw [h5] at this
        omega
    · have h1 : n = 1 := by omega
      subst h1
      simp [factor]

/-- Witness of `factor_list_prod` at `n = 360`. -/
theorem factor_list_prod_witness : 1 ≤ 360 ∧ (factor_list 360).prod = 360 :=
  ⟨by decide, factor_list_prod 360 (by decide)⟩

/-- On the sizes 2, 4, 8, 16 and 32 `fft_aux` is the base kernel, whatever the factor list
holds. -/
theorem fft_aux_base [Zero R] [Add R] [Sub R] [Mul R] (K : Consts R) (W : Buf R) (nW : Nat)
    (fs : List Nat) (inp : Buf R) (io : Nat) (out : Buf R) (oo : Nat) :
    fft_aux K W nW fs 2 inp io out oo = some (inp, fft_base_2 inp io out oo) ∧
    fft_aux K W nW fs 4 inp io out oo = some (inp, fft_base_4 inp io out oo) ∧
    fft_aux K W nW fs 8 inp io out oo = some (inp, fft_base_8 K inp io out oo) ∧
    fft_aux K W nW fs 16 inp io out oo = some (inp, fft_base_16 K inp io out oo) ∧
    fft_aux K W nW fs 32 inp io out oo = some (inp, fft_base_32 K inp io out oo) := by
  refine ⟨?_, ?_, ?_, ?_, ?_⟩ <;> cases fs <;> simp [fft_aux]

/-- C8: for `n` in {2, 4, 8, 16, 32}, `cilk_fft n` leaves `in` as it was and writes to `out`
exactly what `fft_base_n` writes, and so does `fft_aux` for any factor list `fs`: it returns
from the base kernel before reading the list. -/
theorem cilk_fft_base_kernel [Field R] (K : Consts R) (cosf sinf : R → R) (pi : R)
    (W0 inp out : Buf R) (W : Buf R) (nW : Nat) (fs : List Nat) (io oo : Nat) :
    (cilk_fft K cosf sinf pi W0 2 inp out = some (inp, fft_base_2 inp 0 out 0) ∧
     cilk_fft K cosf sinf pi W0 4 inp out = some (inp, fft_base_4 inp 0 out 0) ∧
     cilk_fft K cosf sinf pi W0 8 inp out = some (inp, fft_base_8 K inp 0 out 0) ∧
     cilk_fft K cosf sinf pi W0 16 inp out = some (inp, fft_base_16 K inp 0 out 0) ∧
     cilk_fft K cosf sinf pi W0 32 inp out = some (inp, fft_base_32 K inp 0 out 0)) ∧
    (fft_aux K W nW fs 2 inp io out oo = some (inp, fft_base_2 inp io out oo) ∧
     fft_aux K W nW fs 4 inp io out oo = some (inp, fft_base_4 inp io out oo) ∧
     fft_aux K W nW fs 8 inp io out oo = some (inp, fft_base_8 K inp io out oo) ∧
     fft_aux K W nW fs 16 inp io out oo = some (inp, fft_base_16 K inp io out oo) ∧
     fft_aux K W nW fs 32 inp io out oo = some (inp, fft_base_32 K inp io out oo)) := by
  refine ⟨⟨?_, ?_, ?_, ?_, ?_⟩, fft_aux_base K W nW fs inp io out oo⟩
  · exact (fft_aux_base K _ _ _ inp 0 out 0).1
  · exact (fft_aux_base K _ _ _ inp 0 out 0).2.1
  · exact (fft_aux_base K _ _ _ inp 0 out 0).2.2.1
  · exact (fft_aux_base K _ _ _ inp 0 out 0).2.2.2.1
  · exact (fft_aux_base K _ _ _ inp 0 out 0).2.2.2.2

/-- The first output of `fft_base_8` on the ramp `in[i] = (i, 0)` is `(28, 0)`. -/
theorem fft_base_8_ramp [Field R] (K : Consts R) (out : Buf R) :
    fft_base_8 K (fun i => ⟨(i : R), 0⟩) 0 out 0 0 = ⟨28, 0⟩ := by
  simp [fft_base_8, setRe, setIm]
  norm_num

/-- On an input with zero imaginary parts the outputs `8 - k` and `k` of `fft_base_8` are
complex conjugates, for any value of the constant. -/
theorem fft_base_8_real [Field R] (K : Consts R) (inp out : Buf R)
    (h : ∀ i, i < 8 → (inp i).im = 0) (k : Nat) (hk1 : 1 ≤ k) (hk7 : k ≤ 7) :
    (fft_base_8 K inp 0 out 0 (8 - k)).re = (fft_base_8 K inp 0 out 0 k).re ∧
    (fft_base_8 K inp 0 out 0 (8 - k)).im = - (fft_base_8 K inp 0 out 0 k).im := by
  have h0 := h 0 (by decide)
  have h1 := h 1 (by decide)
  have h2 := h 2 (by decide)
  have h3 := h 3 (by decide)
  have h4 := h 4 (by decide)
  have h5 := h 5 (by decide)
  have h6 := h 6 (by decide)
  have h7 := h 7 (by decide)
  interval_cases k <;> refine ⟨?_, ?_⟩ <;>
    simp [fft_base_8, setRe, setIm, h0, h1, h2, h3, h4, h5, h6, h7] <;> ring

/-- C9: for `n = 8` and `input[i] = (i, 0)`, `cilk_fft` gives `output[0] = (28, 0)`; and for
every 8-sample input whose imaginary parts are all zero the output satisfies
`output[8 - k] = conj(output[k])` for `k = 1..7`, for any value `K` of the constants. -/
theorem cilk_fft_8_real [Field R] (K : Consts R) (cosf sinf : R → R) (pi : R)
    (W0 out : Buf R) :
    (∃ res, cilk_fft K cosf sinf pi W0 8 (fun i => ⟨(i : R), 0⟩) out = some res ∧
      res.2 0 = ⟨28, 0⟩) ∧
    (∀ inp : Buf R, (∀ i, i < 8 → (inp i).im = 0) →
      ∃ res, cilk_fft K cosf sinf pi W0 8 inp out = some res ∧
        ∀ k, 1 ≤ k → k ≤ 7 →
          (res.2 (8 - k)).re = (res.2 k).re ∧ (res.2 (8 - k)).im = - (res.2 k).im) := by
  constructor
  · exact ⟨_, (fft_aux_base K _ _ _ _ 0 out 0).2.2.1, fft_base_8_ramp K out⟩
  · intro inp h
    exact ⟨_, (fft_aux_base K _ _ _ inp 0 out 0).2.2.1, fun k h1 h7 =>
      fft_base_8_real K inp out h k h1 h7⟩

theorem compute_w_coefficients_eq_loop [Mul R] [Div R] [Neg R] [NatCast R] (cosf sinf : R → R)
    (pi : R) (n a b : Nat) (W : Buf R) (hab : a ≤ b + 1) :
    compute_w_coefficients cosf sinf pi n a b W = forUp a (b + 1) (w_body cosf sinf pi n) W := by
  obtain ⟨d, hd⟩ : ∃ d, d = b - a := ⟨_, rfl⟩
  induction d using Nat.strong_induction_on generalizing a b W with
  | _ d ih =>
    rw [compute_w_coefficients]
    split_ifs with h
    · rfl
    · simp only
      rw [ih _ (by omega) a ((a + b) / 2) W (by omega) rfl,
        ih _ (by omega) ((a + b) / 2 + 1) b _ (by omega) rfl]
      exact (forUp_split a ((a + b) / 2 + 1) (b + 1) _ W (by omega) (by omega)).symm

theorem w_body_apply [Mul R] [Div R] [Neg R] [NatCast R] (cosf sinf : R → R) (pi : R)
    (n k : Nat) (W : Buf R) (j : Nat) :
    w_body cosf sinf pi n k W j =
      if j = n - k then
        ⟨cosf (((2 : Nat) : R) * pi / (n : R) * (k : R)), sinf (((2 : Nat) : R) * pi / (n : R) * (k : R))⟩
      else if j = k then
        ⟨cosf (((2 : Nat) : R) * pi / (n : R) * (k : R)), -sinf (((2 : Nat) : R) * pi / (n : R) * (k : R))⟩
      else W j := by
  unfold w_body
  simp only [setRe, setIm]
  by_cases h1 : j = n - k
  · subst h1
    by_cases h2 : n - k = k <;> simp [h2]
  · by_cases h2 : j = k <;> simp [h1, h2]

theorem w_exact_symm (n k : Nat) (hn : 1 ≤ n) (hk : k ≤ n) :
    (⟨Real.cos (((2 : Nat) : ℝ) * Real.pi / n * k), Real.sin (((2 : Nat) : ℝ) * Real.pi / n * k)⟩
      : COMPLEX ℝ) = w_exact Real.cos Real.sin Real.pi n (n - k) := by
  have hn0 : (n : ℝ) ≠ 0 := by positivity
  have h : 2 * Real.pi * ((n - k : Nat) : ℝ) / n = 2 * Real.pi - ((2 : Nat) : ℝ) * Real.pi / n * k := by
    rw [Nat.cast_sub hk]
    field_simp
    ring
  unfold w_exact
  rw [h, Real.cos_two_pi_sub, Real.sin_two_pi_sub, neg_neg]

theorem w_exact_self (n k : Nat) :
    (⟨Real.cos (((2 : Nat) : ℝ) * Real.pi / n * k), -Real.sin (((2 : Nat) : ℝ) * Real.pi / n * k)⟩
      : COMPLEX ℝ) = w_exact Real.cos Real.sin Real.pi n k := by
  unfold w_exact
  have h : ((2 : Nat) : ℝ) * Real.pi / n * k = 2 * Real.pi * k / n := by
    push_cast
    ring
  rw [h]

theorem w_loop_spec (n : Nat) (hn : 1 ≤ n) (b : Nat) (hb : b ≤ n + 1) (W0 : Buf ℝ) (j : Nat) :
    forUp 0 b (w_body Real.cos Real.sin Real.pi n) W0 j =
      if j < b ∨ (n < j + b ∧ j ≤ n) then w_exact Real.cos Real.sin Real.pi n j else W0 j := by
  induction b with
  | zero =>
    rw [forUp_empty _ _ _ _ (le_refl _)]
    rw [if_neg (by omega)]
  | succ b ih =>
    rw [forUp_succ _ _ _ _ (by omega), w_body_apply]
    have ih' := ih (by omega)
    have e1 := w_exact_symm n b hn (by omega)
    have e2 := w_exact_self n b
    by_cases hj1 : j = n - b
    · rw [if_pos hj1, if_pos (by omega), e1, hj1]
    · by_cases hj2 : j = b
      · rw [if_neg hj1, if_pos hj2, if_pos (by omega), e2, hj2]
      · rw [if_neg hj1, if_neg hj2, ih']
        by_cases hc : j < b ∨ n < j + b ∧ j ≤ n
        · rw [if_pos hc, if_pos (by omega)]
        · rw [if_neg hc, if_neg (by omega)]

/-- C5: for every `n ≥ 1`, after `compute_w_coefficients(n, 0, n/2, W)` every entry `W[k]`,
`0 ≤ k ≤ n`, is `(cos(2 pi k / n), -sin(2 pi k / n))` over the reals, whatever `W` held
before; `W[n - k] = conj(W[k])` for `k ≤ n/2`; entries beyond `n` are not written; and the
result is that of the unsplit loop `for (k = 0; k <= n/2; ++k)`, so it does not depend on how
the range is split at the 128-element threshold. -/
theorem compute_w_coefficients_spec (n : Nat) (hn : 1 ≤ n) (W0 : Buf ℝ) :
    (∀ k, k ≤ n → compute_w_coefficients Real.cos Real.sin Real.pi n 0 (n / 2) W0 k =
      ⟨Real.cos (2 * Real.pi * k / n), -Real.sin (2 * Real.pi * k / n)⟩) ∧
    (∀ k, k ≤ n / 2 →
      (compute_w_coefficients Real.cos Real.sin Real.pi n 0 (n / 2) W0 (n - k)).re =
        (compute_w_coefficients Real.cos Real.sin Real.pi n 0 (n / 2) W0 k).re ∧
      (compute_w_coefficients Real.cos Real.sin Real.pi n 0 (n / 2) W0 (n - k)).im =
        -(compute_w_coefficients Real.cos Real.sin Real.pi n 0 (n / 2) W0 k).im) ∧
    (∀ j, n < j → compute_w_coefficients Real.cos Real.sin Real.pi n 0 (n / 2) W0 j = W0 j) ∧
    compute_w_coefficients Real.cos Real.sin Real.pi n 0 (n / 2) W0 =
      forUp 0 (n / 2 + 1) (w_body Real.cos Real.sin Real.pi n) W0 := by
  have hloop := compute_w_coefficients_eq_loop Real.cos Real.sin Real.pi n 0 (n / 2) W0 (by omega)
  have hall : ∀ k, k ≤ n → compute_w_coefficients Real.cos Real.sin Real.pi n 0 (n / 2) W0 k =
      w_exact Real.cos Real.sin Real.pi n k := by
    intro k hk
    rw [hloop, w_loop_spec n hn _ (by omega), if_pos (by omega)]
  refine ⟨hall, ?_, ?_, hloop⟩
  · intro k hk
    rw [hall k (by omega), hall (n - k) (by omega), ← w_exact_symm n k hn (by omega),
      ← w_exact_self n k]
    simp
  · intro j hj
    rw [hloop, w_loop_spec n hn _ (by omega), if_neg (by omega)]


/-- Witness of `compute_w_coefficients_spec` at `n = 6`. -/
theorem compute_w_coefficients_spec_witness :
    1 ≤ 6 ∧ ∀ k, k ≤ 6 →
      compute_w_coefficients Real.cos Real.sin Real.pi 6 0 (6 / 2) (fun _ => ⟨0, 0⟩) k =
        ⟨Real.cos (2 * Real.pi * k / (6 : Nat)), -Real.sin (2 * Real.pi * k / (6 : Nat))⟩ :=
  ⟨by decide, (compute_w_coefficients_spec 6 (by decide) (fun _ => ⟨0, 0⟩)).1⟩

/-- C16 as the code has it: for the powers of two `n = 2^t` with `64 ≤ n ≤ 4096`, `factor(n)`
returns 8, except for `n = 512`, where it returns 16. -/
theorem factor_pow_two (t : Nat) (h6 : 6 ≤ t) (h12 : t ≤ 12) :
    factor (2 ^ t) = if t = 9 then 16 else 8 := by
  interval_cases t <;> simp [factor, and_15, and_7, and_3, and_1]

/-- Witness of `factor_pow_two` at `n = 2^10 = 1024`. -/
theorem factor_pow_two_witness : factor (2 ^ 10) = if 10 = 9 then 16 else 8 :=
  factor_pow_two 10 (by decide) (by decide)

/-- C16 fails at `n = 512`: it is a power of two between 64 and 4096, and `factor(512)` is 16,
not 8. -/
theorem factor_512 : 512 = 2 ^ 9 ∧ 64 ≤ 512 ∧ 512 ≤ 4096 ∧ factor 512 = 16 ∧ factor 512 ≠ 8 := by
  refine ⟨by decide, by decide, by decide, ?_, ?_⟩ <;> simp [factor, and_15, and_7, and_3, and_1]

theorem factor_eq_two (l : Nat) (hl : 2 ≤ l) (h : factor l = 2) : l % 4 = 2 := by
  unfold factor at h
  simp only [and_15, and_7, and_3, and_1] at h
  split_ifs at h with h1 h2 h3 h4 h5 h6
  all_goals first | omega | skip
  · have h7 := (factor_loop_spec l 3 (by decide) (by omega)).1
    rw [h] at h7
    omega

/-- The number of factors recorded for `l ≥ 2`: three to that power is at most `l` when `l`
is odd, and at most `3 * l / 2` always (a factor 2 is recorded at most once, every other
factor is at least 3). -/
theorem factor_list_length_bound (l : Nat) (hl : 2 ≤ l) :
    (l % 2 = 1 → 3 ^ (factor_list l).length ≤ l) ∧ 2 * 3 ^ (factor_list l).length ≤ 3 * l := by
  induction l using Nat.strong_induction_on with
  | _ l ih =>
    have hf := factor_spec l hl
    obtain ⟨m, hm⟩ := hf.1
    have hr2 := hf.2
    have hm0 : 0 < m := by
      rcases Nat.eq_zero_or_pos m with h | h
      · rw [h, Nat.mul_zero] at hm
        omega
      · exact h
    have hdiv : l / factor l = m :=
      Nat.div_eq_of_eq_mul_right (by omega) hm
    rw [factor_list]
    simp only [hdiv]
    split_ifs with h
    · have hml : m < l := by
        rw [hm]
        exact lt_mul_of_one_lt_left hm0 (by omega)
      obtain ⟨i1, i2⟩ := ih m hml (by omega)
      rw [List.length_cons, pow_succ]
      by_cases hodd : l % 2 = 1
      · have hmodd : m % 2 = 1 := by
          rcases Nat.even_or_odd' m with ⟨c, rfl | rfl⟩
          · rw [hm] at hodd
            rw [show factor l * (2 * c) = 2 * (factor l * c) by ring] at hodd
            omega
          · omega
        have hr3 : 3 ≤ factor l := by
          rcases Nat.lt_or_ge (factor l) 3 with h3 | h3
          · have : factor l = 2 := by omega
            rw [this] at hm
            omega
          · exact h3
        have h3m : 3 * m ≤ l := by
          rw [hm]
          exact Nat.mul_le_mul_right m hr3
        have := i1 hmodd
        refine ⟨fun _ => by omega, by omega⟩
      · refine ⟨fun h1 => absurd h1 hodd, ?_⟩
        by_cases hr : factor l = 2
        · have h4 := factor_eq_two l hl hr
          rw [hr] at hm
          have := i1 (by omega)
          omega
        · have h3m : 3 * m ≤ l := by
            rw [hm]
            exact Nat.mul_le_mul_right m (by omega)
          omega
    · rw [List.length_singleton]
      refine ⟨fun h1 => by omega, by omega⟩

/-- C17: for `1 ≤ n ≤ 3^40` the factoring loop of `cilk_fft` records at most 40 factors, so
the stores `*p++ = r` stay within `factors[0..39]`. -/
theorem factor_list_length_le (n : Nat) (h1 : 1 ≤ n) (h2 : n ≤ 3 ^ 40) :
    (factor_list n).length ≤ 40 := by
  by_cases hn : n = 1
  · subst hn
    rw [factor_list]
    simp [factor]
  · have hb := (factor_list_length_bound n (by omega)).2
    by_contra hc
    have h41 : 41 ≤ (factor_list n).length := by omega
    have : 3 ^ 41 ≤ 3 ^ (factor_list n).length := Nat.pow_le_pow_right (by decide) h41
    have e : (3 : Nat) ^ 41 = 3 * 3 ^ 40 := by norm_num
    omega

/-- Witness of `factor_list_length_le` at `n = 3^40`. -/
theorem factor_list_length_le_witness :
    (1 ≤ 3 ^ 40 ∧ 3 ^ 40 ≤ 3 ^ 40) ∧ (factor_list (3 ^ 40)).length ≤ 40 :=
  ⟨⟨by norm_num, le_refl _⟩, factor_list_length_le (3 ^ 40) (by norm_num) (le_refl _)⟩

theorem toC_eq (c : COMPLEX ℝ) : toC c = ⟨c.re, c.im⟩ := rfl

theorem toC_mk (a b : ℝ) : toC ⟨a, b⟩ = ⟨a, b⟩ := rfl

/-- One butterfly of a kernel, read over the complex numbers. -/
theorem bfly (rp ip rq iq a b rn im : ℝ) (w : ℂ) (hw : w = ⟨a, b⟩)
    (hr : rn = rp + (a * rq - b * iq)) (hi : im = ip + (a * iq + b * rq)) :
    (⟨rn, im⟩ : ℂ) = ⟨rp, ip⟩ + w * ⟨rq, iq⟩ := by
  subst hw hr hi
  apply Complex.ext <;> simp

/-- The product with a twiddle factor, read over the complex numbers. -/
theorem twid (wr wi tr ti : ℝ) :
    (⟨wr * tr - wi * ti, wi * tr + wr * ti⟩ : ℂ) = (⟨wr, wi⟩ : ℂ) * ⟨tr, ti⟩ := by
  apply Complex.ext
  · simp
  · simp
    ring

theorem setRe_re (b : Buf ℝ) (k : Nat) (v : ℝ) : (setRe b k v k).re = v := by
  simp [setRe]

theorem setRe_im (b : Buf ℝ) (k : Nat) (v : ℝ) (j : Nat) : (setRe b k v j).im = (b j).im := by
  unfold setRe
  split_ifs with h <;> simp [h]

theorem setIm_im (b : Buf ℝ) (k : Nat) (v : ℝ) : (setIm b k v k).im = v := by
  simp [setIm]

theorem setIm_re (b : Buf ℝ) (k : Nat) (v : ℝ) (j : Nat) : (setIm b k v j).re = (b j).re := by
  unfold setIm
  split_ifs with h <;> simp [h]

theorem setRe_ne (b : Buf ℝ) (k : Nat) (v : ℝ) (j : Nat) (h : j ≠ k) : setRe b k v j = b j := by
  simp [setRe, h]

theorem setIm_ne (b : Buf ℝ) (k : Nat) (v : ℝ) (j : Nat) (h : j ≠ k) : setIm b k v j = b j := by
  simp [setIm, h]

/-- Reading a cell that the pair of assignments `c_re(b[k]) = vr; c_im(b[k]) = vi` does not
touch. -/
theorem set_pair_ne (b : Buf ℝ) (k : Nat) (vr vi : ℝ) (j : Nat) (h : j ≠ k) :
    setIm (setRe b k vr) k vi j = b j := by
  simp [setRe, setIm, h]

/-- Reading the cell written by the pair of assignments `c_re(b[k]) = vr; c_im(b[k]) = vi`. -/
theorem set_pair_eq (b : Buf ℝ) (k : Nat) (vr vi : ℝ) :
    toC (setIm (setRe b k vr) k vi k) = ⟨vr, vi⟩ := by
  simp [setRe, setIm, toC]

/-- Reading the cell written by the pair of assignments, as a `COMPLEX`. -/
theorem set_pair_same (b : Buf ℝ) (k : Nat) (vr vi : ℝ) :
    setIm (setRe b k vr) k vi k = ⟨vr, vi⟩ := by
  simp [setRe, setIm]

theorem zq0 (z : ℂ) : z ^ 0 = ⟨1, 0⟩ := by
  rw [pow_zero]
  rfl

theorem zq16 (z : ℂ) (h8 : z ^ 8 = ⟨0, -1⟩) : z ^ 16 = ⟨-1, 0⟩ := by
  rw [show 16 = 8 * 2 from rfl, pow_mul, h8]
  apply Complex.ext <;> simp [pow_succ]

theorem zq24 (z : ℂ) (h8 : z ^ 8 = ⟨0, -1⟩) : z ^ 24 = ⟨0, 1⟩ := by
  rw [show 24 = 8 * 3 from rfl, pow_mul, h8]
  apply Complex.ext <;> simp [pow_succ]

theorem zq32 (z : ℂ) (h8 : z ^ 8 = ⟨0, -1⟩) : z ^ 32 = 1 := by
  rw [show 32 = 8 * 4 from rfl, pow_mul, h8]
  apply Complex.ext <;> simp [pow_succ]

theorem ZTab.h8 {K : Consts ℝ} {z : ℂ} (h : ZTab K z) : z ^ 8 = ⟨0, -1⟩ := h.2.2.2.2.2.2.2

/-- The powers `z ^ 9` to `z ^ 31` of the root, from the table of `z ^ 1` to `z ^ 8`. -/
theorem ZTab.pows {K : Consts ℝ} {z : ℂ} (h : ZTab K z) :
    z ^ 9 = ⟨-K.c0_195090322016, -K.c0_980785280403⟩ ∧
    z ^ 10 = ⟨-K.c0_382683432365, -K.c0_923879532511⟩ ∧
    z ^ 11 = ⟨-K.c0_55557023302, -K.c0_831469612303⟩ ∧
    z ^ 12 = ⟨-K.c0_707106781187, -K.c0_707106781187⟩ ∧
    z ^ 13 = ⟨-K.c0_831469612303, -K.c0_55557023302⟩ ∧
    z ^ 14 = ⟨-K.c0_923879532511, -K.c0_382683432365⟩ ∧
    z ^ 15 = ⟨-K.c0_980785280403, -K.c0_195090322016⟩ ∧
    z ^ 17 = ⟨-K.c0_980785280403, K.c0_195090322016⟩ ∧
    z ^ 18 = ⟨-K.c0_923879532511, K.c0_382683432365⟩ ∧
    z ^ 19 = ⟨-K.c0_831469612303, K.c0_55557023302⟩ ∧
    z ^ 20 = ⟨-K.c0_707106781187, K.c0_707106781187⟩ ∧
    z ^ 21 = ⟨-K.c0_55557023302, K.c0_831469612303⟩ ∧
    z ^ 22 = ⟨-K.c0_382683432365, K.c0_923879532511⟩ ∧
    z ^ 23 = ⟨-K.c0_195090322016, K.c0_980785280403⟩ ∧
    z ^ 25 = ⟨K.c0_195090322016, K.c0_980785280403⟩ ∧
    z ^ 26 = ⟨K.c0_382683432365, K.c0_923879532511⟩ ∧
    z ^ 27 = ⟨K.c0_55557023302, K.c0_831469612303⟩ ∧
    z ^ 28 = ⟨K.c0_707106781187, K.c0_707106781187⟩ ∧
    z ^ 29 = ⟨K.c0_831469612303, K.c0_55557023302⟩ ∧
    z ^ 30 = ⟨K.c0_923879532511, K.c0_382683432365⟩ ∧
    z ^ 31 = ⟨K.c0_980785280403, K.c0_195090322016⟩ := by
  refine ⟨?_, ?_, ?_, ?_, ?_, ?_, ?_, ?_, ?_, ?_, ?_, ?_, ?_, ?_, ?_, ?_, ?_, ?_, ?_, ?_, ?_⟩
  · rw [show 9 = 8 * 1 + 1 from rfl, pow_add, pow_mul, h.2.2.2.2.2.2.2, h.1]
    apply Complex.ext <;> simp [pow_succ]
  · rw [show 10 = 8 * 1 + 2 from rfl, pow_add, pow_mul, h.2.2.2.2.2.2.2, h.2.1]
    apply Complex.ext <;> simp [pow_succ]
  · rw [show 11 = 8 * 1 + 3 from rfl, pow_add, pow_mul, h.2.2.2.2.2.2.2, h.2.2.1]
    apply Complex.ext <;> simp [pow_succ]
  · rw [show 12 = 8 * 1 + 4 from rfl, pow_add, pow_mul, h.2.2.2.2.2.2.2, h.2.2.2.1]
    apply Complex.ext <;> simp [pow_succ]
  · rw [show 13 = 8 * 1 + 5 from rfl, pow_add, pow_mul, h.2.2.2.2.2.2.2, h.2.2.2.2.1]
    apply Complex.ext <;> simp [pow_succ]
  · rw [show 14 = 8 * 1 + 6 from rfl, pow_add, pow_mul, h.2.2.2.2.2.2.2, h.2.2.2.2.2.1]
    apply Complex.ext <;> simp [pow_succ]
  · rw [show 15 = 8 * 1 + 7 from rfl, pow_add, pow_mul, h.2.2.2.2.2.2.2, h.2.2.2.2.2.2.1]
    apply Complex.ext <;> simp [pow_succ]
  · rw [show 17 = 8 * 2 + 1 from rfl, pow_add, pow_mul, h.2.2.2.2.2.2.2, h.1]
    apply Complex.ext <;> simp [pow_succ]
  · rw [show 18 = 8 * 2 + 2 from rfl, pow_add, pow_mul, h.2.2.2.2.2.2.2, h.2.1]
    apply Complex.ext <;> simp [pow_succ]
  · rw [show 19 = 8 * 2 + 3 from rfl, pow_add, pow_mul, h.2.2.2.2.2.2.2, h.2.2.1]
    apply Complex.ext <;> simp [pow_succ]
  · rw [show 20 = 8 * 2 + 4 from rfl, pow_add, pow_mul, h.2.2.2.2.2.2.2, h.2.2.2.1]
    apply Complex.ext <;> simp [pow_succ]
  · rw [show 21 = 8 * 2 + 5 from rfl, pow_add, pow_mul, h.2.2.2.2.2.2.2, h.2.2.2.2.1]
    apply Complex.ext <;> simp [pow_succ]
  · rw [show 22 = 8 * 2 + 6 from rfl, pow_add, pow_mul, h.2.2.2.2.2.2.2, h.2.2.2.2.2.1]
    apply Complex.ext <;> simp [pow_succ]
  · rw [show 23 = 8 * 2 + 7 from rfl, pow_add, pow_mul, h.2.2.2.2.2.2.2, h.2.2.2.2.2.2.1]
    apply Complex.ext <;> simp [pow_succ]
  · rw [show 25 = 8 * 3 + 1 from rfl, pow_add, pow_mul, h.2.2.2.2.2.2.2, h.1]
    apply Complex.ext <;> simp [pow_succ]
  · rw [show 26 = 8 * 3 + 2 from rfl, pow_add, pow_mul, h.2.2.2.2.2.2.2, h.2.1]
    apply Complex.ext <;> simp [pow_succ]
  · rw [show 27 = 8 * 3 + 3 from rfl, pow_add, pow_mul, h.2.2.2.2.2.2.2, h.2.2.1]
    apply Complex.ext <;> simp [pow_succ]
  · rw [show 28 = 8 * 3 + 4 from rfl, pow_add, pow_mul, h.2.2.2.2.2.2.2, h.2.2.2.1]
    apply Complex.ext <;> simp [pow_succ]
  · rw [show 29 = 8 * 3 + 5 from rfl, pow_add, pow_mul, h.2.2.2.2.2.2.2, h.2.2.2.2.1]
    apply Complex.ext <;> simp [pow_succ]
  · rw [show 30 = 8 * 3 + 6 from rfl, pow_add, pow_mul, h.2.2.2.2.2.2.2, h.2.2.2.2.2.1]
    apply Complex.ext <;> simp [pow_succ]
  · rw [show 31 = 8 * 3 + 7 from rfl, pow_add, pow_mul, h.2.2.2.2.2.2.2, h.2.2.2.2.2.2.1]
    apply Complex.ext <;> simp [pow_succ]

/-- Powers of a 32nd root of unity: the exponent can be taken modulo 32. -/
theorem zpow_red (z : ℂ) (h32 : z ^ 32 = 1) (s a : ℕ) : (z ^ s) ^ a = z ^ ((s * a) % 32) := by
  rw [← pow_mul]
  conv_lhs => rw [← Nat.div_add_mod (s * a) 32]
  rw [pow_add, pow_mul, h32, one_pow, one_mul]

set_option maxHeartbeats 4000000 in
/-- The butterflies of `fft_base_8` that compute `r2_0`, `i2_0`, `r2_1`, `i2_1`, `r2_2`, `i2_2`,
`r2_3`, `i2_3`, `r2_4`, `i2_4`, `r2_5`, `i2_5`, `r2_6`, `i2_6`, `r2_7`, `i2_7`. -/
theorem fft_base_8_bfly1 (z : ℂ) (h8 : z ^ 8 = ⟨0, -1⟩) :
    (∀ {x0 x4 : ℂ} {r3_0 i3_0 r3_4 i3_4 : ℝ},
      (⟨r3_0, i3_0⟩ : ℂ) = x0 →
      (⟨r3_4, i3_4⟩ : ℂ) = x4 →
      (⟨r3_0 + r3_4, i3_0 + i3_4⟩ : ℂ) =
        x0 * z ^ (0 : ℕ) + x4 * z ^ (0 : ℕ)) ∧
    (∀ {x1 x5 : ℂ} {r3_1 i3_1 r3_5 i3_5 : ℝ},
      (⟨r3_1, i3_1⟩ : ℂ) = x1 →
      (⟨r3_5, i3_5⟩ : ℂ) = x5 →
      (⟨r3_1 + r3_5, i3_1 + i3_5⟩ : ℂ) =
        x1 * z ^ (0 : ℕ) + x5 * z ^ (0 : ℕ)) ∧
    (∀ {x2 x6 : ℂ} {r3_2 i3_2 r3_6 i3_6 : ℝ},
      (⟨r3_2, i3_2⟩ : ℂ) = x2 →
      (⟨r3_6, i3_6⟩ : ℂ) = x6 →
      (⟨r3_2 + r3_6, i3_2 + i3_6⟩ : ℂ) =
        x2 * z ^ (0 : ℕ) + x6 * z ^ (0 : ℕ)) ∧
    (∀ {x3 x7 : ℂ} {r3_3 i3_3 r3_7 i3_7 : ℝ},
      (⟨r3_3, i3_3⟩ : ℂ) = x3 →
      (⟨r3_7, i3_7⟩ : ℂ) = x7 →
      (⟨r3_3 + r3_7, i3_3 + i3_7⟩ : ℂ) =
        x3 * z ^ (0 : ℕ) + x7 * z ^ (0 : ℕ)) ∧
    (∀ {x0 x4 : ℂ} {r3_0 i3_0 r3_4 i3_4 : ℝ},
      (⟨r3_0, i3_0⟩ : ℂ) = x0 →
      (⟨r3_4, i3_4⟩ : ℂ) = x4 →
      (⟨r3_0 - r3_4, i3_0 - i3_4⟩ : ℂ) =
        x0 * z ^ (0 : ℕ) + x4 * z ^ (16 : ℕ)) ∧
    (∀ {x1 x5 : ℂ} {r3_1 i3_1 r3_5 i3_5 : ℝ},
      (⟨r3_1, i3_1⟩ : ℂ) = x1 →
      (⟨r3_5, i3_5⟩ : ℂ) = x5 →
      (⟨r3_1 - r3_5, i3_1 - i3_5⟩ : ℂ) =
        x1 * z ^ (0 : ℕ) + x5 * z ^ (16 : ℕ)) ∧
    (∀ {x2 x6 : ℂ} {r3_2 i3_2 r3_6 i3_6 : ℝ},
      (⟨r3_2, i3_2⟩ : ℂ) = x2 →
      (⟨r3_6, i3_6⟩ : ℂ) = x6 →
      (⟨r3_2 - r3_6, i3_2 - i3_6⟩ : ℂ) =
        x2 * z ^ (0 : ℕ) + x6 * z ^ (16 : ℕ)) ∧
    (∀ {x3 x7 : ℂ} {r3_3 i3_3 r3_7 i3_7 : ℝ},
      (⟨r3_3, i3_3⟩ : ℂ) = x3 →
      (⟨r3_7, i3_7⟩ : ℂ) = x7 →
      (⟨r3_3 - r3_7, i3_3 - i3_7⟩ : ℂ) =
        x3 * z ^ (0 : ℕ) + x7 * z ^ (16 : ℕ)) := by
  refine ⟨?_, ?_, ?_, ?_, ?_, ?_, ?_, ?_⟩
  · intro x0 x4 r3_0 i3_0 r3_4 i3_4 hp hq
    refine (bfly r3_0 i3_0 r3_4 i3_4 _ _ _ _
      (z ^ (0 : ℕ)) (zq0 z) (by ring) (by ring)).trans ?_
    rw [hp, hq]
    ring
  · intro x1 x5 r3_1 i3_1 r3_5 i3_5 hp hq
    refine (bfly r3_1 i3_1 r3_5 i3_5 _ _ _ _
      (z ^ (0 : ℕ)) (zq0 z) (by ring) (by ring)).trans ?_
    rw [hp, hq]
    ring
  · intro x2 x6 r3_2 i3_2 r3_6 i3_6 hp hq
    refine (bfly r3_2 i3_2 r3_6 i3_6 _ _ _ _
      (z ^ (0 : ℕ)) (zq0 z) (by ring) (by ring)).trans ?_
    rw [hp, hq]
    ring
  · intro x3 x7 r3_3 i3_3 r3_7 i3_7 hp hq
    refine (bfly r3_3 i3_3 r3_7 i3_7 _ _ _ _
      (z ^ (0 : ℕ)) (zq0 z) (by ring) (by ring)).trans ?_
    rw [hp, hq]
    ring
  · intro x0 x4 r3_0 i3_0 r3_4 i3_4 hp hq
    refine (bfly r3_0 i3_0 r3_4 i3_4 _ _ _ _
      (z ^ (16 : ℕ)) (zq16 z h8) (by ring) (by ring)).trans ?_
    rw [hp, hq]
    ring
  · intro x1 x5 r3_1 i3_1 r3_5 i3_5 hp hq
    refine (bfly r3_1 i3_1 r3_5 i3_5 _ _ _ _
      (z ^ (16 : ℕ)) (zq16 z h8) (by ring) (by ring)).trans ?_
    rw [hp, hq]
    ring
  · intro x2 x6 r3_2 i3_2 r3_6 i3_6 hp hq
    refine (bfly r3_2 i3_2 r3_6 i3_6 _ _ _ _
      (z ^ (16 : ℕ)) (zq16 z h8) (by ring) (by ring)).trans ?_
    rw [hp, hq]
    ring
  · intro x3 x7 r3_3 i3_3 r3_7 i3_7 hp hq
    refine (bfly r3_3 i3_3 r3_7 i3_7 _ _ _ _
      (z ^ (16 : ℕ)) (zq16 z h8) (by ring) (by ring)).trans ?_
    rw [hp, hq]
    ring

set_option maxHeartbeats 4000000 in
/-- The butterflies of `fft_base_8` that compute `r1_0`, `i1_0`, `r1_1`, `i1_1`, `r1_2`, `i1_2`,
`r1_3`, `i1_3`, `r1_4`, `i1_4`, `r1_5`, `i1_5`, `r1_6`, `i1_6`, `r1_7`, `i1_7`. -/
theorem fft_base_8_bfly2 (z : ℂ) (h8 : z ^ 8 = ⟨0, -1⟩) :
    (∀ {x0 x2 x4 x6 : ℂ} {r2_0 i2_0 r2_2 i2_2 : ℝ},
      (⟨r2_0, i2_0⟩ : ℂ) = x0 * z ^ (0 : ℕ) + x4 * z ^ (0 : ℕ) →
      (⟨r2_2, i2_2⟩ : ℂ) = x2 * z ^ (0 : ℕ) + x6 * z ^ (0 : ℕ) →
      (⟨r2_0 + r2_2, i2_0 + i2_2⟩ : ℂ) =
        x0 * z ^ (0 : ℕ) + x2 * z ^ (0 : ℕ) + x4 * z ^ (0 : ℕ) + x6 * z ^ (0 : ℕ)) ∧
    (∀ {x1 x3 x5 x7 : ℂ} {r2_1 i2_1 r2_3 i2_3 : ℝ},
      (⟨r2_1, i2_1⟩ : ℂ) = x1 * z ^ (0 : ℕ) + x5 * z ^ (0 : ℕ) →
      (⟨r2_3, i2_3⟩ : ℂ) = x3 * z ^ (0 : ℕ) + x7 * z ^ (0 : ℕ) →
      (⟨r2_1 + r2_3, i2_1 + i2_3⟩ : ℂ) =
        x1 * z ^ (0 : ℕ) + x3 * z ^ (0 : ℕ) + x5 * z ^ (0 : ℕ) + x7 * z ^ (0 : ℕ)) ∧
    (∀ {x0 x2 x4 x6 : ℂ} {r2_4 i2_4 r2_6 i2_6 : ℝ},
      (⟨r2_4, i2_4⟩ : ℂ) = x0 * z ^ (0 : ℕ) + x4 * z ^ (16 : ℕ) →
      (⟨r2_6, i2_6⟩ : ℂ) = x2 * z ^ (0 : ℕ) + x6 * z ^ (16 : ℕ) →
      (⟨r2_4 + i2_6, i2_4 - r2_6⟩ : ℂ) =
        x0 * z ^ (0 : ℕ) + x2 * z ^ (8 : ℕ) + x4 * z ^ (16 : ℕ) + x6 * z ^ (24 : ℕ)) ∧
    (∀ {x1 x3 x5 x7 : ℂ} {r2_5 i2_5 r2_7 i2_7 : ℝ},
      (⟨r2_5, i2_5⟩ : ℂ) = x1 * z ^ (0 : ℕ) + x5 * z ^ (16 : ℕ) →
      (⟨r2_7, i2_7⟩ : ℂ) = x3 * z ^ (0 : ℕ) + x7 * z ^ (16 : ℕ) →
      (⟨r2_5 + i2_7, i2_5 - r2_7⟩ : ℂ) =
        x1 * z ^ (0 : ℕ) + x3 * z ^ (8 : ℕ) + x5 * z ^ (16 : ℕ) + x7 * z ^ (24 : ℕ)) ∧
    (∀ {x0 x2 x4 x6 : ℂ} {r2_0 i2_0 r2_2 i2_2 : ℝ},
      (⟨r2_0, i2_0⟩ : ℂ) = x0 * z ^ (0 : ℕ) + x4 * z ^ (0 : ℕ) →
      (⟨r2_2, i2_2⟩ : ℂ) = x2 * z ^ (0 : ℕ) + x6 * z ^ (0 : ℕ) →
      (⟨r2_0 - r2_2, i2_0 - i2_2⟩ : ℂ) =
        x0 * z ^ (0 : ℕ) + x2 * z ^ (16 : ℕ) + x4 * z ^ (0 : ℕ) + x6 * z ^ (16 : ℕ)) ∧
    (∀ {x1 x3 x5 x7 : ℂ} {r2_1 i2_1 r2_3 i2_3 : ℝ},
      (⟨r2_1, i2_1⟩ : ℂ) = x1 * z ^ (0 : ℕ) + x5 * z ^ (0 : ℕ) →
      (⟨r2_3, i2_3⟩ : ℂ) = x3 * z ^ (0 : ℕ) + x7 * z ^ (0 : ℕ) →
      (⟨r2_1 - r2_3, i2_1 - i2_3⟩ : ℂ) =
        x1 * z ^ (0 : ℕ) + x3 * z ^ (16 : ℕ) + x5 * z ^ (0 : ℕ) + x7 * z ^ (16 : ℕ)) ∧
    (∀ {x0 x2 x4 x6 : ℂ} {r2_4 i2_4 r2_6 i2_6 : ℝ},
      (⟨r2_4, i2_4⟩ : ℂ) = x0 * z ^ (0 : ℕ) + x4 * z ^ (16 : ℕ) →
      (⟨r2_6, i2_6⟩ : ℂ) = x2 * z ^ (0 : ℕ) + x6 * z ^ (16 : ℕ) →
      (⟨r2_4 - i2_6, i2_4 + r2_6⟩ : ℂ) =
        x0 * z ^ (0 : ℕ) + x2 * z ^ (24 : ℕ) + x4 * z ^ (16 : ℕ) + x6 * z ^ (8 : ℕ)) ∧
    (∀ {x1 x3 x5 x7 : ℂ} {r2_5 i2_5 r2_7 i2_7 : ℝ},
      (⟨r2_5, i2_5⟩ : ℂ) = x1 * z ^ (0 : ℕ) + x5 * z ^ (16 : ℕ) →
      (⟨r2_7, i2_7⟩ : ℂ) = x3 * z ^ (0 : ℕ) + x7 * z ^ (16 : ℕ) →
      (⟨r2_5 - i2_7, i2_5 + r2_7⟩ : ℂ) =
        x1 * z ^ (0 : ℕ) + x3 * z ^ (24 : ℕ) + x5 * z ^ (16 : ℕ) + x7 * z ^ (8 : ℕ)) := by
  refine ⟨?_, ?_, ?_, ?_, ?_, ?_, ?_, ?_⟩
  · intro x0 x2 x4 x6 r2_0 i2_0 r2_2 i2_2 hp hq
    refine (bfly r2_0 i2_0 r2_2 i2_2 _ _ _ _
      (z ^ (0 : ℕ)) (zq0 z) (by ring) (by ring)).trans ?_
    rw [hp, hq]
    ring
  · intro x1 x3 x5 x7 r2_1 i2_1 r2_3 i2_3 hp hq
    refine (bfly r2_1 i2_1 r2_3 i2_3 _ _ _ _
      (z ^ (0 : ℕ)) (zq0 z) (by ring) (by ring)).trans ?_
    rw [hp, hq]
    ring
  · intro x0 x2 x4 x6 r2_4 i2_4 r2_6 i2_6 hp hq
    refine (bfly r2_4 i2_4 r2_6 i2_6 _ _ _ _
      (z ^ (8 : ℕ)) h8 (by ring) (by ring)).trans ?_
    rw [hp, hq]
    ring
  · intro x1 x3 x5 x7 r2_5 i2_5 r2_7 i2_7 hp hq
    refine (bfly r2_5 i2_5 r2_7 i2_7 _ _ _ _
      (z ^ (8 : ℕ)) h8 (by ring) (by ring)).trans ?_
    rw [hp, hq]
    ring
  · intro x0 x2 x4 x6 r2_0 i2_0 r2_2 i2_2 hp hq
    refine (bfly r2_0 i2_0 r2_2 i2_2 _ _ _ _
      (z ^ (16 : ℕ)) (zq16 z h8) (by ring) (by ring)).trans ?_
    rw [hp, hq]
    ring
  · intro x1 x3 x5 x7 r2_1 i2_1 r2_3 i2_3 hp hq
    refine (bfly r2_1 i2_1 r2_3 i2_3 _ _ _ _
      (z ^ (16 : ℕ)) (zq16 z h8) (by ring) (by ring)).trans ?_
    rw [hp, hq]
    ring
  · intro x0 x2 x4 x6 r2_4 i2_4 r2_6 i2_6 hp hq
    refine (bfly r2_4 i2_4 r2_6 i2_6 _ _ _ _
      (z ^ (24 : ℕ)) (zq24 z h8) (by ring) (by ring)).trans ?_
    rw [hp, hq]
    linear_combination (x6 * z ^ (8 : ℕ)) * zq32 z h8
  · intro x1 x3 x5 x7 r2_5 i2_5 r2_7 i2_7 hp hq
    refine (bfly r2_5 i2_5 r2_7 i2_7 _ _ _ _
      (z ^ (24 : ℕ)) (zq24 z h8) (by ring) (by ring)).trans ?_
    rw [hp, hq]
    linear_combination (x7 * z ^ (8 : ℕ)) * zq32 z h8

set_option maxHeartbeats 4000000 in
/-- The butterflies of `fft_base_8` that compute output 0, output 1, output 2, output 3, output 4,
output 5, output 6, output 7. -/
theorem fft_base_8_bfly3 (K : Consts ℝ) (z : ℂ) (hz : ZTab K z) :
    (∀ {x0 x1 x2 x3 x4 x5 x6 x7 : ℂ} {r1_0 i1_0 r1_1 i1_1 : ℝ},
      (⟨r1_0, i1_0⟩ : ℂ) = x0 * z ^ (0 : ℕ) + x2 * z ^ (0 : ℕ) + x4 * z ^ (0 : ℕ) + x6 * z ^ (0 : ℕ) →
      (⟨r1_1, i1_1⟩ : ℂ) = x1 * z ^ (0 : ℕ) + x3 * z ^ (0 : ℕ) + x5 * z ^ (0 : ℕ) + x7 * z ^ (0 : ℕ) →
      (⟨r1_0 + r1_1, i1_0 + i1_1⟩ : ℂ) =
        x0 * z ^ (0 : ℕ) + x1 * z ^ (0 : ℕ) + x2 * z ^ (0 : ℕ) + x3 * z ^ (0 : ℕ) + x4 * z ^ (0 : ℕ) + x5 * z ^ (0 : ℕ) + x6 * z ^ (0 : ℕ) + x7 * z ^ (0 : ℕ)) ∧
    (∀ {x0 x1 x2 x3 x4 x5 x6 x7 : ℂ} {r1_2 i1_2 r1_3 i1_3 : ℝ},
      (⟨r1_2, i1_2⟩ : ℂ) = x0 * z ^ (0 : ℕ) + x2 * z ^ (8 : ℕ) + x4 * z ^ (16 : ℕ) + x6 * z ^ (24 : ℕ) →
      (⟨r1_3, i1_3⟩ : ℂ) = x1 * z ^ (0 : ℕ) + x3 * z ^ (8 : ℕ) + x5 * z ^ (16 : ℕ) + x7 * z ^ (24 : ℕ) →
      (⟨r1_2 + (K.c0_707106781187 * (r1_3 + i1_3)), i1_2 + (K.c0_707106781187 * (i1_3 - r1_3))⟩ : ℂ) =
        x0 * z ^ (0 : ℕ) + x1 * z ^ (4 : ℕ) + x2 * z ^ (8 : ℕ) + x3 * z ^ (12 : ℕ) + x4 * z ^ (16 : ℕ) + x5 * z ^ (20 : ℕ) + x6 * z ^ (24 : ℕ) + x7 * z ^ (28 : ℕ)) ∧
    (∀ {x0 x1 x2 x3 x4 x5 x6 x7 : ℂ} {r1_4 i1_4 r1_5 i1_5 : ℝ},
      (⟨r1_4, i1_4⟩ : ℂ) = x0 * z ^ (0 : ℕ) + x2 * z ^ (16 : ℕ) + x4 * z ^ (0 : ℕ) + x6 * z ^ (16 : ℕ) →
      (⟨r1_5, i1_5⟩ : ℂ) = x1 * z ^ (0 : ℕ) + x3 * z ^ (16 : ℕ) + x5 * z ^ (0 : ℕ) + x7 * z ^ (16 : ℕ) →
      (⟨r1_4 + i1_5, i1_4 - r1_5⟩ : ℂ) =
        x0 * z ^ (0 : ℕ) + x1 * z ^ (8 : ℕ) + x2 * z ^ (16 : ℕ) + x3 * z ^ (24 : ℕ) + x4 * z ^ (0 : ℕ) + x5 * z ^ (8 : ℕ) + x6 * z ^ (16 : ℕ) + x7 * z ^ (24 : ℕ)) ∧
    (∀ {x0 x1 x2 x3 x4 x5 x6 x7 : ℂ} {r1_6 i1_6 r1_7 i1_7 : ℝ},
      (⟨r1_6, i1_6⟩ : ℂ) = x0 * z ^ (0 : ℕ) + x2 * z ^ (24 : ℕ) + x4 * z ^ (16 : ℕ) + x6 * z ^ (8 : ℕ) →
      (⟨r1_7, i1_7⟩ : ℂ) = x1 * z ^ (0 : ℕ) + x3 * z ^ (24 : ℕ) + x5 * z ^ (16 : ℕ) + x7 * z ^ (8 : ℕ) →
      (⟨r1_6 + (K.c0_707106781187 * (i1_7 - r1_7)), i1_6 - (K.c0_707106781187 * (r1_7 + i1_7))⟩ : ℂ) =
        x0 * z ^ (0 : ℕ) + x1 * z ^ (12 : ℕ) + x2 * z ^ (24 : ℕ) + x3 * z ^ (4 : ℕ) + x4 * z ^ (16 : ℕ) + x5 * z ^ (28 : ℕ) + x6 * z ^ (8 : ℕ) + x7 * z ^ (20 : ℕ)) ∧
    (∀ {x0 x1 x2 x3 x4 x5 x6 x7 : ℂ} {r1_0 i1_0 r1_1 i1_1 : ℝ},
      (⟨r1_0, i1_0⟩ : ℂ) = x0 * z ^ (0 : ℕ) + x2 * z ^ (0 : ℕ) + x4 * z ^ (0 : ℕ) + x6 * z ^ (0 : ℕ) →
      (⟨r1_1, i1_1⟩ : ℂ) = x1 * z ^ (0 : ℕ) + x3 * z ^ (0 : ℕ) + x5 * z ^ (0 : ℕ) + x7 * z ^ (0 : ℕ) →
      (⟨r1_0 - r1_1, i1_0 - i1_1⟩ : ℂ) =
        x0 * z ^ (0 : ℕ) + x1 * z ^ (16 : ℕ) + x2 * z ^ (0 : ℕ) + x3 * z ^ (16 : ℕ) + x4 * z ^ (0 : ℕ) + x5 * z ^ (16 : ℕ) + x6 * z ^ (0 : ℕ) + x7 * z ^ (16 : ℕ)) ∧
    (∀ {x0 x1 x2 x3 x4 x5 x6 x7 : ℂ} {r1_2 i1_2 r1_3 i1_3 : ℝ},
      (⟨r1_2, i1_2⟩ : ℂ) = x0 * z ^ (0 : ℕ) + x2 * z ^ (8 : ℕ) + x4 * z ^ (16 : ℕ) + x6 * z ^ (24 : ℕ) →
      (⟨r1_3, i1_3⟩ : ℂ) = x1 * z ^ (0 : ℕ) + x3 * z ^ (8 : ℕ) + x5 * z ^ (16 : ℕ) + x7 * z ^ (24 : ℕ) →
      (⟨r1_2 - (K.c0_707106781187 * (r1_3 + i1_3)), i1_2 - (K.c0_707106781187 * (i1_3 - r1_3))⟩ : ℂ) =
        x0 * z ^ (0 : ℕ) + x1 * z ^ (20 : ℕ) + x2 * z ^ (8 : ℕ) + x3 * z ^ (28 : ℕ) + x4 * z ^ (16 : ℕ) + x5 * z ^ (4 : ℕ) + x6 * z ^ (24 : ℕ) + x7 * z ^ (12 : ℕ)) ∧
    (∀ {x0 x1 x2 x3 x4 x5 x6 x7 : ℂ} {r1_4 i1_4 r1_5 i1_5 : ℝ},
      (⟨r1_4, i1_4⟩ : ℂ) = x0 * z ^ (0 : ℕ) + x2 * z ^ (16 : ℕ) + x4 * z ^ (0 : ℕ) + x6 * z ^ (16 : ℕ) →
      (⟨r1_5, i1_5⟩ : ℂ) = x1 * z ^ (0 : ℕ) + x3 * z ^ (16 : ℕ) + x5 * z ^ (0 : ℕ) + x7 * z ^ (16 : ℕ) →
      (⟨r1_4 - i1_5, i1_4 + r1_5⟩ : ℂ) =
        x0 * z ^ (0 : ℕ) + x1 * z ^ (24 : ℕ) + x2 * z ^ (16 : ℕ) + x3 * z ^ (8 : ℕ) + x4 * z ^ (0 : ℕ) + x5 * z ^ (24 : ℕ) + x6 * z ^ (16 : ℕ) + x7 * z ^ (8 : ℕ)) ∧
    (∀ {x0 x1 x2 x3 x4 x5 x6 x7 : ℂ} {r1_6 i1_6 r1_7 i1_7 : ℝ},
      (⟨r1_6, i1_6⟩ : ℂ) = x0 * z ^ (0 : ℕ) + x2 * z ^ (24 : ℕ) + x4 * z ^ (16 : ℕ) + x6 * z ^ (8 : ℕ) →
      (⟨r1_7, i1_7⟩ : ℂ) = x1 * z ^ (0 : ℕ) + x3 * z ^ (24 : ℕ) + x5 * z ^ (16 : ℕ) + x7 * z ^ (8 : ℕ) →
      (⟨r1_6 - (K.c0_707106781187 * (i1_7 - r1_7)), i1_6 + (K.c0_707106781187 * (r1_7 + i1_7))⟩ : ℂ) =
        x0 * z ^ (0 : ℕ) + x1 * z ^ (28 : ℕ) + x2 * z ^ (24 : ℕ) + x3 * z ^ (20 : ℕ) + x4 * z ^ (16 : ℕ) + x5 * z ^ (12 : ℕ) + x6 * z ^ (8 : ℕ) + x7 * z ^ (4 : ℕ)) := by
  refine ⟨?_, ?_, ?_, ?_, ?_, ?_, ?_, ?_⟩
  · intro x0 x1 x2 x3 x4 x5 x6 x7 r1_0 i1_0 r1_1 i1_1 hp hq
    refine (bfly r1_0 i1_0 r1_1 i1_1 _ _ _ _
      (z ^ (0 : ℕ)) (zq0 z) (by ring) (by ring)).trans ?_
    rw [hp, hq]
    ring
  · intro x0 x1 x2 x3 x4 x5 x6 x7 r1_2 i1_2 r1_3 i1_3 hp hq
    refine (bfly r1_2 i1_2 r1_3 i1_3 _ _ _ _
      (z ^ (4 : ℕ)) (hz.2.2.2.1) (by ring) (by ring)).trans ?_
    rw [hp, hq]
    ring
  · intro x0 x1 x2 x3 x4 x5 x6 x7 r1_4 i1_4 r1_5 i1_5 hp hq
    refine (bfly r1_4 i1_4 r1_5 i1_5 _ _ _ _
      (z ^ (8 : ℕ)) hz.h8 (by ring) (by ring)).trans ?_
    rw [hp, hq]
    ring
  · intro x0 x1 x2 x3 x4 x5 x6 x7 r1_6 i1_6 r1_7 i1_7 hp hq
    refine (bfly r1_6 i1_6 r1_7 i1_7 _ _ _ _
      (z ^ (12 : ℕ)) (hz.pows.2.2.2.1) (by ring) (by ring)).trans ?_
    rw [hp, hq]
    linear_combination (x3 * z ^ (4 : ℕ)) * zq32 z hz.h8
  · intro x0 x1 x2 x3 x4 x5 x6 x7 r1_0 i1_0 r1_1 i1_1 hp hq
    refine (bfly r1_0 i1_0 r1_1 i1_1 _ _ _ _
      (z ^ (16 : ℕ)) (zq16 z hz.h8) (by ring) (by ring)).trans ?_
    rw [hp, hq]
    ring
  · intro x0 x1 x2 x3 x4 x5 x6 x7 r1_2 i1_2 r1_3 i1_3 hp hq
    refine (bfly r1_2 i1_2 r1_3 i1_3 _ _ _ _
      (z ^ (20 : ℕ)) (hz.pows.2.2.2.2.2.2.2.2.2.2.1) (by ring) (by ring)).trans ?_
    rw [hp, hq]
    linear_combination (x5 * z ^ (4 : ℕ) + x7 * z ^ (12 : ℕ)) * zq32 z hz.h8
  · intro x0 x1 x2 x3 x4 x5 x6 x7 r1_4 i1_4 r1_5 i1_5 hp hq
    refine (bfly r1_4 i1_4 r1_5 i1_5 _ _ _ _
      (z ^ (24 : ℕ)) (zq24 z hz.h8) (by ring) (by ring)).trans ?_
    rw [hp, hq]
    linear_combination (x3 * z ^ (8 : ℕ) + x7 * z ^ (8 : ℕ)) * zq32 z hz.h8
  · intro x0 x1 x2 x3 x4 x5 x6 x7 r1_6 i1_6 r1_7 i1_7 hp hq
    refine (bfly r1_6 i1_6 r1_7 i1_7 _ _ _ _
      (z ^ (28 : ℕ)) (hz.pows.2.2.2.2.2.2.2.2.2.2.2.2.2.2.2.2.2.1) (by ring) (by ring)).trans ?_
    rw [hp, hq]
    linear_combination (x5 * z ^ (12 : ℕ) + x3 * z ^ (20 : ℕ) + x7 * z ^ (4 : ℕ)) * zq32 z hz.h8

set_option linter.unusedVariables false in
set_option maxRecDepth 100000 in
set_option maxHeartbeats 4000000 in
/-- The kernel `fft_base_8` computes the 8-point transform of its inputs with respect to
the root `z ^ 4`. -/
theorem fft_base_8_net (K : Consts ℝ) (z : ℂ) (hz : ZTab K z) (inp : Buf ℝ) (io : Nat) (out : Buf ℝ) (oo : Nat)
    (k : Nat) (hk : k < 8) :
    toC (fft_base_8 K inp io out oo (oo + k)) =
      dft (z ^ (4 : ℕ)) 8 (fun c => toC (inp (io + c))) k := by
  have h32 := zq32 z hz.h8
  have c3_0 : (⟨(inp (io + 0)).re, (inp (io + 0)).im⟩ : ℂ) = toC (inp (io + 0)) := rfl
  have c3_1 : (⟨(inp (io + 1)).re, (inp (io + 1)).im⟩ : ℂ) = toC (inp (io + 1)) := rfl
  have c3_2 : (⟨(inp (io + 2)).re, (inp (io + 2)).im⟩ : ℂ) = toC (inp (io + 2)) := rfl
  have c3_3 : (⟨(inp (io + 3)).re, (inp (io + 3)).im⟩ : ℂ) = toC (inp (io + 3)) := rfl
  have c3_4 : (⟨(inp (io + 4)).re, (inp (io + 4)).im⟩ : ℂ) = toC (inp (io + 4)) := rfl
  have c3_5 : (⟨(inp (io + 5)).re, (inp (io + 5)).im⟩ : ℂ) = toC (inp (io + 5)) := rfl
  have c3_6 : (⟨(inp (io + 6)).re, (inp (io + 6)).im⟩ : ℂ) = toC (inp (io + 6)) := rfl
  have c3_7 : (⟨(inp (io + 7)).re, (inp (io + 7)).im⟩ : ℂ) = toC (inp (io + 7)) := rfl
  have c2_0 := (fft_base_8_bfly1 z hz.h8).1 c3_0 c3_4
  have c2_1 := (fft_base_8_bfly1 z hz.h8).2.1 c3_1 c3_5
  have c2_2 := (fft_base_8_bfly1 z hz.h8).2.2.1 c3_2 c3_6
  have c2_3 := (fft_base_8_bfly1 z hz.h8).2.2.2.1 c3_3 c3_7
  have c2_4 := (fft_base_8_bfly1 z hz.h8).2.2.2.2.1 c3_0 c3_4
  have c2_5 := (fft_base_8_bfly1 z hz.h8).2.2.2.2.2.1 c3_1 c3_5
  have c2_6 := (fft_base_8_bfly1 z hz.h8).2.2.2.2.2.2.1 c3_2 c3_6
  have c2_7 := (fft_base_8_bfly1 z hz.h8).2.2.2.2.2.2.2 c3_3 c3_7
  have c1_0 := (fft_base_8_bfly2 z hz.h8).1 c2_0 c2_2
  have c1_1 := (fft_base_8_bfly2 z hz.h8).2.1 c2_1 c2_3
  have c1_2 := (fft_base_8_bfly2 z hz.h8).2.2.1 c2_4 c2_6
  have c1_3 := (fft_base_8_bfly2 z hz.h8).2.2.2.1 c2_5 c2_7
  have c1_4 := (fft_base_8_bfly2 z hz.h8).2.2.2.2.1 c2_0 c2_2
  have c1_5 := (fft_base_8_bfly2 z hz.h8).2.2.2.2.2.1 c2_1 c2_3
  have c1_6 := (fft_base_8_bfly2 z hz.h8).2.2.2.2.2.2.1 c2_4 c2_6
  have c1_7 := (fft_base_8_bfly2 z hz.h8).2.2.2.2.2.2.2 c2_5 c2_7
  have o0 := (fft_base_8_bfly3 K z hz).1 c1_0 c1_1
  have o1 := (fft_base_8_bfly3 K z hz).2.1 c1_2 c1_3
  have o2 := (fft_base_8_bfly3 K z hz).2.2.1 c1_4 c1_5
  have o3 := (fft_base_8_bfly3 K z hz).2.2.2.1 c1_6 c1_7
  have o4 := (fft_base_8_bfly3 K z hz).2.2.2.2.1 c1_0 c1_1
  have o5 := (fft_base_8_bfly3 K z hz).2.2.2.2.2.1 c1_2 c1_3
  have o6 := (fft_base_8_bfly3 K z hz).2.2.2.2.2.2.1 c1_4 c1_5
  have o7 := (fft_base_8_bfly3 K z hz).2.2.2.2.2.2.2 c1_6 c1_7
  generalize hF : fft_base_8 K inp io out oo = F
  unfold fft_base_8 at hF
  subst hF
  interval_cases k
  all_goals simp (disch := omega) only [↓set_pair_ne, ↓set_pair_same, toC_mk, dft,
    Finset.sum_range_succ, Finset.sum_range_zero, zero_add, zpow_red z h32, Nat.reduceMul,
    Nat.reduceMod]
  · exact o0
  · exact o1
  · exact o2
  · exact o3
  · exact o4
  · exact o5
  · exact o6
  · exact o7

set_option maxHeartbeats 4000000 in
/-- The butterflies of `fft_twiddle_2` that compute output 0, output 1. -/
theorem fft_twiddle_2_bfly1 (z : ℂ) (h8 : z ^ 8 = ⟨0, -1⟩) :
    (∀ {x0 x1 : ℂ} {r1_0 i1_0 r1_1 i1_1 : ℝ},
      (⟨r1_0, i1_0⟩ : ℂ) = x0 →
      (⟨r1_1, i1_1⟩ : ℂ) = x1 →
      (⟨r1_0 + r1_1, i1_0 + i1_1⟩ : ℂ) =
        x0 * z ^ (0 : ℕ) + x1 * z ^ (0 : ℕ)) ∧
    (∀ {x0 x1 : ℂ} {r1_0 i1_0 r1_1 i1_1 : ℝ},
      (⟨r1_0, i1_0⟩ : ℂ) = x0 →
      (⟨r1_1, i1_1⟩ : ℂ) = x1 →
      (⟨r1_0 - r1_1, i1_0 - i1_1⟩ : ℂ) =
        x0 * z ^ (0 : ℕ) + x1 * z ^ (16 : ℕ)) := by
  refine ⟨?_, ?_⟩
  · intro x0 x1 r1_0 i1_0 r1_1 i1_1 hp hq
    refine (bfly r1_0 i1_0 r1_1 i1_1 _ _ _ _
      (z ^ (0 : ℕ)) (zq0 z) (by ring) (by ring)).trans ?_
    rw [hp, hq]
    ring
  · intro x0 x1 r1_0 i1_0 r1_1 i1_1 hp hq
    refine (bfly r1_0 i1_0 r1_1 i1_1 _ _ _ _
      (z ^ (16 : ℕ)) (zq16 z h8) (by ring) (by ring)).trans ?_
    rw [hp, hq]
    ring

set_option linter.unusedVariables false in
set_option maxRecDepth 100000 in
set_option maxHeartbeats 4000000 in
/-- The body of the loop of `fft_twiddle_2` computes the 2-point transform, with respect to the root
`z ^ 16`, of the 2 inputs `in[i + j * m]` multiplied by `W[j * l1]`. -/
theorem fft_twiddle_2_net (z : ℂ) (h8 : z ^ 8 = ⟨0, -1⟩) (W : Buf ℝ) (m : Nat) (hm : 1 ≤ m)
    (inp : Buf ℝ) (io i l1 kp : Nat) (out : Buf ℝ)
    (hW0 : toC (W 0) = 1) (k : Nat) (hk : k < 2) :
    toC (fft_twiddle_2_body W m inp io i l1 kp out (kp + k * m)) =
      dft (z ^ (16 : ℕ)) 2 (fun c => toC (W (c * l1)) * toC (inp (io + i + c * m))) k := by
  have h32 := zq32 z h8
  have c1_0 : (⟨(inp (io + i + 0 * m)).re, (inp (io + i + 0 * m)).im⟩ : ℂ) =
      toC (W (0 * l1)) * toC (inp (io + i + 0 * m)) := by
    rw [show 0 * l1 = 0 from Nat.zero_mul l1, hW0, one_mul]
    rfl
  have c1_1 : (⟨((W (1 * l1)).re * (inp (io + i + 1 * m)).re) - ((W (1 * l1)).im * (inp (io + i + 1 * m)).im),
      ((W (1 * l1)).im * (inp (io + i + 1 * m)).re) + ((W (1 * l1)).re * (inp (io + i + 1 * m)).im)⟩ : ℂ) =
      toC (W (1 * l1)) * toC (inp (io + i + 1 * m)) := twid _ _ _ _
  have o0 := (fft_twiddle_2_bfly1 z h8).1 c1_0 c1_1
  have o1 := (fft_twiddle_2_bfly1 z h8).2 c1_0 c1_1
  generalize hF : fft_twiddle_2_body W m inp io i l1 kp out = F
  unfold fft_twiddle_2_body at hF
  subst hF
  interval_cases k
  all_goals simp (disch := omega) only [↓set_pair_ne, ↓set_pair_same, toC_mk, dft,
    Finset.sum_range_succ, Finset.sum_range_zero, zero_add, zpow_red z h32, Nat.reduceMul,
    Nat.reduceMod]
  · exact o0
  · exact o1

/-- The body of the loop of `fft_twiddle_2` writes only the 2 cells of its outputs. -/
theorem fft_twiddle_2_frame (W : Buf ℝ) (m : Nat)
    (inp : Buf ℝ) (io i l1 kp : Nat) (out : Buf ℝ) (p : Nat)
    (hp : ∀ k, k < 2 → p ≠ kp + k * m) :
    fft_twiddle_2_body W m inp io i l1 kp out p = out p := by
  have hp0 := hp 0 (by decide)
  have hp1 := hp 1 (by decide)
  unfold fft_twiddle_2_body
  simp (disch := assumption) only [↓set_pair_ne]

set_option maxHeartbeats 4000000 in
/-- The butterflies of `fft_twiddle_4` that compute `r1_0`, `i1_0`, `r1_1`, `i1_1`, `r1_2`,
`i1_2`, `r1_3`, `i1_3`. -/
theorem fft_twiddle_4_bfly1 (z : ℂ) (h8 : z ^ 8 = ⟨0, -1⟩) :
    (∀ {x0 x2 : ℂ} {r2_0 i2_0 r2_2 i2_2 : ℝ},
      (⟨r2_0, i2_0⟩ : ℂ) = x0 →
      (⟨r2_2, i2_2⟩ : ℂ) = x2 →
      (⟨r2_0 + r2_2, i2_0 + i2_2⟩ : ℂ) =
        x0 * z ^ (0 : ℕ) + x2 * z ^ (0 : ℕ)) ∧
    (∀ {x1 x3 : ℂ} {r2_1 i2_1 r2_3 i2_3 : ℝ},
      (⟨r2_1, i2_1⟩ : ℂ) = x1 →
      (⟨r2_3, i2_3⟩ : ℂ) = x3 →
      (⟨r2_1 + r2_3, i2_1 + i2_3⟩ : ℂ) =
        x1 * z ^ (0 : ℕ) + x3 * z ^ (0 : ℕ)) ∧
    (∀ {x0 x2 : ℂ} {r2_0 i2_0 r2_2 i2_2 : ℝ},
      (⟨r2_0, i2_0⟩ : ℂ) = x0 →
      (⟨r2_2, i2_2⟩ : ℂ) = x2 →
      (⟨r2_0 - r2_2, i2_0 - i2_2⟩ : ℂ) =
        x0 * z ^ (0 : ℕ) + x2 * z ^ (16 : ℕ)) ∧
    (∀ {x1 x3 : ℂ} {r2_1 i2_1 r2_3 i2_3 : ℝ},
      (⟨r2_1, i2_1⟩ : ℂ) = x1 →
      (⟨r2_3, i2_3⟩ : ℂ) = x3 →
      (⟨r2_1 - r2_3, i2_1 - i2_3⟩ : ℂ) =
        x1 * z ^ (0 : ℕ) + x3 * z ^ (16 : ℕ)) := by
  refine ⟨?_, ?_, ?_, ?_⟩
  · intro x0 x2 r2_0 i2_0 r2_2 i2_2 hp hq
    refine (bfly r2_0 i2_0 r2_2 i2_2 _ _ _ _
      (z ^ (0 : ℕ)) (zq0 z) (by ring) (by ring)).trans ?_
    rw [hp, hq]
    ring
  · intro x1 x3 r2_1 i2_1 r2_3 i2_3 hp hq
    refine (bfly r2_1 i2_1 r2_3 i2_3 _ _ _ _
      (z ^ (0 : ℕ)) (zq0 z) (by ring) (by ring)).trans ?_
    rw [hp, hq]
    ring
  · intro x0 x2 r2_0 i2_0 r2_2 i2_2 hp hq
    refine (bfly r2_0 i2_0 r2_2 i2_2 _ _ _ _
      (z ^ (16 : ℕ)) (zq16 z h8) (by ring) (by ring)).trans ?_
    rw [hp, hq]
    ring
  · intro x1 x3 r2_1 i2_1 r2_3 i2_3 hp hq
    refine (bfly r2_1 i2_1 r2_3 i2_3 _ _ _ _
      (z ^ (16 : ℕ)) (zq16 z h8) (by ring) (by ring)).trans ?_
    rw [hp, hq]
    ring

set_option maxHeartbeats 4000000 in
/-- The butterflies of `fft_twiddle_4` that compute output 0, output 1, output 2, output 3. -/
theorem fft_twiddle_4_bfly2 (z : ℂ) (h8 : z ^ 8 = ⟨0, -1⟩) :
    (∀ {x0 x1 x2 x3 : ℂ} {r1_0 i1_0 r1_1 i1_1 : ℝ},
      (⟨r1_0, i1_0⟩ : ℂ) = x0 * z ^ (0 : ℕ) + x2 * z ^ (0 : ℕ) →
      (⟨r1_1, i1_1⟩ : ℂ) = x1 * z ^ (0 : ℕ) + x3 * z ^ (0 : ℕ) →
      (⟨r1_0 + r1_1, i1_0 + i1_1⟩ : ℂ) =
        x0 * z ^ (0 : ℕ) + x1 * z ^ (0 : ℕ) + x2 * z ^ (0 : ℕ) + x3 * z ^ (0 : ℕ)) ∧
    (∀ {x0 x1 x2 x3 : ℂ} {r1_2 i1_2 r1_3 i1_3 : ℝ},
      (⟨r1_2, i1_2⟩ : ℂ) = x0 * z ^ (0 : ℕ) + x2 * z ^ (16 : ℕ) →
      (⟨r1_3, i1_3⟩ : ℂ) = x1 * z ^ (0 : ℕ) + x3 * z ^ (16 : ℕ) →
      (⟨r1_2 + i1_3, i1_2 - r1_3⟩ : ℂ) =
        x0 * z ^ (0 : ℕ) + x1 * z ^ (8 : ℕ) + x2 * z ^ (16 : ℕ) + x3 * z ^ (24 : ℕ)) ∧
    (∀ {x0 x1 x2 x3 : ℂ} {r1_0 i1_0 r1_1 i1_1 : ℝ},
      (⟨r1_0, i1_0⟩ : ℂ) = x0 * z ^ (0 : ℕ) + x2 * z ^ (0 : ℕ) →
      (⟨r1_1, i1_1⟩ : ℂ) = x1 * z ^ (0 : ℕ) + x3 * z ^ (0 : ℕ) →
      (⟨r1_0 - r1_1, i1_0 - i1_1⟩ : ℂ) =
        x0 * z ^ (0 : ℕ) + x1 * z ^ (16 : ℕ) + x2 * z ^ (0 : ℕ) + x3 * z ^ (16 : ℕ)) ∧
    (∀ {x0 x1 x2 x3 : ℂ} {r1_2 i1_2 r1_3 i1_3 : ℝ},
      (⟨r1_2, i1_2⟩ : ℂ) = x0 * z ^ (0 : ℕ) + x2 * z ^ (16 : ℕ) →
      (⟨r1_3, i1_3⟩ : ℂ) = x1 * z ^ (0 : ℕ) + x3 * z ^ (16 : ℕ) →
      (⟨r1_2 - i1_3, i1_2 + r1_3⟩ : ℂ) =
        x0 * z ^ (0 : ℕ) + x1 * z ^ (24 : ℕ) + x2 * z ^ (16 : ℕ) + x3 * z ^ (8 : ℕ)) := by
  refine ⟨?_, ?_, ?_, ?_⟩
  · intro x0 x1 x2 x3 r1_0 i1_0 r1_1 i1_1 hp hq
    refine (bfly r1_0 i1_0 r1_1 i1_1 _ _ _ _
      (z ^ (0 : ℕ)) (zq0 z) (by ring) (by ring)).trans ?_
    rw [hp, hq]
    ring
  · intro x0 x1 x2 x3 r1_2 i1_2 r1_3 i1_3 hp hq
    refine (bfly r1_2 i1_2 r1_3 i1_3 _ _ _ _
      (z ^ (8 : ℕ)) h8 (by ring) (by ring)).trans ?_
    rw [hp, hq]
    ring
  · intro x0 x1 x2 x3 r1_0 i1_0 r1_1 i1_1 hp hq
    refine (bfly r1_0 i1_0 r1_1 i1_1 _ _ _ _
      (z ^ (16 : ℕ)) (zq16 z h8) (by ring) (by ring)).trans ?_
    rw [hp, hq]
    ring
  · intro x0 x1 x2 x3 r1_2 i1_2 r1_3 i1_3 hp hq
    refine (bfly r1_2 i1_2 r1_3 i1_3 _ _ _ _
      (z ^ (24 : ℕ)) (zq24 z h8) (by ring) (by ring)).trans ?_
    rw [hp, hq]
    linear_combination (x3 * z ^ (8 : ℕ)) * zq32 z h8

set_option linter.unusedVariables false in
set_option maxRecDepth 100000 in
set_option maxHeartbeats 4000000 in
/-- The body of the loop of `fft_twiddle_4` computes the 4-point transform, with respect to the root
`z ^ 8`, of the 4 inputs `in[i + j * m]` multiplied by `W[j * l1]`. -/
theorem fft_twiddle_4_net (z : ℂ) (h8 : z ^ 8 = ⟨0, -1⟩) (W : Buf ℝ) (m : Nat) (hm : 1 ≤ m)
    (inp : Buf ℝ) (io i l1 kp : Nat) (out : Buf ℝ)
    (hW0 : toC (W 0) = 1) (k : Nat) (hk : k < 4) :
    toC (fft_twiddle_4_body W m inp io i l1 kp out (kp + k * m)) =
      dft (z ^ (8 : ℕ)) 4 (fun c => toC (W (c * l1)) * toC (inp (io + i + c * m))) k := by
  have h32 := zq32 z h8
  have c2_0 : (⟨(inp (io + i + 0 * m)).re, (inp (io + i + 0 * m)).im⟩ : ℂ) =
      toC (W (0 * l1)) * toC (inp (io + i + 0 * m)) := by
    rw [show 0 * l1 = 0 from Nat.zero_mul l1, hW0, one_mul]
    rfl
  have c2_1 : (⟨((W (1 * l1)).re * (inp (io + i + 1 * m)).re) - ((W (1 * l1)).im * (inp (io + i + 1 * m)).im),
      ((W (1 * l1)).im * (inp (io + i + 1 * m)).re) + ((W (1 * l1)).re * (inp (io + i + 1 * m)).im)⟩ : ℂ) =
      toC (W (1 * l1)) * toC (inp (io + i + 1 * m)) := twid _ _ _ _
  have c2_2 : (⟨((W (2 * l1)).re * (inp (io + i + 2 * m)).re) - ((W (2 * l1)).im * (inp (io + i + 2 * m)).im),
      ((W (2 * l1)).im * (inp (io + i + 2 * m)).re) + ((W (2 * l1)).re * (inp (io + i + 2 * m)).im)⟩ : ℂ) =
      toC (W (2 * l1)) * toC (inp (io + i + 2 * m)) := twid _ _ _ _
  have c2_3 : (⟨((W (3 * l1)).re * (inp (io + i + 3 * m)).re) - ((W (3 * l1)).im * (inp (io + i + 3 * m)).im),
      ((W (3 * l1)).im * (inp (io + i + 3 * m)).re) + ((W (3 * l1)).re * (inp (io + i + 3 * m)).im)⟩ : ℂ) =
      toC (W (3 * l1)) * toC (inp (io + i + 3 * m)) := twid _ _ _ _
  have c1_0 := (fft_twiddle_4_bfly1 z h8).1 c2_0 c2_2
  have c1_1 := (fft_twiddle_4_bfly1 z h8).2.1 c2_1 c2_3
  have c1_2 := (fft_twiddle_4_bfly1 z h8).2.2.1 c2_0 c2_2
  have c1_3 := (fft_twiddle_4_bfly1 z h8).2.2.2 c2_1 c2_3
  have o0 := (fft_twiddle_4_bfly2 z h8).1 c1_0 c1_1
  have o1 := (fft_twiddle_4_bfly2 z h8).2.1 c1_2 c1_3
  have o2 := (fft_twiddle_4_bfly2 z h8).2.2.1 c1_0 c1_1
  have o3 := (fft_twiddle_4_bfly2 z h8).2.2.2 c1_2 c1_3
  generalize hF : fft_twiddle_4_body W m inp io i l1 kp out = F
  unfold fft_twiddle_4_body at hF
  subst hF
  interval_cases k
  all_goals simp (disch := omega) only [↓set_pair_ne, ↓set_pair_same, toC_mk, dft,
    Finset.sum_range_succ, Finset.sum_range_zero, zero_add, zpow_red z h32, Nat.reduceMul,
    Nat.reduceMod]
  · exact o0
  · exact o1
  · exact o2
  · exact o3

/-- The body of the loop of `fft_twiddle_4` writes only the 4 cells of its outputs. -/
theorem fft_twiddle_4_frame (W : Buf ℝ) (m : Nat)
    (inp : Buf ℝ) (io i l1 kp : Nat) (out : Buf ℝ) (p : Nat)
    (hp : ∀ k, k < 4 → p ≠ kp + k * m) :
    fft_twiddle_4_body W m inp io i l1 kp out p = out p := by
  have hp0 := hp 0 (by decide)
  have hp1 := hp 1 (by decide)
  have hp2 := hp 2 (by decide)
  have hp3 := hp 3 (by decide)
  unfold fft_twiddle_4_body
  simp (disch := assumption) only [↓set_pair_ne]

/-- A loop whose state carries two counters `f i`, `g i` next to the data. -/
theorem forUp_state2 {τ : Type} (a b : Nat) (hab : a ≤ b) (f g : Nat → Nat)
    (body : Nat → Nat × Nat × τ → Nat × Nat × τ) (B : Nat → τ → τ)
    (h : ∀ i t, body i (f i, g i, t) = (f (i + 1), g (i + 1), B i t)) (t0 : τ) :
    forUp a b body (f a, g a, t0) = (f b, g b, forUp a b B t0) := by
  refine forUp_induction (fun i st => st = (f i, g i, forUp a i B t0)) a b body _ hab ?_ ?_
  · beta_reduce
    rw [forUp_empty _ _ _ _ (le_refl _)]
  · intro i s h1 _ hs
    beta_reduce
    rw [hs, h, forUp_succ _ _ _ _ h1]

/-- A loop whose state carries one counter `f i` next to the data. -/
theorem forUp_state1 {τ : Type} (a b : Nat) (hab : a ≤ b) (f : Nat → Nat)
    (body : Nat → Nat × τ → Nat × τ) (B : Nat → τ → τ)
    (h : ∀ i t, body i (f i, t) = (f (i + 1), B i t)) (t0 : τ) :
    forUp a b body (f a, t0) = (f b, forUp a b B t0) := by
  refine forUp_induction (fun i st => st = (f i, forUp a i B t0)) a b body _ hab ?_ ?_
  · beta_reduce
    rw [forUp_empty _ _ _ _ (le_refl _)]
  · intro i s h1 _ hs
    beta_reduce
    rw [hs, h, forUp_succ _ _ _ _ h1]

theorem row_cell_ne (m i j c d : Nat) (hi : i < m) (hj : j < m) (hij : i ≠ j) (oo : Nat) :
    oo + i + c * m ≠ oo + j + d * m := by
  intro h
  have h1 : (i + c * m) % m = (j + d * m) % m := by
    congr 1
    omega
  rw [Nat.add_mul_mod_self_right, Nat.add_mul_mod_self_right, Nat.mod_eq_of_lt hi,
    Nat.mod_eq_of_lt hj] at h1
  exact hij h1

theorem row_cell_lt (m r i c : Nat) (hi : i < m) (hc : c < r) : i + c * m < r * m := by
  have h1 : (c + 1) * m ≤ r * m := Nat.mul_le_mul_right m hc
  rw [Nat.succ_mul] at h1
  omega

/-- A loop over the rows `i` in `[a, b)`, `b ≤ m`, whose body at `i` writes the cells
`oo + i + c * m`, `c < r`, with values satisfying `Q i c`, and no other cell. -/
theorem rows_loop {R : Type} (m r oo a b : Nat) (hab : a ≤ b) (hb : b ≤ m) (B : Nat → Buf R → Buf R)
    (Q : Nat → Nat → COMPLEX R → Prop)
    (hval : ∀ i out c, a ≤ i → i < b → c < r → Q i c (B i out (oo + i + c * m)))
    (hframe : ∀ i out p, a ≤ i → i < b → (∀ c, c < r → p ≠ oo + i + c * m) → B i out p = out p)
    (out : Buf R) :
    (∀ i c, a ≤ i → i < b → c < r → Q i c (forUp a b B out (oo + i + c * m))) ∧
    (∀ p, (∀ i c, a ≤ i → i < b → c < r → p ≠ oo + i + c * m) → forUp a b B out p = out p) := by
  induction b with
  | zero =>
    refine ⟨fun i c _ h => absurd h (Nat.not_lt_zero i), fun p _ => ?_⟩
    rw [forUp_empty _ _ _ _ (Nat.zero_le a)]
  | succ b ih =>
    by_cases hab1 : a = b + 1
    · subst hab1
      refine ⟨fun i c h1 h2 => absurd h2 (by omega), fun p _ => ?_⟩
      rw [forUp_empty _ _ _ _ (le_refl _)]
    · have hab2 : a ≤ b := by omega
      obtain ⟨ih1, ih2⟩ := ih hab2 (by omega)
        (fun i out c h1 h2 h3 => hval i out c h1 (by omega) h3)
        (fun i out p h1 h2 h3 => hframe i out p h1 (by omega) h3)
      rw [forUp_succ _ _ _ _ hab2]
      constructor
      · intro i c h1 h2 h3
        by_cases hib : i = b
        · subst hib
          exact hval i _ c h1 h2 h3
        · rw [hframe b _ _ hab2 (by omega)
            (fun d _ => row_cell_ne m i b c d (by omega) (by omega) hib oo)]
          exact ih1 i c h1 (by omega) h3
      · intro p hp
        rw [hframe b _ p hab2 (by omega) (fun c hc => hp b c hab2 (by omega) hc)]
        exact ih2 p (fun i c h1 h2 h3 => hp i c h1 (by omega) h3)

/-- The value computed by a specialised twiddle kernel, in terms of the root `ω` of the table. -/
theorem tw_value (ω w : ℂ) (W : Buf ℝ) (nW nWdn r m : Nat) (hnW : nWdn * (r * m) = nW)
    (hW : ∀ t, t ≤ nW → toC (W t) = ω ^ t) (hw : w = ω ^ (nWdn * m))
    (x : Nat → ℂ) (i k : Nat) (hi : i < m) :
    dft w r (fun c => toC (W (c * (nWdn * i))) * x c) k =
      ∑ c in Finset.range r, x c * ω ^ (nWdn * (c * (i + k * m))) := by
  unfold dft
  refine Finset.sum_congr rfl (fun c hc => ?_)
  have hc1 : c < r := Finset.mem_range.mp hc
  have hle : c * (nWdn * i) ≤ nW := by
    rw [← hnW]
    calc c * (nWdn * i) = nWdn * (c * i) := by ring
      _ ≤ nWdn * (r * m) := Nat.mul_le_mul_left _ (Nat.mul_le_mul (by omega) (by omega))
  beta_reduce
  rw [hW _ hle, hw, ← pow_mul]
  have e : nWdn * (c * (i + k * m)) = c * (nWdn * i) + nWdn * m * (c * k) := by ring
  rw [e, pow_add]
  ring

theorem fft_twiddle_2_eq_loop (a b : Nat) (hab : a ≤ b) (inp : Buf ℝ) (io : Nat)
    (out : Buf ℝ) (oo : Nat) (W : Buf ℝ) (nW nWdn m : Nat) :
    fft_twiddle_2 a b inp io out oo W nW nWdn m =
      forUp a b (fun i out => fft_twiddle_2_body W m inp io i (nWdn * i) (oo + i) out) out := by
  obtain ⟨d, hd⟩ : ∃ d, d = b - a := ⟨_, rfl⟩
  induction d using Nat.strong_induction_on generalizing a b out with
  | _ d ih =>
    rw [fft_twiddle_2]
    split_ifs with h
    · rw [forUp_state2 a b hab (fun i => nWdn * i) (fun i => oo + i) _
        (fun i out => fft_twiddle_2_body W m inp io i (nWdn * i) (oo + i) out)
        (fun i t => rfl) out]
    · simp only
      rw [ih _ (by omega) a ((a + b) / 2) (by omega) out rfl,
        ih _ (by omega) ((a + b) / 2) b (by omega) _ rfl]
      exact (forUp_split a ((a + b) / 2) b _ out (by omega) (by omega)).symm

/-- The twiddle stage `fft_twiddle_2(0, m, in, out, W, nW, nWdn, m)` with the exact table
`W[t] = ω ^ t` and `z ^ 16 = ω ^ (nWdn * m)`. -/
theorem fft_twiddle_2_spec (z : ℂ) (h8 : z ^ 8 = ⟨0, -1⟩) (ω : ℂ) (W : Buf ℝ) (nW nWdn m : Nat)
    (hm : 1 ≤ m) (hnW : nWdn * (2 * m) = nW) (hW : ∀ t, t ≤ nW → toC (W t) = ω ^ t)
    (hw : z ^ (16 : ℕ) = ω ^ (nWdn * m)) (inp : Buf ℝ) (io : Nat) (out : Buf ℝ) (oo : Nat) :
    TwSpec ω nWdn 2 m inp io out oo (fft_twiddle_2 0 m inp io out oo W nW nWdn m) := by
  rw [fft_twiddle_2_eq_loop 0 m (Nat.zero_le m)]
  have hW0 : toC (W 0) = 1 := by rw [hW 0 (Nat.zero_le _), pow_zero]
  obtain ⟨h1, h2⟩ := rows_loop m 2 oo 0 m (Nat.zero_le m) (le_refl m)
    (fun i out => fft_twiddle_2_body W m inp io i (nWdn * i) (oo + i) out)
    (fun i k v => toC v =
      ∑ c in Finset.range 2, toC (inp (io + i + c * m)) * ω ^ (nWdn * (c * (i + k * m))))
    (fun i out k _ hi hk => by
      beta_reduce
      rw [fft_twiddle_2_net z h8 W m hm inp io i (nWdn * i) (oo + i) out hW0 k hk]
      exact tw_value ω _ W nW nWdn 2 m hnW hW hw (fun c => toC (inp (io + i + c * m))) i k hi)
    (fun i out p _ _ hp => fft_twiddle_2_frame W m inp io i (nWdn * i) (oo + i) out p hp)
    out
  refine ⟨fun i k hi hk => h1 i k (Nat.zero_le i) hi hk, fun p hp => h2 p ?_⟩
  intro i c _ hi hc
  have := row_cell_lt m 2 i c hi hc
  omega

theorem fft_twiddle_4_eq_loop (a b : Nat) (hab : a ≤ b) (inp : Buf ℝ) (io : Nat)
    (out : Buf ℝ) (oo : Nat) (W : Buf ℝ) (nW nWdn m : Nat) :
    fft_twiddle_4 a b inp io out oo W nW nWdn m =
      forUp a b (fun i out => fft_twiddle_4_body W m inp io i (nWdn * i) (oo + i) out) out := by
  obtain ⟨d, hd⟩ : ∃ d, d = b - a := ⟨_, rfl⟩
  induction d using Nat.strong_induction_on generalizing a b out with
  | _ d ih =>
    rw [fft_twiddle_4]
    split_ifs with h
    · rw [forUp_state2 a b hab (fun i => nWdn * i) (fun i => oo + i) _
        (fun i out => fft_twiddle_4_body W m inp io i (nWdn * i) (oo + i) out)
        (fun i t => rfl) out]
    · simp only
      rw [ih _ (by omega) a ((a + b) / 2) (by omega) out rfl,
        ih _ (by omega) ((a + b) / 2) b (by omega) _ rfl]
      exact (forUp_split a ((a + b) / 2) b _ out (by omega) (by omega)).symm

/-- The twiddle stage `fft_twiddle_4(0, m, in, out, W, nW, nWdn, m)` with the exact table
`W[t] = ω ^ t` and `z ^ 8 = ω ^ (nWdn * m)`. -/
theorem fft_twiddle_4_spec (z : ℂ) (h8 : z ^ 8 = ⟨0, -1⟩) (ω : ℂ) (W : Buf ℝ) (nW nWdn m : Nat)
    (hm : 1 ≤ m) (hnW : nWdn * (4 * m) = nW) (hW : ∀ t, t ≤ nW → toC (W t) = ω ^ t)
    (hw : z ^ (8 : ℕ) = ω ^ (nWdn * m)) (inp : Buf ℝ) (io : Nat) (out : Buf ℝ) (oo : Nat) :
    TwSpec ω nWdn 4 m inp io out oo (fft_twiddle_4 0 m inp io out oo W nW nWdn m) := by
  rw [fft_twiddle_4_eq_loop 0 m (Nat.zero_le m)]
  have hW0 : toC (W 0) = 1 := by rw [hW 0 (Nat.zero_le _), pow_zero]
  obtain ⟨h1, h2⟩ := rows_loop m 4 oo 0 m (Nat.zero_le m) (le_refl m)
    (fun i out => fft_twiddle_4_body W m inp io i (nWdn * i) (oo + i) out)
    (fun i k v => toC v =
      ∑ c in Finset.range 4, toC (inp (io + i + c * m)) * ω ^ (nWdn * (c * (i + k * m))))
    (fun i out k _ hi hk => by
      beta_reduce
      rw [fft_twiddle_4_net z h8 W m hm inp io i (nWdn * i) (oo + i) out hW0 k hk]
      exact tw_value ω _ W nW nWdn 4 m hnW hW hw (fun c => toC (inp (io + i + c * m))) i k hi)
    (fun i out p _ _ hp => fft_twiddle_4_frame W m inp io i (nWdn * i) (oo + i) out p hp)
    out
  refine ⟨fun i k hi hk => h1 i k (Nat.zero_le i) hi hk, fun p hp => h2 p ?_⟩
  intro i c _ hi hc
  have := row_cell_lt m 4 i c hi hc
  omega

/-- A loop over `k < b` whose body at `k` writes the cell `g k` with a value satisfying `Q k`,
and no other cell; the cells are pairwise distinct. -/
theorem cells_loop {R : Type} (b : Nat) (g : Nat → Nat)
    (hg : ∀ j k, j < b → k < b → g j = g k → j = k) (B : Nat → Buf R → Buf R)
    (Q : Nat → COMPLEX R → Prop)
    (hval : ∀ k out, k < b → Q k (B k out (g k)))
    (hframe : ∀ k out p, k < b → p ≠ g k → B k out p = out p) (out : Buf R) :
    (∀ k, k < b → Q k (forUp 0 b B out (g k))) ∧
    (∀ p, (∀ k, k < b → p ≠ g k) → forUp 0 b B out p = out p) := by
  induction b with
  | zero =>
    refine ⟨fun k h => absurd h (Nat.not_lt_zero k), fun p _ => ?_⟩
    rw [forUp_empty _ _ _ _ (le_refl _)]
  | succ b ih =>
    obtain ⟨ih1, ih2⟩ := ih (fun j k hj hk => hg j k (by omega) (by omega))
      (fun k out hk => hval k out (by omega)) (fun k out p hk => hframe k out p (by omega))
    rw [forUp_succ _ _ _ _ (Nat.zero_le b)]
    constructor
    · intro k hk
      by_cases hkb : k = b
      · subst hkb
        exact hval k _ hk
      · rw [hframe b _ _ (by omega) (fun h => hkb (hg k b hk (by omega) h))]
        exact ih1 k (by omega)
    · intro p hp
      rw [hframe b _ p (by omega) (hp b (by omega))]
      exact ih2 p (fun k hk => hp k (by omega))

theorem fft_twiddle_gen1_eq (inp : Buf ℝ) (io : Nat) (out : Buf ℝ) (oo : Nat) (W : Buf ℝ)
    (r m nW a b : Nat) :
    fft_twiddle_gen1 inp io out oo W r m nW a b =
      (forUp 0 r (fun k (st : Nat × Buf ℝ) =>
        (st.1 + m, setIm (setRe st.2 st.1 (gen1_acc W nW inp io m (a + b * k) r).2.2.1) st.1
          (gen1_acc W nW inp io m (a + b * k) r).2.2.2)) (oo, out)).2 := rfl

/-- The inner loop of `fft_twiddle_gen1`: after `r` rounds the accumulator holds the sum of
the `r` products; the running index `l0` stays at most `nW` and stands for `j * l1`. -/
theorem gen1_inner (ω : ℂ) (W : Buf ℝ) (nW : Nat) (hW : ∀ t, t ≤ nW → toC (W t) = ω ^ t)
    (h1 : ω ^ nW = 1) (inp : Buf ℝ) (io m l1 : Nat) (hl1 : l1 ≤ nW) (r : Nat) :
    (⟨(gen1_acc W nW inp io m l1 r).2.2.1, (gen1_acc W nW inp io m l1 r).2.2.2⟩ : ℂ) =
      ∑ c in Finset.range r, toC (inp (io + c * m)) * ω ^ (c * l1) := by
  unfold gen1_acc
  refine (forUp_induction (fun j (acc : Nat × Nat × ℝ × ℝ) =>
      acc.1 = io + j * m ∧ acc.2.1 ≤ nW ∧ ω ^ acc.2.1 = ω ^ (j * l1) ∧
      (⟨acc.2.2.1, acc.2.2.2⟩ : ℂ) =
        ∑ c in Finset.range j, toC (inp (io + c * m)) * ω ^ (c * l1)) 0 r _ _ (Nat.zero_le r)
      ?_ ?_).2.2.2
  · refine ⟨by simp, Nat.zero_le _, by simp, ?_⟩
    simp
    rfl
  · rintro j ⟨jp, l0, r0, i0⟩ _ _ ⟨e1, e2, e3, e4⟩
    simp only at e1 e2 e3 e4
    subst e1
    refine ⟨by simp only; ring, ?_, ?_, ?_⟩
    · simp only
      split_ifs <;> omega
    · simp only
      rw [Nat.succ_mul, pow_add, ← e3, ← pow_add]
      split_ifs with h
      · have : l0 + l1 = (l0 + l1 - nW) + nW := by omega
        conv_rhs => rw [this, pow_add, h1, mul_one]
      · rfl
    · simp only
      rw [Finset.sum_range_succ, ← e4, ← e3, ← hW l0 e2]
      apply Complex.ext <;> simp [toC]

/-- One call of `fft_twiddle_gen1`: cell `k * m` of `out` receives the sum over `c < r` of
`in[c * m] * ω ^ (c * (a + b * k))`. -/
theorem fft_twiddle_gen1_net (ω : ℂ) (W : Buf ℝ) (nW : Nat)
    (hW : ∀ t, t ≤ nW → toC (W t) = ω ^ t) (h1 : ω ^ nW = 1) (inp : Buf ℝ) (io : Nat)
    (out : Buf ℝ) (oo r m a b : Nat) (hm : 1 ≤ m) (hl : ∀ k, k < r → a + b * k ≤ nW) :
    (∀ k, k < r → toC (fft_twiddle_gen1 inp io out oo W r m nW a b (oo + k * m)) =
      ∑ c in Finset.range r, toC (inp (io + c * m)) * ω ^ (c * (a + b * k))) ∧
    (∀ p, (∀ k, k < r → p ≠ oo + k * m) → fft_twiddle_gen1 inp io out oo W r m nW a b p = out p) := by
  rw [fft_twiddle_gen1_eq]
  have e0 : (oo, out) = ((fun k => oo + k * m) 0, out) := by simp
  rw [e0, forUp_state1 0 r (Nat.zero_le r) (fun k => oo + k * m) _
    (fun k out => setIm (setRe out (oo + k * m) (gen1_acc W nW inp io m (a + b * k) r).2.2.1)
      (oo + k * m) (gen1_acc W nW inp io m (a + b * k) r).2.2.2)
    (fun k t => Prod.ext (by simp only; ring) rfl) out]
  refine cells_loop r (fun k => oo + k * m) ?_ _
    (fun k v => toC v = ∑ c in Finset.range r, toC (inp (io + c * m)) * ω ^ (c * (a + b * k)))
    ?_ ?_ out
  · intro j k _ _ h
    have h2 : j * m = k * m := by
      simp only at h
      omega
    exact Nat.eq_of_mul_eq_mul_right hm h2
  · intro k out hk
    simp only [set_pair_eq]
    exact gen1_inner ω W nW hW h1 inp io m (a + b * k) (hl k hk) r
  · intro k out p _ hp
    exact set_pair_ne _ _ _ _ _ hp

theorem fft_twiddle_gen_eq_loop (i i1 : Nat) (h : i < i1) (inp : Buf ℝ) (io : Nat)
    (out : Buf ℝ) (oo : Nat) (W : Buf ℝ) (nW nWdn r m : Nat) :
    fft_twiddle_gen i i1 inp io out oo W nW nWdn r m =
      some (forUp i i1 (fun i out =>
        fft_twiddle_gen1 inp (io + i) out (oo + i) W r m nW (nWdn * i) (nWdn * m)) out) := by
  obtain ⟨d, hd⟩ : ∃ d, d = i1 - i := ⟨_, rfl⟩
  induction d using Nat.strong_induction_on generalizing i i1 out with
  | _ d ih =>
    rw [fft_twiddle_gen]
    split_ifs with h1 h2
    · subst h1
      rw [forUp_succ _ _ _ _ (le_refl i), forUp_empty _ _ _ _ (le_refl i)]
    · simp only
      rw [ih _ (by omega) i ((i + i1) / 2) (by omega) out rfl]
      simp only
      rw [ih _ (by omega) ((i + i1) / 2) i1 (by omega) _ rfl]
      rw [← forUp_split i ((i + i1) / 2) i1 _ out (by omega) (by omega)]
    · omega

/-- The generic twiddle stage `fft_twiddle_gen(0, m, in, out, W, nW, nWdn, r, m)` with the exact
table `W[t] = ω ^ t`, `ω ^ nW = 1`: it returns, and leaves what every twiddle stage leaves. -/
theorem fft_twiddle_gen_spec (ω : ℂ) (W : Buf ℝ) (nW nWdn r m : Nat) (hm : 1 ≤ m)
    (hnW : nWdn * (r * m) = nW) (hW : ∀ t, t ≤ nW → toC (W t) = ω ^ t) (h1 : ω ^ nW = 1)
    (inp : Buf ℝ) (io : Nat) (out : Buf ℝ) (oo : Nat) :
    ∃ res, fft_twiddle_gen 0 m inp io out oo W nW nWdn r m = some res ∧
      TwSpec ω nWdn r m inp io out oo res := by
  refine ⟨_, fft_twiddle_gen_eq_loop 0 m hm inp io out oo W nW nWdn r m, ?_⟩
  have hl : ∀ i k, i < m → k < r → nWdn * i + nWdn * m * k ≤ nW := by
    intro i k hi hk
    have := row_cell_lt m r i k hi hk
    rw [← hnW]
    calc nWdn * i + nWdn * m * k = nWdn * (i + k * m) := by ring
      _ ≤ nWdn * (r * m) := Nat.mul_le_mul_left _ (by omega)
  obtain ⟨h2, h3⟩ := rows_loop m r oo 0 m (Nat.zero_le m) (le_refl m)
    (fun i out => fft_twiddle_gen1 inp (io + i) out (oo + i) W r m nW (nWdn * i) (nWdn * m))
    (fun i k v => toC v =
      ∑ c in Finset.range r, toC (inp (io + i + c * m)) * ω ^ (nWdn * (c * (i + k * m))))
    (fun i out k _ hi hk => by
      beta_reduce
      rw [(fft_twiddle_gen1_net ω W nW hW h1 inp (io + i) out (oo + i) r m (nWdn * i)
        (nWdn * m) hm (fun k hk => hl i k hi hk)).1 k hk]
      refine Finset.sum_congr rfl (fun c _ => ?_)
      congr 2
      ring)
    (fun i out p _ hi hp =>
      (fft_twiddle_gen1_net ω W nW hW h1 inp (io + i) out (oo + i) r m (nWdn * i)
        (nWdn * m) hm (fun k hk => hl i k hi hk)).2 p hp)
    out
  refine ⟨fun i k hi hk => h2 i k (Nat.zero_le i) hi hk, fun p hp => h3 p ?_⟩
  intro i c _ hi hc
  have := row_cell_lt m r i c hi hc
  omega

theorem store_ne (b : Buf R) (k : Nat) (v : COMPLEX R) (j : Nat) (h : j ≠ k) :
    store b k v j = b j := by
  simp [store, h]

theorem store_eq (b : Buf R) (k : Nat) (v : COMPLEX R) (j : Nat) (h : j = k) :
    store b k v j = v := by
  simp [store, h]

theorem fft_unshuffle_2_body_spec (m : Nat) (hm : 1 ≤ m) (inp : Buf R) (oo i ip : Nat)
    (out : Buf R) :
    (fft_unshuffle_2_body m inp oo i (ip, out)).1 = ip + 2 ∧
    (∀ c, c < 2 → (fft_unshuffle_2_body m inp oo i (ip, out)).2 (oo + i + c * m) = inp (ip + c)) ∧
    (∀ p, (∀ c, c < 2 → p ≠ oo + i + c * m) →
      (fft_unshuffle_2_body m inp oo i (ip, out)).2 p = out p) := by
  refine ⟨rfl, ?_, ?_⟩
  · intro c hc
    unfold fft_unshuffle_2_body
    interval_cases c <;> simp (disch := omega) only [↓store_ne, ↓store_eq]
  · intro p hp
    have hp0 := hp 0 (by decide)
    have hp1 := hp 1 (by decide)
    unfold fft_unshuffle_2_body
    simp (disch := omega) only [↓store_ne]

theorem fft_unshuffle_2_eq_loop (a b : Nat) (hab : a ≤ b) (inp : Buf R) (io : Nat)
    (out : Buf R) (oo m : Nat) :
    fft_unshuffle_2 a b inp io out oo m =
      forUp a b (fun i out => (fft_unshuffle_2_body m inp oo i (io + i * 2, out)).2) out := by
  obtain ⟨d, hd⟩ : ∃ d, d = b - a := ⟨_, rfl⟩
  induction d using Nat.strong_induction_on generalizing a b out with
  | _ d ih =>
    rw [fft_unshuffle_2]
    split_ifs with h
    · simp only
      rw [forUp_state1 a b hab (fun i => io + i * 2) _
        (fun i out => (fft_unshuffle_2_body m inp oo i (io + i * 2, out)).2)
        (fun i t => Prod.ext (by
          show io + i * 2 + 2 = io + (i + 1) * 2
          omega) rfl) out]
    · simp only
      rw [ih _ (by omega) a ((a + b) / 2) (by omega) out rfl,
        ih _ (by omega) ((a + b) / 2) b (by omega) _ rfl]
      exact (forUp_split a ((a + b) / 2) b _ out (by omega) (by omega)).symm

/-- The unshuffle `fft_unshuffle_2(0, m, in, out, m)`. -/
theorem fft_unshuffle_2_spec (m : Nat) (hm : 1 ≤ m) (inp : Buf R) (io : Nat) (out : Buf R)
    (oo : Nat) : UnshSpec 2 m inp io out oo (fft_unshuffle_2 0 m inp io out oo m) := by
  rw [fft_unshuffle_2_eq_loop 0 m (Nat.zero_le m)]
  obtain ⟨h1, h2⟩ := rows_loop m 2 oo 0 m (Nat.zero_le m) (le_refl m)
    (fun i out => (fft_unshuffle_2_body m inp oo i (io + i * 2, out)).2)
    (fun i c v => v = inp (io + i * 2 + c))
    (fun i out c _ _ hc => (fft_unshuffle_2_body_spec m hm inp oo i _ out).2.1 c hc)
    (fun i out p _ _ hp => (fft_unshuffle_2_body_spec m hm inp oo i _ out).2.2 p hp)
    out
  refine ⟨fun t c ht hc => h1 t c (Nat.zero_le t) ht hc, fun p hp => h2 p ?_⟩
  intro i c _ hi hc
  have := row_cell_lt m 2 i c hi hc
  omega

theorem fft_unshuffle_4_body_spec (m : Nat) (hm : 1 ≤ m) (inp : Buf R) (oo i ip : Nat)
    (out : Buf R) :
    (fft_unshuffle_4_body m inp oo i (ip, out)).1 = ip + 4 ∧
    (∀ c, c < 4 → (fft_unshuffle_4_body m inp oo i (ip, out)).2 (oo + i + c * m) = inp (ip + c)) ∧
    (∀ p, (∀ c, c < 4 → p ≠ oo + i + c * m) →
      (fft_unshuffle_4_body m inp oo i (ip, out)).2 p = out p) := by
  refine ⟨rfl, ?_, ?_⟩
  · intro c hc
    unfold fft_unshuffle_4_body
    interval_cases c <;> simp (disch := omega) only [↓store_ne, ↓store_eq]
  · intro p hp
    have hp0 := hp 0 (by decide)
    have hp1 := hp 1 (by decide)
    have hp2 := hp 2 (by decide)
    have hp3 := hp 3 (by decide)
    unfold fft_unshuffle_4_body
    simp (disch := omega) only [↓store_ne]

theorem fft_unshuffle_4_eq_loop (a b : Nat) (hab : a ≤ b) (inp : Buf R) (io : Nat)
    (out : Buf R) (oo m : Nat) :
    fft_unshuffle_4 a b inp io out oo m =
      forUp a b (fun i out => (fft_unshuffle_4_body m inp oo i (io + i * 4, out)).2) out := by
  obtain ⟨d, hd⟩ : ∃ d, d = b - a := ⟨_, rfl⟩
  induction d using Nat.strong_induction_on generalizing a b out with
  | _ d ih =>
    rw [fft_unshuffle_4]
    split_ifs with h
    · simp only
      rw [forUp_state1 a b hab (fun i => io + i * 4) _
        (fun i out => (fft_unshuffle_4_body m inp oo i (io + i * 4, out)).2)
        (fun i t => Prod.ext (by
          show io + i * 4 + 4 = io + (i + 1) * 4
          omega) rfl) out]
    · simp only
      rw [ih _ (by omega) a ((a + b) / 2) (by omega) out rfl,
        ih _ (by omega) ((a + b) / 2) b (by omega) _ rfl]
      exact (forUp_split a ((a + b) / 2) b _ out (by omega) (by omega)).symm

/-- The unshuffle `fft_unshuffle_4(0, m, in, out, m)`. -/
theorem fft_unshuffle_4_spec (m : Nat) (hm : 1 ≤ m) (inp : Buf R) (io : Nat) (out : Buf R)
    (oo : Nat) : UnshSpec 4 m inp io out oo (fft_unshuffle_4 0 m inp io out oo m) := by
  rw [fft_unshuffle_4_eq_loop 0 m (Nat.zero_le m)]
  obtain ⟨h1, h2⟩ := rows_loop m 4 oo 0 m (Nat.zero_le m) (le_refl m)
    (fun i out => (fft_unshuffle_4_body m inp oo i (io + i * 4, out)).2)
    (fun i c v => v = inp (io + i * 4 + c))
    (fun i out c _ _ hc => (fft_unshuffle_4_body_spec m hm inp oo i _ out).2.1 c hc)
    (fun i out p _ _ hp => (fft_unshuffle_4_body_spec m hm inp oo i _ out).2.2 p hp)
    out
  refine ⟨fun t c ht hc => h1 t c (Nat.zero_le t) ht hc, fun p hp => h2 p ?_⟩
  intro i c _ hi hc
  have := row_cell_lt m 4 i c hi hc
  omega

theorem fft_unshuffle_8_body_spec (m : Nat) (hm : 1 ≤ m) (inp : Buf R) (oo i ip : Nat)
    (out : Buf R) :
    (fft_unshuffle_8_body m inp oo i (ip, out)).1 = ip + 8 ∧
    (∀ c, c < 8 → (fft_unshuffle_8_body m inp oo i (ip, out)).2 (oo + i + c * m) = inp (ip + c)) ∧
    (∀ p, (∀ c, c < 8 → p ≠ oo + i + c * m) →
      (fft_unshuffle_8_body m inp oo i (ip, out)).2 p = out p) := by
  refine ⟨rfl, ?_, ?_⟩
  · intro c hc
    unfold fft_unshuffle_8_body
    interval_cases c <;> simp (disch := omega) only [↓store_ne, ↓store_eq]
  · intro p hp
    have hp0 := hp 0 (by decide)
    have hp1 := hp 1 (by decide)
    have hp2 := hp 2 (by decide)
    have hp3 := hp 3 (by decide)
    have hp4 := hp 4 (by decide)
    have hp5 := hp 5 (by decide)
    have hp6 := hp 6 (by decide)
    have hp7 := hp 7 (by decide)
    unfold fft_unshuffle_8_body
    simp (disch := omega) only [↓store_ne]

theorem fft_unshuffle_8_eq_loop (a b : Nat) (hab : a ≤ b) (inp : Buf R) (io : Nat)
    (out : Buf R) (oo m : Nat) :
    fft_unshuffle_8 a b inp io out oo m =
      forUp a b (fun i out => (fft_unshuffle_8_body m inp oo i (io + i * 8, out)).2) out := by
  obtain ⟨d, hd⟩ : ∃ d, d = b - a := ⟨_, rfl⟩
  induction d using Nat.strong_induction_on generalizing a b out with
  | _ d ih =>
    rw [fft_unshuffle_8]
    split_ifs with h
    · simp only
      rw [forUp_state1 a b hab (fun i => io + i * 8) _
        (fun i out => (fft_unshuffle_8_body m inp oo i (io + i * 8, out)).2)
        (fun i t => Prod.ext (by
          show io + i * 8 + 8 = io + (i + 1) * 8
          omega) rfl) out]
    · simp only
      rw [ih _ (by omega) a ((a + b) / 2) (by omega) out rfl,
        ih _ (by omega) ((a + b) / 2) b (by omega) _ rfl]
      exact (forUp_split a ((a + b) / 2) b _ out (by omega) (by omega)).symm

/-- The unshuffle `fft_unshuffle_8(0, m, in, out, m)`. -/
theorem fft_unshuffle_8_spec (m : Nat) (hm : 1 ≤ m) (inp : Buf R) (io : Nat) (out : Buf R)
    (oo : Nat) : UnshSpec 8 m inp io out oo (fft_unshuffle_8 0 m inp io out oo m) := by
  rw [fft_unshuffle_8_eq_loop 0 m (Nat.zero_le m)]
  obtain ⟨h1, h2⟩ := rows_loop m 8 oo 0 m (Nat.zero_le m) (le_refl m)
    (fun i out => (fft_unshuffle_8_body m inp oo i (io + i * 8, out)).2)
    (fun i c v => v = inp (io + i * 8 + c))
    (fun i out c _ _ hc => (fft_unshuffle_8_body_spec m hm inp oo i _ out).2.1 c hc)
    (fun i out p _ _ hp => (fft_unshuffle_8_body_spec m hm inp oo i _ out).2.2 p hp)
    out
  refine ⟨fun t c ht hc => h1 t c (Nat.zero_le t) ht hc, fun p hp => h2 p ?_⟩
  intro i c _ hi hc
  have := row_cell_lt m 8 i c hi hc
  omega

theorem fft_unshuffle_16_body_spec (m : Nat) (hm : 1 ≤ m) (inp : Buf R) (oo i ip : Nat)
    (out : Buf R) :
    (fft_unshuffle_16_body m inp oo i (ip, out)).1 = ip + 16 ∧
    (∀ c, c < 16 → (fft_unshuffle_16_body m inp oo i (ip, out)).2 (oo + i + c * m) = inp (ip + c)) ∧
    (∀ p, (∀ c, c < 16 → p ≠ oo + i + c * m) →
      (fft_unshuffle_16_body m inp oo i (ip, out)).2 p = out p) := by
  refine ⟨rfl, ?_, ?_⟩
  · intro c hc
    unfold fft_unshuffle_16_body
    interval_cases c <;> simp (disch := omega) only [↓store_ne, ↓store_eq]
  · intro p hp
    have hp0 := hp 0 (by decide)
    have hp1 := hp 1 (by decide)
    have hp2 := hp 2 (by decide)
    have hp3 := hp 3 (by decide)
    have hp4 := hp 4 (by decide)
    have hp5 := hp 5 (by decide)
    have hp6 := hp 6 (by decide)
    have hp7 := hp 7 (by decide)
    have hp8 := hp 8 (by decide)
    have hp9 := hp 9 (by decide)
    have hp10 := hp 10 (by decide)
    have hp11 := hp 11 (by decide)
    have hp12 := hp 12 (by decide)
    have hp13 := hp 13 (by decide)
    have hp14 := hp 14 (by decide)
    have hp15 := hp 15 (by decide)
    unfold fft_unshuffle_16_body
    simp (disch := omega) only [↓store_ne]

theorem fft_unshuffle_16_eq_loop (a b : Nat) (hab : a ≤ b) (inp : Buf R) (io : Nat)
    (out : Buf R) (oo m : Nat) :
    fft_unshuffle_16 a b inp io out oo m =
      forUp a b (fun i out => (fft_unshuffle_16_body m inp oo i (io + i * 16, out)).2) out := by
  obtain ⟨d, hd⟩ : ∃ d, d = b - a := ⟨_, rfl⟩
  induction d using Nat.strong_induction_on generalizing a b out with
  | _ d ih =>
    rw [fft_unshuffle_16]
    split_ifs with h
    · simp only
      rw [forUp_state1 a b hab (fun i => io + i * 16) _
        (fun i out => (fft_unshuffle_16_body m inp oo i (io + i * 16, out)).2)
        (fun i t => Prod.ext (by
          show io + i * 16 + 16 = io + (i + 1) * 16
          omega) rfl) out]
    · simp only
      rw [ih _ (by omega) a ((a + b) / 2) (by omega) out rfl,
        ih _ (by omega) ((a + b) / 2) b (by omega) _ rfl]
      exact (forUp_split a ((a + b) / 2) b _ out (by omega) (by omega)).symm

/-- The unshuffle `fft_unshuffle_16(0, m, in, out, m)`. -/
theorem fft_unshuffle_16_spec (m : Nat) (hm : 1 ≤ m) (inp : Buf R) (io : Nat) (out : Buf R)
    (oo : Nat) : UnshSpec 16 m inp io out oo (fft_unshuffle_16 0 m inp io out oo m) := by
  rw [fft_unshuffle_16_eq_loop 0 m (Nat.zero_le m)]
  obtain ⟨h1, h2⟩ := rows_loop m 16 oo 0 m (Nat.zero_le m) (le_refl m)
    (fun i out => (fft_unshuffle_16_body m inp oo i (io + i * 16, out)).2)
    (fun i c v => v = inp (io + i * 16 + c))
    (fun i out c _ _ hc => (fft_unshuffle_16_body_spec m hm inp oo i _ out).2.1 c hc)
    (fun i out p _ _ hp => (fft_unshuffle_16_body_spec m hm inp oo i _ out).2.2 p hp)
    out
  refine ⟨fun t c ht hc => h1 t c (Nat.zero_le t) ht hc, fun p hp => h2 p ?_⟩
  intro i c _ hi hc
  have := row_cell_lt m 16 i c hi hc
  omega

theorem Copied.zero (inp out : Buf R) (ip jp m : Nat) : Copied inp out out ip jp m 0 :=
  ⟨fun c h => absurd h (Nat.not_lt_zero c), fun _ _ => rfl⟩

theorem Copied.append {inp out mid res : Buf R} {ip jp m n1 n2 : Nat} (hm : 1 ≤ m)
    (h1 : Copied inp out mid ip jp m n1)
    (h2 : Copied inp mid res (ip + n1) (jp + n1 * m) m n2) :
    Copied inp out res ip jp m (n1 + n2) := by
  constructor
  · intro c hc
    by_cases hc1 : c < n1
    · rw [h2.2, h1.1 c hc1]
      intro d _
      have : (c + 1) * m ≤ n1 * m := Nat.mul_le_mul_right m hc1
      rw [Nat.succ_mul] at this
      omega
    · obtain ⟨d, rfl⟩ : ∃ d, c = n1 + d := ⟨c - n1, by omega⟩
      have e : jp + (n1 + d) * m = jp + n1 * m + d * m := by rw [Nat.add_mul]; omega
      rw [e, h2.1 d (by omega), Nat.add_assoc]
  · intro p hp
    rw [h2.2, h1.2]
    · exact fun c hc => hp c (by omega)
    · intro d hd
      have := hp (n1 + d) (by omega)
      rw [Nat.add_mul] at this
      omega

theorem unshuffle_loop4_spec (m : Nat) (hm : 1 ≤ m) (inp : Buf R) (r4 q : Nat) :
    ∀ (j ip jp : Nat) (out : Buf R), r4 = j + 4 * q →
      (unshuffle_loop4 inp m r4 j ip jp out).1 = r4 ∧
      (unshuffle_loop4 inp m r4 j ip jp out).2.1 = ip + 4 * q ∧
      (unshuffle_loop4 inp m r4 j ip jp out).2.2.1 = jp + 4 * q * m ∧
      Copied inp out (unshuffle_loop4 inp m r4 j ip jp out).2.2.2 ip jp m (4 * q) := by
  induction q with
  | zero =>
    intro j ip jp out h
    rw [unshuffle_loop4, if_neg (by omega)]
    exact ⟨by omega, by simp, by simp, Copied.zero inp out ip jp m⟩
  | succ q ih =>
    intro j ip jp out h
    rw [unshuffle_loop4, if_pos (by omega)]
    simp only
    obtain ⟨e1, e2, e3, e4⟩ := ih (j + 4) (ip + 4) (jp + 4 * m)
      (store (store (store (store out (jp + 0) (inp (ip + 0))) (jp + m) (inp (ip + 1)))
        (jp + 2 * m) (inp (ip + 2))) (jp + 3 * m) (inp (ip + 3))) (by omega)
    refine ⟨e1, by rw [e2]; omega, by rw [e3]; ring, ?_⟩
    have h4 : Copied inp out
        (store (store (store (store out (jp + 0) (inp (ip + 0))) (jp + m) (inp (ip + 1)))
          (jp + 2 * m) (inp (ip + 2))) (jp + 3 * m) (inp (ip + 3))) ip jp m 4 := by
      constructor
      · intro c hc
        interval_cases c <;> simp (disch := omega) only [↓store_ne, ↓store_eq]
      · intro p hp
        have hp0 := hp 0 (by decide)
        have hp1 := hp 1 (by decide)
        have hp2 := hp 2 (by decide)
        have hp3 := hp 3 (by decide)
        simp (disch := omega) only [↓store_ne]
    have := Copied.append hm h4 e4
    rw [show 4 * (q + 1) = 4 + 4 * q by omega]
    exact this

theorem unshuffle_loop1_spec (m : Nat) (hm : 1 ≤ m) (inp : Buf R) (j r : Nat) (hjr : j ≤ r)
    (ip jp : Nat) (out : Buf R) :
    (unshuffle_loop1 inp m j r ip jp out).1 = ip + (r - j) ∧
    Copied inp out (unshuffle_loop1 inp m j r ip jp out).2.2 ip jp m (r - j) := by
  unfold unshuffle_loop1
  have key := forUp_induction (fun k (st : Nat × Nat × Buf R) =>
    st.1 = ip + (k - j) ∧ st.2.1 = jp + (k - j) * m ∧ Copied inp out st.2.2 ip jp m (k - j))
    j r (fun _ st =>
      let ip := st.1
      let jp := st.2.1
      let out := st.2.2
      let out := store out jp (inp ip)
      (ip + 1, jp + m, out)) (ip, jp, out) hjr ?_ ?_
  · exact ⟨key.1, key.2.2⟩
  · simp only [Nat.sub_self, Nat.zero_mul, Nat.add_zero, true_and]
    exact Copied.zero inp out ip jp m
  · rintro k ⟨ip1, jp1, out1⟩ hk1 hk2 ⟨e1, e2, e3⟩
    simp only at e1 e2 e3
    subst e1 e2
    have hk : k + 1 - j = (k - j) + 1 := by omega
    refine ⟨by simp only; omega, by simp only; rw [hk, Nat.succ_mul, Nat.add_assoc], ?_⟩
    simp only
    rw [hk]
    refine Copied.append hm e3 ⟨fun c hc => ?_, fun p hp => ?_⟩
    · have : c = 0 := by omega
      subst this
      simp [store]
    · have := hp 0 (by decide)
      simp only [Nat.zero_mul, Nat.add_zero] at this
      exact store_ne _ _ _ _ this

/-- One round of the loop of `unshuffle`, for the row `i`. -/
theorem unshuffle_body_spec (m : Nat) (hm : 1 ≤ m) (inp : Buf R) (oo r i ip : Nat)
    (out : Buf R) :
    (unshuffle_loop1 inp m (unshuffle_loop4 inp m (r - (r &&& 3)) 0 ip (oo + i) out).1 r
      (unshuffle_loop4 inp m (r - (r &&& 3)) 0 ip (oo + i) out).2.1
      (unshuffle_loop4 inp m (r - (r &&& 3)) 0 ip (oo + i) out).2.2.1
      (unshuffle_loop4 inp m (r - (r &&& 3)) 0 ip (oo + i) out).2.2.2).1 = ip + r ∧
    Copied inp out
      (unshuffle_loop1 inp m (unshuffle_loop4 inp m (r - (r &&& 3)) 0 ip (oo + i) out).1 r
        (unshuffle_loop4 inp m (r - (r &&& 3)) 0 ip (oo + i) out).2.1
        (unshuffle_loop4 inp m (r - (r &&& 3)) 0 ip (oo + i) out).2.2.1
        (unshuffle_loop4 inp m (r - (r &&& 3)) 0 ip (oo + i) out).2.2.2).2.2 ip (oo + i) m r := by
  have hr4 : r - (r &&& 3) = 0 + 4 * (r / 4) := by
    rw [and_3]
    omega
  obtain ⟨e1, e2, e3, e4⟩ := unshuffle_loop4_spec m hm inp _ (r / 4) 0 ip (oo + i) out hr4
  rw [e1, e2, e3]
  have hle : r - (r &&& 3) ≤ r := Nat.sub_le _ _
  obtain ⟨f1, f2⟩ := unshuffle_loop1_spec m hm inp (r - (r &&& 3)) r hle (ip + 4 * (r / 4))
    (oo + i + 4 * (r / 4) * m) (unshuffle_loop4 inp m (r - (r &&& 3)) 0 ip (oo + i) out).2.2.2
  refine ⟨by rw [f1, and_3]; omega, ?_⟩
  have := Copied.append hm e4 f2
  rw [show 4 * (r / 4) + (r - (r - (r &&& 3))) = r by rw [and_3]; omega] at this
  exact this

theorem unshuffle_eq_loop (m : Nat) (hm : 1 ≤ m) (a b : Nat) (hab : a ≤ b) (inp : Buf R)
    (io : Nat) (out : Buf R) (oo r : Nat) :
    unshuffle a b inp io out oo r m =
      forUp a b (fun i out =>
        (unshuffle_loop1 inp m
          (unshuffle_loop4 inp m (r - (r &&& 3)) 0 (io + i * r) (oo + i) out).1 r
          (unshuffle_loop4 inp m (r - (r &&& 3)) 0 (io + i * r) (oo + i) out).2.1
          (unshuffle_loop4 inp m (r - (r &&& 3)) 0 (io + i * r) (oo + i) out).2.2.1
          (unshuffle_loop4 inp m (r - (r &&& 3)) 0 (io + i * r) (oo + i) out).2.2.2).2.2) out := by
  obtain ⟨d, hd⟩ : ∃ d, d = b - a := ⟨_, rfl⟩
  induction d using Nat.strong_induction_on generalizing a b out with
  | _ d ih =>
    rw [unshuffle]
    simp only
    split_ifs with h
    · rw [forUp_state1 a b hab (fun i => io + i * r) _
        (fun i out =>
          (unshuffle_loop1 inp m
            (unshuffle_loop4 inp m (r - (r &&& 3)) 0 (io + i * r) (oo + i) out).1 r
            (unshuffle_loop4 inp m (r - (r &&& 3)) 0 (io + i * r) (oo + i) out).2.1
            (unshuffle_loop4 inp m (r - (r &&& 3)) 0 (io + i * r) (oo + i) out).2.2.1
            (unshuffle_loop4 inp m (r - (r &&& 3)) 0 (io + i * r) (oo + i) out).2.2.2).2.2)
        (fun i t => Prod.ext (by
          simp only
          rw [(unshuffle_body_spec m hm inp oo r i (io + i * r) t).1, Nat.succ_mul]
          omega) rfl) out]
    · rw [ih _ (by omega) a ((a + b) / 2) (by omega) out rfl,
        ih _ (by omega) ((a + b) / 2) b (by omega) _ rfl]
      exact (forUp_split a ((a + b) / 2) b _ out (by omega) (by omega)).symm

/-- The generic unshuffle `unshuffle(0, m, in, out, r, m)`. -/
theorem unshuffle_spec (m : Nat) (hm : 1 ≤ m) (inp : Buf R) (io : Nat) (out : Buf R)
    (oo r : Nat) : UnshSpec r m inp io out oo (unshuffle 0 m inp io out oo r m) := by
  rw [unshuffle_eq_loop m hm 0 m (Nat.zero_le m)]
  obtain ⟨h1, h2⟩ := rows_loop m r oo 0 m (Nat.zero_le m) (le_refl m)
    (fun i out =>
        (unshuffle_loop1 inp m
          (unshuffle_loop4 inp m (r - (r &&& 3)) 0 (io + i * r) (oo + i) out).1 r
          (unshuffle_loop4 inp m (r - (r &&& 3)) 0 (io + i * r) (oo + i) out).2.1
          (unshuffle_loop4 inp m (r - (r &&& 3)) 0 (io + i * r) (oo + i) out).2.2.1
          (unshuffle_loop4 inp m (r - (r &&& 3)) 0 (io + i * r) (oo + i) out).2.2.2).2.2)
    (fun i c v => v = inp (io + i * r + c))
    (fun i out c _ _ hc => (unshuffle_body_spec m hm inp oo r i _ out).2.1 c hc)
    (fun i out p _ _ hp => (unshuffle_body_spec m hm inp oo r i _ out).2.2 p hp)
    out
  refine ⟨fun t c ht hc => h1 t c (Nat.zero_le t) ht hc, fun p hp => h2 p ?_⟩
  intro i c _ hi hc
  have := row_cell_lt m r i c hi hc
  omega

theorem Root.one {ω : ℂ} {nW : Nat} {z : ℂ} (h : Root ω nW z) (h8 : z ^ 8 = ⟨0, -1⟩) :
    ω ^ nW = 1 := by
  rw [h nW 32 rfl, zq32 z h8]

theorem Root.kernel {ω : ℂ} {nW : Nat} {z : ℂ} (h : Root ω nW z) (nWdn r s m : Nat)
    (hrs : r * s = 32) (hnW : nWdn * (r * m) = nW) : z ^ s = ω ^ (nWdn * m) := by
  refine (h (nWdn * m) s ?_).symm
  rw [← hnW, ← hrs]
  ring

theorem factor_ne_32 (n : Nat) : factor n ≠ 32 := by
  unfold factor
  simp only [and_15, and_7, and_3, and_1]
  split_ifs with h1 h2 h3 h4 h5 h6
  · decide
  · decide
  · decide
  · decide
  · decide
  · decide
  · intro h
    have := (factor_loop_spec n 3 (by decide) (by omega)).1
    rw [h] at this
    omega

theorem factor_list_eq (n : Nat) :
    factor_list n = factor n :: (if n / factor n > 1 then factor_list (n / factor n) else []) := by
  rw [factor_list]
  split_ifs <;> rfl

/-- The powers of the root of unity `exp(-2 pi I / N)`. -/
theorem exp_root_pow (N k : Nat) :
    Complex.exp (-2 * Real.pi * Complex.I / N) ^ k =
      ⟨Real.cos (2 * Real.pi * k / N), -Real.sin (2 * Real.pi * k / N)⟩ := by
  rw [← Complex.exp_nat_mul]
  have e : (k : ℂ) * (-2 * Real.pi * Complex.I / N) =
      ((-(2 * Real.pi * k / N) : ℝ) : ℂ) * Complex.I := by
    push_cast
    ring
  rw [e]
  apply Complex.ext
  · rw [Complex.exp_ofReal_mul_I_re, Real.cos_neg]
  · rw [Complex.exp_ofReal_mul_I_im, Real.sin_neg]

theorem exp_root_h8 : Complex.exp (-2 * Real.pi * Complex.I / (32 : Nat)) ^ 8 = ⟨0, -1⟩ := by
  rw [exp_root_pow]
  have e : 2 * Real.pi * ((8 : Nat) : ℝ) / ((32 : Nat) : ℝ) = Real.pi / 2 := by
    push_cast
    ring
  rw [e, Real.cos_pi_div_two, Real.sin_pi_div_two]

theorem exp_root_Root (n : Nat) (hn : 1 ≤ n) :
    Root (Complex.exp (-2 * Real.pi * Complex.I / n)) n
      (Complex.exp (-2 * Real.pi * Complex.I / (32 : Nat))) := by
  intro d e h
  rw [← Complex.exp_nat_mul, ← Complex.exp_nat_mul]
  congr 1
  have hn0 : (n : ℂ) ≠ 0 := Nat.cast_ne_zero.2 (by omega)
  have h1 : (d : ℂ) * 32 = n * e := by exact_mod_cast h
  push_cast
  field_simp
  linear_combination (2 * Real.pi * Complex.I) * h1

theorem exp_root_ZTab (K : Consts ℝ) (hK : ExactConsts K) :
    ZTab K (Complex.exp (-2 * Real.pi * Complex.I / (32 : Nat))) := by
  obtain ⟨h1, h2, h3, h4, h5, h6, h7⟩ := hK
  have c5 : Real.cos (5 * Real.pi / 16) = Real.sin (3 * Real.pi / 16) := by
    rw [← Real.cos_pi_div_two_sub]
    congr 1
    ring
  have s5 : Real.sin (5 * Real.pi / 16) = Real.cos (3 * Real.pi / 16) := by
    rw [← Real.sin_pi_div_two_sub]
    congr 1
    ring
  have c6 : Real.cos (6 * Real.pi / 16) = Real.sin (Real.pi / 8) := by
    rw [← Real.cos_pi_div_two_sub]
    congr 1
    ring
  have s6 : Real.sin (6 * Real.pi / 16) = Real.cos (Real.pi / 8) := by
    rw [← Real.sin_pi_div_two_sub]
    congr 1
    ring
  have c7 : Real.cos (7 * Real.pi / 16) = Real.sin (Real.pi / 16) := by
    rw [← Real.cos_pi_div_two_sub]
    congr 1
    ring
  have s7 : Real.sin (7 * Real.pi / 16) = Real.cos (Real.pi / 16) := by
    rw [← Real.sin_pi_div_two_sub]
    congr 1
    ring
  have s4 : Real.sin (Real.pi / 4) = Real.cos (Real.pi / 4) := by
    rw [Real.sin_pi_div_four, Real.cos_pi_div_four]
  refine ⟨?_, ?_, ?_, ?_, ?_, ?_, ?_, exp_root_h8⟩
  · have e : 2 * Real.pi * ((1 : Nat) : ℝ) / ((32 : Nat) : ℝ) = Real.pi / 16 := by
      push_cast
      ring
    rw [exp_root_pow, e, h1, h2]
  · have e : 2 * Real.pi * ((2 : Nat) : ℝ) / ((32 : Nat) : ℝ) = Real.pi / 8 := by
      push_cast
      ring
    rw [exp_root_pow, e, h3, h4]
  · have e : 2 * Real.pi * ((3 : Nat) : ℝ) / ((32 : Nat) : ℝ) = 3 * Real.pi / 16 := by
      push_cast
      ring
    rw [exp_root_pow, e, h5, h6]
  · have e : 2 * Real.pi * ((4 : Nat) : ℝ) / ((32 : Nat) : ℝ) = Real.pi / 4 := by
      push_cast
      ring
    rw [exp_root_pow, e, s4, h7]
  · have e : 2 * Real.pi * ((5 : Nat) : ℝ) / ((32 : Nat) : ℝ) = 5 * Real.pi / 16 := by
      push_cast
      ring
    rw [exp_root_pow, e, c5, s5, h6, h5]
  · have e : 2 * Real.pi * ((6 : Nat) : ℝ) / ((32 : Nat) : ℝ) = 6 * Real.pi / 16 := by
      push_cast
      ring
    rw [exp_root_pow, e, c6, s6, h4, h3]
  · have e : 2 * Real.pi * ((7 : Nat) : ℝ) / ((32 : Nat) : ℝ) = 7 * Real.pi / 16 := by
      push_cast
      ring
    rw [exp_root_pow, e, c7, s7, h2, h1]

/-- The table left by `compute_w_coefficients` over the reals holds the powers of
`exp(-2 pi I / n)`. -/
theorem w_table (n : Nat) (hn : 1 ≤ n) (W0 : Buf ℝ) (k : Nat) (hk : k ≤ n) :
    toC (compute_w_coefficients Real.cos Real.sin Real.pi n 0 (n / 2) W0 k) =
      Complex.exp (-2 * Real.pi * Complex.I / n) ^ k := by
  rw [compute_w_coefficients_eq_loop Real.cos Real.sin Real.pi n 0 (n / 2) W0 (by omega),
    w_loop_spec n hn _ (by omega), if_pos (by omega), exp_root_pow]
  rfl

set_option maxRecDepth 100000 in
theorem fft_unshuffle_32_body_spec (m : Nat) (hm : 1 ≤ m) (inp : Buf R) (oo i ip : Nat)
    (out : Buf R) :
    (fft_unshuffle_32_body m inp oo i (ip, out)).1 = ip + 32 ∧
    (∀ c, c < 32 → (fft_unshuffle_32_body m inp oo i (ip, out)).2 (oo + i + c * m) = inp (ip + c)) ∧
    (∀ p, (∀ c, c < 32 → p ≠ oo + i + c * m) →
      (fft_unshuffle_32_body m inp oo i (ip, out)).2 p = out p) := by
  refine ⟨rfl, ?_, ?_⟩
  · intro c hc
    unfold fft_unshuffle_32_body
    interval_cases c <;> simp (disch := omega) only [↓store_ne, ↓store_eq]
  · intro p hp
    have hp0 := hp 0 (by decide)
    have hp1 := hp 1 (by decide)
    have hp2 := hp 2 (by decide)
    have hp3 := hp 3 (by decide)
    have hp4 := hp 4 (by decide)
    have hp5 := hp 5 (by decide)
    have hp6 := hp 6 (by decide)
    have hp7 := hp 7 (by decide)
    have hp8 := hp 8 (by decide)
    have hp9 := hp 9 (by decide)
    have hp10 := hp 10 (by decide)
    have hp11 := hp 11 (by decide)
    have hp12 := hp 12 (by decide)
    have hp13 := hp 13 (by decide)
    have hp14 := hp 14 (by decide)
    have hp15 := hp 15 (by decide)
    have hp16 := hp 16 (by decide)
    have hp17 := hp 17 (by decide)
    have hp18 := hp 18 (by decide)
    have hp19 := hp 19 (by decide)
    have hp20 := hp 20 (by decide)
    have hp21 := hp 21 (by decide)
    have hp22 := hp 22 (by decide)
    have hp23 := hp 23 (by decide)
    have hp24 := hp 24 (by decide)
    have hp25 := hp 25 (by decide)
    have hp26 := hp 26 (by decide)
    have hp27 := hp 27 (by decide)
    have hp28 := hp 28 (by decide)
    have hp29 := hp 29 (by decide)
    have hp30 := hp 30 (by decide)
    have hp31 := hp 31 (by decide)
    unfold fft_unshuffle_32_body
    simp (disch := omega) only [↓store_ne]

theorem fft_unshuffle_32_eq_loop (a b : Nat) (hab : a ≤ b) (inp : Buf R) (io : Nat)
    (out : Buf R) (oo m : Nat) :
    fft_unshuffle_32 a b inp io out oo m =
      forUp a b (fun i out => (fft_unshuffle_32_body m inp oo i (io + i * 32, out)).2) out := by
  obtain ⟨d, hd⟩ : ∃ d, d = b - a := ⟨_, rfl⟩
  induction d using Nat.strong_induction_on generalizing a b out with
  | _ d ih =>
    rw [fft_unshuffle_32]
    split_ifs with h
    · simp only
      rw [forUp_state1 a b hab (fun i => io + i * 32) _
        (fun i out => (fft_unshuffle_32_body m inp oo i (io + i * 32, out)).2)
        (fun i t => Prod.ext (by
          show io + i * 32 + 32 = io + (i + 1) * 32
          omega) rfl) out]
    · simp only
      rw [ih _ (by omega) a ((a + b) / 2) (by omega) out rfl,
        ih _ (by omega) ((a + b) / 2) b (by omega) _ rfl]
      exact (forUp_split a ((a + b) / 2) b _ out (by omega) (by omega)).symm

/-- The unshuffle `fft_unshuffle_32(0, m, in, out, m)`. -/
theorem fft_unshuffle_32_spec (m : Nat) (hm : 1 ≤ m) (inp : Buf R) (io : Nat) (out : Buf R)
    (oo : Nat) : UnshSpec 32 m inp io out oo (fft_unshuffle_32 0 m inp io out oo m) := by
  rw [fft_unshuffle_32_eq_loop 0 m (Nat.zero_le m)]
  obtain ⟨h1, h2⟩ := rows_loop m 32 oo 0 m (Nat.zero_le m) (le_refl m)
    (fun i out => (fft_unshuffle_32_body m inp oo i (io + i * 32, out)).2)
    (fun i c v => v = inp (io + i * 32 + c))
    (fun i out c _ _ hc => (fft_unshuffle_32_body_spec m hm inp oo i _ out).2.1 c hc)
    (fun i out p _ _ hp => (fft_unshuffle_32_body_spec m hm inp oo i _ out).2.2 p hp)
    out
  refine ⟨fun t c ht hc => h1 t c (Nat.zero_le t) ht hc, fun p hp => h2 p ?_⟩
  intro i c _ hi hc
  have := row_cell_lt m 32 i c hi hc
  omega

/-- C28: over any commutative ring, `fft_base_2` and `fft_base_4` write the 2-point and the
4-point transform of the input: `out[k]` is the sum over `j` of `in[j] * w ^ (j * k)`, with
`w = -1` for `fft_base_2` and `w = -I` for `fft_base_4`; the other cells of `out` are
unchanged. -/
theorem fft_base_2_4_dft [CommRing R] (inp : Buf R) (io : Nat) (out : Buf R) (oo : Nat) :
    (∀ k, k < 2 → fft_base_2 inp io out oo (oo + k) =
      csum (fun j => cmul (inp (io + j)) (cpow ⟨-1, 0⟩ (j * k))) 2) ∧
    (∀ k, k < 4 → fft_base_4 inp io out oo (oo + k) =
      csum (fun j => cmul (inp (io + j)) (cpow ⟨0, -1⟩ (j * k))) 4) ∧
    (∀ p, p < oo ∨ oo + 2 ≤ p → fft_base_2 inp io out oo p = out p) ∧
    (∀ p, p < oo ∨ oo + 4 ≤ p → fft_base_4 inp io out oo p = out p) := by
  refine ⟨fun k hk => ?_, fun k hk => ?_, fun p hp => ?_, fun p hp => ?_⟩
  · interval_cases k
    all_goals simp [fft_base_2, setRe, setIm, csum, cadd, cmul, cpow]
    all_goals constructor <;> ring
  · interval_cases k
    all_goals simp [fft_base_4, setRe, setIm, csum, cadd, cmul, cpow]
    all_goals constructor <;> ring
  · have h0 : p ≠ oo := by omega
    have h1 : p ≠ oo + 1 := by omega
    simp [fft_base_2, setRe, setIm, h0, h1]
  · have h0 : p ≠ oo := by omega
    have h1 : p ≠ oo + 1 := by omega
    have h2 : p ≠ oo + 2 := by omega
    have h3 : p ≠ oo + 3 := by omega
    simp [fft_base_4, setRe, setIm, h0, h1, h2, h3]

/-- The kernel `fft_base_8` reads one constant only, `0.707106781187`. -/
theorem fft_base_8_congr [Add R] [Sub R] [Mul R] (K K1 : Consts R)
    (h : K.c0_707106781187 = K1.c0_707106781187) (inp : Buf R) (io : Nat) (out : Buf R)
    (oo : Nat) : fft_base_8 K inp io out oo = fft_base_8 K1 inp io out oo := by
  unfold fft_base_8
  rw [h]

/-- C29: with the constant `0.707106781187` read as exactly `1 / sqrt 2`, the kernel
`fft_base_8` over the reals writes the 8-point transform: `out[k]` is the sum over `j < 8` of
`in[j] * exp(-2 pi I j k / 8)`, for every input and every `k < 8`. -/
theorem fft_base_8_dft (K : Consts ℝ) (hc : K.c0_707106781187 = 1 / Real.sqrt 2)
    (inp : Buf ℝ) (io : Nat) (out : Buf ℝ) (oo : Nat) (k : Nat) (hk : k < 8) :
    toC (fft_base_8 K inp io out oo (oo + k)) =
      ∑ j in Finset.range 8,
        toC (inp (io + j)) * Complex.exp (-2 * Real.pi * Complex.I * j * k / 8) := by
  have h7 : K.c0_707106781187 = Real.cos (Real.pi / 4) := by
    rw [hc, Real.cos_pi_div_four, Real.sqrt_div_self']
  obtain ⟨K1, hK, e7⟩ : ∃ K1 : Consts ℝ, ExactConsts K1 ∧
      K1.c0_707106781187 = Real.cos (Real.pi / 4) :=
    ⟨⟨Real.sin (Real.pi / 16), Real.sin (Real.pi / 8), Real.sin (3 * Real.pi / 16),
      Real.cos (Real.pi / 4), Real.cos (3 * Real.pi / 16), Real.cos (Real.pi / 8),
      Real.cos (Real.pi / 16)⟩, ⟨rfl, rfl, rfl, rfl, rfl, rfl, rfl⟩, rfl⟩
  rw [fft_base_8_congr K K1 (h7.trans e7.symm),
    fft_base_8_net _ _ (exp_root_ZTab _ hK) inp io out oo k hk]
  unfold dft
  refine Finset.sum_congr rfl (fun j _ => ?_)
  congr 1
  rw [← pow_mul, ← Complex.exp_nat_mul]
  congr 1
  push_cast
  ring

/-- Witness of `fft_base_8_dft`: the other six constants set to zero, the unit impulse as
input, output cell 3. -/
theorem fft_base_8_dft_witness :
    ((⟨0, 0, 0, 1 / Real.sqrt 2, 0, 0, 0⟩ : Consts ℝ).c0_707106781187 = 1 / Real.sqrt 2 ∧
      3 < 8) ∧
    toC (fft_base_8 ⟨0, 0, 0, 1 / Real.sqrt 2, 0, 0, 0⟩
        (fun i => if i = 0 then ⟨1, 0⟩ else ⟨0, 0⟩) 0 (fun _ => ⟨0, 0⟩) 0 (0 + 3)) =
      ∑ j in Finset.range 8,
        toC ((fun i => if i = 0 then (⟨1, 0⟩ : COMPLEX ℝ) else ⟨0, 0⟩) (0 + j)) *
          Complex.exp (-2 * Real.pi * Complex.I * j * (3 : Nat) / 8) :=
  ⟨⟨rfl, by decide⟩, fft_base_8_dft _ rfl _ 0 _ 0 3 (by decide)⟩

/-- Two results of an unshuffle of radix `r` on `m ≥ 1` rows are the same buffer. -/
theorem unsh_unique (r m : Nat) (hm : 1 ≤ m) (inp : Buf R) (io : Nat) (out : Buf R) (oo : Nat)
    (res1 res2 : Buf R) (h1 : UnshSpec r m inp io out oo res1)
    (h2 : UnshSpec r m inp io out oo res2) : res1 = res2 := by
  funext p
  by_cases hp : p < oo ∨ oo + r * m ≤ p
  · rw [h1.2 p hp, h2.2 p hp]
  · have hq : p - oo < r * m := by omega
    have hc : (p - oo) / m < r := Nat.div_lt_of_lt_mul (by rw [Nat.mul_comm]; exact hq)
    have ht : (p - oo) % m < m := Nat.mod_lt _ (by omega)
    have e : p = oo + (p - oo) % m + (p - oo) / m * m := by
      have := Nat.mod_add_div (p - oo) m
      rw [Nat.mul_comm] at this
      omega
    rw [e, h1.1 _ _ ht hc, h2.1 _ _ ht hc]

theorem unshuffle_zero (a : Nat) (inp : Buf R) (io : Nat) (out : Buf R) (oo r m : Nat) :
    unshuffle a a inp io out oo r m = out := by
  rw [unshuffle]
  simp only
  rw [if_pos (by omega), forUp_empty _ _ _ _ (le_refl _)]

/-- Cutting the range of `unshuffle` at any row `c` gives the result of the whole range. -/
theorem unshuffle_cut (m : Nat) (c : Nat) (hc : c ≤ m) (inp : Buf R) (io : Nat) (out : Buf R)
    (oo r : Nat) :
    unshuffle c m inp io (unshuffle 0 c inp io out oo r m) oo r m =
      unshuffle 0 m inp io out oo r m := by
  by_cases hm : 1 ≤ m
  · rw [unshuffle_eq_loop m hm 0 c (Nat.zero_le c), unshuffle_eq_loop m hm c m hc,
      unshuffle_eq_loop m hm 0 m (Nat.zero_le m)]
    exact (forUp_split 0 c m _ out (Nat.zero_le c) hc).symm
  · have hm0 : m = 0 := by omega
    have hc0 : c = 0 := by omega
    subst hm0
    subst hc0
    rw [unshuffle_zero, unshuffle_zero]

/-- C27: for every `r` and `m`, `unshuffle(0, m, in, out, r, m)` sets
`out[j * m + i] = in[i * r + j]` for all `i < m` and `j < r`; every cell of `in[0..r*m)` is
copied to one cell of `out[0..r*m)`, and the cells of `out` from `r * m` on are unchanged; the
result does not depend on where the range of rows is cut; and for `r` = 2, 4, 8, 16, 32 the
kernel `fft_unshuffle_r(0, m, in, out, m)` leaves exactly the same `out`. -/
theorem unshuffle_transpose (r m : Nat) (inp : Buf R) (io : Nat) (out : Buf R) (oo : Nat) :
    (∀ i j, i < m → j < r →
      unshuffle 0 m inp io out oo r m (oo + (j * m + i)) = inp (io + (i * r + j))) ∧
    (∀ q, q < r * m →
      unshuffle 0 m inp io out oo r m (oo + (q % r * m + q / r)) = inp (io + q)) ∧
    (∀ p, p < oo ∨ oo + r * m ≤ p → unshuffle 0 m inp io out oo r m p = out p) ∧
    (∀ c, c ≤ m → unshuffle c m inp io (unshuffle 0 c inp io out oo r m) oo r m =
      unshuffle 0 m inp io out oo r m) ∧
    fft_unshuffle_2 0 m inp io out oo m = unshuffle 0 m inp io out oo 2 m ∧
    fft_unshuffle_4 0 m inp io out oo m = unshuffle 0 m inp io out oo 4 m ∧
    fft_unshuffle_8 0 m inp io out oo m = unshuffle 0 m inp io out oo 8 m ∧
    fft_unshuffle_16 0 m inp io out oo m = unshuffle 0 m inp io out oo 16 m ∧
    fft_unshuffle_32 0 m inp io out oo m = unshuffle 0 m inp io out oo 32 m := by
  by_cases hm : 1 ≤ m
  · have hs := unshuffle_spec m hm inp io out oo r
    have key : ∀ i j, i < m → j < r →
        unshuffle 0 m inp io out oo r m (oo + (j * m + i)) = inp (io + (i * r + j)) := by
      intro i j hi hj
      have := hs.1 i j hi hj
      rw [show oo + (j * m + i) = oo + i + j * m by omega,
        show io + (i * r + j) = io + i * r + j by omega]
      exact this
    refine ⟨key, fun q hq => ?_, hs.2, fun c hc => unshuffle_cut m c hc inp io out oo r, ?_, ?_,
      ?_, ?_, ?_⟩
    · have hr : 0 < r := by
        rcases Nat.eq_zero_or_pos r with h | h
        · rw [h, Nat.zero_mul] at hq
          omega
        · exact h
      have h1 : q / r < m := Nat.div_lt_of_lt_mul hq
      have h2 : q % r < r := Nat.mod_lt _ hr
      rw [key (q / r) (q % r) h1 h2]
      congr 2
      have := Nat.div_add_mod q r
      rw [Nat.mul_comm] at this
      exact this
    · exact unsh_unique 2 m hm inp io out oo _ _ (fft_unshuffle_2_spec m hm inp io out oo)
        (unshuffle_spec m hm inp io out oo 2)
    · exact unsh_unique 4 m hm inp io out oo _ _ (fft_unshuffle_4_spec m hm inp io out oo)
        (unshuffle_spec m hm inp io out oo 4)
    · exact unsh_unique 8 m hm inp io out oo _ _ (fft_unshuffle_8_spec m hm inp io out oo)
        (unshuffle_spec m hm inp io out oo 8)
    · exact unsh_unique 16 m hm inp io out oo _ _ (fft_unshuffle_16_spec m hm inp io out oo)
        (unshuffle_spec m hm inp io out oo 16)
    · exact unsh_unique 32 m hm inp io out oo _ _ (fft_unshuffle_32_spec m hm inp io out oo)
        (unshuffle_spec m hm inp io out oo 32)
  · have hm0 : m = 0 := by omega
    subst hm0
    refine ⟨fun i j hi => absurd hi (Nat.not_lt_zero i), fun q hq => ?_, fun p _ => ?_,
      fun c hc => unshuffle_cut 0 c hc inp io out oo r, ?_, ?_, ?_, ?_, ?_⟩
    · rw [Nat.mul_zero] at hq
      omega
    · rw [unshuffle_zero]
    · rw [unshuffle_zero, fft_unshuffle_2_eq_loop 0 0 (le_refl _),
        forUp_empty _ _ _ _ (le_refl _)]
    · rw [unshuffle_zero, fft_unshuffle_4_eq_loop 0 0 (le_refl _),
        forUp_empty _ _ _ _ (le_refl _)]
    · rw [unshuffle_zero, fft_unshuffle_8_eq_loop 0 0 (le_refl _),
        forUp_empty _ _ _ _ (le_refl _)]
    · rw [unshuffle_zero, fft_unshuffle_16_eq_loop 0 0 (le_refl _),
        forUp_empty _ _ _ _ (le_refl _)]
    · rw [unshuffle_zero, fft_unshuffle_32_eq_loop 0 0 (le_refl _),
        forUp_empty _ _ _ _ (le_refl _)]

theorem forStep_congr {σ : Type} (n m : Nat) (b1 b2 : Nat → σ → Option σ)
    (h : ∀ k s, b1 k s = b2 k s) :
    ∀ (fuel k : Nat) (s : σ), forStep n m b1 fuel k s = forStep n m b2 fuel k s := by
  intro fuel
  induction fuel with
  | zero => intro k s; rfl
  | succ f ih =>
    intro k s
    rw [forStep, forStep, h k s]
    split_ifs with hk
    · cases b2 k s with
      | none => rfl
      | some s1 => exact ih _ _
    · rfl

theorem toC_inj (a b : COMPLEX ℝ) (h : toC a = toC b) : a = b := by
  cases a
  cases b
  unfold toC at h
  simp only [Complex.mk.injEq] at h
  obtain ⟨h1, h2⟩ := h
  subst h1
  subst h2
  rfl

/-- Two results of a twiddle stage of radix `r` on `m ≥ 1` rows are the same buffer. -/
theorem tw_unique (ω : ℂ) (nWdn r m : Nat) (hm : 1 ≤ m) (inp : Buf ℝ) (io : Nat)
    (out : Buf ℝ) (oo : Nat) (res1 res2 : Buf ℝ) (h1 : TwSpec ω nWdn r m inp io out oo res1)
    (h2 : TwSpec ω nWdn r m inp io out oo res2) : res1 = res2 := by
  funext p
  by_cases hp : p < oo ∨ oo + r * m ≤ p
  · rw [h1.2 p hp, h2.2 p hp]
  · have hq : p - oo < r * m := by omega
    have hc : (p - oo) / m < r := Nat.div_lt_of_lt_mul (by rw [Nat.mul_comm]; exact hq)
    have ht : (p - oo) % m < m := Nat.mod_lt _ (by omega)
    have e : p = oo + (p - oo) % m + (p - oo) / m * m := by
      have := Nat.mod_add_div (p - oo) m
      rw [Nat.mul_comm] at this
      omega
    apply toC_inj
    rw [e, h1.1 _ _ ht hc, h2.1 _ _ ht hc]

/-- C31: for `r = 2` and `r = 4`, a table size `nW ≥ 1`, `n = r * m` a divisor of `nW` and `W`
the exact table of the `nW`-th roots of unity (`W[k] = exp(-2 pi I k / nW)` for `k ≤ nW`),
the generic stage `fft_twiddle_gen(0, m, in, out, W, nW, nW / n, r, m)` returns, and the buffer
it leaves is the one that `fft_twiddle_r(0, m, in, out, W, nW, nW / n, m)` leaves. -/
theorem fft_twiddle_2_4_eq_gen (W : Buf ℝ) (nW m : Nat) (hnW : 1 ≤ nW)
    (hW : ∀ k, k ≤ nW → toC (W k) = Complex.exp (-2 * Real.pi * Complex.I * k / nW))
    (inp : Buf ℝ) (io : Nat) (out : Buf ℝ) (oo : Nat) :
    (2 * m ∣ nW → fft_twiddle_gen 0 m inp io out oo W nW (nW / (2 * m)) 2 m =
      some (fft_twiddle_2 0 m inp io out oo W nW (nW / (2 * m)) m)) ∧
    (4 * m ∣ nW → fft_twiddle_gen 0 m inp io out oo W nW (nW / (4 * m)) 4 m =
      some (fft_twiddle_4 0 m inp io out oo W nW (nW / (4 * m)) m)) := by
  have hW1 : ∀ t, t ≤ nW → toC (W t) = Complex.exp (-2 * Real.pi * Complex.I / nW) ^ t := by
    intro t ht
    rw [hW t ht, ← Complex.exp_nat_mul]
    congr 1
    ring
  have hroot := exp_root_Root nW hnW
  have h1 := hroot.one exp_root_h8
  have hm : ∀ r, r * m ∣ nW → 1 ≤ m := by
    intro r hd
    rcases Nat.eq_zero_or_pos m with h | h
    · rw [h, Nat.mul_zero] at hd
      have := Nat.eq_zero_of_zero_dvd hd
      omega
    · exact h
  constructor
  · intro hd
    have e : nW / (2 * m) * (2 * m) = nW := Nat.div_mul_cancel hd
    obtain ⟨res, h2, h3⟩ := fft_twiddle_gen_spec _ W nW (nW / (2 * m)) 2 m (hm 2 hd) e hW1 h1
      inp io out oo
    rw [h2]
    congr 1
    exact tw_unique _ _ 2 m (hm 2 hd) inp io out oo _ _ h3
      (fft_twiddle_2_spec _ exp_root_h8 _ W nW _ m (hm 2 hd) e hW1
        (hroot.kernel _ 2 16 m rfl e) inp io out oo)
  · intro hd
    have e : nW / (4 * m) * (4 * m) = nW := Nat.div_mul_cancel hd
    obtain ⟨res, h2, h3⟩ := fft_twiddle_gen_spec _ W nW (nW / (4 * m)) 4 m (hm 4 hd) e hW1 h1
      inp io out oo
    rw [h2]
    congr 1
    exact tw_unique _ _ 4 m (hm 4 hd) inp io out oo _ _ h3
      (fft_twiddle_4_spec _ exp_root_h8 _ W nW _ m (hm 4 hd) e hW1
        (hroot.kernel _ 4 8 m rfl e) inp io out oo)

/-- Witness of `fft_twiddle_2_4_eq_gen`: the table of size 8 left by
`compute_w_coefficients`, `m = 2`. -/
theorem fft_twiddle_2_4_eq_gen_witness :
    (1 ≤ 8 ∧ ∀ k, k ≤ 8 →
      toC (compute_w_coefficients Real.cos Real.sin Real.pi 8 0 (8 / 2) (fun _ => ⟨0, 0⟩) k) =
        Complex.exp (-2 * Real.pi * Complex.I * k / (8 : Nat))) ∧
    (2 * 2 ∣ 8 → fft_twiddle_gen 0 2 (fun i => ⟨(i : ℝ), 0⟩) 0 (fun _ => ⟨0, 0⟩) 0
        (compute_w_coefficients Real.cos Real.sin Real.pi 8 0 (8 / 2) (fun _ => ⟨0, 0⟩)) 8
        (8 / (2 * 2)) 2 2 =
      some (fft_twiddle_2 0 2 (fun i => ⟨(i : ℝ), 0⟩) 0 (fun _ => ⟨0, 0⟩) 0
        (compute_w_coefficients Real.cos Real.sin Real.pi 8 0 (8 / 2) (fun _ => ⟨0, 0⟩)) 8
        (8 / (2 * 2)) 2)) ∧
    (4 * 2 ∣ 8 → fft_twiddle_gen 0 2 (fun i => ⟨(i : ℝ), 0⟩) 0 (fun _ => ⟨0, 0⟩) 0
        (compute_w_coefficients Real.cos Real.sin Real.pi 8 0 (8 / 2) (fun _ => ⟨0, 0⟩)) 8
        (8 / (4 * 2)) 4 2 =
      some (fft_twiddle_4 0 2 (fun i => ⟨(i : ℝ), 0⟩) 0 (fun _ => ⟨0, 0⟩) 0
        (compute_w_coefficients Real.cos Real.sin Real.pi 8 0 (8 / 2) (fun _ => ⟨0, 0⟩)) 8
        (8 / (4 * 2)) 2)) :=
  have hW : ∀ k, k ≤ 8 →
      toC (compute_w_coefficients Real.cos Real.sin Real.pi 8 0 (8 / 2) (fun _ => ⟨0, 0⟩) k) =
        Complex.exp (-2 * Real.pi * Complex.I * k / (8 : Nat)) := fun k hk => by
    rw [w_table 8 (by decide) _ k hk, ← Complex.exp_nat_mul]
    congr 1
    ring
  ⟨⟨by decide, hW⟩, fft_twiddle_2_4_eq_gen _ 8 2 (by decide) hW _ 0 _ 0⟩

/-- The search loop of `factor`, started at an odd `r ≥ 3` below which the odd `n` has no
divisor: it returns a prime. -/
theorem factor_loop_is_prime (n : Nat) (hn : 2 ≤ n) (hodd : n % 2 = 1) (r : Nat) (hr : 3 ≤ r)
    (hro : r % 2 = 1) (hfree : ∀ d, 2 ≤ d → d < r → ¬ d ∣ n) :
    Nat.Prime (factor_loop n r) := by
  obtain ⟨d, hd⟩ : ∃ d, d = n - r := ⟨_, rfl⟩
  induction d using Nat.strong_induction_on generalizing r with
  | _ d ih =>
    rw [factor_loop]
    split_ifs with h1 h2
    · have hdvd : r ∣ n := Nat.dvd_of_mod_eq_zero h2
      refine Nat.prime_def_lt.2 ⟨by omega, fun k hk hkr => ?_⟩
      by_contra hne
      have hk0 : k ≠ 0 := by
        intro h0
        rw [h0] at hkr
        have := Nat.eq_zero_of_zero_dvd hkr
        omega
      exact hfree k (by omega) hk (dvd_trans hkr hdvd)
    · refine ih (n - (r + 2)) (by omega) (r + 2) (by omega) (by omega) (fun k hk2 hk hkn => ?_) rfl
      by_cases hkr : k < r
      · exact hfree k hk2 hkr hkn
      · by_cases hke : k = r
        · rw [hke] at hkn
          exact h2 (Nat.mod_eq_zero_of_dvd hkn)
        · have hk1 : k = r + 1 := by omega
          have h2k : 2 ∣ k := by omega
          have : 2 ∣ n := dvd_trans h2k hkn
          omega
    · refine Nat.prime_def_lt.2 ⟨hn, fun k hk hkn => ?_⟩
      by_contra hne
      have hk0 : k ≠ 0 := by
        intro h0
        rw [h0] at hkn
        have := Nat.eq_zero_of_zero_dvd hkn
        omega
      exact hfree k (by omega) (by omega) hkn

/-- The values of `factor`: 2, 4, 8, 16 or an odd prime. -/
theorem factor_values (n : Nat) (hn : 2 ≤ n) :
    factor n = 2 ∨ factor n = 4 ∨ factor n = 8 ∨ factor n = 16 ∨
      (Nat.Prime (factor n) ∧ factor n % 2 = 1) := by
  have hd := (factor_spec n hn).1
  unfold factor at hd ⊢
  simp only [and_15, and_7, and_3, and_1] at hd ⊢
  split_ifs at hd ⊢ with h1 h2 h3 h4 h5 h6
  · omega
  · exact Or.inr (Or.inr (Or.inl rfl))
  · exact Or.inr (Or.inr (Or.inr (Or.inl rfl)))
  · exact Or.inr (Or.inr (Or.inl rfl))
  · exact Or.inr (Or.inl rfl)
  · exact Or.inl rfl
  · have hp := factor_loop_is_prime n hn (by omega) 3 (le_refl 3) (by decide)
      (fun d hd2 hd3 hdn => by
        have : d = 2 := by omega
        rw [this] at hdn
        omega)
    refine Or.inr (Or.inr (Or.inr (Or.inr ⟨hp, ?_⟩)))
    rcases hp.eq_two_or_odd with h | h
    · rw [h] at hd
      omega
    · exact h

/-- On a factor list without 32, `fft_aux` never takes a radix-32 branch: it agrees with
`fft_aux_no32`. -/
theorem fft_aux_eq_no32 [Zero R] [Add R] [Sub R] [Mul R] (K : Consts R) (W : Buf R)
    (nW : Nat) :
    ∀ (fs : List Nat), (∀ r, r ∈ fs → r ≠ 32) →
      ∀ (n : Nat) (inp : Buf R) (io : Nat) (out : Buf R) (oo : Nat),
        fft_aux K W nW fs n inp io out oo = fft_aux_no32 K W nW fs n inp io out oo := by
  intro fs
  induction fs with
  | nil =>
    intro _ n inp io out oo
    rw [fft_aux, fft_aux_no32]
  | cons r rest ih =>
    intro h n inp io out oo
    have hr : r ≠ 32 := h r (List.mem_cons_self _ _)
    have ih1 := ih (fun x hx => h x (List.mem_cons_of_mem _ hx))
    rw [fft_aux, fft_aux_no32]
    simp only [if_neg hr]
    generalize hL : forStep n (n / r) _ n 0 _ = sL
    generalize hR : forStep n (n / r) _ n 0 _ = sR
    have e : sL = sR := by
      rw [← hL, ← hR]
      refine forStep_congr _ _ _ _ (fun k st => ?_) _ _ _
      rw [ih1]
    subst e
    rfl

/-- No factor recorded by the factoring loop of `cilk_fft` is 32. -/
theorem factor_list_ne_32 (n : Nat) : ∀ r, r ∈ factor_list n → r ≠ 32 := by
  induction n using Nat.strong_induction_on with
  | _ n ih =>
    intro r hr
    rw [factor_list_eq] at hr
    rcases List.mem_cons.1 hr with h | h
    · rw [h]
      exact factor_ne_32 n
    · split_ifs at h with h1
      · have h2 : 2 ≤ n := by
          by_contra hc
          have hf : factor n = 1 := by
            unfold factor
            rw [if_pos (by omega)]
          rw [hf, Nat.div_one] at h1
          omega
        exact ih (n / factor n) (Nat.div_lt_self (by omega) (factor_spec n h2).2) r h
      · exact absurd h (List.not_mem_nil r)

/-- C38: for `n ≥ 2`, `factor(n)` is 2, 4, 8, 16 or an odd prime and never 32; no factor
recorded by the factoring loop of `cilk_fft` is 32, so a run of `cilk_fft` never takes a
radix-32 branch of `fft_aux` (`fft_unshuffle_32`, `fft_twiddle_32`): it is the run of
`fft_aux_no32`, in which these branches are removed. -/
theorem factor_never_32 (n : Nat) (hn : 2 ≤ n) :
    (factor n = 2 ∨ factor n = 4 ∨ factor n = 8 ∨ factor n = 16 ∨
      (Nat.Prime (factor n) ∧ factor n % 2 = 1)) ∧
    factor n ≠ 32 ∧ (∀ r, r ∈ factor_list n → r ≠ 32) ∧
    ∀ (F : Type) [Zero F] [Add F] [Sub F] [Mul F] [Div F] [Neg F] [NatCast F] (K : Consts F)
      (cosf sinf : F → F) (pi : F) (W0 inp out : Buf F),
      cilk_fft K cosf sinf pi W0 n inp out =
        fft_aux_no32 K (compute_w_coefficients cosf sinf pi n 0 (n / 2) W0) n (factor_list n)
          n inp 0 out 0 := by
  refine ⟨factor_values n hn, factor_ne_32 n, factor_list_ne_32 n, ?_⟩
  intro F _ _ _ _ _ _ _ K cosf sinf pi W0 inp out
  unfold cilk_fft
  exact fft_aux_eq_no32 K _ n (factor_list n) (factor_list_ne_32 n) n inp 0 out 0

/-- Witness of `factor_never_32`: `n = 96`, whose factors are 16, 2 and 3. -/
theorem factor_never_32_witness :
    2 ≤ 96 ∧
    ((factor 96 = 2 ∨ factor 96 = 4 ∨ factor 96 = 8 ∨ factor 96 = 16 ∨
      (Nat.Prime (factor 96) ∧ factor 96 % 2 = 1)) ∧
    factor 96 ≠ 32 ∧ (∀ r, r ∈ factor_list 96 → r ≠ 32) ∧
    ∀ (F : Type) [Zero F] [Add F] [Sub F] [Mul F] [Div F] [Neg F] [NatCast F] (K : Consts F)
      (cosf sinf : F → F) (pi : F) (W0 inp out : Buf F),
      cilk_fft K cosf sinf pi W0 96 inp out =
        fft_aux_no32 K (compute_w_coefficients cosf sinf pi 96 0 (96 / 2) W0) 96
          (factor_list 96) 96 inp 0 out 0) :=
  ⟨by decide, factor_never_32 96 (by decide)⟩

end Fft

/-! ## lu.c : theorems -/

namespace Lu

open Loop

variable {R : Type}

theorem shiftRight_one (v : Int) : v >>> (1 : Nat) = v / 2 := by
  rw [Int.shiftRight_eq_div_pow]
  norm_num

theorem invalid_input_loop_pos (v : Int) (hv : 0 < v) :
    ∃ w, invalid_input_loop v = some w ∧ (w = 1 ↔ ∃ k : Nat, v = 2 ^ k) := by
  obtain ⟨d, hd⟩ : ∃ d : Nat, d = v.natAbs := ⟨_, rfl⟩
  induction d using Nat.strong_induction_on generalizing v with
  | _ d ih =>
    rw [invalid_input_loop]
    by_cases h2 : v % 2 = 0
    · rw [if_pos h2, if_neg (by omega), shiftRight_one]
      obtain ⟨w, hw, hw1⟩ := ih (v / 2).natAbs (by omega) (v / 2) (by omega) rfl
      refine ⟨w, hw, hw1.trans ⟨?_, ?_⟩⟩
      · rintro ⟨k, hk⟩
        refine ⟨k + 1, ?_⟩
        rw [pow_succ, ← hk]
        omega
      · rintro ⟨k, hk⟩
        cases k with
        | zero => simp at hk; omega
        | succ k =>
          refine ⟨k, ?_⟩
          rw [pow_succ] at hk
          omega
    · rw [if_neg h2]
      refine ⟨v, rfl, ⟨fun h => ⟨0, by simp [h]⟩, ?_⟩⟩
      rintro ⟨k, hk⟩
      cases k with
      | zero => simpa using hk
      | succ k =>
        rw [pow_succ] at hk
        omega

/-- C6: `invalid_input n` returns for every `n` (it is never `none`); it returns 0 exactly
when `n` is a power of two with `n ≥ BLOCK_SIZE`, and a non-zero value otherwise; every
accepted `n` is a multiple of `BLOCK_SIZE` and `n / BLOCK_SIZE` is a power of two. -/
theorem invalid_input_spec (n : Int) :
    (∃ r, invalid_input n = some r) ∧
    (invalid_input n = some 0 ↔ (BLOCK_SIZE : Int) ≤ n ∧ ∃ k : Nat, n = 2 ^ k) ∧
    (invalid_input n ≠ some 0 → ∃ r, r ≠ 0 ∧ invalid_input n = some r) ∧
    (invalid_input n = some 0 →
      n % (BLOCK_SIZE : Int) = 0 ∧ ∃ j : Nat, n / (BLOCK_SIZE : Int) = 2 ^ j) := by
  have key : (invalid_input n = some 0 ↔ (BLOCK_SIZE : Int) ≤ n ∧ ∃ k : Nat, n = 2 ^ k) ∧
      (invalid_input n = some 0 ∨ invalid_input n = some 1) := by
    unfold invalid_input
    simp only [BLOCK_SIZE, usage]
    by_cases h : n < ((16 : Nat) : Int)
    · rw [if_pos h]
      constructor
      · constructor
        · intro h0; simp at h0
        · rintro ⟨h1, _⟩; omega
      · right; rfl
    · rw [if_neg h]
      obtain ⟨w, hw, hw1⟩ := invalid_input_loop_pos n (by omega)
      rw [hw]
      by_cases h1 : w = 1
      · simp only [h1, ne_eq, not_true_eq_false, if_false]
        refine ⟨⟨fun _ => ⟨by omega, hw1.1 h1⟩, fun _ => trivial⟩, by simp⟩
      · simp only [ne_eq, h1, not_false_eq_true, if_true]
        refine ⟨⟨fun h0 => by simp at h0, fun h0 => absurd (hw1.2 h0.2) h1⟩, by simp⟩
  refine ⟨?_, key.1, ?_, ?_⟩
  · rcases key.2 with h | h <;> exact ⟨_, h⟩
  · intro h
    rcases key.2 with h' | h'
    · exact absurd h' h
    · exact ⟨1, by decide, h'⟩
  · intro h
    obtain ⟨h16, k, hk⟩ := key.1.1 h
    simp only [BLOCK_SIZE] at h16 ⊢
    have hk4 : 4 ≤ k := by
      by_contra hc
      have : k = 0 ∨ k = 1 ∨ k = 2 ∨ k = 3 := by omega
      rcases this with rfl | rfl | rfl | rfl <;> norm_num at hk <;> omega
    obtain ⟨j, rfl⟩ : ∃ j, k = j + 4 := ⟨k - 4, by omega⟩
    rw [pow_add] at hk
    norm_num at hk
    constructor
    · omega
    · refine ⟨j, ?_⟩
      push_cast
      omega


theorem write_mem_apply (mem : Mem R) (B i j : Nat) (v : R) (Z r c : Nat) :
    write mem B i j v Z r c = if Z = B ∧ r = i ∧ c = j then v else mem Z r c := rfl

/-- The effect of `elem_daxmy` when the rows of `x` and `y` are not the same row. -/
theorem elem_daxmy_spec [Sub R] [Mul R] (a : R) (X xi xj Y yi yj : Nat)
    (hne : ¬ (X = Y ∧ xi = yi)) (n : Nat) :
    ∀ (mem : Mem R) (Z r c : Nat), elem_daxmy a X xi xj Y yi yj n mem Z r c =
      if Z = Y ∧ r = yi ∧ yj ≤ c ∧ c < yj + n then
        mem Y yi c - a * mem X xi (xj + (c - yj))
      else mem Z r c := by
  induction n with
  | zero =>
    intro mem Z r c
    rw [elem_daxmy, if_neg (by omega)]
  | succ n ih =>
    intro mem Z r c
    rw [elem_daxmy, ih]
    have hx : ∀ m, write mem Y yi (yj + n) (mem Y yi (yj + n) - a * mem X xi (xj + n)) X xi m =
        mem X xi m := by
      intro m
      rw [write_mem_apply, if_neg (fun h => hne ⟨h.1, h.2.1⟩)]
    by_cases h : Z = Y ∧ r = yi ∧ yj ≤ c ∧ c < yj + n
    · rw [if_pos h, if_pos (by omega), hx, write_mem_apply, if_neg (by omega)]
    · rw [if_neg h, write_mem_apply]
      by_cases h2 : Z = Y ∧ r = yi ∧ c = yj + n
      · rw [if_pos h2, if_pos (by omega)]
        obtain ⟨rfl, rfl, rfl⟩ := h2
        rw [Nat.add_sub_cancel_left]
      · rw [if_neg h2, if_neg (by omega)]

/-- One row of `block_schur`: row `i` of `B` loses the products of row `i` of `A` with the
columns of `C`. -/
theorem block_schur_row [CommRing R] (B A C i : Nat) (hA : A ≠ B) (hC : C ≠ B) (s0 : Mem R)
    (Z r c : Nat) :
    forUp 0 16 (fun k (mem : Mem R) => elem_daxmy (mem A i k) C k 0 B i 0 16 mem) s0 Z r c =
      if Z = B ∧ r = i ∧ c < 16 then
        s0 B i c - ∑ k in Finset.range 16, s0 A i k * s0 C k c
      else s0 Z r c := by
  have key := forUp_induction (fun k (s : Mem R) => ∀ Z r c, s Z r c =
      if Z = B ∧ r = i ∧ c < 16 then s0 B i c - ∑ m in Finset.range k, s0 A i m * s0 C m c
      else s0 Z r c) 0 16
    (fun k (mem : Mem R) => elem_daxmy (mem A i k) C k 0 B i 0 16 mem) s0 (by decide) ?_ ?_
  · exact key Z r c
  · intro Z r c
    by_cases h : Z = B ∧ r = i ∧ c < 16
    · obtain ⟨rfl, rfl, _⟩ := h
      simp
    · rw [if_neg h]
  · intro k s _ _ ih Z r c
    beta_reduce
    rw [elem_daxmy_spec _ _ _ _ _ _ _ (fun h => hC h.1)]
    have eA : s A i k = s0 A i k := by rw [ih, if_neg (fun h => hA h.1)]
    have eC : ∀ m, s C k m = s0 C k m := fun m => by rw [ih, if_neg (fun h => hC h.1)]
    by_cases h : Z = B ∧ r = i ∧ c < 16
    · rw [if_pos (by omega), if_pos h, eA, eC, ih, if_pos ⟨rfl, rfl, h.2.2⟩,
        Finset.sum_range_succ, Nat.zero_add, Nat.sub_zero]
      ring
    · rw [if_neg (by omega), if_neg h, ih, if_neg h]

/-- The function `block_schur` computes `B - A * C` in the block `B`, for `B` apart from `A`
and `C`. -/
theorem block_schur_spec [CommRing R] (B A C : Nat) (hA : A ≠ B) (hC : C ≠ B) (mem : Mem R)
    (Z r c : Nat) :
    block_schur B A C mem Z r c =
      if Z = B ∧ r < 16 ∧ c < 16 then
        mem B r c - ∑ k in Finset.range 16, mem A r k * mem C k c
      else mem Z r c := by
  unfold block_schur BLOCK_SIZE
  have key := forUp_induction (fun i (s : Mem R) => ∀ Z r c, s Z r c =
      if Z = B ∧ r < i ∧ c < 16 then mem B r c - ∑ k in Finset.range 16, mem A r k * mem C k c
      else mem Z r c) 0 16
    (fun i (mem : Mem R) => forUp 0 16
      (fun k (mem : Mem R) => elem_daxmy (mem A i k) C k 0 B i 0 16 mem) mem) mem
    (by decide) ?_ ?_
  · exact key Z r c
  · intro Z r c
    rw [if_neg (by omega)]
  · intro i s _ hi ih Z r c
    beta_reduce
    rw [block_schur_row B A C i hA hC s]
    have eA : ∀ m, s A i m = mem A i m := fun m => by rw [ih, if_neg (fun h => hA h.1)]
    have eC : ∀ k m, s C k m = mem C k m := fun k m => by rw [ih, if_neg (fun h => hC h.1)]
    by_cases h : Z = B ∧ r = i ∧ c < 16
    · obtain ⟨rfl, rfl, hc⟩ := h
      rw [if_pos ⟨rfl, rfl, hc⟩, if_pos ⟨rfl, by omega, hc⟩, ih, if_neg (by omega)]
      simp only [eA, eC]
    · rw [if_neg h, ih]
      by_cases h2 : Z = B ∧ r < i ∧ c < 16
      · rw [if_pos h2, if_pos (by omega)]
      · rw [if_neg h2, if_neg (by omega)]

/-- One row of `block_lower_solve`. -/
theorem block_lower_solve_row [CommRing R] (B L i : Nat) (hL : L ≠ B) (s0 : Mem R)
    (Z r c : Nat) :
    forUp 0 i (fun k (mem : Mem R) => elem_daxmy (mem L i k) B k 0 B i 0 16 mem) s0 Z r c =
      if Z = B ∧ r = i ∧ c < 16 then
        s0 B i c - ∑ k in Finset.range i, s0 L i k * s0 B k c
      else s0 Z r c := by
  have key := forUp_induction (fun k (s : Mem R) => ∀ Z r c, s Z r c =
      if Z = B ∧ r = i ∧ c < 16 then s0 B i c - ∑ m in Finset.range k, s0 L i m * s0 B m c
      else s0 Z r c) 0 i
    (fun k (mem : Mem R) => elem_daxmy (mem L i k) B k 0 B i 0 16 mem) s0 (Nat.zero_le _)
    ?_ ?_
  · exact key Z r c
  · intro Z r c
    by_cases h : Z = B ∧ r = i ∧ c < 16
    · obtain ⟨rfl, rfl, _⟩ := h
      simp
    · rw [if_neg h]
  · intro k s _ hk ih Z r c
    beta_reduce
    rw [elem_daxmy_spec _ _ _ _ _ _ _ (fun h => by omega)]
    have eL : s L i k = s0 L i k := by rw [ih, if_neg (fun h => hL h.1)]
    have eB : ∀ m, s B k m = s0 B k m := fun m => by rw [ih, if_neg (by omega)]
    by_cases h : Z = B ∧ r = i ∧ c < 16
    · rw [if_pos (by omega), if_pos h, eL, eB, ih, if_pos ⟨rfl, rfl, h.2.2⟩,
        Finset.sum_range_succ, Nat.zero_add, Nat.sub_zero]
      ring
    · rw [if_neg (by omega), if_neg h, ih, if_neg h]

/-- The function `block_lower_solve` leaves in `B` the solution `X` of `L' * X = B`, where
`L'` is the strict lower triangle of `L` with a unit diagonal; `B` apart from `L`. -/
theorem block_lower_solve_spec [CommRing R] (B L : Nat) (hL : L ≠ B) (mem : Mem R) :
    (∀ Z r c, Z ≠ B → block_lower_solve B L mem Z r c = mem Z r c) ∧
    (∀ r c, r < 16 → c < 16 → mem B r c = block_lower_solve B L mem B r c +
      ∑ k in Finset.range r, mem L r k * block_lower_solve B L mem B k c) := by
  unfold block_lower_solve BLOCK_SIZE
  have key := forUp_induction (fun i (s : Mem R) =>
      (∀ Z r c, (Z ≠ B ∨ i ≤ r ∨ 16 ≤ c) → s Z r c = mem Z r c) ∧
      (∀ r c, r < i → c < 16 → mem B r c = s B r c +
        ∑ k in Finset.range r, mem L r k * s B k c)) 1 16
    (fun i (mem : Mem R) => forUp 0 i
      (fun k (mem : Mem R) => elem_daxmy (mem L i k) B k 0 B i 0 16 mem) mem) mem
    (by decide) ?_ ?_
  · exact ⟨fun Z r c h => key.1 Z r c (Or.inl h), fun r c hr hc => key.2 r c hr hc⟩
  · refine ⟨fun _ _ _ _ => rfl, fun r c hr hc => ?_⟩
    have : r = 0 := by omega
    subst this
    simp
  · intro i s _ hi ⟨ih1, ih2⟩
    beta_reduce
    refine ⟨fun Z r c h => ?_, fun r c hr hc => ?_⟩
    · rw [block_lower_solve_row B L i hL s, if_neg (by omega)]
      exact ih1 Z r c (by omega)
    · have e : ∀ m, m < i → forUp 0 i
          (fun k (mem : Mem R) => elem_daxmy (mem L i k) B k 0 B i 0 16 mem) s B m c =
          s B m c := by
        intro m hm
        rw [block_lower_solve_row B L i hL s, if_neg (by omega)]
      have e2 : ∀ n, n ≤ i → ∑ k in Finset.range n, mem L r k * forUp 0 i
          (fun k (mem : Mem R) => elem_daxmy (mem L i k) B k 0 B i 0 16 mem) s B k c =
          ∑ k in Finset.range n, mem L r k * s B k c := by
        intro n hn
        refine Finset.sum_congr rfl (fun k hk => ?_)
        rw [e k (by have := Finset.mem_range.1 hk; omega)]
      rw [e2 r (by omega)]
      by_cases hri : r = i
      · subst hri
        rw [block_lower_solve_row B L r hL s, if_pos ⟨rfl, rfl, hc⟩, ih1 B r c (by omega)]
        have : ∀ k, s L r k = mem L r k := fun k => ih1 L r k (Or.inl hL)
        simp only [this]
        ring
      · rw [e r (by omega)]
        exact ih2 r c (by omega) hc

/-- The division followed by `elem_daxmy` in the bodies of `block_lu` (`P = B`, `p = k`) and
`block_upper_solve` (`P = U`), on row `i` of `B` with pivot row `p` of `P`. -/
theorem pivot_step [Field R] (B P i k : Nat) (hne : ¬ (P = B ∧ k = i)) (hk : k < 16)
    (mem : Mem R) (Z r c : Nat) :
    elem_daxmy (write mem B i k (mem B i k / mem P k k) B i k) P k (k + 1) B i (k + 1)
        (BLOCK_SIZE - k - 1) (write mem B i k (mem B i k / mem P k k)) Z r c =
      if Z = B ∧ r = i then
        (if c = k then mem B i k / mem P k k
         else if k < c ∧ c < 16 then mem B i c - mem B i k / mem P k k * mem P k c
         else mem B i c)
      else mem Z r c := by
  rw [elem_daxmy_spec _ _ _ _ _ _ _ hne]
  unfold BLOCK_SIZE
  have eP : ∀ m, write mem B i k (mem B i k / mem P k k) P k m = mem P k m := by
    intro m
    rw [write_mem_apply, if_neg (fun h => hne ⟨h.1, h.2.1⟩)]
  by_cases h : Z = B ∧ r = i
  · rw [if_pos h]
    obtain ⟨hZ, hr⟩ := h
    by_cases hc : c = k
    · rw [if_neg (by omega), if_pos hc, write_mem_apply, if_pos ⟨hZ, hr, hc⟩]
    · rw [if_neg hc]
      by_cases hc2 : k < c ∧ c < 16
      · rw [if_pos (by omega), if_pos hc2, eP, write_mem_apply, if_neg (by omega), write_mem_apply,
          if_pos ⟨rfl, rfl, rfl⟩]
        congr 3
        omega
      · rw [if_neg (by omega), if_neg hc2, write_mem_apply, if_neg (by omega), hZ, hr]
  · rw [if_neg (by omega), if_neg h, write_mem_apply, if_neg (by omega)]

/-- One row of `block_upper_solve`. -/
theorem block_upper_solve_row [Field R] [DecidableEq R] (B U i : Nat) (hU : U ≠ B)
    (s0 : Mem R) :
    Sat (fun e => e = Fault.divisionByZero)
      (fun s : Mem R => (∀ Z r c, ¬ (Z = B ∧ r = i) → s Z r c = s0 Z r c) ∧
        ∀ c, c < 16 → s0 B i c = ∑ m in Finset.range (c + 1), s B i m * s0 U m c)
      (forUpM 0 BLOCK_SIZE (fun k (mem : Mem R) =>
        if mem U k k = 0 then Except.error Fault.divisionByZero
        else
          let mem := write mem B i k (mem B i k / mem U k k)
          Except.ok (elem_daxmy (mem B i k) U k (k + 1) B i (k + 1) (BLOCK_SIZE - k - 1) mem))
        s0) := by
  have key := forUpM_induction (fun e => e = Fault.divisionByZero)
    (fun k (s : Mem R) => (∀ Z r c, ¬ (Z = B ∧ r = i) → s Z r c = s0 Z r c) ∧
      ∀ c, c < 16 → s0 B i c = ∑ m in Finset.range (min k (c + 1)), s B i m * s0 U m c +
        (if k ≤ c then s B i c else 0)) 0 BLOCK_SIZE
    (fun k (mem : Mem R) =>
        if mem U k k = 0 then Except.error Fault.divisionByZero
        else
          let mem := write mem B i k (mem B i k / mem U k k)
          Except.ok (elem_daxmy (mem B i k) U k (k + 1) B i (k + 1) (BLOCK_SIZE - k - 1) mem))
    s0 (Nat.zero_le _) ?_ ?_
  · refine Sat_mono _ _ _ _ key (fun s hs => ⟨hs.1, fun c hc => ?_⟩)
    have := hs.2 c hc
    unfold BLOCK_SIZE at this
    rw [Nat.min_eq_right (by omega), if_neg (by omega), add_zero] at this
    exact this
  · refine ⟨fun _ _ _ _ => rfl, fun c _ => ?_⟩
    simp
  · intro k s _ hk ⟨ih1, ih2⟩
    unfold BLOCK_SIZE at hk
    beta_reduce
    by_cases hz : s U k k = 0
    · rw [if_pos hz]
      rfl
    · rw [if_neg hz, Sat_ok]
      have st := pivot_step B U i k (fun h => hU h.1) hk s
      refine ⟨fun Z r c h => ?_, fun c hc => ?_⟩
      · rw [st, if_neg h]
        exact ih1 Z r c h
      · have eU : ∀ m n, s U m n = s0 U m n := fun m n => ih1 U m n (fun h => hU h.1)
        have old : ∀ m, m < k → elem_daxmy (write s B i k (s B i k / s U k k) B i k) U k (k + 1)
            B i (k + 1) (BLOCK_SIZE - k - 1) (write s B i k (s B i k / s U k k)) B i m =
            s B i m := by
          intro m hm
          rw [st, if_pos ⟨rfl, rfl⟩, if_neg (by omega), if_neg (by omega)]
        have hsum : ∀ n, n ≤ k → ∑ m in Finset.range n,
            elem_daxmy (write s B i k (s B i k / s U k k) B i k) U k (k + 1)
              B i (k + 1) (BLOCK_SIZE - k - 1) (write s B i k (s B i k / s U k k)) B i m *
              s0 U m c = ∑ m in Finset.range n, s B i m * s0 U m c := by
          intro n hn
          refine Finset.sum_congr rfl (fun m hm => ?_)
          rw [old m (by have := Finset.mem_range.1 hm; omega)]
        have g := ih2 c hc
        rcases Nat.lt_trichotomy c k with h | h | h
        · rw [Nat.min_eq_right (by omega), if_neg (by omega)] at g
          rw [Nat.min_eq_right (by omega), if_neg (by omega), hsum _ (by omega)]
          exact g
        · subst h
          rw [Nat.min_eq_left (by omega), if_pos (le_refl _)] at g
          rw [Nat.min_eq_left (by omega), if_neg (by omega), Finset.sum_range_succ,
            hsum _ (le_refl _), st, if_pos ⟨rfl, rfl⟩, if_pos rfl, g, eU,
            div_mul_cancel₀ _ (by rw [← eU]; exact hz), add_zero]
        · rw [Nat.min_eq_left (by omega), if_pos (by omega)] at g
          rw [Nat.min_eq_left (by omega), if_pos (by omega), Finset.sum_range_succ,
            hsum _ (le_refl _), st, if_pos ⟨rfl, rfl⟩, if_pos rfl, st, if_pos ⟨rfl, rfl⟩,
            if_neg (by omega), if_pos ⟨h, hc⟩, g, eU, eU]
          ring

/-- The function `block_upper_solve` leaves in `B` the solution `X` of `X * U' = B`, where
`U'` is the upper triangle of `U`; `B` apart from `U`. -/
theorem block_upper_solve_spec [Field R] [DecidableEq R] (B U : Nat) (hU : U ≠ B)
    (mem : Mem R) :
    Sat (fun e => e = Fault.divisionByZero)
      (fun s : Mem R => (∀ Z r c, Z ≠ B → s Z r c = mem Z r c) ∧
        ∀ r c, r < 16 → c < 16 →
          mem B r c = ∑ m in Finset.range (c + 1), s B r m * mem U m c)
      (block_upper_solve B U mem) := by
  unfold block_upper_solve
  have key := forUpM_induction (fun e => e = Fault.divisionByZero)
    (fun i (s : Mem R) => (∀ Z r c, (Z ≠ B ∨ i ≤ r) → s Z r c = mem Z r c) ∧
      ∀ r c, r < i → c < 16 →
        mem B r c = ∑ m in Finset.range (c + 1), s B r m * mem U m c) 0 BLOCK_SIZE
    (fun i (mem : Mem R) => forUpM 0 BLOCK_SIZE (fun k (mem : Mem R) =>
        if mem U k k = 0 then Except.error Fault.divisionByZero
        else
          let mem := write mem B i k (mem B i k / mem U k k)
          Except.ok (elem_daxmy (mem B i k) U k (k + 1) B i (k + 1) (BLOCK_SIZE - k - 1) mem))
        mem)
    mem (Nat.zero_le _) ?_ ?_
  · refine Sat_mono _ _ _ _ key (fun s hs => ⟨fun Z r c h => hs.1 Z r c (Or.inl h), ?_⟩)
    exact fun r c hr hc => hs.2 r c hr hc
  · exact ⟨fun _ _ _ _ => rfl, fun r c hr _ => absurd hr (Nat.not_lt_zero _)⟩
  · intro i s _ hi ⟨ih1, ih2⟩
    refine Sat_mono _ _ _ _ (block_upper_solve_row B U i hU s) (fun s1 ⟨g1, g2⟩ => ?_)
    refine ⟨fun Z r c h => ?_, fun r c hr hc => ?_⟩
    · rw [g1 Z r c (by omega)]
      exact ih1 Z r c (by omega)
    · have eU : ∀ m n, s U m n = mem U m n := fun m n => ih1 U m n (Or.inl hU)
      by_cases hri : r = i
      · subst hri
        have := g2 c hc
        rw [ih1 B r c (Or.inr (le_refl _))] at this
        simp only [eU] at this
        exact this
      · have e : ∀ m, s1 B r m = s B r m := fun m => g1 B r m (by omega)
        simp only [e]
        exact ih2 r c (by omega) hc

/-- The inner loop of `block_lu` for the pivot `k`: the rows below row `k` of `B` are
eliminated with row `k`. -/
theorem block_lu_col [Field R] [DecidableEq R] (B k : Nat) (hk : k < 16) (s0 : Mem R) :
    Sat (fun e => e = Fault.divisionByZero)
      (fun s : Mem R => (k + 1 < 16 → s0 B k k ≠ 0) ∧
        ∀ Z r c, s Z r c =
          if Z = B ∧ k < r ∧ r < 16 then
            (if c = k then s0 B r k / s0 B k k
             else if k < c ∧ c < 16 then s0 B r c - s0 B r k / s0 B k k * s0 B k c
             else s0 B r c)
          else s0 Z r c)
      (forUpM (k + 1) BLOCK_SIZE (fun i (mem : Mem R) =>
        if mem B k k = 0 then Except.error Fault.divisionByZero
        else
          let mem := write mem B i k (mem B i k / mem B k k)
          Except.ok (elem_daxmy (mem B i k) B k (k + 1) B i (k + 1) (BLOCK_SIZE - k - 1) mem))
        s0) := by
  have key := forUpM_induction (fun e => e = Fault.divisionByZero)
    (fun i (s : Mem R) => (k + 1 < i → s0 B k k ≠ 0) ∧
        ∀ Z r c, s Z r c =
          if Z = B ∧ k < r ∧ r < i then
            (if c = k then s0 B r k / s0 B k k
             else if k < c ∧ c < 16 then s0 B r c - s0 B r k / s0 B k k * s0 B k c
             else s0 B r c)
          else s0 Z r c) (k + 1) BLOCK_SIZE
    (fun i (mem : Mem R) =>
        if mem B k k = 0 then Except.error Fault.divisionByZero
        else
          let mem := write mem B i k (mem B i k / mem B k k)
          Except.ok (elem_daxmy (mem B i k) B k (k + 1) B i (k + 1) (BLOCK_SIZE - k - 1) mem))
    s0 (by unfold BLOCK_SIZE; omega) ?_ ?_
  · exact key
  · refine ⟨fun h => absurd h (lt_irrefl _), fun Z r c => ?_⟩
    rw [if_neg (by omega)]
  · intro i s hki hi ⟨_, ih⟩
    unfold BLOCK_SIZE at hi
    beta_reduce
    have ek : ∀ c, s B k c = s0 B k c := fun c => by rw [ih, if_neg (by omega)]
    have ei : ∀ c, s B i c = s0 B i c := fun c => by rw [ih, if_neg (by omega)]
    by_cases hz : s B k k = 0
    · rw [if_pos hz]
      rfl
    · rw [if_neg hz, Sat_ok]
      have st := pivot_step B B i k (fun h => by omega) hk s
      refine ⟨fun _ => by rw [← ek]; exact hz, fun Z r c => ?_⟩
      rw [st]
      by_cases h : Z = B ∧ r = i
      · obtain ⟨hZ, hr⟩ := h
        rw [if_pos ⟨hZ, hr⟩,
          if_pos (show Z = B ∧ k < r ∧ r < i + 1 from ⟨hZ, by omega, by omega⟩), hr]
        simp only [ek, ei]
      · rw [if_neg h, ih]
        by_cases h2 : Z = B ∧ k < r ∧ r < i
        · rw [if_pos h2,
            if_pos (show Z = B ∧ k < r ∧ r < i + 1 from ⟨h2.1, h2.2.1, by omega⟩)]
        · rw [if_neg h2, if_neg (show ¬ (Z = B ∧ k < r ∧ r < i + 1) from by omega)]

/-- One pivot step of `block_lu` keeps the partial factorisation. -/
theorem block_lu_step [Field R] (B k : Nat) (hk : k < 16) (mem s s1 : Mem R)
    (hp : k + 1 < 16 → s B k k ≠ 0)
    (h1 : ∀ Z r c, s1 Z r c =
      if Z = B ∧ k < r ∧ r < 16 then
        (if c = k then s B r k / s B k k
         else if k < c ∧ c < 16 then s B r c - s B r k / s B k k * s B k c
         else s B r c)
      else s Z r c)
    (ih : ∀ i j, i < 16 → j < 16 → mem B i j =
      ∑ m in Finset.range (min k (min i (j + 1))), s B i m * s B m j +
        (if i ≤ j ∨ k ≤ j then s B i j else 0))
    (i j : Nat) (hi : i < 16) (hj : j < 16) :
    mem B i j = ∑ m in Finset.range (min (k + 1) (min i (j + 1))), s1 B i m * s1 B m j +
      (if i ≤ j ∨ k + 1 ≤ j then s1 B i j else 0) := by
  have hrow : ∀ r c, r ≤ k → s1 B r c = s B r c := fun r c hr => by
    rw [h1, if_neg (by omega)]
  have hlow : ∀ r c, c < k → s1 B r c = s B r c := fun r c hc => by
    rw [h1]
    by_cases h : B = B ∧ k < r ∧ r < 16
    · rw [if_pos h, if_neg (by omega), if_neg (by omega)]
    · rw [if_neg h]
  have hpiv : ∀ r, k < r → r < 16 → s1 B r k = s B r k / s B k k := fun r h2 h3 => by
    rw [h1, if_pos ⟨rfl, h2, h3⟩, if_pos rfl]
  have hupd : ∀ r c, k < r → r < 16 → k < c → c < 16 →
      s1 B r c = s B r c - s B r k / s B k k * s B k c := fun r c h2 h3 h4 h5 => by
    rw [h1, if_pos ⟨rfl, h2, h3⟩, if_neg (by omega), if_pos ⟨h4, h5⟩]
  have hsum : ∀ n, n ≤ k → ∑ m in Finset.range n, s1 B i m * s1 B m j =
      ∑ m in Finset.range n, s B i m * s B m j := by
    intro n hn
    refine Finset.sum_congr rfl (fun m hm => ?_)
    have hm := Finset.mem_range.1 hm
    rw [hlow i m (by omega), hrow m j (by omega)]
  have g := ih i j hi hj
  by_cases hik : i ≤ k
  · rw [show min (k + 1) (min i (j + 1)) = min k (min i (j + 1)) by omega,
      hsum _ (by omega), hrow i j hik]
    by_cases hij : i ≤ j
    · rw [if_pos (Or.inl hij)] at g ⊢
      exact g
    · rw [if_neg (by omega)] at g ⊢
      exact g
  · rcases Nat.lt_trichotomy j k with h | h | h
    · rw [show min (k + 1) (min i (j + 1)) = j + 1 by omega, hsum _ (by omega),
        if_neg (by omega)]
      rw [show min k (min i (j + 1)) = j + 1 by omega, if_neg (by omega)] at g
      exact g
    · subst h
      rw [show min (j + 1) (min i (j + 1)) = j + 1 by omega, Finset.sum_range_succ,
        hsum _ (le_refl _), if_neg (by omega), hpiv i (by omega) hi, hrow j j (le_refl _),
        div_mul_cancel₀ _ (hp (by omega)), add_zero]
      rw [show min j (min i (j + 1)) = j by omega, if_pos (Or.inr (le_refl _))] at g
      exact g
    · rw [show min (k + 1) (min i (j + 1)) = k + 1 by omega, Finset.sum_range_succ,
        hsum _ (le_refl _), if_pos (Or.inr (by omega)), hpiv i (by omega) hi,
        hrow k j (le_refl _), hupd i j (by omega) hi h hj]
      rw [show min k (min i (j + 1)) = k by omega, if_pos (Or.inr (by omega))] at g
      rw [g]
      ring

/-- The function `block_lu` leaves in `B` the factors of `B = L' * U'`: `L'` is the strict
lower triangle of the result with a unit diagonal, `U'` its upper triangle. -/
theorem block_lu_spec [Field R] [DecidableEq R] (B : Nat) (mem : Mem R) :
    Sat (fun e => e = Fault.divisionByZero)
      (fun s : Mem R => (∀ Z r c, Z ≠ B → s Z r c = mem Z r c) ∧
        ∀ i j, i < 16 → j < 16 → mem B i j =
          ∑ m in Finset.range (min i (j + 1)), s B i m * s B m j +
            (if i ≤ j then s B i j else 0))
      (block_lu B mem) := by
  unfold block_lu
  have key := forUpM_induction (fun e => e = Fault.divisionByZero)
    (fun k (s : Mem R) => (∀ Z r c, Z ≠ B → s Z r c = mem Z r c) ∧
      ∀ i j, i < 16 → j < 16 → mem B i j =
        ∑ m in Finset.range (min k (min i (j + 1))), s B i m * s B m j +
          (if i ≤ j ∨ k ≤ j then s B i j else 0)) 0 BLOCK_SIZE
    (fun k (mem : Mem R) => forUpM (k + 1) BLOCK_SIZE (fun i (mem : Mem R) =>
        if mem B k k = 0 then Except.error Fault.divisionByZero
        else
          let mem := write mem B i k (mem B i k / mem B k k)
          Except.ok (elem_daxmy (mem B i k) B k (k + 1) B i (k + 1) (BLOCK_SIZE - k - 1) mem))
        mem)
    mem (Nat.zero_le _) ?_ ?_
  · refine Sat_mono _ _ _ _ key (fun s hs => ⟨hs.1, fun i j hi hj => ?_⟩)
    have := hs.2 i j hi hj
    unfold BLOCK_SIZE at this
    rw [show min 16 (min i (j + 1)) = min i (j + 1) by omega] at this
    by_cases hij : i ≤ j
    · rw [if_pos (Or.inl hij)] at this
      rw [if_pos hij]
      exact this
    · rw [if_neg (by omega)] at this
      rw [if_neg hij]
      exact this
  · refine ⟨fun _ _ _ _ => rfl, fun i j _ _ => ?_⟩
    simp
  · intro k s _ hk ⟨ih1, ih2⟩
    unfold BLOCK_SIZE at hk
    refine Sat_mono _ _ _ _ (block_lu_col B k hk s) (fun s1 ⟨hp, h1⟩ => ⟨fun Z r c hZ => ?_, ?_⟩)
    · rw [h1, if_neg (fun h => hZ h.1)]
      exact ih1 Z r c hZ
    · exact block_lu_step B k hk mem s s1 hp h1 ih2

theorem Frame.trans {Wd : Nat} {G G1 G2 : Nat → Nat → R} {r c nr nc r1 c1 nr1 nc1 r2 c2 nr2
    nc2 : Nat} (h1 : Frame Wd G G1 r1 c1 nr1 nc1) (h2 : Frame Wd G1 G2 r2 c2 nr2 nc2)
    (s1 : r ≤ r1 ∧ r1 + nr1 ≤ r + nr ∧ c ≤ c1 ∧ c1 + nc1 ≤ c + nc)
    (s2 : r ≤ r2 ∧ r2 + nr2 ≤ r + nr ∧ c ≤ c2 ∧ c2 + nc2 ≤ c + nc) :
    Frame Wd G G2 r c nr nc := by
  intro i j hj hout
  rw [h2 i j hj (by omega), h1 i j hj (by omega)]

/-- Two Schur steps on column panels side by side. -/
theorem schur_hcat [CommRing R] (Wd : Nat) (G0 G1 G2 : Nat → Nat → R)
    (rm cm rv cv rw cw nr nc1 nc2 nk : Nat)
    (hm : cm + nc1 + nc2 ≤ Wd) (hv : cv + nk ≤ Wd) (hw : cw + nc1 + nc2 ≤ Wd)
    (av : Apart rm cm nr (nc1 + nc2) rv cv nr nk)
    (aw : Apart rm cm nr (nc1 + nc2) rw cw nk (nc1 + nc2))
    (h1 : SchurRel Wd G0 G1 rm cm rv cv rw cw nr nc1 nk)
    (h2 : SchurRel Wd G1 G2 rm (cm + nc1) rv cv rw (cw + nc1) nr nc2 nk) :
    SchurRel Wd G0 G2 rm cm rv cv rw cw nr (nc1 + nc2) nk := by
  unfold Apart at av aw
  refine ⟨fun i j hi hj => ?_, Frame.trans h1.2 h2.2 (by omega) (by omega)⟩
  by_cases hjl : j < nc1
  · rw [h2.2 _ _ (by omega) (by omega), h1.1 i j hi hjl]
  · obtain ⟨j1, rfl⟩ : ∃ j1, j = nc1 + j1 := ⟨j - nc1, by omega⟩
    have := h2.1 i j1 hi (by omega)
    rw [Nat.add_assoc, Nat.add_assoc] at this
    rw [this, h1.2 _ _ (by omega) (by omega)]
    congr 1
    refine Finset.sum_congr rfl (fun k hk => ?_)
    have hk := Finset.mem_range.1 hk
    rw [h1.2 _ _ (by omega) (by omega), h1.2 _ _ (by omega) (by omega)]

/-- Two Schur steps on row panels one above the other. -/
theorem schur_vcat [CommRing R] (Wd : Nat) (G0 G1 G2 : Nat → Nat → R)
    (rm cm rv cv rw cw nr1 nr2 nc nk : Nat)
    (hm : cm + nc ≤ Wd) (hv : cv + nk ≤ Wd) (hw : cw + nc ≤ Wd)
    (av : Apart rm cm (nr1 + nr2) nc rv cv (nr1 + nr2) nk)
    (aw : Apart rm cm (nr1 + nr2) nc rw cw nk nc)
    (h1 : SchurRel Wd G0 G1 rm cm rv cv rw cw nr1 nc nk)
    (h2 : SchurRel Wd G1 G2 (rm + nr1) cm (rv + nr1) cv rw cw nr2 nc nk) :
    SchurRel Wd G0 G2 rm cm rv cv rw cw (nr1 + nr2) nc nk := by
  unfold Apart at av aw
  refine ⟨fun i j hi hj => ?_, Frame.trans h1.2 h2.2 (by omega) (by omega)⟩
  by_cases hil : i < nr1
  · rw [h2.2 _ _ (by omega) (by omega), h1.1 i j hil hj]
  · obtain ⟨i1, rfl⟩ : ∃ i1, i = nr1 + i1 := ⟨i - nr1, by omega⟩
    have := h2.1 i1 j (by omega) hj
    rw [Nat.add_assoc, Nat.add_assoc] at this
    rw [this, h1.2 _ _ (by omega) (by omega)]
    congr 1
    refine Finset.sum_congr rfl (fun k hk => ?_)
    have hk := Finset.mem_range.1 hk
    rw [h1.2 _ _ (by omega) (by omega), h1.2 _ _ (by omega) (by omega)]

/-- Two Schur steps on the same target, over consecutive ranges of the inner index. -/
theorem schur_kcat [CommRing R] (Wd : Nat) (G0 G1 G2 : Nat → Nat → R)
    (rm cm rv cv rw cw nr nc nk1 nk2 : Nat)
    (hv : cv + nk1 + nk2 ≤ Wd) (hw : cw + nc ≤ Wd)
    (av : Apart rm cm nr nc rv cv nr (nk1 + nk2))
    (aw : Apart rm cm nr nc rw cw (nk1 + nk2) nc)
    (h1 : SchurRel Wd G0 G1 rm cm rv cv rw cw nr nc nk1)
    (h2 : SchurRel Wd G1 G2 rm cm rv (cv + nk1) (rw + nk1) cw nr nc nk2) :
    SchurRel Wd G0 G2 rm cm rv cv rw cw nr nc (nk1 + nk2) := by
  unfold Apart at av aw
  refine ⟨fun i j hi hj => ?_, Frame.trans h1.2 h2.2 (by omega) (by omega)⟩
  rw [h2.1 i j hi hj, h1.1 i j hi hj, Finset.sum_range_add, sub_sub]
  congr 2
  refine Finset.sum_congr rfl (fun k hk => ?_)
  have hk := Finset.mem_range.1 hk
  rw [h1.2 _ _ (by omega) (by omega), h1.2 _ _ (by omega) (by omega), Nat.add_assoc,
    Nat.add_assoc]

/-- Two lower solves on column panels side by side. -/
theorem lower_hcat [CommRing R] (Wd : Nat) (G0 G1 G2 : Nat → Nat → R)
    (rm cm rl cl nr nc1 nc2 : Nat)
    (hm : cm + nc1 + nc2 ≤ Wd) (hl : cl + nr ≤ Wd)
    (al : Apart rm cm nr (nc1 + nc2) rl cl nr nr)
    (h1 : LowerRel Wd G0 G1 rm cm rl cl nr nc1)
    (h2 : LowerRel Wd G1 G2 rm (cm + nc1) rl cl nr nc2) :
    LowerRel Wd G0 G2 rm cm rl cl nr (nc1 + nc2) := by
  unfold Apart at al
  refine ⟨fun i j hi hj => ?_, Frame.trans h1.2 h2.2 (by omega) (by omega)⟩
  by_cases hjl : j < nc1
  · rw [h2.2 _ _ (by omega) (by omega), h1.1 i j hi hjl]
    congr 1
    refine Finset.sum_congr rfl (fun k hk => ?_)
    have hk := Finset.mem_range.1 hk
    rw [h2.2 (rm + k) _ (by omega) (by omega)]
  · obtain ⟨j1, rfl⟩ : ∃ j1, j = nc1 + j1 := ⟨j - nc1, by omega⟩
    have := h2.1 i j1 hi (by omega)
    rw [h1.2 _ _ (by omega) (by omega), Nat.add_assoc] at this
    rw [this]
    congr 1
    refine Finset.sum_congr rfl (fun k hk => ?_)
    have hk := Finset.mem_range.1 hk
    rw [h1.2 (rl + i) _ (by omega) (by omega)]

/-- The three steps of `aux_lower_solve`: a lower solve on the top panel, a Schur step on the
bottom panel, a lower solve on the bottom panel. -/
theorem lower_vcat [CommRing R] (Wd : Nat) (G0 G1 G2 G3 : Nat → Nat → R)
    (rm cm rl cl n1 n2 nc : Nat)
    (hm : cm + nc ≤ Wd) (hl : cl + n1 + n2 ≤ Wd)
    (al : Apart rm cm (n1 + n2) nc rl cl (n1 + n2) (n1 + n2))
    (h1 : LowerRel Wd G0 G1 rm cm rl cl n1 nc)
    (h2 : SchurRel Wd G1 G2 (rm + n1) cm (rl + n1) cl rm cm n2 nc n1)
    (h3 : LowerRel Wd G2 G3 (rm + n1) cm (rl + n1) (cl + n1) n2 nc) :
    LowerRel Wd G0 G3 rm cm rl cl (n1 + n2) nc := by
  unfold Apart at al
  refine ⟨fun i j hi hj => ?_,
    Frame.trans (Frame.trans h1.2 h2.2 (by omega) (by omega)) h3.2
      (show rm ≤ rm ∧ rm + (n1 + n2) ≤ rm + (n1 + n2) ∧ cm ≤ cm ∧ cm + nc ≤ cm + nc by omega)
      (by omega)⟩
  have top : ∀ k, k < n1 → G3 (rm + k) (cm + j) = G1 (rm + k) (cm + j) := by
    intro k hk
    rw [h3.2 _ _ (by omega) (by omega), h2.2 _ _ (by omega) (by omega)]
  by_cases hil : i < n1
  · rw [top i hil, h1.1 i j hil hj]
    congr 1
    refine Finset.sum_congr rfl (fun k hk => ?_)
    have hk := Finset.mem_range.1 hk
    rw [top k (by omega)]
  · obtain ⟨i1, rfl⟩ : ∃ i1, i = n1 + i1 := ⟨i - n1, by omega⟩
    have e3 := h3.1 i1 j (by omega) hj
    have e2 := h2.1 i1 j (by omega) hj
    rw [e2, h1.2 _ _ (by omega) (by omega)] at e3
    rw [Finset.sum_range_add, ← Nat.add_assoc, eq_add_of_sub_eq e3]
    have s1 : ∑ k in Finset.range n1, G1 (rl + n1 + i1) (cl + k) * G1 (rm + k) (cm + j) =
        ∑ k in Finset.range n1, G0 (rl + n1 + i1) (cl + k) * G3 (rm + k) (cm + j) := by
      refine Finset.sum_congr rfl (fun k hk => ?_)
      have hk := Finset.mem_range.1 hk
      rw [top k hk, h1.2 (rl + n1 + i1) _ (by omega) (by omega)]
    have s2 : ∑ k in Finset.range i1,
        G2 (rl + n1 + i1) (cl + n1 + k) * G3 (rm + n1 + k) (cm + j) =
        ∑ k in Finset.range i1,
          G0 (rl + (n1 + i1)) (cl + (n1 + k)) * G3 (rm + (n1 + k)) (cm + j) := by
      refine Finset.sum_congr rfl (fun k hk => ?_)
      have hk := Finset.mem_range.1 hk
      rw [h2.2 (rl + n1 + i1) _ (by omega) (by omega),
        h1.2 (rl + n1 + i1) _ (by omega) (by omega), Nat.add_assoc, Nat.add_assoc,
        Nat.add_assoc]
    rw [s1, s2, ← Nat.add_assoc rl n1 i1]
    ring

/-- Two upper solves on row panels one above the other. -/
theorem upper_vcat [CommRing R] (Wd : Nat) (G0 G1 G2 : Nat → Nat → R)
    (rm cm ru cu nr1 nr2 nc : Nat)
    (hm : cm + nc ≤ Wd) (hu : cu + nc ≤ Wd)
    (au : Apart rm cm (nr1 + nr2) nc ru cu nc nc)
    (h1 : UpperRel Wd G0 G1 rm cm ru cu nr1 nc)
    (h2 : UpperRel Wd G1 G2 (rm + nr1) cm ru cu nr2 nc) :
    UpperRel Wd G0 G2 rm cm ru cu (nr1 + nr2) nc := by
  unfold Apart at au
  refine ⟨fun i j hi hj => ?_, Frame.trans h1.2 h2.2 (by omega) (by omega)⟩
  by_cases hil : i < nr1
  · rw [h1.1 i j hil hj]
    refine Finset.sum_congr rfl (fun k hk => ?_)
    have hk := Finset.mem_range.1 hk
    rw [h2.2 (rm + i) _ (by omega) (by omega)]
  · obtain ⟨i1, rfl⟩ : ∃ i1, i = nr1 + i1 := ⟨i - nr1, by omega⟩
    have := h2.1 i1 j (by omega) hj
    rw [h1.2 _ _ (by omega) (by omega), Nat.add_assoc] at this
    rw [this]
    refine Finset.sum_congr rfl (fun k hk => ?_)
    have hk := Finset.mem_range.1 hk
    rw [h1.2 (ru + k) _ (by omega) (by omega)]

/-- The three steps of `aux_upper_solve`: an upper solve on the left panel, a Schur step on
the right panel, an upper solve on the right panel. -/
theorem upper_hcat [CommRing R] (Wd : Nat) (G0 G1 G2 G3 : Nat → Nat → R)
    (rm cm ru cu nr n1 n2 : Nat)
    (hm : cm + n1 + n2 ≤ Wd) (hu : cu + n1 + n2 ≤ Wd)
    (au : Apart rm cm nr (n1 + n2) ru cu (n1 + n2) (n1 + n2))
    (h1 : UpperRel Wd G0 G1 rm cm ru cu nr n1)
    (h2 : SchurRel Wd G1 G2 rm (cm + n1) rm cm ru (cu + n1) nr n2 n1)
    (h3 : UpperRel Wd G2 G3 rm (cm + n1) (ru + n1) (cu + n1) nr n2) :
    UpperRel Wd G0 G3 rm cm ru cu nr (n1 + n2) := by
  unfold Apart at au
  refine ⟨fun i j hi hj => ?_,
    Frame.trans (Frame.trans h1.2 h2.2 (by omega) (by omega)) h3.2
      (show rm ≤ rm ∧ rm + nr ≤ rm + nr ∧ cm ≤ cm ∧ cm + (n1 + n2) ≤ cm + (n1 + n2) by omega)
      (by omega)⟩
  have left : ∀ k, k < n1 → G3 (rm + i) (cm + k) = G1 (rm + i) (cm + k) := by
    intro k hk
    rw [h3.2 _ _ (by omega) (by omega), h2.2 _ _ (by omega) (by omega)]
  by_cases hjl : j < n1
  · rw [h1.1 i j hi hjl]
    refine Finset.sum_congr rfl (fun k hk => ?_)
    have hk := Finset.mem_range.1 hk
    rw [left k (by omega)]
  · obtain ⟨j1, rfl⟩ : ∃ j1, j = n1 + j1 := ⟨j - n1, by omega⟩
    have e3 := h3.1 i j1 hi (by omega)
    have e2 := h2.1 i j1 hi (by omega)
    rw [e2, h1.2 _ _ (by omega) (by omega)] at e3
    rw [Nat.add_assoc n1 j1 1, Finset.sum_range_add, ← Nat.add_assoc, eq_add_of_sub_eq e3]
    have s1 : ∑ k in Finset.range n1, G1 (rm + i) (cm + k) * G1 (ru + k) (cu + n1 + j1) =
        ∑ k in Finset.range n1, G3 (rm + i) (cm + k) * G0 (ru + k) (cu + n1 + j1) := by
      refine Finset.sum_congr rfl (fun k hk => ?_)
      have hk := Finset.mem_range.1 hk
      rw [left k hk, h1.2 (ru + k) _ (by omega) (by omega)]
    have s2 : ∑ k in Finset.range (j1 + 1),
        G3 (rm + i) (cm + n1 + k) * G2 (ru + n1 + k) (cu + n1 + j1) =
        ∑ k in Finset.range (j1 + 1),
          G3 (rm + i) (cm + (n1 + k)) * G0 (ru + (n1 + k)) (cu + n1 + j1) := by
      refine Finset.sum_congr rfl (fun k hk => ?_)
      have hk := Finset.mem_range.1 hk
      rw [h2.2 (ru + n1 + k) _ (by omega) (by omega),
        h1.2 (ru + n1 + k) _ (by omega) (by omega), Nat.add_assoc, Nat.add_assoc]
    rw [s1, s2, ← Nat.add_assoc cu n1 j1]
    ring

/-- The five steps of `lu`: factor the top left quadrant, lower solve on the top right, upper
solve on the bottom left, Schur step on the bottom right, factor the bottom right. -/
theorem lu_compose [CommRing R] (Wd : Nat) (G0 G1 G2 G3 G4 G5 : Nat → Nat → R)
    (r c n1 n2 : Nat) (hw : c + n1 + n2 ≤ Wd)
    (h1 : LURel Wd G0 G1 r c n1)
    (h2 : LowerRel Wd G1 G2 r (c + n1) r c n1 n2)
    (h3 : UpperRel Wd G2 G3 (r + n1) c r c n2 n1)
    (h4 : SchurRel Wd G3 G4 (r + n1) (c + n1) (r + n1) c r (c + n1) n2 n2 n1)
    (h5 : LURel Wd G4 G5 (r + n1) (c + n1) n2) :
    LURel Wd G0 G5 r c (n1 + n2) := by
  have q00 : ∀ a b, a < n1 → b < n1 → G5 (r + a) (c + b) = G1 (r + a) (c + b) := by
    intro a b ha hb
    rw [h5.2 _ _ (by omega) (by omega), h4.2 _ _ (by omega) (by omega),
      h3.2 _ _ (by omega) (by omega), h2.2 _ _ (by omega) (by omega)]
  have q01 : ∀ a b, a < n1 → b < n2 →
      G5 (r + a) (c + n1 + b) = G2 (r + a) (c + n1 + b) := by
    intro a b ha hb
    rw [h5.2 _ _ (by omega) (by omega), h4.2 _ _ (by omega) (by omega),
      h3.2 _ _ (by omega) (by omega)]
  have q10 : ∀ a b, a < n2 → b < n1 →
      G5 (r + n1 + a) (c + b) = G3 (r + n1 + a) (c + b) := by
    intro a b ha hb
    rw [h5.2 _ _ (by omega) (by omega), h4.2 _ _ (by omega) (by omega)]
  have fr : Frame Wd G0 G5 r c (n1 + n2) (n1 + n2) := by
    intro i j hj hout
    rw [h5.2 _ _ hj (by omega), h4.2 _ _ hj (by omega), h3.2 _ _ hj (by omega),
      h2.2 _ _ hj (by omega), h1.2 _ _ hj (by omega)]
  refine ⟨fun i j hi hj => ?_, fr⟩
  by_cases hil : i < n1
  · by_cases hjl : j < n1
    · rw [h1.1 i j hil hjl, q00 i j hil hjl]
      congr 1
      refine Finset.sum_congr rfl (fun k hk => ?_)
      have hk := Finset.mem_range.1 hk
      rw [q00 i k hil (by omega), q00 k j (by omega) hjl]
    · obtain ⟨j1, rfl⟩ : ∃ j1, j = n1 + j1 := ⟨j - n1, by omega⟩
      have e2 := h2.1 i j1 hil (by omega)
      rw [h1.2 _ _ (by omega) (by omega)] at e2
      rw [← Nat.add_assoc c n1 j1, show min i (n1 + j1 + 1) = i by omega, if_pos (by omega),
        e2, q01 i j1 hil (by omega), add_comm]
      congr 1
      refine Finset.sum_congr rfl (fun k hk => ?_)
      have hk := Finset.mem_range.1 hk
      rw [q00 i k hil (by omega), q01 k j1 (by omega) (by omega)]
  · obtain ⟨i1, rfl⟩ : ∃ i1, i = n1 + i1 := ⟨i - n1, by omega⟩
    by_cases hjl : j < n1
    · have e3 := h3.1 i1 j (by omega) hjl
      rw [h2.2 _ _ (by omega) (by omega), h1.2 _ _ (by omega) (by omega)] at e3
      rw [← Nat.add_assoc r n1 i1, show min (n1 + i1) (j + 1) = j + 1 by omega,
        if_neg (by omega), add_zero, e3]
      refine Finset.sum_congr rfl (fun k hk => ?_)
      have hk := Finset.mem_range.1 hk
      rw [q10 i1 k (by omega) (by omega), q00 k j (by omega) hjl,
        h2.2 (r + k) _ (by omega) (by omega)]
    · obtain ⟨j1, rfl⟩ : ∃ j1, j = n1 + j1 := ⟨j - n1, by omega⟩
      have e5 := h5.1 i1 j1 (by omega) (by omega)
      have e4 := h4.1 i1 j1 (by omega) (by omega)
      rw [e4, h3.2 _ _ (by omega) (by omega), h2.2 _ _ (by omega) (by omega),
        h1.2 _ _ (by omega) (by omega)] at e5
      have s1 : ∑ k in Finset.range n1, G3 (r + n1 + i1) (c + k) * G3 (r + k) (c + n1 + j1) =
          ∑ k in Finset.range n1, G5 (r + n1 + i1) (c + k) * G5 (r + k) (c + n1 + j1) := by
        refine Finset.sum_congr rfl (fun k hk => ?_)
        have hk := Finset.mem_range.1 hk
        rw [q10 i1 k (by omega) hk, q01 k j1 hk (by omega),
          h3.2 (r + k) _ (by omega) (by omega)]
      have s2 : ∑ k in Finset.range (min i1 (j1 + 1)),
          G5 (r + n1 + i1) (c + (n1 + k)) * G5 (r + (n1 + k)) (c + n1 + j1) =
          ∑ k in Finset.range (min i1 (j1 + 1)),
            G5 (r + n1 + i1) (c + n1 + k) * G5 (r + n1 + k) (c + n1 + j1) := by
        refine Finset.sum_congr rfl (fun k _ => ?_)
        rw [Nat.add_assoc c n1 k, Nat.add_assoc r n1 k]
      rw [← Nat.add_assoc r n1 i1, ← Nat.add_assoc c n1 j1,
        show min (n1 + i1) (n1 + j1 + 1) = n1 + min i1 (j1 + 1) by omega,
        Finset.sum_range_add, s2, eq_add_of_sub_eq e5, s1]
      by_cases hij : i1 ≤ j1
      · rw [if_pos hij, if_pos (by omega)]
        ring
      · rw [if_neg hij, if_neg (by omega)]
        ring

theorem block_index_inj (I J I1 J1 nB : Nat) (hJ : J < nB) (hJ1 : J1 < nB)
    (h : I * nB + J = I1 * nB + J1) : I = I1 ∧ J = J1 := by
  rcases Nat.lt_trichotomy I I1 with h1 | h1 | h1
  · have : (I + 1) * nB ≤ I1 * nB := Nat.mul_le_mul_right _ h1
    rw [Nat.add_mul] at this
    omega
  · subst h1
    omega
  · have : (I1 + 1) * nB ≤ I * nB := Nat.mul_le_mul_right _ h1
    rw [Nat.add_mul] at this
    omega

/-- An entry of the block at block coordinates `(I, J)`. -/
theorem cell_block (nB : Nat) (mem : Mem R) (T I J i j : Nat) (hi : i < 16) (hj : j < 16) :
    cell nB mem T (16 * I + i) (16 * J + j) = mem (T + (I * nB + J)) i j := by
  unfold cell BLOCK_SIZE
  have e1 : (16 * I + i) / 16 = I := by omega
  have e2 : (16 * I + i) % 16 = i := by omega
  have e3 : (16 * J + j) / 16 = J := by omega
  have e4 : (16 * J + j) % 16 = j := by omega
  rw [e1, e2, e3, e4]

/-- An operation that writes into the block `(I, J)` only leaves the other entries alone. -/
theorem frame_base (nB : Nat) (mem mem1 : Mem R) (T I J : Nat) (hJ : J < nB)
    (h : ∀ Z r c, Z ≠ T + (I * nB + J) → mem1 Z r c = mem Z r c) :
    Frame (16 * nB) (cell nB mem T) (cell nB mem1 T) (16 * I) (16 * J) 16 16 := by
  intro i j hj hout
  unfold cell BLOCK_SIZE
  apply h
  intro he
  have := block_index_inj (i / 16) (j / 16) I J nB (by omega) hJ (by omega)
  omega

/-- The base case of `schur` on blocks. -/
theorem schur_base [CommRing R] (nB T Im Jm Iv Jv Iw Jw : Nat) (mem : Mem R)
    (hm : Jm < nB) (hv : Jv < nB) (hw : Jw < nB)
    (av : Apart (16 * Im) (16 * Jm) 16 16 (16 * Iv) (16 * Jv) 16 16)
    (aw : Apart (16 * Im) (16 * Jm) 16 16 (16 * Iw) (16 * Jw) 16 16) :
    SchurRel (16 * nB) (cell nB mem T)
      (cell nB (block_schur (T + (Im * nB + Jm)) (T + (Iv * nB + Jv)) (T + (Iw * nB + Jw))
        mem) T)
      (16 * Im) (16 * Jm) (16 * Iv) (16 * Jv) (16 * Iw) (16 * Jw) 16 16 16 := by
  unfold Apart at av aw
  have nv : T + (Iv * nB + Jv) ≠ T + (Im * nB + Jm) := by
    intro he
    have := block_index_inj Iv Jv Im Jm nB hv hm (by omega)
    omega
  have nw : T + (Iw * nB + Jw) ≠ T + (Im * nB + Jm) := by
    intro he
    have := block_index_inj Iw Jw Im Jm nB hw hm (by omega)
    omega
  refine ⟨fun i j hi hj => ?_, frame_base nB mem _ T Im Jm hm (fun Z r c hZ => ?_)⟩
  · rw [cell_block nB _ T Im Jm i j hi hj, cell_block nB _ T Im Jm i j hi hj,
      block_schur_spec _ _ _ nv nw, if_pos ⟨rfl, hi, hj⟩]
    congr 1
    refine Finset.sum_congr rfl (fun k hk => ?_)
    have hk := Finset.mem_range.1 hk
    rw [cell_block nB _ T Iv Jv i k hi hk, cell_block nB _ T Iw Jw k j hk hj]
  · rw [block_schur_spec _ _ _ nv nw, if_neg (fun h => hZ h.1)]

/-- The base case of `lower_solve` on blocks. -/
theorem lower_base [CommRing R] (nB T Im Jm Il Jl : Nat) (mem : Mem R)
    (hm : Jm < nB) (hl : Jl < nB)
    (al : Apart (16 * Im) (16 * Jm) 16 16 (16 * Il) (16 * Jl) 16 16) :
    LowerRel (16 * nB) (cell nB mem T)
      (cell nB (block_lower_solve (T + (Im * nB + Jm)) (T + (Il * nB + Jl)) mem) T)
      (16 * Im) (16 * Jm) (16 * Il) (16 * Jl) 16 16 := by
  unfold Apart at al
  have nl : T + (Il * nB + Jl) ≠ T + (Im * nB + Jm) := by
    intro he
    have := block_index_inj Il Jl Im Jm nB hl hm (by omega)
    omega
  obtain ⟨g1, g2⟩ := block_lower_solve_spec (T + (Im * nB + Jm)) (T + (Il * nB + Jl)) nl mem
  refine ⟨fun i j hi hj => ?_, frame_base nB mem _ T Im Jm hm g1⟩
  rw [cell_block nB _ T Im Jm i j hi hj, cell_block nB _ T Im Jm i j hi hj, g2 i j hi hj]
  congr 1
  refine Finset.sum_congr rfl (fun k hk => ?_)
  have hk := Finset.mem_range.1 hk
  rw [cell_block nB _ T Il Jl i k hi (by omega), cell_block nB _ T Im Jm k j (by omega) hj]

/-- The base case of `upper_solve` on blocks. -/
theorem upper_base [Field R] [DecidableEq R] (nB T Im Jm Iu Ju : Nat) (mem : Mem R)
    (hm : Jm < nB) (hu : Ju < nB)
    (au : Apart (16 * Im) (16 * Jm) 16 16 (16 * Iu) (16 * Ju) 16 16) :
    Sat (fun e => e = Fault.divisionByZero)
      (fun mem1 : Mem R => UpperRel (16 * nB) (cell nB mem T) (cell nB mem1 T)
        (16 * Im) (16 * Jm) (16 * Iu) (16 * Ju) 16 16)
      (block_upper_solve (T + (Im * nB + Jm)) (T + (Iu * nB + Ju)) mem) := by
  unfold Apart at au
  have nu : T + (Iu * nB + Ju) ≠ T + (Im * nB + Jm) := by
    intro he
    have := block_index_inj Iu Ju Im Jm nB hu hm (by omega)
    omega
  refine Sat_mono _ _ _ _
    (block_upper_solve_spec (T + (Im * nB + Jm)) (T + (Iu * nB + Ju)) nu mem)
    (fun s ⟨g1, g2⟩ => ⟨fun i j hi hj => ?_, frame_base nB mem _ T Im Jm hm g1⟩)
  rw [cell_block nB _ T Im Jm i j hi hj, g2 i j hi hj]
  refine Finset.sum_congr rfl (fun k hk => ?_)
  have hk := Finset.mem_range.1 hk
  rw [cell_block nB _ T Iu Ju k j (by omega) hj, cell_block nB _ T Im Jm i k hi (by omega)]

/-- The base case of `lu` on a block. -/
theorem lu_base [Field R] [DecidableEq R] (nB T Im Jm : Nat) (mem : Mem R) (hm : Jm < nB) :
    Sat (fun e => e = Fault.divisionByZero)
      (fun mem1 : Mem R => LURel (16 * nB) (cell nB mem T) (cell nB mem1 T)
        (16 * Im) (16 * Jm) 16)
      (block_lu (T + (Im * nB + Jm)) mem) := by
  refine Sat_mono _ _ _ _ (block_lu_spec (T + (Im * nB + Jm)) mem)
    (fun s ⟨g1, g2⟩ => ⟨fun i j hi hj => ?_, frame_base nB mem _ T Im Jm hm g1⟩)
  rw [cell_block nB _ T Im Jm i j hi hj, g2 i j hi hj, cell_block nB _ T Im Jm i j hi hj]
  congr 1
  refine Finset.sum_congr rfl (fun k hk => ?_)
  have hk := Finset.mem_range.1 hk
  rw [cell_block nB _ T Im Jm i k hi (by omega), cell_block nB _ T Im Jm k j (by omega) hj]

theorem ptr00 (T I J nB : Nat) : T + (I * nB + J) + (0 * nB + 0) = T + (I * nB + J) := by
  omega

theorem ptr01 (T I J nB h : Nat) :
    T + (I * nB + J) + (0 * nB + h) = T + (I * nB + (J + h)) := by
  omega

theorem ptr10 (T I J nB h : Nat) :
    T + (I * nB + J) + (h * nB + 0) = T + ((I + h) * nB + J) := by
  rw [Nat.add_mul]
  omega

theorem ptr11 (T I J nB h : Nat) :
    T + (I * nB + J) + (h * nB + h) = T + ((I + h) * nB + (J + h)) := by
  rw [Nat.add_mul]
  omega

theorem half_double (h : Nat) : (h + h) / 2 = h := by omega

/-- The recursive case of `schur`, on block coordinates. -/
theorem schur_unfold [Sub R] [Mul R] (nB T Im Jm Iv Jv Iw Jw h : Nat) (hh : 1 ≤ h)
    (mem : Mem R) :
    schur nB (T + (Im * nB + Jm)) (T + (Iv * nB + Jv)) (T + (Iw * nB + Jw)) (h + h) mem =
      (schur nB (T + (Im * nB + Jm)) (T + (Iv * nB + Jv)) (T + (Iw * nB + Jw)) h mem).bind
      fun mem =>
      (schur nB (T + (Im * nB + (Jm + h))) (T + (Iv * nB + Jv)) (T + (Iw * nB + (Jw + h))) h
        mem).bind fun mem =>
      (schur nB (T + ((Im + h) * nB + Jm)) (T + ((Iv + h) * nB + Jv)) (T + (Iw * nB + Jw)) h
        mem).bind fun mem =>
      (schur nB (T + ((Im + h) * nB + (Jm + h))) (T + ((Iv + h) * nB + Jv))
        (T + (Iw * nB + (Jw + h))) h mem).bind fun mem =>
      (schur nB (T + (Im * nB + Jm)) (T + (Iv * nB + (Jv + h))) (T + ((Iw + h) * nB + Jw)) h
        mem).bind fun mem =>
      (schur nB (T + (Im * nB + (Jm + h))) (T + (Iv * nB + (Jv + h)))
        (T + ((Iw + h) * nB + (Jw + h))) h mem).bind fun mem =>
      (schur nB (T + ((Im + h) * nB + Jm)) (T + ((Iv + h) * nB + (Jv + h)))
        (T + ((Iw + h) * nB + Jw)) h mem).bind fun mem =>
      schur nB (T + ((Im + h) * nB + (Jm + h))) (T + ((Iv + h) * nB + (Jv + h)))
        (T + ((Iw + h) * nB + (Jw + h))) h mem := by
  rw [schur, if_neg (by omega), if_neg (by omega)]
  simp only [half_double, ptr00, ptr01, ptr10, ptr11]

/-- The recursive case of `lower_solve`, on block coordinates, with `aux_lower_solve`
unfolded. -/
theorem lower_solve_unfold [Sub R] [Mul R] (nB T Im Jm Il Jl h : Nat) (hh : 1 ≤ h)
    (mem : Mem R) :
    lower_solve nB (T + (Im * nB + Jm)) (T + (Il * nB + Jl)) (h + h) mem =
      (((lower_solve nB (T + (Im * nB + Jm)) (T + (Il * nB + Jl)) h mem).bind fun mem =>
        (schur nB (T + ((Im + h) * nB + Jm)) (T + ((Il + h) * nB + Jl))
          (T + (Im * nB + Jm)) h mem).bind fun mem =>
        lower_solve nB (T + ((Im + h) * nB + Jm)) (T + ((Il + h) * nB + (Jl + h))) h
          mem).bind fun mem =>
      (lower_solve nB (T + (Im * nB + (Jm + h))) (T + (Il * nB + Jl)) h mem).bind fun mem =>
        (schur nB (T + ((Im + h) * nB + (Jm + h))) (T + ((Il + h) * nB + Jl))
          (T + (Im * nB + (Jm + h))) h mem).bind fun mem =>
        lower_solve nB (T + ((Im + h) * nB + (Jm + h))) (T + ((Il + h) * nB + (Jl + h))) h
          mem) := by
  rw [lower_solve, if_neg (by omega), if_neg (by omega)]
  simp only [half_double, aux_lower_solve, ptr00, ptr01, ptr10, ptr11]

/-- The recursive case of `upper_solve`, on block coordinates, with `aux_upper_solve`
unfolded. -/
theorem upper_solve_unfold [Sub R] [Mul R] [Div R] [Zero R] [DecidableEq R]
    (nB T Im Jm Iu Ju h : Nat) (hh : 1 ≤ h) (mem : Mem R) :
    upper_solve nB (T + (Im * nB + Jm)) (T + (Iu * nB + Ju)) (h + h) mem =
      (((upper_solve nB (T + (Im * nB + Jm)) (T + (Iu * nB + Ju)) h mem).bind fun mem =>
        (schur nB (T + (Im * nB + (Jm + h))) (T + (Im * nB + Jm))
          (T + (Iu * nB + (Ju + h))) h mem).bind fun mem =>
        upper_solve nB (T + (Im * nB + (Jm + h))) (T + ((Iu + h) * nB + (Ju + h))) h
          mem).bind fun mem =>
      (upper_solve nB (T + ((Im + h) * nB + Jm)) (T + (Iu * nB + Ju)) h mem).bind fun mem =>
        (schur nB (T + ((Im + h) * nB + (Jm + h))) (T + ((Im + h) * nB + Jm))
          (T + (Iu * nB + (Ju + h))) h mem).bind fun mem =>
        upper_solve nB (T + ((Im + h) * nB + (Jm + h))) (T + ((Iu + h) * nB + (Ju + h))) h
          mem) := by
  rw [upper_solve, if_neg (by omega), if_neg (by omega)]
  simp only [half_double, aux_upper_solve, ptr00, ptr01, ptr10, ptr11]

/-- The recursive case of `lu`, on block coordinates. -/
theorem lu_unfold [Sub R] [Mul R] [Div R] [Zero R] [DecidableEq R]
    (nB T Im Jm h : Nat) (hh : 1 ≤ h) (mem : Mem R) :
    lu nB (T + (Im * nB + Jm)) (h + h) mem =
      (lu nB (T + (Im * nB + Jm)) h mem).bind fun mem =>
      (lower_solve nB (T + (Im * nB + (Jm + h))) (T + (Im * nB + Jm)) h mem).bind fun mem =>
      (upper_solve nB (T + ((Im + h) * nB + Jm)) (T + (Im * nB + Jm)) h mem).bind fun mem =>
      (schur nB (T + ((Im + h) * nB + (Jm + h))) (T + ((Im + h) * nB + Jm))
        (T + (Im * nB + (Jm + h))) h mem).bind fun mem =>
      lu nB (T + ((Im + h) * nB + (Jm + h))) h mem := by
  rw [lu, if_neg (by omega), if_neg (by omega)]
  simp only [half_double, ptr00, ptr01, ptr10, ptr11]

theorem schur_ok_one [CommRing R] (E : Fault → Prop) (nB T : Nat) :
    SchurOk E nB T 1 (R := R) := by
  intro Im Jm Iv Jv Iw Jw mem hm hv hw av aw
  rw [schur, if_pos rfl, Sat_ok]
  exact schur_base nB T Im Jm Iv Jv Iw Jw mem (by omega) (by omega) (by omega) av aw

theorem schur_ok_double [CommRing R] (E : Fault → Prop) (nB T h : Nat) (hh : 1 ≤ h)
    (ih : SchurOk E nB T h (R := R)) : SchurOk E nB T (h + h) (R := R) := by
  intro Im Jm Iv Jv Iw Jw mem hm hv hw av aw
  unfold Apart at av aw
  rw [schur_unfold nB T Im Jm Iv Jv Iw Jw h hh]
  refine Sat_bind E _ _ _ _ (ih Im Jm Iv Jv Iw Jw mem (by omega) (by omega) (by omega)
    (by unfold Apart; omega) (by unfold Apart; omega)) (fun m1 r1 => ?_)
  refine Sat_bind E _ _ _ _ (ih Im (Jm + h) Iv Jv Iw (Jw + h) m1 (by omega) (by omega)
    (by omega) (by unfold Apart; omega) (by unfold Apart; omega)) (fun m2 r2 => ?_)
  refine Sat_bind E _ _ _ _ (ih (Im + h) Jm (Iv + h) Jv Iw Jw m2 (by omega) (by omega)
    (by omega) (by unfold Apart; omega) (by unfold Apart; omega)) (fun m3 r3 => ?_)
  refine Sat_bind E _ _ _ _ (ih (Im + h) (Jm + h) (Iv + h) Jv Iw (Jw + h) m3 (by omega)
    (by omega) (by omega) (by unfold Apart; omega) (by unfold Apart; omega)) (fun m4 r4 => ?_)
  refine Sat_bind E _ _ _ _ (ih Im Jm Iv (Jv + h) (Iw + h) Jw m4 (by omega) (by omega)
    (by omega) (by unfold Apart; omega) (by unfold Apart; omega)) (fun m5 r5 => ?_)
  refine Sat_bind E _ _ _ _ (ih Im (Jm + h) Iv (Jv + h) (Iw + h) (Jw + h) m5 (by omega)
    (by omega) (by omega) (by unfold Apart; omega) (by unfold Apart; omega)) (fun m6 r6 => ?_)
  refine Sat_bind E _ _ _ _ (ih (Im + h) Jm (Iv + h) (Jv + h) (Iw + h) Jw m6 (by omega)
    (by omega) (by omega) (by unfold Apart; omega) (by unfold Apart; omega)) (fun m7 r7 => ?_)
  refine Sat_mono E _ _ _ (ih (Im + h) (Jm + h) (Iv + h) (Jv + h) (Iw + h) (Jw + h) m7
    (by omega) (by omega) (by omega) (by unfold Apart; omega) (by unfold Apart; omega))
    (fun m8 r8 => ?_)
  simp only [Nat.mul_add] at r1 r2 r3 r4 r5 r6 r7 r8 ⊢
  have top1 := schur_hcat _ _ _ _ _ _ _ _ _ _ _ _ _ _ (by omega) (by omega) (by omega)
    (by unfold Apart; omega) (by unfold Apart; omega) r1 r2
  have bot1 := schur_hcat _ _ _ _ _ _ _ _ _ _ _ _ _ _ (by omega) (by omega) (by omega)
    (by unfold Apart; omega) (by unfold Apart; omega) r3 r4
  have top2 := schur_hcat _ _ _ _ _ _ _ _ _ _ _ _ _ _ (by omega) (by omega) (by omega)
    (by unfold Apart; omega) (by unfold Apart; omega) r5 r6
  have bot2 := schur_hcat _ _ _ _ _ _ _ _ _ _ _ _ _ _ (by omega) (by omega) (by omega)
    (by unfold Apart; omega) (by unfold Apart; omega) r7 r8
  have rnd1 := schur_vcat _ _ _ _ _ _ _ _ _ _ _ _ _ _ (by omega) (by omega) (by omega)
    (by unfold Apart; omega) (by unfold Apart; omega) top1 bot1
  have rnd2 := schur_vcat _ _ _ _ _ _ _ _ _ _ _ _ _ _ (by omega) (by omega) (by omega)
    (by unfold Apart; omega) (by unfold Apart; omega) top2 bot2
  exact schur_kcat _ _ _ _ _ _ _ _ _ _ _ _ _ _ (by omega) (by omega)
    (by unfold Apart; omega) (by unfold Apart; omega) rnd1 rnd2

theorem pow_two_double (t : Nat) : 2 ^ (t + 1) = 2 ^ t + 2 ^ t := by
  rw [pow_succ]
  omega

theorem schur_ok_pow [CommRing R] (E : Fault → Prop) (nB T t : Nat) :
    SchurOk E nB T (2 ^ t) (R := R) := by
  induction t with
  | zero => exact schur_ok_one E nB T
  | succ t ih =>
    rw [pow_two_double]
    exact schur_ok_double E nB T _ Nat.one_le_two_pow ih

theorem lower_ok_one [CommRing R] (E : Fault → Prop) (nB T : Nat) :
    LowerOk E nB T 1 (R := R) := by
  intro Im Jm Il Jl mem hm hl al
  rw [lower_solve, if_pos rfl, Sat_ok]
  exact lower_base nB T Im Jm Il Jl mem (by omega) (by omega) al

theorem lower_ok_double [CommRing R] (E : Fault → Prop) (nB T h : Nat) (hh : 1 ≤ h)
    (hs : SchurOk E nB T h (R := R)) (ih : LowerOk E nB T h (R := R)) :
    LowerOk E nB T (h + h) (R := R) := by
  intro Im Jm Il Jl mem hm hl al
  unfold Apart at al
  rw [lower_solve_unfold nB T Im Jm Il Jl h hh]
  refine Sat_bind E (fun m3 : Mem R => LowerRel (16 * nB) (cell nB mem T) (cell nB m3 T)
    (16 * Im) (16 * Jm) (16 * Il) (16 * Jl) (16 * h + 16 * h) (16 * h)) _ _ _ ?_
    (fun m3 p1 => ?_)
  · refine Sat_bind E _ _ _ _ (ih Im Jm Il Jl mem (by omega) (by omega)
      (by unfold Apart; omega)) (fun m1 r1 => ?_)
    refine Sat_bind E _ _ _ _ (hs (Im + h) Jm (Il + h) Jl Im Jm m1 (by omega) (by omega)
      (by omega) (by unfold Apart; omega) (by unfold Apart; omega)) (fun m2 r2 => ?_)
    refine Sat_mono E _ _ _ (ih (Im + h) Jm (Il + h) (Jl + h) m2 (by omega) (by omega)
      (by unfold Apart; omega)) (fun m3 r3 => ?_)
    simp only [Nat.mul_add] at r1 r2 r3
    exact lower_vcat _ _ _ _ _ _ _ _ _ _ _ _ (by omega) (by omega) (by unfold Apart; omega)
      r1 r2 r3
  · refine Sat_bind E _ _ _ _ (ih Im (Jm + h) Il Jl m3 (by omega) (by omega)
      (by unfold Apart; omega)) (fun m4 r4 => ?_)
    refine Sat_bind E _ _ _ _ (hs (Im + h) (Jm + h) (Il + h) Jl Im (Jm + h) m4 (by omega)
      (by omega) (by omega) (by unfold Apart; omega) (by unfold Apart; omega))
      (fun m5 r5 => ?_)
    refine Sat_mono E _ _ _ (ih (Im + h) (Jm + h) (Il + h) (Jl + h) m5 (by omega) (by omega)
      (by unfold Apart; omega)) (fun m6 r6 => ?_)
    simp only [Nat.mul_add] at r4 r5 r6 ⊢
    have p2 := lower_vcat _ _ _ _ _ _ _ _ _ _ _ _ (by omega) (by omega)
      (by unfold Apart; omega) r4 r5 r6
    exact lower_hcat _ _ _ _ _ _ _ _ _ _ _ (by omega) (by omega) (by unfold Apart; omega)
      p1 p2

theorem lower_ok_pow [CommRing R] (E : Fault → Prop) (nB T t : Nat) :
    LowerOk E nB T (2 ^ t) (R := R) := by
  induction t with
  | zero => exact lower_ok_one E nB T
  | succ t ih =>
    rw [pow_two_double]
    exact lower_ok_double E nB T _ Nat.one_le_two_pow (schur_ok_pow E nB T t) ih

theorem upper_ok_one [Field R] [DecidableEq R] (nB T : Nat) :
    UpperOk (fun e => e = Fault.divisionByZero) nB T 1 (R := R) := by
  intro Im Jm Iu Ju mem hm hu au
  rw [upper_solve, if_pos rfl]
  exact upper_base nB T Im Jm Iu Ju mem (by omega) (by omega) au

theorem upper_ok_double [Field R] [DecidableEq R] (E : Fault → Prop) (nB T h : Nat)
    (hh : 1 ≤ h) (hs : SchurOk E nB T h (R := R)) (ih : UpperOk E nB T h (R := R)) :
    UpperOk E nB T (h + h) (R := R) := by
  intro Im Jm Iu Ju mem hm hu au
  unfold Apart at au
  rw [upper_solve_unfold nB T Im Jm Iu Ju h hh]
  refine Sat_bind E (fun m3 : Mem R => UpperRel (16 * nB) (cell nB mem T) (cell nB m3 T)
    (16 * Im) (16 * Jm) (16 * Iu) (16 * Ju) (16 * h) (16 * h + 16 * h)) _ _ _ ?_
    (fun m3 p1 => ?_)
  · refine Sat_bind E _ _ _ _ (ih Im Jm Iu Ju mem (by omega) (by omega)
      (by unfold Apart; omega)) (fun m1 r1 => ?_)
    refine Sat_bind E _ _ _ _ (hs Im (Jm + h) Im Jm Iu (Ju + h) m1 (by omega) (by omega)
      (by omega) (by unfold Apart; omega) (by unfold Apart; omega)) (fun m2 r2 => ?_)
    refine Sat_mono E _ _ _ (ih Im (Jm + h) (Iu + h) (Ju + h) m2 (by omega) (by omega)
      (by unfold Apart; omega)) (fun m3 r3 => ?_)
    simp only [Nat.mul_add] at r1 r2 r3
    exact upper_hcat _ _ _ _ _ _ _ _ _ _ _ _ (by omega) (by omega) (by unfold Apart; omega)
      r1 r2 r3
  · refine Sat_bind E _ _ _ _ (ih (Im + h) Jm Iu Ju m3 (by omega) (by omega)
      (by unfold Apart; omega)) (fun m4 r4 => ?_)
    refine Sat_bind E _ _ _ _ (hs (Im + h) (Jm + h) (Im + h) Jm Iu (Ju + h) m4 (by omega)
      (by omega) (by omega) (by unfold Apart; omega) (by unfold Apart; omega))
      (fun m5 r5 => ?_)
    refine Sat_mono E _ _ _ (ih (Im + h) (Jm + h) (Iu + h) (Ju + h) m5 (by omega) (by omega)
      (by unfold Apart; omega)) (fun m6 r6 => ?_)
    simp only [Nat.mul_add] at r4 r5 r6 ⊢
    have p2 := upper_hcat _ _ _ _ _ _ _ _ _ _ _ _ (by omega) (by omega)
      (by unfold Apart; omega) r4 r5 r6
    exact upper_vcat _ _ _ _ _ _ _ _ _ _ _ (by omega) (by omega) (by unfold Apart; omega)
      p1 p2

theorem upper_ok_pow [Field R] [DecidableEq R] (nB T t : Nat) :
    UpperOk (fun e => e = Fault.divisionByZero) nB T (2 ^ t) (R := R) := by
  induction t with
  | zero => exact upper_ok_one nB T
  | succ t ih =>
    rw [pow_two_double]
    exact upper_ok_double _ nB T _ Nat.one_le_two_pow (schur_ok_pow _ nB T t) ih

theorem lu_ok_one [Field R] [DecidableEq R] (nB T : Nat) :
    LUOk (fun e => e = Fault.divisionByZero) nB T 1 (R := R) := by
  intro Im Jm mem hm
  rw [lu, if_pos rfl]
  exact lu_base nB T Im Jm mem (by omega)

theorem lu_ok_double [Field R] [DecidableEq R] (E : Fault → Prop) (nB T h : Nat)
    (hh : 1 ≤ h) (hs : SchurOk E nB T h (R := R)) (hl : LowerOk E nB T h (R := R))
    (hu : UpperOk E nB T h (R := R)) (ih : LUOk E nB T h (R := R)) :
    LUOk E nB T (h + h) (R := R) := by
  intro Im Jm mem hm
  rw [lu_unfold nB T Im Jm h hh]
  refine Sat_bind E _ _ _ _ (ih Im Jm mem (by omega)) (fun m1 r1 => ?_)
  refine Sat_bind E _ _ _ _ (hl Im (Jm + h) Im Jm m1 (by omega) (by omega)
    (by unfold Apart; omega)) (fun m2 r2 => ?_)
  refine Sat_bind E _ _ _ _ (hu (Im + h) Jm Im Jm m2 (by omega) (by omega)
    (by unfold Apart; omega)) (fun m3 r3 => ?_)
  refine Sat_bind E _ _ _ _ (hs (Im + h) (Jm + h) (Im + h) Jm Im (Jm + h) m3 (by omega)
    (by omega) (by omega) (by unfold Apart; omega) (by unfold Apart; omega)) (fun m4 r4 => ?_)
  refine Sat_mono E _ _ _ (ih (Im + h) (Jm + h) m4 (by omega)) (fun m5 r5 => ?_)
  simp only [Nat.mul_add] at r1 r2 r3 r4 r5 ⊢
  exact lu_compose _ _ _ _ _ _ _ _ _ _ _ (by omega) r1 r2 r3 r4 r5

theorem lu_ok_pow [Field R] [DecidableEq R] (nB T t : Nat) :
    LUOk (fun e => e = Fault.divisionByZero) nB T (2 ^ t) (R := R) := by
  induction t with
  | zero => exact lu_ok_one nB T
  | succ t ih =>
    rw [pow_two_double]
    exact lu_ok_double _ nB T _ Nat.one_le_two_pow (schur_ok_pow _ nB T t)
      (lower_ok_pow _ nB T t) (upper_ok_pow nB T t) ih

theorem test_result_loop_spec [CommRing R] (nBlocks : Nat) (mem : Mem R) (LU i j : Nat)
    (fuel : Nat) : ∀ (k : Nat) (v : R), k ≤ min i (j + 1) → min i (j + 1) ≤ k + fuel →
      test_result_loop nBlocks mem LU i j fuel k v =
        (min i (j + 1), v + ∑ x in Finset.range (min i (j + 1) - k),
          cell nBlocks mem LU i (k + x) * cell nBlocks mem LU (k + x) j) := by
  induction fuel with
  | zero =>
    intro k v h1 h2
    have : min i (j + 1) = k := by omega
    rw [test_result_loop, this]
    simp
  | succ fuel ih =>
    intro k v h1 h2
    rw [test_result_loop]
    by_cases h : k < i ∧ k ≤ j
    · rw [if_pos h, ih (k + 1) _ (by omega) (by omega)]
      obtain ⟨d, hd⟩ : ∃ d, min i (j + 1) - k = d + 1 := ⟨min i (j + 1) - k - 1, by omega⟩
      rw [hd, show min i (j + 1) - (k + 1) = d by omega, Finset.sum_range_succ']
      congr 1
      rw [Nat.add_zero, add_assoc, add_comm (∑ x in Finset.range d, _)]
      congr 2
      refine Finset.sum_congr rfl (fun x _ => ?_)
      rw [show k + 1 + x = k + (x + 1) by omega]
    · rw [if_neg h]
      have : min i (j + 1) = k := by omega
      rw [this]
      simp

theorem test_result_v_eq [CommRing R] (nBlocks : Nat) (mem : Mem R) (LU i j : Nat) :
    test_result_v nBlocks mem LU i j =
      ∑ k in Finset.range (min i (j + 1)), cell nBlocks mem LU i k * cell nBlocks mem LU k j +
        (if i ≤ j then cell nBlocks mem LU i j else 0) := by
  unfold test_result_v
  rw [test_result_loop_spec nBlocks mem LU i j i 0 0 (Nat.zero_le _) (by omega)]
  simp only [Nat.sub_zero, Nat.zero_add, zero_add]
  by_cases h : i ≤ j
  · rw [if_pos h, if_pos (by omega), show min i (j + 1) = i by omega]
  · rw [if_neg h, if_neg (by omega), add_zero]

theorem lower_upper_sum [CommRing R] (G : Nat → Nat → R) (i j n : Nat) :
    ∑ k in Finset.range n, unit_lower G i k * upper_part G k j =
      ∑ k in Finset.range (min n (min i (j + 1))), G i k * G k j +
        (if i < n ∧ i ≤ j then G i j else 0) := by
  induction n with
  | zero => simp
  | succ n ih =>
    rw [Finset.sum_range_succ, ih]
    rcases Nat.lt_trichotomy n i with h | h | h
    · have eL : unit_lower G i n = G i n := by
        unfold unit_lower
        rw [if_pos h]
      have f1 : ¬ (i < n ∧ i ≤ j) := by omega
      have f2 : ¬ (i < n + 1 ∧ i ≤ j) := by omega
      rw [eL, if_neg f1, if_neg f2]
      by_cases hj : n ≤ j
      · have eU : upper_part G n j = G n j := by
          unfold upper_part
          rw [if_pos hj]
        rw [eU, show min (n + 1) (min i (j + 1)) = n + 1 by omega,
          show min n (min i (j + 1)) = n by omega, Finset.sum_range_succ]
        ring
      · have eU : upper_part G n j = 0 := by
          unfold upper_part
          rw [if_neg hj]
        rw [eU, show min (n + 1) (min i (j + 1)) = min n (min i (j + 1)) by omega]
        ring
    · subst h
      have eL : unit_lower G n n = 1 := by
        unfold unit_lower
        rw [if_neg (lt_irrefl _), if_pos rfl]
      have f1 : ¬ (n < n ∧ n ≤ j) := by omega
      rw [eL, if_neg f1, show min (n + 1) (min n (j + 1)) = min n (min n (j + 1)) by omega,
        one_mul]
      unfold upper_part
      by_cases hj : n ≤ j
      · rw [if_pos hj, if_pos (show n < n + 1 ∧ n ≤ j from ⟨by omega, hj⟩)]
        ring
      · rw [if_neg hj, if_neg (show ¬ (n < n + 1 ∧ n ≤ j) from by omega), add_zero]
    · have eL : unit_lower G i n = 0 := by
        unfold unit_lower
        rw [if_neg (by omega), if_neg (by omega)]
      rw [eL, show min (n + 1) (min i (j + 1)) = min n (min i (j + 1)) by omega, zero_mul,
        add_zero]
      by_cases hj : i ≤ j
      · rw [if_pos (show i < n ∧ i ≤ j from ⟨h, hj⟩),
          if_pos (show i < n + 1 ∧ i ≤ j from ⟨by omega, hj⟩)]
      · rw [if_neg (show ¬ (i < n ∧ i ≤ j) from by omega),
          if_neg (show ¬ (i < n + 1 ∧ i ≤ j) from by omega)]

theorem write_self (mem : Mem R) (B i j : Nat) : write mem B i j (mem B i j) = mem := by
  funext Z r c
  rw [write_mem_apply]
  by_cases h : Z = B ∧ r = i ∧ c = j
  · obtain ⟨rfl, rfl, rfl⟩ := h
    rw [if_pos ⟨rfl, rfl, rfl⟩]
  · rw [if_neg h]

/-- With the factor `a = 0`, `elem_daxmy` changes nothing. -/
theorem elem_daxmy_zero [Ring R] (X xi xj Y yi yj n : Nat) (mem : Mem R) :
    elem_daxmy 0 X xi xj Y yi yj n mem = mem := by
  induction n with
  | zero => rfl
  | succ n ih =>
    rw [elem_daxmy, zero_mul, sub_zero, write_self, ih]

theorem forUp_const {σ : Type} (a b : Nat) (body : Nat → σ → σ) (s : σ)
    (h : ∀ i, a ≤ i → i < b → body i s = s) : forUp a b body s = s := by
  by_cases hab : a ≤ b
  · exact forUp_induction (fun _ s1 => s1 = s) a b body s hab rfl
      (fun i s1 h1 h2 e => by rw [e]; exact h i h1 h2)
  · exact forUp_empty a b body s (by omega)

theorem Sat_false_eq {ε σ : Type} (x : Except ε σ) (s : σ)
    (h : Sat (fun _ => False) (fun s1 => s1 = s) x) : x = Except.ok s := by
  cases x with
  | error e => exact absurd h id
  | ok s1 =>
    have : s1 = s := h
    rw [this]

theorem forUpM_const {ε σ : Type} (a b : Nat) (body : Nat → σ → Except ε σ) (s : σ)
    (hab : a ≤ b) (h : ∀ i, a ≤ i → i < b → body i s = Except.ok s) :
    forUpM a b body s = Except.ok s := by
  apply Sat_false_eq
  refine forUpM_induction (fun _ => False) (fun _ s1 => s1 = s) a b body s hab rfl ?_
  intro i s1 h1 h2 e
  rw [e, h i h1 h2]
  rfl

theorem block_schur_noop [Ring R] (B A C : Nat) (mem : Mem R)
    (hz : ∀ i k, i < 16 → k < 16 → mem A i k = 0) : block_schur B A C mem = mem := by
  unfold block_schur BLOCK_SIZE
  refine forUp_const _ _ _ _ (fun i _ hi => ?_)
  refine forUp_const _ _ _ _ (fun k _ hk => ?_)
  beta_reduce
  rw [hz i k hi hk, elem_daxmy_zero]

theorem block_lower_solve_noop [Ring R] (B L : Nat) (mem : Mem R)
    (hz : ∀ i k, i < 16 → k < i → mem L i k = 0) : block_lower_solve B L mem = mem := by
  unfold block_lower_solve BLOCK_SIZE
  refine forUp_const _ _ _ _ (fun i _ hi => ?_)
  refine forUp_const _ _ _ _ (fun k _ hk => ?_)
  beta_reduce
  rw [hz i k hi hk, elem_daxmy_zero]

theorem block_upper_solve_noop [Field R] [DecidableEq R] (B U : Nat) (mem : Mem R)
    (hz : ∀ i k, i < 16 → k < 16 → mem B i k = 0) (hd : ∀ k, k < 16 → mem U k k ≠ 0) :
    block_upper_solve B U mem = Except.ok mem := by
  unfold block_upper_solve BLOCK_SIZE
  refine forUpM_const _ _ _ _ (by decide) (fun i _ hi => ?_)
  refine forUpM_const _ _ _ _ (by decide) (fun k _ hk => ?_)
  beta_reduce
  rw [if_neg (hd k hk)]
  have e : write mem B i k (mem B i k / mem U k k) = mem := by
    rw [hz i k hi hk, zero_div]
    conv => lhs; arg 5; rw [← hz i k hi hk]
    exact write_self mem B i k
  show Except.ok (elem_daxmy (write mem B i k (mem B i k / mem U k k) B i k) U k (k + 1) B i
    (k + 1) (16 - k - 1) (write mem B i k (mem B i k / mem U k k))) = Except.ok mem
  rw [e, hz i k hi hk, elem_daxmy_zero]

theorem block_lu_noop [Field R] [DecidableEq R] (B : Nat) (mem : Mem R)
    (hz : ∀ i k, i < 16 → k < i → mem B i k = 0) (hd : ∀ k, k < 16 → mem B k k ≠ 0) :
    block_lu B mem = Except.ok mem := by
  unfold block_lu BLOCK_SIZE
  refine forUpM_const _ _ _ _ (by decide) (fun k _ hk => ?_)
  refine forUpM_const _ _ _ _ (by omega) (fun i hki hi => ?_)
  beta_reduce
  rw [if_neg (hd k hk)]
  have e : write mem B i k (mem B i k / mem B k k) = mem := by
    rw [hz i k hi (by omega), zero_div]
    conv => lhs; arg 5; rw [← hz i k hi (by omega)]
    exact write_self mem B i k
  show Except.ok (elem_daxmy (write mem B i k (mem B i k / mem B k k) B i k) B k (k + 1) B i
    (k + 1) (16 - k - 1) (write mem B i k (mem B i k / mem B k k))) = Except.ok mem
  rw [e, hz i k hi (by omega), elem_daxmy_zero]

theorem bind_ok {ε σ τ : Type} (s : σ) (f : σ → Except ε τ) :
    (Except.ok s : Except ε σ).bind f = f s := rfl

/-- A Schur step with `V = 0` changes nothing. -/
theorem schur_noop [Ring R] (nB T t : Nat) :
    ∀ (Im Jm Iv Jv Iw Jw : Nat) (mem : Mem R),
      (∀ i j, i < 16 * 2 ^ t → j < 16 * 2 ^ t →
        cell nB mem T (16 * Iv + i) (16 * Jv + j) = 0) →
      schur nB (T + (Im * nB + Jm)) (T + (Iv * nB + Jv)) (T + (Iw * nB + Jw)) (2 ^ t) mem =
        Except.ok mem := by
  induction t with
  | zero =>
    intro Im Jm Iv Jv Iw Jw mem hz
    rw [schur, if_pos (by decide), block_schur_noop]
    intro i k hi hk
    rw [← cell_block nB mem T Iv Jv i k hi hk]
    exact hz i k (by omega) (by omega)
  | succ t ih =>
    intro Im Jm Iv Jv Iw Jw mem hz
    have hpos : 1 ≤ 2 ^ t := Nat.one_le_two_pow
    rw [pow_two_double] at hz ⊢
    have z00 : ∀ i j, i < 16 * 2 ^ t → j < 16 * 2 ^ t →
        cell nB mem T (16 * Iv + i) (16 * Jv + j) = 0 := fun i j hi hj =>
      hz i j (by omega) (by omega)
    have z01 : ∀ i j, i < 16 * 2 ^ t → j < 16 * 2 ^ t →
        cell nB mem T (16 * Iv + i) (16 * (Jv + 2 ^ t) + j) = 0 := fun i j hi hj => by
      have := hz i (16 * 2 ^ t + j) (by omega) (by omega)
      rw [show 16 * (Jv + 2 ^ t) + j = 16 * Jv + (16 * 2 ^ t + j) by omega]
      exact this
    have z10 : ∀ i j, i < 16 * 2 ^ t → j < 16 * 2 ^ t →
        cell nB mem T (16 * (Iv + 2 ^ t) + i) (16 * Jv + j) = 0 := fun i j hi hj => by
      have := hz (16 * 2 ^ t + i) j (by omega) (by omega)
      rw [show 16 * (Iv + 2 ^ t) + i = 16 * Iv + (16 * 2 ^ t + i) by omega]
      exact this
    have z11 : ∀ i j, i < 16 * 2 ^ t → j < 16 * 2 ^ t →
        cell nB mem T (16 * (Iv + 2 ^ t) + i) (16 * (Jv + 2 ^ t) + j) = 0 :=
      fun i j hi hj => by
      have := hz (16 * 2 ^ t + i) (16 * 2 ^ t + j) (by omega) (by omega)
      rw [show 16 * (Iv + 2 ^ t) + i = 16 * Iv + (16 * 2 ^ t + i) by omega,
        show 16 * (Jv + 2 ^ t) + j = 16 * Jv + (16 * 2 ^ t + j) by omega]
      exact this
    rw [schur_unfold nB T Im Jm Iv Jv Iw Jw _ hpos, ih _ _ _ _ _ _ mem z00, bind_ok,
      ih _ _ _ _ _ _ mem z00, bind_ok, ih _ _ _ _ _ _ mem z10, bind_ok,
      ih _ _ _ _ _ _ mem z10, bind_ok, ih _ _ _ _ _ _ mem z01, bind_ok,
      ih _ _ _ _ _ _ mem z01, bind_ok, ih _ _ _ _ _ _ mem z11, bind_ok,
      ih _ _ _ _ _ _ mem z11]

/-- A lower solve with a factor whose strict lower triangle is zero changes nothing. -/
theorem lower_solve_noop [Ring R] (nB T t : Nat) :
    ∀ (Im Jm Il Jl : Nat) (mem : Mem R),
      (∀ i j, i < 16 * 2 ^ t → j < i → cell nB mem T (16 * Il + i) (16 * Jl + j) = 0) →
      lower_solve nB (T + (Im * nB + Jm)) (T + (Il * nB + Jl)) (2 ^ t) mem =
        Except.ok mem := by
  induction t with
  | zero =>
    intro Im Jm Il Jl mem hz
    rw [lower_solve, if_pos (by decide), block_lower_solve_noop]
    intro i k hi hk
    rw [← cell_block nB mem T Il Jl i k hi (by omega)]
    exact hz i k (by omega) hk
  | succ t ih =>
    intro Im Jm Il Jl mem hz
    have hpos : 1 ≤ 2 ^ t := Nat.one_le_two_pow
    rw [pow_two_double] at hz ⊢
    have z00 : ∀ i j, i < 16 * 2 ^ t → j < i →
        cell nB mem T (16 * Il + i) (16 * Jl + j) = 0 := fun i j hi hj =>
      hz i j (by omega) hj
    have z10 : ∀ i j, i < 16 * 2 ^ t → j < 16 * 2 ^ t →
        cell nB mem T (16 * (Il + 2 ^ t) + i) (16 * Jl + j) = 0 := fun i j hi hj => by
      have := hz (16 * 2 ^ t + i) j (by omega) (by omega)
      rw [show 16 * (Il + 2 ^ t) + i = 16 * Il + (16 * 2 ^ t + i) by omega]
      exact this
    have z11 : ∀ i j, i < 16 * 2 ^ t → j < i →
        cell nB mem T (16 * (Il + 2 ^ t) + i) (16 * (Jl + 2 ^ t) + j) = 0 :=
      fun i j hi hj => by
      have := hz (16 * 2 ^ t + i) (16 * 2 ^ t + j) (by omega) (by omega)
      rw [show 16 * (Il + 2 ^ t) + i = 16 * Il + (16 * 2 ^ t + i) by omega,
        show 16 * (Jl + 2 ^ t) + j = 16 * Jl + (16 * 2 ^ t + j) by omega]
      exact this
    rw [lower_solve_unfold nB T Im Jm Il Jl _ hpos, ih _ _ _ _ mem z00, bind_ok,
      schur_noop nB T t _ _ _ _ _ _ mem z10, bind_ok, ih _ _ _ _ mem z11, bind_ok,
      ih _ _ _ _ mem z00, bind_ok, schur_noop nB T t _ _ _ _ _ _ mem z10, bind_ok,
      ih _ _ _ _ mem z11]

/-- An upper solve of a zero matrix changes nothing, when the diagonal of the factor has no
zero. -/
theorem upper_solve_noop [Field R] [DecidableEq R] (nB T t : Nat) :
    ∀ (Im Jm Iu Ju : Nat) (mem : Mem R),
      (∀ i j, i < 16 * 2 ^ t → j < 16 * 2 ^ t →
        cell nB mem T (16 * Im + i) (16 * Jm + j) = 0) →
      (∀ k, k < 16 * 2 ^ t → cell nB mem T (16 * Iu + k) (16 * Ju + k) ≠ 0) →
      upper_solve nB (T + (Im * nB + Jm)) (T + (Iu * nB + Ju)) (2 ^ t) mem =
        Except.ok mem := by
  induction t with
  | zero =>
    intro Im Jm Iu Ju mem hz hd
    rw [upper_solve, if_pos (by decide), block_upper_solve_noop]
    · intro i k hi hk
      rw [← cell_block nB mem T Im Jm i k hi hk]
      exact hz i k (by omega) (by omega)
    · intro k hk
      rw [← cell_block nB mem T Iu Ju k k hk hk]
      exact hd k (by omega)
  | succ t ih =>
    intro Im Jm Iu Ju mem hz hd
    have hpos : 1 ≤ 2 ^ t := Nat.one_le_two_pow
    rw [pow_two_double] at hz hd ⊢
    have z00 : ∀ i j, i < 16 * 2 ^ t → j < 16 * 2 ^ t →
        cell nB mem T (16 * Im + i) (16 * Jm + j) = 0 := fun i j hi hj =>
      hz i j (by omega) (by omega)
    have z01 : ∀ i j, i < 16 * 2 ^ t → j < 16 * 2 ^ t →
        cell nB mem T (16 * Im + i) (16 * (Jm + 2 ^ t) + j) = 0 := fun i j hi hj => by
      have := hz i (16 * 2 ^ t + j) (by omega) (by omega)
      rw [show 16 * (Jm + 2 ^ t) + j = 16 * Jm + (16 * 2 ^ t + j) by omega]
      exact this
    have z10 : ∀ i j, i < 16 * 2 ^ t → j < 16 * 2 ^ t →
        cell nB mem T (16 * (Im + 2 ^ t) + i) (16 * Jm + j) = 0 := fun i j hi hj => by
      have := hz (16 * 2 ^ t + i) j (by omega) (by omega)
      rw [show 16 * (Im + 2 ^ t) + i = 16 * Im + (16 * 2 ^ t + i) by omega]
      exact this
    have z11 : ∀ i j, i < 16 * 2 ^ t → j < 16 * 2 ^ t →
        cell nB mem T (16 * (Im + 2 ^ t) + i) (16 * (Jm + 2 ^ t) + j) = 0 :=
      fun i j hi hj => by
      have := hz (16 * 2 ^ t + i) (16 * 2 ^ t + j) (by omega) (by omega)
      rw [show 16 * (Im + 2 ^ t) + i = 16 * Im + (16 * 2 ^ t + i) by omega,
        show 16 * (Jm + 2 ^ t) + j = 16 * Jm + (16 * 2 ^ t + j) by omega]
      exact this
    have d0 : ∀ k, k < 16 * 2 ^ t → cell nB mem T (16 * Iu + k) (16 * Ju + k) ≠ 0 :=
      fun k hk => hd k (by omega)
    have d1 : ∀ k, k < 16 * 2 ^ t →
        cell nB mem T (16 * (Iu + 2 ^ t) + k) (16 * (Ju + 2 ^ t) + k) ≠ 0 := fun k hk => by
      have := hd (16 * 2 ^ t + k) (by omega)
      rw [show 16 * (Iu + 2 ^ t) + k = 16 * Iu + (16 * 2 ^ t + k) by omega,
        show 16 * (Ju + 2 ^ t) + k = 16 * Ju + (16 * 2 ^ t + k) by omega]
      exact this
    rw [upper_solve_unfold nB T Im Jm Iu Ju _ hpos, ih _ _ _ _ mem z00 d0, bind_ok,
      schur_noop nB T t _ _ _ _ _ _ mem z00, bind_ok, ih _ _ _ _ mem z01 d1, bind_ok,
      ih _ _ _ _ mem z10 d0, bind_ok, schur_noop nB T t _ _ _ _ _ _ mem z10, bind_ok,
      ih _ _ _ _ mem z11 d1]

/-- The decomposition of a matrix whose strict lower triangle is zero and whose diagonal has
no zero changes nothing. -/
theorem lu_noop [Field R] [DecidableEq R] (nB T t : Nat) :
    ∀ (Im Jm : Nat) (mem : Mem R),
      (∀ i j, i < 16 * 2 ^ t → j < i → cell nB mem T (16 * Im + i) (16 * Jm + j) = 0) →
      (∀ k, k < 16 * 2 ^ t → cell nB mem T (16 * Im + k) (16 * Jm + k) ≠ 0) →
      lu nB (T + (Im * nB + Jm)) (2 ^ t) mem = Except.ok mem := by
  induction t with
  | zero =>
    intro Im Jm mem hz hd
    rw [lu, if_pos (by decide), block_lu_noop]
    · intro i k hi hk
      rw [← cell_block nB mem T Im Jm i k hi (by omega)]
      exact hz i k (by omega) hk
    · intro k hk
      rw [← cell_block nB mem T Im Jm k k hk hk]
      exact hd k (by omega)
  | succ t ih =>
    intro Im Jm mem hz hd
    have hpos : 1 ≤ 2 ^ t := Nat.one_le_two_pow
    rw [pow_two_double] at hz hd ⊢
    have z00 : ∀ i j, i < 16 * 2 ^ t → j < i →
        cell nB mem T (16 * Im + i) (16 * Jm + j) = 0 := fun i j hi hj =>
      hz i j (by omega) hj
    have z10 : ∀ i j, i < 16 * 2 ^ t → j < 16 * 2 ^ t →
        cell nB mem T (16 * (Im + 2 ^ t) + i) (16 * Jm + j) = 0 := fun i j hi hj => by
      have := hz (16 * 2 ^ t + i) j (by omega) (by omega)
      rw [show 16 * (Im + 2 ^ t) + i = 16 * Im + (16 * 2 ^ t + i) by omega]
      exact this
    have z11 : ∀ i j, i < 16 * 2 ^ t → j < i →
        cell nB mem T (16 * (Im + 2 ^ t) + i) (16 * (Jm + 2 ^ t) + j) = 0 :=
      fun i j hi hj => by
      have := hz (16 * 2 ^ t + i) (16 * 2 ^ t + j) (by omega) (by omega)
      rw [show 16 * (Im + 2 ^ t) + i = 16 * Im + (16 * 2 ^ t + i) by omega,
        show 16 * (Jm + 2 ^ t) + j = 16 * Jm + (16 * 2 ^ t + j) by omega]
      exact this
    have d0 : ∀ k, k < 16 * 2 ^ t → cell nB mem T (16 * Im + k) (16 * Jm + k) ≠ 0 :=
      fun k hk => hd k (by omega)
    have d1 : ∀ k, k < 16 * 2 ^ t →
        cell nB mem T (16 * (Im + 2 ^ t) + k) (16 * (Jm + 2 ^ t) + k) ≠ 0 := fun k hk => by
      have := hd (16 * 2 ^ t + k) (by omega)
      rw [show 16 * (Im + 2 ^ t) + k = 16 * Im + (16 * 2 ^ t + k) by omega,
        show 16 * (Jm + 2 ^ t) + k = 16 * Jm + (16 * 2 ^ t + k) by omega]
      exact this
    rw [lu_unfold nB T Im Jm _ hpos, ih _ _ mem z00 d0, bind_ok,
      lower_solve_noop nB T t _ _ _ _ mem z00, bind_ok,
      upper_solve_noop nB T t _ _ _ _ mem z10 d0, bind_ok,
      schur_noop nB T t _ _ _ _ _ _ mem z10, bind_ok, ih _ _ mem z11 d1]

/-- C7: for `nb` a power of two and a matrix at `M` whose entries below the main diagonal are
zero and whose diagonal entries are not, `lu(M, nb)` returns with the memory unchanged: every
entry of `M` keeps its value (`U = M`, `L = I`). -/
theorem lu_upper_triangular [Field R] [DecidableEq R] (nBlocks M nb t : Nat)
    (hnb : nb = 2 ^ t) (mem : Mem R)
    (htri : ∀ i j, i < BLOCK_SIZE * nb → j < i → cell nBlocks mem M i j = 0)
    (hdiag : ∀ i, i < BLOCK_SIZE * nb → cell nBlocks mem M i i ≠ 0) :
    lu nBlocks M nb mem = Except.ok mem := by
  subst hnb
  unfold BLOCK_SIZE at htri hdiag
  have key := lu_noop nBlocks M t 0 0 mem
    (fun i j hi hj => by
      rw [show 16 * 0 + i = i by omega, show 16 * 0 + j = j by omega]
      exact htri i j hi hj)
    (fun k hk => by
      rw [show 16 * 0 + k = k by omega]
      exact hdiag k hk)
  have e : M + (0 * nBlocks + 0) = M := by omega
  rw [e] at key
  exact key

/-- Witness of `lu_upper_triangular`: one block holding the rational identity matrix. -/
theorem lu_upper_triangular_witness :
    lu 1 0 1 (fun _ i j => if i = j then (1 : Rat) else 0) =
      Except.ok (fun _ i j => if i = j then (1 : Rat) else 0) :=
  lu_upper_triangular 1 0 1 0 (by decide) _
    (fun i j hi hj => by
      unfold BLOCK_SIZE at hi
      show (if i % 16 = j % 16 then (1 : Rat) else 0) = 0
      rw [if_neg (by omega)])
    (fun i hi => by
      show (if i % 16 = i % 16 then (1 : Rat) else 0) ≠ 0
      rw [if_pos rfl]
      exact one_ne_zero)

/-- The determinant of a matrix with a compact factorisation `f = L * U` (`L` the strict lower
triangle of `g` with a unit diagonal, `U` its upper triangle) is the product of the diagonal
of `g`. -/
theorem minor_lu [CommRing R] (f g : Nat → Nat → R) (n : Nat)
    (h : ∀ i j, i < n → j < n → f i j =
      ∑ m in Finset.range (min i (j + 1)), g i m * g m j + (if i ≤ j then g i j else 0)) :
    minor f n = ∏ m in Finset.range n, g m m := by
  have hmat : (Matrix.of fun (i j : Fin n) => f i j) =
      (Matrix.of fun (i m : Fin n) => unit_lower g i m) *
        (Matrix.of fun (m j : Fin n) => upper_part g m j) := by
    ext i j
    rw [Matrix.mul_apply]
    simp only [Matrix.of_apply]
    rw [Fin.sum_univ_eq_sum_range (fun m => unit_lower g i m * upper_part g m j) n,
      lower_upper_sum, h i j i.2 j.2]
    have hi := i.2
    rw [show min n (min (i : Nat) ((j : Nat) + 1)) = min (i : Nat) ((j : Nat) + 1) by omega]
    by_cases hij : (i : Nat) ≤ j
    · rw [if_pos hij, if_pos ⟨hi, hij⟩]
    · rw [if_neg hij, if_neg (fun hh => hij hh.2)]
  have hL : (Matrix.of fun (i m : Fin n) => unit_lower g i m).det = 1 := by
    rw [Matrix.det_of_lowerTriangular]
    · refine Finset.prod_eq_one (fun i _ => ?_)
      simp [unit_lower]
    · intro i j hij
      have : (i : Nat) < j := hij
      simp only [Matrix.of_apply, unit_lower]
      rw [if_neg (by omega), if_neg (by omega)]
  have hU : (Matrix.of fun (m j : Fin n) => upper_part g m j).det =
      ∏ m in Finset.range n, g m m := by
    rw [Matrix.det_of_upperTriangular]
    · rw [← Fin.prod_univ_eq_prod_range (fun m => g m m) n]
      refine Finset.prod_congr rfl (fun i _ => ?_)
      simp [upper_part]
    · intro i j hij
      have : (j : Nat) < i := hij
      simp only [Matrix.of_apply, upper_part]
      rw [if_neg (by omega)]
  rw [minor, hmat, Matrix.det_mul, hL, hU, one_mul]

/-- The determinant of a matrix after the elimination of its first `n1` rows and columns:
with the top left block factored compactly in `g`, the top right block `L00 * U01`, the
bottom left block `L10 * U00` and the bottom right block `S + L10 * U01`, the minor of order
`n1 + k` is the product of the diagonal of `g` and of the minor of order `k` of `S`. -/
theorem minor_block [CommRing R] (f g U01 L10 S : Nat → Nat → R) (n1 k : Nat)
    (h00 : ∀ i j, i < n1 → j < n1 → f i j =
      ∑ m in Finset.range (min i (j + 1)), g i m * g m j + (if i ≤ j then g i j else 0))
    (h01 : ∀ i j, i < n1 → j < k → f i (n1 + j) =
      U01 i j + ∑ m in Finset.range i, g i m * U01 m j)
    (h10 : ∀ i j, i < k → j < n1 → f (n1 + i) j =
      ∑ m in Finset.range (j + 1), L10 i m * g m j)
    (h11 : ∀ i j, i < k → j < k → f (n1 + i) (n1 + j) =
      S i j + ∑ m in Finset.range n1, L10 i m * U01 m j) :
    minor f (n1 + k) = (∏ m in Finset.range n1, g m m) * minor S k := by
  have hmat : (Matrix.of fun (i j : Fin (n1 + k)) => f i j).submatrix finSumFinEquiv
        finSumFinEquiv =
      Matrix.fromBlocks (Matrix.of fun (i m : Fin n1) => unit_lower g i m) 0
          (Matrix.of fun (i : Fin k) (m : Fin n1) => L10 i m) 1 *
        Matrix.fromBlocks (Matrix.of fun (m j : Fin n1) => upper_part g m j)
          (Matrix.of fun (m : Fin n1) (j : Fin k) => U01 m j) 0
          (Matrix.of fun (i j : Fin k) => S i j) := by
    rw [Matrix.fromBlocks_multiply]
    ext a b
    rcases a with i | i <;> rcases b with j | j
    · simp only [Matrix.submatrix_apply, finSumFinEquiv_apply_left, Matrix.of_apply,
        Fin.coe_castAdd, Matrix.fromBlocks_apply₁₁, Matrix.add_apply, Matrix.mul_apply,
        Matrix.zero_apply, zero_mul, Finset.sum_const_zero, add_zero]
      rw [Fin.sum_univ_eq_sum_range (fun m => unit_lower g i m * upper_part g m j) n1,
        lower_upper_sum, h00 i j i.2 j.2]
      have hi := i.2
      rw [show min n1 (min (i : Nat) ((j : Nat) + 1)) = min (i : Nat) ((j : Nat) + 1) by omega]
      by_cases hij : (i : Nat) ≤ j
      · rw [if_pos hij, if_pos ⟨hi, hij⟩]
      · rw [if_neg hij, if_neg (fun hh => hij hh.2)]
    · simp only [Matrix.submatrix_apply, finSumFinEquiv_apply_left, finSumFinEquiv_apply_right,
        Matrix.of_apply, Fin.coe_castAdd, Fin.coe_natAdd, Matrix.fromBlocks_apply₁₂,
        Matrix.add_apply, Matrix.mul_apply, Matrix.zero_apply, zero_mul,
        Finset.sum_const_zero, add_zero]
      rw [Fin.sum_univ_eq_sum_range (fun m => unit_lower g i m * U01 m j) n1, h01 i j i.2 j.2]
      have hi := i.2
      rw [← Finset.sum_range_add_sum_Ico _ (Nat.le_of_lt hi),
        Finset.sum_eq_sum_Ico_succ_bot hi]
      have e1 : ∑ m in Finset.range i, unit_lower g i m * U01 m j =
          ∑ m in Finset.range i, g i m * U01 m j := by
        refine Finset.sum_congr rfl (fun m hm => ?_)
        have := Finset.mem_range.1 hm
        simp only [unit_lower]
        rw [if_pos this]
      have e2 : ∑ m in Finset.Ico ((i : Nat) + 1) n1, unit_lower g i m * U01 m j = 0 := by
        refine Finset.sum_eq_zero (fun m hm => ?_)
        have := (Finset.mem_Ico.1 hm).1
        simp only [unit_lower]
        rw [if_neg (by omega), if_neg (by omega), zero_mul]
      have e3 : unit_lower g i i = 1 := by simp [unit_lower]
      rw [e1, e2, e3]
      ring
    · simp only [Matrix.submatrix_apply, finSumFinEquiv_apply_left, finSumFinEquiv_apply_right,
        Matrix.of_apply, Fin.coe_castAdd, Fin.coe_natAdd, Matrix.fromBlocks_apply₂₁,
        Matrix.add_apply, Matrix.mul_apply, Matrix.zero_apply, mul_zero,
        Finset.sum_const_zero, add_zero]
      rw [Fin.sum_univ_eq_sum_range (fun m => L10 i m * upper_part g m j) n1, h10 i j i.2 j.2]
      have hj := j.2
      rw [← Finset.sum_range_add_sum_Ico _ (show (j : Nat) + 1 ≤ n1 by omega)]
      have e1 : ∑ m in Finset.range ((j : Nat) + 1), L10 i m * upper_part g m j =
          ∑ m in Finset.range ((j : Nat) + 1), L10 i m * g m j := by
        refine Finset.sum_congr rfl (fun m hm => ?_)
        have := Finset.mem_range.1 hm
        simp only [upper_part]
        rw [if_pos (by omega)]
      have e2 : ∑ m in Finset.Ico ((j : Nat) + 1) n1, L10 i m * upper_part g m j = 0 := by
        refine Finset.sum_eq_zero (fun m hm => ?_)
        have := (Finset.mem_Ico.1 hm).1
        simp only [upper_part]
        rw [if_neg (by omega), mul_zero]
      rw [e1, e2, add_zero]
    · simp only [Matrix.submatrix_apply, finSumFinEquiv_apply_right,
        Matrix.of_apply, Fin.coe_natAdd, Matrix.fromBlocks_apply₂₂,
        Matrix.add_apply, Matrix.mul_apply, Matrix.one_mul]
      rw [Fin.sum_univ_eq_sum_range (fun m => L10 i m * U01 m j) n1, h11 i j i.2 j.2]
      ring
  have hL : (Matrix.of fun (i m : Fin n1) => unit_lower g i m).det = 1 := by
    rw [Matrix.det_of_lowerTriangular]
    · refine Finset.prod_eq_one (fun i _ => ?_)
      simp [unit_lower]
    · intro i j hij
      have : (i : Nat) < j := hij
      simp only [Matrix.of_apply, unit_lower]
      rw [if_neg (by omega), if_neg (by omega)]
  have hU : (Matrix.of fun (m j : Fin n1) => upper_part g m j).det =
      ∏ m in Finset.range n1, g m m := by
    rw [Matrix.det_of_upperTriangular]
    · rw [← Fin.prod_univ_eq_prod_range (fun m => g m m) n1]
      refine Finset.prod_congr rfl (fun i _ => ?_)
      simp [upper_part]
    · intro i j hij
      have : (j : Nat) < i := hij
      simp only [Matrix.of_apply, upper_part]
      rw [if_neg (by omega)]
  rw [minor, ← Matrix.det_submatrix_equiv_self finSumFinEquiv, hmat, Matrix.det_mul,
    Matrix.det_fromBlocks_zero₁₂, Matrix.det_fromBlocks_zero₂₁, hL, hU, Matrix.det_one]
  unfold minor
  ring

theorem DiagDominant.leading [LinearOrderedField R] {f : Nat → Nat → R} {n k : Nat}
    (h : DiagDominant f n) (hk : k ≤ n) : DiagDominant f k := by
  intro i hi
  refine lt_of_le_of_lt ?_ (h i (by omega))
  refine Finset.sum_le_sum_of_subset_of_nonneg ?_ (fun j _ _ => abs_nonneg _)
  intro j hj
  rw [Finset.mem_erase, Finset.mem_range] at hj ⊢
  exact ⟨hj.1, by omega⟩

/-- A strictly diagonally dominant matrix over an ordered field has a non-zero determinant:
a vector of its kernel vanishes at an index where its absolute value is largest. -/
theorem DiagDominant.minor_ne_zero [LinearOrderedField R] {f : Nat → Nat → R} {n : Nat}
    (h : DiagDominant f n) : minor f n ≠ 0 := by
  intro hdet
  obtain ⟨v, hv, hMv⟩ := Matrix.exists_mulVec_eq_zero_iff.2 hdet
  obtain ⟨i0, hi0⟩ : ∃ i0, v i0 ≠ 0 := by
    by_contra hc
    push_neg at hc
    exact hv (funext hc)
  obtain ⟨i, -, hmax⟩ := Finset.exists_max_image Finset.univ (fun i => |v i|)
    ⟨i0, Finset.mem_univ _⟩
  have hvi : 0 < |v i| := lt_of_lt_of_le (abs_pos.2 hi0) (hmax i0 (Finset.mem_univ _))
  obtain ⟨w, hw⟩ : ∃ w : Nat → R, ∀ j : Fin n, w j = v j :=
    ⟨fun j => if hj : j < n then v ⟨j, hj⟩ else 0, fun j => by simp⟩
  have hrow : ∑ j in Finset.range n, f i j * w j = 0 := by
    rw [← Fin.sum_univ_eq_sum_range (fun j => f i j * w j) n]
    have := congrFun hMv i
    simp only [Matrix.mulVec, Matrix.dotProduct, Matrix.of_apply, Pi.zero_apply] at this
    rw [← this]
    exact Finset.sum_congr rfl (fun j _ => by rw [hw])
  have hle : ∀ j, j < n → |w j| ≤ |w i| := by
    intro j hj
    have := hmax ⟨j, hj⟩ (Finset.mem_univ _)
    rw [hw i]
    simpa [hw ⟨j, hj⟩] using this
  have hi : (i : Nat) ∈ Finset.range n := Finset.mem_range.2 i.2
  rw [← Finset.add_sum_erase _ _ hi] at hrow
  have e : f i i * w i = - ∑ j in (Finset.range n).erase (i : Nat), f i j * w j :=
    eq_neg_of_add_eq_zero_left hrow
  have h1 : |f i i| * |w i| ≤ (∑ j in (Finset.range n).erase (i : Nat), |f i j|) * |w i| := by
    rw [← abs_mul, e, abs_neg, Finset.sum_mul]
    refine le_trans (Finset.abs_sum_le_sum_abs _ _) (Finset.sum_le_sum (fun j hj => ?_))
    rw [abs_mul]
    exact mul_le_mul_of_nonneg_left
      (hle j (Finset.mem_range.1 (Finset.mem_of_mem_erase hj))) (abs_nonneg _)
  have h2 := mul_lt_mul_of_pos_right (h i i.2) (by rw [hw i]; exact hvi : 0 < |w i|)
  exact absurd h1 (not_le.2 h2)

theorem DiagDominant.regular [LinearOrderedField R] {f : Nat → Nat → R} {n : Nat}
    (h : DiagDominant f n) : Regular f n :=
  fun _ hk => (h.leading hk).minor_ne_zero

/-- A run with the property `P` up to faults that has no fault at all. -/
theorem Sat_conj {ε σ : Type} (E : ε → Prop) (P Q : σ → Prop) (x : Except ε σ)
    (h1 : Sat E P x) (h2 : Sat (fun _ => False) Q x) :
    Sat (fun _ => False) (fun s => P s ∧ Q s) x := by
  cases x with
  | error e => exact h2
  | ok s => exact ⟨h1, h2⟩

/-- With no zero on the diagonal of `U`, `block_upper_solve` meets no zero divisor. -/
theorem block_upper_solve_nofault [Field R] [DecidableEq R] (B U : Nat) (hU : U ≠ B)
    (mem : Mem R) (hd : ∀ k, k < 16 → mem U k k ≠ 0) :
    Sat (fun _ => False) (fun s : Mem R => ∀ m n, s U m n = mem U m n)
      (block_upper_solve B U mem) := by
  unfold block_upper_solve
  refine forUpM_induction (fun _ => False) (fun _ (s : Mem R) => ∀ m n, s U m n = mem U m n)
    0 BLOCK_SIZE _ mem (Nat.zero_le _) (fun _ _ => rfl) ?_
  intro i s _ _ ih
  refine forUpM_induction (fun _ => False) (fun _ (s : Mem R) => ∀ m n, s U m n = mem U m n)
    0 BLOCK_SIZE _ s (Nat.zero_le _) ih ?_
  intro k s1 _ hk ih1
  unfold BLOCK_SIZE at hk
  beta_reduce
  rw [if_neg (by rw [ih1]; exact hd k hk), Sat_ok]
  intro m n
  have st := pivot_step B U i k (fun h => hU h.1) hk s1 U m n
  rw [if_neg (fun h => hU h.1)] at st
  rw [← ih1 m n]
  exact st

/-- The base case of `upper_solve` on a block, without faults. -/
theorem upper_base_safe [Field R] [DecidableEq R] (nB T Im Jm Iu Ju : Nat) (mem : Mem R)
    (hm : Jm < nB) (hu : Ju < nB)
    (au : Apart (16 * Im) (16 * Jm) 16 16 (16 * Iu) (16 * Ju) 16 16)
    (hd : ∀ k, k < 16 → cell nB mem T (16 * Iu + k) (16 * Ju + k) ≠ 0) :
    Sat (fun _ => False)
      (fun mem1 : Mem R => UpperRel (16 * nB) (cell nB mem T) (cell nB mem1 T)
        (16 * Im) (16 * Jm) (16 * Iu) (16 * Ju) 16 16)
      (block_upper_solve (T + (Im * nB + Jm)) (T + (Iu * nB + Ju)) mem) := by
  have nu : T + (Iu * nB + Ju) ≠ T + (Im * nB + Jm) := by
    unfold Apart at au
    intro he
    have := block_index_inj Iu Ju Im Jm nB hu hm (by omega)
    omega
  refine Sat_mono _ _ _ _ (Sat_conj _ _ _ _ (upper_base nB T Im Jm Iu Ju mem hm hu au)
    (block_upper_solve_nofault _ _ nu mem (fun k hk => ?_))) (fun s hs => hs.1)
  rw [← cell_block nB mem T Iu Ju k k hk hk]
  exact hd k hk

theorem upper_safe_one [Field R] [DecidableEq R] (nB T : Nat) :
    UpperSafe nB T 1 (R := R) := by
  intro Im Jm Iu Ju mem hm hu au hd
  rw [upper_solve, if_pos rfl]
  exact upper_base_safe nB T Im Jm Iu Ju mem (by omega) (by omega) au hd

theorem upper_safe_double [Field R] [DecidableEq R] (nB T h : Nat)
    (hh : 1 ≤ h) (hs : SchurOk (fun _ => False) nB T h (R := R))
    (ih : UpperSafe nB T h (R := R)) : UpperSafe nB T (h + h) (R := R) := by
  intro Im Jm Iu Ju mem hm hu au hd
  unfold Apart at au
  have hd0 : ∀ m : Mem R, (∀ k, k < 16 * (h + h) →
      cell nB m T (16 * Iu + k) (16 * Ju + k) = cell nB mem T (16 * Iu + k) (16 * Ju + k)) →
      ∀ k, k < 16 * h → cell nB m T (16 * Iu + k) (16 * Ju + k) ≠ 0 := by
    intro m hm1 k hk
    rw [hm1 k (by omega)]
    exact hd k (by omega)
  have hd1 : ∀ m : Mem R, (∀ k, k < 16 * (h + h) →
      cell nB m T (16 * Iu + k) (16 * Ju + k) = cell nB mem T (16 * Iu + k) (16 * Ju + k)) →
      ∀ k, k < 16 * h → cell nB m T (16 * (Iu + h) + k) (16 * (Ju + h) + k) ≠ 0 := by
    intro m hm1 k hk
    have := hm1 (16 * h + k) (by omega)
    rw [show 16 * (Iu + h) + k = 16 * Iu + (16 * h + k) by omega,
      show 16 * (Ju + h) + k = 16 * Ju + (16 * h + k) by omega, this]
    exact hd (16 * h + k) (by omega)
  rw [upper_solve_unfold nB T Im Jm Iu Ju h hh]
  refine Sat_bind (fun _ => False)
    (fun m3 : Mem R => UpperRel (16 * nB) (cell nB mem T) (cell nB m3 T)
    (16 * Im) (16 * Jm) (16 * Iu) (16 * Ju) (16 * h) (16 * h + 16 * h)) _ _ _ ?_
    (fun m3 p1 => ?_)
  · refine Sat_bind _ _ _ _ _ (ih Im Jm Iu Ju mem (by omega) (by omega)
      (by unfold Apart; omega) (hd0 mem (fun _ _ => rfl))) (fun m1 r1 => ?_)
    refine Sat_bind _ _ _ _ _ (hs Im (Jm + h) Im Jm Iu (Ju + h) m1 (by omega) (by omega)
      (by omega) (by unfold Apart; omega) (by unfold Apart; omega)) (fun m2 r2 => ?_)
    have k2 : ∀ k, k < 16 * (h + h) →
        cell nB m2 T (16 * Iu + k) (16 * Ju + k) = cell nB mem T (16 * Iu + k) (16 * Ju + k) := by
      intro k hk
      rw [r2.2 _ _ (by omega) (by omega), r1.2 _ _ (by omega) (by omega)]
    refine Sat_mono _ _ _ _ (ih Im (Jm + h) (Iu + h) (Ju + h) m2 (by omega) (by omega)
      (by unfold Apart; omega) (hd1 m2 k2)) (fun m3 r3 => ?_)
    simp only [Nat.mul_add] at r1 r2 r3
    exact upper_hcat _ _ _ _ _ _ _ _ _ _ _ _ (by omega) (by omega) (by unfold Apart; omega)
      r1 r2 r3
  · have k3 : ∀ k, k < 16 * (h + h) →
        cell nB m3 T (16 * Iu + k) (16 * Ju + k) = cell nB mem T (16 * Iu + k) (16 * Ju + k) := by
      intro k hk
      rw [p1.2 _ _ (by omega) (by omega)]
    refine Sat_bind _ _ _ _ _ (ih (Im + h) Jm Iu Ju m3 (by omega) (by omega)
      (by unfold Apart; omega) (hd0 m3 k3)) (fun m4 r4 => ?_)
    refine Sat_bind _ _ _ _ _ (hs (Im + h) (Jm + h) (Im + h) Jm Iu (Ju + h) m4 (by omega)
      (by omega) (by omega) (by unfold Apart; omega) (by unfold Apart; omega))
      (fun m5 r5 => ?_)
    have k5 : ∀ k, k < 16 * (h + h) →
        cell nB m5 T (16 * Iu + k) (16 * Ju + k) = cell nB mem T (16 * Iu + k) (16 * Ju + k) := by
      intro k hk
      rw [r5.2 _ _ (by omega) (by omega), r4.2 _ _ (by omega) (by omega), k3 k hk]
    refine Sat_mono _ _ _ _ (ih (Im + h) (Jm + h) (Iu + h) (Ju + h) m5 (by omega) (by omega)
      (by unfold Apart; omega) (hd1 m5 k5)) (fun m6 r6 => ?_)
    simp only [Nat.mul_add] at r4 r5 r6 ⊢
    have p2 := upper_hcat _ _ _ _ _ _ _ _ _ _ _ _ (by omega) (by omega)
      (by unfold Apart; omega) r4 r5 r6
    exact upper_vcat _ _ _ _ _ _ _ _ _ _ _ (by omega) (by omega) (by unfold Apart; omega)
      p1 p2

theorem upper_safe_pow [Field R] [DecidableEq R] (nB T t : Nat) :
    UpperSafe nB T (2 ^ t) (R := R) := by
  induction t with
  | zero => exact upper_safe_one nB T
  | succ t ih =>
    rw [pow_two_double]
    exact upper_safe_double nB T _ Nat.one_le_two_pow (schur_ok_pow _ nB T t) ih

theorem minor_congr [CommRing R] (f g : Nat → Nat → R) (n : Nat)
    (h : ∀ i j, i < n → j < n → f i j = g i j) : minor f n = minor g n := by
  unfold minor
  congr 1
  ext i j
  exact h i j i.2 j.2

theorem Regular.agree [CommRing R] {f g : Nat → Nat → R} {n : Nat} (hf : Regular f n)
    (h : ∀ i j, i < n → j < n → f i j = g i j) : Regular g n := by
  intro k hk
  rw [← minor_congr f g k (fun i j hi hj => h i j (by omega) (by omega))]
  exact hf k hk

theorem Regular.upto [CommRing R] {f : Nat → Nat → R} {n k : Nat} (hf : Regular f n)
    (hk : k ≤ n) : Regular f k :=
  fun m hm => hf m (by omega)

/-- The diagonal of the compact factors of a matrix with non-zero leading principal minors
has no zero. -/
theorem lu_diag_ne_zero [Field R] (Wd : Nat) (G0 G1 : Nat → Nat → R) (r c n : Nat)
    (h1 : LURel Wd G0 G1 r c n) (hreg : Regular (fun i j => G0 (r + i) (c + j)) n)
    (k : Nat) (hk : k < n) : G1 (r + k) (c + k) ≠ 0 := by
  have hm := minor_lu (fun i j => G0 (r + i) (c + j)) (fun i j => G1 (r + i) (c + j)) (k + 1)
    (fun i j hi hj => h1.1 i j (by omega) (by omega))
  have hne := hreg (k + 1) (by omega)
  rw [hm] at hne
  exact Finset.prod_ne_zero_iff.1 hne k (Finset.mem_range.2 (by omega))

/-- After the first four steps of `lu` on a matrix with non-zero leading principal minors,
the Schur complement left in the bottom right quadrant has non-zero leading principal
minors. -/
theorem schur_regular [Field R] (Wd : Nat) (G0 G1 G2 G3 G4 : Nat → Nat → R)
    (r c n1 n2 : Nat) (hw : c + n1 + n2 ≤ Wd)
    (h1 : LURel Wd G0 G1 r c n1)
    (h2 : LowerRel Wd G1 G2 r (c + n1) r c n1 n2)
    (h3 : UpperRel Wd G2 G3 (r + n1) c r c n2 n1)
    (h4 : SchurRel Wd G3 G4 (r + n1) (c + n1) (r + n1) c r (c + n1) n2 n2 n1)
    (hreg : Regular (fun i j => G0 (r + i) (c + j)) (n1 + n2)) :
    Regular (fun i j => G4 (r + n1 + i) (c + n1 + j)) n2 := by
  intro k hk
  have hb := minor_block (fun i j => G0 (r + i) (c + j)) (fun i j => G1 (r + i) (c + j))
    (fun i j => G2 (r + i) (c + n1 + j)) (fun i j => G3 (r + n1 + i) (c + j))
    (fun i j => G4 (r + n1 + i) (c + n1 + j)) n1 k
    (fun i j hi hj => h1.1 i j hi hj) ?_ ?_ ?_
  · have hne := hreg (n1 + k) (by omega)
    rw [hb] at hne
    exact right_ne_zero_of_mul hne
  · intro i j hi hj
    have e := h2.1 i j hi (by omega)
    rw [h1.2 (r + i) (c + n1 + j) (by omega) (by omega)] at e
    show G0 (r + i) (c + (n1 + j)) = G2 (r + i) (c + n1 + j) +
      ∑ m in Finset.range i, G1 (r + i) (c + m) * G2 (r + m) (c + n1 + j)
    rw [← Nat.add_assoc]
    exact e
  · intro i j hi hj
    have e := h3.1 i j (by omega) hj
    rw [h2.2 (r + n1 + i) (c + j) (by omega) (by omega),
      h1.2 (r + n1 + i) (c + j) (by omega) (by omega)] at e
    show G0 (r + (n1 + i)) (c + j) =
      ∑ m in Finset.range (j + 1), G3 (r + n1 + i) (c + m) * G1 (r + m) (c + j)
    rw [← Nat.add_assoc, e]
    refine Finset.sum_congr rfl (fun m hm => ?_)
    have := Finset.mem_range.1 hm
    rw [h2.2 (r + m) (c + j) (by omega) (by omega)]
  · intro i j hi hj
    have e := h4.1 i j (by omega) (by omega)
    rw [h3.2 (r + n1 + i) (c + n1 + j) (by omega) (by omega),
      h2.2 (r + n1 + i) (c + n1 + j) (by omega) (by omega),
      h1.2 (r + n1 + i) (c + n1 + j) (by omega) (by omega)] at e
    have e2 : ∑ m in Finset.range n1, G3 (r + n1 + i) (c + m) * G3 (r + m) (c + n1 + j) =
        ∑ m in Finset.range n1, G3 (r + n1 + i) (c + m) * G2 (r + m) (c + n1 + j) := by
      refine Finset.sum_congr rfl (fun m hm => ?_)
      have := Finset.mem_range.1 hm
      rw [h3.2 (r + m) (c + n1 + j) (by omega) (by omega)]
    rw [e2] at e
    show G0 (r + (n1 + i)) (c + (n1 + j)) = G4 (r + n1 + i) (c + n1 + j) +
      ∑ m in Finset.range n1, G3 (r + n1 + i) (c + m) * G2 (r + m) (c + n1 + j)
    rw [← Nat.add_assoc, ← Nat.add_assoc, e]
    ring

/-- With a non-zero pivot, the inner loop of `block_lu` meets no zero divisor. -/
theorem block_lu_col_nofault [Field R] [DecidableEq R] (B k : Nat) (hk : k < 16)
    (s0 : Mem R) (hp : s0 B k k ≠ 0) :
    Sat (fun _ => False) (fun s : Mem R => ∀ c, s B k c = s0 B k c)
      (forUpM (k + 1) BLOCK_SIZE (fun i (mem : Mem R) =>
        if mem B k k = 0 then Except.error Fault.divisionByZero
        else
          let mem := write mem B i k (mem B i k / mem B k k)
          Except.ok (elem_daxmy (mem B i k) B k (k + 1) B i (k + 1) (BLOCK_SIZE - k - 1) mem))
        s0) := by
  refine forUpM_induction (fun _ => False) (fun _ (s : Mem R) => ∀ c, s B k c = s0 B k c)
    (k + 1) BLOCK_SIZE _ s0 (by unfold BLOCK_SIZE; omega) (fun _ => rfl) ?_
  intro i s hki _ ih
  beta_reduce
  rw [if_neg (by rw [ih]; exact hp), Sat_ok]
  intro c
  have st := pivot_step B B i k (fun h => by omega) hk s B k c
  rw [if_neg (by omega)] at st
  rw [← ih c]
  exact st

/-- On a block with non-zero leading principal minors, `block_lu` meets no zero divisor and
leaves the compact factors. -/
theorem block_lu_safe [Field R] [DecidableEq R] (B : Nat) (mem : Mem R)
    (hreg : Regular (fun i j => mem B i j) 16) :
    Sat (fun _ => False)
      (fun s : Mem R => (∀ Z r c, Z ≠ B → s Z r c = mem Z r c) ∧
        ∀ i j, i < 16 → j < 16 → mem B i j =
          ∑ m in Finset.range (min i (j + 1)), s B i m * s B m j +
            (if i ≤ j then s B i j else 0))
      (block_lu B mem) := by
  unfold block_lu
  have key := forUpM_induction (fun _ => False)
    (fun k (s : Mem R) => (∀ Z r c, Z ≠ B → s Z r c = mem Z r c) ∧
      ∀ i j, i < 16 → j < 16 → mem B i j =
        ∑ m in Finset.range (min k (min i (j + 1))), s B i m * s B m j +
          (if i ≤ j ∨ k ≤ j then s B i j else 0)) 0 BLOCK_SIZE
    (fun k (mem : Mem R) => forUpM (k + 1) BLOCK_SIZE (fun i (mem : Mem R) =>
        if mem B k k = 0 then Except.error Fault.divisionByZero
        else
          let mem := write mem B i k (mem B i k / mem B k k)
          Except.ok (elem_daxmy (mem B i k) B k (k + 1) B i (k + 1) (BLOCK_SIZE - k - 1) mem))
        mem)
    mem (Nat.zero_le _) ?_ ?_
  · refine Sat_mono _ _ _ _ key (fun s hs => ⟨hs.1, fun i j hi hj => ?_⟩)
    have := hs.2 i j hi hj
    unfold BLOCK_SIZE at this
    rw [show min 16 (min i (j + 1)) = min i (j + 1) by omega] at this
    by_cases hij : i ≤ j
    · rw [if_pos (Or.inl hij)] at this
      rw [if_pos hij]
      exact this
    · rw [if_neg (by omega)] at this
      rw [if_neg hij]
      exact this
  · refine ⟨fun _ _ _ _ => rfl, fun i j _ _ => ?_⟩
    simp
  · intro k s _ hk ⟨ih1, ih2⟩
    unfold BLOCK_SIZE at hk
    have hpiv : s B k k ≠ 0 := by
      have hm := minor_lu (fun i j => mem B i j) (fun i j => s B i j) (k + 1)
        (fun i j hi hj => by
          have := ih2 i j (by omega) (by omega)
          rw [show min k (min i (j + 1)) = min i (j + 1) by omega] at this
          by_cases hij : i ≤ j
          · rw [if_pos (Or.inl hij)] at this
            rw [if_pos hij]
            exact this
          · rw [if_neg (by omega)] at this
            rw [if_neg hij]
            exact this)
      have hne := hreg (k + 1) (by omega)
      rw [hm] at hne
      exact Finset.prod_ne_zero_iff.1 hne k (Finset.mem_range.2 (by omega))
    refine Sat_mono _ _ _ _ (Sat_conj _ _ _ _ (block_lu_col B k hk s)
      (block_lu_col_nofault B k hk s hpiv)) (fun s1 ⟨⟨hp, h1⟩, _⟩ => ⟨fun Z r c hZ => ?_, ?_⟩)
    · rw [h1, if_neg (fun h => hZ h.1)]
      exact ih1 Z r c hZ
    · exact block_lu_step B k hk mem s s1 hp h1 ih2

/-- The base case of `lu` on a block, without faults. -/
theorem lu_base_safe [Field R] [DecidableEq R] (nB T Im Jm : Nat) (mem : Mem R) (hm : Jm < nB)
    (hreg : Regular (fun i j => cell nB mem T (16 * Im + i) (16 * Jm + j)) 16) :
    Sat (fun _ => False)
      (fun mem1 : Mem R => LURel (16 * nB) (cell nB mem T) (cell nB mem1 T)
        (16 * Im) (16 * Jm) 16)
      (block_lu (T + (Im * nB + Jm)) mem) := by
  refine Sat_mono _ _ _ _ (block_lu_safe (T + (Im * nB + Jm)) mem
    (hreg.agree (fun i j hi hj => cell_block nB mem T Im Jm i j hi hj)))
    (fun s ⟨g1, g2⟩ => ⟨fun i j hi hj => ?_, frame_base nB mem _ T Im Jm hm g1⟩)
  rw [cell_block nB _ T Im Jm i j hi hj, g2 i j hi hj, cell_block nB _ T Im Jm i j hi hj]
  congr 1
  refine Finset.sum_congr rfl (fun k hk => ?_)
  have hk := Finset.mem_range.1 hk
  rw [cell_block nB _ T Im Jm i k hi (by omega), cell_block nB _ T Im Jm k j (by omega) hj]

theorem lu_safe_one [Field R] [DecidableEq R] (nB T : Nat) : LUSafe nB T 1 (R := R) := by
  intro Im Jm mem hm hreg
  rw [lu, if_pos rfl]
  exact lu_base_safe nB T Im Jm mem (by omega) hreg

theorem lu_safe_double [Field R] [DecidableEq R] (nB T h : Nat)
    (hh : 1 ≤ h) (hs : SchurOk (fun _ => False) nB T h (R := R))
    (hl : LowerOk (fun _ => False) nB T h (R := R))
    (hu : UpperSafe nB T h (R := R)) (ih : LUSafe nB T h (R := R)) :
    LUSafe nB T (h + h) (R := R) := by
  intro Im Jm mem hm hreg
  rw [lu_unfold nB T Im Jm h hh]
  have hreg1 : Regular (fun i j => cell nB mem T (16 * Im + i) (16 * Jm + j)) (16 * h) :=
    hreg.upto (by omega)
  refine Sat_bind _ _ _ _ _ (ih Im Jm mem (by omega) hreg1) (fun m1 r1 => ?_)
  refine Sat_bind _ _ _ _ _ (hl Im (Jm + h) Im Jm m1 (by omega) (by omega)
    (by unfold Apart; omega)) (fun m2 r2 => ?_)
  have hdiag : ∀ k, k < 16 * h → cell nB m2 T (16 * Im + k) (16 * Jm + k) ≠ 0 := by
    intro k hk
    rw [r2.2 _ _ (by omega) (by omega)]
    exact lu_diag_ne_zero _ _ _ _ _ _ r1 hreg1 k hk
  refine Sat_bind _ _ _ _ _ (hu (Im + h) Jm Im Jm m2 (by omega) (by omega)
    (by unfold Apart; omega) hdiag) (fun m3 r3 => ?_)
  refine Sat_bind _ _ _ _ _ (hs (Im + h) (Jm + h) (Im + h) Jm Im (Jm + h) m3 (by omega)
    (by omega) (by omega) (by unfold Apart; omega) (by unfold Apart; omega)) (fun m4 r4 => ?_)
  simp only [Nat.mul_add] at r1 r2 r3 r4 hreg
  have hreg4 := schur_regular _ _ _ _ _ _ _ _ _ _ (by omega) r1 r2 r3 r4 hreg
  refine Sat_mono _ _ _ _ (ih (Im + h) (Jm + h) m4 (by omega)
    (hreg4.agree (fun i j _ _ => by simp only [Nat.mul_add]))) (fun m5 r5 => ?_)
  simp only [Nat.mul_add] at r5 ⊢
  exact lu_compose _ _ _ _ _ _ _ _ _ _ _ (by omega) r1 r2 r3 r4 r5

theorem lu_safe_pow [Field R] [DecidableEq R] (nB T t : Nat) :
    LUSafe nB T (2 ^ t) (R := R) := by
  induction t with
  | zero => exact lu_safe_one nB T
  | succ t ih =>
    rw [pow_two_double]
    exact lu_safe_double nB T _ Nat.one_le_two_pow (schur_ok_pow _ nB T t)
      (lower_ok_pow _ nB T t) (upper_safe_pow nB T t) ih

/-- C18: for `nb` a power of two and a strictly row-diagonally-dominant matrix of `nb x nb`
blocks at `M` over an ordered field (`|M[i][i]|` exceeds the sum of the `|M[i][j]|`, `j ≠ i`,
in every row), the run of `lu(M, nb)` returns: none of its divisions, the pivot divisions of
`block_lu` and the diagonal divisions of `block_upper_solve`, meets a zero divisor. -/
theorem lu_diag_dominant_safe [LinearOrderedField R] (nBlocks M nb t : Nat) (hnb : nb = 2 ^ t)
    (hle : nb ≤ nBlocks) (mem : Mem R)
    (hdd : ∀ i, i < BLOCK_SIZE * nb →
      ∑ j in (Finset.range (BLOCK_SIZE * nb)).erase i, |cell nBlocks mem M i j| <
        |cell nBlocks mem M i i|) :
    lu nBlocks M nb mem ≠ Except.error Fault.divisionByZero ∧
      ∃ mem1, lu nBlocks M nb mem = Except.ok mem1 := by
  subst hnb
  have hreg : Regular (fun i j => cell nBlocks mem M (16 * 0 + i) (16 * 0 + j)) (16 * 2 ^ t) := by
    have hd : DiagDominant (cell nBlocks mem M) (16 * 2 ^ t) := hdd
    refine hd.regular.agree (fun i j _ _ => ?_)
    rw [Nat.mul_zero, Nat.zero_add, Nat.zero_add]
  have key := lu_safe_pow nBlocks M t 0 0 mem (by omega) hreg (R := R)
  have e : M + (0 * nBlocks + 0) = M := by omega
  rw [e] at key
  cases hx : lu nBlocks M (2 ^ t) mem with
  | error f =>
    rw [hx] at key
    exact absurd key id
  | ok mem1 => exact ⟨fun h => Except.noConfusion h, mem1, rfl⟩

/-- Witness of `lu_diag_dominant_safe`: one block (`nb = nBlocks = 1`) of rationals with 20 on
the diagonal and 1 elsewhere. -/
theorem lu_diag_dominant_safe_witness :
    lu 1 0 1 (fun _ i j => if i = j then (20 : Rat) else 1) ≠
        Except.error Fault.divisionByZero ∧
      ∃ mem1, lu 1 0 1 (fun _ i j => if i = j then (20 : Rat) else 1) = Except.ok mem1 :=
  lu_diag_dominant_safe 1 0 1 0 (by decide) (by decide) _ (fun i hi => by
    unfold BLOCK_SIZE at hi
    have e1 : ∀ j ∈ (Finset.range (BLOCK_SIZE * 1)).erase i,
        |cell 1 (fun _ i j => if i = j then (20 : Rat) else 1) 0 i j| = 1 := by
      intro j hj
      rw [Finset.mem_erase, Finset.mem_range] at hj
      unfold BLOCK_SIZE at hj
      show |(if i % 16 = j % 16 then (20 : Rat) else 1)| = 1
      rw [if_neg (by omega), abs_one]
    have e2 : |cell 1 (fun _ i j => if i = j then (20 : Rat) else 1) 0 i i| = 20 := by
      show |(if i % 16 = i % 16 then (20 : Rat) else 1)| = 20
      rw [if_pos rfl]
      norm_num
    rw [Finset.sum_congr rfl e1, e2, Finset.sum_const,
      Finset.card_erase_of_mem (Finset.mem_range.2 (by unfold BLOCK_SIZE; omega)),
      Finset.card_range]
    unfold BLOCK_SIZE
    norm_num)

theorem forUpM_go_snoc {ε σ : Type} (body : Nat → σ → Except ε σ) (c : Nat) :
    ∀ (i : Nat) (s : σ), forUpM.go body (c + 1) i s =
      (forUpM.go body c i s).bind (body (i + c)) := by
  induction c with
  | zero =>
    intro i s
    show forUpM.go body 1 i s = body i s
    rw [forUpM.go]
    cases body i s <;> rfl
  | succ c ih =>
    intro i s
    rw [forUpM.go]
    cases h : body i s with
    | error e =>
      show _ = (forUpM.go body (c + 1) i s).bind (body (i + (c + 1)))
      rw [forUpM.go, h]
      rfl
    | ok s1 =>
      show forUpM.go body (c + 1) (i + 1) s1 = (forUpM.go body (c + 1) i s).bind _
      rw [ih (i + 1) s1]
      conv_rhs => rw [forUpM.go, h]
      show _ = (forUpM.go body c (i + 1) s1).bind (body (i + (c + 1)))
      rw [show i + 1 + c = i + (c + 1) by omega]

/-- One more round of a counted loop whose body may fail. -/
theorem forUpM_snoc {ε σ : Type} (a b : Nat) (body : Nat → σ → Except ε σ) (s : σ)
    (h : a ≤ b) : forUpM a (b + 1) body s = (forUpM a b body s).bind (body b) := by
  unfold forUpM
  rw [show b + 1 - a = (b - a) + 1 by omega, forUpM_go_snoc, show a + (b - a) = b by omega]

theorem Sat_false_ok {ε σ : Type} (P : σ → Prop) (x : Except ε σ)
    (h : Sat (fun _ => False) P x) : ∃ s, x = Except.ok s ∧ P s := by
  cases x with
  | error e => exact absurd h id
  | ok s => exact ⟨s, rfl, h⟩

/-- C2: for `nb` a power of two and a matrix of `nb x nb` blocks at `M` (block stride
`nBlocks ≥ nb`) over a field: when all leading principal minors of the matrix are non-zero,
no value that `lu(M, nb)` uses as a divisor is zero and the run returns; and whenever no
divisor is zero (the run does not stop with `divisionByZero`), the run returns.  The result
`mem1` then satisfies `L * U =` the original matrix, where `L` is the strict lower triangle of
the result with a unit diagonal and `U` its upper triangle, and the value `v` that
`test_result` forms for each entry is that entry of the original matrix. -/
theorem lu_correct [Field R] [DecidableEq R] (nBlocks M nb t : Nat) (hnb : nb = 2 ^ t)
    (hle : nb ≤ nBlocks) (mem : Mem R) :
    (Regular (cell nBlocks mem M) (BLOCK_SIZE * nb) →
      ∃ mem1, lu nBlocks M nb mem = Except.ok mem1 ∧
        ∀ i j, i < BLOCK_SIZE * nb → j < BLOCK_SIZE * nb →
          ∑ k in Finset.range (BLOCK_SIZE * nb),
            unit_lower (cell nBlocks mem1 M) i k * upper_part (cell nBlocks mem1 M) k j =
            cell nBlocks mem M i j ∧
          test_result_v nBlocks mem1 M i j = cell nBlocks mem M i j) ∧
    (lu nBlocks M nb mem ≠ Except.error Fault.divisionByZero →
      ∃ mem1, lu nBlocks M nb mem = Except.ok mem1 ∧
        ∀ i j, i < BLOCK_SIZE * nb → j < BLOCK_SIZE * nb →
          ∑ k in Finset.range (BLOCK_SIZE * nb),
            unit_lower (cell nBlocks mem1 M) i k * upper_part (cell nBlocks mem1 M) k j =
            cell nBlocks mem M i j ∧
          test_result_v nBlocks mem1 M i j = cell nBlocks mem M i j) := by
  subst hnb
  have e : M + (0 * nBlocks + 0) = M := by omega
  have good : ∀ mem1 : Mem R,
      LURel (16 * nBlocks) (cell nBlocks mem M) (cell nBlocks mem1 M) (16 * 0) (16 * 0)
        (16 * 2 ^ t) →
      ∀ i j, i < BLOCK_SIZE * 2 ^ t → j < BLOCK_SIZE * 2 ^ t →
        ∑ k in Finset.range (BLOCK_SIZE * 2 ^ t),
          unit_lower (cell nBlocks mem1 M) i k * upper_part (cell nBlocks mem1 M) k j =
          cell nBlocks mem M i j ∧
        test_result_v nBlocks mem1 M i j = cell nBlocks mem M i j := by
    intro mem1 h i j hi hj
    unfold BLOCK_SIZE at hi hj ⊢
    have g := h.1 i j hi hj
    simp only [Nat.mul_zero, Nat.zero_add] at g
    rw [lower_upper_sum, test_result_v_eq,
      show min (16 * 2 ^ t) (min i (j + 1)) = min i (j + 1) by omega]
    by_cases hij : i ≤ j
    · rw [if_pos ⟨hi, hij⟩, if_pos hij]
      rw [if_pos hij] at g
      exact ⟨g.symm, g.symm⟩
    · rw [if_neg (by omega), if_neg hij]
      rw [if_neg hij] at g
      exact ⟨g.symm, g.symm⟩
  refine ⟨fun hreg => ?_, fun hne => ?_⟩
  · have hreg1 : Regular (fun i j => cell nBlocks mem M (16 * 0 + i) (16 * 0 + j))
        (16 * 2 ^ t) := by
      refine Regular.agree hreg (fun i j _ _ => ?_)
      rw [Nat.mul_zero, Nat.zero_add, Nat.zero_add]
    have key := lu_safe_pow nBlocks M t 0 0 mem (by omega) hreg1 (R := R)
    rw [e] at key
    obtain ⟨mem1, h1, h2⟩ := Sat_false_ok _ _ key
    exact ⟨mem1, h1, good mem1 h2⟩
  · have key := lu_ok_pow nBlocks M t 0 0 mem (by omega) (R := R)
    rw [e] at key
    cases hx : lu nBlocks M (2 ^ t) mem with
    | error f =>
      rw [hx] at key
      have hf : f = Fault.divisionByZero := key
      rw [hx, hf] at hne
      exact absurd rfl hne
    | ok mem1 =>
      rw [hx] at key
      exact ⟨mem1, rfl, good mem1 key⟩

/-- Witness of `lu_correct`: a 32 x 32 matrix of rationals in 2 x 2 blocks (`nb = nBlocks = 2`,
one level of the recursion above `block_lu`) with 40 on the diagonal and 1 elsewhere; it is
strictly diagonally dominant, so its leading principal minors are non-zero, and the run
returns the factors. -/
theorem lu_correct_witness :
    ∃ mem1, lu 2 0 2 (fun b r c => if b % 3 = 0 ∧ r = c then (40 : Rat) else 1) =
        Except.ok mem1 ∧
      ∀ i j, i < BLOCK_SIZE * 2 → j < BLOCK_SIZE * 2 →
        ∑ k in Finset.range (BLOCK_SIZE * 2),
          unit_lower (cell 2 mem1 0) i k * upper_part (cell 2 mem1 0) k j =
          cell 2 (fun b r c => if b % 3 = 0 ∧ r = c then (40 : Rat) else 1) 0 i j ∧
        test_result_v 2 mem1 0 i j =
          cell 2 (fun b r c => if b % 3 = 0 ∧ r = c then (40 : Rat) else 1) 0 i j :=
  (lu_correct 2 0 2 1 (by decide) (by decide) _).1
    (DiagDominant.regular (fun i hi => by
      unfold BLOCK_SIZE at hi
      have e1 : ∀ j ∈ (Finset.range (BLOCK_SIZE * 2)).erase i,
          |cell 2 (fun b r c => if b % 3 = 0 ∧ r = c then (40 : Rat) else 1) 0 i j| = 1 := by
        intro j hj
        rw [Finset.mem_erase, Finset.mem_range] at hj
        unfold BLOCK_SIZE at hj
        show |(if (0 + (i / 16 * 2 + j / 16)) % 3 = 0 ∧ i % 16 = j % 16 then (40 : Rat)
          else 1)| = 1
        rw [if_neg (by omega), abs_one]
      have e2 : |cell 2 (fun b r c => if b % 3 = 0 ∧ r = c then (40 : Rat) else 1) 0 i i| =
          40 := by
        show |(if (0 + (i / 16 * 2 + i / 16)) % 3 = 0 ∧ i % 16 = i % 16 then (40 : Rat)
          else 1)| = 40
        rw [if_pos ⟨by omega, rfl⟩]
        norm_num
      rw [Finset.sum_congr rfl e1, e2, Finset.sum_const,
        Finset.card_erase_of_mem (Finset.mem_range.2 (by unfold BLOCK_SIZE; omega)),
        Finset.card_range]
      unfold BLOCK_SIZE
      norm_num))

theorem block_lu_eq_rounds [Sub R] [Mul R] [Div R] [Zero R] [DecidableEq R] (B : Nat)
    (mem : Mem R) : block_lu B mem = block_lu_rounds B BLOCK_SIZE mem := rfl

/-- While the pivots met are non-zero, the rounds of `block_lu` meet no zero divisor. -/
theorem block_lu_rounds_ok [Field R] [DecidableEq R] (B : Nat) (mem : Mem R)
    (hpiv : ∀ k, k < 15 → ∀ s, block_lu_rounds B k mem = Except.ok s → s B k k ≠ 0) :
    ∀ n, n ≤ 16 → ∃ s, block_lu_rounds B n mem = Except.ok s := by
  intro n
  induction n with
  | zero => exact fun _ => ⟨mem, rfl⟩
  | succ n ih =>
    intro hn
    obtain ⟨s, hs⟩ := ih (by omega)
    unfold block_lu_rounds at hs ⊢
    rw [forUpM_snoc _ _ _ _ (Nat.zero_le _), hs, bind_ok]
    by_cases h15 : n < 15
    · obtain ⟨s1, h1, _⟩ := Sat_false_ok _ _
        (block_lu_col_nofault B n (by omega) s (hpiv n h15 s hs))
      exact ⟨s1, h1⟩
    · have e : n = 15 := by omega
      subst e
      exact ⟨s, rfl⟩

/-- The rounds of `block_lu` change nothing in an upper-triangular block with a non-zero
diagonal. -/
theorem block_lu_rounds_noop [Field R] [DecidableEq R] (B n : Nat) (hn : n ≤ 16) (mem : Mem R)
    (hz : ∀ i k, i < 16 → k < i → mem B i k = 0) (hd : ∀ k, k < 16 → mem B k k ≠ 0) :
    block_lu_rounds B n mem = Except.ok mem := by
  unfold block_lu_rounds BLOCK_SIZE
  refine forUpM_const _ _ _ _ (Nat.zero_le _) (fun k _ hk => ?_)
  refine forUpM_const _ _ _ _ (by omega) (fun i hki hi => ?_)
  beta_reduce
  rw [if_neg (hd k (by omega))]
  have e : write mem B i k (mem B i k / mem B k k) = mem := by
    rw [hz i k hi (by omega), zero_div]
    conv => lhs; arg 5; rw [← hz i k hi (by omega)]
    exact write_self mem B i k
  show Except.ok (elem_daxmy (write mem B i k (mem B i k / mem B k k) B i k) B k (k + 1) B i
    (k + 1) (16 - k - 1) (write mem B i k (mem B i k / mem B k k))) = Except.ok mem
  rw [e, hz i k hi (by omega), elem_daxmy_zero]

/-- The row `i` of `L' * X`, with `L'` the strict lower triangle of `L` with a unit
diagonal. -/
theorem unit_lower_sum [CommRing R] (L X : Nat → Nat → R) (i j n : Nat) :
    ∑ k in Finset.range n, unit_lower L i k * X k j =
      ∑ k in Finset.range (min n i), L i k * X k j + (if i < n then X i j else 0) := by
  induction n with
  | zero => simp
  | succ n ih =>
    rw [Finset.sum_range_succ, ih]
    rcases Nat.lt_trichotomy n i with h | h | h
    · have eL : unit_lower L i n = L i n := by
        unfold unit_lower
        rw [if_pos h]
      rw [eL, if_neg (show ¬ i < n by omega), if_neg (show ¬ i < n + 1 by omega),
        show min (n + 1) i = n + 1 by omega, show min n i = n by omega, Finset.sum_range_succ]
      ring
    · subst h
      have eL : unit_lower L n n = 1 := by
        unfold unit_lower
        rw [if_neg (lt_irrefl _), if_pos rfl]
      rw [eL, if_neg (lt_irrefl _), if_pos (show n < n + 1 by omega),
        show min (n + 1) n = min n n by omega]
      ring
    · have eL : unit_lower L i n = 0 := by
        unfold unit_lower
        rw [if_neg (by omega), if_neg (by omega)]
      rw [eL, if_pos h, if_pos (show i < n + 1 by omega),
        show min (n + 1) i = min n i by omega]
      ring

/-- The column `j` of `X * U'`, with `U'` the upper triangle of `U`. -/
theorem upper_part_sum [CommRing R] (X U : Nat → Nat → R) (i j n : Nat) :
    ∑ k in Finset.range n, X i k * upper_part U k j =
      ∑ k in Finset.range (min n (j + 1)), X i k * U k j := by
  induction n with
  | zero => simp
  | succ n ih =>
    rw [Finset.sum_range_succ, ih]
    unfold upper_part
    by_cases h : n ≤ j
    · rw [if_pos h, show min (n + 1) (j + 1) = n + 1 by omega, show min n (j + 1) = n by omega,
        Finset.sum_range_succ]
    · rw [if_neg h, show min (n + 1) (j + 1) = min n (j + 1) by omega]
      ring

/-- C23: for a block `B` over a field in which the pivot `B[k][k]` met at each step
`k = 0 .. 14` (the entry found there after the rounds `0 .. k - 1`) is non-zero, `block_lu`
returns, the other blocks are untouched, and the block left in `B` holds the compact factors:
the product of `L` (strict lower triangle of the result, unit diagonal) and `U` (upper
triangle of the result with its diagonal) is the original block. -/
theorem block_lu_factors [Field R] [DecidableEq R] (B : Nat) (mem : Mem R)
    (hpiv : ∀ k, k < 15 → ∀ s, block_lu_rounds B k mem = Except.ok s → s B k k ≠ 0) :
    ∃ s, block_lu B mem = Except.ok s ∧
      (∀ i j, i < BLOCK_SIZE → j < BLOCK_SIZE →
        ∑ k in Finset.range BLOCK_SIZE, unit_lower (s B) i k * upper_part (s B) k j =
          mem B i j) ∧
      ∀ Z, Z ≠ B → s Z = mem Z := by
  obtain ⟨s, hs⟩ := block_lu_rounds_ok B mem hpiv 16 (le_refl _)
  have key := block_lu_spec B mem
  rw [block_lu_eq_rounds] at key ⊢
  unfold BLOCK_SIZE at key ⊢
  rw [hs, Sat_ok] at key
  refine ⟨s, hs, fun i j hi hj => ?_, fun Z hZ => ?_⟩
  · rw [lower_upper_sum, key.2 i j hi hj, show min 16 (min i (j + 1)) = min i (j + 1) by omega]
    by_cases hij : i ≤ j
    · rw [if_pos ⟨hi, hij⟩, if_pos hij]
    · rw [if_neg (by omega), if_neg hij]
  · funext r c
    exact key.1 Z r c hZ

/-- Witness of `block_lu_factors`: the rational identity block. -/
theorem block_lu_factors_witness :
    (∀ k, k < 15 → ∀ s, block_lu_rounds 0 k (fun _ i j => if i = j then (1 : Rat) else 0) =
      Except.ok s → s 0 k k ≠ 0) ∧
    ∃ s, block_lu 0 (fun _ i j => if i = j then (1 : Rat) else 0) = Except.ok s ∧
      (∀ i j, i < BLOCK_SIZE → j < BLOCK_SIZE →
        ∑ k in Finset.range BLOCK_SIZE, unit_lower (s 0) i k * upper_part (s 0) k j =
          (fun (_ : Nat) i j => if i = j then (1 : Rat) else 0) 0 i j) ∧
      ∀ Z, Z ≠ 0 → s Z = (fun (_ : Nat) i j => if i = j then (1 : Rat) else 0) Z :=
  have hp : ∀ k, k < 15 → ∀ s,
      block_lu_rounds 0 k (fun _ i j => if i = j then (1 : Rat) else 0) = Except.ok s →
      s 0 k k ≠ 0 := fun k hk s hs => by
    rw [block_lu_rounds_noop 0 k (by omega) _
      (fun i k _ hki => if_neg (by omega))
      (fun k _ => by
        show (if k = k then (1 : Rat) else 0) ≠ 0
        rw [if_pos rfl]
        exact one_ne_zero)] at hs
    rw [← Except.ok.inj hs]
    show (if k = k then (1 : Rat) else 0) ≠ 0
    rw [if_pos rfl]
    exact one_ne_zero
  ⟨hp, block_lu_factors 0 _ hp⟩

/-- C24: for `nb` a power of two and matrices `M`, `V`, `W` of `nb x nb` blocks at the block
coordinates `(Im, Jm)`, `(Iv, Jv)`, `(Iw, Jw)` of a grid with `nBlocks` block columns (the
global stride), the blocks of `M` apart from those of `V` and of `W`, the call
`schur(M, V, W, nb)` returns and leaves `M = M_before - V * W`; `V`, `W` and every other
entry of the grid are unchanged. -/
theorem schur_spec [CommRing R] (nBlocks T nb t : Nat) (hnb : nb = 2 ^ t)
    (Im Jm Iv Jv Iw Jw : Nat) (mem : Mem R)
    (hm : Jm + nb ≤ nBlocks) (hv : Jv + nb ≤ nBlocks) (hw : Jw + nb ≤ nBlocks)
    (av : Apart (16 * Im) (16 * Jm) (16 * nb) (16 * nb) (16 * Iv) (16 * Jv) (16 * nb) (16 * nb))
    (aw : Apart (16 * Im) (16 * Jm) (16 * nb) (16 * nb) (16 * Iw) (16 * Jw) (16 * nb) (16 * nb)) :
    ∃ mem1, schur nBlocks (T + (Im * nBlocks + Jm)) (T + (Iv * nBlocks + Jv))
        (T + (Iw * nBlocks + Jw)) nb mem = Except.ok mem1 ∧
      (∀ i j, i < BLOCK_SIZE * nb → j < BLOCK_SIZE * nb →
        cell nBlocks mem1 T (16 * Im + i) (16 * Jm + j) =
          cell nBlocks mem T (16 * Im + i) (16 * Jm + j) -
            ∑ k in Finset.range (BLOCK_SIZE * nb),
              cell nBlocks mem T (16 * Iv + i) (16 * Jv + k) *
                cell nBlocks mem T (16 * Iw + k) (16 * Jw + j)) ∧
      (∀ i j, i < BLOCK_SIZE * nb → j < BLOCK_SIZE * nb →
        cell nBlocks mem1 T (16 * Iv + i) (16 * Jv + j) =
          cell nBlocks mem T (16 * Iv + i) (16 * Jv + j)) ∧
      (∀ i j, i < BLOCK_SIZE * nb → j < BLOCK_SIZE * nb →
        cell nBlocks mem1 T (16 * Iw + i) (16 * Jw + j) =
          cell nBlocks mem T (16 * Iw + i) (16 * Jw + j)) ∧
      ∀ i j, j < 16 * nBlocks →
        ¬ (16 * Im ≤ i ∧ i < 16 * Im + 16 * nb ∧ 16 * Jm ≤ j ∧ j < 16 * Jm + 16 * nb) →
        cell nBlocks mem1 T i j = cell nBlocks mem T i j := by
  subst hnb
  obtain ⟨mem1, h1, hrel, hfr⟩ := Sat_false_ok _ _
    (schur_ok_pow (fun _ => False) nBlocks T t Im Jm Iv Jv Iw Jw mem hm hv hw av aw)
  unfold BLOCK_SIZE
  unfold Apart at av aw
  refine ⟨mem1, h1, hrel, fun i j hi hj => ?_, fun i j hi hj => ?_, hfr⟩
  · exact hfr _ _ (by omega) (by omega)
  · exact hfr _ _ (by omega) (by omega)

/-- Witness of `schur_spec`: three blocks side by side (`nBlocks = 3`, `nb = 1`), each the
integer identity block. -/
theorem schur_spec_witness :
    (1 = 2 ^ 0 ∧ 0 + 1 ≤ 3 ∧ 1 + 1 ≤ 3 ∧ 2 + 1 ≤ 3 ∧
      Apart (16 * 0) (16 * 0) (16 * 1) (16 * 1) (16 * 0) (16 * 1) (16 * 1) (16 * 1) ∧
      Apart (16 * 0) (16 * 0) (16 * 1) (16 * 1) (16 * 0) (16 * 2) (16 * 1) (16 * 1)) ∧
    ∃ mem1, schur 3 (0 + (0 * 3 + 0)) (0 + (0 * 3 + 1)) (0 + (0 * 3 + 2)) 1
        (fun _ i j => if i = j then (1 : Int) else 0) = Except.ok mem1 ∧
      (∀ i j, i < BLOCK_SIZE * 1 → j < BLOCK_SIZE * 1 →
        cell 3 mem1 0 (16 * 0 + i) (16 * 0 + j) =
          cell 3 (fun _ i j => if i = j then (1 : Int) else 0) 0 (16 * 0 + i) (16 * 0 + j) -
            ∑ k in Finset.range (BLOCK_SIZE * 1),
              cell 3 (fun _ i j => if i = j then (1 : Int) else 0) 0 (16 * 0 + i) (16 * 1 + k) *
                cell 3 (fun _ i j => if i = j then (1 : Int) else 0) 0 (16 * 0 + k)
                  (16 * 2 + j)) ∧
      (∀ i j, i < BLOCK_SIZE * 1 → j < BLOCK_SIZE * 1 →
        cell 3 mem1 0 (16 * 0 + i) (16 * 1 + j) =
          cell 3 (fun _ i j => if i = j then (1 : Int) else 0) 0 (16 * 0 + i) (16 * 1 + j)) ∧
      (∀ i j, i < BLOCK_SIZE * 1 → j < BLOCK_SIZE * 1 →
        cell 3 mem1 0 (16 * 0 + i) (16 * 2 + j) =
          cell 3 (fun _ i j => if i = j then (1 : Int) else 0) 0 (16 * 0 + i) (16 * 2 + j)) ∧
      ∀ i j, j < 16 * 3 →
        ¬ (16 * 0 ≤ i ∧ i < 16 * 0 + 16 * 1 ∧ 16 * 0 ≤ j ∧ j < 16 * 0 + 16 * 1) →
        cell 3 mem1 0 i j = cell 3 (fun _ i j => if i = j then (1 : Int) else 0) 0 i j :=
  ⟨⟨by decide, by decide, by decide, by decide, by unfold Apart; decide,
      by unfold Apart; decide⟩,
    schur_spec 3 0 1 0 (by decide) 0 0 0 1 0 2 _ (by decide) (by decide) (by decide)
      (by unfold Apart; decide) (by unfold Apart; decide)⟩

/-- C25: for `nb` a power of two and matrices `M`, `L` of `nb x nb` blocks at the block
coordinates `(Im, Jm)`, `(Il, Jl)` of a grid with `nBlocks` block columns, the blocks of `M`
apart from those of `L`, the call `lower_solve(M, L, nb)` returns and leaves `M'` with
`Lhat * M' = M_before`, where `Lhat` has the entries of `L` strictly below the diagonal, a
unit diagonal and zeros above; `L` and every other entry of the grid are unchanged. -/
theorem lower_solve_spec [CommRing R] (nBlocks T nb t : Nat) (hnb : nb = 2 ^ t)
    (Im Jm Il Jl : Nat) (mem : Mem R)
    (hm : Jm + nb ≤ nBlocks) (hl : Jl + nb ≤ nBlocks)
    (al : Apart (16 * Im) (16 * Jm) (16 * nb) (16 * nb) (16 * Il) (16 * Jl) (16 * nb) (16 * nb)) :
    ∃ mem1, lower_solve nBlocks (T + (Im * nBlocks + Jm)) (T + (Il * nBlocks + Jl)) nb mem =
        Except.ok mem1 ∧
      (∀ i j, i < BLOCK_SIZE * nb → j < BLOCK_SIZE * nb →
        ∑ k in Finset.range (BLOCK_SIZE * nb),
          unit_lower (fun r c => cell nBlocks mem T (16 * Il + r) (16 * Jl + c)) i k *
            cell nBlocks mem1 T (16 * Im + k) (16 * Jm + j) =
          cell nBlocks mem T (16 * Im + i) (16 * Jm + j)) ∧
      (∀ i j, i < BLOCK_SIZE * nb → j < BLOCK_SIZE * nb →
        cell nBlocks mem1 T (16 * Il + i) (16 * Jl + j) =
          cell nBlocks mem T (16 * Il + i) (16 * Jl + j)) ∧
      ∀ i j, j < 16 * nBlocks →
        ¬ (16 * Im ≤ i ∧ i < 16 * Im + 16 * nb ∧ 16 * Jm ≤ j ∧ j < 16 * Jm + 16 * nb) →
        cell nBlocks mem1 T i j = cell nBlocks mem T i j := by
  subst hnb
  obtain ⟨mem1, h1, hrel, hfr⟩ := Sat_false_ok _ _
    (lower_ok_pow (fun _ => False) nBlocks T t Im Jm Il Jl mem hm hl al)
  unfold BLOCK_SIZE
  unfold Apart at al
  refine ⟨mem1, h1, fun i j hi hj => ?_, fun i j hi hj => ?_, hfr⟩
  · rw [unit_lower_sum (fun r c => cell nBlocks mem T (16 * Il + r) (16 * Jl + c))
        (fun k j => cell nBlocks mem1 T (16 * Im + k) (16 * Jm + j)) i j,
      show min (16 * 2 ^ t) i = i by omega, if_pos hi, hrel i j hi hj]
    ring
  · exact hfr _ _ (by omega) (by omega)

/-- Witness of `lower_solve_spec`: two blocks side by side (`nBlocks = 2`, `nb = 1`), `L` the
left one and `M` the right one, each the integer identity block. -/
theorem lower_solve_spec_witness :
    (1 = 2 ^ 0 ∧ 1 + 1 ≤ 2 ∧ 0 + 1 ≤ 2 ∧
      Apart (16 * 0) (16 * 1) (16 * 1) (16 * 1) (16 * 0) (16 * 0) (16 * 1) (16 * 1)) ∧
    ∃ mem1, lower_solve 2 (0 + (0 * 2 + 1)) (0 + (0 * 2 + 0)) 1
        (fun _ i j => if i = j then (1 : Int) else 0) = Except.ok mem1 ∧
      (∀ i j, i < BLOCK_SIZE * 1 → j < BLOCK_SIZE * 1 →
        ∑ k in Finset.range (BLOCK_SIZE * 1),
          unit_lower (fun r c => cell 2 (fun _ i j => if i = j then (1 : Int) else 0) 0
            (16 * 0 + r) (16 * 0 + c)) i k *
            cell 2 mem1 0 (16 * 0 + k) (16 * 1 + j) =
          cell 2 (fun _ i j => if i = j then (1 : Int) else 0) 0 (16 * 0 + i) (16 * 1 + j)) ∧
      (∀ i j, i < BLOCK_SIZE * 1 → j < BLOCK_SIZE * 1 →
        cell 2 mem1 0 (16 * 0 + i) (16 * 0 + j) =
          cell 2 (fun _ i j => if i = j then (1 : Int) else 0) 0 (16 * 0 + i) (16 * 0 + j)) ∧
      ∀ i j, j < 16 * 2 →
        ¬ (16 * 0 ≤ i ∧ i < 16 * 0 + 16 * 1 ∧ 16 * 1 ≤ j ∧ j < 16 * 1 + 16 * 1) →
        cell 2 mem1 0 i j = cell 2 (fun _ i j => if i = j then (1 : Int) else 0) 0 i j :=
  ⟨⟨by decide, by decide, by decide, by unfold Apart; decide⟩,
    lower_solve_spec 2 0 1 0 (by decide) 0 1 0 0 _ (by decide) (by decide)
      (by unfold Apart; decide)⟩

/-- C26: for `nb` a power of two and matrices `M`, `U` of `nb x nb` blocks at the block
coordinates `(Im, Jm)`, `(Iu, Ju)` of a grid with `nBlocks` block columns, the blocks of `M`
apart from those of `U`, and all diagonal entries of `U` non-zero, the call
`upper_solve(M, U, nb)` returns and leaves `M'` with `M' * Uhat = M_before`, where `Uhat` has
the entries of `U` on and above the diagonal and zeros below; `U` and every other entry of
the grid are unchanged. -/
theorem upper_solve_spec [Field R] [DecidableEq R] (nBlocks T nb t : Nat) (hnb : nb = 2 ^ t)
    (Im Jm Iu Ju : Nat) (mem : Mem R)
    (hm : Jm + nb ≤ nBlocks) (hu : Ju + nb ≤ nBlocks)
    (au : Apart (16 * Im) (16 * Jm) (16 * nb) (16 * nb) (16 * Iu) (16 * Ju) (16 * nb) (16 * nb))
    (hdiag : ∀ k, k < BLOCK_SIZE * nb → cell nBlocks mem T (16 * Iu + k) (16 * Ju + k) ≠ 0) :
    ∃ mem1, upper_solve nBlocks (T + (Im * nBlocks + Jm)) (T + (Iu * nBlocks + Ju)) nb mem =
        Except.ok mem1 ∧
      (∀ i j, i < BLOCK_SIZE * nb → j < BLOCK_SIZE * nb →
        ∑ k in Finset.range (BLOCK_SIZE * nb),
          cell nBlocks mem1 T (16 * Im + i) (16 * Jm + k) *
            upper_part (fun r c => cell nBlocks mem T (16 * Iu + r) (16 * Ju + c)) k j =
          cell nBlocks mem T (16 * Im + i) (16 * Jm + j)) ∧
      (∀ i j, i < BLOCK_SIZE * nb → j < BLOCK_SIZE * nb →
        cell nBlocks mem1 T (16 * Iu + i) (16 * Ju + j) =
          cell nBlocks mem T (16 * Iu + i) (16 * Ju + j)) ∧
      ∀ i j, j < 16 * nBlocks →
        ¬ (16 * Im ≤ i ∧ i < 16 * Im + 16 * nb ∧ 16 * Jm ≤ j ∧ j < 16 * Jm + 16 * nb) →
        cell nBlocks mem1 T i j = cell nBlocks mem T i j := by
  subst hnb
  unfold BLOCK_SIZE at hdiag
  obtain ⟨mem1, h1, hrel, hfr⟩ := Sat_false_ok _ _
    (upper_safe_pow nBlocks T t Im Jm Iu Ju mem hm hu au hdiag)
  unfold BLOCK_SIZE
  unfold Apart at au
  refine ⟨mem1, h1, fun i j hi hj => ?_, fun i j hi hj => ?_, hfr⟩
  · rw [upper_part_sum (fun i k => cell nBlocks mem1 T (16 * Im + i) (16 * Jm + k))
        (fun r c => cell nBlocks mem T (16 * Iu + r) (16 * Ju + c)) i j,
      show min (16 * 2 ^ t) (j + 1) = j + 1 by omega, hrel i j hi hj]
  · exact hfr _ _ (by omega) (by omega)

/-- Witness of `upper_solve_spec`: two blocks side by side (`nBlocks = 2`, `nb = 1`), `U` the
left one and `M` the right one, each the rational identity block. -/
theorem upper_solve_spec_witness :
    (1 = 2 ^ 0 ∧ 1 + 1 ≤ 2 ∧ 0 + 1 ≤ 2 ∧
      Apart (16 * 0) (16 * 1) (16 * 1) (16 * 1) (16 * 0) (16 * 0) (16 * 1) (16 * 1) ∧
      ∀ k, k < BLOCK_SIZE * 1 →
        cell 2 (fun _ i j => if i = j then (1 : Rat) else 0) 0 (16 * 0 + k) (16 * 0 + k) ≠ 0) ∧
    ∃ mem1, upper_solve 2 (0 + (0 * 2 + 1)) (0 + (0 * 2 + 0)) 1
        (fun _ i j => if i = j then (1 : Rat) else 0) = Except.ok mem1 ∧
      (∀ i j, i < BLOCK_SIZE * 1 → j < BLOCK_SIZE * 1 →
        ∑ k in Finset.range (BLOCK_SIZE * 1),
          cell 2 mem1 0 (16 * 0 + i) (16 * 1 + k) *
            upper_part (fun r c => cell 2 (fun _ i j => if i = j then (1 : Rat) else 0) 0
              (16 * 0 + r) (16 * 0 + c)) k j =
          cell 2 (fun _ i j => if i = j then (1 : Rat) else 0) 0 (16 * 0 + i) (16 * 1 + j)) ∧
      (∀ i j, i < BLOCK_SIZE * 1 → j < BLOCK_SIZE * 1 →
        cell 2 mem1 0 (16 * 0 + i) (16 * 0 + j) =
          cell 2 (fun _ i j => if i = j then (1 : Rat) else 0) 0 (16 * 0 + i) (16 * 0 + j)) ∧
      ∀ i j, j < 16 * 2 →
        ¬ (16 * 0 ≤ i ∧ i < 16 * 0 + 16 * 1 ∧ 16 * 1 ≤ j ∧ j < 16 * 1 + 16 * 1) →
        cell 2 mem1 0 i j = cell 2 (fun _ i j => if i = j then (1 : Rat) else 0) 0 i j :=
  have hd : ∀ k, k < BLOCK_SIZE * 1 →
      cell 2 (fun _ i j => if i = j then (1 : Rat) else 0) 0 (16 * 0 + k) (16 * 0 + k) ≠ 0 :=
    fun k _ => by
      show (if (16 * 0 + k) % 16 = (16 * 0 + k) % 16 then (1 : Rat) else 0) ≠ 0
      rw [if_pos rfl]
      exact one_ne_zero
  ⟨⟨by decide, by decide, by decide, by unfold Apart; decide, hd⟩,
    upper_solve_spec 2 0 1 0 (by decide) 0 1 0 0 _ (by decide) (by decide)
      (by unfold Apart; decide) hd⟩

theorem forUpM_rel {ε σ : Type} (Q : σ → σ → Prop) (a b : Nat) (f g : Nat → σ → Except ε σ)
    (h : ∀ i s t, a ≤ i → i < b → Q s t → Rel2 Q (f i s) (g i t)) (s t : σ) (hst : Q s t) :
    Rel2 Q (forUpM a b f s) (forUpM a b g t) := by
  induction b with
  | zero =>
    unfold forUpM
    rw [Nat.zero_sub]
    exact hst
  | succ b ih =>
    by_cases hab : a ≤ b
    · rw [forUpM_snoc _ _ _ _ hab, forUpM_snoc _ _ _ _ hab]
      exact Rel2_bind Q _ _ _ _ (ih (fun i s t h1 h2 => h i s t h1 (by omega)))
        (fun s t hq => h b s t hab (by omega) hq)
    · unfold forUpM
      rw [show b + 1 - a = 0 by omega]
      exact hst

theorem write_agree (S : Nat → Nat → Nat → Prop) (mem mem1 : Mem R) (B i j : Nat) (v v1 : R)
    (h : AgreeOn S mem mem1) (hv : v = v1) :
    AgreeOn S (write mem B i j v) (write mem1 B i j v1) := by
  intro B1 i1 j1 hs
  unfold write
  split_ifs
  · exact hv
  · exact h B1 i1 j1 hs

theorem elem_daxmy_agree [Sub R] [Mul R] (S : Nat → Nat → Nat → Prop) (a : R)
    (X xi xj Y yi yj : Nat) (n : Nat) (hS : ∀ t, t < n → S X xi (xj + t) ∧ S Y yi (yj + t))
    (mem mem1 : Mem R) (h : AgreeOn S mem mem1) :
    AgreeOn S (elem_daxmy a X xi xj Y yi yj n mem) (elem_daxmy a X xi xj Y yi yj n mem1) := by
  induction n generalizing mem mem1 with
  | zero => exact h
  | succ n ih =>
    rw [elem_daxmy, elem_daxmy]
    refine ih (fun t ht => hS t (by omega)) _ _ (write_agree S _ _ _ _ _ _ _ h ?_)
    rw [h _ _ _ (hS n (by omega)).1, h _ _ _ (hS n (by omega)).2]

theorem block_schur_agree [Sub R] [Mul R] (S : Nat → Nat → Nat → Prop) (B A C : Nat)
    (hB : ∀ i j, i < 16 → j < 16 → S B i j) (hA : ∀ i j, i < 16 → j < 16 → S A i j)
    (hC : ∀ i j, i < 16 → j < 16 → S C i j) (mem mem1 : Mem R) (h : AgreeOn S mem mem1) :
    AgreeOn S (block_schur B A C mem) (block_schur B A C mem1) := by
  unfold block_schur BLOCK_SIZE
  refine forUp_rel (AgreeOn S) _ _ _ _ (fun i s t _ hi hq => ?_) _ _ h
  refine forUp_rel (AgreeOn S) _ _ _ _ (fun k s t _ hk hq => ?_) _ _ hq
  rw [hq _ _ _ (hA i k hi hk)]
  exact elem_daxmy_agree S _ _ _ _ _ _ _ _
    (fun t ht => ⟨hC k (0 + t) hk (by omega), hB i (0 + t) hi (by omega)⟩) _ _ hq

theorem block_lower_solve_agree [Sub R] [Mul R] (S : Nat → Nat → Nat → Prop) (B L : Nat)
    (hB : ∀ i j, i < 16 → j < 16 → S B i j) (hL : ∀ i k, i < 16 → k < i → S L i k)
    (mem mem1 : Mem R) (h : AgreeOn S mem mem1) :
    AgreeOn S (block_lower_solve B L mem) (block_lower_solve B L mem1) := by
  unfold block_lower_solve BLOCK_SIZE
  refine forUp_rel (AgreeOn S) _ _ _ _ (fun i s t _ hi hq => ?_) _ _ h
  refine forUp_rel (AgreeOn S) _ _ _ _ (fun k s t _ hk hq => ?_) _ _ hq
  rw [hq _ _ _ (hL i k hi hk)]
  exact elem_daxmy_agree S _ _ _ _ _ _ _ _
    (fun t ht => ⟨hB k (0 + t) (by omega) (by omega), hB i (0 + t) hi (by omega)⟩) _ _ hq

theorem block_upper_solve_agree [Sub R] [Mul R] [Div R] [Zero R] [DecidableEq R]
    (S : Nat → Nat → Nat → Prop) (B U : Nat)
    (hB : ∀ i j, i < 16 → j < 16 → S B i j) (hU : ∀ k j, k ≤ j → j < 16 → S U k j)
    (mem mem1 : Mem R) (h : AgreeOn S mem mem1) :
    Rel2 (AgreeOn S) (block_upper_solve B U mem) (block_upper_solve B U mem1) := by
  unfold block_upper_solve BLOCK_SIZE
  refine forUpM_rel (AgreeOn S) _ _ _ _ (fun i s t _ hi hq => ?_) _ _ h
  refine forUpM_rel (AgreeOn S) _ _ _ _ (fun k s t _ hk hq => ?_) _ _ hq
  beta_reduce
  rw [hq _ _ _ (hU k k (le_refl _) hk)]
  split_ifs with h0
  · exact rfl
  · have hw : AgreeOn S (write s B i k (s B i k / t U k k))
        (write t B i k (t B i k / t U k k)) :=
      write_agree S _ _ _ _ _ _ _ hq (by rw [hq _ _ _ (hB i k hi hk)])
    show AgreeOn S _ _
    rw [hw _ _ _ (hB i k hi hk)]
    exact elem_daxmy_agree S _ _ _ _ _ _ _ _
      (fun t ht => ⟨hU k (k + 1 + t) (by omega) (by omega), hB i (k + 1 + t) hi (by omega)⟩)
      _ _ hw

theorem blk0 (M nB : Nat) : M + (0 * nB + 0) = M := by
  rw [Nat.zero_mul]
  rfl

theorem inBlocks_sub (S : Nat → Nat → Nat → Prop) (nB M nb : Nat) (h : InBlocks S nB M nb)
    (a b k : Nat) (ha : a + k ≤ nb) (hb : b + k ≤ nb) :
    InBlocks S nB (M + (a * nB + b)) k := by
  intro I J i j hI hJ hi hj
  have e : M + (a * nB + b) + (I * nB + J) = M + ((a + I) * nB + (b + J)) := by
    rw [Nat.add_mul]
    omega
  rw [e]
  exact h _ _ _ _ (by omega) (by omega) hi hj

theorem inLower_diag (S : Nat → Nat → Nat → Prop) (nB L nb : Nat) (h : InLower S nB L nb)
    (a k : Nat) (ha : a + k ≤ nb) : InLower S nB (L + (a * nB + a)) k := by
  intro I J i j hI hJ hi hj hd
  have e : L + (a * nB + a) + (I * nB + J) = L + ((a + I) * nB + (a + J)) := by
    rw [Nat.add_mul]
    omega
  rw [e]
  exact h _ _ _ _ (by omega) (by omega) hi hj (by omega)

theorem inLower_off (S : Nat → Nat → Nat → Prop) (nB L nb : Nat) (h : InLower S nB L nb)
    (a b k : Nat) (ha : a + k ≤ nb) (hb : b + k ≤ a) : InBlocks S nB (L + (a * nB + b)) k := by
  intro I J i j hI hJ hi hj
  have e : L + (a * nB + b) + (I * nB + J) = L + ((a + I) * nB + (b + J)) := by
    rw [Nat.add_mul]
    omega
  rw [e]
  exact h _ _ _ _ (by omega) (by omega) hi hj (by omega)

theorem inUpper_diag (S : Nat → Nat → Nat → Prop) (nB U nb : Nat) (h : InUpper S nB U nb)
    (a k : Nat) (ha : a + k ≤ nb) : InUpper S nB (U + (a * nB + a)) k := by
  intro I J i j hI hJ hi hj hd
  have e : U + (a * nB + a) + (I * nB + J) = U + ((a + I) * nB + (a + J)) := by
    rw [Nat.add_mul]
    omega
  rw [e]
  exact h _ _ _ _ (by omega) (by omega) hi hj (by omega)

theorem inUpper_off (S : Nat → Nat → Nat → Prop) (nB U nb : Nat) (h : InUpper S nB U nb)
    (a b k : Nat) (ha : a + k ≤ b) (hb : b + k ≤ nb) : InBlocks S nB (U + (a * nB + b)) k := by
  intro I J i j hI hJ hi hj
  have e : U + (a * nB + b) + (I * nB + J) = U + ((a + I) * nB + (b + J)) := by
    rw [Nat.add_mul]
    omega
  rw [e]
  exact h _ _ _ _ (by omega) (by omega) hi hj (by omega)

/-- The result of `schur` on the cells `S` depends only on the cells `S`, when `S` holds the
three operands. -/
theorem schur_agree [Sub R] [Mul R] (S : Nat → Nat → Nat → Prop) (nB : Nat) :
    ∀ (nb M V W : Nat) (mem mem1 : Mem R), InBlocks S nB M nb → InBlocks S nB V nb →
      InBlocks S nB W nb → AgreeOn S mem mem1 →
      Rel2 (AgreeOn S) (schur nB M V W nb mem) (schur nB M V W nb mem1) := by
  intro nb
  induction nb using Nat.strong_induction_on with
  | _ nb ih =>
    intro M V W mem mem1 hM hV hW h
    rw [schur, schur]
    by_cases h1 : nb = 1
    · rw [if_pos h1, if_pos h1]
      subst h1
      exact block_schur_agree S M V W (fun i j hi hj => blk0 M nB ▸ hM 0 0 i j (by omega) (by omega) hi hj)
        (fun i j hi hj => blk0 V nB ▸ hV 0 0 i j (by omega) (by omega) hi hj)
        (fun i j hi hj => blk0 W nB ▸ hW 0 0 i j (by omega) (by omega) hi hj) _ _ h
    · rw [if_neg h1, if_neg h1]
      by_cases h0 : nb = 0
      · rw [if_pos h0, if_pos h0]
        exact rfl
      · rw [if_neg h0, if_neg h0]
        dsimp only
        have hh : nb / 2 < nb := by omega
        have q : ∀ (X : Nat), InBlocks S nB X nb → ∀ a b, a + nb / 2 ≤ nb → b + nb / 2 ≤ nb →
            InBlocks S nB (X + (a * nB + b)) (nb / 2) :=
          fun X hX a b ha hb => inBlocks_sub S nB X nb hX a b (nb / 2) ha hb
        have z : 0 + nb / 2 ≤ nb := by omega
        have o : nb / 2 + nb / 2 ≤ nb := by omega
        refine Rel2_bind _ _ _ _ _ (ih _ hh _ _ _ _ _ (q M hM _ _ z z) (q V hV _ _ z z)
          (q W hW _ _ z z) h) (fun s t h => ?_)
        refine Rel2_bind _ _ _ _ _ (ih _ hh _ _ _ _ _ (q M hM _ _ z o) (q V hV _ _ z z)
          (q W hW _ _ z o) h) (fun s t h => ?_)
        refine Rel2_bind _ _ _ _ _ (ih _ hh _ _ _ _ _ (q M hM _ _ o z) (q V hV _ _ o z)
          (q W hW _ _ z z) h) (fun s t h => ?_)
        refine Rel2_bind _ _ _ _ _ (ih _ hh _ _ _ _ _ (q M hM _ _ o o) (q V hV _ _ o z)
          (q W hW _ _ z o) h) (fun s t h => ?_)
        refine Rel2_bind _ _ _ _ _ (ih _ hh _ _ _ _ _ (q M hM _ _ z z) (q V hV _ _ z o)
          (q W hW _ _ o z) h) (fun s t h => ?_)
        refine Rel2_bind _ _ _ _ _ (ih _ hh _ _ _ _ _ (q M hM _ _ z o) (q V hV _ _ z o)
          (q W hW _ _ o o) h) (fun s t h => ?_)
        refine Rel2_bind _ _ _ _ _ (ih _ hh _ _ _ _ _ (q M hM _ _ o z) (q V hV _ _ o o)
          (q W hW _ _ o z) h) (fun s t h => ?_)
        exact ih _ hh _ _ _ _ _ (q M hM _ _ o o) (q V hV _ _ o o) (q W hW _ _ o o) h

/-- The result of `lower_solve` on the cells `S` depends only on the cells `S`, when `S` holds
`M` and the part of `L` strictly below the diagonal. -/
theorem lower_solve_agree [Sub R] [Mul R] (S : Nat → Nat → Nat → Prop) (nB : Nat) :
    ∀ (nb M L : Nat) (mem mem1 : Mem R), InBlocks S nB M nb → InLower S nB L nb →
      AgreeOn S mem mem1 →
      Rel2 (AgreeOn S) (lower_solve nB M L nb mem) (lower_solve nB M L nb mem1) := by
  intro nb
  induction nb using Nat.strong_induction_on with
  | _ nb ih =>
    intro M L mem mem1 hM hL h
    rw [lower_solve, lower_solve]
    by_cases h1 : nb = 1
    · rw [if_pos h1, if_pos h1]
      subst h1
      exact block_lower_solve_agree S M L
        (fun i j hi hj => blk0 M nB ▸ hM 0 0 i j (by omega) (by omega) hi hj)
        (fun i k hi hk => blk0 L nB ▸ hL 0 0 i k (by omega) (by omega) hi (by omega) (by omega)) _ _ h
    · rw [if_neg h1, if_neg h1]
      by_cases h0 : nb = 0
      · rw [if_pos h0, if_pos h0]
        exact rfl
      · rw [if_neg h0, if_neg h0]
        dsimp only
        have hh : nb / 2 < nb := by omega
        have z : 0 + nb / 2 ≤ nb := by omega
        have o : nb / 2 + nb / 2 ≤ nb := by omega
        have aux : ∀ (Ma Mb : Nat) (mem mem1 : Mem R), InBlocks S nB Ma (nb / 2) →
            InBlocks S nB Mb (nb / 2) → AgreeOn S mem mem1 →
            Rel2 (AgreeOn S) (aux_lower_solve nB Ma Mb L (nb / 2) mem)
              (aux_lower_solve nB Ma Mb L (nb / 2) mem1) := by
          intro Ma Mb mem mem1 hMa hMb h
          rw [aux_lower_solve, aux_lower_solve]
          refine Rel2_bind _ _ _ _ _ (ih _ hh _ _ _ _ hMa
            (inLower_diag S nB L nb hL 0 _ z) h) (fun s t h => ?_)
          refine Rel2_bind _ _ _ _ _ (schur_agree S nB _ _ _ _ _ _ hMb
            (inLower_off S nB L nb hL _ 0 _ o (by omega)) hMa h) (fun s t h => ?_)
          exact ih _ hh _ _ _ _ hMb (inLower_diag S nB L nb hL _ _ o) h
        refine Rel2_bind _ _ _ _ _ (aux _ _ _ _ (inBlocks_sub S nB M nb hM _ _ _ z z)
          (inBlocks_sub S nB M nb hM _ _ _ o z) h) (fun s t h => ?_)
        exact aux _ _ _ _ (inBlocks_sub S nB M nb hM _ _ _ z o)
          (inBlocks_sub S nB M nb hM _ _ _ o o) h

/-- The result of `upper_solve` on the cells `S` depends only on the cells `S`, when `S` holds
`M` and the part of `U` on and above the diagonal; the two runs also fault alike. -/
theorem upper_solve_agree [Sub R] [Mul R] [Div R] [Zero R] [DecidableEq R]
    (S : Nat → Nat → Nat → Prop) (nB : Nat) :
    ∀ (nb M U : Nat) (mem mem1 : Mem R), InBlocks S nB M nb → InUpper S nB U nb →
      AgreeOn S mem mem1 →
      Rel2 (AgreeOn S) (upper_solve nB M U nb mem) (upper_solve nB M U nb mem1) := by
  intro nb
  induction nb using Nat.strong_induction_on with
  | _ nb ih =>
    intro M U mem mem1 hM hU h
    rw [upper_solve, upper_solve]
    by_cases h1 : nb = 1
    · rw [if_pos h1, if_pos h1]
      subst h1
      exact block_upper_solve_agree S M U
        (fun i j hi hj => blk0 M nB ▸ hM 0 0 i j (by omega) (by omega) hi hj)
        (fun k j hk hj => blk0 U nB ▸ hU 0 0 k j (by omega) (by omega) (by omega) hj (by omega)) _ _ h
    · rw [if_neg h1, if_neg h1]
      by_cases h0 : nb = 0
      · rw [if_pos h0, if_pos h0]
        exact rfl
      · rw [if_neg h0, if_neg h0]
        dsimp only
        have hh : nb / 2 < nb := by omega
        have z : 0 + nb / 2 ≤ nb := by omega
        have o : nb / 2 + nb / 2 ≤ nb := by omega
        have aux : ∀ (Ma Mb : Nat) (mem mem1 : Mem R), InBlocks S nB Ma (nb / 2) →
            InBlocks S nB Mb (nb / 2) → AgreeOn S mem mem1 →
            Rel2 (AgreeOn S) (aux_upper_solve nB Ma Mb U (nb / 2) mem)
              (aux_upper_solve nB Ma Mb U (nb / 2) mem1) := by
          intro Ma Mb mem mem1 hMa hMb h
          rw [aux_upper_solve, aux_upper_solve]
          refine Rel2_bind _ _ _ _ _ (ih _ hh _ _ _ _ hMa
            (inUpper_diag S nB U nb hU 0 _ z) h) (fun s t h => ?_)
          refine Rel2_bind _ _ _ _ _ (schur_agree S nB _ _ _ _ _ _ hMb hMa
            (inUpper_off S nB U nb hU 0 _ _ (by omega) o) h) (fun s t h => ?_)
          exact ih _ hh _ _ _ _ hMb (inUpper_diag S nB U nb hU _ _ o) h
        refine Rel2_bind _ _ _ _ _ (aux _ _ _ _ (inBlocks_sub S nB M nb hM _ _ _ z z)
          (inBlocks_sub S nB M nb hM _ _ _ z o) h) (fun s t h => ?_)
        exact aux _ _ _ _ (inBlocks_sub S nB M nb hM _ _ _ o z)
          (inBlocks_sub S nB M nb hM _ _ _ o o) h

theorem Rel2_agree_mono (S S1 : Nat → Nat → Nat → Prop) (hS : ∀ B i j, S1 B i j → S B i j)
    (x y : Except Fault (Mem R)) (h : Rel2 (AgreeOn S) x y) : Rel2 (AgreeOn S1) x y := by
  cases x with
  | error e =>
    cases y with
    | error e1 => exact h
    | ok t => exact absurd h id
  | ok s =>
    cases y with
    | error e1 => exact absurd h id
    | ok t => exact fun B i j hb => h B i j (hS B i j hb)

/-- C39: the result of `lower_solve(M, L, nb)` does not depend on the entries of `L` on or
above the diagonal, and the result of `upper_solve(M, U, nb)` does not depend on the entries
of `U` below the diagonal.  Two runs from memories that agree on the cells of `M` and on the
cells of `L` strictly below the diagonal leave the same `M`; two runs that agree on `M` and
on the cells of `U` on and above the diagonal fault alike (a zero on the diagonal of `U`, or
`nb = 0`) or leave the same `M`. -/
theorem solve_reads_triangle [Sub R] [Mul R] [Div R] [Zero R] [DecidableEq R]
    (nBlocks M F nb : Nat) (mem mem1 : Mem R)
    (hM : AgreeOn (MatCells nBlocks M nb) mem mem1) :
    (AgreeOn (LowerCells nBlocks F nb) mem mem1 →
      Rel2 (AgreeOn (MatCells nBlocks M nb)) (lower_solve nBlocks M F nb mem)
        (lower_solve nBlocks M F nb mem1)) ∧
    (AgreeOn (UpperCells nBlocks F nb) mem mem1 →
      Rel2 (AgreeOn (MatCells nBlocks M nb)) (upper_solve nBlocks M F nb mem)
        (upper_solve nBlocks M F nb mem1)) := by
  constructor
  · intro hF
    refine Rel2_agree_mono (fun B i j => MatCells nBlocks M nb B i j ∨
      LowerCells nBlocks F nb B i j) _ (fun B i j h => Or.inl h) _ _
      (lower_solve_agree _ nBlocks nb M F mem mem1
        (fun I J i j hI hJ hi hj => Or.inl ⟨I, J, hI, hJ, rfl, hi, hj⟩)
        (fun I J i j hI hJ hi hj hd => Or.inr ⟨I, J, hI, hJ, rfl, hi, hj, hd⟩) ?_)
    intro B i j hs
    rcases hs with hs | hs
    · exact hM B i j hs
    · exact hF B i j hs
  · intro hF
    refine Rel2_agree_mono (fun B i j => MatCells nBlocks M nb B i j ∨
      UpperCells nBlocks F nb B i j) _ (fun B i j h => Or.inl h) _ _
      (upper_solve_agree _ nBlocks nb M F mem mem1
        (fun I J i j hI hJ hi hj => Or.inl ⟨I, J, hI, hJ, rfl, hi, hj⟩)
        (fun I J i j hI hJ hi hj hd => Or.inr ⟨I, J, hI, hJ, rfl, hi, hj, hd⟩) ?_)
    intro B i j hs
    rcases hs with hs | hs
    · exact hM B i j hs
    · exact hF B i j hs

/-- Witness of `solve_reads_triangle`: one block `M` at index 0 and a factor at index 1 whose
diagonal entry `(0, 0)` differs between the two memories. -/
theorem solve_reads_triangle_witness :
    AgreeOn (MatCells 2 0 1) (fun _ _ _ => (1 : ℚ)) (write (fun _ _ _ => (1 : ℚ)) 1 0 0 5) ∧
    ((AgreeOn (LowerCells 2 1 1) (fun _ _ _ => (1 : ℚ)) (write (fun _ _ _ => (1 : ℚ)) 1 0 0 5) →
      Rel2 (AgreeOn (MatCells 2 0 1)) (lower_solve 2 0 1 1 (fun _ _ _ => (1 : ℚ)))
        (lower_solve 2 0 1 1 (write (fun _ _ _ => (1 : ℚ)) 1 0 0 5))) ∧
    (AgreeOn (UpperCells 2 1 1) (fun _ _ _ => (1 : ℚ)) (write (fun _ _ _ => (1 : ℚ)) 1 0 0 5) →
      Rel2 (AgreeOn (MatCells 2 0 1)) (upper_solve 2 0 1 1 (fun _ _ _ => (1 : ℚ)))
        (upper_solve 2 0 1 1 (write (fun _ _ _ => (1 : ℚ)) 1 0 0 5)))) :=
  have h : AgreeOn (MatCells 2 0 1) (fun _ _ _ => (1 : ℚ))
      (write (fun _ _ _ => (1 : ℚ)) 1 0 0 5) := by
    intro B i j hs
    obtain ⟨I, J, hI, hJ, hB, _, _⟩ := hs
    unfold write
    rw [if_neg (by omega)]
  ⟨h, solve_reads_triangle 2 0 1 1 _ _ h⟩

theorem elem_daxmy_out [Sub R] [Mul R] (a : R) (X xi xj Y yi yj : Nat) (b : Nat) (hb : b ≠ Y)
    (n : Nat) : ∀ (mem : Mem R), elem_daxmy a X xi xj Y yi yj n mem b = mem b := by
  induction n with
  | zero => intro mem; rfl
  | succ n ih =>
    intro mem
    rw [elem_daxmy, ih]
    funext i j
    rw [write_mem_apply, if_neg (fun h => hb h.1)]

/-- The block routines change no block but `B`. -/
theorem block_out [Sub R] [Mul R] [Div R] [Zero R] [DecidableEq R] (B b : Nat) (hb : b ≠ B)
    (mem : Mem R) :
    (∀ A C, block_schur B A C mem b = mem b) ∧ (∀ L, block_lower_solve B L mem b = mem b) ∧
    (∀ U, Sat (fun _ => True) (fun m : Mem R => m b = mem b) (block_upper_solve B U mem)) ∧
    Sat (fun _ => True) (fun m : Mem R => m b = mem b) (block_lu B mem) := by
  refine ⟨fun A C => ?_, fun L => ?_, fun U => ?_, ?_⟩
  · unfold block_schur
    refine forUp_induction (fun _ (m : Mem R) => m b = mem b) _ _ _ _ (Nat.zero_le _) rfl
      (fun i s _ _ hs => ?_)
    refine forUp_induction (fun _ (m : Mem R) => m b = mem b) _ _ _ _ (Nat.zero_le _) hs
      (fun k s _ _ hs => ?_)
    beta_reduce
    rw [elem_daxmy_out _ _ _ _ _ _ _ b hb, hs]
  · unfold block_lower_solve BLOCK_SIZE
    refine forUp_induction (fun _ (m : Mem R) => m b = mem b) _ _ _ _ (by decide) rfl
      (fun i s _ _ hs => ?_)
    refine forUp_induction (fun _ (m : Mem R) => m b = mem b) _ _ _ _ (Nat.zero_le _) hs
      (fun k s _ _ hs => ?_)
    beta_reduce
    rw [elem_daxmy_out _ _ _ _ _ _ _ b hb, hs]
  · unfold block_upper_solve
    refine forUpM_induction _ (fun _ (m : Mem R) => m b = mem b) _ _ _ _ (Nat.zero_le _) rfl
      (fun i s _ _ hs => ?_)
    refine forUpM_induction _ (fun _ (m : Mem R) => m b = mem b) _ _ _ _ (Nat.zero_le _) hs
      (fun k s _ _ hs => ?_)
    beta_reduce
    split_ifs
    · trivial
    · show _ = _
      rw [elem_daxmy_out _ _ _ _ _ _ _ b hb, ← hs]
      funext i1 j1
      rw [write_mem_apply, if_neg (fun h => hb h.1)]
  · unfold block_lu
    refine forUpM_induction _ (fun _ (m : Mem R) => m b = mem b) _ _ _ _ (Nat.zero_le _) rfl
      (fun k s _ _ hs => ?_)
    by_cases hk : k + 1 ≤ BLOCK_SIZE
    · refine forUpM_induction _ (fun _ (m : Mem R) => m b = mem b) _ _ _ _ hk hs
        (fun i s _ _ hs => ?_)
      beta_reduce
      split_ifs
      · trivial
      · show _ = _
        rw [elem_daxmy_out _ _ _ _ _ _ _ b hb, ← hs]
        funext i1 j1
        rw [write_mem_apply, if_neg (fun h => hb h.1)]
    · unfold forUpM
      rw [show BLOCK_SIZE - (k + 1) = 0 by omega]
      exact hs

theorem block_lu_agree [Sub R] [Mul R] [Div R] [Zero R] [DecidableEq R]
    (S : Nat → Nat → Nat → Prop) (B : Nat) (hB : ∀ i j, i < 16 → j < 16 → S B i j)
    (mem mem1 : Mem R) (h : AgreeOn S mem mem1) :
    Rel2 (AgreeOn S) (block_lu B mem) (block_lu B mem1) := by
  unfold block_lu BLOCK_SIZE
  refine forUpM_rel (AgreeOn S) _ _ _ _ (fun k s t _ hk hq => ?_) _ _ h
  refine forUpM_rel (AgreeOn S) _ _ _ _ (fun i s t _ hi hq => ?_) _ _ hq
  beta_reduce
  rw [hq _ _ _ (hB k k hk hk)]
  split_ifs with h0
  · exact rfl
  · have hw : AgreeOn S (write s B i k (s B i k / t B k k))
        (write t B i k (t B i k / t B k k)) :=
      write_agree S _ _ _ _ _ _ _ hq (by rw [hq _ _ _ (hB i k hi hk)])
    show AgreeOn S _ _
    rw [hw _ _ _ (hB i k hi hk)]
    exact elem_daxmy_agree S _ _ _ _ _ _ _ _
      (fun t ht => ⟨hB k (k + 1 + t) hk (by omega), hB i (k + 1 + t) hi (by omega)⟩) _ _ hw

theorem Sat_out_bind (b : Nat) (mem : Mem R) (x : Except Fault (Mem R))
    (f : Mem R → Except Fault (Mem R))
    (hx : Sat (fun _ => True) (fun m : Mem R => m b = mem b) x)
    (hf : ∀ s : Mem R, Sat (fun _ => True) (fun m : Mem R => m b = s b) (f s)) :
    Sat (fun _ => True) (fun m : Mem R => m b = mem b) (x.bind f) :=
  Sat_bind _ _ _ x f hx (fun s hs => Sat_mono _ _ _ _ (hf s) (fun _ hm => hm.trans hs))

theorem matBlocks_sub (nB M nb a c h x : Nat) (ha : a + h ≤ nb) (hc : c + h ≤ nb)
    (hx : MatBlocks nB (M + (a * nB + c)) h x) : MatBlocks nB M nb x := by
  obtain ⟨I, J, hI, hJ, e⟩ := hx
  refine ⟨a + I, c + J, by omega, by omega, ?_⟩
  rw [e, Nat.add_mul]
  omega

theorem matBlocks_self (nB M nb : Nat) (h : 1 ≤ nb) : MatBlocks nB M nb M :=
  ⟨0, 0, h, h, (blk0 M nB).symm⟩

/-- Two quadrants of a matrix whose block columns fit in the storage share no block when
they are apart by rows or by columns. -/
theorem matBlocks_apart (nB M nb a c a1 c1 h x : Nat) (hnb : nb ≤ nB) (hc : c + h ≤ nb)
    (hc1 : c1 + h ≤ nb) (hd : a + h ≤ a1 ∨ a1 + h ≤ a ∨ c + h ≤ c1 ∨ c1 + h ≤ c)
    (hx : MatBlocks nB (M + (a * nB + c)) h x) : ¬ MatBlocks nB (M + (a1 * nB + c1)) h x := by
  intro hy
  obtain ⟨I, J, hI, hJ, e⟩ := hx
  obtain ⟨I1, J1, hI1, hJ1, e1⟩ := hy
  have e2 : (a + I) * nB + (c + J) = (a1 + I1) * nB + (c1 + J1) := by
    rw [Nat.add_mul, Nat.add_mul]
    omega
  have := block_index_inj (a + I) (c + J) (a1 + I1) (c1 + J1) nB (by omega) (by omega) e2
  omega

/-- The recursive routines change no block outside the matrix (or matrices) they update. -/
theorem schur_out [Sub R] [Mul R] (nB b : Nat) :
    ∀ (nb M V W : Nat) (mem : Mem R), ¬ MatBlocks nB M nb b →
      Sat (fun _ => True) (fun m : Mem R => m b = mem b) (schur nB M V W nb mem) := by
  intro nb
  induction nb using Nat.strong_induction_on with
  | _ nb ih =>
    intro M V W mem hM
    rw [schur]
    by_cases h1 : nb = 1
    · rw [if_pos h1]
      subst h1
      have hb : b ≠ M := fun e => hM (e ▸ matBlocks_self nB M 1 (le_refl _))
      have := forUp_induction (fun _ (m : Mem R) => m b = mem b) 0 BLOCK_SIZE
        (fun i mem => forUp 0 BLOCK_SIZE (fun k mem =>
          elem_daxmy (mem V i k) W k 0 M i 0 BLOCK_SIZE mem) mem) mem (Nat.zero_le _) rfl
        (fun i s _ _ hs => forUp_induction (fun _ (m : Mem R) => m b = mem b) _ _ _ _
          (Nat.zero_le _) hs (fun k s _ _ hs => by
            beta_reduce
            rw [elem_daxmy_out _ _ _ _ _ _ _ b hb, hs]))
      exact this
    · rw [if_neg h1]
      by_cases h0 : nb = 0
      · rw [if_pos h0]
        trivial
      · rw [if_neg h0]
        dsimp only
        have hh : nb / 2 < nb := by omega
        have q : ∀ a c, a + nb / 2 ≤ nb → c + nb / 2 ≤ nb →
            ¬ MatBlocks nB (M + (a * nB + c)) (nb / 2) b :=
          fun a c ha hc hx => hM (matBlocks_sub nB M nb a c _ b ha hc hx)
        have z : 0 + nb / 2 ≤ nb := by omega
        have o : nb / 2 + nb / 2 ≤ nb := by omega
        refine Sat_out_bind b mem _ _ (ih _ hh _ _ _ _ (q _ _ z z)) (fun s => ?_)
        refine Sat_out_bind b s _ _ (ih _ hh _ _ _ _ (q _ _ z o)) (fun s => ?_)
        refine Sat_out_bind b s _ _ (ih _ hh _ _ _ _ (q _ _ o z)) (fun s => ?_)
        refine Sat_out_bind b s _ _ (ih _ hh _ _ _ _ (q _ _ o o)) (fun s => ?_)
        refine Sat_out_bind b s _ _ (ih _ hh _ _ _ _ (q _ _ z z)) (fun s => ?_)
        refine Sat_out_bind b s _ _ (ih _ hh _ _ _ _ (q _ _ z o)) (fun s => ?_)
        refine Sat_out_bind b s _ _ (ih _ hh _ _ _ _ (q _ _ o z)) (fun s => ?_)
        exact ih _ hh _ _ _ _ (q _ _ o o)

theorem aux_lower_solve_out [Sub R] [Mul R] (nB b nb : Nat)
    (hl : ∀ (M L : Nat) (mem : Mem R), ¬ MatBlocks nB M nb b →
      Sat (fun _ => True) (fun m : Mem R => m b = mem b) (lower_solve nB M L nb mem))
    (Ma Mb L : Nat) (mem : Mem R) (ha : ¬ MatBlocks nB Ma nb b) (hb : ¬ MatBlocks nB Mb nb b) :
    Sat (fun _ => True) (fun m : Mem R => m b = mem b)
      (aux_lower_solve nB Ma Mb L nb mem) := by
  rw [aux_lower_solve]
  refine Sat_out_bind b mem _ _ (hl _ _ _ ha) (fun s => ?_)
  refine Sat_out_bind b s _ _ (schur_out nB b _ _ _ _ _ hb) (fun s => ?_)
  exact hl _ _ _ hb

theorem lower_solve_out [Sub R] [Mul R] [Div R] [Zero R] [DecidableEq R] (nB b : Nat) :
    ∀ (nb M L : Nat) (mem : Mem R), ¬ MatBlocks nB M nb b →
      Sat (fun _ => True) (fun m : Mem R => m b = mem b) (lower_solve nB M L nb mem) := by
  intro nb
  induction nb using Nat.strong_induction_on with
  | _ nb ih =>
    intro M L mem hM
    rw [lower_solve]
    by_cases h1 : nb = 1
    · rw [if_pos h1]
      subst h1
      have hb : b ≠ M := fun e => hM (e ▸ matBlocks_self nB M 1 (le_refl _))
      exact (block_out M b hb mem).2.1 L
    · rw [if_neg h1]
      by_cases h0 : nb = 0
      · rw [if_pos h0]
        trivial
      · rw [if_neg h0]
        dsimp only
        have hh : nb / 2 < nb := by omega
        have q : ∀ a c, a + nb / 2 ≤ nb → c + nb / 2 ≤ nb →
            ¬ MatBlocks nB (M + (a * nB + c)) (nb / 2) b :=
          fun a c ha hc hx => hM (matBlocks_sub nB M nb a c _ b ha hc hx)
        have z : 0 + nb / 2 ≤ nb := by omega
        have o : nb / 2 + nb / 2 ≤ nb := by omega
        refine Sat_out_bind b mem _ _ (aux_lower_solve_out nB b _ (ih _ hh) _ _ _ _
          (q _ _ z z) (q _ _ o z)) (fun s => ?_)
        exact aux_lower_solve_out nB b _ (ih _ hh) _ _ _ _ (q _ _ z o) (q _ _ o o)

theorem aux_upper_solve_out [Sub R] [Mul R] [Div R] [Zero R] [DecidableEq R] (nB b nb : Nat)
    (hl : ∀ (M U : Nat) (mem : Mem R), ¬ MatBlocks nB M nb b →
      Sat (fun _ => True) (fun m : Mem R => m b = mem b) (upper_solve nB M U nb mem))
    (Ma Mb U : Nat) (mem : Mem R) (ha : ¬ MatBlocks nB Ma nb b) (hb : ¬ MatBlocks nB Mb nb b) :
    Sat (fun _ => True) (fun m : Mem R => m b = mem b)
      (aux_upper_solve nB Ma Mb U nb mem) := by
  rw [aux_upper_solve]
  refine Sat_out_bind b mem _ _ (hl _ _ _ ha) (fun s => ?_)
  refine Sat_out_bind b s _ _ (schur_out nB b _ _ _ _ _ hb) (fun s => ?_)
  exact hl _ _ _ hb

theorem upper_solve_out [Sub R] [Mul R] [Div R] [Zero R] [DecidableEq R] (nB b : Nat) :
    ∀ (nb M U : Nat) (mem : Mem R), ¬ MatBlocks nB M nb b →
      Sat (fun _ => True) (fun m : Mem R => m b = mem b) (upper_solve nB M U nb mem) := by
  intro nb
  induction nb using Nat.strong_induction_on with
  | _ nb ih =>
    intro M U mem hM
    rw [upper_solve]
    by_cases h1 : nb = 1
    · rw [if_pos h1]
      subst h1
      have hb : b ≠ M := fun e => hM (e ▸ matBlocks_self nB M 1 (le_refl _))
      exact (block_out M b hb mem).2.2.1 U
    · rw [if_neg h1]
      by_cases h0 : nb = 0
      · rw [if_pos h0]
        trivial
      · rw [if_neg h0]
        dsimp only
        have hh : nb / 2 < nb := by omega
        have q : ∀ a c, a + nb / 2 ≤ nb → c + nb / 2 ≤ nb →
            ¬ MatBlocks nB (M + (a * nB + c)) (nb / 2) b :=
          fun a c ha hc hx => hM (matBlocks_sub nB M nb a c _ b ha hc hx)
        have z : 0 + nb / 2 ≤ nb := by omega
        have o : nb / 2 + nb / 2 ≤ nb := by omega
        refine Sat_out_bind b mem _ _ (aux_upper_solve_out nB b _ (ih _ hh) _ _ _ _
          (q _ _ z z) (q _ _ z o)) (fun s => ?_)
        exact aux_upper_solve_out nB b _ (ih _ hh) _ _ _ _ (q _ _ o z) (q _ _ o o)

theorem lu_out [Sub R] [Mul R] [Div R] [Zero R] [DecidableEq R] (nB b : Nat) :
    ∀ (nb M : Nat) (mem : Mem R), ¬ MatBlocks nB M nb b →
      Sat (fun _ => True) (fun m : Mem R => m b = mem b) (lu nB M nb mem) := by
  intro nb
  induction nb using Nat.strong_induction_on with
  | _ nb ih =>
    intro M mem hM
    rw [lu]
    by_cases h1 : nb = 1
    · rw [if_pos h1]
      subst h1
      have hb : b ≠ M := fun e => hM (e ▸ matBlocks_self nB M 1 (le_refl _))
      exact (block_out M b hb mem).2.2.2
    · rw [if_neg h1]
      by_cases h0 : nb = 0
      · rw [if_pos h0]
        trivial
      · rw [if_neg h0]
        dsimp only
        have hh : nb / 2 < nb := by omega
        have q : ∀ a c, a + nb / 2 ≤ nb → c + nb / 2 ≤ nb →
            ¬ MatBlocks nB (M + (a * nB + c)) (nb / 2) b :=
          fun a c ha hc hx => hM (matBlocks_sub nB M nb a c _ b ha hc hx)
        have z : 0 + nb / 2 ≤ nb := by omega
        have o : nb / 2 + nb / 2 ≤ nb := by omega
        refine Sat_out_bind b mem _ _ (ih _ hh _ _ (q _ _ z z)) (fun s => ?_)
        refine Sat_out_bind b s _ _ (lower_solve_out nB b _ _ _ _ (q _ _ z o)) (fun s => ?_)
        refine Sat_out_bind b s _ _ (upper_solve_out nB b _ _ _ _ (q _ _ o z)) (fun s => ?_)
        refine Sat_out_bind b s _ _ (schur_out nB b _ _ _ _ _ (q _ _ o o)) (fun s => ?_)
        exact ih _ hh _ _ (q _ _ o o)

theorem inLower_of_inBlocks (S : Nat → Nat → Nat → Prop) (nB L nb : Nat)
    (h : InBlocks S nB L nb) : InLower S nB L nb :=
  fun I J i j hI hJ hi hj _ => h I J i j hI hJ hi hj

theorem inUpper_of_inBlocks (S : Nat → Nat → Nat → Prop) (nB U nb : Nat)
    (h : InBlocks S nB U nb) : InUpper S nB U nb :=
  fun I J i j hI hJ hi hj _ => h I J i j hI hJ hi hj

theorem aux_solve_agree [Sub R] [Mul R] [Div R] [Zero R] [DecidableEq R]
    (S : Nat → Nat → Nat → Prop) (nB nb Ma Mb F : Nat) (mem mem1 : Mem R)
    (hMa : InBlocks S nB Ma nb) (hMb : InBlocks S nB Mb nb) (hF : InBlocks S nB F (nb + nb))
    (h : AgreeOn S mem mem1) :
    Rel2 (AgreeOn S) (aux_lower_solve nB Ma Mb F nb mem) (aux_lower_solve nB Ma Mb F nb mem1) ∧
    Rel2 (AgreeOn S) (aux_upper_solve nB Ma Mb F nb mem) (aux_upper_solve nB Ma Mb F nb mem1) := by
  have z : 0 + nb ≤ nb + nb := by omega
  constructor
  · rw [aux_lower_solve, aux_lower_solve]
    refine Rel2_bind _ _ _ _ _ (lower_solve_agree S nB _ _ _ _ _ hMa
      (inLower_of_inBlocks S nB _ _ (inBlocks_sub S nB F _ hF 0 0 nb z z)) h) (fun s t h => ?_)
    refine Rel2_bind _ _ _ _ _ (schur_agree S nB _ _ _ _ _ _ hMb
      (inBlocks_sub S nB F _ hF nb 0 nb (le_refl _) z) hMa h) (fun s t h => ?_)
    exact lower_solve_agree S nB _ _ _ _ _ hMb
      (inLower_of_inBlocks S nB _ _ (inBlocks_sub S nB F _ hF nb nb nb (le_refl _) (le_refl _))) h
  · rw [aux_upper_solve, aux_upper_solve]
    refine Rel2_bind _ _ _ _ _ (upper_solve_agree S nB _ _ _ _ _ hMa
      (inUpper_of_inBlocks S nB _ _ (inBlocks_sub S nB F _ hF 0 0 nb z z)) h) (fun s t h => ?_)
    refine Rel2_bind _ _ _ _ _ (schur_agree S nB _ _ _ _ _ _ hMb hMa
      (inBlocks_sub S nB F _ hF 0 nb nb z (le_refl _)) h) (fun s t h => ?_)
    exact upper_solve_agree S nB _ _ _ _ _ hMb
      (inUpper_of_inBlocks S nB _ _ (inBlocks_sub S nB F _ hF nb nb nb (le_refl _) (le_refl _))) h

theorem lu_agree [Sub R] [Mul R] [Div R] [Zero R] [DecidableEq R]
    (S : Nat → Nat → Nat → Prop) (nB : Nat) :
    ∀ (nb M : Nat) (mem mem1 : Mem R), InBlocks S nB M nb → AgreeOn S mem mem1 →
      Rel2 (AgreeOn S) (lu nB M nb mem) (lu nB M nb mem1) := by
  intro nb
  induction nb using Nat.strong_induction_on with
  | _ nb ih =>
    intro M mem mem1 hM h
    rw [lu, lu]
    by_cases h1 : nb = 1
    · rw [if_pos h1, if_pos h1]
      subst h1
      exact block_lu_agree S M
        (fun i j hi hj => blk0 M nB ▸ hM 0 0 i j (by omega) (by omega) hi hj) _ _ h
    · rw [if_neg h1, if_neg h1]
      by_cases h0 : nb = 0
      · rw [if_pos h0, if_pos h0]
        exact rfl
      · rw [if_neg h0, if_neg h0]
        dsimp only
        have hh : nb / 2 < nb := by omega
        have z : 0 + nb / 2 ≤ nb := by omega
        have o : nb / 2 + nb / 2 ≤ nb := by omega
        have q : ∀ a c, a + nb / 2 ≤ nb → c + nb / 2 ≤ nb →
            InBlocks S nB (M + (a * nB + c)) (nb / 2) :=
          fun a c ha hc => inBlocks_sub S nB M nb hM a c (nb / 2) ha hc
        refine Rel2_bind _ _ _ _ _ (ih _ hh _ _ _ (q _ _ z z) h) (fun s t h => ?_)
        refine Rel2_bind _ _ _ _ _ (lower_solve_agree S nB _ _ _ _ _ (q _ _ z o)
          (inLower_of_inBlocks S nB _ _ (q _ _ z z)) h) (fun s t h => ?_)
        refine Rel2_bind _ _ _ _ _ (upper_solve_agree S nB _ _ _ _ _ (q _ _ o z)
          (inUpper_of_inBlocks S nB _ _ (q _ _ z z)) h) (fun s t h => ?_)
        refine Rel2_bind _ _ _ _ _ (schur_agree S nB _ _ _ _ _ _ (q _ _ o o) (q _ _ o z)
          (q _ _ z o) h) (fun s t h => ?_)
        exact ih _ hh _ _ _ (q _ _ o o) h

theorem bind_ok_right {ε σ : Type} (x : Except ε σ) : x.bind Except.ok = x := by
  cases x <;> rfl

/-- The recursive case of each routine is the run of its groups of calls, one after the
other. -/
theorem run_scopes [Sub R] [Mul R] [Div R] [Zero R] [DecidableEq R] (nB : Nat) (c : Call)
    (hc : c.recursive) (mem : Mem R) :
    c.run nB mem = runAll nB (c.scopes nB).flatten mem := by
  have e : (runAll nB [] : Mem R → Except Fault (Mem R)) = Except.ok := rfl
  cases c with
  | schur M V W nb =>
    show schur nB M V W nb mem = _
    rw [schur, if_neg hc.1, if_neg hc.2]
    simp only [Call.scopes, List.flatten, List.cons_append, List.nil_append, runAll, Call.run, e,
      bind_ok_right]
  | aux_lower_solve Ma Mb L nb =>
    show aux_lower_solve nB Ma Mb L nb mem = _
    rw [aux_lower_solve]
    simp only [Call.scopes, List.flatten, List.cons_append, List.nil_append, runAll, Call.run, e,
      bind_ok_right]
  | lower_solve M L nb =>
    show lower_solve nB M L nb mem = _
    rw [lower_solve, if_neg hc.1, if_neg hc.2]
    simp only [Call.scopes, List.flatten, List.cons_append, List.nil_append, runAll, Call.run, e,
      bind_ok_right]
  | aux_upper_solve Ma Mb U nb =>
    show aux_upper_solve nB Ma Mb U nb mem = _
    rw [aux_upper_solve]
    simp only [Call.scopes, List.flatten, List.cons_append, List.nil_append, runAll, Call.run, e,
      bind_ok_right]
  | upper_solve M U nb =>
    show upper_solve nB M U nb mem = _
    rw [upper_solve, if_neg hc.1, if_neg hc.2]
    simp only [Call.scopes, List.flatten, List.cons_append, List.nil_append, runAll, Call.run, e,
      bind_ok_right]
  | lu M nb =>
    show lu nB M nb mem = _
    rw [lu, if_neg hc.1, if_neg hc.2]
    simp only [Call.scopes, List.flatten, List.cons_append, List.nil_append, runAll, Call.run, e,
      bind_ok_right]

theorem Sat_forall {ε σ ι : Type} (P : ι → σ → Prop) (x : Except ε σ)
    (h : ∀ b, Sat (fun _ => True) (P b) x) : Sat (fun _ => True) (fun m => ∀ b, P b m) x := by
  cases x with
  | error e => trivial
  | ok s => exact fun b => h b

/-- The footprints `writes` and `reads` of a call are sound: its run changes no block outside
`writes`, and its outcome on the blocks `reads` depends on these blocks only. -/
theorem footprint_sound [Sub R] [Mul R] [Div R] [Zero R] [DecidableEq R] (nB : Nat) (c : Call)
    (mem mem1 : Mem R) :
    Sat (fun _ => True) (fun m : Mem R => ∀ b, ¬ c.writes nB b → m b = mem b) (c.run nB mem) ∧
    (AgreeOn (fun B _ _ => c.reads nB B) mem mem1 →
      Rel2 (AgreeOn (fun B _ _ => c.reads nB B)) (c.run nB mem) (c.run nB mem1)) := by
  have hin : ∀ (S : Nat → Prop) (M nb : Nat), (∀ b, MatBlocks nB M nb b → S b) →
      InBlocks (fun B _ _ => S B) nB M nb :=
    fun S M nb h I J i j hI hJ _ _ => h _ ⟨I, J, hI, hJ, rfl⟩
  have himp : ∀ (P : Nat → Prop) (Q : Mem R → Nat → Prop) (x : Except Fault (Mem R)),
      (∀ b, ¬ P b → Sat (fun _ => True) (fun m : Mem R => Q m b) x) →
      Sat (fun _ => True) (fun m : Mem R => ∀ b, ¬ P b → Q m b) x := by
    intro P Q x h
    cases x with
    | error e => trivial
    | ok s => exact fun b hb => h b hb
  cases c with
  | schur M V W nb =>
    exact ⟨himp _ (fun m b => m b = mem b) _ (fun b hb => schur_out nB b nb M V W mem hb),
      fun h => schur_agree _ nB nb M V W mem mem1 (hin _ _ _ (fun b hb => Or.inl hb))
        (hin _ _ _ (fun b hb => Or.inr (Or.inl hb)))
        (hin _ _ _ (fun b hb => Or.inr (Or.inr hb))) h⟩
  | aux_lower_solve Ma Mb L nb =>
    exact ⟨himp _ (fun m b => m b = mem b) _ (fun b hb =>
        aux_lower_solve_out nB b nb (fun M L mem h => lower_solve_out nB b nb M L mem h)
          Ma Mb L mem (fun h => hb (Or.inl h)) (fun h => hb (Or.inr h))),
      fun h => (aux_solve_agree _ nB nb Ma Mb L mem mem1 (hin _ _ _ (fun b hb => Or.inl hb))
        (hin _ _ _ (fun b hb => Or.inr (Or.inl hb)))
        (hin _ _ _ (fun b hb => Or.inr (Or.inr hb))) h).1⟩
  | lower_solve M L nb =>
    exact ⟨himp _ (fun m b => m b = mem b) _ (fun b hb => lower_solve_out nB b nb M L mem hb),
      fun h => lower_solve_agree _ nB nb M L mem mem1 (hin _ _ _ (fun b hb => Or.inl hb))
        (inLower_of_inBlocks _ nB _ _ (hin _ _ _ (fun b hb => Or.inr hb))) h⟩
  | aux_upper_solve Ma Mb U nb =>
    exact ⟨himp _ (fun m b => m b = mem b) _ (fun b hb =>
        aux_upper_solve_out nB b nb (fun M U mem h => upper_solve_out nB b nb M U mem h)
          Ma Mb U mem (fun h => hb (Or.inl h)) (fun h => hb (Or.inr h))),
      fun h => (aux_solve_agree _ nB nb Ma Mb U mem mem1 (hin _ _ _ (fun b hb => Or.inl hb))
        (hin _ _ _ (fun b hb => Or.inr (Or.inl hb)))
        (hin _ _ _ (fun b hb => Or.inr (Or.inr hb))) h).2⟩
  | upper_solve M U nb =>
    exact ⟨himp _ (fun m b => m b = mem b) _ (fun b hb => upper_solve_out nB b nb M U mem hb),
      fun h => upper_solve_agree _ nB nb M U mem mem1 (hin _ _ _ (fun b hb => Or.inl hb))
        (inUpper_of_inBlocks _ nB _ _ (hin _ _ _ (fun b hb => Or.inr hb))) h⟩
  | lu M nb =>
    exact ⟨himp _ (fun m b => m b = mem b) _ (fun b hb => lu_out nB b nb M mem hb),
      fun h => lu_agree _ nB nb M mem mem1 (hin _ _ _ (fun b hb => hb)) h⟩

/-- Two calls that update quadrants of `M` that are apart, and read besides them only
quadrants of `M` and blocks that are not blocks of `M`, do not interfere. -/
theorem independent_of (nB : Nat) (c1 c2 : Call) (M nb : Nat) (X : Nat → Prop)
    (hX : ∀ b, MatBlocks nB M nb b → ¬ X b)
    (w1 : ∀ b, c1.writes nB b → MatBlocks nB M nb b)
    (w2 : ∀ b, c2.writes nB b → MatBlocks nB M nb b)
    (r1 : ∀ b, c1.reads nB b → c1.writes nB b ∨ X b ∨ (MatBlocks nB M nb b ∧ ¬ c2.writes nB b))
    (r2 : ∀ b, c2.reads nB b → c2.writes nB b ∨ X b ∨ (MatBlocks nB M nb b ∧ ¬ c1.writes nB b))
    (hd : ∀ b, c1.writes nB b → ¬ c2.writes nB b) : Call.independent nB c1 c2 := by
  intro b
  refine ⟨fun h1 => ⟨hd b h1, fun hr => ?_⟩, fun h2 hr => ?_⟩
  · rcases r2 b hr with h | h | h
    · exact hd b h1 h
    · exact hX b (w1 b h1) h
    · exact h.2 h1
  · rcases r1 b hr with h | h | h
    · exact hd b h h2
    · exact hX b (w2 b h2) h
    · exact h.2 h2

theorem matBlocks_mono (nB M h nb b : Nat) (hh : h ≤ nb) (hb : MatBlocks nB M h b) :
    MatBlocks nB M nb b := by
  obtain ⟨I, J, hI, hJ, e⟩ := hb
  exact ⟨I, J, by omega, by omega, e⟩

/-- Inside every group of calls of a routine whose operands are separate, any two calls are
independent. -/
theorem scopes_independent (nB : Nat) (c : Call) (hs : c.separate nB) :
    ∀ g, g ∈ c.scopes nB → g.Pairwise (Call.independent nB) := by
  cases c with
  | schur M V W nb =>
    obtain ⟨hnb, hsep⟩ := hs
    have hX : ∀ b, MatBlocks nB M nb b → ¬ (MatBlocks nB V nb b ∨ MatBlocks nB W nb b) :=
      fun b hb h => h.elim (hsep b hb).1 (hsep b hb).2
    have key : ∀ a c va vc wa wc a1 c1 va1 vc1 wa1 wc1 : Nat, a ≤ nb / 2 → c ≤ nb / 2 →
        va ≤ nb / 2 → vc ≤ nb / 2 → wa ≤ nb / 2 → wc ≤ nb / 2 → a1 ≤ nb / 2 → c1 ≤ nb / 2 →
        va1 ≤ nb / 2 → vc1 ≤ nb / 2 → wa1 ≤ nb / 2 → wc1 ≤ nb / 2 →
        (a + nb / 2 ≤ a1 ∨ a1 + nb / 2 ≤ a ∨ c + nb / 2 ≤ c1 ∨ c1 + nb / 2 ≤ c) →
        Call.independent nB
          (Call.schur (M + (a * nB + c)) (V + (va * nB + vc)) (W + (wa * nB + wc)) (nb / 2))
          (Call.schur (M + (a1 * nB + c1)) (V + (va1 * nB + vc1)) (W + (wa1 * nB + wc1))
            (nb / 2)) := by
      intro a c va vc wa wc a1 c1 va1 vc1 wa1 wc1 h1 h2 h3 h4 h5 h6 h7 h8 h9 h10 h11 h12 hd
      refine independent_of nB _ _ M nb _ hX
        (fun b hb => matBlocks_sub nB M nb _ _ _ b (by omega) (by omega) hb)
        (fun b hb => matBlocks_sub nB M nb _ _ _ b (by omega) (by omega) hb)
        (fun b hb => ?_) (fun b hb => ?_)
        (fun b hb => matBlocks_apart nB M nb _ _ _ _ _ b hnb (by omega) (by omega) hd hb)
      · rcases hb with h | h | h
        · exact Or.inl h
        · exact Or.inr (Or.inl (Or.inl (matBlocks_sub nB V nb _ _ _ b (by omega) (by omega) h)))
        · exact Or.inr (Or.inl (Or.inr (matBlocks_sub nB W nb _ _ _ b (by omega) (by omega) h)))
      · rcases hb with h | h | h
        · exact Or.inl h
        · exact Or.inr (Or.inl (Or.inl (matBlocks_sub nB V nb _ _ _ b (by omega) (by omega) h)))
        · exact Or.inr (Or.inl (Or.inr (matBlocks_sub nB W nb _ _ _ b (by omega) (by omega) h)))
    intro g hg
    simp only [Call.scopes, List.mem_cons, List.mem_singleton, List.not_mem_nil, or_false] at hg
    have z : 0 ≤ nb / 2 := Nat.zero_le _
    have o : nb / 2 ≤ nb / 2 := le_refl _
    rcases hg with rfl | rfl
    · simp only [List.pairwise_cons, List.mem_cons, List.mem_singleton, forall_eq_or_imp,
        forall_eq, List.not_mem_nil, IsEmpty.forall_iff, implies_true, List.Pairwise.nil,
        and_true]
      refine ⟨⟨?_, ?_, ?_⟩, ⟨?_, ?_⟩, ?_⟩ <;>
        exact key _ _ _ _ _ _ _ _ _ _ _ _ (by omega) (by omega) (by omega) (by omega) (by omega)
          (by omega) (by omega) (by omega) (by omega) (by omega) (by omega) (by omega) (by omega)
    · simp only [List.pairwise_cons, List.mem_cons, List.mem_singleton, forall_eq_or_imp,
        forall_eq, List.not_mem_nil, IsEmpty.forall_iff, implies_true, List.Pairwise.nil,
        and_true]
      refine ⟨⟨?_, ?_, ?_⟩, ⟨?_, ?_⟩, ?_⟩ <;>
        exact key _ _ _ _ _ _ _ _ _ _ _ _ (by omega) (by omega) (by omega) (by omega) (by omega)
          (by omega) (by omega) (by omega) (by omega) (by omega) (by omega) (by omega) (by omega)
  | aux_lower_solve Ma Mb L nb =>
    intro g hg
    simp only [Call.scopes, List.mem_cons, List.mem_singleton, List.not_mem_nil, or_false] at hg
    rcases hg with rfl | rfl | rfl <;> exact List.pairwise_singleton _ _
  | aux_upper_solve Ma Mb U nb =>
    intro g hg
    simp only [Call.scopes, List.mem_cons, List.mem_singleton, List.not_mem_nil, or_false] at hg
    rcases hg with rfl | rfl | rfl <;> exact List.pairwise_singleton _ _
  | lower_solve M L nb =>
    obtain ⟨hnb, hsep⟩ := hs
    intro g hg
    simp only [Call.scopes, List.mem_cons, List.mem_singleton, List.not_mem_nil, or_false] at hg
    subst hg
    simp only [List.pairwise_cons, List.mem_cons, List.mem_singleton, forall_eq_or_imp,
      forall_eq, List.not_mem_nil, IsEmpty.forall_iff, implies_true, List.Pairwise.nil,
      and_true]
    have q : ∀ a c b, a ≤ nb / 2 → c ≤ nb / 2 → MatBlocks nB (M + (a * nB + c)) (nb / 2) b →
        MatBlocks nB M nb b :=
      fun a c b ha hc h => matBlocks_sub nB M nb a c _ b (by omega) (by omega) h
    refine independent_of nB _ _ M nb (MatBlocks nB L nb) hsep
      (fun b hb => hb.elim (q _ _ b (by omega) (by omega)) (q _ _ b (by omega) (by omega)))
      (fun b hb => hb.elim (q _ _ b (by omega) (by omega)) (q _ _ b (by omega) (by omega)))
      (fun b hb => ?_) (fun b hb => ?_) (fun b hb hb2 => ?_)
    · rcases hb with h | h | h
      · exact Or.inl (Or.inl h)
      · exact Or.inl (Or.inr h)
      · exact Or.inr (Or.inl (matBlocks_mono nB L _ nb b (by omega) h))
    · rcases hb with h | h | h
      · exact Or.inl (Or.inl h)
      · exact Or.inl (Or.inr h)
      · exact Or.inr (Or.inl (matBlocks_mono nB L _ nb b (by omega) h))
    · rcases hb with h | h <;> rcases hb2 with h2 | h2 <;>
        exact matBlocks_apart nB M nb _ _ _ _ _ b hnb (by omega) (by omega) (by omega) h h2
  | upper_solve M U nb =>
    obtain ⟨hnb, hsep⟩ := hs
    intro g hg
    simp only [Call.scopes, List.mem_cons, List.mem_singleton, List.not_mem_nil, or_false] at hg
    subst hg
    simp only [List.pairwise_cons, List.mem_cons, List.mem_singleton, forall_eq_or_imp,
      forall_eq, List.not_mem_nil, IsEmpty.forall_iff, implies_true, List.Pairwise.nil,
      and_true]
    have q : ∀ a c b, a ≤ nb / 2 → c ≤ nb / 2 → MatBlocks nB (M + (a * nB + c)) (nb / 2) b →
        MatBlocks nB M nb b :=
      fun a c b ha hc h => matBlocks_sub nB M nb a c _ b (by omega) (by omega) h
    refine independent_of nB _ _ M nb (MatBlocks nB U nb) hsep
      (fun b hb => hb.elim (q _ _ b (by omega) (by omega)) (q _ _ b (by omega) (by omega)))
      (fun b hb => hb.elim (q _ _ b (by omega) (by omega)) (q _ _ b (by omega) (by omega)))
      (fun b hb => ?_) (fun b hb => ?_) (fun b hb hb2 => ?_)
    · rcases hb with h | h | h
      · exact Or.inl (Or.inl h)
      · exact Or.inl (Or.inr h)
      · exact Or.inr (Or.inl (matBlocks_mono nB U _ nb b (by omega) h))
    · rcases hb with h | h | h
      · exact Or.inl (Or.inl h)
      · exact Or.inl (Or.inr h)
      · exact Or.inr (Or.inl (matBlocks_mono nB U _ nb b (by omega) h))
    · rcases hb with h | h <;> rcases hb2 with h2 | h2 <;>
        exact matBlocks_apart nB M nb _ _ _ _ _ b hnb (by omega) (by omega) (by omega) h h2
  | lu M nb =>
    have hnb : nb ≤ nB := hs
    intro g hg
    simp only [Call.scopes, List.mem_cons, List.mem_singleton, List.not_mem_nil, or_false] at hg
    have q : ∀ a c b, a ≤ nb / 2 → c ≤ nb / 2 → MatBlocks nB (M + (a * nB + c)) (nb / 2) b →
        MatBlocks nB M nb b :=
      fun a c b ha hc h => matBlocks_sub nB M nb a c _ b (by omega) (by omega) h
    rcases hg with rfl | rfl | rfl | rfl
    · exact List.pairwise_singleton _ _
    · simp only [List.pairwise_cons, List.mem_cons, List.mem_singleton, forall_eq_or_imp,
        forall_eq, List.not_mem_nil, IsEmpty.forall_iff, implies_true, List.Pairwise.nil,
        and_true]
      refine independent_of nB _ _ M nb (fun _ => False) (fun _ _ h => h)
        (fun b hb => q _ _ b (by omega) (by omega) hb)
        (fun b hb => q _ _ b (by omega) (by omega) hb)
        (fun b hb => ?_) (fun b hb => ?_) (fun b hb hb2 =>
          matBlocks_apart nB M nb _ _ _ _ _ b hnb (by omega) (by omega) (by omega) hb hb2)
      · rcases hb with h | h
        · exact Or.inl h
        · exact Or.inr (Or.inr ⟨q _ _ b (by omega) (by omega) h, fun h2 =>
            matBlocks_apart nB M nb _ _ _ _ _ b hnb (by omega) (by omega) (by omega) h h2⟩)
      · rcases hb with h | h
        · exact Or.inl h
        · exact Or.inr (Or.inr ⟨q _ _ b (by omega) (by omega) h, fun h2 =>
            matBlocks_apart nB M nb _ _ _ _ _ b hnb (by omega) (by omega) (by omega) h h2⟩)
    · exact List.pairwise_singleton _ _
    · exact List.pairwise_singleton _ _

/-- C32: in `lu`, `lower_solve`, `upper_solve` and `schur`, when the operand matrices of the
routine occupy disjoint block sets (and the `nb` block columns fit in the storage), the calls
that may run concurrently, those of one group between two sync points, write pairwise
disjoint sets of blocks and none writes a block that a sibling reads.  The groups are those
of the code (the recursive case of a routine is the run of its groups in order), and the
block sets `writes` and `reads` of a call are sound for its run: nothing outside `writes`
changes, and the outcome on `reads` depends on `reads` only. -/
theorem cilk_scope_independent (nBlocks : Nat) (c : Call) (hs : c.separate nBlocks) :
    (∀ g, g ∈ c.scopes nBlocks → g.Pairwise (Call.independent nBlocks)) ∧
    ∀ (F : Type) [Sub F] [Mul F] [Div F] [Zero F] [DecidableEq F] (mem mem1 : Mem F),
      (c.recursive → c.run nBlocks mem = runAll nBlocks (c.scopes nBlocks).flatten mem) ∧
      ∀ d : Call,
        Sat (fun _ => True) (fun m : Mem F => ∀ b, ¬ d.writes nBlocks b → m b = mem b)
          (d.run nBlocks mem) ∧
        (AgreeOn (fun B _ _ => d.reads nBlocks B) mem mem1 →
          Rel2 (AgreeOn (fun B _ _ => d.reads nBlocks B)) (d.run nBlocks mem)
            (d.run nBlocks mem1)) :=
  ⟨scopes_independent nBlocks c hs, fun _ _ _ _ _ _ mem mem1 =>
    ⟨fun hc => run_scopes nBlocks c hc mem, fun d => footprint_sound nBlocks d mem mem1⟩⟩

/-- Witness of `cilk_scope_independent`: `schur` on three 2 x 2 block matrices at the block
indices 0, 2 and 8 of a storage with 4 block columns. -/
theorem cilk_scope_independent_witness :
    Call.separate 4 (Call.schur 0 2 8 2) ∧
    ((∀ g, g ∈ (Call.schur 0 2 8 2).scopes 4 → g.Pairwise (Call.independent 4)) ∧
    ∀ (F : Type) [Sub F] [Mul F] [Div F] [Zero F] [DecidableEq F] (mem mem1 : Mem F),
      ((Call.schur 0 2 8 2).recursive →
        (Call.schur 0 2 8 2).run 4 mem = runAll 4 ((Call.schur 0 2 8 2).scopes 4).flatten mem) ∧
      ∀ d : Call,
        Sat (fun _ => True) (fun m : Mem F => ∀ b, ¬ d.writes 4 b → m b = mem b)
          (d.run 4 mem) ∧
        (AgreeOn (fun B _ _ => d.reads 4 B) mem mem1 →
          Rel2 (AgreeOn (fun B _ _ => d.reads 4 B)) (d.run 4 mem) (d.run 4 mem1))) :=
  have h : Call.separate 4 (Call.schur 0 2 8 2) := by
    refine ⟨by decide, fun b hb => ?_⟩
    obtain ⟨I, J, hI, hJ, e⟩ := hb
    constructor
    · rintro ⟨I1, J1, hI1, hJ1, e1⟩
      omega
    · rintro ⟨I1, J1, hI1, hJ1, e1⟩
      omega
  ⟨h, cilk_scope_independent 4 (Call.schur 0 2 8 2) h⟩

end Lu

/-! ## strassen.c : theorems -/

namespace Strassen

open Loop

variable {R : Type}

theorem addBytes_shl (p x : Nat) : addBytes p (x <<< 3) = p + x := by
  unfold addBytes
  rw [Nat.shiftLeft_eq]
  norm_num

theorem subBytes_shl (p x : Nat) : subBytes p (x <<< 3) = p - x := by
  unfold subBytes
  rw [Nat.shiftLeft_eq]
  norm_num

theorem row_lt (i v j rw : Nat) (hi : i < v) (hj : j < rw) : i * rw + j < v * rw := by
  have : (i + 1) * rw ≤ v * rw := Nat.mul_le_mul_right rw hi
  rw [Nat.add_mul] at this
  omega

theorem cell_inj (i j i1 j1 rw : Nat) (hj : j < rw) (hj1 : j1 < rw)
    (h : i * rw + j = i1 * rw + j1) : i = i1 ∧ j = j1 := by
  rcases Nat.lt_trichotomy i i1 with h1 | h1 | h1
  · have := row_lt i i1 j rw h1 hj
    omega
  · subst h1
    omega
  · have := row_lt i1 i j1 rw h1 hj1
    omega

theorem write_apply (b : Buf R) (k : Nat) (v : R) (j : Nat) :
    write b k v j = if j = k then v else b j := rfl

theorem dot_succ [CommRing R] (n : Nat) (A : Buf R) (a : Nat) (B : Buf R) (b rw : Nat) :
    dot (n + 1) A a B b rw = dot n A a B b rw + A (a + n) * B (b + n * rw) := by
  unfold dot
  rw [Finset.sum_range_succ]

/-- The `Products` loop of `FastNaiveMatrixMultiply`. -/
theorem naive_products_loop [CommRing R] (A B : Buf R) (rwB a0 b0 : Nat) (n : Nat) (hn : 1 ≤ n) :
    let p := forUp 1 n (fun _ (p : ProdState R) => naive_products A B (rwB <<< 3) p)
      ⟨a0 + 1, b0, ⟨A a0 * B b0, A a0 * B (b0 + 1), A a0 * B (b0 + 2), A a0 * B (b0 + 3),
        A a0 * B (b0 + 4), A a0 * B (b0 + 5), A a0 * B (b0 + 6), A a0 * B (b0 + 7)⟩⟩
    p.ARowStart = a0 + n ∧ p.BColumnStart = b0 + (n - 1) * rwB ∧
      ∀ t, t < 8 → p.sums.get t = dot n A a0 B (b0 + t) rwB := by
  refine forUp_induction (fun c (p : ProdState R) =>
      p.ARowStart = a0 + c ∧ p.BColumnStart = b0 + (c - 1) * rwB ∧
      ∀ t, t < 8 → p.sums.get t = dot c A a0 B (b0 + t) rwB) 1 n _ _ hn ?_ ?_
  · refine ⟨rfl, by simp, ?_⟩
    intro t ht
    interval_cases t <;> simp [Sums.get, dot]
  · rintro c p hc1 hc2 ⟨h1, h2, h3⟩
    refine ⟨?_, ?_, ?_⟩
    · simp only [naive_products, h1]
      omega
    · simp only [naive_products, h2, addBytes_shl]
      obtain ⟨d, rfl⟩ : ∃ d, c = d + 1 := ⟨c - 1, by omega⟩
      simp only [Nat.add_sub_cancel]
      ring
    · intro t ht
      rw [dot_succ, ← h3 t ht]
      have hb : b0 + (c - 1) * rwB + rwB = b0 + c * rwB := by
        obtain ⟨d, rfl⟩ : ∃ d, c = d + 1 := ⟨c - 1, by omega⟩
        simp only [Nat.add_sub_cancel]
        ring
      interval_cases t <;>
        simp only [naive_products, Sums.get, h1, h2, addBytes_shl, hb] <;> norm_num <;>
        first | rfl | (congr 2; omega)

theorem Sums.get_eq (s : Sums R) :
    s.Sum0 = s.get 0 ∧ s.Sum1 = s.get 1 ∧ s.Sum2 = s.get 2 ∧ s.Sum3 = s.get 3 ∧
    s.Sum4 = s.get 4 ∧ s.Sum5 = s.get 5 ∧ s.Sum6 = s.get 6 ∧ s.Sum7 = s.get 7 := by
  simp [Sums.get]

/-- One pass of the `Horizontal` loop of `FastNaiveMatrixMultiply` stores eight dot products. -/
theorem naive_horizontal_spec [CommRing R] (A B : Buf R) (Bp n rwB h : Nat) (hn : 1 ≤ n)
    (st : NaiveState R) :
    (naive_horizontal A B Bp n (rwB <<< 3) (n <<< 3) h st).C = st.C + 8 ∧
    (naive_horizontal A B Bp n (rwB <<< 3) (n <<< 3) h st).ARowStart = st.ARowStart ∧
    ∀ idx, (naive_horizontal A B Bp n (rwB <<< 3) (n <<< 3) h st).Cbuf idx =
      if st.C ≤ idx ∧ idx < st.C + 8 then dot n A st.ARowStart B (Bp + h + (idx - st.C)) rwB
      else st.Cbuf idx := by
  obtain ⟨h1, h2, h3⟩ := naive_products_loop A B rwB st.ARowStart (Bp + h) n hn
  refine ⟨rfl, ?_, ?_⟩
  · simp only [naive_horizontal, subBytes_shl, h1]
    omega
  · intro idx
    simp only [naive_horizontal, write_apply]
    obtain ⟨e0, e1, e2, e3, e4, e5, e6, e7⟩ := Sums.get_eq
      (forUp 1 n (fun _ (p : ProdState R) => naive_products A B (rwB <<< 3) p)
      ⟨st.ARowStart + 1, Bp + h, ⟨A st.ARowStart * B (Bp + h), A st.ARowStart * B (Bp + h + 1),
        A st.ARowStart * B (Bp + h + 2), A st.ARowStart * B (Bp + h + 3),
        A st.ARowStart * B (Bp + h + 4), A st.ARowStart * B (Bp + h + 5),
        A st.ARowStart * B (Bp + h + 6), A st.ARowStart * B (Bp + h + 7)⟩⟩).sums
    rw [e0, e1, e2, e3, e4, e5, e6, e7, h3 0 (by decide), h3 1 (by decide), h3 2 (by decide),
      h3 3 (by decide), h3 4 (by decide), h3 5 (by decide), h3 6 (by decide), h3 7 (by decide)]
    by_cases hc : st.C ≤ idx ∧ idx < st.C + 8
    · rw [if_pos hc]
      obtain ⟨t, ht, rfl⟩ : ∃ t, t < 8 ∧ idx = st.C + t := ⟨idx - st.C, by omega, by omega⟩
      rw [Nat.add_sub_cancel_left]
      interval_cases t <;> simp
    · rw [if_neg hc]
      simp only [if_neg (show ¬ idx = st.C + 7 by omega), if_neg (show ¬ idx = st.C + 6 by omega),
        if_neg (show ¬ idx = st.C + 5 by omega), if_neg (show ¬ idx = st.C + 4 by omega),
        if_neg (show ¬ idx = st.C + 3 by omega), if_neg (show ¬ idx = st.C + 2 by omega),
        if_neg (show ¬ idx = st.C + 1 by omega), if_neg (show ¬ idx = st.C by omega)]

/-- The whole `Horizontal` loop of `FastNaiveMatrixMultiply` stores one row of the product. -/
theorem naive_row_spec [CommRing R] (A B : Buf R) (Bp q rwB : Nat) (hq : 1 ≤ q)
    (st : NaiveState R) :
    let st1 := forUpBy 0 (8 * q) 8
      (naive_horizontal A B Bp (8 * q) (rwB <<< 3) ((8 * q) <<< 3)) st
    st1.C = st.C + 8 * q ∧ st1.ARowStart = st.ARowStart ∧
    ∀ idx, st1.Cbuf idx =
      if st.C ≤ idx ∧ idx < st.C + 8 * q then
        dot (8 * q) A st.ARowStart B (Bp + (idx - st.C)) rwB
      else st.Cbuf idx := by
  have key := forUpBy_induction (fun c (s : NaiveState R) =>
      s.C = st.C + 8 * c ∧ s.ARowStart = st.ARowStart ∧
      ∀ idx, s.Cbuf idx =
        if st.C ≤ idx ∧ idx < st.C + 8 * c then
          dot (8 * q) A st.ARowStart B (Bp + (idx - st.C)) rwB
        else st.Cbuf idx) 0 8 q (by decide)
      (naive_horizontal A B Bp (8 * q) (rwB <<< 3) ((8 * q) <<< 3)) st ?_ ?_
  · simpa [Nat.mul_comm] using key
  · refine ⟨rfl, rfl, fun idx => ?_⟩
    rw [if_neg (by omega)]
  · rintro c s hc ⟨h1, h2, h3⟩
    obtain ⟨g1, g2, g3⟩ := naive_horizontal_spec A B Bp (8 * q) rwB (0 + c * 8) (by omega) s
    refine ⟨by rw [g1, h1]; ring, by rw [g2, h2], fun idx => ?_⟩
    rw [g3 idx, h1, h2, h3 idx]
    by_cases hc1 : st.C + 8 * c ≤ idx ∧ idx < st.C + 8 * c + 8
    · rw [if_pos hc1, if_pos (by omega)]
      congr 1
      omega
    · rw [if_neg hc1]
      by_cases hc2 : st.C ≤ idx ∧ idx < st.C + 8 * c
      · rw [if_pos hc2, if_pos (by omega)]
      · rw [if_neg hc2, if_neg (by omega)]

/-- The `Vertical` loop of the naive kernels, for a row operation `rowop` that rewrites the
`n` entries from `st.C` on as `f st.ARowStart j old`. -/
theorem vertical_spec (rowop : NaiveState R → NaiveState R) (f : Nat → Nat → R → R)
    (n rwC rwA : Nat) (hrw : n ≤ rwC)
    (hrow : ∀ st, (rowop st).C = st.C + n ∧ (rowop st).ARowStart = st.ARowStart ∧
      ∀ idx, (rowop st).Cbuf idx =
        if st.C ≤ idx ∧ idx < st.C + n then f st.ARowStart (idx - st.C) (st.Cbuf idx)
        else st.Cbuf idx)
    (Cbuf : Buf R) (C Ap : Nat) :
    let res := (forUp 0 n (fun _ (st : NaiveState R) =>
      let st := rowop st
      let ARowStart := addBytes st.ARowStart (rwA <<< 3)
      let C := addBytes st.C ((rwC - n) <<< 3)
      (⟨st.Cbuf, C, ARowStart⟩ : NaiveState R)) ⟨Cbuf, C, Ap⟩).Cbuf
    (∀ i j, i < n → j < n →
      res (C + i * rwC + j) = f (Ap + i * rwA) j (Cbuf (C + i * rwC + j))) ∧
    (∀ idx, (∀ i j, i < n → j < n → idx ≠ C + i * rwC + j) → res idx = Cbuf idx) := by
  have key := forUp_induction (fun v (st : NaiveState R) =>
      st.C = C + v * rwC ∧ st.ARowStart = Ap + v * rwA ∧
      (∀ i j, i < v → j < n →
        st.Cbuf (C + i * rwC + j) = f (Ap + i * rwA) j (Cbuf (C + i * rwC + j))) ∧
      (∀ idx, (∀ i j, i < v → j < n → idx ≠ C + i * rwC + j) → st.Cbuf idx = Cbuf idx)) 0 n
      (fun _ (st : NaiveState R) =>
        let st := rowop st
        let ARowStart := addBytes st.ARowStart (rwA <<< 3)
        let C := addBytes st.C ((rwC - n) <<< 3)
        (⟨st.Cbuf, C, ARowStart⟩ : NaiveState R)) ⟨Cbuf, C, Ap⟩ (Nat.zero_le _) ?_ ?_
  · exact ⟨key.2.2.1, key.2.2.2⟩
  · refine ⟨by simp, by simp, ?_, ?_⟩
    · intro i j hi
      omega
    · intro idx _
      rfl
  · rintro v st - hv ⟨h1, h2, h3, h4⟩
    obtain ⟨g1, g2, g3⟩ := hrow st
    refine ⟨?_, ?_, ?_, ?_⟩
    · simp only [addBytes_shl, g1, h1]
      rw [Nat.add_mul]
      omega
    · simp only [addBytes_shl, g2, h2]
      ring
    · intro i j hi hj
      simp only [g3, h1]
      by_cases hiv : i = v
      · subst hiv
        rw [if_pos (by omega), h2]
        have e : C + i * rwC + j - (C + i * rwC) = j := by omega
        rw [e, h4]
        intro i1 j1 hi1 hj1
        have := row_lt i1 i j1 rwC hi1 (by omega)
        omega
      · have hlt : i < v := by omega
        have := row_lt i v j rwC hlt (by omega)
        rw [if_neg (by omega)]
        exact h3 i j hlt hj
    · intro idx hidx
      simp only [g3, h1]
      rw [if_neg, h4]
      · intro i j hi hj
        exact hidx i j (by omega) hj
      · intro hc
        exact hidx v (idx - (C + v * rwC)) (by omega) (by omega) (by omega)

/-- `FastNaiveMatrixMultiply` on a size that is a multiple of 8 stores the product
of the `n x n` views of `A` and `B` into the `n x n` view of `C` and writes nothing else. -/
theorem FastNaiveMatrixMultiply_spec [CommRing R] (Cbuf : Buf R) (C : Nat) (A : Buf R)
    (Ap : Nat) (B : Buf R) (Bp : Nat) (q rwC rwA rwB : Nat) (hrw : 8 * q ≤ rwC) :
    (∀ i j, i < 8 * q → j < 8 * q →
      FastNaiveMatrixMultiply Cbuf C A Ap B Bp (8 * q) rwC rwA rwB (C + i * rwC + j) =
        dot (8 * q) A (Ap + i * rwA) B (Bp + j) rwB) ∧
    (∀ idx, (∀ i j, i < 8 * q → j < 8 * q → idx ≠ C + i * rwC + j) →
      FastNaiveMatrixMultiply Cbuf C A Ap B Bp (8 * q) rwC rwA rwB idx = Cbuf idx) := by
  by_cases hq : q = 0
  · subst hq
    refine ⟨fun i j hi => by omega, fun idx _ => ?_⟩
    simp [FastNaiveMatrixMultiply, forUp, forUp.go]
  · exact vertical_spec
      (forUpBy 0 (8 * q) 8 (naive_horizontal A B Bp (8 * q) (rwB <<< 3) ((8 * q) <<< 3)))
      (fun a j _ => dot (8 * q) A a B (Bp + j) rwB) (8 * q) rwC rwA hrw
      (fun st => naive_row_spec A B Bp q rwB (by omega) st) Cbuf C Ap

/-- The `Products` loop of `FastAdditiveNaiveMatrixMultiply`. -/
theorem additive_products_loop [CommRing R] (A B : Buf R) (rwB a0 b0 : Nat) (n : Nat)
    (s0 : Sums R) :
    let p := forUp 0 n (fun _ (p : ProdState R) => additive_products A B (rwB <<< 3) p)
      ⟨a0, b0, s0⟩
    p.ARowStart = a0 + n ∧ p.BColumnStart = b0 + n * rwB ∧
      ∀ t, t < 8 → p.sums.get t = s0.get t + dot n A a0 B (b0 + t) rwB := by
  refine forUp_induction (fun c (p : ProdState R) =>
      p.ARowStart = a0 + c ∧ p.BColumnStart = b0 + c * rwB ∧
      ∀ t, t < 8 → p.sums.get t = s0.get t + dot c A a0 B (b0 + t) rwB) 0 n _ _
      (Nat.zero_le _) ?_ ?_
  · refine ⟨rfl, by simp, ?_⟩
    intro t ht
    simp [dot]
  · rintro c p - hc2 ⟨h1, h2, h3⟩
    refine ⟨?_, ?_, ?_⟩
    · simp only [additive_products, h1]
      omega
    · simp only [additive_products, h2, addBytes_shl]
      ring
    · intro t ht
      rw [dot_succ, ← add_assoc, ← h3 t ht]
      interval_cases t <;>
        simp only [additive_products, Sums.get, h1, h2] <;> norm_num <;>
        first | rfl | (congr 2; omega)

/-- One pass of the `Horizontal` loop of `FastAdditiveNaiveMatrixMultiply` adds eight dot
products. -/
theorem additive_horizontal_spec [CommRing R] (A B : Buf R) (Bp n rwB h : Nat)
    (st : NaiveState R) :
    (additive_horizontal A B Bp n (rwB <<< 3) (n <<< 3) h st).C = st.C + 8 ∧
    (additive_horizontal A B Bp n (rwB <<< 3) (n <<< 3) h st).ARowStart = st.ARowStart ∧
    ∀ idx, (additive_horizontal A B Bp n (rwB <<< 3) (n <<< 3) h st).Cbuf idx =
      if st.C ≤ idx ∧ idx < st.C + 8 then
        st.Cbuf idx + dot n A st.ARowStart B (Bp + h + (idx - st.C)) rwB
      else st.Cbuf idx := by
  obtain ⟨h1, h2, h3⟩ := additive_products_loop A B rwB st.ARowStart (Bp + h) n
    ⟨st.Cbuf st.C, st.Cbuf (st.C + 1), st.Cbuf (st.C + 2), st.Cbuf (st.C + 3),
      st.Cbuf (st.C + 4), st.Cbuf (st.C + 5), st.Cbuf (st.C + 6), st.Cbuf (st.C + 7)⟩
  refine ⟨rfl, ?_, ?_⟩
  · simp only [additive_horizontal, subBytes_shl, h1]
    omega
  · intro idx
    simp only [additive_horizontal, write_apply]
    obtain ⟨e0, e1, e2, e3, e4, e5, e6, e7⟩ := Sums.get_eq
      (forUp 0 n (fun _ (p : ProdState R) => additive_products A B (rwB <<< 3) p)
      ⟨st.ARowStart, Bp + h, ⟨st.Cbuf st.C, st.Cbuf (st.C + 1), st.Cbuf (st.C + 2),
        st.Cbuf (st.C + 3), st.Cbuf (st.C + 4), st.Cbuf (st.C + 5), st.Cbuf (st.C + 6),
        st.Cbuf (st.C + 7)⟩⟩).sums
    rw [e0, e1, e2, e3, e4, e5, e6, e7, h3 0 (by decide), h3 1 (by decide), h3 2 (by decide),
      h3 3 (by decide), h3 4 (by decide), h3 5 (by decide), h3 6 (by decide), h3 7 (by decide)]
    by_cases hc : st.C ≤ idx ∧ idx < st.C + 8
    · rw [if_pos hc]
      obtain ⟨t, ht, rfl⟩ : ∃ t, t < 8 ∧ idx = st.C + t := ⟨idx - st.C, by omega, by omega⟩
      rw [Nat.add_sub_cancel_left]
      interval_cases t <;> simp [Sums.get]
    · rw [if_neg hc]
      simp only [if_neg (show ¬ idx = st.C + 7 by omega), if_neg (show ¬ idx = st.C + 6 by omega),
        if_neg (show ¬ idx = st.C + 5 by omega), if_neg (show ¬ idx = st.C + 4 by omega),
        if_neg (show ¬ idx = st.C + 3 by omega), if_neg (show ¬ idx = st.C + 2 by omega),
        if_neg (show ¬ idx = st.C + 1 by omega), if_neg (show ¬ idx = st.C by omega)]

/-- The whole `Horizontal` loop of `FastAdditiveNaiveMatrixMultiply` adds one row of the
product. -/
theorem additive_row_spec [CommRing R] (A B : Buf R) (Bp q rwB : Nat) (st : NaiveState R) :
    let st1 := forUpBy 0 (8 * q) 8
      (additive_horizontal A B Bp (8 * q) (rwB <<< 3) ((8 * q) <<< 3)) st
    st1.C = st.C + 8 * q ∧ st1.ARowStart = st.ARowStart ∧
    ∀ idx, st1.Cbuf idx =
      if st.C ≤ idx ∧ idx < st.C + 8 * q then
        st.Cbuf idx + dot (8 * q) A st.ARowStart B (Bp + (idx - st.C)) rwB
      else st.Cbuf idx := by
  have key := forUpBy_induction (fun c (s : NaiveState R) =>
      s.C = st.C + 8 * c ∧ s.ARowStart = st.ARowStart ∧
      ∀ idx, s.Cbuf idx =
        if st.C ≤ idx ∧ idx < st.C + 8 * c then
          st.Cbuf idx + dot (8 * q) A st.ARowStart B (Bp + (idx - st.C)) rwB
        else st.Cbuf idx) 0 8 q (by decide)
      (additive_horizontal A B Bp (8 * q) (rwB <<< 3) ((8 * q) <<< 3)) st ?_ ?_
  · simpa [Nat.mul_comm] using key
  · refine ⟨rfl, rfl, fun idx => ?_⟩
    rw [if_neg (by omega)]
  · rintro c s hc ⟨h1, h2, h3⟩
    obtain ⟨g1, g2, g3⟩ := additive_horizontal_spec A B Bp (8 * q) rwB (0 + c * 8) s
    refine ⟨by rw [g1, h1]; ring, by rw [g2, h2], fun idx => ?_⟩
    rw [g3 idx, h1, h2, h3 idx]
    by_cases hc1 : st.C + 8 * c ≤ idx ∧ idx < st.C + 8 * c + 8
    · rw [if_pos hc1, if_neg (by omega), if_pos (by omega)]
      congr 2
      omega
    · rw [if_neg hc1]
      by_cases hc2 : st.C ≤ idx ∧ idx < st.C + 8 * c
      · rw [if_pos hc2, if_pos (by omega)]
      · rw [if_neg hc2, if_neg (by omega)]

/-- `FastAdditiveNaiveMatrixMultiply` on a size that is a multiple of 8 adds the product of
the `n x n` views of `A` and `B` to the `n x n` view of `C` and writes nothing else. -/
theorem FastAdditiveNaiveMatrixMultiply_spec [CommRing R] (Cbuf : Buf R) (C : Nat) (A : Buf R)
    (Ap : Nat) (B : Buf R) (Bp : Nat) (q rwC rwA rwB : Nat) (hrw : 8 * q ≤ rwC) :
    (∀ i j, i < 8 * q → j < 8 * q →
      FastAdditiveNaiveMatrixMultiply Cbuf C A Ap B Bp (8 * q) rwC rwA rwB (C + i * rwC + j) =
        Cbuf (C + i * rwC + j) + dot (8 * q) A (Ap + i * rwA) B (Bp + j) rwB) ∧
    (∀ idx, (∀ i j, i < 8 * q → j < 8 * q → idx ≠ C + i * rwC + j) →
      FastAdditiveNaiveMatrixMultiply Cbuf C A Ap B Bp (8 * q) rwC rwA rwB idx = Cbuf idx) :=
  vertical_spec
    (forUpBy 0 (8 * q) 8 (additive_horizontal A B Bp (8 * q) (rwB <<< 3) ((8 * q) <<< 3)))
    (fun a j old => old + dot (8 * q) A a B (Bp + j) rwB) (8 * q) rwC rwA hrw
    (fun st => additive_row_spec A B Bp q rwB st) Cbuf C Ap

theorem dot_eq_mmul [CommRing R] (n : Nat) (A : Buf R) (Ap rwA : Nat) (B : Buf R)
    (Bp rwB : Nat) (i j : Nat) :
    dot n A (Ap + i * rwA) B (Bp + j) rwB = mmul n (view A Ap rwA) (view B Bp rwB) i j := by
  unfold dot mmul view
  refine Finset.sum_congr rfl (fun k _ => ?_)
  congr 2
  omega

theorem mmul_split [Ring R] (Q : Nat) (a b : Nat → Nat → R) (i j : Nat) :
    mmul (Q + Q) a b i j =
      mmul Q a b i j + mmul Q (fun i k => a i (k + Q)) (fun k j => b (k + Q) j) i j := by
  unfold mmul
  rw [Finset.sum_range_add]
  congr 1
  refine Finset.sum_congr rfl (fun k _ => ?_)
  rw [Nat.add_comm Q k]

theorem mmul_congr [AddCommMonoid R] [Mul R] (n : Nat) (a a1 b b1 : Nat → Nat → R) (i j : Nat)
    (ha : ∀ k, k < n → a i k = a1 i k) (hb : ∀ k, k < n → b k j = b1 k j) :
    mmul n a b i j = mmul n a1 b1 i j := by
  unfold mmul
  refine Finset.sum_congr rfl (fun k hk => ?_)
  rw [ha k (Finset.mem_range.1 hk), hb k (Finset.mem_range.1 hk)]

theorem FastNaive_MulSpec [CommRing R] (Cbuf : Buf R) (C : Nat) (A : Buf R) (Ap : Nat)
    (B : Buf R) (Bp : Nat) (q rwC rwA rwB : Nat) (hrw : 8 * q ≤ rwC) :
    MulSpec false (FastNaiveMatrixMultiply Cbuf C A Ap B Bp (8 * q) rwC rwA rwB) Cbuf C rwC
      (8 * q) (mmul (8 * q) (view A Ap rwA) (view B Bp rwB)) := by
  obtain ⟨h1, h2⟩ := FastNaiveMatrixMultiply_spec Cbuf C A Ap B Bp q rwC rwA rwB hrw
  refine ⟨fun i j hi hj => ?_, h2⟩
  rw [h1 i j hi hj, dot_eq_mmul]
  simp

theorem FastAdditive_MulSpec [CommRing R] (Cbuf : Buf R) (C : Nat) (A : Buf R) (Ap : Nat)
    (B : Buf R) (Bp : Nat) (q rwC rwA rwB : Nat) (hrw : 8 * q ≤ rwC) :
    MulSpec true (FastAdditiveNaiveMatrixMultiply Cbuf C A Ap B Bp (8 * q) rwC rwA rwB) Cbuf
      C rwC (8 * q) (mmul (8 * q) (view A Ap rwA) (view B Bp rwB)) := by
  obtain ⟨h1, h2⟩ := FastAdditiveNaiveMatrixMultiply_spec Cbuf C A Ap B Bp q rwC rwA rwB hrw
  refine ⟨fun i j hi hj => ?_, h2⟩
  rw [h1 i j hi hj, dot_eq_mmul]
  simp

/-- Reading a cell of the quadrant at block offset `(i0, j0)` after an operation on it. -/
theorem MulSpec.inside [AddCommMonoid R] {add : Bool} {res old : Buf R} {C' rw Q : Nat}
    {P : Nat → Nat → R} (h : MulSpec add res old C' rw Q P) (C i0 j0 : Nat)
    (hC : C' = C + i0 * rw + j0) (i j : Nat) (hi : i0 ≤ i ∧ i < i0 + Q)
    (hj : j0 ≤ j ∧ j < j0 + Q) :
    res (C + i * rw + j) =
      (if add then old (C + i * rw + j) else 0) + P (i - i0) (j - j0) := by
  have e : C + i * rw + j = C' + (i - i0) * rw + (j - j0) := by
    obtain ⟨a, rfl⟩ : ∃ a, i = i0 + a := ⟨i - i0, by omega⟩
    obtain ⟨b, rfl⟩ : ∃ b, j = j0 + b := ⟨j - j0, by omega⟩
    rw [hC, Nat.add_sub_cancel_left, Nat.add_sub_cancel_left, Nat.add_mul]
    omega
  rw [e]
  exact h.1 _ _ (by omega) (by omega)

/-- Reading a cell outside the quadrant at block offset `(i0, j0)` after an operation on it. -/
theorem MulSpec.outside [AddCommMonoid R] {add : Bool} {res old : Buf R} {C' rw Q : Nat}
    {P : Nat → Nat → R} (h : MulSpec add res old C' rw Q P) (C i0 j0 : Nat)
    (hC : C' = C + i0 * rw + j0) (hQ : j0 + Q ≤ rw) (i j : Nat) (hjr : j < rw)
    (hout : ¬ ((i0 ≤ i ∧ i < i0 + Q) ∧ (j0 ≤ j ∧ j < j0 + Q))) :
    res (C + i * rw + j) = old (C + i * rw + j) := by
  apply h.2
  intro i1 j1 hi1 hj1 he
  have e : C' + i1 * rw + j1 = C + (i0 + i1) * rw + (j0 + j1) := by
    rw [hC, Nat.add_mul]
    omega
  rw [e] at he
  have := cell_inj i j (i0 + i1) (j0 + j1) rw hjr (by omega) (by omega)
  omega

theorem MulSpec.frame [AddCommMonoid R] {add : Bool} {res old : Buf R} {C' rw Q : Nat}
    {P : Nat → Nat → R} (h : MulSpec add res old C' rw Q P) (C i0 j0 n : Nat)
    (hC : C' = C + i0 * rw + j0) (hi0 : i0 + Q ≤ n) (hj0 : j0 + Q ≤ n) (idx : Nat)
    (hidx : ∀ i j, i < n → j < n → idx ≠ C + i * rw + j) : res idx = old idx := by
  apply h.2
  intro i1 j1 hi1 hj1 he
  have e : C' + i1 * rw + j1 = C + (i0 + i1) * rw + (j0 + j1) := by
    rw [hC, Nat.add_mul]
    omega
  rw [e] at he
  exact hidx (i0 + i1) (j0 + j1) (by omega) (by omega) he

theorem mmul_eq [AddCommMonoid R] [Mul R] (n : Nat) (a a1 b b1 : Nat → Nat → R)
    (i j i1 j1 : Nat) (ha : ∀ k, k < n → a i k = a1 i1 k) (hb : ∀ k, k < n → b k j = b1 k j1) :
    mmul n a b i j = mmul n a1 b1 i1 j1 := by
  unfold mmul
  refine Finset.sum_congr rfl (fun k hk => ?_)
  rw [ha k (Finset.mem_range.1 hk), hb k (Finset.mem_range.1 hk)]

/-- The eight quadrant operations of the divide-and-conquer multiplication, in the order of
the C code, make up the multiplication of the `2Q x 2Q` matrices. -/
theorem quad_compose [CommRing R] (add : Bool) (Q rw C : Nat) (hrw : Q + Q ≤ rw)
    (a b a01 a10 a11 b01 b10 b11 : Nat → Nat → R)
    (ha01 : ∀ i k, a01 i k = a i (k + Q)) (ha10 : ∀ i k, a10 i k = a (i + Q) k)
    (ha11 : ∀ i k, a11 i k = a (i + Q) (k + Q))
    (hb01 : ∀ i k, b01 i k = b i (k + Q)) (hb10 : ∀ i k, b10 i k = b (i + Q) k)
    (hb11 : ∀ i k, b11 i k = b (i + Q) (k + Q))
    (C0 C1 C2 C3 C4 C5 C6 C7 C8 : Buf R)
    (h1 : MulSpec add C1 C0 C rw Q (mmul Q a b))
    (h2 : MulSpec add C2 C1 (C + Q) rw Q (mmul Q a b01))
    (h3 : MulSpec add C3 C2 (C + rw * Q + Q) rw Q (mmul Q a10 b01))
    (h4 : MulSpec add C4 C3 (C + rw * Q) rw Q (mmul Q a10 b))
    (h5 : MulSpec true C5 C4 C rw Q (mmul Q a01 b10))
    (h6 : MulSpec true C6 C5 (C + Q) rw Q (mmul Q a01 b11))
    (h7 : MulSpec true C7 C6 (C + rw * Q + Q) rw Q (mmul Q a11 b11))
    (h8 : MulSpec true C8 C7 (C + rw * Q) rw Q (mmul Q a11 b10)) :
    MulSpec add C8 C0 C rw (Q + Q) (mmul (Q + Q) a b) := by
  have c00 : C = C + 0 * rw + 0 := by omega
  have c01 : C + Q = C + 0 * rw + Q := by omega
  have c11 : C + rw * Q + Q = C + Q * rw + Q := by rw [Nat.mul_comm]
  have c10 : C + rw * Q = C + Q * rw + 0 := by rw [Nat.mul_comm]; omega
  constructor
  · intro i j hi hj
    have hjr : j < rw := by omega
    rw [mmul_split]
    by_cases hiQ : i < Q <;> by_cases hjQ : j < Q
    · rw [h8.outside C Q 0 c10 (by omega) i j hjr (by omega),
        h7.outside C Q Q c11 (by omega) i j hjr (by omega),
        h6.outside C 0 Q c01 (by omega) i j hjr (by omega),
        h5.inside C 0 0 c00 i j (by omega) (by omega),
        h4.outside C Q 0 c10 (by omega) i j hjr (by omega),
        h3.outside C Q Q c11 (by omega) i j hjr (by omega),
        h2.outside C 0 Q c01 (by omega) i j hjr (by omega),
        h1.inside C 0 0 c00 i j (by omega) (by omega)]
      simp only [if_true, Nat.sub_zero]
      have e1 : mmul Q a b i j = mmul Q a b i j :=
        mmul_eq Q _ _ _ _ _ _ _ _ (fun k _ => by rfl) (fun k _ => by rfl)
      have e2 : mmul Q a01 b10 i j =
          mmul Q (fun i k => a i (k + Q)) (fun k j => b (k + Q) j) i j :=
        mmul_eq Q _ _ _ _ _ _ _ _ (fun k _ => by rw [ha01]) (fun k _ => by rw [hb10])
      rw [e1, e2, add_assoc]
    · rw [h8.outside C Q 0 c10 (by omega) i j hjr (by omega),
        h7.outside C Q Q c11 (by omega) i j hjr (by omega),
        h6.inside C 0 Q c01 i j (by omega) (by omega),
        h5.outside C 0 0 c00 (by omega) i j hjr (by omega),
        h4.outside C Q 0 c10 (by omega) i j hjr (by omega),
        h3.outside C Q Q c11 (by omega) i j hjr (by omega),
        h2.inside C 0 Q c01 i j (by omega) (by omega),
        h1.outside C 0 0 c00 (by omega) i j hjr (by omega)]
      simp only [if_true, Nat.sub_zero]
      have e1 : mmul Q a b01 i (j - Q) = mmul Q a b i j :=
        mmul_eq Q _ _ _ _ _ _ _ _ (fun k _ => by rfl) (fun k _ => by rw [hb01, Nat.sub_add_cancel (by omega)])
      have e2 : mmul Q a01 b11 i (j - Q) =
          mmul Q (fun i k => a i (k + Q)) (fun k j => b (k + Q) j) i j :=
        mmul_eq Q _ _ _ _ _ _ _ _ (fun k _ => by rw [ha01]) (fun k _ => by rw [hb11, Nat.sub_add_cancel (by omega)])
      rw [e1, e2, add_assoc]
    · rw [h8.inside C Q 0 c10 i j (by omega) (by omega),
        h7.outside C Q Q c11 (by omega) i j hjr (by omega),
        h6.outside C 0 Q c01 (by omega) i j hjr (by omega),
        h5.outside C 0 0 c00 (by omega) i j hjr (by omega),
        h4.inside C Q 0 c10 i j (by omega) (by omega),
        h3.outside C Q Q c11 (by omega) i j hjr (by omega),
        h2.outside C 0 Q c01 (by omega) i j hjr (by omega),
        h1.outside C 0 0 c00 (by omega) i j hjr (by omega)]
      simp only [if_true, Nat.sub_zero]
      have e1 : mmul Q a10 b (i - Q) j = mmul Q a b i j :=
        mmul_eq Q _ _ _ _ _ _ _ _ (fun k _ => by rw [ha10, Nat.sub_add_cancel (by omega)]) (fun k _ => by rfl)
      have e2 : mmul Q a11 b10 (i - Q) j =
          mmul Q (fun i k => a i (k + Q)) (fun k j => b (k + Q) j) i j :=
        mmul_eq Q _ _ _ _ _ _ _ _ (fun k _ => by rw [ha11, Nat.sub_add_cancel (by omega)]) (fun k _ => by rw [hb10])
      rw [e1, e2, add_assoc]
    · rw [h8.outside C Q 0 c10 (by omega) i j hjr (by omega),
        h7.inside C Q Q c11 i j (by omega) (by omega),
        h6.outside C 0 Q c01 (by omega) i j hjr (by omega),
        h5.outside C 0 0 c00 (by omega) i j hjr (by omega),
        h4.outside C Q 0 c10 (by omega) i j hjr (by omega),
        h3.inside C Q Q c11 i j (by omega) (by omega),
        h2.outside C 0 Q c01 (by omega) i j hjr (by omega),
        h1.outside C 0 0 c00 (by omega) i j hjr (by omega)]
      simp only [if_true, Nat.sub_zero]
      have e1 : mmul Q a10 b01 (i - Q) (j - Q) = mmul Q a b i j :=
        mmul_eq Q _ _ _ _ _ _ _ _ (fun k _ => by rw [ha10, Nat.sub_add_cancel (by omega)]) (fun k _ => by rw [hb01, Nat.sub_add_cancel (by omega)])
      have e2 : mmul Q a11 b11 (i - Q) (j - Q) =
          mmul Q (fun i k => a i (k + Q)) (fun k j => b (k + Q) j) i j :=
        mmul_eq Q _ _ _ _ _ _ _ _ (fun k _ => by rw [ha11, Nat.sub_add_cancel (by omega)]) (fun k _ => by rw [hb11, Nat.sub_add_cancel (by omega)])
      rw [e1, e2, add_assoc]
  · intro idx hidx
    rw [h8.frame C Q 0 (Q + Q) c10 (by omega) (by omega) idx hidx,
      h7.frame C Q Q (Q + Q) c11 (by omega) (by omega) idx hidx,
      h6.frame C 0 Q (Q + Q) c01 (by omega) (by omega) idx hidx,
      h5.frame C 0 0 (Q + Q) c00 (by omega) (by omega) idx hidx,
      h4.frame C Q 0 (Q + Q) c10 (by omega) (by omega) idx hidx,
      h3.frame C Q Q (Q + Q) c11 (by omega) (by omega) idx hidx,
      h2.frame C 0 Q (Q + Q) c01 (by omega) (by omega) idx hidx,
      h1.frame C 0 0 (Q + Q) c00 (by omega) (by omega) idx hidx]

theorem view_right (X : Buf R) (p rw Q : Nat) (i k : Nat) :
    view X (p + Q) rw i k = view X p rw i (k + Q) := by
  unfold view
  congr 1
  omega

theorem view_down (X : Buf R) (p rw Q : Nat) (i k : Nat) :
    view X (p + rw * Q) rw i k = view X p rw (i + Q) k := by
  unfold view
  congr 1
  rw [Nat.add_mul, Nat.mul_comm rw Q]
  omega

theorem view_diag (X : Buf R) (p rw Q : Nat) (i k : Nat) :
    view X (p + rw * Q + Q) rw i k = view X p rw (i + Q) (k + Q) := by
  rw [view_right, view_down]

theorem MulSpec_cast [AddCommMonoid R] {add : Bool} {res old : Buf R} {C rw n m : Nat}
    {P P1 : Nat → Nat → R} (h : MulSpec add res old C rw n P) (hn : n = m) (hP : P = P1) :
    MulSpec add res old C rw m P1 := by
  subst hn
  subst hP
  exact h

/-- The chain of eight quadrant operations of `MultiplyByDivideAndConquer`, for an
operation `f` used in the first four calls and an additive operation `g` used in the last
four. -/
theorem quad_chain [CommRing R] (add : Bool) (Q rwC rwA rwB : Nat) (A B : Buf R)
    (f g : Buf R → Nat → Nat → Nat → Buf R)
    (hf : ∀ X c a b,
      MulSpec add (f X c a b) X c rwC Q (mmul Q (view A a rwA) (view B b rwB)))
    (hg : ∀ X c a b,
      MulSpec true (g X c a b) X c rwC Q (mmul Q (view A a rwA) (view B b rwB)))
    (Cbuf : Buf R) (C Ap Bp : Nat) (hrw : Q + Q ≤ rwC) :
    MulSpec add
      (g (g (g (g (f (f (f (f Cbuf C Ap Bp) (C + Q) Ap (Bp + Q))
        (C + rwC * Q + Q) (Ap + rwA * Q) (Bp + Q)) (C + rwC * Q) (Ap + rwA * Q) Bp)
        C (Ap + Q) (Bp + rwB * Q)) (C + Q) (Ap + Q) (Bp + rwB * Q + Q))
        (C + rwC * Q + Q) (Ap + rwA * Q + Q) (Bp + rwB * Q + Q))
        (C + rwC * Q) (Ap + rwA * Q + Q) (Bp + rwB * Q))
      Cbuf C rwC (Q + Q) (mmul (Q + Q) (view A Ap rwA) (view B Bp rwB)) :=
  quad_compose add Q rwC C hrw _ _ _ _ _ _ _ _
    (view_right A Ap rwA _) (view_down A Ap rwA _) (view_diag A Ap rwA _)
    (view_right B Bp rwB _) (view_down B Bp rwB _) (view_diag B Bp rwB _)
    Cbuf _ _ _ _ _ _ _ _ (hf _ _ _ _) (hf _ _ _ _) (hf _ _ _ _) (hf _ _ _ _)
    (hg _ _ _ _) (hg _ _ _ _) (hg _ _ _ _) (hg _ _ _ _)

theorem shr_double (x : Nat) : (2 * x) >>> 1 = x := by
  rw [Nat.shiftRight_eq_div_pow]
  omega

/-- `MultiplyByDivideAndConquer` on the sizes 16, 32, 64, ... -/
theorem MultiplyByDivideAndConquer_aux [CommRing R] (t : Nat) :
    ∀ (add : Bool) (Cbuf : Buf R) (C : Nat) (A : Buf R) (Ap : Nat) (B : Buf R) (Bp : Nat)
      (rwC rwA rwB : Nat), 2 * (8 * 2 ^ t) ≤ rwC →
      MulSpec add
        (MultiplyByDivideAndConquer Cbuf C A Ap B Bp (2 * (8 * 2 ^ t)) rwC rwA rwB add)
        Cbuf C rwC (8 * 2 ^ t + 8 * 2 ^ t)
        (mmul (8 * 2 ^ t + 8 * 2 ^ t) (view A Ap rwA) (view B Bp rwB)) := by
  induction t with
  | zero =>
    intro add Cbuf C A Ap B Bp rwC rwA rwB hrw
    rw [MultiplyByDivideAndConquer]
    simp only [shr_double, SizeAtWhichNaiveAlgorithmIsMoreEfficient]
    rw [if_neg (by decide)]
    cases add
    · exact quad_chain false (8 * 2 ^ 0) rwC rwA rwB A B
        (fun X c a b => FastNaiveMatrixMultiply X c A a B b (8 * 2 ^ 0) rwC rwA rwB)
        (fun X c a b => FastAdditiveNaiveMatrixMultiply X c A a B b (8 * 2 ^ 0) rwC rwA rwB)
        (fun X c a b => FastNaive_MulSpec X c A a B b _ rwC rwA rwB (by omega))
        (fun X c a b => FastAdditive_MulSpec X c A a B b _ rwC rwA rwB (by omega))
        Cbuf C Ap Bp (by omega)
    · exact quad_chain true (8 * 2 ^ 0) rwC rwA rwB A B
        (fun X c a b => FastAdditiveNaiveMatrixMultiply X c A a B b (8 * 2 ^ 0) rwC rwA rwB)
        (fun X c a b => FastAdditiveNaiveMatrixMultiply X c A a B b (8 * 2 ^ 0) rwC rwA rwB)
        (fun X c a b => FastAdditive_MulSpec X c A a B b _ rwC rwA rwB (by omega))
        (fun X c a b => FastAdditive_MulSpec X c A a B b _ rwC rwA rwB (by omega))
        Cbuf C Ap Bp (by omega)
  | succ t ih =>
    intro add Cbuf C A Ap B Bp rwC rwA rwB hrw
    rw [MultiplyByDivideAndConquer]
    simp only [shr_double, SizeAtWhichNaiveAlgorithmIsMoreEfficient]
    have hpos : 1 ≤ 2 ^ t := Nat.one_le_two_pow
    have e2 : 8 * 2 ^ (t + 1) = 2 * (8 * 2 ^ t) := by rw [pow_succ]; ring
    by_cases ht : t = 0
    · subst ht
      rw [if_neg (by decide)]
      cases add
      · exact quad_chain false (8 * 2 ^ (0 + 1)) rwC rwA rwB A B
          (fun X c a b => FastNaiveMatrixMultiply X c A a B b (8 * 2 ^ (0 + 1)) rwC rwA rwB)
          (fun X c a b =>
            FastAdditiveNaiveMatrixMultiply X c A a B b (8 * 2 ^ (0 + 1)) rwC rwA rwB)
          (fun X c a b => FastNaive_MulSpec X c A a B b _ rwC rwA rwB (by omega))
          (fun X c a b => FastAdditive_MulSpec X c A a B b _ rwC rwA rwB (by omega))
          Cbuf C Ap Bp (by omega)
      · exact quad_chain true (8 * 2 ^ (0 + 1)) rwC rwA rwB A B
          (fun X c a b =>
            FastAdditiveNaiveMatrixMultiply X c A a B b (8 * 2 ^ (0 + 1)) rwC rwA rwB)
          (fun X c a b =>
            FastAdditiveNaiveMatrixMultiply X c A a B b (8 * 2 ^ (0 + 1)) rwC rwA rwB)
          (fun X c a b => FastAdditive_MulSpec X c A a B b _ rwC rwA rwB (by omega))
          (fun X c a b => FastAdditive_MulSpec X c A a B b _ rwC rwA rwB (by omega))
          Cbuf C Ap Bp (by omega)
    · have h2 : 2 ≤ 2 ^ t := by
        obtain ⟨s, rfl⟩ : ∃ s, t = s + 1 := ⟨t - 1, by omega⟩
        rw [pow_succ]
        have : 1 ≤ 2 ^ s := Nat.one_le_two_pow
        omega
      rw [if_pos (by rw [e2]; omega)]
      have hf : ∀ (m : Bool) X c a b,
          MulSpec m (MultiplyByDivideAndConquer X c A a B b (8 * 2 ^ (t + 1)) rwC rwA rwB m)
            X c rwC (8 * 2 ^ (t + 1)) (mmul (8 * 2 ^ (t + 1)) (view A a rwA) (view B b rwB)) := by
        intro m X c a b
        have := ih m X c A a B b rwC rwA rwB (by omega)
        rw [e2]
        exact MulSpec_cast this (by ring) (by rw [show 8 * 2 ^ t + 8 * 2 ^ t = 2 * (8 * 2 ^ t) by ring])
      exact quad_chain add (8 * 2 ^ (t + 1)) rwC rwA rwB A B
        (fun X c a b => MultiplyByDivideAndConquer X c A a B b (8 * 2 ^ (t + 1)) rwC rwA rwB add)
        (fun X c a b => MultiplyByDivideAndConquer X c A a B b (8 * 2 ^ (t + 1)) rwC rwA rwB true)
        (hf add) (hf true) Cbuf C Ap Bp (by omega)

/-- `MultiplyByDivideAndConquer` on a size `n = 16 * 2^t` with `RowWidthC ≥ n` leaves
`C = A x B` (`AdditiveMode == 0`) or `C = C + A x B` (`AdditiveMode != 0`) in the `n x n`
view of `C` and writes nothing else. -/
theorem MultiplyByDivideAndConquer_spec [CommRing R] (t : Nat) (add : Bool) (Cbuf : Buf R)
    (C : Nat) (A : Buf R) (Ap : Nat) (B : Buf R) (Bp : Nat) (rwC rwA rwB : Nat)
    (hrw : 16 * 2 ^ t ≤ rwC) :
    MulSpec add (MultiplyByDivideAndConquer Cbuf C A Ap B Bp (16 * 2 ^ t) rwC rwA rwB add)
      Cbuf C rwC (16 * 2 ^ t) (mmul (16 * 2 ^ t) (view A Ap rwA) (view B Bp rwB)) := by
  have h := MultiplyByDivideAndConquer_aux t add Cbuf C A Ap B Bp rwC rwA rwB (by omega)
  have e : 2 * (8 * 2 ^ t) = 16 * 2 ^ t := by ring
  rw [e] at h
  exact MulSpec_cast h (by ring) (by rw [show 8 * 2 ^ t + 8 * 2 ^ t = 16 * 2 ^ t by ring])

theorem addBytes_mul8 (p x : Nat) : addBytes p (8 * x) = p + x := by
  unfold addBytes
  omega

theorem strassen_S_body_spec [Add R] [Sub R] (A B : Buf R)
    (A11 A12 A21 A22 B11 B12 B21 B22 : Nat) (sp : SPass R) (t u v : Nat)
    (ht : sp.TempMatrixOffset = 8 * t) (hu : sp.MatrixOffsetA = 8 * u)
    (hv : sp.MatrixOffsetB = 8 * v) :
    (strassen_S_body A B A11 A12 A21 A22 B11 B12 B21 B22 sp).TempMatrixOffset = 8 * (t + 1) ∧
    (strassen_S_body A B A11 A12 A21 A22 B11 B12 B21 B22 sp).MatrixOffsetA = 8 * (u + 1) ∧
    (strassen_S_body A B A11 A12 A21 A22 B11 B12 B21 B22 sp).MatrixOffsetB = 8 * (v + 1) ∧
    ∀ k, 1 ≤ k → k ≤ 8 → ∀ idx,
      (strassen_S_body A B A11 A12 A21 A22 B11 B12 B21 B22 sp).get k idx =
        if idx = t then sval A B A11 A12 A21 A22 B11 B12 B21 B22 k u v else sp.get k idx := by
  refine ⟨?_, ?_, ?_, ?_⟩
  · simp only [strassen_S_body, ht]; omega
  · simp only [strassen_S_body, hu]; omega
  · simp only [strassen_S_body, hv]; omega
  · intro k hk1 hk8 idx
    interval_cases k <;>
      simp [strassen_S_body, SPass.get, sval, ht, hu, hv, addBytes_mul8, write_apply]

/-- The first pass of `OptimizedStrassenMultiply` fills the `Q x Q` scratch matrices. -/
theorem strassen_S_pass_spec [Add R] [Sub R] (junk A B : Buf R)
    (A11 A12 A21 A22 B11 B12 B21 B22 Q rwA rwB : Nat) (hA : Q ≤ rwA) (hB : Q ≤ rwB)
    (k : Nat) (hk1 : 1 ≤ k) (hk8 : k ≤ 8) (i j : Nat) (hi : i < Q) (hj : j < Q) :
    (strassen_S_pass junk A B A11 A12 A21 A22 B11 B12 B21 B22 Q ((rwA - Q) <<< 3)
      ((rwB - Q) <<< 3)).get k (i * Q + j) =
      sval A B A11 A12 A21 A22 B11 B12 B21 B22 k (i * rwA + j) (i * rwB + j) := by
  have key := forUp_induction (fun r (sp : SPass R) =>
      sp.TempMatrixOffset = 8 * (r * Q) ∧ sp.MatrixOffsetA = 8 * (r * rwA) ∧
      sp.MatrixOffsetB = 8 * (r * rwB) ∧
      ∀ k, 1 ≤ k → k ≤ 8 → ∀ i j, i < r → j < Q → sp.get k (i * Q + j) =
        sval A B A11 A12 A21 A22 B11 B12 B21 B22 k (i * rwA + j) (i * rwB + j)) 0 Q
    (fun _ (sp : SPass R) =>
      let sp := forUp 0 Q (fun _ (sp : SPass R) =>
        strassen_S_body A B A11 A12 A21 A22 B11 B12 B21 B22 sp) sp
      ({ sp with MatrixOffsetA := sp.MatrixOffsetA + (rwA - Q) <<< 3,
                 MatrixOffsetB := sp.MatrixOffsetB + (rwB - Q) <<< 3 } : SPass R))
    ⟨0, 0, 0, junk, junk, junk, junk, junk, junk, junk, junk⟩ (Nat.zero_le _) ?_ ?_
  · exact key.2.2.2 k hk1 hk8 i j hi hj
  · refine ⟨by simp, by simp, by simp, ?_⟩
    intro k _ _ i j hi
    omega
  · rintro r sp - hr ⟨h1, h2, h3, h4⟩
    have inner := forUp_induction (fun c (s : SPass R) =>
        s.TempMatrixOffset = 8 * (r * Q + c) ∧ s.MatrixOffsetA = 8 * (r * rwA + c) ∧
        s.MatrixOffsetB = 8 * (r * rwB + c) ∧
        ∀ k, 1 ≤ k → k ≤ 8 → ∀ idx, s.get k idx =
          if r * Q ≤ idx ∧ idx < r * Q + c then
            sval A B A11 A12 A21 A22 B11 B12 B21 B22 k (r * rwA + (idx - r * Q))
              (r * rwB + (idx - r * Q))
          else sp.get k idx) 0 Q
      (fun _ (sp : SPass R) => strassen_S_body A B A11 A12 A21 A22 B11 B12 B21 B22 sp) sp
      (Nat.zero_le _) ?_ ?_
    · obtain ⟨g1, g2, g3, g4⟩ := inner
      refine ⟨?_, ?_, ?_, ?_⟩
      · simp only [g1]; ring
      · simp only [g2, Nat.shiftLeft_eq]; rw [Nat.add_mul]; omega
      · simp only [g3, Nat.shiftLeft_eq]; rw [Nat.add_mul]; omega
      · intro k hk1 hk8 i j hi hj
        have e : ∀ (s : SPass R) (a b : Nat),
            ({ s with MatrixOffsetA := a, MatrixOffsetB := b } : SPass R).get k = s.get k := by
          intro s a b
          rfl
        simp only [e]
        rw [g4 k hk1 hk8]
        by_cases hir : i = r
        · subst hir
          rw [if_pos (by omega)]
          congr 2 <;> omega
        · have hlt : i < r := by omega
          have := row_lt i r j Q hlt hj
          rw [if_neg (by omega)]
          exact h4 k hk1 hk8 i j hlt hj
    · refine ⟨by simp [h1], by simp [h2], by simp [h3], ?_⟩
      intro k _ _ idx
      rw [if_neg (by omega)]
    · rintro c s - hc ⟨g1, g2, g3, g4⟩
      obtain ⟨f1, f2, f3, f4⟩ := strassen_S_body_spec A B A11 A12 A21 A22 B11 B12 B21 B22 s
        _ _ _ g1 g2 g3
      refine ⟨f1, f2, f3, ?_⟩
      intro k hk1 hk8 idx
      rw [f4 k hk1 hk8 idx, g4 k hk1 hk8 idx]
      by_cases hidx : idx = r * Q + c
      · rw [if_pos hidx, if_pos (by omega)]
        congr 2 <;> omega
      · rw [if_neg hidx]
        by_cases h5 : r * Q ≤ idx ∧ idx < r * Q + c
        · rw [if_pos h5, if_pos (by omega)]
        · rw [if_neg h5, if_neg (by omega)]

set_option maxHeartbeats 1000000 in
theorem strassen_C_body_spec [Add R] [Neg R] (M2 M5 T1 : Buf R) (cp : CPass R)
    (h1 : cp.C11 + 4 ≤ cp.C12) (h2 : cp.C12 + 4 ≤ cp.C21) (h3 : cp.C21 + 4 ≤ cp.C22)
    (idx : Nat) :
    (strassen_C_body M2 M5 T1 cp).Cbuf idx =
      cval M2 M5 T1 cp.Cbuf cp.M2 cp.M5 cp.T1sMULT cp.C11 cp.C12 cp.C21 cp.C22 4 idx := by
  unfold cval
  by_cases c1 : cp.C11 ≤ idx ∧ idx < cp.C11 + 4
  · rw [if_pos c1]
    obtain ⟨e, he, rfl⟩ : ∃ e, e < 4 ∧ idx = cp.C11 + e := ⟨idx - cp.C11, by omega, by omega⟩
    interval_cases e <;>
      simp (disch := omega) only [strassen_C_body, write_apply, if_neg, if_pos,
        Nat.add_sub_cancel_left, Nat.add_zero, if_true, Nat.sub_self]
  · rw [if_neg c1]
    by_cases c2 : cp.C12 ≤ idx ∧ idx < cp.C12 + 4
    · rw [if_pos c2]
      obtain ⟨e, he, rfl⟩ : ∃ e, e < 4 ∧ idx = cp.C12 + e := ⟨idx - cp.C12, by omega, by omega⟩
      interval_cases e <;>
        simp (disch := omega) only [strassen_C_body, write_apply, if_neg, if_pos,
          Nat.add_sub_cancel_left, Nat.add_zero, if_true, Nat.sub_self]
    · rw [if_neg c2]
      by_cases c3 : cp.C21 ≤ idx ∧ idx < cp.C21 + 4
      · rw [if_pos c3]
        obtain ⟨e, he, rfl⟩ : ∃ e, e < 4 ∧ idx = cp.C21 + e :=
          ⟨idx - cp.C21, by omega, by omega⟩
        interval_cases e <;>
          simp (disch := omega) only [strassen_C_body, write_apply, if_neg, if_pos,
            Nat.add_sub_cancel_left, Nat.add_zero, if_true, Nat.sub_self]
      · rw [if_neg c3]
        by_cases c4 : cp.C22 ≤ idx ∧ idx < cp.C22 + 4
        · rw [if_pos c4]
          obtain ⟨e, he, rfl⟩ : ∃ e, e < 4 ∧ idx = cp.C22 + e :=
            ⟨idx - cp.C22, by omega, by omega⟩
          interval_cases e <;>
            simp (disch := omega) only [strassen_C_body, write_apply, if_neg, if_pos,
              Nat.add_sub_cancel_left, Nat.add_zero, if_true, Nat.sub_self]
        · rw [if_neg c4]
          simp (disch := omega) only [strassen_C_body, write_apply, if_neg]

theorem cval_zero [Add R] [Neg R] (M2 M5 T1 X : Buf R) (m2 m5 t1 p11 p12 p21 p22 idx : Nat) :
    cval M2 M5 T1 X m2 m5 t1 p11 p12 p21 p22 0 idx = X idx := by
  unfold cval
  simp (disch := omega) only [if_neg]

theorem cval_step [Add R] [Neg R] (M2 M5 T1 X : Buf R) (m2 m5 t1 p11 p12 p21 p22 a b : Nat)
    (h1 : p11 + (a + b) ≤ p12) (h2 : p12 + (a + b) ≤ p21) (h3 : p21 + (a + b) ≤ p22)
    (idx : Nat) :
    cval M2 M5 T1 (cval M2 M5 T1 X m2 m5 t1 p11 p12 p21 p22 a) (m2 + a) (m5 + a) (t1 + a)
      (p11 + a) (p12 + a) (p21 + a) (p22 + a) b idx =
    cval M2 M5 T1 X m2 m5 t1 p11 p12 p21 p22 (a + b) idx := by
  unfold cval
  by_cases c1 : p11 + a ≤ idx ∧ idx < p11 + a + b
  · have e1 : m2 + a + (idx - (p11 + a)) = m2 + (idx - p11) := by omega
    have e2 : m5 + a + (idx - (p11 + a)) = m5 + (idx - p11) := by omega
    have e3 : t1 + a + (idx - (p11 + a)) = t1 + (idx - p11) := by omega
    have e4 : p22 + a + (idx - (p11 + a)) = p22 + (idx - p11) := by omega
    simp (disch := omega) only [if_pos, if_neg, e1, e2, e3, e4]
  by_cases c2 : p12 + a ≤ idx ∧ idx < p12 + a + b
  · have e1 : m2 + a + (idx - (p12 + a)) = m2 + (idx - p12) := by omega
    have e2 : m5 + a + (idx - (p12 + a)) = m5 + (idx - p12) := by omega
    have e3 : t1 + a + (idx - (p12 + a)) = t1 + (idx - p12) := by omega
    have e4 : p22 + a + (idx - (p12 + a)) = p22 + (idx - p12) := by omega
    simp (disch := omega) only [if_pos, if_neg, e1, e2, e3, e4]
  by_cases c3 : p21 + a ≤ idx ∧ idx < p21 + a + b
  · have e1 : m2 + a + (idx - (p21 + a)) = m2 + (idx - p21) := by omega
    have e2 : m5 + a + (idx - (p21 + a)) = m5 + (idx - p21) := by omega
    have e3 : t1 + a + (idx - (p21 + a)) = t1 + (idx - p21) := by omega
    have e4 : p22 + a + (idx - (p21 + a)) = p22 + (idx - p21) := by omega
    simp (disch := omega) only [if_pos, if_neg, e1, e2, e3, e4]
  by_cases c4 : p22 + a ≤ idx ∧ idx < p22 + a + b
  · have e1 : m2 + a + (idx - (p22 + a)) = m2 + (idx - p22) := by omega
    have e2 : m5 + a + (idx - (p22 + a)) = m5 + (idx - p22) := by omega
    have e3 : t1 + a + (idx - (p22 + a)) = t1 + (idx - p22) := by omega
    have e4 : p22 + a + (idx - (p22 + a)) = p22 + (idx - p22) := by omega
    simp (disch := omega) only [if_pos, if_neg, e1, e2, e3, e4]
  simp (disch := omega) only [if_neg c1, if_neg c2, if_neg c3, if_neg c4]
  by_cases d1 : p11 ≤ idx ∧ idx < p11 + a
  · simp (disch := omega) only [if_pos, if_neg]
  by_cases d2 : p12 ≤ idx ∧ idx < p12 + a
  · simp (disch := omega) only [if_pos, if_neg]
  by_cases d3 : p21 ≤ idx ∧ idx < p21 + a
  · simp (disch := omega) only [if_pos, if_neg]
  by_cases d4 : p22 ≤ idx ∧ idx < p22 + a
  · simp (disch := omega) only [if_pos, if_neg]
  simp (disch := omega) only [if_neg]

/-- The `Column` loop of the combination pass handles one row of each quadrant. -/
theorem strassen_C_row_spec [Add R] [Neg R] (M2 M5 T1 : Buf R) (q : Nat) (cp : CPass R)
    (h1 : cp.C11 + 4 * q ≤ cp.C12) (h2 : cp.C12 + 4 * q ≤ cp.C21)
    (h3 : cp.C21 + 4 * q ≤ cp.C22) :
    let cp1 := forUpBy 0 (4 * q) 4 (fun _ (cp : CPass R) => strassen_C_body M2 M5 T1 cp) cp
    cp1.M5 = cp.M5 + 4 * q ∧ cp1.M2 = cp.M2 + 4 * q ∧ cp1.T1sMULT = cp.T1sMULT + 4 * q ∧
    cp1.C11 = cp.C11 + 4 * q ∧ cp1.C12 = cp.C12 + 4 * q ∧ cp1.C21 = cp.C21 + 4 * q ∧
    cp1.C22 = cp.C22 + 4 * q ∧
    ∀ idx, cp1.Cbuf idx =
      cval M2 M5 T1 cp.Cbuf cp.M2 cp.M5 cp.T1sMULT cp.C11 cp.C12 cp.C21 cp.C22 (4 * q) idx := by
  have key := forUpBy_induction (fun c (s : CPass R) =>
      s.M5 = cp.M5 + 4 * c ∧ s.M2 = cp.M2 + 4 * c ∧ s.T1sMULT = cp.T1sMULT + 4 * c ∧
      s.C11 = cp.C11 + 4 * c ∧ s.C12 = cp.C12 + 4 * c ∧ s.C21 = cp.C21 + 4 * c ∧
      s.C22 = cp.C22 + 4 * c ∧
      ∀ idx, s.Cbuf idx =
        cval M2 M5 T1 cp.Cbuf cp.M2 cp.M5 cp.T1sMULT cp.C11 cp.C12 cp.C21 cp.C22 (4 * c) idx)
    0 4 q (by decide) (fun _ (cp : CPass R) => strassen_C_body M2 M5 T1 cp) cp ?_ ?_
  · simpa [Nat.mul_comm] using key
  · refine ⟨rfl, rfl, rfl, rfl, rfl, rfl, rfl, fun idx => ?_⟩
    rw [Nat.mul_zero, cval_zero]
  · rintro c s hc ⟨g1, g2, g3, g4, g5, g6, g7, g8⟩
    refine ⟨?_, ?_, ?_, ?_, ?_, ?_, ?_, ?_⟩
    · show s.M5 + 4 = _
      omega
    · show s.M2 + 4 = _
      omega
    · show s.T1sMULT + 4 = _
      omega
    · show s.C11 + 4 = _
      omega
    · show s.C12 + 4 = _
      omega
    · show s.C21 + 4 = _
      omega
    · show s.C22 + 4 = _
      omega
    · intro idx
      rw [strassen_C_body_spec M2 M5 T1 s (by omega) (by omega) (by omega) idx]
      have e : s.Cbuf = cval M2 M5 T1 cp.Cbuf cp.M2 cp.M5 cp.T1sMULT cp.C11 cp.C12 cp.C21
          cp.C22 (4 * c) := funext g8
      rw [e, g1, g2, g3, g4, g5, g6, g7, show 4 * (c + 1) = 4 * c + 4 by ring]
      exact cval_step M2 M5 T1 cp.Cbuf cp.M2 cp.M5 cp.T1sMULT cp.C11 cp.C12 cp.C21 cp.C22
        (4 * c) 4 (by omega) (by omega) (by omega) idx

theorem mul_succ_le (i r rw : Nat) (h : i < r) : i * rw + rw ≤ r * rw := by
  have : (i + 1) * rw ≤ r * rw := Nat.mul_le_mul_right rw h
  rw [Nat.add_mul] at this
  omega

theorem cval_11 [Add R] [Neg R] (M2 M5 T1 X : Buf R) (m2 m5 t1 p11 p12 p21 p22 len e : Nat)
    (he : e < len) :
    cval M2 M5 T1 X m2 m5 t1 p11 p12 p21 p22 len (p11 + e) = X (p11 + e) + M2 (m2 + e) := by
  unfold cval
  rw [if_pos (by omega), Nat.add_sub_cancel_left]

theorem cval_12 [Add R] [Neg R] (M2 M5 T1 X : Buf R) (m2 m5 t1 p11 p12 p21 p22 len e : Nat)
    (he : e < len) (h1 : p11 + len ≤ p12) :
    cval M2 M5 T1 X m2 m5 t1 p11 p12 p21 p22 len (p12 + e) =
      X (p12 + e) + (M5 (m5 + e) + (T1 (t1 + e) + M2 (m2 + e))) := by
  unfold cval
  rw [if_neg (by omega), if_pos (by omega), Nat.add_sub_cancel_left]

theorem cval_21 [Add R] [Neg R] (M2 M5 T1 X : Buf R) (m2 m5 t1 p11 p12 p21 p22 len e : Nat)
    (he : e < len) (h1 : p11 + len ≤ p12) (h2 : p12 + len ≤ p21) :
    cval M2 M5 T1 X m2 m5 t1 p11 p12 p21 p22 len (p21 + e) =
      -(X (p21 + e)) + (X (p22 + e) + (T1 (t1 + e) + M2 (m2 + e))) := by
  unfold cval
  rw [if_neg (by omega), if_neg (by omega), if_pos (by omega), Nat.add_sub_cancel_left]

theorem cval_22 [Add R] [Neg R] (M2 M5 T1 X : Buf R) (m2 m5 t1 p11 p12 p21 p22 len e : Nat)
    (he : e < len) (h1 : p11 + len ≤ p12) (h2 : p12 + len ≤ p21) (h3 : p21 + len ≤ p22) :
    cval M2 M5 T1 X m2 m5 t1 p11 p12 p21 p22 len (p22 + e) =
      M5 (m5 + e) + (X (p22 + e) + (T1 (t1 + e) + M2 (m2 + e))) := by
  unfold cval
  rw [if_neg (by omega), if_neg (by omega), if_neg (by omega), if_pos (by omega),
    Nat.add_sub_cancel_left]

theorem cval_else [Add R] [Neg R] (M2 M5 T1 X : Buf R) (m2 m5 t1 p11 p12 p21 p22 len idx : Nat)
    (n1 : ¬ (p11 ≤ idx ∧ idx < p11 + len)) (n2 : ¬ (p12 ≤ idx ∧ idx < p12 + len))
    (n3 : ¬ (p21 ≤ idx ∧ idx < p21 + len)) (n4 : ¬ (p22 ≤ idx ∧ idx < p22 + len)) :
    cval M2 M5 T1 X m2 m5 t1 p11 p12 p21 p22 len idx = X idx := by
  unfold cval
  rw [if_neg n1, if_neg n2, if_neg n3, if_neg n4]

theorem CInv_row (X : Buf R) (C rwC Q r : Nat) (s : CPass R)
    (hrw : Q + Q ≤ rwC) (hr : r < Q)
    (g9 : ∀ idx, (∀ i j, i < r → j < Q → NotQuad C rwC Q i j idx) → s.Cbuf idx = X idx)
    (j : Nat) (hj : j < Q) :
    s.Cbuf (C + r * rwC + j) = X (C + r * rwC + j) ∧
    s.Cbuf (C + Q + r * rwC + j) = X (C + Q + r * rwC + j) ∧
    s.Cbuf (C + rwC * Q + r * rwC + j) = X (C + rwC * Q + r * rwC + j) ∧
    s.Cbuf (C + rwC * Q + Q + r * rwC + j) = X (C + rwC * Q + Q + r * rwC + j) := by
  have hQ : rwC * Q = Q * rwC := Nat.mul_comm _ _
  have F3 := mul_succ_le r Q rwC hr
  refine ⟨?_, ?_, ?_, ?_⟩ <;>
  · apply g9
    intro i1 j1 hi1 hj1
    have F1 := mul_succ_le i1 r rwC hi1
    unfold NotQuad
    omega

theorem CInv_cells_eq [Add R] [Neg R] (M2 M5 T1 X Y : Buf R) (C rwC Q r : Nat)
    (hrw : Q + Q ≤ rwC) (hr : r < Q) (j : Nat) (hj : j < Q)
    (r1 : Y (C + r * rwC + j) = X (C + r * rwC + j))
    (r2 : Y (C + Q + r * rwC + j) = X (C + Q + r * rwC + j))
    (r3 : Y (C + rwC * Q + r * rwC + j) = X (C + rwC * Q + r * rwC + j))
    (r4 : Y (C + rwC * Q + Q + r * rwC + j) = X (C + rwC * Q + Q + r * rwC + j)) :
    CQuad (cval M2 M5 T1 Y (r * Q) (r * Q) (r * Q) (C + r * rwC) (C + Q + r * rwC)
      (C + rwC * Q + r * rwC) (C + rwC * Q + Q + r * rwC) Q) X M2 M5 T1 C rwC Q r j := by
  have hQ : rwC * Q = Q * rwC := Nat.mul_comm _ _
  have F3 := mul_succ_le r Q rwC hr
  unfold CQuad
  refine ⟨?_, ?_, ?_, ?_⟩
  · rw [cval_11 _ _ _ _ _ _ _ _ _ _ _ _ j hj, r1]
  · rw [cval_12 _ _ _ _ _ _ _ _ _ _ _ _ j hj (by omega), r2]
  · rw [cval_21 _ _ _ _ _ _ _ _ _ _ _ _ j hj (by omega) (by omega), r3, r4]
  · rw [cval_22 _ _ _ _ _ _ _ _ _ _ _ _ j hj (by omega) (by omega) (by omega), r4]

theorem CInv_cells_lt [Add R] [Neg R] (M2 M5 T1 X Y : Buf R) (C rwC Q r i : Nat)
    (hrw : Q + Q ≤ rwC) (hr : r < Q) (hi : i < r) (j : Nat) (hj : j < Q)
    (h : CQuad Y X M2 M5 T1 C rwC Q i j) :
    CQuad (cval M2 M5 T1 Y (r * Q) (r * Q) (r * Q) (C + r * rwC) (C + Q + r * rwC)
      (C + rwC * Q + r * rwC) (C + rwC * Q + Q + r * rwC) Q) X M2 M5 T1 C rwC Q i j := by
  have hQ : rwC * Q = Q * rwC := Nat.mul_comm _ _
  have F3 := mul_succ_le r Q rwC hr
  have F1 := mul_succ_le i r rwC hi
  obtain ⟨q1, q2, q3, q4⟩ := h
  unfold CQuad
  refine ⟨?_, ?_, ?_, ?_⟩
  · rw [cval_else _ _ _ _ _ _ _ _ _ _ _ _ _ (by omega) (by omega) (by omega) (by omega), q1]
  · rw [cval_else _ _ _ _ _ _ _ _ _ _ _ _ _ (by omega) (by omega) (by omega) (by omega), q2]
  · rw [cval_else _ _ _ _ _ _ _ _ _ _ _ _ _ (by omega) (by omega) (by omega) (by omega), q3]
  · rw [cval_else _ _ _ _ _ _ _ _ _ _ _ _ _ (by omega) (by omega) (by omega) (by omega), q4]

theorem CInv_frame [Add R] [Neg R] (M2 M5 T1 Y : Buf R) (C rwC Q r idx : Nat)
    (hidx : ∀ j, j < Q → NotQuad C rwC Q r j idx) :
    cval M2 M5 T1 Y (r * Q) (r * Q) (r * Q) (C + r * rwC) (C + Q + r * rwC)
      (C + rwC * Q + r * rwC) (C + rwC * Q + Q + r * rwC) Q idx = Y idx := by
  apply cval_else
  · intro hc
    have := (hidx (idx - (C + r * rwC)) (by omega)).1
    omega
  · intro hc
    have := (hidx (idx - (C + Q + r * rwC)) (by omega)).2.1
    omega
  · intro hc
    have := (hidx (idx - (C + rwC * Q + r * rwC)) (by omega)).2.2.1
    omega
  · intro hc
    have := (hidx (idx - (C + rwC * Q + Q + r * rwC)) (by omega)).2.2.2
    omega

/-- One row of the combination pass keeps the invariant. -/
theorem CInv_step [Add R] [Neg R] (M2 M5 T1 X : Buf R) (C rwC q r : Nat)
    (hrw : 4 * q + 4 * q ≤ rwC) (hr : r < 4 * q) (s : CPass R)
    (h : CInv M2 M5 T1 X C rwC (4 * q) r s) :
    CInv M2 M5 T1 X C rwC (4 * q) (r + 1)
      (let cp := forUpBy 0 (4 * q) 4 (fun _ (cp : CPass R) => strassen_C_body M2 M5 T1 cp) s
      ({ cp with C11 := addBytes cp.C11 ((rwC - 4 * q) <<< 3),
                 C12 := addBytes cp.C12 ((rwC - 4 * q) <<< 3),
                 C21 := addBytes cp.C21 ((rwC - 4 * q) <<< 3),
                 C22 := addBytes cp.C22 ((rwC - 4 * q) <<< 3) } : CPass R)) := by
  obtain ⟨g1, g2, g3, g4, g5, g6, g7, g8, g9⟩ := h
  have hQ : rwC * (4 * q) = (4 * q) * rwC := Nat.mul_comm _ _
  have F3 := mul_succ_le r (4 * q) rwC hr
  obtain ⟨f1, f2, f3, f4, f5, f6, f7, f8⟩ := strassen_C_row_spec M2 M5 T1 q s
    (by omega) (by omega) (by omega)
  have e : (forUpBy 0 (4 * q) 4 (fun _ (cp : CPass R) => strassen_C_body M2 M5 T1 cp)
      s).Cbuf = cval M2 M5 T1 s.Cbuf (r * (4 * q)) (r * (4 * q)) (r * (4 * q)) (C + r * rwC)
        (C + 4 * q + r * rwC) (C + rwC * (4 * q) + r * rwC)
        (C + rwC * (4 * q) + 4 * q + r * rwC) (4 * q) := by
    funext idx
    rw [f8, g1, g2, g3, g4, g5, g6, g7]
  refine ⟨?_, ?_, ?_, ?_, ?_, ?_, ?_, ?_, ?_⟩
  · show _ = (r + 1) * (4 * q)
    rw [f1, g1, Nat.add_mul]; omega
  · show _ = (r + 1) * (4 * q)
    rw [f2, g2, Nat.add_mul]; omega
  · show _ = (r + 1) * (4 * q)
    rw [f3, g3, Nat.add_mul]; omega
  · show addBytes _ _ = _
    rw [addBytes_shl, f4, g4, Nat.add_mul]; omega
  · show addBytes _ _ = _
    rw [addBytes_shl, f5, g5, Nat.add_mul]; omega
  · show addBytes _ _ = _
    rw [addBytes_shl, f6, g6, Nat.add_mul]; omega
  · show addBytes _ _ = _
    rw [addBytes_shl, f7, g7, Nat.add_mul]; omega
  · intro i j hi hj
    show CQuad (forUpBy 0 (4 * q) 4 (fun _ (cp : CPass R) => strassen_C_body M2 M5 T1 cp)
      s).Cbuf X M2 M5 T1 C rwC (4 * q) i j
    rw [e]
    by_cases hir : i = r
    · subst hir
      obtain ⟨r1, r2, r3, r4⟩ := CInv_row X C rwC (4 * q) i s hrw hr g9 j hj
      exact CInv_cells_eq M2 M5 T1 X s.Cbuf C rwC (4 * q) i hrw hr j hj r1 r2 r3 r4
    · exact CInv_cells_lt M2 M5 T1 X s.Cbuf C rwC (4 * q) r i hrw hr (by omega) j hj
        (g8 i j (by omega) hj)
  · intro idx hidx
    show (forUpBy 0 (4 * q) 4 (fun _ (cp : CPass R) => strassen_C_body M2 M5 T1 cp)
      s).Cbuf idx = X idx
    rw [e, CInv_frame M2 M5 T1 s.Cbuf C rwC (4 * q) r idx
      (fun j hj => hidx r j (by omega) hj)]
    exact g9 idx (fun i j hi hj => hidx i j (by omega) hj)

/-- The combination pass of `OptimizedStrassenMultiply`. -/
theorem strassen_C_pass_spec [Add R] [Neg R] (M2 M5 T1 X : Buf R) (C rwC q : Nat)
    (hrw : 4 * q + 4 * q ≤ rwC) :
    (∀ i j, i < 4 * q → j < 4 * q →
      CQuad (strassen_C_pass M2 M5 T1 X C (C + 4 * q) (C + rwC * (4 * q))
        (C + rwC * (4 * q) + 4 * q) (4 * q) ((rwC - 4 * q) <<< 3)) X M2 M5 T1 C rwC (4 * q) i j) ∧
    (∀ idx, (∀ i j, i < 4 * q → j < 4 * q → NotQuad C rwC (4 * q) i j idx) →
      strassen_C_pass M2 M5 T1 X C (C + 4 * q) (C + rwC * (4 * q))
        (C + rwC * (4 * q) + 4 * q) (4 * q) ((rwC - 4 * q) <<< 3) idx = X idx) := by
  have key := forUp_induction (fun r (s : CPass R) => CInv M2 M5 T1 X C rwC (4 * q) r s)
    0 (4 * q)
    (fun _ (cp : CPass R) =>
      let cp := forUpBy 0 (4 * q) 4 (fun _ (cp : CPass R) => strassen_C_body M2 M5 T1 cp) cp
      ({ cp with C11 := addBytes cp.C11 ((rwC - 4 * q) <<< 3),
                 C12 := addBytes cp.C12 ((rwC - 4 * q) <<< 3),
                 C21 := addBytes cp.C21 ((rwC - 4 * q) <<< 3),
                 C22 := addBytes cp.C22 ((rwC - 4 * q) <<< 3) } : CPass R))
    ⟨X, 0, 0, 0, C, C + 4 * q, C + rwC * (4 * q), C + rwC * (4 * q) + 4 * q⟩
    (Nat.zero_le _) ?_ ?_
  · exact ⟨key.2.2.2.2.2.2.2.1, key.2.2.2.2.2.2.2.2⟩
  · refine ⟨by simp, by simp, by simp, by simp, by simp, by simp, by simp, ?_, ?_⟩
    · intro i j hi
      omega
    · intro idx _
      rfl
  · intro r s _ hr h
    exact CInv_step M2 M5 T1 X C rwC q r hrw hr s h

/-- The Winograd form of Strassen's identities, entry by entry: `a` and `b` are `2Q x 2Q`
matrices, the quadrants are `a11 = a`, `a12 i k = a i (k + Q)`, `a21 i k = a (i + Q) k`,
`a22 i k = a (i + Q) (k + Q)`, and `S1 .. S8` are formed as in the first pass. -/
theorem winograd [Ring R] (Q : Nat) (a b : Nat → Nat → R) (i j : Nat) :
    (mmul Q (fun i k => a i (k + Q)) (fun k j => b (k + Q) j) i j + mmul Q a b i j =
      mmul (Q + Q) a b i j) ∧
    (mmul Q (fun i k => a i (k + Q) - (a (i + Q) k + a (i + Q) (k + Q) - a i k))
        (fun k j => b (k + Q) (j + Q)) i j +
      (mmul Q (fun i k => a (i + Q) k + a (i + Q) (k + Q))
          (fun k j => b k (j + Q) - b k j) i j +
        (mmul Q (fun i k => a (i + Q) k + a (i + Q) (k + Q) - a i k)
            (fun k j => b (k + Q) (j + Q) - (b k (j + Q) - b k j)) i j +
          mmul Q a b i j)) =
      mmul (Q + Q) a b i (j + Q)) ∧
    (-(mmul Q (fun i k => a (i + Q) (k + Q))
        (fun k j => b (k + Q) (j + Q) - (b k (j + Q) - b k j) - b (k + Q) j) i j) +
      (mmul Q (fun i k => a i k - a (i + Q) k)
          (fun k j => b (k + Q) (j + Q) - b k (j + Q)) i j +
        (mmul Q (fun i k => a (i + Q) k + a (i + Q) (k + Q) - a i k)
            (fun k j => b (k + Q) (j + Q) - (b k (j + Q) - b k j)) i j +
          mmul Q a b i j)) =
      mmul (Q + Q) a b (i + Q) j) ∧
    (mmul Q (fun i k => a (i + Q) k + a (i + Q) (k + Q))
        (fun k j => b k (j + Q) - b k j) i j +
      (mmul Q (fun i k => a i k - a (i + Q) k)
          (fun k j => b (k + Q) (j + Q) - b k (j + Q)) i j +
        (mmul Q (fun i k => a (i + Q) k + a (i + Q) (k + Q) - a i k)
            (fun k j => b (k + Q) (j + Q) - (b k (j + Q) - b k j)) i j +
          mmul Q a b i j)) =
      mmul (Q + Q) a b (i + Q) (j + Q)) := by
  refine ⟨?_, ?_, ?_, ?_⟩ <;>
  · rw [mmul_split]
    unfold mmul
    simp only [← Finset.sum_add_distrib, ← Finset.sum_neg_distrib]
    refine Finset.sum_congr rfl (fun k _ => ?_)
    first | noncomm_ring | abel

/-- A product stored into a freshly allocated `Q x Q` scratch matrix. -/
theorem scratch_cell [AddCommMonoid R] {M J : Buf R} {Q : Nat} {P : Nat → Nat → R}
    (h : MulSpec false M J 0 Q Q P) (i j : Nat) (hi : i < Q) (hj : j < Q) :
    M (i * Q + j) = P i j := by
  have := h.1 i j hi hj
  simpa using this

theorem quad_idx (C rwC Q i j : Nat) :
    C + Q + i * rwC + j = C + i * rwC + (j + Q) ∧
    C + rwC * Q + i * rwC + j = C + (i + Q) * rwC + j ∧
    C + rwC * Q + Q + i * rwC + j = C + (i + Q) * rwC + (j + Q) := by
  rw [Nat.add_mul, Nat.mul_comm rwC Q]
  omega

/-- The content of the four quadrants of `C` before the combination pass. -/
theorem strassen_quadrants [AddCommMonoid R] (Q rwC C : Nat) (hrw : Q + Q ≤ rwC)
    (P22 P11 P12 P21 : Nat → Nat → R) (Cbuf X1 X2 X3 X4 : Buf R)
    (h1 : MulSpec false X1 Cbuf (C + rwC * Q + Q) rwC Q P22)
    (h2 : MulSpec false X2 X1 C rwC Q P11)
    (h3 : MulSpec false X3 X2 (C + Q) rwC Q P12)
    (h4 : MulSpec false X4 X3 (C + rwC * Q) rwC Q P21) (i j : Nat) (hi : i < Q) (hj : j < Q) :
    X4 (C + i * rwC + j) = P11 i j ∧ X4 (C + Q + i * rwC + j) = P12 i j ∧
    X4 (C + rwC * Q + i * rwC + j) = P21 i j ∧
    X4 (C + rwC * Q + Q + i * rwC + j) = P22 i j := by
  have c4 : C + rwC * Q = C + Q * rwC + 0 := by rw [Nat.mul_comm]; rfl
  have c3 : C + Q = C + 0 * rwC + Q := by simp
  have c2 : C = C + 0 * rwC + 0 := by simp
  obtain ⟨e12, e21, e22⟩ := quad_idx C rwC Q i j
  refine ⟨?_, ?_, ?_, ?_⟩
  · rw [h4.outside C Q 0 c4 (by omega) i j (by omega) (by omega),
      h3.outside C 0 Q c3 (by omega) i j (by omega) (by omega)]
    simpa using h2.1 i j hi hj
  · rw [e12, h4.outside C Q 0 c4 (by omega) i (j + Q) (by omega) (by omega), ← e12]
    simpa using h3.1 i j hi hj
  · simpa using h4.1 i j hi hj
  · rw [e22, h4.outside C Q 0 c4 (by omega) (i + Q) (j + Q) (by omega) (by omega),
      h3.outside C 0 Q c3 (by omega) (i + Q) (j + Q) (by omega) (by omega),
      h2.outside C 0 0 c2 (by omega) (i + Q) (j + Q) (by omega) (by omega), ← e22]
    simpa using h1.1 i j hi hj

/-- The four quadrant products leave the rest of the buffer of `C` alone. -/
theorem strassen_quadrants_frame [AddCommMonoid R] (Q rwC C : Nat)
    (P22 P11 P12 P21 : Nat → Nat → R) (Cbuf X1 X2 X3 X4 : Buf R)
    (h1 : MulSpec false X1 Cbuf (C + rwC * Q + Q) rwC Q P22)
    (h2 : MulSpec false X2 X1 C rwC Q P11)
    (h3 : MulSpec false X3 X2 (C + Q) rwC Q P12)
    (h4 : MulSpec false X4 X3 (C + rwC * Q) rwC Q P21) (idx : Nat)
    (hidx : ∀ i j, i < Q + Q → j < Q + Q → idx ≠ C + i * rwC + j) : X4 idx = Cbuf idx := by
  have c4 : C + rwC * Q = C + Q * rwC + 0 := by rw [Nat.mul_comm]; rfl
  have c3 : C + Q = C + 0 * rwC + Q := by simp
  have c2 : C = C + 0 * rwC + 0 := by simp
  have c1 : C + rwC * Q + Q = C + Q * rwC + Q := by rw [Nat.mul_comm]
  rw [h4.frame C Q 0 (Q + Q) c4 (by omega) (by omega) idx hidx,
    h3.frame C 0 Q (Q + Q) c3 (by omega) (by omega) idx hidx,
    h2.frame C 0 0 (Q + Q) c2 (by omega) (by omega) idx hidx,
    h1.frame C Q Q (Q + Q) c1 (by omega) (by omega) idx hidx]

/-- The combination pass applied to the seven products gives the product of the
`2Q x 2Q` matrices (`Q = 4 * q`). -/
theorem strassen_combine [Ring R] (q rwC C : Nat) (hrw : 4 * q + 4 * q ≤ rwC)
    (a b P2 P5 PT P22 P11 P12 P21 : Nat → Nat → R)
    (e2 : ∀ i j, i < 4 * q → j < 4 * q → P2 i j = mmul (4 * q) a b i j)
    (e5 : ∀ i j, i < 4 * q → j < 4 * q → P5 i j =
      mmul (4 * q) (fun i k => a (i + 4 * q) k + a (i + 4 * q) (k + 4 * q))
        (fun k j => b k (j + 4 * q) - b k j) i j)
    (eT : ∀ i j, i < 4 * q → j < 4 * q → PT i j =
      mmul (4 * q) (fun i k => a (i + 4 * q) k + a (i + 4 * q) (k + 4 * q) - a i k)
        (fun k j => b (k + 4 * q) (j + 4 * q) - (b k (j + 4 * q) - b k j)) i j)
    (e22 : ∀ i j, i < 4 * q → j < 4 * q → P22 i j =
      mmul (4 * q) (fun i k => a i k - a (i + 4 * q) k)
        (fun k j => b (k + 4 * q) (j + 4 * q) - b k (j + 4 * q)) i j)
    (e11 : ∀ i j, i < 4 * q → j < 4 * q → P11 i j =
      mmul (4 * q) (fun i k => a i (k + 4 * q)) (fun k j => b (k + 4 * q) j) i j)
    (e12 : ∀ i j, i < 4 * q → j < 4 * q → P12 i j =
      mmul (4 * q)
        (fun i k => a i (k + 4 * q) - (a (i + 4 * q) k + a (i + 4 * q) (k + 4 * q) - a i k))
        (fun k j => b (k + 4 * q) (j + 4 * q)) i j)
    (e21 : ∀ i j, i < 4 * q → j < 4 * q → P21 i j =
      mmul (4 * q) (fun i k => a (i + 4 * q) (k + 4 * q))
        (fun k j => b (k + 4 * q) (j + 4 * q) - (b k (j + 4 * q) - b k j) - b (k + 4 * q) j)
        i j)
    (J2 J5 JT M2 M5 T1 Cbuf X1 X2 X3 X4 : Buf R)
    (hM2 : MulSpec false M2 J2 0 (4 * q) (4 * q) P2)
    (hM5 : MulSpec false M5 J5 0 (4 * q) (4 * q) P5)
    (hT1 : MulSpec false T1 JT 0 (4 * q) (4 * q) PT)
    (h1 : MulSpec false X1 Cbuf (C + rwC * (4 * q) + 4 * q) rwC (4 * q) P22)
    (h2 : MulSpec false X2 X1 C rwC (4 * q) P11)
    (h3 : MulSpec false X3 X2 (C + 4 * q) rwC (4 * q) P12)
    (h4 : MulSpec false X4 X3 (C + rwC * (4 * q)) rwC (4 * q) P21) :
    MulSpec false
      (strassen_C_pass M2 M5 T1 X4 C (C + 4 * q) (C + rwC * (4 * q))
        (C + rwC * (4 * q) + 4 * q) (4 * q) ((rwC - 4 * q) <<< 3))
      Cbuf C rwC (4 * q + 4 * q) (mmul (4 * q + 4 * q) a b) := by
  obtain ⟨hc, hf⟩ := strassen_C_pass_spec M2 M5 T1 X4 C rwC q hrw
  refine ⟨fun I J hI hJ => ?_, fun idx hidx => ?_⟩
  · obtain ⟨i, hi, hI2⟩ : ∃ i, i < 4 * q ∧ (I = i ∨ I = i + 4 * q) := by
      rcases Nat.lt_or_ge I (4 * q) with h | h
      · exact ⟨I, h, Or.inl rfl⟩
      · exact ⟨I - 4 * q, by omega, Or.inr (by omega)⟩
    obtain ⟨j, hj, hJ2⟩ : ∃ j, j < 4 * q ∧ (J = j ∨ J = j + 4 * q) := by
      rcases Nat.lt_or_ge J (4 * q) with h | h
      · exact ⟨J, h, Or.inl rfl⟩
      · exact ⟨J - 4 * q, by omega, Or.inr (by omega)⟩
    obtain ⟨x11, x12, x21, x22⟩ :=
      strassen_quadrants (4 * q) rwC C hrw P22 P11 P12 P21 Cbuf X1 X2 X3 X4 h1 h2 h3 h4 i j hi hj
    obtain ⟨g11, g12, g21, g22⟩ := hc i j hi hj
    obtain ⟨i12, i21, i22⟩ := quad_idx C rwC (4 * q) i j
    obtain ⟨w11, w12, w21, w22⟩ := winograd (4 * q) a b i j
    have m2 := scratch_cell hM2 i j hi hj
    have m5 := scratch_cell hM5 i j hi hj
    have t1 := scratch_cell hT1 i j hi hj
    rw [x11, m2, e11 i j hi hj, e2 i j hi hj, w11] at g11
    rw [x12, m2, m5, t1, e12 i j hi hj, e2 i j hi hj, e5 i j hi hj, eT i j hi hj, w12, i12]
      at g12
    rw [x21, x22, m2, t1, e21 i j hi hj, e22 i j hi hj, e2 i j hi hj, eT i j hi hj, w21, i21]
      at g21
    rw [x22, m2, m5, t1, e22 i j hi hj, e2 i j hi hj, e5 i j hi hj, eT i j hi hj, w22, i22]
      at g22
    rcases hI2 with rfl | rfl <;> rcases hJ2 with rfl | rfl <;> simp [*]
  · rw [hf idx, strassen_quadrants_frame (4 * q) rwC C P22 P11 P12 P21 Cbuf X1 X2 X3 X4
      h1 h2 h3 h4 idx hidx]
    intro i j hi hj
    obtain ⟨i12, i21, i22⟩ := quad_idx C rwC (4 * q) i j
    refine ⟨hidx i j (by omega) (by omega), ?_, ?_, ?_⟩
    · rw [i12]; exact hidx i (j + 4 * q) (by omega) (by omega)
    · rw [i21]; exact hidx (i + 4 * q) j (by omega) (by omega)
    · rw [i22]; exact hidx (i + 4 * q) (j + 4 * q) (by omega) (by omega)

theorem view_off (X : Buf R) (p rw i k : Nat) : X (p + (i * rw + k)) = view X p rw i k := by
  unfold view
  rw [Nat.add_assoc]

/-- The scratch matrices `S1` .. `S8` as matrices, in terms of the quadrants of `A` and
`B`. -/
theorem strassen_S_views [Add R] [Sub R] (junk A B : Buf R) (Ap Bp Q rwA rwB : Nat)
    (hA : Q ≤ rwA) (hB : Q ≤ rwB) (sp : SPass R)
    (hsp : sp = strassen_S_pass junk A B Ap (Ap + Q) (Ap + rwA * Q) (Ap + rwA * Q + Q)
      Bp (Bp + Q) (Bp + rwB * Q) (Bp + rwB * Q + Q) Q ((rwA - Q) <<< 3) ((rwB - Q) <<< 3))
    (i k : Nat) (hi : i < Q) (hk : k < Q) :
    view sp.S1 0 Q i k = view A Ap rwA (i + Q) k + view A Ap rwA (i + Q) (k + Q) ∧
    view sp.S2 0 Q i k =
      view A Ap rwA (i + Q) k + view A Ap rwA (i + Q) (k + Q) - view A Ap rwA i k ∧
    view sp.S3 0 Q i k = view A Ap rwA i k - view A Ap rwA (i + Q) k ∧
    view sp.S4 0 Q i k = view A Ap rwA i (k + Q) -
      (view A Ap rwA (i + Q) k + view A Ap rwA (i + Q) (k + Q) - view A Ap rwA i k) ∧
    view sp.S5 0 Q i k = view B Bp rwB i (k + Q) - view B Bp rwB i k ∧
    view sp.S6 0 Q i k = view B Bp rwB (i + Q) (k + Q) -
      (view B Bp rwB i (k + Q) - view B Bp rwB i k) ∧
    view sp.S7 0 Q i k = view B Bp rwB (i + Q) (k + Q) - view B Bp rwB i (k + Q) ∧
    view sp.S8 0 Q i k = view B Bp rwB (i + Q) (k + Q) -
      (view B Bp rwB i (k + Q) - view B Bp rwB i k) - view B Bp rwB (i + Q) k := by
  have key := fun n h1 h8 => strassen_S_pass_spec junk A B Ap (Ap + Q) (Ap + rwA * Q)
    (Ap + rwA * Q + Q) Bp (Bp + Q) (Bp + rwB * Q) (Bp + rwB * Q + Q) Q rwA rwB hA hB n h1 h8
    i k hi hk
  rw [← hsp] at key
  have k1 := key 1 (by decide) (by decide)
  have k2 := key 2 (by decide) (by decide)
  have k3 := key 3 (by decide) (by decide)
  have k4 := key 4 (by decide) (by decide)
  have k5 := key 5 (by decide) (by decide)
  have k6 := key 6 (by decide) (by decide)
  have k7 := key 7 (by decide) (by decide)
  have k8 := key 8 (by decide) (by decide)
  simp only [SPass.get, sval, view_off, if_true, OfNat.ofNat_ne_one, if_false,
    Nat.reduceEqDiff, Nat.succ_ne_self, reduceIte] at k1 k2 k3 k4 k5 k6 k7 k8
  simp only [view_diag] at k1 k2 k3 k4 k5 k6 k7 k8
  simp only [view_down] at k1 k2 k3 k4 k5 k6 k7 k8
  simp only [view_right] at k1 k2 k3 k4 k5 k6 k7 k8
  have e : ∀ X : Buf R, view X 0 Q i k = X (i * Q + k) := by
    intro X
    unfold view
    rw [Nat.zero_add]
  simp only [e]
  exact ⟨k1, k2, k3, k4, k5, k6, k7, k8⟩

/-- The alignment step of `OptimizedStrassenMultiply`, `Heap = Heap + 32 - (Heap & 31)` when
`Heap & 31` is not zero, moves `Heap` up by at most 31 bytes. -/
theorem heap_align (p : Nat) :
    p ≤ (if p &&& 31 ≠ 0 then p + 32 - (p &&& 31) else p) ∧
    (if p &&& 31 ≠ 0 then p + 32 - (p &&& 31) else p) ≤ p + 31 := by
  have e : p &&& 31 = p % 32 := Nat.and_pow_two_sub_one_eq_mod p 5
  rw [e]
  split_ifs <;> omega

/-- Up to `MatrixSize = 8192` the block requested from `malloc` holds the eleven scratch
matrices, at whatever address `p` it lies. -/
theorem heap_fits (n p : Nat) (h : n ≤ 8192) : ¬ (p + heap_size n < heap_used_end p n) := by
  have hq : n >>> 1 ≤ 4096 := by
    rw [Nat.shiftRight_eq_div_pow]
    omega
  have ha := (heap_align p).2
  unfold heap_used_end heap_size QuadrantSizeInBytes NumberOfVariables
  simp only []
  generalize n >>> 1 = Q at hq
  have hQQ : Q * Q ≤ 4096 * 4096 := Nat.mul_le_mul hq hq
  rw [Nat.mul_assoc 8 Q Q]
  generalize Q * Q = x at hQQ
  omega

/-- Where the scratch matrices lie when the block is large enough: the aligned start `Heap` is
inside the block, each of the eleven matrices (`QuadrantSize * QuadrantSize` values of 8
bytes, the `k`-th starting `k * QuadrantSizeInBytes` after `Heap`) ends inside the block, and
each ends before the next one starts. -/
theorem heap_layout (n p : Nat) (h : ¬ (p + heap_size n < heap_used_end p n)) :
    p ≤ (if p &&& 31 ≠ 0 then p + 32 - (p &&& 31) else p) ∧
    ∀ k, k < 11 →
      (if p &&& 31 ≠ 0 then p + 32 - (p &&& 31) else p) + k * QuadrantSizeInBytes n +
          8 * (n >>> 1) * (n >>> 1) ≤ p + heap_size n ∧
      k * QuadrantSizeInBytes n + 8 * (n >>> 1) * (n >>> 1) ≤ (k + 1) * QuadrantSizeInBytes n := by
  have ha := (heap_align p).1
  refine ⟨ha, fun k hk => ?_⟩
  have hs : heap_size n ≤ QuadrantSizeInBytes n * 11 := by
    unfold heap_size NumberOfVariables
    exact Nat.mod_le _ _
  unfold heap_used_end at h
  simp only [] at h
  generalize (if p &&& 31 ≠ 0 then p + 32 - (p &&& 31) else p) = H at h ha ⊢
  generalize 8 * (n >>> 1) * (n >>> 1) = w at h ⊢
  generalize QuadrantSizeInBytes n = x at h hs ⊢
  generalize heap_size n = y at h hs ⊢
  have e1 : (k + 1) * x = k * x + x := by ring
  have hkx : k * x ≤ 10 * x := Nat.mul_le_mul_right x (by omega)
  generalize k * x = z at e1 hkx ⊢
  omega

/-- One level of Strassen's recursion: if `OptimizedStrassenMultiply` returns the product on
the size `4 * q`, it returns the product on the size `4 * q + 4 * q`, for
`64 < 4 * q + 4 * q ≤ 8192`. -/
theorem OptimizedStrassenMultiply_step [CommRing R] (malloc : Nat → Nat) (q : Nat)
    (hq : 64 < 4 * q + 4 * q) (hfit : 4 * q + 4 * q ≤ 8192)
    (ih : ∀ (junk Cbuf : Buf R) (C : Nat) (A : Buf R) (Ap : Nat) (B : Buf R) (Bp : Nat)
      (rwC rwA rwB : Nat), 4 * q ≤ rwC → 4 * q ≤ rwA → 4 * q ≤ rwB →
      ∃ res, OptimizedStrassenMultiply malloc junk Cbuf C A Ap B Bp (4 * q) rwC rwA rwB =
          some res ∧
        MulSpec false res Cbuf C rwC (4 * q) (mmul (4 * q) (view A Ap rwA) (view B Bp rwB)))
    (junk Cbuf : Buf R) (C : Nat) (A : Buf R) (Ap : Nat) (B : Buf R) (Bp : Nat)
    (rwC rwA rwB : Nat) (hC : 4 * q + 4 * q ≤ rwC) (hA : 4 * q + 4 * q ≤ rwA)
    (hB : 4 * q + 4 * q ≤ rwB) :
    ∃ res, OptimizedStrassenMultiply malloc junk Cbuf C A Ap B Bp (4 * q + 4 * q) rwC rwA rwB =
        some res ∧
      MulSpec false res Cbuf C rwC (4 * q + 4 * q)
        (mmul (4 * q + 4 * q) (view A Ap rwA) (view B Bp rwB)) := by
  have eQ : (4 * q + 4 * q) >>> 1 = 4 * q := by
    rw [Nat.shiftRight_eq_div_pow]
    omega
  obtain ⟨sp, hsp⟩ : ∃ sp : SPass R, sp = strassen_S_pass junk A B Ap (Ap + 4 * q)
    (Ap + rwA * (4 * q)) (Ap + rwA * (4 * q) + 4 * q) Bp (Bp + 4 * q) (Bp + rwB * (4 * q))
    (Bp + rwB * (4 * q) + 4 * q) (4 * q) ((rwA - 4 * q) <<< 3) ((rwB - 4 * q) <<< 3) :=
    ⟨_, rfl⟩
  have sv := strassen_S_views junk A B Ap Bp (4 * q) rwA rwB (by omega) (by omega) sp hsp
  obtain ⟨M2, eM2, hM2⟩ := ih junk junk 0 A Ap B Bp (4 * q) rwA rwB (le_refl _) (by omega)
    (by omega)
  obtain ⟨M5, eM5, hM5⟩ := ih junk junk 0 sp.S1 0 sp.S5 0 (4 * q) (4 * q) (4 * q) (le_refl _)
    (le_refl _) (le_refl _)
  obtain ⟨T1, eT1, hT1⟩ := ih junk junk 0 sp.S2 0 sp.S6 0 (4 * q) (4 * q) (4 * q) (le_refl _)
    (le_refl _) (le_refl _)
  obtain ⟨X1, e1, h1⟩ := ih junk Cbuf (C + rwC * (4 * q) + 4 * q) sp.S3 0 sp.S7 0 rwC (4 * q)
    (4 * q) (by omega) (le_refl _) (le_refl _)
  obtain ⟨X2, e2, h2⟩ := ih junk X1 C A (Ap + 4 * q) B (Bp + rwB * (4 * q)) rwC rwA rwB
    (by omega) (by omega) (by omega)
  obtain ⟨X3, e3, h3⟩ := ih junk X2 (C + 4 * q) sp.S4 0 B (Bp + rwB * (4 * q) + 4 * q) rwC
    (4 * q) rwB (by omega) (le_refl _) (by omega)
  obtain ⟨X4, e4, h4⟩ := ih junk X3 (C + rwC * (4 * q)) A (Ap + rwA * (4 * q) + 4 * q) sp.S8 0
    rwC rwA (4 * q) (by omega) (by omega) (le_refl _)
  refine ⟨strassen_C_pass M2 M5 T1 X4 C (C + 4 * q) (C + rwC * (4 * q))
    (C + rwC * (4 * q) + 4 * q) (4 * q) ((rwC - 4 * q) <<< 3), ?_, ?_⟩
  · rw [OptimizedStrassenMultiply]
    simp only [eQ, SizeAtWhichDivideAndConquerIsMoreEfficient]
    rw [if_neg (by omega), if_neg (heap_fits _ _ hfit), ← hsp, eM2, Option.some_bind, eM5,
      Option.some_bind, eT1, Option.some_bind, e1, Option.some_bind, e2, Option.some_bind, e3,
      Option.some_bind, e4, Option.some_bind]
  · refine strassen_combine q rwC C hC (view A Ap rwA) (view B Bp rwB) _ _ _ _ _ _ _
      ?_ ?_ ?_ ?_ ?_ ?_ ?_ junk junk junk _ _ _ Cbuf _ _ _ _ hM2 hM5 hT1 h1 h2 h3 h4
    · intro i j _ _
      rfl
    · intro i j hi hj
      exact mmul_eq _ _ _ _ _ i j i j (fun k hk => (sv i k hi hk).1)
        (fun k hk => (sv k j hk hj).2.2.2.2.1)
    · intro i j hi hj
      exact mmul_eq _ _ _ _ _ i j i j (fun k hk => (sv i k hi hk).2.1)
        (fun k hk => (sv k j hk hj).2.2.2.2.2.1)
    · intro i j hi hj
      exact mmul_eq _ _ _ _ _ i j i j (fun k hk => (sv i k hi hk).2.2.1)
        (fun k hk => (sv k j hk hj).2.2.2.2.2.2.1)
    · intro i j hi hj
      exact mmul_eq _ _ _ _ _ i j i j (fun k _ => view_right A Ap rwA _ i k)
        (fun k _ => view_down B Bp rwB _ k j)
    · intro i j hi hj
      exact mmul_eq _ _ _ _ _ i j i j (fun k hk => (sv i k hi hk).2.2.2.1)
        (fun k _ => view_diag B Bp rwB _ k j)
    · intro i j hi hj
      exact mmul_eq _ _ _ _ _ i j i j (fun k _ => view_diag A Ap rwA _ i k)
        (fun k hk => (sv k j hk hj).2.2.2.2.2.2.2)

/-- `OptimizedStrassenMultiply` on a size `n = 16 * 2^t ≤ 8192` with all row widths at least
`n` returns: it stores `A x B` into the `n x n` view of `C` and writes nothing else. -/
theorem OptimizedStrassenMultiply_spec [CommRing R] (malloc : Nat → Nat) (t : Nat) :
    16 * 2 ^ t ≤ 8192 →
    ∀ (junk Cbuf : Buf R) (C : Nat) (A : Buf R) (Ap : Nat) (B : Buf R) (Bp : Nat)
      (rwC rwA rwB : Nat), 16 * 2 ^ t ≤ rwC → 16 * 2 ^ t ≤ rwA → 16 * 2 ^ t ≤ rwB →
      ∃ res, OptimizedStrassenMultiply malloc junk Cbuf C A Ap B Bp (16 * 2 ^ t) rwC rwA rwB =
          some res ∧
        MulSpec false res Cbuf C rwC (16 * 2 ^ t)
          (mmul (16 * 2 ^ t) (view A Ap rwA) (view B Bp rwB)) := by
  induction t with
  | zero =>
    intro _ junk Cbuf C A Ap B Bp rwC rwA rwB hC _ _
    refine ⟨_, ?_, MultiplyByDivideAndConquer_spec 0 false Cbuf C A Ap B Bp rwC rwA rwB hC⟩
    rw [OptimizedStrassenMultiply]
    simp only [SizeAtWhichDivideAndConquerIsMoreEfficient]
    rw [if_pos (by decide)]
  | succ t ih =>
    intro hfit junk Cbuf C A Ap B Bp rwC rwA rwB hC hA hB
    by_cases h : 16 * 2 ^ (t + 1) ≤ 64
    · refine ⟨_, ?_,
        MultiplyByDivideAndConquer_spec (t + 1) false Cbuf C A Ap B Bp rwC rwA rwB hC⟩
      rw [OptimizedStrassenMultiply]
      simp only [SizeAtWhichDivideAndConquerIsMoreEfficient]
      rw [if_pos h]
    · have e : 16 * 2 ^ (t + 1) = 4 * (4 * 2 ^ t) + 4 * (4 * 2 ^ t) := by
        rw [pow_succ]
        omega
      have e1 : 16 * 2 ^ t = 4 * (4 * 2 ^ t) := by omega
      have ih1 := ih (by omega)
      rw [e] at h hC hA hB hfit ⊢
      rw [e1] at ih1
      exact OptimizedStrassenMultiply_step malloc (4 * 2 ^ t) (by omega) hfit ih1 junk Cbuf C A
        Ap B Bp rwC rwA rwB hC hA hB

theorem sum_loop [AddCommMonoid R] (n : Nat) (f : Nat → R) :
    forUp 0 n (fun k (s : R) => s + f k) (0 : R) = ∑ k in Finset.range n, f k := by
  refine forUp_induction (fun r (s : R) => s = ∑ k in Finset.range r, f k) 0 n _ 0
    (Nat.zero_le _) (by simp) ?_
  intro i s _ _ hs
  rw [Finset.sum_range_succ, hs]

theorem pow_two_ge_16 (n t : Nat) (hn : n = 2 ^ t) (h16 : 16 ≤ n) :
    ∃ s, n = 16 * 2 ^ s := by
  have ht : 4 ≤ t := by
    by_contra h
    have h3 : t ≤ 3 := by omega
    have : 2 ^ t ≤ 2 ^ 3 := Nat.pow_le_pow_right (by decide) h3
    omega
  refine ⟨t - 4, ?_⟩
  rw [hn, show (16 : Nat) = 2 ^ 4 by decide, ← pow_add]
  congr 1
  omega

theorem mmul_view [CommRing R] (n : Nat) (A : Buf R) (Ap rwA : Nat) (B : Buf R)
    (Bp rwB i j : Nat) :
    mmul n (view A Ap rwA) (view B Bp rwB) i j =
      ∑ k in Finset.range n, ELEM A Ap rwA i k * ELEM B Bp rwB k j := by
  unfold mmul view ELEM
  refine Finset.sum_congr rfl (fun k _ => ?_)
  rw [Nat.add_assoc, Nat.add_assoc]

/-- For `n` a power of two with `16 ≤ n ≤ 8192` and row widths at least `n`,
`OptimizedStrassenMultiply` returns, with `A x B` in the `n x n` view of `C` and the rest of
the buffer of `C` as it was. -/
theorem OptimizedStrassenMultiply_some [CommRing R] (n t : Nat) (hn : n = 2 ^ t)
    (h16 : 16 ≤ n) (hfit : n ≤ 8192) (malloc : Nat → Nat) (junk Cbuf A B : Buf R)
    (C Ap Bp rwC rwA rwB : Nat) (hC : n ≤ rwC) (hA : n ≤ rwA) (hB : n ≤ rwB) :
    ∃ res, OptimizedStrassenMultiply malloc junk Cbuf C A Ap B Bp n rwC rwA rwB = some res ∧
      (∀ i j, i < n → j < n → res (C + (i * rwC + j)) =
        ∑ k in Finset.range n, ELEM A Ap rwA i k * ELEM B Bp rwB k j) ∧
      (∀ idx, (∀ i j, i < n → j < n → idx ≠ C + (i * rwC + j)) → res idx = Cbuf idx) := by
  obtain ⟨s, rfl⟩ := pow_two_ge_16 n t hn h16
  obtain ⟨res, e, h⟩ :=
    OptimizedStrassenMultiply_spec malloc s hfit junk Cbuf C A Ap B Bp rwC rwA rwB hC hA hB
  refine ⟨res, e, fun i j hi hj => ?_, fun idx hidx => ?_⟩
  · have g := h.1 i j hi hj
    rw [Nat.add_assoc] at g
    rw [g, mmul_view]
    simp
  · refine h.2 idx (fun i j hi hj => ?_)
    rw [Nat.add_assoc]
    exact hidx i j hi hj

/-- C10: with `n = 16`, all row widths 16 and `A = B =` the 16 x 16 identity matrix,
`OptimizedStrassenMultiply` returns and leaves the 16 x 16 identity matrix in `C`, whatever
`C` held before. -/
theorem OptimizedStrassenMultiply_identity_16 [CommRing R] (malloc : Nat → Nat)
    (junk Cbuf A B : Buf R) (C Ap Bp : Nat)
    (hA : ∀ i j, i < 16 → j < 16 → ELEM A Ap 16 i j = if i = j then 1 else 0)
    (hB : ∀ i j, i < 16 → j < 16 → ELEM B Bp 16 i j = if i = j then 1 else 0) :
    ∃ res, OptimizedStrassenMultiply malloc junk Cbuf C A Ap B Bp 16 16 16 16 = some res ∧
      ∀ i j, i < 16 → j < 16 → res (C + (i * 16 + j)) = if i = j then 1 else 0 := by
  obtain ⟨res, e, h, _⟩ := OptimizedStrassenMultiply_some 16 4 (by decide) (by decide)
    (by decide) malloc junk Cbuf A B C Ap Bp 16 16 16 (by decide) (by decide) (by decide)
  refine ⟨res, e, fun i j hi hj => ?_⟩
  rw [h i j hi hj]
  have e : ∀ k ∈ Finset.range 16, ELEM A Ap 16 i k * ELEM B Bp 16 k j =
      if k = i then (if i = j then (1 : R) else 0) else 0 := by
    intro k hk
    rw [hA i k hi (Finset.mem_range.1 hk), hB k j (Finset.mem_range.1 hk) hj]
    by_cases e1 : i = k
    · subst e1
      simp
    · rw [if_neg e1, zero_mul, if_neg (fun h => e1 h.symm)]
  rw [Finset.sum_congr rfl e, Finset.sum_ite_eq', if_pos (Finset.mem_range.2 hi)]

/-- Witness of `OptimizedStrassenMultiply_identity_16`: integer identity matrices stored from
index 0. -/
theorem OptimizedStrassenMultiply_identity_16_witness :
    ∃ res, OptimizedStrassenMultiply (fun _ => 4096) (fun _ => (0 : Int)) (fun _ => 7) 0
        (fun idx => if idx / 16 = idx % 16 then 1 else 0) 0
        (fun idx => if idx / 16 = idx % 16 then 1 else 0) 0 16 16 16 16 = some res ∧
      ∀ i j, i < 16 → j < 16 → res (0 + (i * 16 + j)) = if i = j then 1 else 0 :=
  OptimizedStrassenMultiply_identity_16 _ _ _ _ _ 0 0 0
    (fun i j hi hj => by
      have e1 : (0 + (i * 16 + j)) / 16 = i := by omega
      have e2 : (0 + (i * 16 + j)) % 16 = j := by omega
      simp only [ELEM, e1, e2])
    (fun i j hi hj => by
      have e1 : (0 + (i * 16 + j)) / 16 = i := by omega
      have e2 : (0 + (i * 16 + j)) % 16 = j := by omega
      simp only [ELEM, e1, e2])

theorem and_pred_eq_zero (n : Nat) (hn : 0 < n) : n &&& (n - 1) = 0 ↔ ∃ k, n = 2 ^ k := by
  induction n using Nat.strong_induction_on with
  | _ n ih =>
    have hx : n &&& (n - 1) = 0 ↔ (n &&& (n - 1)) / 2 = 0 ∧ (n &&& (n - 1)) % 2 = 0 := by
      omega
    have h2 : (n &&& (n - 1)) % 2 = 0 := by
      have := @Nat.and_mod_two_eq_one n (n - 1)
      by_contra hc
      have h1 : (n &&& (n - 1)) % 2 = 1 := by omega
      have := this.1 h1
      omega
    rw [hx, Nat.and_div_two]
    rcases Nat.even_or_odd' n with ⟨m, rfl | rfl⟩
    · have hm : 0 < m := by omega
      rw [show 2 * m / 2 = m by omega, show (2 * m - 1) / 2 = m - 1 by omega]
      constructor
      · intro h
        obtain ⟨k, hk⟩ := (ih m (by omega) hm).1 h.1
        exact ⟨k + 1, by rw [pow_succ, hk]; ring⟩
      · rintro ⟨k, hk⟩
        refine ⟨(ih m (by omega) hm).2 ?_, h2⟩
        cases k with
        | zero => omega
        | succ k => exact ⟨k, by rw [pow_succ] at hk; omega⟩
    · rw [show (2 * m + 1) / 2 = m by omega, show (2 * m + 1 - 1) / 2 = m by omega,
        Nat.and_self]
      constructor
      · intro h
        exact ⟨0, by rw [h.1]; rfl⟩
      · rintro ⟨k, hk⟩
        refine ⟨?_, h2⟩
        cases k with
        | zero => simpa using hk
        | succ k => rw [pow_succ] at hk; omega

theorem land_zero_pred : Int.land 0 (0 - 1) = 0 := by
  have : (0 : Int) - 1 = Int.negSucc 0 := rfl
  rw [this]
  show ((Nat.ldiff 0 0 : Nat) : Int) = 0
  simp [Nat.ldiff]

theorem two_pow_mod_16 (k : Nat) : 2 ^ k % 16 = 0 ↔ 4 ≤ k := by
  constructor
  · intro h
    by_contra hc
    have : k ≤ 3 := by omega
    interval_cases k <;> simp at h
  · intro h
    obtain ⟨d, rfl⟩ : ∃ d, k = 4 + d := ⟨k - 4, by omega⟩
    rw [pow_add]
    omega

/-- What the size test of `main` accepts: exactly `n = 0` and the powers of two
`n = 2^k` with `k ≥ 4`. -/
theorem main_size_check_spec (n : Int) :
    main_size_check n = false ↔ n = 0 ∨ ∃ k : Nat, 4 ≤ k ∧ n = 2 ^ k := by
  unfold main_size_check
  rw [decide_eq_false_iff_not, not_or, not_not, not_not]
  cases n with
  | ofNat m =>
    cases m with
    | zero =>
      constructor
      · intro _
        exact Or.inl rfl
      · intro _
        exact ⟨land_zero_pred, rfl⟩
    | succ m =>
      have e1 : Int.land (Int.ofNat (m + 1)) (Int.ofNat (m + 1) - 1) =
          (((m + 1) &&& (m + 1 - 1) : Nat) : Int) := by
        have : Int.ofNat (m + 1) - 1 = Int.ofNat m := by
          simp
        rw [this]
        rfl
      have e2 : Int.tmod (Int.ofNat (m + 1)) 16 = (((m + 1) % 16 : Nat) : Int) := rfl
      rw [e1, e2]
      constructor
      · rintro ⟨h1, h2⟩
        right
        obtain ⟨k, hk⟩ := (and_pred_eq_zero (m + 1) (by omega)).1 (by exact_mod_cast h1)
        have h3 : (m + 1) % 16 = 0 := by exact_mod_cast h2
        rw [hk] at h3
        refine ⟨k, (two_pow_mod_16 k).1 h3, ?_⟩
        show ((m + 1 : Nat) : Int) = 2 ^ k
        rw [hk]
        push_cast
        rfl
      · rintro (h | ⟨k, hk4, hk⟩)
        · exact absurd h (by simp; omega)
        · have hk2 : m + 1 = 2 ^ k := by
            have : ((m + 1 : Nat) : Int) = ((2 ^ k : Nat) : Int) := by
              push_cast
              exact hk
            exact_mod_cast this
          refine ⟨?_, ?_⟩
          · exact_mod_cast (and_pred_eq_zero (m + 1) (by omega)).2 ⟨k, hk2⟩
          · have := (two_pow_mod_16 k).2 hk4
            rw [← hk2] at this
            exact_mod_cast this
  | negSucc m =>
    constructor
    · rintro ⟨h1, _⟩
      have : Int.negSucc m - 1 = Int.negSucc (m + 1) := rfl
      rw [this] at h1
      exact absurd h1 (by simp [Int.land])
    · rintro (h | ⟨k, _, hk⟩)
      · exact absurd h (by simp)
      · have : (0 : Int) ≤ 2 ^ k := by positivity
        rw [← hk] at this
        exact absurd this (by simp)

/-- C12 fails at `n = 0`: 0 is not a power of two, and the size test of `main` does not
reject it. -/
theorem main_size_check_zero : (¬ ∃ k : Nat, (0 : Int) = 2 ^ k) ∧ main_size_check 0 = false := by
  refine ⟨?_, (main_size_check_spec 0).2 (Or.inl rfl)⟩
  rintro ⟨k, hk⟩
  have : (0 : Int) < 2 ^ k := by positivity
  omega

theorem MulSpec_zero [AddCommMonoid R] (C rw n : Nat) (P : Nat → Nat → R)
    (h : ∀ i j, i < n → j < n → P i j = 0) :
    MulSpec false (fun _ => 0) (fun _ => 0) C rw n P :=
  ⟨fun i j hi hj => by simp [h i j hi hj], fun _ _ => rfl⟩

theorem mmul_zero [Ring R] (n : Nat) (a b : Nat → Nat → R) (i j : Nat)
    (h : ∀ k, k < n → a i k = 0 ∨ b k j = 0) : mmul n a b i j = 0 := by
  unfold mmul
  refine Finset.sum_eq_zero (fun k hk => ?_)
  rcases h k (Finset.mem_range.1 hk) with e | e <;> simp [e]

theorem strassen_S_views_zero [Ring R] (Q rwA rwB : Nat) (hA : Q ≤ rwA) (hB : Q ≤ rwB)
    (i k : Nat) (hi : i < Q) (hk : k < Q) (n : Nat) :
    view (SPass.get (strassen_S_pass (fun _ => (0 : R)) (fun _ => 0) (fun _ => 0) 0 (0 + Q)
      (0 + rwA * Q) (0 + rwA * Q + Q) 0 (0 + Q) (0 + rwB * Q) (0 + rwB * Q + Q) Q
      ((rwA - Q) <<< 3) ((rwB - Q) <<< 3)) n) 0 Q i k = 0 := by
  have sv := strassen_S_views (fun _ => (0 : R)) (fun _ => 0) (fun _ => 0) 0 0 Q rwA rwB hA hB
    _ rfl i k hi hk
  have e : ∀ p rw a b, view (fun _ => (0 : R)) p rw a b = 0 := fun _ _ _ _ => rfl
  simp only [e, add_zero, sub_zero] at sv
  obtain ⟨s1, s2, s3, s4, s5, s6, s7, s8⟩ := sv
  unfold SPass.get
  split_ifs <;> assumption

/-- C15: over any ring (commutativity of the multiplication is not used), with `S1 .. S8` the
matrices formed by the first pass of `OptimizedStrassenMultiply` and the seven sub-products
exact (`M2 = A11 * B11`, `M5 = S1 * S5`, `T1s = S2 * S6` in their own buffers, and
`C22 <- S3 * S7`, `C11 <- A12 * B21`, `C12 <- S4 * B22`, `C21 <- A22 * S8` stored one after
the other into the quadrants of `C`), the combination pass leaves `C11 = A11 * B11 +
A12 * B21`, `C12 = A11 * B12 + A12 * B22`, `C21 = A21 * B11 + A22 * B21` and
`C22 = A21 * B12 + A22 * B22`. -/
theorem strassen_combination_identity [Ring R] (q rwA rwB rwC Ap Bp C : Nat)
    (hA : 4 * q ≤ rwA) (hB : 4 * q ≤ rwB) (hC : 4 * q + 4 * q ≤ rwC)
    (junk A B : Buf R) (sp : SPass R)
    (hsp : sp = strassen_S_pass junk A B Ap (Ap + 4 * q) (Ap + rwA * (4 * q))
      (Ap + rwA * (4 * q) + 4 * q) Bp (Bp + 4 * q) (Bp + rwB * (4 * q))
      (Bp + rwB * (4 * q) + 4 * q) (4 * q) ((rwA - 4 * q) <<< 3) ((rwB - 4 * q) <<< 3))
    (J2 J5 JT M2 M5 T1 Cbuf X1 X2 X3 X4 : Buf R)
    (hM2 : MulSpec false M2 J2 0 (4 * q) (4 * q)
      (mmul (4 * q) (view A Ap rwA) (view B Bp rwB)))
    (hM5 : MulSpec false M5 J5 0 (4 * q) (4 * q)
      (mmul (4 * q) (view sp.S1 0 (4 * q)) (view sp.S5 0 (4 * q))))
    (hT1 : MulSpec false T1 JT 0 (4 * q) (4 * q)
      (mmul (4 * q) (view sp.S2 0 (4 * q)) (view sp.S6 0 (4 * q))))
    (h1 : MulSpec false X1 Cbuf (C + rwC * (4 * q) + 4 * q) rwC (4 * q)
      (mmul (4 * q) (view sp.S3 0 (4 * q)) (view sp.S7 0 (4 * q))))
    (h2 : MulSpec false X2 X1 C rwC (4 * q)
      (mmul (4 * q) (view A (Ap + 4 * q) rwA) (view B (Bp + rwB * (4 * q)) rwB)))
    (h3 : MulSpec false X3 X2 (C + 4 * q) rwC (4 * q)
      (mmul (4 * q) (view sp.S4 0 (4 * q)) (view B (Bp + rwB * (4 * q) + 4 * q) rwB)))
    (h4 : MulSpec false X4 X3 (C + rwC * (4 * q)) rwC (4 * q)
      (mmul (4 * q) (view A (Ap + rwA * (4 * q) + 4 * q) rwA) (view sp.S8 0 (4 * q))))
    (i j : Nat) (hi : i < 4 * q) (hj : j < 4 * q) :
    view (strassen_C_pass M2 M5 T1 X4 C (C + 4 * q) (C + rwC * (4 * q))
        (C + rwC * (4 * q) + 4 * q) (4 * q) ((rwC - 4 * q) <<< 3)) C rwC i j =
      mmul (4 * q) (view A Ap rwA) (view B Bp rwB) i j +
        mmul (4 * q) (view A (Ap + 4 * q) rwA) (view B (Bp + rwB * (4 * q)) rwB) i j ∧
    view (strassen_C_pass M2 M5 T1 X4 C (C + 4 * q) (C + rwC * (4 * q))
        (C + rwC * (4 * q) + 4 * q) (4 * q) ((rwC - 4 * q) <<< 3)) (C + 4 * q) rwC i j =
      mmul (4 * q) (view A Ap rwA) (view B (Bp + 4 * q) rwB) i j +
        mmul (4 * q) (view A (Ap + 4 * q) rwA) (view B (Bp + rwB * (4 * q) + 4 * q) rwB)
          i j ∧
    view (strassen_C_pass M2 M5 T1 X4 C (C + 4 * q) (C + rwC * (4 * q))
        (C + rwC * (4 * q) + 4 * q) (4 * q) ((rwC - 4 * q) <<< 3)) (C + rwC * (4 * q)) rwC
        i j =
      mmul (4 * q) (view A (Ap + rwA * (4 * q)) rwA) (view B Bp rwB) i j +
        mmul (4 * q) (view A (Ap + rwA * (4 * q) + 4 * q) rwA)
          (view B (Bp + rwB * (4 * q)) rwB) i j ∧
    view (strassen_C_pass M2 M5 T1 X4 C (C + 4 * q) (C + rwC * (4 * q))
        (C + rwC * (4 * q) + 4 * q) (4 * q) ((rwC - 4 * q) <<< 3))
        (C + rwC * (4 * q) + 4 * q) rwC i j =
      mmul (4 * q) (view A (Ap + rwA * (4 * q)) rwA) (view B (Bp + 4 * q) rwB) i j +
        mmul (4 * q) (view A (Ap + rwA * (4 * q) + 4 * q) rwA)
          (view B (Bp + rwB * (4 * q) + 4 * q) rwB) i j := by
  have sv := strassen_S_views junk A B Ap Bp (4 * q) rwA rwB hA hB sp hsp
  have key := strassen_combine q rwC C hC (view A Ap rwA) (view B Bp rwB) _ _ _ _ _ _ _
    (fun _ _ _ _ => rfl)
    (fun i j hi hj => mmul_eq _ _ _ _ _ i j i j (fun k hk => (sv i k hi hk).1)
      (fun k hk => (sv k j hk hj).2.2.2.2.1))
    (fun i j hi hj => mmul_eq _ _ _ _ _ i j i j (fun k hk => (sv i k hi hk).2.1)
      (fun k hk => (sv k j hk hj).2.2.2.2.2.1))
    (fun i j hi hj => mmul_eq _ _ _ _ _ i j i j (fun k hk => (sv i k hi hk).2.2.1)
      (fun k hk => (sv k j hk hj).2.2.2.2.2.2.1))
    (fun i j _ _ => mmul_eq _ _ _ _ _ i j i j (fun k _ => view_right A Ap rwA _ i k)
      (fun k _ => view_down B Bp rwB _ k j))
    (fun i j hi hj => mmul_eq _ _ _ _ _ i j i j (fun k hk => (sv i k hi hk).2.2.2.1)
      (fun k _ => view_diag B Bp rwB _ k j))
    (fun i j hi hj => mmul_eq _ _ _ _ _ i j i j (fun k _ => view_diag A Ap rwA _ i k)
      (fun k hk => (sv k j hk hj).2.2.2.2.2.2.2))
    J2 J5 JT M2 M5 T1 Cbuf X1 X2 X3 X4 hM2 hM5 hT1 h1 h2 h3 h4
  have c11 := key.1 i j (by omega) (by omega)
  have c12 := key.1 i (j + 4 * q) (by omega) (by omega)
  have c21 := key.1 (i + 4 * q) j (by omega) (by omega)
  have c22 := key.1 (i + 4 * q) (j + 4 * q) (by omega) (by omega)
  simp only [Bool.false_eq_true, if_false, zero_add, mmul_split] at c11 c12 c21 c22
  refine ⟨?_, ?_, ?_, ?_⟩
  · refine c11.trans ?_
    exact congrArg₂ _ rfl (mmul_eq _ _ _ _ _ i j i j
      (fun k _ => (view_right A Ap rwA _ i k).symm)
      (fun k _ => (view_down B Bp rwB _ k j).symm))
  · rw [view_right]
    refine c12.trans ?_
    exact congrArg₂ _
      (mmul_eq _ _ _ _ _ i (j + 4 * q) i j (fun _ _ => rfl)
        (fun k _ => (view_right B Bp rwB _ k j).symm))
      (mmul_eq _ _ _ _ _ i (j + 4 * q) i j
        (fun k _ => (view_right A Ap rwA _ i k).symm)
        (fun k _ => (view_diag B Bp rwB _ k j).symm))
  · rw [view_down]
    refine c21.trans ?_
    exact congrArg₂ _
      (mmul_eq _ _ _ _ _ (i + 4 * q) j i j
        (fun k _ => (view_down A Ap rwA _ i k).symm) (fun _ _ => rfl))
      (mmul_eq _ _ _ _ _ (i + 4 * q) j i j
        (fun k _ => (view_diag A Ap rwA _ i k).symm)
        (fun k _ => (view_down B Bp rwB _ k j).symm))
  · rw [view_diag]
    refine c22.trans ?_
    exact congrArg₂ _
      (mmul_eq _ _ _ _ _ (i + 4 * q) (j + 4 * q) i j
        (fun k _ => (view_down A Ap rwA _ i k).symm)
        (fun k _ => (view_right B Bp rwB _ k j).symm))
      (mmul_eq _ _ _ _ _ (i + 4 * q) (j + 4 * q) i j
        (fun k _ => (view_diag A Ap rwA _ i k).symm)
        (fun k _ => (view_diag B Bp rwB _ k j).symm))

/-- Witness of `strassen_combination_identity`: quadrants of size 4 in rows of width 8, over
the (non-commutative) ring of `2 x 2` integer matrices, all buffers zero. -/
theorem strassen_combination_identity_witness :
    view (strassen_C_pass (fun _ => (0 : Matrix (Fin 2) (Fin 2) Int)) (fun _ => 0) (fun _ => 0)
        (fun _ => 0) 0 (0 + 4 * 1) (0 + 8 * (4 * 1)) (0 + 8 * (4 * 1) + 4 * 1) (4 * 1)
        ((8 - 4 * 1) <<< 3)) 0 8 1 2 =
      mmul (4 * 1) (view (fun _ => (0 : Matrix (Fin 2) (Fin 2) Int)) 0 8) (view (fun _ => 0) 0 8)
          1 2 +
        mmul (4 * 1) (view (fun _ => (0 : Matrix (Fin 2) (Fin 2) Int)) (0 + 4 * 1) 8)
          (view (fun _ => 0) (0 + 8 * (4 * 1)) 8) 1 2 :=
  (strassen_combination_identity 1 8 8 8 0 0 0 (by decide) (by decide) (by decide)
    (fun _ => 0) (fun _ => 0) (fun _ => 0) _ rfl
    (fun _ => 0) (fun _ => 0) (fun _ => 0) (fun _ => 0) (fun _ => 0) (fun _ => 0) (fun _ => 0)
    (fun _ => 0) (fun _ => 0) (fun _ => 0) (fun _ => 0)
    (MulSpec_zero _ _ _ _ (fun i j _ _ => mmul_zero _ _ _ i j (fun _ _ => Or.inl rfl)))
    (MulSpec_zero _ _ _ _ (fun i j hi _ => mmul_zero _ _ _ i j (fun k hk =>
      Or.inl (strassen_S_views_zero (4 * 1) 8 8 (by decide) (by decide) i k hi hk 1))))
    (MulSpec_zero _ _ _ _ (fun i j hi _ => mmul_zero _ _ _ i j (fun k hk =>
      Or.inl (strassen_S_views_zero (4 * 1) 8 8 (by decide) (by decide) i k hi hk 2))))
    (MulSpec_zero _ _ _ _ (fun i j hi _ => mmul_zero _ _ _ i j (fun k hk =>
      Or.inl (strassen_S_views_zero (4 * 1) 8 8 (by decide) (by decide) i k hi hk 3))))
    (MulSpec_zero _ _ _ _ (fun i j _ _ => mmul_zero _ _ _ i j (fun _ _ => Or.inl rfl)))
    (MulSpec_zero _ _ _ _ (fun i j hi _ => mmul_zero _ _ _ i j (fun k hk =>
      Or.inl (strassen_S_views_zero (4 * 1) 8 8 (by decide) (by decide) i k hi hk 4))))
    (MulSpec_zero _ _ _ _ (fun i j _ _ => mmul_zero _ _ _ i j (fun _ _ => Or.inl rfl)))
    1 2 (by decide) (by decide)).1

/-- C37: for `MatrixSize = 16384` the product `QuadrantSizeInBytes * NumberOfVariables`
wraps in 32 bits: `malloc` is asked for 1610613088 bytes instead of
`11 * (8 * 8192^2 + 32) = 5905580384`, fewer than the eleven scratch matrices take even
without an alignment step.  For the powers of two from 128 to 8192 the product does not wrap
and the block is large enough at any address `p`. -/
theorem heap_size_16384 :
    heap_size 16384 = 1610613088 ∧ 11 * (8 * (16384 / 2) ^ 2 + 32) = 5905580384 ∧
      0 + heap_size 16384 < heap_used_end 0 16384 ∧
      ∀ t, 7 ≤ t → t ≤ 13 → heap_size (2 ^ t) = 11 * (8 * (2 ^ t / 2) ^ 2 + 32) ∧
        ∀ p, heap_used_end p (2 ^ t) ≤ p + heap_size (2 ^ t) := by
  refine ⟨by decide, by decide, by decide, fun t h7 h13 => ?_⟩
  have hp : ∀ p : Nat, (if p &&& 31 ≠ 0 then p + 32 - (p &&& 31) else p) ≤ p + 31 := by
    intro p
    have e : p &&& 31 = p % 32 := Nat.and_pow_two_sub_one_eq_mod p 5
    rw [e]
    split_ifs <;> omega
  have ht : t = 7 ∨ t = 8 ∨ t = 9 ∨ t = 10 ∨ t = 11 ∨ t = 12 ∨ t = 13 := by omega
  rcases ht with h | h | h | h | h | h | h <;> subst h <;>
    refine ⟨by decide, fun p => ?_⟩ <;>
    · have := hp p
      unfold heap_used_end
      simp only [show QuadrantSizeInBytes (2 ^ 7) = 32800 by decide,
        show QuadrantSizeInBytes (2 ^ 8) = 131104 by decide,
        show QuadrantSizeInBytes (2 ^ 9) = 524320 by decide,
        show QuadrantSizeInBytes (2 ^ 10) = 2097184 by decide,
        show QuadrantSizeInBytes (2 ^ 11) = 8388640 by decide,
        show QuadrantSizeInBytes (2 ^ 12) = 33554464 by decide,
        show QuadrantSizeInBytes (2 ^ 13) = 134217760 by decide,
        show heap_size (2 ^ 7) = 360800 by decide,
        show heap_size (2 ^ 8) = 1442144 by decide,
        show heap_size (2 ^ 9) = 5767520 by decide,
        show heap_size (2 ^ 10) = 23069024 by decide,
        show heap_size (2 ^ 11) = 92275040 by decide,
        show heap_size (2 ^ 12) = 369099104 by decide,
        show heap_size (2 ^ 13) = 1476395360 by decide,
        show 2 ^ 7 >>> 1 = 64 by decide, show 2 ^ 8 >>> 1 = 128 by decide,
        show 2 ^ 9 >>> 1 = 256 by decide, show 2 ^ 10 >>> 1 = 512 by decide,
        show 2 ^ 11 >>> 1 = 1024 by decide, show 2 ^ 12 >>> 1 = 2048 by decide,
        show 2 ^ 13 >>> 1 = 4096 by decide]
      omega

/-- A loop over `i < m` that replaces `P[Pp + i]` by `g i (P[Pp + i])`. -/
theorem forUp_update (m Pp : Nat) (g : Nat → R → R) (P : Buf R) :
    (∀ i, i < m → forUp 0 m (fun i (P : Buf R) => write P (Pp + i) (g i (P (Pp + i)))) P
      (Pp + i) = g i (P (Pp + i))) ∧
    (∀ k, k < Pp ∨ Pp + m ≤ k →
      forUp 0 m (fun i (P : Buf R) => write P (Pp + i) (g i (P (Pp + i)))) P k = P k) := by
  have key := forUp_induction (fun r (X : Buf R) =>
      (∀ i, i < r → X (Pp + i) = g i (P (Pp + i))) ∧ (∀ k, k < Pp ∨ Pp + r ≤ k → X k = P k))
    0 m (fun i (P : Buf R) => write P (Pp + i) (g i (P (Pp + i)))) P (Nat.zero_le _)
    ⟨fun i hi => absurd hi (Nat.not_lt_zero _), fun _ _ => rfl⟩ ?_
  · exact key
  · intro r X _ _ ih
    obtain ⟨ih1, ih2⟩ := ih
    beta_reduce
    refine ⟨fun i hi => ?_, fun k hk => ?_⟩
    · rw [write_apply]
      by_cases h : i = r
      · subst h
        rw [if_pos rfl, ih2 _ (Or.inr (le_refl _))]
      · rw [if_neg (by omega)]
        exact ih1 i (by omega)
    · rw [write_apply, if_neg (by omega)]
      exact ih2 k (by omega)

/-- C33: for all `m`, `n` and `rw`, `mat_vec_mul(m, n, rw, A, V, P, add)` returns (the
embedding is a total function) and leaves, for every `i < m`,
`P[i] = sum over j < n of A[i][j] * V[j]` when `add == 0` and
`P[i] = P_before[i] + sum over j < n of A[i][j] * V[j]` when `add != 0`, whichever dimension
the recursion cuts; the cells of `P` outside `[0, m)` are left as they were. -/
theorem mat_vec_mul_correct [Semiring R] (m n rw : Nat) (A : Buf R) (Ap : Nat) (V : Buf R)
    (Vp : Nat) (P : Buf R) (Pp : Nat) (add : Int) :
    (∀ i, i < m → mat_vec_mul m n rw A Ap V Vp P Pp add (Pp + i) =
      if add = 0 then ∑ j in Finset.range n, ELEM A Ap rw i j * V (Vp + j)
      else P (Pp + i) + ∑ j in Finset.range n, ELEM A Ap rw i j * V (Vp + j)) ∧
    (∀ k, k < Pp ∨ Pp + m ≤ k → mat_vec_mul m n rw A Ap V Vp P Pp add k = P k) := by
  obtain ⟨d, hd⟩ : ∃ d, d = m + n := ⟨_, rfl⟩
  induction d using Nat.strong_induction_on generalizing m n A Ap V Vp P Pp add with
  | _ d ih =>
    rw [mat_vec_mul]
    by_cases hbase : m + n ≤ 64
    · rw [if_pos hbase]
      simp only [sum_loop]
      by_cases hadd : add = 0
      · rw [if_neg (not_not.2 hadd)]
        simp only [if_pos hadd]
        exact forUp_update m Pp
          (fun i _ => ∑ j in Finset.range n, ELEM A Ap rw i j * V (Vp + j)) P
      · rw [if_pos hadd]
        simp only [if_neg hadd]
        exact forUp_update m Pp
          (fun i x => x + ∑ j in Finset.range n, ELEM A Ap rw i j * V (Vp + j)) P
    · rw [if_neg hbase]
      by_cases hmn : m ≥ n
      · rw [if_pos hmn]
        simp only [Nat.shiftRight_eq_div_pow, pow_one]
        obtain ⟨a1, a2⟩ := ih (m / 2 + n) (by omega) (m / 2) n A Ap V Vp P Pp add rfl
        obtain ⟨b1, b2⟩ := ih (m - m / 2 + n) (by omega) (m - m / 2) n A
          (Ap + (m / 2 * rw + 0)) V Vp (mat_vec_mul (m / 2) n rw A Ap V Vp P Pp add)
          (Pp + m / 2) add rfl
        have hE : ∀ i j, ELEM A (Ap + (m / 2 * rw + 0)) rw i j = ELEM A Ap rw (m / 2 + i) j := by
          intro i j
          unfold ELEM
          congr 1
          ring
        refine ⟨fun i hi => ?_, fun k hk => ?_⟩
        · by_cases h1 : i < m / 2
          · rw [b2 (Pp + i) (by omega)]
            exact a1 i h1
          · have e : Pp + i = Pp + m / 2 + (i - m / 2) := by omega
            rw [e, b1 (i - m / 2) (by omega), a2 _ (by omega)]
            simp only [hE, show m / 2 + (i - m / 2) = i by omega]
        · rw [b2 k (by omega), a2 k (by omega)]
      · rw [if_neg hmn]
        simp only [Nat.shiftRight_eq_div_pow, pow_one]
        obtain ⟨a1, a2⟩ := ih (m + n / 2) (by omega) m (n / 2) A Ap V Vp P Pp add rfl
        obtain ⟨b1, b2⟩ := ih (m + (n - n / 2)) (by omega) m (n - n / 2) A
          (Ap + (0 * rw + n / 2)) V (Vp + n / 2) (mat_vec_mul m (n / 2) rw A Ap V Vp P Pp add)
          Pp 1 rfl
        have hE : ∀ i j, ELEM A (Ap + (0 * rw + n / 2)) rw i j * V (Vp + n / 2 + j) =
            ELEM A Ap rw i (n / 2 + j) * V (Vp + (n / 2 + j)) := by
          intro i j
          unfold ELEM
          congr 2
          · ring
          · ring
        have hsum : ∀ i, ∑ j in Finset.range n, ELEM A Ap rw i j * V (Vp + j) =
            ∑ j in Finset.range (n / 2), ELEM A Ap rw i j * V (Vp + j) +
              ∑ j in Finset.range (n - n / 2),
                ELEM A Ap rw i (n / 2 + j) * V (Vp + (n / 2 + j)) := by
          intro i
          rw [← Finset.sum_range_add (fun j => ELEM A Ap rw i j * V (Vp + j)),
            show n / 2 + (n - n / 2) = n by omega]
        refine ⟨fun i hi => ?_, fun k hk => ?_⟩
        · rw [b1 i hi, if_neg (by decide), a1 i hi]
          simp only [hE]
          rw [hsum i]
          split_ifs
          · rfl
          · rw [add_assoc]
        · rw [b2 k hk, a2 k hk]

end Strassen

/-! ## nqueens.c : theorems -/

namespace Nqueens

open Loop

/-- The two results of `ok`: `ok(n, a)` returns 1 exactly when no two of the `n` queens conflict, that is when for
all `i < j < n` the entry `a[j]` is none of `a[i]`, `a[i] - (j - i)`, `a[i] + (j - i)`, and it
returns 0 otherwise. -/
theorem ok_cases (n : Nat) (a : Nat → Int) :
    (ok n a = 1 ↔ ∀ i j, i < j → j < n →
      a j ≠ a i ∧ a j ≠ a i - ((j : Int) - (i : Int)) ∧ a j ≠ a i + ((j : Int) - (i : Int))) ∧
    (ok n a ≠ 1 → ok n a = 0) := by
  have inner : ∀ i, forUpM (i + 1) n (fun j (_ : Unit) =>
        if a j = a i ∨ a j = a i - ((j : Int) - (i : Int)) ∨
            a j = a i + ((j : Int) - (i : Int)) then
          Except.error (0 : Int)
        else Except.ok ()) () = Except.ok () ↔
      ∀ j, i < j → j < n → a j ≠ a i ∧ a j ≠ a i - ((j : Int) - (i : Int)) ∧
        a j ≠ a i + ((j : Int) - (i : Int)) := by
    intro i
    rw [forUpM_unit_ok]
    refine forall_congr' (fun j => ?_)
    constructor
    · intro h hij hjn
      have := h hij hjn
      split_ifs at this with hc
      simpa [not_or] using hc
    · intro h hij hjn
      rw [if_neg]
      have := h hij hjn
      simpa [not_or] using this
  have innerE : ∀ i (e : Int), forUpM (i + 1) n (fun j (_ : Unit) =>
        if a j = a i ∨ a j = a i - ((j : Int) - (i : Int)) ∨
            a j = a i + ((j : Int) - (i : Int)) then
          Except.error (0 : Int)
        else Except.ok ()) () = Except.error e → e = 0 := by
    intro i e h
    obtain ⟨k, _, _, hk⟩ := forUpM_unit_error _ _ _ _ h
    split_ifs at hk
    cases hk
    rfl
  unfold ok
  cases h : forUpM 0 n (fun i (_ : Unit) =>
      let p := a i
      forUpM (i + 1) n (fun j (_ : Unit) =>
        let q := a j
        if q = p ∨ q = p - ((j : Int) - (i : Int)) ∨ q = p + ((j : Int) - (i : Int)) then
          Except.error (0 : Int)
        else Except.ok ()) ()) () with
  | error e =>
    obtain ⟨k, _, hk, hk2⟩ := forUpM_unit_error _ _ _ _ h
    have e0 := innerE k e hk2
    subst e0
    refine ⟨⟨fun h1 => absurd h1 (by decide), fun h1 => ?_⟩, fun _ => rfl⟩
    have := (inner k).2 (fun j hj hjn => h1 k j hj hjn)
    rw [this] at hk2
    cases hk2
  | ok u =>
    refine ⟨⟨fun _ i j hij hjn => ?_, fun _ => rfl⟩, fun h1 => absurd rfl h1⟩
    have := (forUpM_unit_ok _ 0 n).1 h i (by omega) (by omega)
    exact (inner i).1 this j hij hjn

theorem char_of_int_small (i : Nat) (h : i ≤ 127) : char_of_int (i : Int) = i := by
  unfold char_of_int
  omega

/-- The three comparisons of `ok` on two columns held as natural numbers. -/
theorem conflict_cast (q p d : Nat) :
    ((q : Int) = p ∨ (q : Int) = p - (d : Int) ∨ (q : Int) = p + (d : Int)) ↔
      (q = p ∨ q + d = p ∨ q = p + d) := by
  omega

theorem safe_iff (q : Nat) (ps : List Nat) (d : Nat) :
    safe q d ps = true ↔
      ∀ m, m < ps.length → ¬ (q = ps.getD m 0 ∨ q + (d + m) = ps.getD m 0 ∨
        q = ps.getD m 0 + (d + m)) := by
  induction ps generalizing d with
  | nil => simp [safe]
  | cons p ps ih =>
    simp only [safe, Bool.and_eq_true, Bool.not_eq_true', Bool.or_eq_false_iff, beq_eq_false_iff_ne,
      ne_eq, ih, List.length_cons]
    constructor
    · rintro ⟨⟨⟨h1, h2⟩, h3⟩, h4⟩ m hm
      rcases Nat.eq_zero_or_pos m with rfl | hm0
      · simp only [List.getD_cons_zero, Nat.add_zero]
        tauto
      · obtain ⟨m, rfl⟩ : ∃ k, m = k + 1 := ⟨m - 1, by omega⟩
        have := h4 m (by omega)
        simp only [List.getD_cons_succ]
        rw [show d + (m + 1) = d + 1 + m by omega]
        exact this
    · intro h
      have h0 := h 0 (by omega)
      simp only [List.getD_cons_zero, Nat.add_zero] at h0
      refine ⟨⟨⟨by tauto, by tauto⟩, by tauto⟩, fun m hm => ?_⟩
      have := h (m + 1) (by omega)
      simp only [List.getD_cons_succ] at this
      rw [show d + (m + 1) = d + 1 + m by omega] at this
      exact this


theorem int32_small (x : Int) (h0 : -2147483648 ≤ x) (h1 : x ≤ 2147483647) : int32 x = x := by
  unfold int32
  omega

theorem int32_add (x y : Int) : int32 (int32 x + int32 y) = int32 (x + y) := by
  unfold int32
  omega

theorem sumCols_forUp (f : Nat → Nat) (cnt : Nat → Int) (m : Nat)
    (h : ∀ k, k < m → cnt k = int32 (f k : Int)) :
    forUp 0 m (fun i (solNum : Int) => int32 (solNum + cnt i)) 0 =
      int32 (sumCols f m : Int) := by
  induction m with
  | zero =>
    rw [forUp_empty _ _ _ _ (le_refl _), sumCols, int32_small _ (by norm_num) (by norm_num)]
    rfl
  | succ m ih =>
    rw [forUp_succ _ _ _ _ (Nat.zero_le m), ih (fun k hk => h k (by omega)), sumCols,
      h m (by omega), int32_add]
    push_cast
    rfl

theorem ok_ne_zero (n : Nat) (a : Nat → Int) : ok n a ≠ 0 ↔ ok n a = 1 := by
  constructor
  · intro h
    by_contra h1
    exact h ((ok_cases n a).2 h1)
  · intro h
    rw [h]
    decide

theorem ok_extend (qs : List Nat) (a b : Nat → Int) (i : Nat) (hp : placed qs a)
    (hok : ok qs.length a = 1) (hb : ∀ k, k < qs.length → b k = a k)
    (hi : b qs.length = (i : Int)) :
    ok (qs.length + 1) b = 1 ↔ safe i 1 qs = true := by
  rw [(ok_cases _ b).1, safe_iff]
  have ha := (ok_cases _ a).1.1 hok
  constructor
  · intro h m hm
    have := h (qs.length - 1 - m) qs.length (by omega) (by omega)
    rw [hi, hb _ (by omega), hp _ (by omega),
      show qs.length - 1 - (qs.length - 1 - m) = m by omega] at this
    have e : ((qs.length : Int) - ((qs.length - 1 - m : Nat) : Int)) = ((1 + m : Nat) : Int) := by
      omega
    rw [e] at this
    intro hc
    have := (conflict_cast i (qs.getD m 0) (1 + m)).2 hc
    tauto
  · intro h i1 j1 h1 h2
    rcases Nat.lt_or_ge j1 qs.length with h3 | h3
    · rw [hb j1 h3, hb i1 (by omega)]
      exact ha i1 j1 h1 h3
    · have e1 : j1 = qs.length := by omega
      subst e1
      have := h (qs.length - 1 - i1) (by omega)
      rw [hi, hb _ h1, hp _ h1]
      have e : ((qs.length : Int) - (i1 : Int)) = ((1 + (qs.length - 1 - i1) : Nat) : Int) := by
        omega
      rw [e]
      have c := conflict_cast i (qs.getD (qs.length - 1 - i1) 0) (1 + (qs.length - 1 - i1))
      tauto


theorem placed_cons (qs : List Nat) (a b : Nat → Int) (i : Nat) (hp : placed qs a)
    (hb : ∀ k, k < qs.length → b k = a k) (hi : b qs.length = (i : Int)) :
    placed (i :: qs) b := by
  intro k hk
  rw [List.length_cons] at hk
  rw [List.length_cons]
  rcases Nat.lt_or_ge k qs.length with h | h
  · rw [hb k h, hp k h, show qs.length + 1 - 1 - k = (qs.length - 1 - k) + 1 by omega,
      List.getD_cons_succ]
  · have e : k = qs.length := by omega
    subst e
    rw [hi, show qs.length + 1 - 1 - qs.length = 0 by omega, List.getD_cons_zero]

/-- From a conflict-free placement `qs` of the first `j` rows, `nqueens(n, j, a)` returns the
number of conflict-free completions. -/
theorem nqueens_fuel_count (n : Nat) (hn : n ≤ 127) (r : Nat) :
    ∀ (qs : List Nat) (a : Nat → Int), qs.length + r = n → placed qs a →
      ok qs.length a = 1 →
      nqueens_fuel (r + 1) n qs.length a = some (int32 ((count n r qs : Nat) : Int)) := by
  induction r with
  | zero =>
    intro qs a hl _ _
    rw [nqueens_fuel, if_pos (by omega), count, int32_small _ (by norm_num) (by norm_num)]
    rfl
  | succ r ih =>
    intro qs a hl hp hok
    have hb : ∀ i, i < n →
        let b : Nat → Int := fun k =>
          if k < qs.length then a k else if k = qs.length then char_of_int (i : Int) else 0
        (∀ k, k < qs.length → b k = a k) ∧ b qs.length = (i : Int) := by
      intro i hi
      refine ⟨fun k hk => if_pos hk, ?_⟩
      show (if qs.length < qs.length then _ else _) = _
      rw [if_neg (Nat.lt_irrefl _), if_pos rfl, char_of_int_small i (by omega)]
    have key : Sat (fun (_ : Unit) => False)
        (fun cnt : Nat → Int => cnt = fun k =>
          if k < n then int32 ((if safe k 1 qs then count n r (k :: qs) else 0 : Nat) : Int) else 0)
        (forUpM 0 n (fun i (count : Nat → Int) =>
          let b : Nat → Int := fun k =>
            if k < qs.length then a k else if k = qs.length then char_of_int (i : Int) else 0
          if ok (qs.length + 1) b ≠ 0 then
            match nqueens_fuel (r + 1) n (qs.length + 1) b with
            | none => Except.error ()
            | some c => Except.ok (fun k => if k = i then c else count k)
          else Except.ok count) (fun _ => 0)) := by
      refine forUpM_induction (fun (_ : Unit) => False)
        (fun i (cnt : Nat → Int) => cnt = fun k =>
          if k < i then int32 ((if safe k 1 qs then count n r (k :: qs) else 0 : Nat) : Int) else 0)
        0 n _ _ (Nat.zero_le n) ?_ ?_
      · funext k
        rw [if_neg (Nat.not_lt_zero k)]
      · intro i cnt _ hi hc
        obtain ⟨hb1, hb2⟩ := hb i hi
        have e1 := ok_extend qs a _ i hp hok hb1 hb2
        have e2 := placed_cons qs a _ i hp hb1 hb2
        beta_reduce
        by_cases hs : safe i 1 qs = true
        · have o1 := e1.2 hs
          have := ih (i :: qs) _ (by rw [List.length_cons]; omega) e2 o1
          rw [List.length_cons] at this
          simp only []
          rw [if_pos ((ok_ne_zero _ _).2 o1), this]
          show _ = _
          funext k
          by_cases hk : k = i
          · subst hk
            rw [if_pos rfl, if_pos (show k < k + 1 by omega), if_pos hs]
          · rw [if_neg hk, hc]
            beta_reduce
            by_cases hk2 : k < i
            · rw [if_pos hk2, if_pos (show k < i + 1 by omega)]
            · rw [if_neg hk2, if_neg (show ¬ k < i + 1 by omega)]
        · have o1 : ¬ ok (qs.length + 1) (fun k =>
              if k < qs.length then a k else if k = qs.length then char_of_int (i : Int)
              else 0) ≠ 0 := by
            rw [ok_ne_zero, e1]
            exact hs
          simp only []
          rw [if_neg o1]
          show _ = _
          rw [hc]
          funext k
          beta_reduce
          by_cases hk : k = i
          · subst hk
            rw [if_neg (Nat.lt_irrefl _), if_pos (show k < k + 1 by omega), if_neg hs]
            rfl
          · by_cases hk2 : k < i
            · rw [if_pos hk2, if_pos (show k < i + 1 by omega)]
            · rw [if_neg hk2, if_neg (show ¬ k < i + 1 by omega)]
    have key2 := Lu.Sat_false_eq _ _ key
    rw [nqueens_fuel, if_neg (by omega)]
    split
    · next e heq =>
      have := heq.symm.trans key2
      cases this
    · next cnt heq =>
      have e := heq.symm.trans key2
      injection e with e
      rw [e, sumCols_forUp (fun i => if safe i 1 qs then count n r (i :: qs) else 0) _ n
        (fun k hk => if_pos hk)]
      rfl

theorem nqueens_fuel_congr (fuel n j : Nat) (a a1 : Nat → Int)
    (h : ∀ k, k < j → a k = a1 k) : nqueens_fuel fuel n j a = nqueens_fuel fuel n j a1 := by
  cases fuel with
  | zero => rfl
  | succ f =>
    have e : ∀ i : Nat, (fun k => if k < j then a k else if k = j then char_of_int (i : Int)
        else 0) = (fun k => if k < j then a1 k else if k = j then char_of_int (i : Int)
        else 0) := by
      intro i
      funext k
      by_cases hk : k < j
      · rw [if_pos hk, if_pos hk, h k hk]
      · rw [if_neg hk, if_neg hk]
    rw [nqueens_fuel, nqueens_fuel]
    simp only [e]

/-- For `n ≤ 127` the call `nqueens(n, 0, a)` returns, whatever `a` holds, the number of
conflict-free placements counted by `count`. -/
theorem nqueens_eq_count (n : Nat) (hn : n ≤ 127) (a : Nat → Int) :
    nqueens n 0 a = some (int32 ((count n n [] : Nat) : Int)) := by
  have h := nqueens_fuel_count n hn n [] a (by simp) (fun k hk => absurd hk (Nat.not_lt_zero k))
    rfl
  exact h

set_option maxRecDepth 100000 in
/-- C20: for any initial contents of `a`, `nqueens(n, 0, a)` returns the documented numbers
of solutions 2, 10, 4, 40 and 92 for `n` = 4, 5, 6, 7 and 8. -/
theorem nqueens_documented_counts (a : Nat → Int) :
    nqueens 4 0 a = some 2 ∧ nqueens 5 0 a = some 10 ∧ nqueens 6 0 a = some 4 ∧
      nqueens 7 0 a = some 40 ∧ nqueens 8 0 a = some 92 := by
  have c4 : count 4 4 [] = 2 := by decide!
  have c5 : count 5 5 [] = 10 := by decide!
  have c6 : count 6 6 [] = 4 := by decide!
  have c7 : count 7 7 [] = 40 := by decide!
  have c8 : count 8 8 [] = 92 := by decide!
  rw [nqueens_eq_count 4 (by decide), nqueens_eq_count 5 (by decide),
    nqueens_eq_count 6 (by decide), nqueens_eq_count 7 (by decide),
    nqueens_eq_count 8 (by decide), c4, c5, c6, c7, c8]
  exact ⟨rfl, rfl, rfl, rfl, rfl⟩

/-- C19: `ok(n, a)` returns 1 exactly when no two of the `n` queens conflict, that is when for
all `i < j < n` the entry `a[j]` is none of `a[i]`, `a[i] - (j - i)`, `a[i] + (j - i)`, and it
returns 0 otherwise. -/
theorem ok_spec (n : Nat) (a : Nat → Int) :
    (ok n a = 1 ↔ ∀ i j, i < j → j < n →
      a j ≠ a i ∧ a j ≠ a i - ((j : Int) - (i : Int)) ∧ a j ≠ a i + ((j : Int) - (i : Int))) ∧
    (ok n a = 0 ↔ ¬ ∀ i j, i < j → j < n →
      a j ≠ a i ∧ a j ≠ a i - ((j : Int) - (i : Int)) ∧ a j ≠ a i + ((j : Int) - (i : Int))) := by
  obtain ⟨h1, h2⟩ := ok_cases n a
  refine ⟨h1, fun h0 hP => ?_, fun hP => h2 (fun h => hP (h1.1 h))⟩
  rw [h1.2 hP] at h0
  exact absurd h0 (by decide)

theorem ok_congr (n : Nat) (a b : Nat → Int) (h : ∀ k, k < n → a k = b k) :
    ok n a = 1 ↔ ok n b = 1 := by
  rw [(ok_cases n a).1, (ok_cases n b).1]
  constructor
  · intro h1 i j hij hj
    rw [← h i (by omega), ← h j hj]
    exact h1 i j hij hj
  · intro h1 i j hij hj
    rw [h i (by omega), h j hj]
    exact h1 i j hij hj

theorem ok_initial (n m : Nat) (hm : m ≤ n) (a : Nat → Int) (h : ok n a = 1) : ok m a = 1 := by
  rw [(ok_cases m a).1]
  intro i j hij hj
  exact (ok_cases n a).1.1 h i j hij (by omega)

theorem sumCols_eq (f : Nat → Nat) (m : Nat) : sumCols f m = ∑ i in Finset.range m, f i := by
  induction m with
  | zero => rfl
  | succ m ih => rw [sumCols, ih, Finset.sum_range_succ]

theorem placed_extend (n r : Nat) (qs : List Nat) (t : Fin r → Fin n) :
    placed qs (extend n r qs t) := by
  intro k hk
  unfold extend
  rw [if_pos hk]

theorem extend_cons (n r : Nat) (qs : List Nat) (t : Fin (r + 1) → Fin n) (k : Nat) :
    extend n (r + 1) qs t k = extend n r (((t 0 : Fin n) : Nat) :: qs) (Fin.tail t) k := by
  unfold extend
  rw [List.length_cons]
  by_cases h1 : k < qs.length
  · rw [if_pos h1, if_pos (by omega),
      show qs.length + 1 - 1 - k = (qs.length - 1 - k) + 1 by omega, List.getD_cons_succ]
  · rw [if_neg h1]
    by_cases h2 : k = qs.length
    · subst h2
      rw [if_pos (by omega), dif_pos (by omega),
        show qs.length + 1 - 1 - qs.length = 0 by omega, List.getD_cons_zero]
      congr 3
      apply Fin.ext
      simp
    · rw [if_neg (by omega)]
      by_cases h3 : k - qs.length < r + 1
      · rw [dif_pos h3, dif_pos (by omega)]
        unfold Fin.tail
        congr 3
        apply Fin.ext
        simp only [Fin.succ_mk]
        omega
      · rw [dif_neg h3, dif_neg (by omega)]

/-- The number of conflict-free completions of a conflict-free placement is what `count`
computes. -/
theorem completions_card (n : Nat) (r : Nat) :
    ∀ (qs : List Nat), (∀ t : Fin 0 → Fin n, ok qs.length (extend n 0 qs t) = 1) →
      (completions n r qs).card = count n r qs := by
  induction r with
  | zero =>
    intro qs h
    unfold completions
    rw [Finset.filter_true_of_mem (fun t _ => by rw [Nat.add_zero]; exact h t)]
    rfl
  | succ r ih =>
    intro qs h
    have hq : ok qs.length (extend n 0 qs (fun x => Fin.elim0 x)) = 1 := h _
    rw [count, sumCols_eq, Finset.card_eq_sum_card_fiberwise
      (f := fun (t : Fin (r + 1) → Fin n) => (t 0 : Fin n)) (t := Finset.univ)
      (fun t _ => Finset.mem_univ _), ← Fin.sum_univ_eq_sum_range
      (fun i => if safe i 1 qs = true then count n r (i :: qs) else 0)]
    refine Finset.sum_congr rfl (fun i _ => ?_)
    have hfib : (Finset.filter (fun t : Fin (r + 1) → Fin n => t 0 = i)
        (completions n (r + 1) qs)).card = (completions n r ((i : Nat) :: qs)).card := by
      refine Finset.card_bij (fun t _ => Fin.tail t) ?_ ?_ ?_
      · intro t ht
        obtain ⟨ht1, ht2⟩ := Finset.mem_filter.1 ht
        show Fin.tail t ∈ completions n r ((i : Nat) :: qs)
        unfold completions at ht1 ⊢
        rw [Finset.mem_filter] at ht1 ⊢
        refine ⟨Finset.mem_univ _, ?_⟩
        rw [List.length_cons, show qs.length + 1 + r = qs.length + (r + 1) by omega]
        have e := (ok_congr _ _ _ (fun k _ => extend_cons n r qs t k)).1 ht1.2
        rw [ht2] at e
        exact e
      · intro t1 ht1 t2 ht2 he
        have he1 : Fin.tail t1 = Fin.tail t2 := he
        have h1 := (Finset.mem_filter.1 ht1).2
        have h2 := (Finset.mem_filter.1 ht2).2
        rw [← Fin.cons_self_tail t1, ← Fin.cons_self_tail t2, h1, h2, he1]
      · intro t ht
        refine ⟨Fin.cons i t, ?_, Fin.tail_cons _ _⟩
        unfold completions at ht ⊢
        rw [Finset.mem_filter] at ht
        rw [Finset.mem_filter, Finset.mem_filter]
        refine ⟨⟨Finset.mem_univ _, ?_⟩, Fin.cons_zero _ _⟩
        rw [List.length_cons, show qs.length + 1 + r = qs.length + (r + 1) by omega] at ht
        refine (ok_congr _ _ _ (fun k _ => ?_)).2 ht.2
        rw [extend_cons, Fin.cons_zero, Fin.tail_cons]
    rw [hfib]
    clear hfib
    have hext : ∀ t : Fin r → Fin n, ok (qs.length + 1) (extend n r ((i : Nat) :: qs) t) = 1 ↔
        safe (i : Nat) 1 qs = true := by
      intro t
      refine ok_extend qs (extend n 0 qs (fun x => Fin.elim0 x)) _ i (placed_extend _ _ _ _) hq
        (fun k hk => ?_) ?_
      · unfold extend
        beta_reduce
        rw [List.length_cons, if_pos (show k < qs.length + 1 by omega), if_pos hk,
          show qs.length + 1 - 1 - k = (qs.length - 1 - k) + 1 by omega, List.getD_cons_succ]
      · unfold extend
        rw [List.length_cons, if_pos (show qs.length < qs.length + 1 by omega),
          show qs.length + 1 - 1 - qs.length = 0 by omega, List.getD_cons_zero]
    by_cases hs : safe (i : Nat) 1 qs = true
    · rw [if_pos hs]
      refine ih _ (fun t => ?_)
      rw [List.length_cons]
      refine (ok_congr _ _ (extend n r ((i : Nat) :: qs) (fun _ => i)) (fun k hk => ?_)).2
        ((hext _).2 hs)
      unfold extend
      beta_reduce
      rw [List.length_cons, if_pos hk, if_pos hk]
    · rw [if_neg hs]
      rw [Finset.card_eq_zero]
      unfold completions
      rw [Finset.filter_eq_empty_iff]
      intro t _ hok
      rw [List.length_cons] at hok
      exact hs ((hext t).1 (ok_initial _ _ (by omega) _ hok))

/-- The number of arrays `q` in `{0, ..., n-1}^n` with `ok(n, q) = 1` is `count n n []`. -/
theorem solutions_card (n : Nat) : (solutions n).card = count n n [] := by
  rw [← completions_card n n [] (fun t => rfl)]
  unfold solutions completions
  congr 1
  refine Finset.filter_congr (fun q _ => ?_)
  rw [List.length_nil, Nat.zero_add]
  refine ok_congr _ _ _ (fun k hk => ?_)
  unfold board extend
  rw [dif_pos hk, List.length_nil, if_neg (Nat.not_lt_zero _),
    dif_pos (show k - 0 < n from hk)]
  rfl

theorem compose5_ok (σ : Fin 5 → Fin 8 → Fin 8) (h : ∀ i, ok 8 (board 8 (σ i)) = 1) :
    ok 40 (board 40 (compose5 σ)) = 1 := by
  rw [(ok_cases _ _).1]
  intro x y hxy hy
  have hx : x < 40 := by omega
  unfold board
  rw [dif_pos hy, dif_pos hx]
  unfold compose5
  simp only [Fin.val_mk]
  by_cases e5 : x % 5 = y % 5
  · have hs := (ok_cases _ _).1.1 (h ⟨x % 5, Nat.mod_lt _ (by decide)⟩) (x / 5) (y / 5)
      (by omega) (by omega)
    unfold board at hs
    rw [dif_pos (show y / 5 < 8 by omega), dif_pos (show x / 5 < 8 by omega)] at hs
    have e : (⟨y % 5, Nat.mod_lt _ (by decide)⟩ : Fin 5) = ⟨x % 5, Nat.mod_lt _ (by decide)⟩ :=
      Fin.ext e5.symm
    rw [e]
    omega
  · omega

theorem compose5_inj (σ τ : Fin 5 → Fin 8 → Fin 8) (h : compose5 σ = compose5 τ) : σ = τ := by
  funext i a
  have h1 := congrArg (fun q : Fin 40 → Fin 40 => ((q ⟨(a : Nat) * 5 + i, by omega⟩ : Fin 40) : Nat)) h
  unfold compose5 at h1
  simp only [Fin.val_mk] at h1
  have e1 : ((a : Nat) * 5 + (i : Nat)) % 5 = i := by omega
  have e2 : ((a : Nat) * 5 + (i : Nat)) / 5 = a := by omega
  have f1 : (⟨((a : Nat) * 5 + (i : Nat)) % 5, Nat.mod_lt _ (by decide)⟩ : Fin 5) = i :=
    Fin.ext e1
  have f2 : (⟨((a : Nat) * 5 + (i : Nat)) / 5,
      Nat.div_lt_of_lt_mul (show (a : Nat) * 5 + (i : Nat) < 5 * 8 by omega)⟩ : Fin 8) = a :=
    Fin.ext e2
  rw [f1, f2] at h1
  apply Fin.ext
  omega

set_option maxRecDepth 100000 in
/-- There are more placements of 40 queens than an `int` of 32 bits can count. -/
theorem solutions_40 : 2147483647 < (solutions 40).card := by
  have c8 : (solutions 8).card = 92 := by
    rw [solutions_card]
    decide!
  have hinj : Function.Injective (fun (σ : Fin 5 → {q // q ∈ solutions 8}) =>
      (⟨compose5 (fun i => (σ i).1), by
        unfold solutions
        rw [Finset.mem_filter]
        refine ⟨Finset.mem_univ _, compose5_ok _ (fun i => ?_)⟩
        have := (σ i).2
        unfold solutions at this
        rw [Finset.mem_filter] at this
        exact this.2⟩ : {q // q ∈ solutions 40})) := by
    intro σ τ hh
    have h1 : compose5 (fun i => (σ i).1) = compose5 (fun i => (τ i).1) :=
      congrArg Subtype.val hh
    have h2 := compose5_inj _ _ h1
    funext i
    apply Subtype.ext
    exact congrFun h2 i
  have hc := Fintype.card_le_of_injective _ hinj
  rw [Fintype.card_fun, Fintype.card_coe, Fintype.card_coe, c8, Fintype.card_fin] at hc
  have e : 2147483647 < 92 ^ 5 := by norm_num
  omega

/-- C35 does not hold for `n = 40`: there are more than `2^31 - 1` placements of 40 queens
(at least `92^5`), so the `int` returned by `nqueens(40, 0, a)` is not their number. -/
theorem nqueens_40_overflow :
    nqueens 40 0 (fun _ => 0) ≠ some (((solutions 40).card : Nat) : Int) := by
  rw [nqueens_eq_count 40 (by decide), ← solutions_card]
  intro h
  have h1 := Option.some.inj h
  have h2 := solutions_40
  unfold int32 at h1
  omega

/-- C35, amended: for `n ≤ 127` the call `nqueens(n, 0, a)` returns, whatever `a` holds, the
number of arrays `q` in `{0, ..., n-1}^n` with `ok(n, q) = 1` reduced to an `int` of 32 bits,
which is that number whenever it is at most `2^31 - 1`. -/
theorem nqueens_counts (n : Nat) (hn : n ≤ 127) (a : Nat → Int) :
    nqueens n 0 a = some (int32 (((solutions n).card : Nat) : Int)) ∧
      ((solutions n).card ≤ 2147483647 →
        nqueens n 0 a = some (((solutions n).card : Nat) : Int)) := by
  rw [nqueens_eq_count n hn, solutions_card]
  refine ⟨rfl, fun h => ?_⟩
  rw [int32_small _ (by omega) (by omega)]

set_option maxRecDepth 100000 in
/-- Witness of `nqueens_counts`: `n = 8`, with 92 placements. -/
theorem nqueens_counts_witness :
    8 ≤ 127 ∧ (solutions 8).card = 92 ∧
    (nqueens 8 0 (fun _ => 0) = some (int32 (((solutions 8).card : Nat) : Int)) ∧
      ((solutions 8).card ≤ 2147483647 →
        nqueens 8 0 (fun _ => 0) = some (((solutions 8).card : Nat) : Int))) :=
  ⟨by decide, by rw [solutions_card]; decide!, nqueens_counts 8 (by decide) _⟩

end Nqueens
